import Mathlib

/-!
# Bitty HTTP (examples/webserver): a shallow embedding of `WebServer.c`

Bytes are natural numbers below 256, a `char` buffer is a `List Nat` of the
buffer's size, and a pointer into a buffer is an offset.  Every access to a
buffer is bounds checked: a C function is embedded as a function into
`Option`, and `none` stands for an access outside the buffer (behaviour that
C leaves undefined).  Loops carry a fuel argument bounded by the size of the
buffer they walk.  `char` is taken as unsigned, as on the RISC-V target of
the repository.
-/

namespace BittyHTTP

/-! ## Bytes, C strings and libc helpers -/

/-- The bytes of a string literal (used for the constant texts of the source). -/
def B (s : String) : List Nat := s.toList.map Char.toNat

/-- The content of the C string that starts a byte list: the bytes before the first NUL. -/
def cstr : List Nat → List Nat
  | [] => []
  | c :: cs => if c = 0 then [] else c :: cstr cs

/-- C `strlen` of the string starting at the head of a list; `none` when no NUL is found
inside the buffer. -/
def cstrlen : List Nat → Option Nat
  | [] => none
  | c :: cs => if c = 0 then some 0 else (cstrlen cs).map (· + 1)

/-- C `strlen(&b[i])`. -/
def strlenAt (b : List Nat) (i : Nat) : Option Nat := cstrlen (b.drop i)

/-- The C string at `&b[i]`; `none` when it is not terminated inside the buffer. -/
def cstrAt (b : List Nat) (i : Nat) : Option (List Nat) :=
  (strlenAt b i).map (fun n => (b.drop i).take n)

/-- Bounds-checked read `b[i]`. -/
def rd (b : List Nat) (i : Nat) : Option Nat := b[i]?

/-- Bounds-checked write `b[i]=v`. -/
def wr (b : List Nat) (i : Nat) (v : Nat) : Option (List Nat) :=
  if i < b.length then some (b.set i v) else none

/-- C `strncmp(&b[i],lit,n)==0`, for a NUL-free literal `lit` with `n = strlen(lit)`:
the `n` bytes at `b[i..]` are the literal.  (`strncmp` stops at the first
difference, so no byte after a NUL of `b` is looked at.) -/
def startsWith (b : List Nat) (i : Nat) (lit : List Nat) : Bool :=
  (b.drop i).take lit.length == lit

/-- C `isspace` in the C locale. -/
def isspace (c : Nat) : Bool := c = 32 || (9 ≤ c && c ≤ 13)

/-- Value of a digit character in a base, when it is one. -/
def digitVal (base c : Nat) : Option Nat :=
  let v :=
    if 48 ≤ c ∧ c ≤ 57 then some (c - 48)
    else if 97 ≤ c ∧ c ≤ 122 then some (c - 97 + 10)
    else if 65 ≤ c ∧ c ≤ 90 then some (c - 65 + 10)
    else none
  match v with
  | some d => if d < base then some d else none
  | none => none

/-- Accumulate the digits at the head of a list. -/
def digitsVal (base : Nat) : List Nat → Nat → Nat
  | [], acc => acc
  | c :: cs, acc =>
    match digitVal base c with
    | some d => digitsVal base cs (acc * base + d)
    | none => acc

/-- C `strtol(s,NULL,base)` for base 10 or 16 and a 64-bit `long`: white space is
skipped, an optional sign is read, for base 16 an optional `0x` prefix (only when a
hexadecimal digit follows it), then the digits; the value saturates at the ends of
`long`. -/
def strtol (base : Nat) (s : List Nat) : Int :=
  let s1 := s.dropWhile isspace
  let (neg, s2) :=
    match s1 with
    | 45 :: r => (true, r)
    | 43 :: r => (false, r)
    | r => (false, r)
  let s3 :=
    if base = 16 then
      match s2 with
      | 48 :: x :: d :: r =>
        if (x = 120 ∨ x = 88) ∧ (digitVal 16 d).isSome then d :: r else s2
      | _ => s2
    else s2
  let v := digitsVal base s3 0
  if neg then (if v > 2 ^ 63 then -(2 ^ 63 : Int) else -(v : Int))
  else (if v ≥ 2 ^ 63 then (2 ^ 63 - 1 : Int) else (v : Int))

/-- Conversion of a `long` to `char` (the low eight bits). -/
def toChar (v : Int) : Nat := (v % 256).toNat

/-- Conversion of a `long` to `uint32_t`. -/
def toU32 (v : Int) : Nat := (v % 4294967296).toNat

/-! ## The percent codec -/

/-- Loop of `WS_URLDecodeInPlace`: `r` is `Read`, `w` is `Write`. -/
def urlDecodeInPlaceLoop : Nat → List Nat → Nat → Nat → Option (List Nat × Nat)
  | 0, _, _, _ => none
  | fuel + 1, b, r, w =>
    match rd b r with
    | none => none
    | some c =>
      if c = 0 then
        -- *Write++=0; return Write;
        (wr b w 0).map (fun b1 => (b1, w + 1))
      else if c = 37 then
        -- Read++; copy the next 2 bytes, stopping at the end of the string
        match rd b (r + 1) with
        | none => none
        | some c0 =>
          let r1 := if c0 ≠ 0 then r + 2 else r + 1
          match rd b r1 with
          | none => none
          | some c1 =>
            let r2 := if c1 ≠ 0 then r1 + 1 else r1
            let buff := [c0, c1, 0]
            match wr b w (toChar (strtol 16 (cstr buff))) with
            | none => none
            | some b1 => urlDecodeInPlaceLoop fuel b1 r2 (w + 1)
      else
        match wr b w c with
        | none => none
        | some b1 => urlDecodeInPlaceLoop fuel b1 (r + 1) (w + 1)

/-- `WS_URLDecodeInPlace(&b[v])`: the buffer after decoding and the offset just after
the new terminator. -/
def WS_URLDecodeInPlace (b : List Nat) (v : Nat) : Option (List Nat × Nat) :=
  urlDecodeInPlaceLoop (b.length + 1) b v v

/-! ## Types of `WebServer.h` and `SocketsCon.h` -/

/-- `e_ReplyStatusType`; `MAX` is `e_ReplyStatusMAX`, the "unset" value. -/
inductive ReplyStatus
  | Ok | MovedPerm | NotModified | TmpRedirect | PermRedirect | BadRequest | Forbidden
  | NotFound | MethodNotAllowed | URITooLong | RequestHeaderFieldsTooLarge
  | InternalServerError | NotImplemented | HTTPVersionNotSupported | InsufficientStorage
  | MAX
  deriving DecidableEq, Repr

/-- `e_WebServerStateType`. -/
inductive WebServerState
  | Closed | Request | Headers | Body | Response | MAX
  deriving DecidableEq, Repr

/-- `e_ReqTypeType`. -/
inductive ReqType
  | Get | Post | MAX
  deriving DecidableEq, Repr

/-- `e_WSPostStateType`. -/
inductive WSPostState
  | GettingKey | GettingValue | Error | MAX
  deriving DecidableEq, Repr

/-- `e_ConnectStateType`. -/
inductive ConnectState
  | Idle | Connecting | Connected | Listening | Error | MAX
  deriving DecidableEq, Repr

/-- `struct SocketCon`, with the bytes the peer has been sent so far in `Sent`
(the operating system's side of the socket). `ErrorCode` is the number of the
`e_ConnectErrorType` value. -/
structure SocketCon where
  State : ConnectState
  SocketFD : Int
  ReadInProgress : Bool
  Last_errno : Int
  TimeoutTS : Nat
  ErrorCode : Nat
  Sent : List Nat
  deriving DecidableEq, Repr

/-- `struct WSPageProp`; a `NULL` name list is `none`, `FileID` is the index of the
entry of the file table that the pointer stored in it points to. -/
structure WSPageProp where
  DynamicFile : Bool
  Cookies : Option (List (List Nat))
  Gets : Option (List (List Nat))
  Posts : Option (List (List Nat))
  FileID : Nat
  deriving DecidableEq, Repr

/-- `WS_LINE_BUFFER_SIZE`. -/
def WS_LINE_BUFFER_SIZE : Nat := 256

/-- `WS_OPT_ARG_MEMORY_SIZE`. -/
def WS_OPT_ARG_MEMORY_SIZE : Nat := 100

/-- `DOCVER`. -/
def DOCVER : List Nat := B "1.0.0.0"

/-- `struct WebServer`. `PostWritePos` and `PostEndOfStorage` are offsets into
`ArgsStorage` (`none` is `NULL`). -/
structure WebServer where
  State : WebServerState
  Con : SocketCon
  LineBuffPos : Nat
  LineBuff : List Nat
  Req : ReqType
  ReplyStatus : ReplyStatus
  UserSetReplyStatus : Bool
  WriteStarted : Bool
  WriteChunked : Bool
  ReplyStarted : Bool
  PageProp : WSPageProp
  LastReadTime : Nat
  BodySize : Nat
  PostState : WSPostState
  PostWritePos : Option Nat
  PostEndOfStorage : Option Nat
  ArgsStorage : List Nat
  deriving DecidableEq, Repr

/-! ## The connection (`SocketsCon.c`), with an operating system whose writes succeed -/

/-- `SocketsCon_Write(Con,buf,num)`: nothing is sent unless the connection is
connected; `none` when `num` bytes cannot be read from `buf`. -/
def SocketsCon_Write (Con : SocketCon) (buf : List Nat) (num : Int) : Option (SocketCon × Bool) :=
  if Con.State ≠ ConnectState.Connected then some (Con, false)
  else if num ≤ 0 then some (Con, true)
  else if buf.length < num.toNat then none
  else some ({ Con with Sent := Con.Sent ++ buf.take num.toNat }, true)

/-- `SocketsCon_Close`. -/
def SocketsCon_Close (Con : SocketCon) : SocketCon :=
  { Con with State := ConnectState.Idle, SocketFD := -1 }

/-- Write the whole of a constant text or string: `SocketsCon_Write(&Web->Con,s,strlen(s))`. -/
def conWrite (Web : WebServer) (s : List Nat) : WebServer :=
  if Web.Con.State ≠ ConnectState.Connected then Web
  else { Web with Con := { Web.Con with Sent := Web.Con.Sent ++ s } }

/-! ## Formatting (`sprintf`) -/

/-- Digits of `n` in a base, most significant first, upper case, in front of `acc`. -/
def digitsAux (base : Nat) : Nat → Nat → List Nat → List Nat
  | 0, _, acc => acc
  | fuel + 1, n, acc =>
    let d := n % base
    let c := if d < 10 then 48 + d else 55 + d
    if n / base = 0 then c :: acc else digitsAux base fuel (n / base) (c :: acc)

/-- `%zd` and `%d` of a value that is not negative. -/
def fmtDec (n : Nat) : List Nat := digitsAux 10 (n + 1) n []

/-- `%d` of an `int`. -/
def fmtInt (v : Int) : List Nat :=
  if v < 0 then 45 :: fmtDec (-v).toNat else fmtDec v.toNat

/-- `%X` of an `int`: the upper-case hexadecimal digits of the value as `unsigned`. -/
def fmtHex (v : Int) : List Nat :=
  let u := (v % 4294967296).toNat
  digitsAux 16 (u + 1) u []

/-! ## Starting and ending a reply -/

/-- The status text that `WS_StartReply` selects. -/
def statusMsg : ReplyStatus → List Nat
  | .Ok => B "200 OK"
  | .MovedPerm => B "301 Moved Permanently"
  | .NotModified => B "304 Not Modified"
  | .TmpRedirect => B "307 Temporary Redirect"
  | .PermRedirect => B "308 Permanent Redirect"
  | .BadRequest => B "400 Bad Request"
  | .Forbidden => B "403 Forbidden"
  | .NotFound => B "404 Not Found"
  | .MethodNotAllowed => B "405 Method Not Allowed"
  | .URITooLong => B "414 URI Too Long"
  | .RequestHeaderFieldsTooLarge => B "431 Request Header Fields Too Large"
  | .MAX => B "500 Internal Server Error"
  | .InternalServerError => B "500 Internal Server Error"
  | .NotImplemented => B "501 Not Implemented"
  | .HTTPVersionNotSupported => B "505 HTTP Version Not Supported"
  | .InsufficientStorage => B "507 Insufficient Storage"

/-- `WS_StartReply`. -/
def WS_StartReply (Web : WebServer) : WebServer :=
  let Msg := statusMsg Web.ReplyStatus
  let Web := conWrite Web (B "HTTP/1.1 ")
  let Web := conWrite Web Msg
  let Web := conWrite Web (B "\r\n")
  let Web := conWrite Web (B "Server: BittyHTTP\r\n")
  let Web :=
    if Web.ReplyStatus ≠ ReplyStatus.Ok ∧ Web.UserSetReplyStatus = false then
      let Web := conWrite Web (B "Content-Length: " ++ fmtDec Msg.length ++ B "\r\n")
      let Web := conWrite Web (B "\r\n")
      conWrite Web Msg
    else if Web.PageProp.DynamicFile = false then
      conWrite Web (B "ETag: \"" ++ DOCVER ++ B "\"\r\n")
    else Web
  { Web with ReplyStarted := true }

/-- `WS_EndReply`. -/
def WS_EndReply (Web : WebServer) : WebServer :=
  if Web.WriteChunked then
    conWrite (conWrite Web (B "0\r\n")) (B "\r\n")
  else Web

/-! ## The response primitives offered to the file server -/

/-- `SocketsCon_Write(&Web->Con,buf,num)` on the session's connection. -/
def conWriteN (Web : WebServer) (buf : List Nat) (num : Int) : Option WebServer :=
  (SocketsCon_Write Web.Con buf num).map (fun r => { Web with Con := r.1 })

/-- `WS_WriteWhole`. -/
def WS_WriteWhole (Web : WebServer) (Buffer : List Nat) (Len : Int) : Option WebServer :=
  if Web.WriteStarted then
    some { Web with ReplyStatus := ReplyStatus.InternalServerError }
  else
    let Web := { Web with WriteStarted := true, ReplyStatus := ReplyStatus.Ok }
    let Web := if Web.ReplyStarted = false then WS_StartReply Web else Web
    let Web := conWrite Web (B "Content-Length: " ++ fmtInt Len ++ B "\r\n")
    let Web := conWrite Web (B "\r\n")
    conWriteN Web Buffer Len

/-- `WS_WriteChunk`. -/
def WS_WriteChunk (Web : WebServer) (Buffer : List Nat) (Len : Int) : Option WebServer :=
  if Len = 0 then some Web
  else
    let Web :=
      if Web.WriteStarted = false then
        let Web := WS_StartReply Web
        let Web := conWrite Web (B "Transfer-Encoding: chunked\r\n")
        conWrite Web (B "\r\n")
      else Web
    let Web := { Web with WriteChunked := true, WriteStarted := true }
    let Web := conWrite Web (fmtHex Len ++ B "\r\n")
    match conWriteN Web Buffer Len with
    | none => none
    | some Web => some (conWrite Web (B "\r\n"))

/-- `WS_Header`. -/
def WS_Header (Web : WebServer) (Header : List Nat) : WebServer × Bool :=
  if cstr Header = [] then (Web, false)
  else if Web.WriteStarted then (Web, false)
  else
    let Web := if Web.ReplyStarted = false then WS_StartReply Web else Web
    let Web := conWrite Web (cstr Header)
    (conWrite Web (B "\r\n"), true)

/-- `WS_SetHTTPStatusCode`. -/
def WS_SetHTTPStatusCode (Web : WebServer) (Code : ReplyStatus) : WebServer × Bool :=
  if Code = ReplyStatus.MAX then (Web, false)
  else if Web.WriteStarted then (Web, false)
  else if Web.ReplyStarted then (Web, false)
  else
    (WS_StartReply { Web with UserSetReplyStatus := true, ReplyStatus := Code }, true)

/-- `WS_Location`. -/
def WS_Location (Web : WebServer) (NewURL : List Nat) : WebServer × Bool :=
  if cstr NewURL = [] then (Web, false)
  else
    match WS_SetHTTPStatusCode Web ReplyStatus.MovedPerm with
    | (Web, false) => (Web, false)
    | (Web, true) =>
      let Web := conWrite Web (B "Location: ")
      let Web := conWrite Web (cstr NewURL)
      (conWrite Web (B "\r\n"), true)

/-- One of the characters that `WS_SetCookie` refuses in a name or value. -/
def badCookieChar (c : Nat) : Bool := c = 32 || c = 44 || c = 59 || c = 13 || c = 10

/-- `WS_SetCookie`. With `Expire != 0` the source prints `wday_name[..]` and
`mon_name[..]`, arrays of three characters without terminator, with `%s`: the
text depends on what follows them in memory, so the result is `none`. -/
def WS_SetCookie (Web : WebServer) (Name Value : List Nat) (Expire : Int)
    (Path Domain : Option (List Nat)) (Secure HttpOnly : Bool) : Option (WebServer × Bool) :=
  if cstr Name = [] then some (Web, false)
  else if (cstr Name).any badCookieChar then some (Web, false)
  else if (cstr Value).any badCookieChar then some (Web, false)
  else if Web.WriteStarted then some (Web, false)
  else
    let Web := if Web.ReplyStarted = false then WS_StartReply Web else Web
    let Web := conWrite Web (B "Set-Cookie: ")
    let Web := conWrite Web (cstr Name)
    let Web := conWrite Web (B "=")
    let Web := conWrite Web (cstr Value)
    if Expire ≠ 0 then none
    else
      let Web :=
        match Path with
        | some P => if cstr P ≠ [] then conWrite (conWrite Web (B "; Path=")) (cstr P) else Web
        | none => Web
      let Web :=
        match Domain with
        | some D =>
          -- SocketsCon_Write(&Web->Con,"; Domain=",7)
          if cstr D ≠ [] then conWrite (conWrite Web ((B "; Domain=").take 7)) (cstr D) else Web
        | none => Web
      let Web := if Secure then conWrite Web (B "; Secure") else Web
      let Web := if HttpOnly then conWrite Web (B "; HttpOnly") else Web
      some (conWrite Web (B "\r\n"), true)

/-! ## Argument Storage: walking and lookup -/

/-- Move over one stored entry, `if(*Pos=='Y') while(*Pos++!=0); else Pos++;`. -/
def skipEntry (A : List Nat) (Pos : Nat) : Option Nat :=
  match rd A Pos with
  | none => none
  | some c =>
    if c = 89 then (strlenAt A Pos).map (fun n => Pos + n + 1)
    else some (Pos + 1)

/-- Loop of `WS_FindArgInStorage` over the names that are left; the result is the
offset of the value, or `none` for `NULL`. -/
def findArgLoop (A : List Nat) (Arg : List Nat) : List (List Nat) → Nat → Option (Option Nat)
  | [], _ => some none
  | nm :: rest, Pos =>
    if cstr nm = cstr Arg then
      match rd A Pos with
      | none => none
      | some c => if c = 78 then some none else some (some (Pos + 1))
    else
      match skipEntry A Pos with
      | none => none
      | some Pos1 => findArgLoop A Arg rest Pos1

/-- `WS_FindArgInStorage(&A[Pos],Arg,ArgsList)`. -/
def WS_FindArgInStorage (A : List Nat) (Pos : Nat) (Arg : List Nat)
    (ArgsList : Option (List (List Nat))) : Option (Option Nat) :=
  match ArgsList with
  | none => some none
  | some l => findArgLoop A Arg l Pos

/-- Loop of `WS_SkipStorageArgs`. -/
def skipArgsLoop (A : List Nat) : List (List Nat) → Nat → Option Nat
  | [], Pos => some Pos
  | _ :: rest, Pos =>
    match skipEntry A Pos with
    | none => none
    | some Pos1 => skipArgsLoop A rest Pos1

/-- `WS_SkipStorageArgs(&A[StartingPos],ArgsList)`. -/
def WS_SkipStorageArgs (A : List Nat) (StartingPos : Nat)
    (ArgsList : Option (List (List Nat))) : Option Nat :=
  match ArgsList with
  | none => some StartingPos
  | some l => skipArgsLoop A l StartingPos

/-- `WS_GET`: the offset in `ArgsStorage` of the value, `some none` for `NULL`. -/
def WS_GET (Web : WebServer) (Arg : List Nat) : Option (Option Nat) :=
  WS_FindArgInStorage Web.ArgsStorage 0 Arg Web.PageProp.Gets

/-- `WS_COOKIE`. -/
def WS_COOKIE (Web : WebServer) (Arg : List Nat) : Option (Option Nat) :=
  match WS_SkipStorageArgs Web.ArgsStorage 0 Web.PageProp.Gets with
  | none => none
  | some Pos => WS_FindArgInStorage Web.ArgsStorage Pos Arg Web.PageProp.Cookies

/-- `WS_POST`. -/
def WS_POST (Web : WebServer) (Arg : List Nat) : Option (Option Nat) :=
  match WS_SkipStorageArgs Web.ArgsStorage 0 Web.PageProp.Gets with
  | none => none
  | some Pos =>
    match WS_SkipStorageArgs Web.ArgsStorage Pos Web.PageProp.Cookies with
    | none => none
    | some Pos1 => WS_FindArgInStorage Web.ArgsStorage Pos1 Arg Web.PageProp.Posts

/-- The string a lookup result points to: `some none` for `NULL`, `some (some v)` for
the C string `v`, `none` when the lookup or the string leaves the buffer. -/
def argValue (A : List Nat) (r : Option (Option Nat)) : Option (Option (List Nat)) :=
  match r with
  | none => none
  | some none => some none
  | some (some p) => (cstrAt A p).map some

/-- The value `WS_GET` returns, as a string. -/
def getValue (Web : WebServer) (Arg : List Nat) : Option (Option (List Nat)) :=
  argValue Web.ArgsStorage (WS_GET Web Arg)

/-- The value `WS_COOKIE` returns, as a string. -/
def cookieValue (Web : WebServer) (Arg : List Nat) : Option (Option (List Nat)) :=
  argValue Web.ArgsStorage (WS_COOKIE Web Arg)

/-- The value `WS_POST` returns, as a string. -/
def postValue (Web : WebServer) (Arg : List Nat) : Option (Option (List Nat)) :=
  argValue Web.ArgsStorage (WS_POST Web Arg)

/-! ## `WS_InsertCopy` -/

/-- The "make room" loop of `WS_InsertCopy`, `while(p1>=Dest) *p2--=*p1--;`, with `k`
bytes left to move: the next one goes from `Dest+k-1` to `Dest+k-1+CopyLen`. -/
def insertShift (Dest CopyLen : Nat) : Nat → List Nat → Option (List Nat)
  | 0, A => some A
  | k + 1, A =>
    match rd A (Dest + k) with
    | none => none
    | some v =>
      match wr A (Dest + k + CopyLen) v with
      | none => none
      | some A1 => insertShift Dest CopyLen k A1

/-- `memcpy(&A[Dest],Src,n)` for the bytes `Src`. -/
def memcpyAt : List Nat → Nat → List Nat → Option (List Nat)
  | A, _, [] => some A
  | A, Dest, c :: cs =>
    match wr A Dest c with
    | none => none
    | some A1 => memcpyAt A1 (Dest + 1) cs

/-- `WS_InsertCopy(&A[Dest],&A[DestEnd],Src,CopyLen)` where `Src` holds the
`CopyLen` bytes that are copied. -/
def WS_InsertCopy (A : List Nat) (Dest DestEnd : Nat) (Src : List Nat) : Option (List Nat) :=
  match insertShift Dest Src.length (DestEnd - Dest) A with
  | none => none
  | some A1 => memcpyAt A1 Dest Src

/-! ## `WS_ProcessGetVars` -/

/-- The loop that breaks the arguments up, `while(*Pos!=0)`, replacing each
separator by NUL and counting: the result is the buffer, the final `Pos` and the
count. -/
def breakUpArgs (sep : Nat) : Nat → List Nat → Nat → Nat → Option (List Nat × Nat × Nat)
  | 0, _, _, _ => none
  | fuel + 1, L, Pos, n =>
    match rd L Pos with
    | none => none
    | some c =>
      if c = 0 then some (L, Pos, n)
      else if c = sep then
        match wr L Pos 0 with
        | none => none
        | some L1 => breakUpArgs sep fuel L1 (Pos + 1) (n + 1)
      else breakUpArgs sep fuel L (Pos + 1) n

/-- The search loop `while(arg<ArgCount)` of `WS_ProcessGetVars` for the name `nm`:
the result is the final `arg` and `Pos`. -/
def getScan (nm : List Nat) (ArgCount : Nat) :
    Nat → List Nat → Nat → Nat → Nat → Option (Nat × Nat)
  | 0, _, _, _, _ => none
  | fuel + 1, L, arg, Pos, Start =>
    if arg < ArgCount then
      match rd L Pos with
      | none => none
      | some c =>
        if c = 61 ∧ ((cstr nm).length : Int) = (Pos : Int) - (Start : Int)
            ∧ startsWith L Start (cstr nm) = true then
          some (arg, Pos + 1)
        else if c = 0 then getScan nm ArgCount fuel L (arg + 1) (Pos + 1) (Pos + 1)
        else getScan nm ArgCount fuel L arg (Pos + 1) Start
    else some (arg, Pos)

/-- The loop that copies a found value, `while(*Pos!=0)`: the result is the storage,
`Write`, and whether the copy ran out of space. -/
def copyValue : Nat → List Nat → List Nat → Nat → Nat → Option (List Nat × Nat × Bool)
  | 0, _, _, _, _ => none
  | fuel + 1, L, A, Pos, Write =>
    match rd L Pos with
    | none => none
    | some c =>
      if c = 0 then some (A, Write, false)
      else if Write ≥ WS_OPT_ARG_MEMORY_SIZE then some (A, Write, true)
      else
        match wr A Write c with
        | none => none
        | some A1 => copyValue fuel L A1 (Pos + 1) (Write + 1)

/-- The body of the `for` loop over `Gets` for one name, from the storage and
`Write` (which is also `StartOfLastWrite`): the new storage and `Write`, and `true`
when the function returned with `e_ReplyStatus_InsufficientStorage`. -/
def getStoreOne (L : List Nat) (ArgsStart ArgCount : Nat) (nm : List Nat)
    (A : List Nat) (Write : Nat) : Option (List Nat × Nat × Bool) :=
  match getScan nm ArgCount (L.length + 1) L 0 ArgsStart ArgsStart with
  | none => none
  | some (arg, Pos) =>
    let Found := decide (arg < ArgCount)
    if Write ≥ WS_OPT_ARG_MEMORY_SIZE then some (A, Write, true)
    else
      match wr A Write (if Found then 89 else 78) with
      | none => none
      | some A1 =>
        if Found then
          match copyValue (L.length + 1) L A1 Pos (Write + 1) with
          | none => none
          | some (A2, W2, true) => some (A2, W2, true)
          | some (A2, W2, false) =>
            if W2 ≥ WS_OPT_ARG_MEMORY_SIZE then some (A2, W2, true)
            else
              match wr A2 W2 0 with
              | none => none
              | some A3 =>
                match WS_URLDecodeInPlace A3 Write with
                | none => none
                | some (A4, W4) => some (A4, W4, false)
        else some (A1, Write + 1, false)

/-- The `for` loop over `Gets`. -/
def getStoreAll (L : List Nat) (ArgsStart ArgCount : Nat) :
    List (List Nat) → List Nat → Nat → Option (List Nat × Nat × Bool)
  | [], A, Write => some (A, Write, false)
  | nm :: rest, A, Write =>
    match getStoreOne L ArgsStart ArgCount nm A Write with
    | none => none
    | some (A1, W1, true) => some (A1, W1, true)
    | some (A1, W1, false) => getStoreAll L ArgsStart ArgCount rest A1 W1

/-- The loops that fill in `'N'` for each name of a list. -/
def fillN : Nat → List Nat → Nat → Option (List Nat × Nat × Bool)
  | 0, A, Write => some (A, Write, false)
  | k + 1, A, Write =>
    if Write ≥ WS_OPT_ARG_MEMORY_SIZE then some (A, Write, true)
    else
      match wr A Write 78 with
      | none => none
      | some A1 => fillN k A1 (Write + 1)

/-- Number of names of a list that may be `NULL`. -/
def nameCount (l : Option (List (List Nat))) : Nat :=
  match l with
  | none => 0
  | some l => l.length

/-- `WS_ProcessGetVars`. -/
def WS_ProcessGetVars (Web : WebServer) : Option WebServer :=
  match strlenAt Web.LineBuff 0 with
  | none => none
  | some n =>
    let ArgsStart := n + 1
    match breakUpArgs 38 (Web.LineBuff.length + 1) Web.LineBuff ArgsStart 0 with
    | none => none
    | some (L, Pos, cnt) =>
      let ArgCount := if Pos ≠ ArgsStart then cnt + 1 else cnt
      let overflow (A : List Nat) : Option WebServer :=
        some { Web with LineBuff := L, ArgsStorage := A,
                        ReplyStatus := ReplyStatus.InsufficientStorage }
      match getStoreAll L ArgsStart ArgCount (Web.PageProp.Gets.getD []) Web.ArgsStorage 0 with
      | none => none
      | some (A1, _, true) => overflow A1
      | some (A1, W1, false) =>
        match fillN (nameCount Web.PageProp.Cookies) A1 W1 with
        | none => none
        | some (A2, _, true) => overflow A2
        | some (A2, W2, false) =>
          match fillN (nameCount Web.PageProp.Posts) A2 W2 with
          | none => none
          | some (A3, _, true) => overflow A3
          | some (A3, _, false) => some { Web with LineBuff := L, ArgsStorage := A3 }

/-! ## `WS_ProcessCookieVars` -/

/-- `while(*p==c) p++;` -/
def skipWhileEq (c : Nat) : Nat → List Nat → Nat → Option Nat
  | 0, _, _ => none
  | fuel + 1, L, p =>
    match rd L p with
    | none => none
    | some x => if x = c then skipWhileEq c fuel L (p + 1) else some p

/-- `while(*p!=c && *p!=0) p++;` -/
def skipUntil (c : Nat) : Nat → List Nat → Nat → Option Nat
  | 0, _, _ => none
  | fuel + 1, L, p =>
    match rd L p with
    | none => none
    | some x => if x ≠ c ∧ x ≠ 0 then skipUntil c fuel L (p + 1) else some p

/-- The search loop `while(arg<ArgCount)` of `WS_ProcessCookieVars` for the name `nm`. -/
def cookieScan (nm : List Nat) (ArgCount : Nat) :
    Nat → List Nat → Nat → Nat → Nat → Option (Nat × Nat)
  | 0, _, _, _, _ => none
  | fuel + 1, L, arg, Pos, Start =>
    if arg < ArgCount then
      match rd L Pos with
      | none => none
      | some c =>
        if c = 61 then
          -- skip any spaces at the start of the name
          match skipWhileEq 32 (L.length + 1) L Start with
          | none => none
          | some Start1 =>
            if ((cstr nm).length : Int) = (Pos : Int) - (Start1 : Int)
                ∧ startsWith L Start1 (cstr nm) = true then
              some (arg, Pos + 1)
            else cookieScan nm ArgCount fuel L arg (Pos + 1) Start1
        else if c = 0 then cookieScan nm ArgCount fuel L (arg + 1) (Pos + 1) (Pos + 1)
        else cookieScan nm ArgCount fuel L arg (Pos + 1) Start
    else some (arg, Pos)

/-- The body of the `for` loop over `Cookies` for one name: the new storage, `Write`
and `EndOfStorage`, and `true` when the function returned with
`e_ReplyStatus_InsufficientStorage`. -/
def cookieStoreOne (L : List Nat) (ArgsStart ArgCount : Nat) (nm : List Nat)
    (A : List Nat) (Write EndOfStorage : Nat) : Option (List Nat × Nat × Nat × Bool) :=
  match skipWhileEq 32 (L.length + 1) L ArgsStart with
  | none => none
  | some Start =>
    match cookieScan nm ArgCount (L.length + 1) L 0 ArgsStart Start with
    | none => none
    | some (arg, Pos) =>
      if arg < ArgCount then
        match strlenAt L Pos with
        | none => none
        | some Len =>
          match rd A Write with
          | none => none
          | some m =>
            if m = 89 then
              -- already seen: while(*Write++!=0);
              (strlenAt A Write).map (fun n => (A, Write + n + 1, EndOfStorage, false))
            else if Write + Len ≥ WS_OPT_ARG_MEMORY_SIZE then
              some (A, Write, EndOfStorage, true)
            else
              match WS_InsertCopy A (Write + 1) EndOfStorage ((L.drop Pos).take (Len + 1)) with
              | none => none
              | some A1 =>
                match wr A1 Write 89 with
                | none => none
                | some A2 => some (A2, Write + 1 + (Len + 1), EndOfStorage + (Len + 1), false)
      else some (A, Write + 1, EndOfStorage, false)

/-- The `for` loop over `Cookies`. -/
def cookieStoreAll (L : List Nat) (ArgsStart ArgCount : Nat) :
    List (List Nat) → List Nat → Nat → Nat → Option (List Nat × Bool)
  | [], A, _, _ => some (A, false)
  | nm :: rest, A, Write, EndOfStorage =>
    match cookieStoreOne L ArgsStart ArgCount nm A Write EndOfStorage with
    | none => none
    | some (A1, _, _, true) => some (A1, true)
    | some (A1, W1, E1, false) => cookieStoreAll L ArgsStart ArgCount rest A1 W1 E1

/-- `WS_ProcessCookieVars`. -/
def WS_ProcessCookieVars (Web : WebServer) : Option WebServer :=
  let L0 := Web.LineBuff
  match skipUntil 58 (L0.length + 1) L0 0 with
  | none => none
  | some p0 =>
    match rd L0 p0 with
    | none => none
    | some c0 =>
      let p1 := if c0 = 58 then p0 + 1 else p0
      match rd L0 p1 with
      | none => none
      | some c1 =>
        let ArgsStart := if c1 = 32 then p1 + 1 else p1
        match rd L0 ArgsStart with
        | none => none
        | some c2 =>
          if c2 = 0 then some Web
          else
            match breakUpArgs 59 (L0.length + 1) L0 ArgsStart 0 with
            | none => none
            | some (L, Pos, cnt) =>
              let ArgCount := if Pos ≠ ArgsStart then cnt + 1 else cnt
              let A := Web.ArgsStorage
              match WS_SkipStorageArgs A 0 Web.PageProp.Gets with
              | none => none
              | some Write =>
                match WS_SkipStorageArgs A Write Web.PageProp.Cookies with
                | none => none
                | some E0 =>
                  match WS_SkipStorageArgs A E0 Web.PageProp.Posts with
                  | none => none
                  | some EndOfStorage =>
                    match cookieStoreAll L ArgsStart ArgCount (Web.PageProp.Cookies.getD [])
                        A Write EndOfStorage with
                    | none => none
                    | some (A1, true) =>
                      some { Web with LineBuff := L, ArgsStorage := A1,
                                      ReplyStatus := ReplyStatus.InsufficientStorage }
                    | some (A1, false) => some { Web with LineBuff := L, ArgsStorage := A1 }

/-! ## POST variables -/

/-- The `for` loop over `Posts` of `WS_StartProcessingPOSTVar` for the key `key`: the
storage and the new `PostWritePos`. -/
def postFindLoop (key : List Nat) : List (List Nat) → List Nat → Nat →
    Option (List Nat × Option Nat)
  | [], A, _ => some (A, none)
  | nm :: rest, A, Write =>
    if cstr nm = key then
      -- *Write++='Y'; Web->PostWritePos=Write;
      (wr A Write 89).map (fun A1 => (A1, some (Write + 1)))
    else
      match skipEntry A Write with
      | none => none
      | some W1 => postFindLoop key rest A W1

/-- `WS_StartProcessingPOSTVar`. -/
def WS_StartProcessingPOSTVar (Web : WebServer) : Option WebServer :=
  let A := Web.ArgsStorage
  match WS_SkipStorageArgs A 0 Web.PageProp.Gets with
  | none => none
  | some W0 =>
    match WS_SkipStorageArgs A W0 Web.PageProp.Cookies with
    | none => none
    | some Write =>
      match Web.PageProp.Posts with
      | none => some { Web with PostWritePos := none }
      | some posts =>
        match skipArgsLoop A posts Write with
        | none => none
        | some E =>
          match cstrAt Web.LineBuff 0 with
          | none => none
          | some key =>
            match postFindLoop key posts A Write with
            | none => none
            | some (A1, wp) =>
              some { Web with ArgsStorage := A1, PostWritePos := wp, PostEndOfStorage := some E }

/-- Replace every `'+'` of the string at the start of the buffer by a space. -/
def plusToSpace : List Nat → List Nat
  | [] => []
  | c :: cs => if c = 0 then c :: cs else (if c = 43 then 32 else c) :: plusToSpace cs

/-- `WS_CopyLineBuffer2POSTVar`: the new session and the returned flag. -/
def WS_CopyLineBuffer2POSTVar (Web : WebServer) : Option (WebServer × Bool) :=
  match wr Web.LineBuff Web.LineBuffPos 0 with
  | none => none
  | some L0 =>
    match Web.PostWritePos with
    | none => some ({ Web with LineBuff := L0, LineBuffPos := 0 }, true)
    | some wp =>
      -- hold back the start of an escape sequence
      let held : Option (List Nat × Nat × List Nat) :=
        if Web.LineBuffPos ≥ 2 then
          match rd L0 (Web.LineBuffPos - 1), rd L0 (Web.LineBuffPos - 2) with
          | some last, some prev =>
            if last = 37 then
              (wr L0 (Web.LineBuffPos - 1) 0).map (fun L1 => (L1, Web.LineBuffPos - 1, [37, 0, 0]))
            else if prev = 37 then
              (wr L0 (Web.LineBuffPos - 2) 0).map
                (fun L1 => (L1, Web.LineBuffPos - 2, [37, last, 0]))
            else some (L0, Web.LineBuffPos, [0, 0, 0])
          | _, _ => none
        else some (L0, Web.LineBuffPos, [0, 0, 0])
      match held with
      | none => none
      | some (L1, pos1, EscBuff) =>
        let L2 := plusToSpace L1
        match WS_URLDecodeInPlace L2 0 with
        | none => none
        | some (L3, Len) =>
          match Web.PostEndOfStorage with
          | none => none
          | some E =>
            if E + Len > WS_OPT_ARG_MEMORY_SIZE then
              match WS_InsertCopy Web.ArgsStorage wp E [0] with
              | none => none
              | some A1 =>
                some ({ Web with LineBuff := L3, LineBuffPos := pos1, ArgsStorage := A1,
                                 ReplyStatus := ReplyStatus.InsufficientStorage }, false)
            else
              match WS_InsertCopy Web.ArgsStorage wp E (L3.take Len) with
              | none => none
              | some A1 =>
                -- strcpy(Web->LineBuff,EscBuff); Web->LineBuffPos=strlen(EscBuff);
                match memcpyAt L3 0 (cstr EscBuff ++ [0]) with
                | none => none
                | some L4 =>
                  some ({ Web with LineBuff := L4, LineBuffPos := (cstr EscBuff).length,
                                   ArgsStorage := A1, PostEndOfStorage := some (E + Len),
                                   PostWritePos := some (wp + Len - 1) }, true)

/-! ## The request line and the header lines -/

/-- The backward search for the version, `while(EndOfLine>0)` of `WS_ProcessURI`. -/
def findLastH (L : List Nat) : Nat → Option Nat
  | 0 => some 0
  | e + 1 =>
    match rd L (e + 1) with
    | none => none
    | some c => if c = 72 then some (e + 1) else findLastH L e

/-- `WS_ProcessURI`: the new session and the returned flag. -/
def WS_ProcessURI (Web : WebServer) : Option (WebServer × Bool) :=
  match strlenAt Web.LineBuff 0 with
  | none => none
  | some n =>
    match findLastH Web.LineBuff n with
    | none => none
    | some EndOfLine =>
      if EndOfLine = 0 then
        some ({ Web with ReplyStatus := ReplyStatus.BadRequest }, false)
      else
        match cstrAt Web.LineBuff EndOfLine with
        | none => none
        | some ver =>
          if ver ≠ B "HTTP/1.1" then
            some ({ Web with ReplyStatus := ReplyStatus.HTTPVersionNotSupported }, false)
          else
            match wr Web.LineBuff (EndOfLine - 1) 0 with
            | none => none
            | some L1 =>
              match skipUntil 63 (L1.length + 1) L1 0 with
              | none => none
              | some ArgsStart =>
                match rd L1 ArgsStart with
                | none => none
                | some c =>
                  let q := if c ≠ 0 then ArgsStart else ArgsStart + 1
                  (wr L1 q 0).map (fun L2 => ({ Web with LineBuff := L2 }, true))

/-- `WS_ProcessETag`. -/
def WS_ProcessETag (Web : WebServer) (_Weak : Bool) (ETag : List Nat) : WebServer :=
  if Web.PageProp.DynamicFile = false ∧ ETag = DOCVER then
    { Web with ReplyStatus := ReplyStatus.NotModified }
  else Web

/-- The loop over the tags of an `If-None-Match` line, `while(*ETag!=0)`; the flag
tells that `WS_ProcessHeader` returned from inside the loop. -/
def etagLoop : Nat → WebServer → Nat → Option (WebServer × Bool)
  | 0, _, _ => none
  | fuel + 1, Web, ETag =>
    let L := Web.LineBuff
    match rd L ETag with
    | none => none
    | some c =>
      if c = 0 then some (Web, false)
      else if c = 42 then some (Web, true)
      else
        let Weak := startsWith L ETag (B "W/")
        match skipUntil 34 (L.length + 1) L ETag with
        | none => none
        | some q1 =>
          match rd L q1 with
          | none => none
          | some c1 =>
            if c1 = 0 then some ({ Web with ReplyStatus := ReplyStatus.BadRequest }, true)
            else
              match skipUntil 34 (L.length + 1) L (q1 + 1) with
              | none => none
              | some End =>
                match rd L End with
                | none => none
                | some c2 =>
                  if c2 = 0 then
                    some ({ Web with ReplyStatus := ReplyStatus.BadRequest }, true)
                  else
                    match wr L End 0 with
                    | none => none
                    | some L1 =>
                      let Web1 := WS_ProcessETag { Web with LineBuff := L1 } Weak
                        ((L1.drop (q1 + 1)).take (End - (q1 + 1)))
                      match skipUntil 44 (L1.length + 1) L1 (End + 1) with
                      | none => none
                      | some nxt => etagLoop fuel Web1 nxt

/-- The `Cookie:` and `Content-Length:` parts of `WS_ProcessHeader`. -/
def processHeaderRest (Web1 : WebServer) : Option WebServer :=
  let r2 : Option WebServer :=
    if startsWith Web1.LineBuff 0 (B "Cookie:") then WS_ProcessCookieVars Web1 else some Web1
  match r2 with
  | none => none
  | some Web2 =>
    if startsWith Web2.LineBuff 0 (B "Content-Length:") then
      match rd Web2.LineBuff 15 with
      | none => none
      | some c =>
        let Pos := if c = 32 then 16 else 15
        (cstrAt Web2.LineBuff Pos).map
          (fun s => { Web2 with BodySize := toU32 (strtol 10 s) })
    else some Web2

/-- `WS_ProcessHeader`. -/
def WS_ProcessHeader (Web : WebServer) : Option WebServer :=
  if startsWith Web.LineBuff 0 (B "If-None-Match:") then
    match skipWhileEq 32 (Web.LineBuff.length + 1) Web.LineBuff 14 with
    | none => none
    | some ETag =>
      match etagLoop (Web.LineBuff.length + 1) Web ETag with
      | none => none
      | some (Web1, true) => some Web1
      | some (Web1, false) => processHeaderRest Web1
  else processHeaderRest Web

/-! ## The file server (`FileServer.c`), for any table of files -/

/-- A call of a response primitive by the function that writes a file. -/
inductive Action
  | SetHTTPStatusCode (Code : ReplyStatus)
  | Header (Header : List Nat)
  | Location (NewURL : List Nat)
  | SetCookie (Name Value : List Nat) (Expire : Int) (Path Domain : Option (List Nat))
      (Secure HttpOnly : Bool)
  | WriteWhole (Buffer : List Nat) (Len : Int)
  | WriteChunk (Buffer : List Nat) (Len : Int)

/-- What a file's function can read of the request: the results of `WS_GET`,
`WS_COOKIE` and `WS_POST` for every name (`none` when the lookup leaves the buffer). -/
structure ArgView where
  get : List Nat → Option (Option (List Nat))
  cookie : List Nat → Option (Option (List Nat))
  post : List Nat → Option (Option (List Nat))

/-- `struct FileInfo`: the function `WriteFile` is given by the primitives it calls,
which may depend on the arguments it reads. -/
structure FileInfo where
  Filename : List Nat
  Dynamic : Bool
  Cookies : Option (List (List Nat))
  Gets : Option (List (List Nat))
  Posts : Option (List (List Nat))
  WriteFile : ArgView → List Action

/-- The loop of `FS_GetFileProperties` from index `r`. -/
def getFilePropertiesLoop (Filename : List Nat) (PageProp : WSPageProp) :
    List FileInfo → Nat → WSPageProp × Bool
  | [], _ => (PageProp, false)
  | f :: rest, r =>
    if Filename = cstr f.Filename then
      ({ FileID := r, DynamicFile := f.Dynamic, Cookies := f.Cookies, Gets := f.Gets,
         Posts := f.Posts }, true)
    else getFilePropertiesLoop Filename PageProp rest (r + 1)

/-- `FS_GetFileProperties` for the table `m_Files`; `Filename` is the content of the
string passed in. -/
def FS_GetFileProperties (m_Files : List FileInfo) (Filename : List Nat)
    (PageProp : WSPageProp) : WSPageProp × Bool :=
  getFilePropertiesLoop Filename PageProp m_Files 0

/-- The view of the stored arguments of a session. -/
def argView (Web : WebServer) : ArgView :=
  { get := getValue Web, cookie := cookieValue Web, post := postValue Web }

/-- Perform one call of a response primitive. -/
def runAction (Web : WebServer) : Action → Option WebServer
  | .SetHTTPStatusCode Code => some (WS_SetHTTPStatusCode Web Code).1
  | .Header h => some (WS_Header Web h).1
  | .Location u => some (WS_Location Web u).1
  | .SetCookie n v e p d s h => (WS_SetCookie Web n v e p d s h).map (fun r => r.1)
  | .WriteWhole b l => WS_WriteWhole Web b l
  | .WriteChunk b l => WS_WriteChunk Web b l

/-- Perform the calls of a file's function in order. -/
def runActions : WebServer → List Action → Option WebServer
  | Web, [] => some Web
  | Web, a :: rest =>
    match runAction Web a with
    | none => none
    | some Web1 => runActions Web1 rest

/-- `FS_SendFile`: `none` when `FileID` does not point into the table. -/
def FS_SendFile (m_Files : List FileInfo) (Web : WebServer) (FileID : Nat) : Option WebServer :=
  match m_Files[FileID]? with
  | none => none
  | some File => runActions Web (File.WriteFile (argView Web))

/-! ## The session state machine -/

/-- `WS_ResetWebServer`; `now` is what `ReadElapsedClock()` returns. -/
def WS_ResetWebServer (now : Nat) (Web : WebServer) : WebServer :=
  { Web with
    LineBuffPos := 0
    State := WebServerState.Request
    ReplyStatus := ReplyStatus.MAX
    UserSetReplyStatus := false
    WriteStarted := false
    WriteChunked := false
    PageProp := { Web.PageProp with DynamicFile := false, Cookies := none, Gets := none,
                                    Posts := none }
    ReplyStarted := false
    LastReadTime := now
    BodySize := 0
    PostState := WSPostState.GettingKey
    PostWritePos := none
    PostEndOfStorage := none }

/-- The loop of `WS_GetNextLine` from index `r` over the bytes that are left: the
new session and the returned value. -/
def getNextLineLoop : List Nat → Nat → WebServer → Option (WebServer × Int)
  | [], _, Web => some (Web, 0)
  | c :: rest, r, Web =>
    if c = 13 then getNextLineLoop rest (r + 1) Web
    else if c = 10 then
      (wr Web.LineBuff Web.LineBuffPos 0).map
        (fun L => ({ Web with LineBuff := L, LineBuffPos := 0 }, (r : Int) + 1))
    else
      match wr Web.LineBuff Web.LineBuffPos c with
      | none => none
      | some L =>
        if Web.LineBuffPos + 1 ≥ WS_LINE_BUFFER_SIZE then
          some ({ Web with LineBuff := L, LineBuffPos := 0 }, -1)
        else getNextLineLoop rest (r + 1) { Web with LineBuff := L, LineBuffPos := Web.LineBuffPos + 1 }

/-- `WS_GetNextLine(Web,ReadBuff,Bytes)` for the `Bytes` bytes `ReadBuff`. -/
def WS_GetNextLine (Web : WebServer) (ReadBuff : List Nat) : Option (WebServer × Int) :=
  getNextLineLoop ReadBuff 0 Web

/-- `WS_SendResponse`. -/
def WS_SendResponse (m_Files : List FileInfo) (Web : WebServer) : Option WebServer :=
  if Web.ReplyStatus = ReplyStatus.MAX then
    (FS_SendFile m_Files { Web with ReplyStatus := ReplyStatus.Ok } Web.PageProp.FileID).map
      WS_EndReply
  else some (WS_EndReply (WS_StartReply Web))

/-- `Web->State++`. -/
def nextState : WebServerState → WebServerState
  | .Closed => .Request
  | .Request => .Headers
  | .Headers => .Body
  | .Body => .Response
  | .Response => .MAX
  | .MAX => .MAX

/-- The request line has been read (`case e_WebServerState_Request`, after the line
was found): the method, the URI, the file and the GET variables. `skip` is 4 for
`GET ` and 5 for `POST `. -/
def requestLine (m_Files : List FileInfo) (Web : WebServer) (req : ReqType) (skip : Nat) :
    Option WebServer :=
  match WS_ProcessURI { Web with Req := req } with
  | none => none
  | some (Web1, _) =>
    match cstrAt Web1.LineBuff skip with
    | none => none
    | some Filename =>
      match FS_GetFileProperties m_Files Filename Web1.PageProp with
      | (pp, true) => WS_ProcessGetVars { Web1 with PageProp := pp }
      | (pp, false) => some { Web1 with PageProp := pp, ReplyStatus := ReplyStatus.NotFound }

/-- One byte of a POST body, the body of `while(BytesLeft>0)`: the new session and
`true` when the loop was left by the `break` after a failed final copy. -/
def postByte (Web : WebServer) (c : Nat) : Option (WebServer × Bool) :=
  let r : Option WebServer :=
    match Web.PostState with
    | .GettingKey =>
      if c = 61 then
        match wr Web.LineBuff Web.LineBuffPos 0 with
        | none => none
        | some L =>
          match WS_URLDecodeInPlace L 0 with
          | none => none
          | some (L1, _) =>
            match WS_StartProcessingPOSTVar
                { Web with LineBuff := L1, LineBuffPos := Web.LineBuffPos + 1 } with
            | none => none
            | some Web1 =>
              some { Web1 with PostState := WSPostState.GettingValue, LineBuffPos := 0 }
      else
        match wr Web.LineBuff Web.LineBuffPos c with
        | none => none
        | some L =>
          let Web1 := { Web with LineBuff := L, LineBuffPos := Web.LineBuffPos + 1 }
          if Web1.LineBuffPos ≥ WS_LINE_BUFFER_SIZE - 1 then
            some { Web1 with ReplyStatus := ReplyStatus.InsufficientStorage,
                             PostState := WSPostState.Error }
          else some Web1
    | .GettingValue =>
      if c = 38 then
        match WS_CopyLineBuffer2POSTVar Web with
        | none => none
        | some (Web1, false) => some { Web1 with PostState := WSPostState.Error }
        | some (Web1, true) => some { Web1 with PostState := WSPostState.GettingKey }
      else
        match wr Web.LineBuff Web.LineBuffPos c with
        | none => none
        | some L =>
          let Web1 := { Web with LineBuff := L, LineBuffPos := Web.LineBuffPos + 1 }
          if Web1.LineBuffPos ≥ WS_LINE_BUFFER_SIZE - 1 then
            match WS_CopyLineBuffer2POSTVar Web1 with
            | none => none
            | some (Web2, false) => some { Web2 with PostState := WSPostState.Error }
            | some (Web2, true) => some Web2
          else some Web1
    | .Error =>
      if c = 38 then some { Web with PostState := WSPostState.GettingKey, LineBuffPos := 0 }
      else some Web
    | .MAX => some Web
  match r with
  | none => none
  | some Web1 =>
    -- consume this char
    let Web2 := { Web1 with BodySize := (Web1.BodySize + 4294967295) % 4294967296 }
    if Web2.BodySize = 0 ∧ Web2.PostState = WSPostState.GettingValue then
      match WS_CopyLineBuffer2POSTVar Web2 with
      | none => none
      | some (Web3, false) => some ({ Web3 with PostState := WSPostState.Error }, true)
      | some (Web3, true) =>
        some ({ Web3 with PostState := WSPostState.GettingKey, LineBuffPos := 0 }, false)
    else some (Web2, false)

/-- The loop `while(BytesLeft>0)` of the POST body: the new session and the bytes
that are left. -/
def postBodyLoop : WebServer → List Nat → Option (WebServer × List Nat)
  | Web, [] => some (Web, [])
  | Web, c :: rest =>
    match postByte Web c with
    | none => none
    | some (Web1, true) => some (Web1, rest)
    | some (Web1, false) => postBodyLoop Web1 rest

/-- The automatic reply to a line that does not fit, followed by the close of the
connection (`WS_StartReply`, `WS_EndReply`, `SocketsCon_Close`, `State=Closed`). -/
def tooLongReply (Web : WebServer) (status : ReplyStatus) : WebServer :=
  let Web1 := WS_EndReply (WS_StartReply { Web with ReplyStatus := status })
  { Web1 with Con := SocketsCon_Close Web1.Con, State := WebServerState.Closed }

/-- The `return` by which `WS_RunServer` is left: the connection is (or was)
closed, more bytes are needed, or a reply was sent and the session reset. -/
inductive RunExit
  | closed | needMore | responded
  deriving DecidableEq, Repr

/-- The `for(;;)` loop of `WS_RunServer`; `ReadBuff` holds the `BytesLeft` bytes from
`ReadPoint` on. Every turn of the loop uses one unit of fuel. The result is the
session at the `return` and which `return` it was. -/
def runServerLoop (m_Files : List FileInfo) (now : Nat) :
    Nat → WebServer → List Nat → Option (WebServer × RunExit)
  | 0, _, _ => none
  | fuel + 1, Web, ReadBuff =>
    match Web.State with
    | .Closed => some ({ Web with Con := SocketsCon_Close Web.Con }, RunExit.closed)
    | .Request =>
      match WS_GetNextLine Web ReadBuff with
      | none => none
      | some (Web1, BytesUsed) =>
        if BytesUsed = 0 then some (Web1, RunExit.needMore)
        else if BytesUsed < 0 then
          some (tooLongReply Web1 ReplyStatus.URITooLong, RunExit.closed)
        else
          let rest := ReadBuff.drop BytesUsed.toNat
          let r : Option WebServer :=
            if startsWith Web1.LineBuff 0 (B "GET ") then
              requestLine m_Files Web1 ReqType.Get 4
            else if startsWith Web1.LineBuff 0 (B "POST ") then
              requestLine m_Files Web1 ReqType.Post 5
            else some { Web1 with ReplyStatus := ReplyStatus.NotImplemented }
          match r with
          | none => none
          | some Web2 =>
            runServerLoop m_Files now fuel { Web2 with State := nextState Web2.State } rest
    | .Headers =>
      match WS_GetNextLine Web ReadBuff with
      | none => none
      | some (Web1, BytesUsed) =>
        if BytesUsed = 0 then some (Web1, RunExit.needMore)
        else if BytesUsed < 0 then
          runServerLoop m_Files now fuel
            (tooLongReply Web1 ReplyStatus.RequestHeaderFieldsTooLarge) ReadBuff
        else
          let rest := ReadBuff.drop BytesUsed.toNat
          match rd Web1.LineBuff 0 with
          | none => none
          | some c =>
            if c = 0 then
              runServerLoop m_Files now fuel { Web1 with State := nextState Web1.State } rest
            else
              match WS_ProcessHeader Web1 with
              | none => none
              | some Web2 => runServerLoop m_Files now fuel Web2 rest
    | .Body =>
      let r : Option (WebServer × List Nat) :=
        if Web.Req = ReqType.Post then postBodyLoop Web ReadBuff
        else if Web.BodySize < ReadBuff.length then
          -- BytesUsed=BytesLeft-Web->BodySize; Web->BodySize=0;
          some ({ Web with BodySize := 0 }, ReadBuff.drop (ReadBuff.length - Web.BodySize))
        else
          some ({ Web with BodySize := Web.BodySize - ReadBuff.length }, [])
      match r with
      | none => none
      | some (Web1, rest) =>
        if Web1.BodySize = 0 then
          runServerLoop m_Files now fuel { Web1 with State := nextState Web1.State } rest
        else some (Web1, RunExit.needMore)
    | .Response =>
      (WS_SendResponse m_Files Web).map (fun w => (WS_ResetWebServer now w, RunExit.responded))
    | .MAX => runServerLoop m_Files now fuel Web ReadBuff

/-- `WS_RunServer(Web,ReadBuff,Bytes)` together with the `return` taken. A turn of the
loop that uses no byte leads to `Body`, `Response` or `Closed`, so `Bytes + 3` turns
are enough. -/
def runServer (m_Files : List FileInfo) (now : Nat) (Web : WebServer) (ReadBuff : List Nat) :
    Option (WebServer × RunExit) :=
  runServerLoop m_Files now (ReadBuff.length + 3) Web ReadBuff

/-- `WS_RunServer(Web,ReadBuff,Bytes)`. -/
def WS_RunServer (m_Files : List FileInfo) (now : Nat) (Web : WebServer) (ReadBuff : List Nat) :
    Option WebServer :=
  (runServer m_Files now Web ReadBuff).map (fun r => r.1)

/-- Feed the chunks that `WS_Tick` reads, one `WS_RunServer` call each. -/
def feedChunks (m_Files : List FileInfo) (now : Nat) : WebServer → List (List Nat) → Option WebServer
  | Web, [] => some Web
  | Web, c :: cs =>
    match WS_RunServer m_Files now Web c with
    | none => none
    | some Web1 => feedChunks m_Files now Web1 cs

/-! ## `WS_URLEncode` and `WS_URLDecode` -/

/-- The characters `WS_URLEncode` copies unchanged. -/
def isUnreserved (c : Nat) : Bool :=
  (65 ≤ c && c ≤ 90) || (97 ≤ c && c ≤ 122) || (48 ≤ c && c ≤ 57)
    || c = 45 || c = 95 || c = 46 || c = 126

/-- `sprintf(Write,"%%%02X",c)` for an unsigned `char`: the three bytes written before
the terminator. -/
def pctEscape (c : Nat) : List Nat :=
  [37, (if c / 16 < 10 then 48 + c / 16 else 55 + c / 16),
       (if c % 16 < 10 then 48 + c % 16 else 55 + c % 16)]

/-- The loop of `WS_URLEncode` over the bytes of `Value` that are left; `End` is
`MaxLen-1` as an offset (it is negative for `MaxLen = 0`). -/
def urlEncodeLoop (End : Int) : List Nat → List Nat → Nat → Option (List Nat × Bool)
  | [], Out, Write => (wr Out Write 0).map (fun o => (o, true))
  | c :: rest, Out, Write =>
    if c = 0 then (wr Out Write 0).map (fun o => (o, true))
    else if isUnreserved c then
      match wr Out Write c with
      | none => none
      | some o =>
        if ((Write + 1 : Nat) : Int) = End then (wr o (Write + 1) 0).map (fun o1 => (o1, false))
        else urlEncodeLoop End rest o (Write + 1)
    else if ((Write + 3 : Nat) : Int) ≥ End then (wr Out Write 0).map (fun o => (o, false))
    else
      match memcpyAt Out Write (pctEscape c ++ [0]) with
      | none => none
      | some o => urlEncodeLoop End rest o (Write + 3)

/-- `WS_URLEncode(Value,OutputBuffer,MaxLen)` for an output buffer of `MaxLen` bytes:
the buffer afterwards and the returned flag. -/
def WS_URLEncode (Value : List Nat) (OutputBuffer : List Nat) : Option (List Nat × Bool) :=
  urlEncodeLoop ((OutputBuffer.length : Int) - 1) Value OutputBuffer 0

/-- The loop of `WS_URLDecode` over the bytes of `Value` that are left. After a `'%'`
the next two bytes are read whatever they are; `none` when they lie after the end of
`Value`. -/
def urlDecodeLoop (MaxLen : Nat) : List Nat → List Nat → Nat → Option (List Nat × Bool)
  | [], Out, Write => (wr Out Write 0).map (fun o => (o, true))
  | c :: rest, Out, Write =>
    if c = 0 then (wr Out Write 0).map (fun o => (o, true))
    else if c = 37 then
      -- buff[0]=*Read++; buff[1]=*Read++;
      match rest with
      | c0 :: c1 :: rest2 =>
        match wr Out Write (toChar (strtol 16 (cstr [c0, c1, 0]))) with
        | none => none
        | some o =>
          if Write + 1 ≥ MaxLen then some (o, false)
          else urlDecodeLoop MaxLen rest2 o (Write + 1)
      | _ => none
    else
      match wr Out Write c with
      | none => none
      | some o =>
        if Write + 1 ≥ MaxLen then some (o, false)
        else urlDecodeLoop MaxLen rest o (Write + 1)

/-- `WS_URLDecode(Value,Decoded,MaxLen)` for the bytes `Value` of the input string (it
ends at the first NUL or at the end of the list) and a buffer `Decoded` of `MaxLen`
bytes: the buffer afterwards and the returned flag. -/
def WS_URLDecode (Value : List Nat) (Decoded : List Nat) : Option (List Nat × Bool) :=
  urlDecodeLoop Decoded.length Value Decoded 0

/-! ## Sessions to start from -/

/-- An element of the global array `m_WebServers` (zero-initialised) whose connection
has just been accepted. -/
def acceptedWeb : WebServer :=
  { State := WebServerState.Closed
    Con := { State := ConnectState.Connected, SocketFD := 5, ReadInProgress := false,
             Last_errno := 0, TimeoutTS := 0, ErrorCode := 0, Sent := [] }
    LineBuffPos := 0
    LineBuff := List.replicate WS_LINE_BUFFER_SIZE 0
    Req := ReqType.Get
    ReplyStatus := ReplyStatus.Ok
    UserSetReplyStatus := false
    WriteStarted := false
    WriteChunked := false
    ReplyStarted := false
    PageProp := { DynamicFile := false, Cookies := none, Gets := none, Posts := none, FileID := 0 }
    LastReadTime := 0
    BodySize := 0
    PostState := WSPostState.GettingKey
    PostWritePos := none
    PostEndOfStorage := none
    ArgsStorage := List.replicate WS_OPT_ARG_MEMORY_SIZE 0 }

/-- The session `WS_Tick` starts a new connection with. -/
def freshWeb : WebServer := WS_ResetWebServer 0 acceptedWeb

/-- A byte list without NUL. -/
def NoNul (s : List Nat) : Prop := ∀ c ∈ s, c ≠ 0



/-- A hexadecimal digit character. -/
def isHex (c : Nat) : Bool := (digitVal 16 c).isSome

/-- The value of a hexadecimal digit character. -/
def hexVal (c : Nat) : Nat := (digitVal 16 c).getD 0

/-- Percent-decoding as the specification words it: each `%XY` with hexadecimal digits
`X`, `Y` becomes the byte `16*X+Y`, every other byte is copied. -/
def pctDecode : List Nat → List Nat
  | [] => []
  | c :: rest =>
    if c = 37 then
      match rest with
      | x :: y :: rest2 =>
        if isHex x && isHex y then (16 * hexVal x + hexVal y) :: pctDecode rest2
        else c :: x :: y :: pctDecode rest2
      | _ => c :: rest
    else c :: pctDecode rest

/-- Every `'%'` is followed by two hexadecimal digits. -/
def wellFormedPct : List Nat → Bool
  | [] => true
  | c :: rest =>
    if c = 37 then
      match rest with
      | x :: y :: rest2 => isHex x && isHex y && wellFormedPct rest2
      | _ => false
    else wellFormedPct rest

/-- Percent-encoding as the specification words it: every byte outside
`[A-Za-z0-9-_.~]` becomes `%XX`. -/
def pctEncode : List Nat → List Nat
  | [] => []
  | c :: rest => (if isUnreserved c then [c] else pctEscape c) ++ pctEncode rest


/-! ## The query string as the specification describes it -/

/-- Split a byte string at every separator byte. -/
def splitSep (sep : Nat) : List Nat → List (List Nat)
  | [] => [[]]
  | c :: cs =>
    if c = sep then [] :: splitSep sep cs
    else
      match splitSep sep cs with
      | [] => [[c]]
      | s :: ss => (c :: s) :: ss

/-- The `'&'`-separated segments of a query string; an empty query has none. -/
def querySegments (q : List Nat) : List (List Nat) :=
  if q = [] then [] else splitSep 38 q

/-- The value that goes with the name `g`: what follows `g=` in the first segment
that begins with `g=`. -/
def findSeg (g : List Nat) : List (List Nat) → Option (List Nat)
  | [] => none
  | s :: ss => if (g ++ [61]).isPrefixOf s then some (s.drop (g.length + 1)) else findSeg g ss

/-- The key of a segment: the bytes before its first `'='`. -/
def segKey (s : List Nat) : List Nat := s.takeWhile (fun c => c ≠ 61)

/-- Join segments with `'&'` between them. -/
def joinAmp : List (List Nat) → List Nat
  | [] => []
  | [s] => s
  | s :: t :: rest => s ++ 38 :: joinAmp (t :: rest)

/-- Copy the bytes of a value into the storage from `Write` on, with the capacity
check of `WS_ProcessGetVars` before each byte. -/
def copyList : List Nat → List Nat → Nat → Option (List Nat × Nat × Bool)
  | [], A, Write => some (A, Write, false)
  | c :: cs, A, Write =>
    if Write ≥ WS_OPT_ARG_MEMORY_SIZE then some (A, Write, true)
    else
      match wr A Write c with
      | none => none
      | some A1 => copyList cs A1 (Write + 1)

/-- What `WS_ProcessGetVars` does for one name, given the raw value found for it
(`none` when the name is not in the query). -/
def storeEntry (v : Option (List Nat)) (A : List Nat) (Write : Nat) :
    Option (List Nat × Nat × Bool) :=
  if Write ≥ WS_OPT_ARG_MEMORY_SIZE then some (A, Write, true)
  else
    match wr A Write (if v.isSome then 89 else 78) with
    | none => none
    | some A1 =>
      match v with
      | none => some (A1, Write + 1, false)
      | some val =>
        match copyList val A1 (Write + 1) with
        | none => none
        | some (A2, W2, true) => some (A2, W2, true)
        | some (A2, W2, false) =>
          if W2 ≥ WS_OPT_ARG_MEMORY_SIZE then some (A2, W2, true)
          else
            match wr A2 W2 0 with
            | none => none
            | some A3 =>
              match WS_URLDecodeInPlace A3 Write with
              | none => none
              | some (A4, W4) => some (A4, W4, false)

/-- What `WS_ProcessGetVars` does for a list of names, given the raw value found for
each. -/
def storeAll (look : List Nat → Option (List Nat)) :
    List (List Nat) → List Nat → Nat → Option (List Nat × Nat × Bool)
  | [], A, Write => some (A, Write, false)
  | nm :: rest, A, Write =>
    match storeEntry (look (cstr nm)) A Write with
    | none => none
    | some (A1, W1, true) => some (A1, W1, true)
    | some (A1, W1, false) => storeAll look rest A1 W1

/-- The storage and reply status `WS_ProcessGetVars` leaves, as a function of the raw
value found for each declared Get name. -/
def getVarsResult (look : List Nat → Option (List Nat)) (pp : WSPageProp) (A : List Nat)
    (st : ReplyStatus) : Option (List Nat × ReplyStatus) :=
  match storeAll look (pp.Gets.getD []) A 0 with
  | none => none
  | some (A1, _, true) => some (A1, ReplyStatus.InsufficientStorage)
  | some (A1, W1, false) =>
    match fillN (nameCount pp.Cookies) A1 W1 with
    | none => none
    | some (A2, _, true) => some (A2, ReplyStatus.InsufficientStorage)
    | some (A2, W2, false) =>
      match fillN (nameCount pp.Posts) A2 W2 with
      | none => none
      | some (A3, _, true) => some (A3, ReplyStatus.InsufficientStorage)
      | some (A3, _, false) => some (A3, st)

/-- The bytes of one stored entry: `'N'`, or `'Y'`, the decoded value and a NUL. -/
def entryBytes : Option (List Nat) → List Nat
  | none => [78]
  | some v => 89 :: (pctDecode v ++ [0])

/-- The stored Get section for a list of names. -/
def getsLayout (look : List Nat → Option (List Nat)) : List (List Nat) → List Nat
  | [] => []
  | nm :: rest => entryBytes (look (cstr nm)) ++ getsLayout look rest

/-- The raw data fits: each entry is written at an offset from which its marker, its
value before decoding and its terminator stay inside the storage. -/
def rawFits (look : List Nat → Option (List Nat)) : List (List Nat) → Nat → Bool
  | [], _ => true
  | nm :: rest, off =>
    match look (cstr nm) with
    | none => decide (off + 1 ≤ WS_OPT_ARG_MEMORY_SIZE) && rawFits look rest (off + 1)
    | some v =>
      decide (off + 1 + v.length + 1 ≤ WS_OPT_ARG_MEMORY_SIZE)
        && rawFits look rest (off + 1 + (pctDecode v).length + 1)


/-! ## Sessions and routes used in the examples -/

/-- A new session whose route declares the given names (what `FS_GetFileProperties`
stores in `PageProp`) and whose line buffer holds `line`, a NUL and zeros. -/
def sessionWith (gets cookies posts : Option (List (List Nat))) (line : List Nat) : WebServer :=
  { freshWeb with
    PageProp := { freshWeb.PageProp with Gets := gets, Cookies := cookies, Posts := posts }
    LineBuff := line ++ List.replicate (WS_LINE_BUFFER_SIZE - line.length) 0 }

/-- `n` copies of a byte string. -/
def repeatBytes (n : Nat) (s : List Nat) : List Nat := (List.replicate n s).flatten

/-- `WS_ProcessURI` followed by `WS_ProcessGetVars`, as in the `Request` phase for a
known file. -/
def uriThenGetVars (Web : WebServer) : Option WebServer :=
  match WS_ProcessURI Web with
  | none => none
  | some (Web1, _) => WS_ProcessGetVars Web1


/-- The table `m_Files` of `FileServer.c`: the one file `/`, whose function
`File_Root` sends the content `index` of `index.html` with
`WS_WriteWhole(Web,index,strlen(index)-1)`. -/
def fileServerTable (index : List Nat) : List FileInfo :=
  [{ Filename := B "/", Dynamic := false, Cookies := none, Gets := none, Posts := none,
     WriteFile := fun _ => [Action.WriteWhole index ((cstr index).length - 1 : Int)] }]

/-- A function of a file that reports what `WS_GET`, `WS_COOKIE` or `WS_POST` gives it
for one name: the value after `=`, or `NULL`. -/
def echoArg (look : ArgView → List Nat → Option (Option (List Nat))) (name : List Nat) :
    ArgView → List Action :=
  fun v =>
    match look v name with
    | some (some x) => [Action.WriteWhole (name ++ B "=" ++ x) ((name ++ B "=" ++ x).length : Int)]
    | some none => [Action.WriteWhole (name ++ B " is NULL") ((name ++ B " is NULL").length : Int)]
    | none => []

/-- A table with the one file `/` that declares the given names. -/
def oneFileTable (gets cookies posts : Option (List (List Nat)))
    (WriteFile : ArgView → List Action) : List FileInfo :=
  [{ Filename := B "/", Dynamic := false, Cookies := cookies, Gets := gets, Posts := posts,
     WriteFile := WriteFile }]

/-- The bytes sent on the connection of a session. -/
def sentBytes (r : Option WebServer) : Option (List Nat) := r.map (fun w => w.Con.Sent)

/-- The automatic reply for a status: status line, `Server`, `Content-Length` and the
status text as body. -/
def autoReply (st : ReplyStatus) : List Nat :=
  B "HTTP/1.1 " ++ statusMsg st ++ B "\r\nServer: BittyHTTP\r\nContent-Length: "
    ++ fmtDec (statusMsg st).length ++ B "\r\n\r\n" ++ statusMsg st

/-- The reply of a file that sends `body` with `WS_WriteWhole`, for a file that is not
dynamic. -/
def wholeReply (body : List Nat) : List Nat :=
  B "HTTP/1.1 200 OK\r\nServer: BittyHTTP\r\nETag: \"1.0.0.0\"\r\nContent-Length: "
    ++ fmtDec body.length ++ B "\r\n\r\n" ++ body


/-! ## Definitions for the chunks of a request

`serverTurn` is the body of the loop of `WS_RunServer` taken apart (`runServerLoop`
is shown to be its iteration), and `reachesResponse` follows it to the Response
phase. `isHeaderLine`, `declaredLength`, `headerBytes` and `requestBytes` say what
the bytes of one complete request are, following the specification. -/

/-- The phase bookkeeping of a session: the parsing functions leave it alone. -/
def SamePhase (W W' : WebServer) : Prop :=
  W'.State = W.State ∧ W'.Req = W.Req ∧ W'.BodySize = W.BodySize

/-- The body size that a stored header line gives: the decimal number after
`Content-Length:` and one optional space, as a 32 bit unsigned value; `none` for
every other line. -/
def contentLengthOf (L : List Nat) : Option Nat :=
  if startsWith L 0 (B "Content-Length:") then
    (cstrAt L (if rd L 15 = some 32 then 16 else 15)).map (fun s => toU32 (strtol 10 s))
  else none

/-- The number of turns of the loop of `WS_RunServer` that can follow without a byte
being used, by phase. -/
def phaseRank : WebServerState → Nat
  | .Closed => 1
  | .Response => 1
  | .Body => 2
  | .Headers => 3
  | .Request => 3
  | .MAX => 0

/-- What one turn of the `for(;;)` loop of `WS_RunServer` ends with: a `return`, or
the next turn with the bytes that are left. -/
inductive Turn
  | done (r : WebServer × RunExit)
  | again (Web : WebServer) (rest : List Nat)

/-- The work on a request line that has been read (`case e_WebServerState_Request`). -/
def methodLine (m_Files : List FileInfo) (Web1 : WebServer) : Option WebServer :=
  if startsWith Web1.LineBuff 0 (B "GET ") then requestLine m_Files Web1 ReqType.Get 4
  else if startsWith Web1.LineBuff 0 (B "POST ") then requestLine m_Files Web1 ReqType.Post 5
  else some { Web1 with ReplyStatus := ReplyStatus.NotImplemented }

/-- The work on a header line that has been read (`case e_WebServerState_Headers`): an
empty line ends the headers. -/
def headerLine (Web1 : WebServer) : Option WebServer :=
  match rd Web1.LineBuff 0 with
  | none => none
  | some c =>
    if c = 0 then some { Web1 with State := nextState Web1.State }
    else WS_ProcessHeader Web1

/-- The bytes of a body (`case e_WebServerState_Body`): the new session and the bytes
that are left. -/
def bodyBytes (Web : WebServer) (ReadBuff : List Nat) : Option (WebServer × List Nat) :=
  if Web.Req = ReqType.Post then postBodyLoop Web ReadBuff
  else if Web.BodySize < ReadBuff.length then
    some ({ Web with BodySize := 0 }, ReadBuff.drop (ReadBuff.length - Web.BodySize))
  else
    some ({ Web with BodySize := Web.BodySize - ReadBuff.length }, [])

/-- One turn of the `for(;;)` loop of `WS_RunServer`, the body of `runServerLoop`. -/
def serverTurn (m_Files : List FileInfo) (now : Nat) (Web : WebServer) (ReadBuff : List Nat) :
    Option Turn :=
  match Web.State with
  | .Closed => some (.done ({ Web with Con := SocketsCon_Close Web.Con }, RunExit.closed))
  | .Request =>
    match WS_GetNextLine Web ReadBuff with
    | none => none
    | some (Web1, BytesUsed) =>
      if BytesUsed = 0 then some (.done (Web1, RunExit.needMore))
      else if BytesUsed < 0 then
        some (.done (tooLongReply Web1 ReplyStatus.URITooLong, RunExit.closed))
      else
        (methodLine m_Files Web1).map
          (fun Web2 => .again { Web2 with State := nextState Web2.State }
            (ReadBuff.drop BytesUsed.toNat))
  | .Headers =>
    match WS_GetNextLine Web ReadBuff with
    | none => none
    | some (Web1, BytesUsed) =>
      if BytesUsed = 0 then some (.done (Web1, RunExit.needMore))
      else if BytesUsed < 0 then
        some (.again (tooLongReply Web1 ReplyStatus.RequestHeaderFieldsTooLarge) ReadBuff)
      else (headerLine Web1).map (fun Web2 => .again Web2 (ReadBuff.drop BytesUsed.toNat))
  | .Body =>
    match bodyBytes Web ReadBuff with
    | none => none
    | some (Web1, rest) =>
      if Web1.BodySize = 0 then some (.again { Web1 with State := nextState Web1.State } rest)
      else some (.done (Web1, RunExit.needMore))
  | .Response =>
    (WS_SendResponse m_Files Web).map
      (fun w => .done (WS_ResetWebServer now w, RunExit.responded))
  | .MAX => some (.again Web ReadBuff)

/-- The run of `WS_RunServer` over the bytes comes to the Response phase. -/
def reachesResponse (m_Files : List FileInfo) (now : Nat) : Nat → WebServer → List Nat → Bool
  | 0, _, _ => false
  | fuel + 1, Web, ReadBuff =>
    if Web.State = WebServerState.Response then true
    else
      match serverTurn m_Files now Web ReadBuff with
      | some (.again Web1 rest) => reachesResponse m_Files now fuel Web1 rest
      | _ => false

/-- The bytes of a line as `WS_GetNextLine` stores them: without the carriage
returns. -/
def stripCR (l : List Nat) : List Nat := l.filter (fun c => c ≠ 13)

/-- A header line of a request: no line feed in it, and what is stored of it starts
with a byte that is not NUL (a line without such a byte ends the headers). -/
def isHeaderLine (h : List Nat) : Bool :=
  !h.contains 10 &&
    match stripCR h with
    | [] => false
    | c :: _ => c != 0

/-- The length of the body that the header lines of a request give: the value of
the last `Content-Length:` line, and `n` without such a line. -/
def declaredLength : List (List Nat) → Nat → Nat
  | [], n => n
  | h :: hs, n => declaredLength hs ((contentLengthOf (stripCR h ++ [0])).getD n)

/-- The bytes after the request line: every header line with its line feed, the
empty line (`cr` carriage returns and a line feed) and the body. -/
def headerBytes (hdrs : List (List Nat)) (cr : Nat) (body : List Nat) : List Nat :=
  (hdrs.map (fun h => h ++ [10])).flatten ++ (List.replicate cr 13 ++ 10 :: body)

/-- The bytes of a request: the request line with its line feed, the header lines,
the empty line and the body. -/
def requestBytes (line : List Nat) (hdrs : List (List Nat)) (cr : Nat) (body : List Nat) :
    List Nat :=
  line ++ 10 :: headerBytes hdrs cr body

/-- A table with one file of the given name that declares the given names. -/
def namedFileTable (name : List Nat) (gets cookies posts : Option (List (List Nat)))
    (WriteFile : ArgView → List Action) : List FileInfo :=
  [{ Filename := name, Dynamic := false, Cookies := cookies, Gets := gets, Posts := posts,
     WriteFile := WriteFile }]

/-- One tag of an `If-None-Match` value as it is written: spaces, `W/` when the tag is
weak, and the tag between double quotes. An item is (spaces, weak, tag). -/
def etagItem (i : Nat × Bool × List Nat) : List Nat :=
  List.replicate i.1 32 ++ ((if i.2.1 then B "W/" else []) ++ 34 :: (i.2.2 ++ [34]))

/-- The items after the first one, each one after a comma. -/
def etagTail : List (Nat × Bool × List Nat) → List Nat
  | [] => []
  | i :: rest => 44 :: (etagItem i ++ etagTail rest)

/-- A comma-separated list of double-quoted tags, the value of `If-None-Match`. -/
def etagList : List (Nat × Bool × List Nat) → List Nat
  | [] => []
  | i :: rest => etagItem i ++ etagTail rest

/-- An item after `WS_ProcessHeader` has looked at it: the closing quote is a NUL. -/
def etagItemDone (i : Nat × Bool × List Nat) : List Nat :=
  List.replicate i.1 32 ++ ((if i.2.1 then B "W/" else []) ++ 34 :: (i.2.2 ++ [0]))

/-- The items after the first one after `WS_ProcessHeader` has looked at them. -/
def etagTailDone : List (Nat × Bool × List Nat) → List Nat
  | [] => []
  | i :: rest => 44 :: (etagItemDone i ++ etagTailDone rest)

/-- The list of tags after `WS_ProcessHeader` has looked at it. -/
def etagListDone : List (Nat × Bool × List Nat) → List Nat
  | [] => []
  | i :: rest => etagItemDone i ++ etagTailDone rest

/-- The bytes of one stored entry: `N` for a name without value, otherwise `Y`, the value
as it is stored and a NUL. -/
def storedEntry : Option (List Nat) → List Nat
  | none => [78]
  | some v => 89 :: (v ++ [0])

/-- The bytes of a section of the storage: its entries one after the other. -/
def sectionBytes : List (Option (List Nat)) → List Nat
  | [] => []
  | o :: rest => storedEntry o ++ sectionBytes rest

/-- The value that a section holds for a name: that of the first declared name equal
to it. -/
def sectionLookup (Arg : List Nat) :
    List (List Nat) → List (Option (List Nat)) → Option (List Nat)
  | nm :: names, o :: vals => if cstr nm = cstr Arg then o else sectionLookup Arg names vals
  | _, _ => none

/-- The end of the stored data as the code finds it: `WS_SkipStorageArgs` over the Get,
the Cookie and the Post names. -/
def endOfStorage (Web : WebServer) : Option Nat :=
  (WS_SkipStorageArgs Web.ArgsStorage 0 Web.PageProp.Gets).bind fun p =>
    (WS_SkipStorageArgs Web.ArgsStorage p Web.PageProp.Cookies).bind fun q =>
      WS_SkipStorageArgs Web.ArgsStorage q Web.PageProp.Posts

/-- A session after the request line `GET /?a=1 HTTP/1.1` for a file that declares the
Get name `a`, the Cookie name `c` and the Post name `p`, with the header line
`Cookie: c=v` in the line buffer. -/
def cookieFrameExample : WebServer :=
  { sessionWith (some [B "a"]) (some [B "c"]) (some [B "p"]) (B "Cookie: c=v") with
    ArgsStorage := 89 :: 49 :: 0 :: 78 :: 78 :: List.replicate 95 0 }

/-- The keys of a POST body fit in the line buffer: read as `WS_RunServer` reads a body (a
key up to `=`, a value up to `&`), no key has more than 254 bytes. The flag says that a
key is being read, the number is the count of its bytes so far. -/
def postKeysFit : Bool → Nat → List Nat → Bool
  | _, _, [] => true
  | true, n, c :: cs =>
    if c = 61 then postKeysFit false 0 cs
    else decide (n + 2 < WS_LINE_BUFFER_SIZE) && postKeysFit true (n + 1) cs
  | false, n, c :: cs =>
    if c = 38 then postKeysFit true 0 cs else postKeysFit false n cs

/-- A session of a request for a file that is not known, before the reply: the status is
404, no name is declared, no function has touched the reply, the connection is the
given one and the line buffer has its 256 bytes. -/
def Quiet (C : SocketCon) (W : WebServer) : Prop :=
  W.ReplyStatus = ReplyStatus.NotFound ∧ W.Con = C ∧ W.UserSetReplyStatus = false ∧
  W.WriteChunked = false ∧ W.PageProp.Gets = none ∧ W.PageProp.Cookies = none ∧
  W.PageProp.Posts = none ∧ W.LineBuff.length = WS_LINE_BUFFER_SIZE ∧ W.PostWritePos = none ∧
  W.BodySize < 4294967296

/-- The first half of `postByte`: what the state of the body does with the byte. -/
def postByteFirst (Web : WebServer) (c : Nat) : Option WebServer :=
  match Web.PostState with
  | .GettingKey =>
    if c = 61 then
      match wr Web.LineBuff Web.LineBuffPos 0 with
      | none => none
      | some L =>
        match WS_URLDecodeInPlace L 0 with
        | none => none
        | some (L1, _) =>
          match WS_StartProcessingPOSTVar
              { Web with LineBuff := L1, LineBuffPos := Web.LineBuffPos + 1 } with
          | none => none
          | some Web1 =>
            some { Web1 with PostState := WSPostState.GettingValue, LineBuffPos := 0 }
    else
      match wr Web.LineBuff Web.LineBuffPos c with
      | none => none
      | some L =>
        let Web1 := { Web with LineBuff := L, LineBuffPos := Web.LineBuffPos + 1 }
        if Web1.LineBuffPos ≥ WS_LINE_BUFFER_SIZE - 1 then
          some { Web1 with ReplyStatus := ReplyStatus.InsufficientStorage,
                           PostState := WSPostState.Error }
        else some Web1
  | .GettingValue =>
    if c = 38 then
      match WS_CopyLineBuffer2POSTVar Web with
      | none => none
      | some (Web1, false) => some { Web1 with PostState := WSPostState.Error }
      | some (Web1, true) => some { Web1 with PostState := WSPostState.GettingKey }
    else
      match wr Web.LineBuff Web.LineBuffPos c with
      | none => none
      | some L =>
        let Web1 := { Web with LineBuff := L, LineBuffPos := Web.LineBuffPos + 1 }
        if Web1.LineBuffPos ≥ WS_LINE_BUFFER_SIZE - 1 then
          match WS_CopyLineBuffer2POSTVar Web1 with
          | none => none
          | some (Web2, false) => some { Web2 with PostState := WSPostState.Error }
          | some (Web2, true) => some Web2
        else some Web1
  | .Error =>
    if c = 38 then some { Web with PostState := WSPostState.GettingKey, LineBuffPos := 0 }
    else some Web
  | .MAX => some Web

/-- The second half of `postByte`: the byte is counted, and the value is copied when the
body ends in a value. -/
def postByteEnd (Web1 : WebServer) : Option (WebServer × Bool) :=
  let Web2 := { Web1 with BodySize := (Web1.BodySize + 4294967295) % 4294967296 }
  if Web2.BodySize = 0 ∧ Web2.PostState = WSPostState.GettingValue then
    match WS_CopyLineBuffer2POSTVar Web2 with
    | none => none
    | some (Web3, false) => some ({ Web3 with PostState := WSPostState.Error }, true)
    | some (Web3, true) =>
      some ({ Web3 with PostState := WSPostState.GettingKey, LineBuffPos := 0 }, false)
  else some (Web2, false)

/-- A part of a `Cookie:` header without the spaces in front of it. -/
def dropSpaces (s : List Nat) : List Nat := s.dropWhile (fun c => c = 32)

/-- The pairs of a `Cookie:` header: the parts between `;`, each without the spaces in
front of it. -/
def cookiePairs (args : List Nat) : List (List Nat) := (splitSep 59 args).map dropSpaces

/-- The bytes of the parts of a header in the line buffer after it has been cut: every
part (its count of spaces and the rest) with its NUL. -/
def partBytes (segs : List (Nat × List Nat)) : List Nat :=
  (segs.map (fun s => List.replicate s.1 32 ++ (s.2 ++ [0]))).flatten

/-- The values of the declared Cookie names in a header: for each name the rest of the
first pair that begins with the name and `=`, as it was sent. -/
def cookieValues (names : List (List Nat)) (args : List Nat) : List (Option (List Nat)) :=
  names.map (fun nm => findSeg (cstr nm) (cookiePairs args))

/-- A session after the request line `GET /?a=1 HTTP/1.1` for a file that declares the
Get name `a`, the Cookie name `c` and the Post name `p`, with the header line
`Cookie: x=1; c=a%20b; c=w` in the line buffer. -/
def cookiePairsExample : WebServer :=
  { sessionWith (some [B "a"]) (some [B "c"]) (some [B "p"]) (B "Cookie: x=1; c=a%20b; c=w") with
    ArgsStorage := 89 :: 49 :: 0 :: 78 :: 78 :: List.replicate 95 0 }

/-- A table with the one file `/`, dynamic or not, that declares no names and whose
function makes the given calls of the response primitives. -/
def callsTable (dynamic : Bool) (calls : List Action) : List FileInfo :=
  [{ Filename := B "/", Dynamic := dynamic, Cookies := none, Gets := none, Posts := none,
     WriteFile := fun _ => calls }]

/-- The status line and the `Server` header, what `WS_StartReply` writes first. -/
def statusAndServer (st : ReplyStatus) : List Nat :=
  B "HTTP/1.1 " ++ statusMsg st ++ B "\r\n" ++ B "Server: BittyHTTP\r\n"

/-- The `ETag` line of a file that is not dynamic; nothing for a dynamic file. -/
def etagLine (dynamic : Bool) : List Nat :=
  if dynamic then [] else B "ETag: \"1.0.0.0\"\r\n"

/-- A name or value that `WS_SetCookie` must refuse: it has a space, a comma, a
semicolon, a carriage return or a line feed in it. -/
def badCookieText (s : List Nat) : Prop :=
  ∃ c ∈ s, c = 32 ∨ c = 44 ∨ c = 59 ∨ c = 13 ∨ c = 10

/-- The conditions under which `WS_SetCookie` is to refuse the call. -/
def cookieRefused (Web : WebServer) (Name Value : List Nat) : Prop :=
  cstr Name = [] ∨ badCookieText (cstr Name) ∨ badCookieText (cstr Value) ∨
    Web.WriteStarted = true

/-- The bytes of one `WS_SetCookie` call with `Expire = 0`, in the order of the
`SocketsCon_Write` calls of the source; `; Domain=` is written with the length 7. -/
def setCookieLine (Name Value : List Nat) (Path Domain : Option (List Nat))
    (Secure HttpOnly : Bool) : List Nat :=
  B "Set-Cookie: " ++ cstr Name ++ B "=" ++ cstr Value
    ++ (match Path with
        | some P => if cstr P ≠ [] then B "; Path=" ++ cstr P else []
        | none => [])
    ++ (match Domain with
        | some D => if cstr D ≠ [] then (B "; Domain=").take 7 ++ cstr D else []
        | none => [])
    ++ (if Secure then B "; Secure" else [])
    ++ (if HttpOnly then B "; HttpOnly" else [])
    ++ B "\r\n"

/-- The characters that the specification leaves unescaped: `[A-Za-z0-9]`, `-`, `_`, `.`
and `~`. -/
def unreservedChars : List Nat :=
  B "ABCDEFGHIJKLMNOPQRSTUVWXYZabcdefghijklmnopqrstuvwxyz0123456789-_.~"

/-- The upper-case hexadecimal digit of a value below 16. -/
def upperHex (d : Nat) : Nat := (B "0123456789ABCDEF").getD d 0

/-- The encoding of one byte as the specification words it: the byte itself when it is
one of the unescaped characters, otherwise `%` and the two upper-case hexadecimal digits
of its value. -/
def encodeByte (c : Nat) : List Nat :=
  if c ∈ unreservedChars then [c] else [37, upperHex (c / 16), upperHex (c % 16)]

/-- The encoding of a string as the specification words it: the encodings of its bytes
one after the other. -/
def encodeBytes (s : List Nat) : List Nat := (s.map encodeByte).flatten

/-- What the work on the bytes of a request leaves alone: the flags of the reply, the
properties of the file and the connection; the status is what it was or has become an
error status. -/
def ReplyKept (Web W : WebServer) : Prop :=
  W.UserSetReplyStatus = Web.UserSetReplyStatus ∧ W.WriteStarted = Web.WriteStarted ∧
  W.WriteChunked = Web.WriteChunked ∧ W.ReplyStarted = Web.ReplyStarted ∧
  W.PageProp = Web.PageProp ∧ W.Con = Web.Con ∧
  (W.ReplyStatus = Web.ReplyStatus ∨
    (W.ReplyStatus ≠ ReplyStatus.Ok ∧ W.ReplyStatus ≠ ReplyStatus.MAX))

/-- The properties of a file of the table as `FS_GetFileProperties` stores them. -/
def IsRoute (m_Files : List FileInfo) (pp : WSPageProp) : Prop :=
  ∃ f, m_Files[pp.FileID]? = some f ∧
    pp = { FileID := pp.FileID, DynamicFile := f.Dynamic, Cookies := f.Cookies,
           Gets := f.Gets, Posts := f.Posts }

/-- A session while the bytes of requests are read: it is closed, or no response
primitive has touched the reply that is to come, the status is not 200, and from the
Headers phase on a status that is still unset means that the file of the request has been
found in the table. -/
def Parsing (m_Files : List FileInfo) (W : WebServer) : Prop :=
  W.State = WebServerState.Closed ∨
  (W.UserSetReplyStatus = false ∧ W.WriteStarted = false ∧ W.WriteChunked = false ∧
   W.ReplyStarted = false ∧ W.ReplyStatus ≠ ReplyStatus.Ok ∧
   (W.State ≠ WebServerState.Request → W.ReplyStatus = ReplyStatus.MAX →
      IsRoute m_Files W.PageProp))

/-- The session and the bytes that are left after `n` turns of the loop of
`WS_RunServer`, none of which was left by a `return`. -/
def turnsFrom (m_Files : List FileInfo) (now : Nat) :
    Nat → WebServer → List Nat → Option (WebServer × List Nat)
  | 0, Web, ReadBuff => some (Web, ReadBuff)
  | n + 1, Web, ReadBuff =>
    match serverTurn m_Files now Web ReadBuff with
    | some (.again Web1 rest) => turnsFrom m_Files now n Web1 rest
    | _ => none

/-- The decimal digits of a number, as Lean writes them. -/
def decimalDigits (n : Nat) : List Nat := (Nat.toDigits 10 n).map Char.toNat

/-- The hexadecimal digits of a number in upper case, without padding. -/
def upperHexDigits (n : Nat) : List Nat := (Nat.toDigits 16 n).map (fun c => c.toUpper.toNat)

/-- The session in the Response phase that the loop of `WS_RunServer` comes to after three
turns (request line, empty line, body of no byte) on the bytes `req` of a request without
header lines, from a new session. -/
def sessionAtResponse (m_Files : List FileInfo) (req : List Nat) : WebServer :=
  ((turnsFrom m_Files 0 3 freshWeb req).map (fun r => r.1)).getD freshWeb

/-- A table with the one file `/`, not dynamic, whose function writes the three buffers
`Hello`, `, ` and `world!` with `WS_WriteChunk`. -/
def helloTable : List FileInfo :=
  callsTable false
    ([B "Hello", B ", ", B "world!"].map (fun b => Action.WriteChunk b (b.length : Int)))

/-- One chunk of a chunked body as the specification describes it: the length in upper-case
hexadecimal, CRLF, the bytes, CRLF. -/
def chunkBytes (b : List Nat) : List Nat :=
  upperHexDigits b.length ++ B "\r\n" ++ b ++ B "\r\n"

/-- The reply of a file whose function writes the buffers `bs` with `WS_WriteChunk`, as
the specification describes it. -/
def chunkedReply (dynamic : Bool) (bs : List (List Nat)) : List Nat :=
  B "HTTP/1.1 200 OK\r\n" ++ B "Server: BittyHTTP\r\n"
    ++ (if dynamic then [] else B "ETag: \"1.0.0.0\"\r\n")
    ++ B "Transfer-Encoding: chunked\r\n" ++ B "\r\n"
    ++ (bs.map chunkBytes).flatten
    ++ B "0\r\n" ++ B "\r\n"

/-! ## The in-place decoder on any string -/

/-- The bytes that the loop of `WS_URLDecodeInPlace` writes for a string without NUL,
before the terminator: a `'%'` takes the next two bytes of the string (or the one byte,
or none, that is left before the end) as the text that `strtol` reads in base 16, every
other byte is copied. -/
def decodedBytes : List Nat → List Nat
  | [] => []
  | c :: rest =>
    if c = 37 then
      match rest with
      | [] => [toChar (strtol 16 (cstr [0, 0, 0]))]
      | [x] => [toChar (strtol 16 (cstr [x, 0, 0]))]
      | x :: y :: rest2 => toChar (strtol 16 (cstr [x, y, 0])) :: decodedBytes rest2
    else c :: decodedBytes rest

/-! ## What `WS_ProcessGetVars` writes -/

/-- The bytes of one entry as `WS_ProcessGetVars` writes it: `'N'` for a name without
a value, else `'Y'`, the bytes the decoder makes of the raw value, and a NUL. -/
def writtenEntry : Option (List Nat) → List Nat
  | none => [78]
  | some v => 89 :: (decodedBytes v ++ [0])

/-- The Get section as `WS_ProcessGetVars` writes it for a list of names, given the raw
value found for each. -/
def writtenGets (look : List Nat → Option (List Nat)) : List (List Nat) → List Nat
  | [] => []
  | nm :: rest => writtenEntry (look (cstr nm)) ++ writtenGets look rest

/-! ## The loop of `WS_RunServer`, turn by turn -/

/-- How the `for(;;)` loop of `WS_RunServer` stands after at most `n` turns: it was left
by a `return`, or a turn made an access outside a buffer (the turn has no result in the
model), or `n` turns were made and the loop goes on with a session and the bytes that
are left. -/
inductive LoopState
  | returned (r : WebServer × RunExit)
  | outside
  | running (Web : WebServer) (rest : List Nat)

/-- The loop of `WS_RunServer` followed for at most `n` turns. -/
def loopAfter (m_Files : List FileInfo) (now : Nat) : Nat → WebServer → List Nat → LoopState
  | 0, Web, ReadBuff => .running Web ReadBuff
  | n + 1, Web, ReadBuff =>
    match serverTurn m_Files now Web ReadBuff with
    | none => .outside
    | some (.done r) => .returned r
    | some (.again Web1 rest) => loopAfter m_Files now n Web1 rest

/-! ## Line ends of what the server writes -/

/-- Every line feed of the bytes follows a carriage return; `prev` is the byte before
the first one. -/
def crlfFrom (prev : Nat) : List Nat → Bool
  | [] => true
  | c :: r => (c != 10 || prev == 13) && crlfFrom c r

/-- Every line feed of the bytes follows a carriage return. -/
def crlfLines (t : List Nat) : Bool := crlfFrom 0 t

/-- The bytes of a call of a response primitive that come from the caller: the header
text, the URL, the name, value, path and domain of a cookie, the bytes of a body or of a
chunk. -/
def callerBytes : Action → List Nat
  | .SetHTTPStatusCode _ => []
  | .Header h => cstr h
  | .Location u => cstr u
  | .SetCookie n v _ p d _ _ =>
    cstr n ++ cstr v ++ ((p.map cstr).getD [] ++ (d.map cstr).getD [])
  | .WriteWhole b l => b.take l.toNat
  | .WriteChunk b l => b.take l.toNat

/-- The session `W` has the bytes sent of `Web` and after them bytes in which every
line feed follows a carriage return. -/
def SendsLines (Web W : WebServer) : Prop :=
  ∃ t, W.Con.Sent = Web.Con.Sent ++ t ∧ crlfLines t = true

/-! ## `SocketsCon_Read` -/

/-- What the operating system answers to the calls that `SocketsCon_Read` can make: the
value of `select` and whether the descriptor is in the set after it, the value of `read`
(at most `num`), the value of `errno` after it, and the bytes that `read` puts in the
buffer. -/
structure ReadAnswers where
  selectRet : Int
  fdIsSet : Bool
  readRet : Int
  readErrno : Int
  readBytes : List Nat
  deriving DecidableEq, Repr

/-- What a call of `SocketsCon_Read` leaves: the connection, the buffer, the returned
value, and whether `read` was called. -/
structure ReadResult where
  Con : SocketCon
  buf : List Nat
  retVal : Int
  readCalled : Bool
  deriving DecidableEq, Repr

/-- `SocketsCon_Read(Con,buf,num)` with the answers of the operating system. The
operators `||` of the source do not evaluate `select` and `FD_ISSET` when
`ReadInProgress` is set. -/
def SocketsCon_Read (Con : SocketCon) (os : ReadAnswers) (buf : List Nat) : ReadResult :=
  if Con.State = ConnectState.Error then
    { Con := Con, buf := buf, retVal := -100, readCalled := false }
  else if Con.State ≠ ConnectState.Connected then
    { Con := Con, buf := buf, retVal := 0, readCalled := false }
  else if Con.ReadInProgress = true ∨ os.selectRet ≠ 0 then
    if Con.ReadInProgress = true ∨ os.fdIsSet = true then
      -- Con->ReadInProgress=false; retVal=read(Con->SocketFD,buf,num); Con->Last_errno=errno;
      let Con1 := { Con with ReadInProgress := false, Last_errno := os.readErrno }
      let buf1 :=
        if 0 < os.readRet then os.readBytes.take os.readRet.toNat ++ buf.drop os.readRet.toNat
        else buf
      if os.readRet = 0 then
        { Con := { Con1 with State := ConnectState.Idle }, buf := buf1, retVal := -55,
          readCalled := true }
      else { Con := Con1, buf := buf1, retVal := os.readRet, readCalled := true }
    else { Con := Con, buf := buf, retVal := 0, readCalled := false }
  else { Con := Con, buf := buf, retVal := 0, readCalled := false }

/-! ## A pair in the query and the same pair in a POST body -/

/-- A session of a route with the given names in the Request phase, with the line
`GET /?q` in the line buffer as `WS_ProcessURI` leaves it: the `'?'` and the end of the
query are NUL. -/
def querySession (gets cookies posts : Option (List (List Nat))) (q : List Nat) : WebServer :=
  sessionWith gets cookies posts (B "GET /" ++ 0 :: q)

/-- The request `POST / HTTP/1.1` with a `Content-Length` line and the body. -/
def postRequest (body : List Nat) : List Nat :=
  B "POST / HTTP/1.1\r\nContent-Length: " ++ fmtDec body.length ++ B "\r\n\r\n" ++ body

/-- The session at the start of the body of `postRequest body`, for a route `/` with the
given names: a new session after the three turns of the loop of `WS_RunServer` that read
the request line, the header line and the empty line. -/
def bodySession (gets cookies posts : Option (List (List Nat))) (body : List Nat) : WebServer :=
  ((turnsFrom (oneFileTable gets cookies posts (fun _ => [])) 0 3 freshWeb
    (postRequest body)).map (fun r => r.1)).getD freshWeb

/-- What `WS_GET` gives for `K` after `WS_ProcessGetVars` has read the query `q`. -/
def queryValue (gets cookies posts : Option (List (List Nat))) (K q : List Nat) :
    Option (Option (List Nat)) :=
  (WS_ProcessGetVars (querySession gets cookies posts q)).bind (fun W => getValue W K)

/-- What `WS_POST` gives for `K` after the loop of the POST body has read `body`. -/
def bodyValue (gets cookies posts : Option (List (List Nat))) (K body : List Nat) :
    Option (Option (List Nat)) :=
  (postBodyLoop (bodySession gets cookies posts body) body).bind (fun r => postValue r.1 K)

/-! ## Sessions in the middle of a request -/

/-- The session after `n` turns of the loop of `WS_RunServer` on the bytes `req`, from a
new session. -/
def sessionAfter (m_Files : List FileInfo) (n : Nat) (req : List Nat) : WebServer :=
  ((turnsFrom m_Files 0 n freshWeb req).map (fun r => r.1)).getD freshWeb

/-- The session after the bytes `bs` of a POST body, from the session `W`. -/
def afterBody (W : WebServer) (bs : List Nat) : WebServer :=
  ((postBodyLoop W bs).map (fun r => r.1)).getD W

/-! ## What `WS_ProcessGetVars` stores, written with the parts of the storage -/

/-- What `storeEntry` leaves in a storage of `WS_OPT_ARG_MEMORY_SIZE` bytes for a value
without NUL, written with the parts of the storage: nothing when the marker does not fit;
the marker `'N'`; the marker `'Y'` and the bytes of the raw value that fit, when the raw
value and its terminator do not fit; else the marker, the bytes that the decoder makes of
the value, a NUL and what is left of the raw value behind it. -/
def storeEntryParts (v : Option (List Nat)) (A : List Nat) (Write : Nat) :
    List Nat × Nat × Bool :=
  if Write ≥ WS_OPT_ARG_MEMORY_SIZE then (A, Write, true)
  else
    match v with
    | none => (A.take Write ++ 78 :: A.drop (Write + 1), Write + 1, false)
    | some val =>
      if Write + 1 + val.length ≥ WS_OPT_ARG_MEMORY_SIZE then
        (A.take Write ++ 89 :: val.take (WS_OPT_ARG_MEMORY_SIZE - 1 - Write),
          WS_OPT_ARG_MEMORY_SIZE, true)
      else
        (A.take Write ++ (89 :: decodedBytes val ++ 0 ::
            (89 :: val ++ 0 :: A.drop (Write + val.length + 2)).drop
              ((decodedBytes val).length + 2)),
          Write + (decodedBytes val).length + 2, false)

/-- What `storeAll` leaves, written with the parts of the storage. -/
def storeAllParts (look : List Nat → Option (List Nat)) :
    List (List Nat) → List Nat → Nat → List Nat × Nat × Bool
  | [], A, Write => (A, Write, false)
  | nm :: rest, A, Write =>
    if (storeEntryParts (look (cstr nm)) A Write).2.2 = true then
      storeEntryParts (look (cstr nm)) A Write
    else
      storeAllParts look rest (storeEntryParts (look (cstr nm)) A Write).1
        (storeEntryParts (look (cstr nm)) A Write).2.1

/-! ## Sessions in the middle of a request line -/

/-- The session after `WS_GetNextLine` on the bytes `bs`, from the session `W`. -/
def afterLine (W : WebServer) (bs : List Nat) : WebServer :=
  ((WS_GetNextLine W bs).map (fun r => r.1)).getD W

/-- The value `WS_GetNextLine` returns on the bytes `bs`, from the session `W`. -/
def lineUsed (W : WebServer) (bs : List Nat) : Int :=
  ((WS_GetNextLine W bs).map (fun r => r.2)).getD 0

/-- The session after `WS_ProcessURI` for a request of the type `req`. -/
def afterURI (W : WebServer) (req : ReqType) : WebServer :=
  ((WS_ProcessURI { W with Req := req }).map (fun r => r.1)).getD W

/-! # Theorems -/


/-! ## Basic facts about buffers -/

theorem rd_at (a : List Nat) (c : Nat) (b : List Nat) : rd (a ++ c :: b) a.length = some c := by
  unfold rd
  rw [List.getElem?_append_right (le_refl _)]
  simp

theorem rd_at_eq (a : List Nat) (c : Nat) (b : List Nat) (i : Nat) (h : i = a.length) :
    rd (a ++ c :: b) i = some c := by
  subst h; exact rd_at a c b

theorem wr_at (a : List Nat) (c : Nat) (b : List Nat) (v : Nat) :
    wr (a ++ c :: b) a.length v = some (a ++ v :: b) := by
  simp [wr]

theorem wr_at_eq (a : List Nat) (c : Nat) (b : List Nat) (v i : Nat) (h : i = a.length) :
    wr (a ++ c :: b) i v = some (a ++ v :: b) := by
  subst h; exact wr_at a c b v


theorem cstrlen_append (s rest : List Nat) (hs : NoNul s) :
    cstrlen (s ++ 0 :: rest) = some s.length := by
  induction s with
  | nil => simp [cstrlen]
  | cons c cs ih =>
    have hc : c ≠ 0 := hs c (by simp)
    have hcs : NoNul cs := fun x hx => hs x (by simp [hx])
    simp [cstrlen, hc, ih hcs]

theorem strlenAt_append (pre s rest : List Nat) (hs : NoNul s) :
    strlenAt (pre ++ (s ++ 0 :: rest)) pre.length = some s.length := by
  simp [strlenAt, cstrlen_append s rest hs]

theorem cstrAt_append (pre s rest : List Nat) (hs : NoNul s) :
    cstrAt (pre ++ (s ++ 0 :: rest)) pre.length = some s := by
  simp [cstrAt, strlenAt_append pre s rest hs]

theorem skipUntil_append (c : Nat) (pre s : List Nat) (y : Nat) (post : List Nat)
    (hs : ∀ x ∈ s, x ≠ c ∧ x ≠ 0) (hy : y = c ∨ y = 0) (fuel : Nat) (hf : s.length < fuel) :
    skipUntil c fuel (pre ++ (s ++ y :: post)) pre.length = some (pre.length + s.length) := by
  induction s generalizing pre fuel with
  | nil =>
    cases fuel with
    | zero => simp at hf
    | succ f =>
      rcases hy with h | h <;> simp [skipUntil, rd_at, h]
  | cons x xs ih =>
    cases fuel with
    | zero => simp at hf
    | succ f =>
      have hx := hs x (by simp)
      have h1 : rd (pre ++ (x :: xs ++ y :: post)) pre.length = some x := by
        simpa using rd_at pre x (xs ++ y :: post)
      have h2 := ih (pre ++ [x]) (fun z hz => hs z (by simp [hz])) f (by simpa using hf)
      simp only [List.append_assoc, List.singleton_append, List.length_append,
        List.length_singleton] at h2
      simp only [skipUntil, h1, hx.1, hx.2, ne_eq, not_false_eq_true, and_self, ↓reduceIte]
      simp only [List.append_assoc, List.cons_append, List.length_cons] at h2 ⊢
      rw [h2]; congr 1; omega

theorem findLastH_tail (pre tail rest : List Nat) (hpre : pre ≠ []) (ht : ∀ x ∈ tail, x ≠ 72)
    (k : Nat) (hk : k ≤ tail.length) :
    findLastH (pre ++ 72 :: (tail ++ rest)) (pre.length + k) = some pre.length := by
  induction k with
  | zero =>
    obtain ⟨e, he⟩ : ∃ e, pre.length = e + 1 := by
      cases pre with
      | nil => exact absurd rfl hpre
      | cons a as => exact ⟨as.length, by simp⟩
    have h1 : rd (pre ++ 72 :: (tail ++ rest)) (e + 1) = some 72 := by
      rw [← he]; exact rd_at pre 72 (tail ++ rest)
    simp [he, findLastH, h1]
  | succ k ih =>
    have hlt : k < tail.length := hk
    have h1 : rd (pre ++ 72 :: (tail ++ rest)) (pre.length + k + 1) = some (tail[k]) := by
      have : pre ++ 72 :: (tail ++ rest) = (pre ++ 72 :: tail.take k) ++ tail[k] :: (tail.drop (k + 1) ++ rest) := by
        have h3 : tail = tail.take k ++ tail[k] :: tail.drop (k + 1) := by
          rw [← List.drop_eq_getElem_cons hlt, List.take_append_drop]
        have h4 : tail ++ rest = tail.take k ++ tail[k] :: (tail.drop (k + 1) ++ rest) := by
          conv_lhs => rw [h3]
          simp only [List.append_assoc, List.cons_append]
        simp only [List.append_assoc, List.cons_append, h4]
      rw [this]
      apply rd_at_eq
      simp; omega
    have h2 : tail[k] ≠ 72 := ht _ (List.getElem_mem hlt)
    have : pre.length + (k + 1) = (pre.length + k) + 1 := by omega
    rw [this]
    simp only [findLastH, h1, h2, ↓reduceIte]
    exact ih (by omega)



theorem B_GET : B "GET " = [71, 69, 84, 32] := by decide
theorem B_POST : B "POST " = [80, 79, 83, 84, 32] := by decide
theorem B_sp_HTTP11 : B " HTTP/1.1" = [32, 72, 84, 84, 80, 47, 49, 46, 49] := by decide
theorem B_HTTP11 : B "HTTP/1.1" = [72, 84, 84, 80, 47, 49, 46, 49] := by decide
theorem B_TTP11 : B "TTP/1.1" = [84, 84, 80, 47, 49, 46, 49] := by decide

/-- `WS_ProcessURI` on a buffer that holds `front`, a space, `HTTP/1.1` and a NUL, where
`front` is `head`, a byte `y` that is `'?'` or the space itself, and so on. This is the
common part of both cases of the split. -/
theorem processURI_core (Web : WebServer) (front rest : List Nat) (hfront : NoNul front)
    (hL : Web.LineBuff = front ++ (32 :: 72 :: ([84, 84, 80, 47, 49, 46, 49] ++ 0 :: rest))) :
    WS_ProcessURI Web =
      match skipUntil 63 (Web.LineBuff.length + 1)
          (front ++ (0 :: 72 :: ([84, 84, 80, 47, 49, 46, 49] ++ 0 :: rest))) 0 with
      | none => none
      | some ArgsStart =>
        match rd (front ++ (0 :: 72 :: ([84, 84, 80, 47, 49, 46, 49] ++ 0 :: rest))) ArgsStart with
        | none => none
        | some c =>
          let q := if c ≠ 0 then ArgsStart else ArgsStart + 1
          (wr (front ++ (0 :: 72 :: ([84, 84, 80, 47, 49, 46, 49] ++ 0 :: rest))) q 0).map
            (fun L2 => ({ Web with LineBuff := L2 }, true)) := by
  have hline : NoNul (front ++ [32, 72, 84, 84, 80, 47, 49, 46, 49]) := by
    intro c hc
    rcases List.mem_append.1 hc with h | h
    · exact hfront c h
    · simp at h; omega
  have h1 : strlenAt Web.LineBuff 0 = some (front.length + 9) := by
    have := strlenAt_append [] (front ++ [32, 72, 84, 84, 80, 47, 49, 46, 49]) rest hline
    simpa [hL] using this
  have h2 : findLastH Web.LineBuff (front.length + 9) = some (front.length + 1) := by
    have := findLastH_tail (front ++ [32]) [84, 84, 80, 47, 49, 46, 49, 0] rest (by simp)
      (by intro x hx; simp at hx; omega) 8 (by simp)
    simpa [hL] using this
  have h3 : cstrAt Web.LineBuff (front.length + 1) = some (B "HTTP/1.1") := by
    have := cstrAt_append (front ++ [32]) [72, 84, 84, 80, 47, 49, 46, 49] rest
      (by intro x hx; simp at hx; omega)
    rw [B_HTTP11]
    simpa [hL] using this
  have h4 : wr Web.LineBuff front.length 0 =
      some (front ++ (0 :: 72 :: ([84, 84, 80, 47, 49, 46, 49] ++ 0 :: rest))) := by
    rw [hL]; exact wr_at front 32 _ 0
  have hlen : (front ++ (0 :: 72 :: ([84, 84, 80, 47, 49, 46, 49] ++ 0 :: rest))).length
      = Web.LineBuff.length := by
    rw [hL]; simp
  unfold WS_ProcessURI
  simp only [h1, h2, h3, Nat.add_one_ne_zero, ↓reduceIte, ne_eq, not_true_eq_false,
    Nat.add_sub_cancel, h4, hlen]



/-- `WS_ProcessURI` on a line with a query. -/
theorem processURI_with_query (Web : WebServer) (head q rest : List Nat)
    (hhead : ∀ x ∈ head, x ≠ 63 ∧ x ≠ 0) (hq : NoNul q)
    (hL : Web.LineBuff = head ++ [63] ++ q ++ B " HTTP/1.1" ++ [0] ++ rest) :
    WS_ProcessURI Web =
      some ({ Web with LineBuff := head ++ (0 :: (q ++ 0 :: (B "HTTP/1.1" ++ [0] ++ rest))) },
        true) := by
  have hfront : NoNul (head ++ [63] ++ q) := by
    intro c hc
    simp only [List.append_assoc, List.mem_append, List.mem_singleton] at hc
    rcases hc with h | h | h
    · exact (hhead c h).2
    · omega
    · exact hq c h
  have hL' : Web.LineBuff = (head ++ [63] ++ q) ++
      (32 :: 72 :: ([84, 84, 80, 47, 49, 46, 49] ++ 0 :: rest)) := by
    rw [hL, B_sp_HTTP11]; simp
  rw [processURI_core Web _ rest hfront hL']
  have hs := skipUntil_append 63 [] head 63
    (q ++ (0 :: 72 :: ([84, 84, 80, 47, 49, 46, 49] ++ 0 :: rest))) hhead (Or.inl rfl)
    (Web.LineBuff.length + 1) (by rw [hL]; simp; omega)
  simp only [List.nil_append, List.length_nil, Nat.zero_add] at hs
  have e1 : (head ++ [63] ++ q) ++ (0 :: 72 :: ([84, 84, 80, 47, 49, 46, 49] ++ 0 :: rest))
      = head ++ 63 :: (q ++ (0 :: 72 :: ([84, 84, 80, 47, 49, 46, 49] ++ 0 :: rest))) := by
    simp
  rw [e1, hs]
  have hr := rd_at head 63 (q ++ (0 :: 72 :: ([84, 84, 80, 47, 49, 46, 49] ++ 0 :: rest)))
  have hw := wr_at head 63 (q ++ (0 :: 72 :: ([84, 84, 80, 47, 49, 46, 49] ++ 0 :: rest))) 0
  simp only [hr, hw, ne_eq, (by decide : ¬ (63 : Nat) = 0), not_false_eq_true, ↓reduceIte,
    Option.map_some']
  simp [B_HTTP11]

/-- `WS_ProcessURI` on a line without a query. -/
theorem processURI_without_query (Web : WebServer) (head rest : List Nat)
    (hhead : ∀ x ∈ head, x ≠ 63 ∧ x ≠ 0)
    (hL : Web.LineBuff = head ++ B " HTTP/1.1" ++ [0] ++ rest) :
    WS_ProcessURI Web =
      some ({ Web with LineBuff := head ++ (0 :: 0 :: (B "TTP/1.1" ++ [0] ++ rest)) }, true) := by
  have hfront : NoNul head := fun c hc => (hhead c hc).2
  have hL' : Web.LineBuff = head ++
      (32 :: 72 :: ([84, 84, 80, 47, 49, 46, 49] ++ 0 :: rest)) := by
    rw [hL, B_sp_HTTP11]; simp
  rw [processURI_core Web _ rest hfront hL']
  have hs := skipUntil_append 63 [] head 0
    (72 :: ([84, 84, 80, 47, 49, 46, 49] ++ 0 :: rest)) hhead (Or.inr rfl)
    (Web.LineBuff.length + 1) (by rw [hL]; simp; omega)
  simp only [List.nil_append, List.length_nil, Nat.zero_add] at hs
  rw [hs]
  have e2 : head ++ (0 :: 72 :: ([84, 84, 80, 47, 49, 46, 49] ++ 0 :: rest))
      = (head ++ [0]) ++ 72 :: ([84, 84, 80, 47, 49, 46, 49] ++ 0 :: rest) := by simp
  have hw : wr (head ++ (0 :: 72 :: ([84, 84, 80, 47, 49, 46, 49] ++ 0 :: rest)))
      (head.length + 1) 0 =
      some ((head ++ [0]) ++ 0 :: ([84, 84, 80, 47, 49, 46, 49] ++ 0 :: rest)) := by
    rw [e2]; exact wr_at_eq _ _ _ _ _ (by simp)
  have hr := rd_at head 0 (72 :: ([84, 84, 80, 47, 49, 46, 49] ++ 0 :: rest))
  simp only [hr, ne_eq, not_true_eq_false, ↓reduceIte, hw, Option.map_some']
  simp [B_TTP11]

theorem method_no_question (M : List Nat) (hM : M = B "GET " ∨ M = B "POST ") (p : List Nat)
    (hp : ∀ c ∈ p, c ≠ 63 ∧ c ≠ 0) : ∀ x ∈ M ++ p, x ≠ 63 ∧ x ≠ 0 := by
  intro x hx
  rcases List.mem_append.1 hx with h | h
  · rcases hM with hM | hM
    · rw [hM, B_GET] at h; simp at h; omega
    · rw [hM, B_POST] at h; simp at h; omega
  · exact hp x h

/-- C9: for a method prefix `M` (`GET ` or `POST `), a path `p` without `'?'` and a
query `q`, both without NUL, `WS_ProcessURI` on a line buffer that holds the line
`M p ? q HTTP/1.1` returns true and leaves `M p`, NUL, `q`, NUL (followed by the bytes
of the version), and on the line `M p HTTP/1.1` it returns true and leaves `M p`, NUL,
NUL: the path is split at the first `'?'` and no byte of path or query is moved. -/
theorem C9_processURI_splits_path_and_query (Web : WebServer) (M p q rest : List Nat)
    (hM : M = B "GET " ∨ M = B "POST ")
    (hp : ∀ c ∈ p, c ≠ 63 ∧ c ≠ 0) (hq : ∀ c ∈ q, c ≠ 0) :
    (Web.LineBuff = M ++ p ++ [63] ++ q ++ B " HTTP/1.1" ++ [0] ++ rest →
      WS_ProcessURI Web =
        some ({ Web with
                LineBuff := M ++ p ++ [0] ++ q ++ [0] ++ B "HTTP/1.1" ++ [0] ++ rest }, true)) ∧
    (Web.LineBuff = M ++ p ++ B " HTTP/1.1" ++ [0] ++ rest →
      WS_ProcessURI Web =
        some ({ Web with LineBuff := M ++ p ++ [0, 0] ++ B "TTP/1.1" ++ [0] ++ rest }, true)) := by
  have hMp := method_no_question M hM p hp
  constructor
  · intro hL
    rw [processURI_with_query Web (M ++ p) q rest hMp hq hL]
    simp
  · intro hL
    rw [processURI_without_query Web (M ++ p) rest hMp hL]
    simp

set_option maxRecDepth 100000 in
/-- C9 at the line `GET /a?x=1 HTTP/1.1` in the line buffer of a new session. -/
theorem C9_processURI_witness :
    (B "GET " = B "GET " ∨ B "GET " = B "POST ") ∧ (∀ c ∈ B "/a", c ≠ 63 ∧ c ≠ 0) ∧
    (∀ c ∈ B "x=1", c ≠ 0) ∧
    WS_ProcessURI { freshWeb with
        LineBuff := B "GET " ++ B "/a" ++ [63] ++ B "x=1" ++ B " HTTP/1.1" ++ [0]
          ++ List.replicate 237 0 } =
      some ({ freshWeb with
              LineBuff := B "GET " ++ B "/a" ++ [0] ++ B "x=1" ++ [0] ++ B "HTTP/1.1" ++ [0]
                ++ List.replicate 237 0 }, true) :=
  ⟨Or.inl rfl, by decide, by decide,
    (C9_processURI_splits_path_and_query
      { freshWeb with
        LineBuff := B "GET " ++ B "/a" ++ [63] ++ B "x=1" ++ B " HTTP/1.1" ++ [0]
          ++ List.replicate 237 0 }
      (B "GET ") (B "/a") (B "x=1") (List.replicate 237 0) (Or.inl rfl) (by decide)
      (by decide)).1 rfl⟩

theorem pctDecode_cons_ne (c : Nat) (s : List Nat) (h : c ≠ 37) :
    pctDecode (c :: s) = c :: pctDecode s := by
  conv_lhs => unfold pctDecode
  simp [h]

theorem pctDecode_hex (x y : Nat) (s : List Nat) (hx : isHex x = true) (hy : isHex y = true) :
    pctDecode (37 :: x :: y :: s) = (16 * hexVal x + hexVal y) :: pctDecode s := by
  conv_lhs => unfold pctDecode
  simp [hx, hy]

theorem wellFormedPct_cons_ne (c : Nat) (s : List Nat) (h : c ≠ 37) :
    wellFormedPct (c :: s) = wellFormedPct s := by
  conv_lhs => unfold wellFormedPct
  simp [h]

theorem wellFormedPct_hex (x y : Nat) (s : List Nat) :
    wellFormedPct (37 :: x :: y :: s) = (isHex x && isHex y && wellFormedPct s) := by
  conv_lhs => unfold wellFormedPct
  simp

theorem rd_of_drop {b : List Nat} {r c : Nat} {t : List Nat} (h : b.drop r = c :: t) :
    rd b r = some c := by
  have h2 : (b.drop r)[0]? = some c := by rw [h]; simp
  simpa [rd, List.getElem?_drop] using h2

theorem drop_succ_of_drop {b : List Nat} {r c : Nat} {t : List Nat} (h : b.drop r = c :: t) :
    b.drop (r + 1) = t := by
  have : b.drop (r + 1) = (b.drop r).drop 1 := by rw [List.drop_drop]
  rw [this, h]; simp

theorem lt_length_of_drop {b : List Nat} {r c : Nat} {t : List Nat} (h : b.drop r = c :: t) :
    r < b.length := by
  by_contra hn
  have : b.drop r = [] := List.drop_eq_nil_of_le (by omega)
  rw [this] at h; cases h

theorem wr_some (b : List Nat) (w v : Nat) (h : w < b.length) : wr b w v = some (b.set w v) := by
  simp [wr, h]

theorem take_set_succ (b : List Nat) (w v : Nat) (h : w < b.length) :
    (b.set w v).take (w + 1) = b.take w ++ [v] := by
  rw [List.set_eq_take_append_cons_drop, if_pos h]
  have hl : (b.take w).length = w := List.length_take_of_le (by omega)
  rw [List.take_append_eq_append_take, List.take_of_length_le (by omega)]
  simp [hl]

set_option maxRecDepth 1000000 in
theorem isHex_cases : ∀ x < 103, isHex x = true →
    x ∈ B "01234" ∨ x ∈ B "56789" ∨ x ∈ B "ABCDEF" ∨ x ∈ B "abcdef" := by
  decide!

set_option maxRecDepth 1000000 in
theorem hexPair_digitsLow : ∀ x ∈ B "01234", ∀ y < 103, isHex y = true →
    toChar (strtol 16 (cstr [x, y, 0])) = 16 * hexVal x + hexVal y := by
  decide!

set_option maxRecDepth 1000000 in
theorem hexPair_digitsHigh : ∀ x ∈ B "56789", ∀ y < 103, isHex y = true →
    toChar (strtol 16 (cstr [x, y, 0])) = 16 * hexVal x + hexVal y := by
  decide!

set_option maxRecDepth 1000000 in
theorem hexPair_upper : ∀ x ∈ B "ABCDEF", ∀ y < 103, isHex y = true →
    toChar (strtol 16 (cstr [x, y, 0])) = 16 * hexVal x + hexVal y := by
  decide!

set_option maxRecDepth 1000000 in
theorem hexPair_lower : ∀ x ∈ B "abcdef", ∀ y < 103, isHex y = true →
    toChar (strtol 16 (cstr [x, y, 0])) = 16 * hexVal x + hexVal y := by
  decide!

theorem hexPair_all : ∀ x < 103, ∀ y < 103, isHex x = true → isHex y = true →
    toChar (strtol 16 (cstr [x, y, 0])) = 16 * hexVal x + hexVal y := by
  intro x hx y hy h1 h2
  rcases isHex_cases x hx h1 with h | h | h | h
  · exact hexPair_digitsLow x h y hy h2
  · exact hexPair_digitsHigh x h y hy h2
  · exact hexPair_upper x h y hy h2
  · exact hexPair_lower x h y hy h2

theorem isHex_lt {x : Nat} (h : isHex x = true) : x < 103 ∧ x ≠ 0 := by
  unfold isHex digitVal at h
  by_contra hn
  have : x = 0 ∨ 103 ≤ x := by omega
  rcases this with h0 | h1
  · subst h0; simp at h
  · have a1 : ¬ (48 ≤ x ∧ x ≤ 57) := by omega
    have a2 : ¬ (65 ≤ x ∧ x ≤ 90) := by omega
    by_cases a3 : 97 ≤ x ∧ x ≤ 122
    · simp only [a1, a3, ↓reduceIte, and_self] at h
      have : ¬ (x - 97 + 10 < 16) := by omega
      simp [this] at h
    · simp [a1, a2, a3] at h

theorem hexPair (x y : Nat) (hx : isHex x = true) (hy : isHex y = true) :
    toChar (strtol 16 (cstr [x, y, 0])) = 16 * hexVal x + hexVal y :=
  hexPair_all x (isHex_lt hx).1 y (isHex_lt hy).1 hx hy

/-- The in-place decoder on a well-formed string without NUL: the decoded string and
its terminator are written from `w` on, nothing before `w` changes, and the offset
after the terminator is returned. -/
theorem urlDecodeInPlaceLoop_spec (fuel : Nat) (b : List Nat) (r w : Nat) (s post : List Nat)
    (hb : b.drop r = s ++ 0 :: post) (hw : w ≤ r) (hs : NoNul s)
    (hwf : wellFormedPct s = true) (hf : s.length < fuel) :
    ∃ b', urlDecodeInPlaceLoop fuel b r w = some (b', w + (pctDecode s).length + 1) ∧
      b'.length = b.length ∧
      b'.take (w + (pctDecode s).length + 1) = b.take w ++ pctDecode s ++ [0] := by
  induction fuel generalizing b r w s with
  | zero => omega
  | succ f ih =>
    cases s with
    | nil =>
      have h0 : rd b r = some 0 := rd_of_drop hb
      have hl : r < b.length := lt_length_of_drop hb
      refine ⟨b.set w 0, ?_, by simp, ?_⟩
      · simp [urlDecodeInPlaceLoop, h0, wr_some b w 0 (by omega), pctDecode]
      · simpa [pctDecode] using take_set_succ b w 0 (by omega)
    | cons c s' =>
      have hc0 : c ≠ 0 := hs c (by simp)
      have hrd : rd b r = some c := rd_of_drop hb
      have hl : r < b.length := lt_length_of_drop hb
      have hb1 : b.drop (r + 1) = s' ++ 0 :: post := drop_succ_of_drop hb
      by_cases hc : c = 37
      · subst hc
        cases s' with
        | nil => simp [wellFormedPct] at hwf
        | cons x s2 =>
          cases s2 with
          | nil => simp [wellFormedPct] at hwf
          | cons y s3 =>
            rw [wellFormedPct_hex] at hwf
            simp only [Bool.and_eq_true] at hwf
            obtain ⟨⟨hx, hy⟩, hwf3⟩ := hwf
            have hx0 : x ≠ 0 := (isHex_lt hx).2
            have hy0 : y ≠ 0 := (isHex_lt hy).2
            have hrx : rd b (r + 1) = some x := rd_of_drop hb1
            have hb2 : True ∧ rd b (r + 2) = some y := by
              have h2 : b.drop (r + 1 + 1) = y :: (s3 ++ 0 :: post) := drop_succ_of_drop hb1
              exact ⟨trivial, rd_of_drop h2⟩
            have hwr := wr_some b w (16 * hexVal x + hexVal y) (by omega)
            have hdrop : (b.set w (16 * hexVal x + hexVal y)).drop (r + 3) = s3 ++ 0 :: post := by
              rw [List.drop_set_of_lt _ _ (by omega)]
              have := drop_succ_of_drop (show b.drop (r + 2) = y :: (s3 ++ 0 :: post) from
                drop_succ_of_drop hb1)
              simpa using this
            obtain ⟨b', h1, h2, h3⟩ := ih (b.set w (16 * hexVal x + hexVal y)) (r + 3) (w + 1) s3
              hdrop (by omega) (fun z hz => hs z (by simp [hz])) hwf3 (by simp at hf; omega)
            refine ⟨b', ?_, by simpa using h2, ?_⟩
            · simp only [urlDecodeInPlaceLoop, hrd, hrx, hb2.2, hx0, hy0, ne_eq,
                not_false_eq_true, ↓reduceIte, hexPair x y hx hy, hwr, h1,
                pctDecode_hex x y s3 hx hy, List.length_cons,
                (by decide : ¬ (37 : Nat) = 0)]
              congr 2; omega
            · have e : w + (pctDecode (37 :: x :: y :: s3)).length + 1
                  = w + 1 + (pctDecode s3).length + 1 := by
                rw [pctDecode_hex x y s3 hx hy]; simp; omega
              rw [e, h3, take_set_succ b w _ (by omega), pctDecode_hex x y s3 hx hy]
              simp
      · have hwr := wr_some b w c (by omega)
        have hdrop : (b.set w c).drop (r + 1) = s' ++ 0 :: post := by
          rw [List.drop_set_of_lt _ _ (by omega)]; exact hb1
        have hwf' : wellFormedPct s' = true := by rwa [wellFormedPct_cons_ne c s' hc] at hwf
        obtain ⟨b', h1, h2, h3⟩ := ih (b.set w c) (r + 1) (w + 1) s' hdrop (by omega)
          (fun x hx => hs x (by simp [hx])) hwf' (by simpa using hf)
        refine ⟨b', ?_, by simpa using h2, ?_⟩
        · simp only [urlDecodeInPlaceLoop, hrd, hc0, ↓reduceIte, hc, hwr, h1,
            pctDecode_cons_ne c s' hc, List.length_cons]
          congr 2; omega
        · have e : w + (pctDecode (c :: s')).length + 1 = w + 1 + (pctDecode s').length + 1 := by
            rw [pctDecode_cons_ne c s' hc]; simp; omega
          rw [e, h3, take_set_succ b w c (by omega), pctDecode_cons_ne c s' hc]
          simp



theorem wr_eq {b : List Nat} {w v : Nat} {b' : List Nat} (h : wr b w v = some b') :
    w < b.length ∧ b' = b.take w ++ v :: b.drop (w + 1) := by
  unfold wr at h
  by_cases hw : w < b.length
  · simp only [hw, ↓reduceIte, Option.some.injEq] at h
    refine ⟨hw, ?_⟩
    rw [← h, List.set_eq_take_append_cons_drop, if_pos hw]
  · simp [hw] at h

theorem wr_length {b : List Nat} {w v : Nat} {b' : List Nat} (h : wr b w v = some b') :
    b'.length = b.length := by
  unfold wr at h
  by_cases hw : w < b.length
  · simp only [hw, ↓reduceIte, Option.some.injEq] at h
    rw [← h]; simp
  · simp [hw] at h

theorem take_append_drop_length (A : List Nat) (d : Nat) (src : List Nat)
    (h : d + src.length ≤ A.length) :
    (A.take d ++ src ++ A.drop (d + src.length)).length = A.length := by
  simp; omega

/-- `memcpy` into a buffer replaces the bytes from `Dest` on by the source. -/
theorem memcpyAt_spec (A : List Nat) (d : Nat) (src : List Nat) (h : d + src.length ≤ A.length) :
    memcpyAt A d src = some (A.take d ++ src ++ A.drop (d + src.length)) := by
  induction src generalizing A d with
  | nil => simp [memcpyAt]
  | cons c cs ih =>
    simp only [List.length_cons] at h
    have hw := wr_some A d c (by omega)
    have hlen : (A.set d c).length = A.length := by simp
    rw [memcpyAt, hw]
    simp only
    rw [ih (A.set d c) (d + 1) (by rw [hlen]; omega)]
    rw [take_set_succ A d c (by omega), List.drop_set_of_lt _ _ (by omega)]
    simp [Nat.add_assoc, Nat.add_comm 1]

theorem memcpyAt_some {A : List Nat} {d : Nat} {src A' : List Nat} (hsrc : src ≠ [])
    (h : memcpyAt A d src = some A') : d + src.length ≤ A.length := by
  induction src generalizing A d A' with
  | nil => exact absurd rfl hsrc
  | cons c cs ih =>
    rw [memcpyAt] at h
    cases hw : wr A d c with
    | none => simp [hw] at h
    | some A1 =>
      simp only [hw] at h
      have h1 := wr_eq hw
      have hl := wr_length hw
      cases cs with
      | nil => simp; omega
      | cons c2 cs2 =>
        have := ih (by simp) h
        simp only [List.length_cons] at this ⊢
        omega

set_option maxRecDepth 1000000 in
/-- The two digits `%02X` prints are hexadecimal digits with the value printed. -/
theorem pctEscape_digits : ∀ c < 256,
    isHex (if c / 16 < 10 then 48 + c / 16 else 55 + c / 16) = true ∧
    isHex (if c % 16 < 10 then 48 + c % 16 else 55 + c % 16) = true ∧
    16 * hexVal (if c / 16 < 10 then 48 + c / 16 else 55 + c / 16)
      + hexVal (if c % 16 < 10 then 48 + c % 16 else 55 + c % 16) = c := by
  decide!

theorem isUnreserved_ne {c : Nat} (h : isUnreserved c = true) : c ≠ 37 ∧ c ≠ 0 := by
  unfold isUnreserved at h
  constructor <;> (intro hc; subst hc; simp at h)

/-- Decoding an encoded string of bytes gives the string back. -/
theorem pctDecode_pctEncode (s : List Nat) (hs : ∀ c ∈ s, c < 256) :
    pctDecode (pctEncode s) = s := by
  induction s with
  | nil => simp [pctEncode, pctDecode]
  | cons c cs ih =>
    have hc := hs c (by simp)
    have ih' := ih (fun x hx => hs x (by simp [hx]))
    by_cases hu : isUnreserved c = true
    · simp only [pctEncode, hu, ↓reduceIte, List.singleton_append]
      rw [pctDecode_cons_ne c _ (isUnreserved_ne hu).1, ih']
    · obtain ⟨h1, h2, h3⟩ := pctEscape_digits c hc
      simp only [pctEncode, hu, Bool.false_eq_true, ↓reduceIte, pctEscape, List.cons_append,
        List.nil_append]
      rw [pctDecode_hex _ _ _ h1 h2, h3, ih']

theorem wellFormedPct_pctEncode (s : List Nat) (hs : ∀ c ∈ s, c < 256) :
    wellFormedPct (pctEncode s) = true := by
  induction s with
  | nil => simp [pctEncode, wellFormedPct]
  | cons c cs ih =>
    have hc := hs c (by simp)
    have ih' := ih (fun x hx => hs x (by simp [hx]))
    by_cases hu : isUnreserved c = true
    · simp only [pctEncode, hu, ↓reduceIte, List.singleton_append]
      rw [wellFormedPct_cons_ne c _ (isUnreserved_ne hu).1, ih']
    · obtain ⟨h1, h2, _⟩ := pctEscape_digits c hc
      simp only [pctEncode, hu, Bool.false_eq_true, ↓reduceIte, pctEscape, List.cons_append,
        List.nil_append]
      rw [wellFormedPct_hex, h1, h2, ih']; rfl

theorem noNul_pctEncode (s : List Nat) (hs : ∀ c ∈ s, c < 256) (h0 : NoNul s) :
    NoNul (pctEncode s) := by
  induction s with
  | nil => intro c hc; simp [pctEncode] at hc
  | cons c cs ih =>
    have hc := hs c (by simp)
    have ih' := ih (fun x hx => hs x (by simp [hx])) (fun x hx => h0 x (by simp [hx]))
    intro x hx
    by_cases hu : isUnreserved c = true
    · simp only [pctEncode, hu, ↓reduceIte, List.singleton_append, List.mem_cons] at hx
      rcases hx with h | h
      · rw [h]; exact h0 c (by simp)
      · exact ih' x h
    · obtain ⟨h1, h2, _⟩ := pctEscape_digits c hc
      simp only [pctEncode, hu, Bool.false_eq_true, ↓reduceIte, pctEscape, List.cons_append,
        List.nil_append, List.mem_cons] at hx
      rcases hx with h | h | h | h
      · omega
      · rw [h]; exact (isHex_lt h1).2
      · rw [h]; exact (isHex_lt h2).2
      · exact ih' x h



theorem cstr_append (s rest : List Nat) (hs : NoNul s) : cstr (s ++ 0 :: rest) = s := by
  induction s with
  | nil => simp [cstr]
  | cons c cs ih =>
    have hc : c ≠ 0 := hs c (by simp)
    simp [cstr, hc, ih (fun x hx => hs x (by simp [hx]))]

theorem wr_take_succ {b : List Nat} {w v : Nat} {b' : List Nat} (h : wr b w v = some b') :
    b'.take (w + 1) = b.take w ++ [v] := by
  have h1 := wr_eq h
  have hs := wr_some b w v h1.1
  rw [hs] at h
  simp only [Option.some.injEq] at h
  rw [← h]; exact take_set_succ b w v h1.1

/-- When `WS_URLEncode` reports success, the output holds the encoding and its
terminator from `Write` on, and what was before `Write` is unchanged. -/
theorem urlEncodeLoop_true (End : Int) (s Out : List Nat) (w : Nat) (Out' : List Nat)
    (hs : NoNul s) (h : urlEncodeLoop End s Out w = some (Out', true)) :
    ∃ post, Out' = Out.take w ++ (pctEncode s ++ 0 :: post) := by
  induction s generalizing Out w with
  | nil =>
    simp only [urlEncodeLoop, Option.map_eq_some', Prod.mk.injEq, and_true] at h
    obtain ⟨o, ho, rfl⟩ := h
    exact ⟨Out.drop (w + 1), by simpa [pctEncode] using (wr_eq ho).2⟩
  | cons c rest ih =>
    have hc : c ≠ 0 := hs c (by simp)
    have hrest : NoNul rest := fun x hx => hs x (by simp [hx])
    rw [urlEncodeLoop] at h
    simp only [hc, ↓reduceIte] at h
    by_cases hu : isUnreserved c = true
    · simp only [hu, ↓reduceIte] at h
      cases hw : wr Out w c with
      | none => simp [hw] at h
      | some o =>
        simp only [hw] at h
        by_cases he : ((w + 1 : Nat) : Int) = End
        · simp [he] at h
        · simp only [he, ↓reduceIte] at h
          obtain ⟨post, hp⟩ := ih o (w + 1) hrest h
          refine ⟨post, ?_⟩
          rw [hp, wr_take_succ hw]
          simp [pctEncode, hu]
    · simp only [hu, Bool.false_eq_true, ↓reduceIte] at h
      simp only [ge_iff_le, Nat.cast_add, Nat.cast_ofNat] at h
      by_cases he : End ≤ (w : Int) + 3
      · simp [he] at h
      · simp only [he, ↓reduceIte] at h
        cases hm : memcpyAt Out w (pctEscape c ++ [0]) with
        | none => simp [hm] at h
        | some o =>
          simp only [hm] at h
          have hlen := memcpyAt_some (by simp [pctEscape]) hm
          rw [memcpyAt_spec Out w _ hlen] at hm
          simp only [Option.some.injEq] at hm
          obtain ⟨post, hp⟩ := ih o (w + 3) hrest h
          refine ⟨post, ?_⟩
          have hl : (Out.take w).length = w := List.length_take_of_le (by omega)
          have ho3 : o.take (w + 3) = Out.take w ++ pctEscape c := by
            rw [← hm]
            simp only [pctEscape, List.append_assoc, List.cons_append, List.nil_append]
            rw [List.take_append_eq_append_take, List.take_of_length_le (by omega), hl]
            simp
          rw [hp, ho3]
          simp [pctEncode, hu]

/-- `WS_URLDecode` on a well-formed string without NUL, with room for the result. -/
theorem urlDecodeLoop_spec (MaxLen : Nat) (n : Nat) :
    ∀ (v post Out : List Nat) (w : Nat), v.length = n → NoNul v → wellFormedPct v = true →
      w + (pctDecode v).length < MaxLen → MaxLen ≤ Out.length →
      urlDecodeLoop MaxLen (v ++ 0 :: post) Out w =
        some (Out.take w ++ (pctDecode v ++ 0 :: Out.drop (w + (pctDecode v).length + 1)), true) := by
  induction n using Nat.strong_induction_on with
  | _ n ih =>
    intro v post Out w hn hv hwf hfit hM
    cases v with
    | nil =>
      simp only [pctDecode, List.length_nil, Nat.add_zero] at hfit ⊢
      simp only [List.nil_append]
      unfold urlDecodeLoop
      simp only [↓reduceIte]
      rw [wr_some Out w 0 (by omega), List.set_eq_take_append_cons_drop, if_pos (by omega)]
      simp
    | cons c v' =>
      have hc0 : c ≠ 0 := hv c (by simp)
      by_cases hc : c = 37
      · subst hc
        cases v' with
        | nil => simp [wellFormedPct] at hwf
        | cons x v2 =>
          cases v2 with
          | nil => simp [wellFormedPct] at hwf
          | cons y v3 =>
            rw [wellFormedPct_hex] at hwf
            simp only [Bool.and_eq_true] at hwf
            obtain ⟨⟨hx, hy⟩, hwf3⟩ := hwf
            rw [pctDecode_hex x y v3 hx hy] at hfit ⊢
            simp only [List.length_cons] at hfit hn
            have hih := ih v3.length (by omega) v3 post
              (Out.set w (16 * hexVal x + hexVal y)) (w + 1) rfl
              (fun z hz => hv z (by simp [hz])) hwf3 (by omega) (by simpa using hM)
            simp only [List.cons_append]
            unfold urlDecodeLoop
            simp only [hc0, ↓reduceIte]
            rw [hexPair x y hx hy, wr_some Out w _ (by omega)]
            simp only [show ¬ (w + 1 ≥ MaxLen) by omega, ↓reduceIte]
            rw [hih, take_set_succ Out w _ (by omega), List.drop_set_of_lt _ _ (by omega)]
            simp [Nat.add_assoc, Nat.add_comm 1]
      · rw [pctDecode_cons_ne c v' hc] at hfit ⊢
        rw [wellFormedPct_cons_ne c v' hc] at hwf
        simp only [List.length_cons] at hfit hn
        have hih := ih v'.length (by omega) v' post (Out.set w c) (w + 1) rfl
          (fun z hz => hv z (by simp [hz])) hwf (by omega) (by simpa using hM)
        simp only [List.cons_append]
        unfold urlDecodeLoop
        simp only [hc0, hc, ↓reduceIte]
        rw [wr_some Out w _ (by omega)]
        simp only [show ¬ (w + 1 ≥ MaxLen) by omega, ↓reduceIte]
        rw [hih, take_set_succ Out w _ (by omega), List.drop_set_of_lt _ _ (by omega)]
        simp [Nat.add_assoc, Nat.add_comm 1]

/-- C3: for every string `s` of printable ASCII bytes, when `WS_URLEncode` reports
success its output decodes to exactly `s`: `WS_URLDecode` into any buffer with room
for `s` and its terminator returns true with `Decoded` equal to `s`, and
`WS_URLDecodeInPlace` on the encoded string leaves exactly `s`. -/
theorem C3_decode_of_encode_is_identity (s Out Out' : List Nat)
    (hs : ∀ c ∈ s, 32 ≤ c ∧ c ≤ 126)
    (henc : WS_URLEncode s Out = some (Out', true)) :
    (∀ Dec : List Nat, s.length < Dec.length →
      ∃ Dec', WS_URLDecode Out' Dec = some (Dec', true) ∧ cstr Dec' = s) ∧
    (∃ b, WS_URLDecodeInPlace Out' 0 = some (b, s.length + 1) ∧ cstr b = s) := by
  have h256 : ∀ c ∈ s, c < 256 := fun c hc => by have := hs c hc; omega
  have h0 : NoNul s := fun c hc => by have := hs c hc; omega
  obtain ⟨post, hOut⟩ := urlEncodeLoop_true _ s Out 0 Out' h0 henc
  simp only [List.take_zero, List.nil_append] at hOut
  have hdec := pctDecode_pctEncode s h256
  have hwf := wellFormedPct_pctEncode s h256
  have hnn := noNul_pctEncode s h256 h0
  constructor
  · intro Dec hDec
    have := urlDecodeLoop_spec Dec.length _ (pctEncode s) post Dec 0 rfl hnn hwf
      (by rw [hdec]; omega) (le_refl _)
    rw [hdec] at this
    refine ⟨_, by rw [WS_URLDecode, hOut]; exact this, ?_⟩
    simpa using cstr_append s _ h0
  · obtain ⟨b', h1, h2, h3⟩ := urlDecodeInPlaceLoop_spec (Out'.length + 1) Out' 0 0
      (pctEncode s) post (by simpa using hOut) (le_refl _) hnn hwf
      (by rw [hOut]; simp; omega)
    rw [hdec] at h1 h3
    refine ⟨b', by simpa [WS_URLDecodeInPlace] using h1, ?_⟩
    have hb : b' = (s ++ [0]) ++ b'.drop (0 + s.length + 1) := by
      conv_lhs => rw [← List.take_append_drop (0 + s.length + 1) b', h3]
      simp
    rw [hb]
    simpa using cstr_append s _ h0


set_option maxRecDepth 100000 in
/-- C3 at the string `a b~` and an output buffer of 16 bytes. -/
theorem C3_decode_of_encode_witness :
    (∀ c ∈ B "a b~", 32 ≤ c ∧ c ≤ 126) ∧
    WS_URLEncode (B "a b~") (List.replicate 16 0) =
      some (B "a%20b~" ++ List.replicate 10 0, true) ∧
    ((∀ Dec : List Nat, (B "a b~").length < Dec.length →
      ∃ Dec', WS_URLDecode (B "a%20b~" ++ List.replicate 10 0) Dec = some (Dec', true) ∧
        cstr Dec' = B "a b~") ∧
    (∃ b, WS_URLDecodeInPlace (B "a%20b~" ++ List.replicate 10 0) 0
        = some (b, (B "a b~").length + 1) ∧ cstr b = B "a b~")) :=
  ⟨by decide, by decide,
    C3_decode_of_encode_is_identity (B "a b~") (List.replicate 16 0)
      (B "a%20b~" ++ List.replicate 10 0) (by decide) (by decide)⟩

theorem splitSep_ne_nil (sep : Nat) (q : List Nat) : splitSep sep q ≠ [] := by
  cases q with
  | nil => simp [splitSep]
  | cons c cs =>
    rw [splitSep]
    split
    · simp
    · split <;> simp

/-- The query with its separators replaced by NUL, followed by a NUL, is the
concatenation of the terminated segments. -/
theorem zeroed_eq_segments (q : List Nat) :
    q.map (fun c => if c = 38 then 0 else c) ++ [0] =
      ((splitSep 38 q).map (fun s => s ++ [0])).flatten := by
  induction q with
  | nil => simp [splitSep]
  | cons c cs ih =>
    rw [splitSep]
    by_cases hc : c = 38
    · simp only [hc, ↓reduceIte, List.map_cons, List.cons_append, List.flatten_cons,
        List.nil_append]
      rw [← ih]
    · simp only [hc, ↓reduceIte, List.map_cons, List.cons_append]
      cases hsp : splitSep 38 cs with
      | nil => exact absurd hsp (splitSep_ne_nil 38 cs)
      | cons s ss =>
        rw [hsp] at ih
        simp only [List.map_cons, List.flatten_cons, List.cons_append] at ih ⊢
        rw [ih]

theorem splitSep_length (q : List Nat) : (splitSep 38 q).length = q.count 38 + 1 := by
  induction q with
  | nil => simp [splitSep]
  | cons c cs ih =>
    rw [splitSep]
    by_cases hc : c = 38
    · subst hc; simp [ih]
    · simp only [hc, ↓reduceIte]
      cases hsp : splitSep 38 cs with
      | nil => exact absurd hsp (splitSep_ne_nil 38 cs)
      | cons s ss =>
        rw [hsp] at ih
        have : List.count 38 (c :: cs) = List.count 38 cs := by
          rw [List.count_cons]; simp [hc]
        simp only [List.length_cons, this] at ih ⊢
        exact ih

theorem splitSep_noNul (q : List Nat) (hq : NoNul q) : ∀ s ∈ splitSep 38 q, NoNul s := by
  induction q with
  | nil => intro s hs; simp [splitSep] at hs; subst hs; intro c hc; simp at hc
  | cons c cs ih =>
    have hc0 : c ≠ 0 := hq c (by simp)
    have ih' := ih (fun x hx => hq x (by simp [hx]))
    rw [splitSep]
    by_cases hc : c = 38
    · simp only [hc, ↓reduceIte, List.mem_cons]
      intro s hs
      rcases hs with h | h
      · subst h; intro x hx; simp at hx
      · exact ih' s h
    · simp only [hc, ↓reduceIte]
      cases hsp : splitSep 38 cs with
      | nil => exact absurd hsp (splitSep_ne_nil 38 cs)
      | cons s ss =>
        rw [hsp] at ih'
        intro t ht
        simp only [List.mem_cons] at ht
        rcases ht with h | h
        · subst h
          intro x hx
          simp only [List.mem_cons] at hx
          rcases hx with h2 | h2
          · rw [h2]; exact hc0
          · exact ih' s (by simp) x h2
        · exact ih' t (by simp [h])

/-- The loop that breaks the arguments up, on a query without NUL. -/
theorem breakUpArgs_spec (pre q post : List Nat) (hq : NoNul q) (n fuel : Nat)
    (hf : q.length < fuel) :
    breakUpArgs 38 fuel (pre ++ (q ++ 0 :: post)) pre.length n =
      some (pre ++ (q.map (fun c => if c = 38 then 0 else c) ++ 0 :: post),
        pre.length + q.length, n + q.count 38) := by
  induction q generalizing pre n fuel with
  | nil =>
    cases fuel with
    | zero => simp at hf
    | succ f => simp [breakUpArgs, rd_at]
  | cons c cs ih =>
    cases fuel with
    | zero => simp at hf
    | succ f =>
      have hc0 : c ≠ 0 := hq c (by simp)
      have hr : rd (pre ++ (c :: cs ++ 0 :: post)) pre.length = some c := rd_at pre c _
      have ih' := fun x => ih (pre ++ [x]) (fun y hy => hq y (by simp [hy]))
      rw [breakUpArgs, hr]
      simp only [hc0, ↓reduceIte]
      by_cases hc : c = 38
      · have hw : wr (pre ++ (c :: cs ++ 0 :: post)) pre.length 0
            = some (pre ++ (0 :: cs ++ 0 :: post)) := wr_at pre c _ 0
        simp only [hc, ↓reduceIte] at hw ⊢
        rw [hw]
        have := ih' 0 (n + 1) f (by simpa using hf)
        simp only [List.append_assoc, List.singleton_append, List.length_append,
          List.length_singleton] at this
        simp only [List.cons_append]
        rw [this]
        simp [Nat.add_assoc, Nat.add_comm 1]
      · simp only [hc, ↓reduceIte]
        have := ih' c n f (by simpa using hf)
        simp only [List.append_assoc, List.singleton_append, List.length_append,
          List.length_singleton] at this
        simp only [List.cons_append]
        rw [this]
        have hcount : List.count 38 (c :: cs) = List.count 38 cs := by
          rw [List.count_cons]; simp [hc]
        simp [Nat.add_assoc, Nat.add_comm 1, hcount, hc]


theorem startsWith_at (pre X g : List Nat) :
    startsWith (pre ++ X) pre.length g = (X.take g.length == g) := by
  simp [startsWith]

theorem keyPrefix_iff (g s : List Nat) :
    (g ++ [61]).isPrefixOf s = true ↔ ∃ t, s = g ++ 61 :: t := by
  rw [List.isPrefixOf_iff_prefix]
  constructor
  · rintro ⟨t, ht⟩; exact ⟨t, by rw [← ht]; simp⟩
  · rintro ⟨t, ht⟩; exact ⟨t, by rw [ht]; simp⟩

/-- The search loop inside one segment: `a` has been passed, `b` is left. -/
theorem getScan_seg (nm : List Nat) (ArgCount arg : Nat) (harg : arg < ArgCount)
    (pre post : List Nat) (fuel : Nat) (b : List Nat) :
    ∀ a : List Nat, NoNul (a ++ b) →
      getScan nm ArgCount (fuel + (b.length + 1)) (pre ++ (a ++ b ++ 0 :: post)) arg
          (pre.length + a.length) pre.length =
        if (cstr nm ++ [61]).isPrefixOf (a ++ b) = true ∧ a.length ≤ (cstr nm).length then
          some (arg, pre.length + (cstr nm).length + 1)
        else
          getScan nm ArgCount fuel (pre ++ (a ++ b ++ 0 :: post)) (arg + 1)
            (pre.length + (a ++ b).length + 1) (pre.length + (a ++ b).length + 1) := by
  induction b with
  | nil =>
    intro a hab
    have hr : rd (pre ++ (a ++ [] ++ 0 :: post)) (pre.length + a.length) = some 0 := by
      have := rd_at (pre ++ a) 0 post
      simpa using this
    have hno : ¬ ((cstr nm ++ [61]).isPrefixOf (a ++ []) = true ∧ a.length ≤ (cstr nm).length) := by
      rintro ⟨h1, h2⟩
      obtain ⟨t, ht⟩ := (keyPrefix_iff _ _).1 h1
      have := congrArg List.length ht
      simp at this; omega
    rw [if_neg hno]
    simp only [List.length_nil, Nat.zero_add]
    rw [getScan]
    simp only [harg, ↓reduceIte, hr]
    simp
  | cons c b' ih =>
    intro a hab
    have hc0 : c ≠ 0 := hab c (by simp)
    have hr : rd (pre ++ (a ++ c :: b' ++ 0 :: post)) (pre.length + a.length) = some c := by
      have := rd_at (pre ++ a) c (b' ++ 0 :: post)
      simpa using this
    have e1 : a ++ c :: b' = (a ++ [c]) ++ b' := by simp
    have ih' := ih (a ++ [c]) (by rw [← e1]; exact hab)
    have hfuel : fuel + ((c :: b').length + 1) = (fuel + (b'.length + 1)) + 1 := by
      simp; omega
    rw [hfuel, getScan]
    simp only [harg, ↓reduceIte, hr]
    have hsw : startsWith (pre ++ (a ++ c :: b' ++ 0 :: post)) pre.length (cstr nm)
        = ((a ++ c :: b' ++ 0 :: post).take (cstr nm).length == cstr nm) :=
      startsWith_at pre _ _
    by_cases hm : c = 61 ∧ (((cstr nm).length : Nat) : Int) = ((pre.length + a.length : Nat) : Int)
        - (pre.length : Int) ∧ startsWith (pre ++ (a ++ c :: b' ++ 0 :: post)) pre.length (cstr nm) = true
    · rw [if_pos hm]
      obtain ⟨h61, hlen, hst⟩ := hm
      have hlen' : (cstr nm).length = a.length := by omega
      rw [hsw] at hst
      have hag : a = cstr nm := by
        have := eq_of_beq hst
        rw [hlen'] at this
        simpa using this
      have hyes : (cstr nm ++ [61]).isPrefixOf (a ++ c :: b') = true ∧ a.length ≤ (cstr nm).length :=
        ⟨(keyPrefix_iff _ _).2 ⟨b', by rw [hag, h61]⟩, by omega⟩
      rw [if_pos hyes, hlen']
    · rw [if_neg hm]
      simp only [hc0, ↓reduceIte]
      have e2 : pre ++ (a ++ c :: b' ++ 0 :: post) = pre ++ ((a ++ [c]) ++ b' ++ 0 :: post) := by
        simp
      have e3 : pre.length + a.length + 1 = pre.length + (a ++ [c]).length := by simp; omega
      rw [e2, e3, ih', ← e1]
      have hiff : ((cstr nm ++ [61]).isPrefixOf (a ++ c :: b') = true ∧
            (a ++ [c]).length ≤ (cstr nm).length) ↔
          ((cstr nm ++ [61]).isPrefixOf (a ++ c :: b') = true ∧ a.length ≤ (cstr nm).length) := by
        constructor
        · rintro ⟨h1, h2⟩; exact ⟨h1, by simp at h2; omega⟩
        · rintro ⟨h1, h2⟩
          refine ⟨h1, ?_⟩
          by_contra hlt
          simp only [List.length_append, List.length_singleton, not_le] at hlt
          have hlen' : a.length = (cstr nm).length := by omega
          obtain ⟨t, ht⟩ := (keyPrefix_iff _ _).1 h1
          have h3 := List.append_inj ht hlen'
          apply hm
          refine ⟨by have := h3.2; simp at this; exact this.1, by push_cast; omega, ?_⟩
          rw [hsw, h3.1]
          simp
      simp only [hiff]


/-- The bytes of the terminated segments. -/
theorem segBytes_cons (s : List Nat) (ss : List (List Nat)) :
    ((s :: ss).map (fun t => t ++ [0])).flatten = s ++ 0 :: (ss.map (fun t => t ++ [0])).flatten := by
  simp

/-- The search loop over the segments that are left: it stops after the `=` of the
first segment that begins with the name and `=`, or passes them all. -/
theorem getScan_segs (nm : List Nat) (ArgCount : Nat) (post : List Nat) (fuel : Nat)
    (segs : List (List Nat)) :
    ∀ (pre : List Nat) (arg : Nat), (∀ s ∈ segs, NoNul s) → arg + segs.length = ArgCount →
      ∃ arg' Pos',
        getScan nm ArgCount (fuel + ((segs.map (fun t => t ++ [0])).flatten.length + 1))
            (pre ++ ((segs.map (fun t => t ++ [0])).flatten ++ post)) arg pre.length pre.length
          = some (arg', Pos') ∧
        (findSeg (cstr nm) segs = none → arg' = ArgCount) ∧
        (∀ v, findSeg (cstr nm) segs = some v → arg' < ArgCount ∧
          ∃ rest, (pre ++ ((segs.map (fun t => t ++ [0])).flatten ++ post)).drop Pos'
            = v ++ 0 :: rest) := by
  induction segs with
  | nil =>
    intro pre arg _ harg
    refine ⟨arg, pre.length, ?_, ?_, ?_⟩
    · simp only [List.map_nil, List.flatten_nil, List.length_nil, Nat.zero_add]
      rw [getScan]
      simp only [List.length_nil, Nat.add_zero] at harg
      simp [harg]
    · intro _; simpa using harg
    · intro v hv; simp [findSeg] at hv
  | cons s ss ih =>
    intro pre arg hsegs harg
    have hs : NoNul s := hsegs s (by simp)
    have harg' : arg < ArgCount := by simp at harg; omega
    have hseg := getScan_seg nm ArgCount arg harg' pre
      ((ss.map (fun t => t ++ [0])).flatten ++ post)
      (fuel + ((ss.map (fun t => t ++ [0])).flatten.length + 1)) s [] (by simpa using hs)
    simp only [List.nil_append, List.length_nil, Nat.add_zero, Nat.zero_le, and_true] at hseg
    have eL : pre ++ (((s :: ss).map (fun t => t ++ [0])).flatten ++ post)
        = pre ++ (s ++ 0 :: ((ss.map (fun t => t ++ [0])).flatten ++ post)) := by
      simp
    have eF : fuel + (((s :: ss).map (fun t => t ++ [0])).flatten.length + 1)
        = fuel + ((ss.map (fun t => t ++ [0])).flatten.length + 1) + (s.length + 1) := by
      simp; omega
    rw [eL, eF, hseg]
    by_cases hp : (cstr nm ++ [61]).isPrefixOf s = true
    · rw [if_pos hp]
      refine ⟨arg, pre.length + (cstr nm).length + 1, rfl, ?_, ?_⟩
      · intro h; simp [findSeg, hp] at h
      · intro v hv
        simp only [findSeg, hp, ↓reduceIte, Option.some.injEq] at hv
        refine ⟨harg', ?_⟩
        obtain ⟨t, ht⟩ := (keyPrefix_iff _ _).1 hp
        refine ⟨(ss.map (fun t => t ++ [0])).flatten ++ post, ?_⟩
        rw [← hv, ht]
        have : pre ++ (cstr nm ++ 61 :: t ++ 0 :: ((ss.map (fun t => t ++ [0])).flatten ++ post))
            = (pre ++ cstr nm ++ [61]) ++ (t ++ 0 :: ((ss.map (fun t => t ++ [0])).flatten ++ post)) := by
          simp
        rw [this]
        have hl : (pre ++ cstr nm ++ [61]).length = pre.length + (cstr nm).length + 1 := by
          simp [Nat.add_assoc]
        rw [← hl, List.drop_left]
        have : (cstr nm ++ 61 :: t).drop ((cstr nm).length + 1) = t := by
          have : cstr nm ++ 61 :: t = (cstr nm ++ [61]) ++ t := by simp
          rw [this]
          have hl2 : (cstr nm ++ [61]).length = (cstr nm).length + 1 := by simp
          rw [← hl2, List.drop_left]
        rw [this]
    · rw [if_neg hp]
      have e2 : pre ++ (s ++ 0 :: ((ss.map (fun t => t ++ [0])).flatten ++ post))
          = (pre ++ s ++ [0]) ++ ((ss.map (fun t => t ++ [0])).flatten ++ post) := by simp
      have e3 : pre.length + s.length + 1 = (pre ++ s ++ [0]).length := by simp [Nat.add_assoc]
      rw [e2, e3]
      obtain ⟨arg', Pos', h1, h2, h3⟩ := ih (pre ++ s ++ [0]) (arg + 1)
        (fun t ht => hsegs t (by simp [ht])) (by simp at harg; omega)
      refine ⟨arg', Pos', h1, ?_, ?_⟩
      · intro h; apply h2; simpa [findSeg, hp] using h
      · intro v hv; apply h3; simpa [findSeg, hp] using hv

/-- The copy loop of `WS_ProcessGetVars` copies the string at `Pos`. -/
theorem copyValue_eq (v : List Nat) :
    ∀ (L A : List Nat) (Pos W : Nat) (rest : List Nat) (fuel : Nat),
      L.drop Pos = v ++ 0 :: rest → NoNul v → v.length < fuel →
      copyValue fuel L A Pos W = copyList v A W := by
  induction v with
  | nil =>
    intro L A Pos W rest fuel h _ hf
    cases fuel with
    | zero => simp at hf
    | succ f =>
      have hr : rd L Pos = some 0 := rd_of_drop h
      simp [copyValue, copyList, hr]
  | cons c cs ih =>
    intro L A Pos W rest fuel h hv hf
    cases fuel with
    | zero => simp at hf
    | succ f =>
      have hc0 : c ≠ 0 := hv c (by simp)
      have hr : rd L Pos = some c := rd_of_drop h
      have h' : L.drop (Pos + 1) = cs ++ 0 :: rest := drop_succ_of_drop h
      rw [copyValue, copyList, hr]
      simp only [hc0, ↓reduceIte]
      split
      · rfl
      · cases hw : wr A W c with
        | none => rfl
        | some A1 =>
          simp only
          exact ih L A1 (Pos + 1) (W + 1) rest f h' (fun x hx => hv x (by simp [hx]))
            (by simpa using hf)


theorem findSeg_noNul (g : List Nat) (segs : List (List Nat)) (hsegs : ∀ s ∈ segs, NoNul s)
    (v : List Nat) (h : findSeg g segs = some v) : NoNul v := by
  induction segs with
  | nil => simp [findSeg] at h
  | cons s ss ih =>
    rw [findSeg] at h
    by_cases hp : (g ++ [61]).isPrefixOf s = true
    · simp only [hp, ↓reduceIte, Option.some.injEq] at h
      intro c hc
      rw [← h] at hc
      exact hsegs s (by simp) c (List.mem_of_mem_drop hc)
    · simp only [hp, Bool.false_eq_true, ↓reduceIte] at h
      exact ih (fun t ht => hsegs t (by simp [ht])) h

/-- For one name, `WS_ProcessGetVars` stores the value of the first segment that
begins with the name and `=`. -/
theorem getStoreOne_eq (nm : List Nat) (pre post : List Nat) (segs : List (List Nat))
    (hsegs : ∀ s ∈ segs, NoNul s) (A : List Nat) (W : Nat) :
    getStoreOne (pre ++ ((segs.map (fun t => t ++ [0])).flatten ++ post)) pre.length segs.length
        nm A W
      = storeEntry (findSeg (cstr nm) segs) A W := by
  obtain ⟨arg', Pos', h1, h2, h3⟩ := getScan_segs nm segs.length post (pre.length + post.length)
    segs pre 0 hsegs (by simp)
  have hfuel : (pre ++ ((segs.map (fun t => t ++ [0])).flatten ++ post)).length + 1
      = pre.length + post.length + ((segs.map (fun t => t ++ [0])).flatten.length + 1) := by
    simp only [List.length_append]; omega
  unfold getStoreOne storeEntry
  rw [hfuel, h1]
  simp only
  cases hf : findSeg (cstr nm) segs with
  | none =>
    have := h2 hf
    subst this
    simp
  | some v =>
    obtain ⟨hlt, rest, hrest⟩ := h3 v hf
    have hv : NoNul v := findSeg_noNul _ segs hsegs v hf
    have hvl : v.length < pre.length + post.length
        + ((segs.map (fun t => t ++ [0])).flatten.length + 1) := by
      have := congrArg List.length hrest
      simp only [List.length_drop, List.length_append, List.length_cons] at this
      omega
    have hcopy := fun A1 => copyValue_eq v _ A1 Pos' (W + 1) rest _ hrest hv hvl
    simp only [hlt, decide_True, ↓reduceIte, Option.isSome_some, hcopy]

theorem getStoreAll_eq (pre post : List Nat) (segs : List (List Nat))
    (hsegs : ∀ s ∈ segs, NoNul s) (names : List (List Nat)) :
    ∀ (A : List Nat) (W : Nat),
      getStoreAll (pre ++ ((segs.map (fun t => t ++ [0])).flatten ++ post)) pre.length segs.length
          names A W
        = storeAll (fun g => findSeg g segs) names A W := by
  induction names with
  | nil => intro A W; rfl
  | cons nm rest ih =>
    intro A W
    rw [getStoreAll, storeAll, getStoreOne_eq nm pre post segs hsegs A W]
    cases storeEntry (findSeg (cstr nm) segs) A W with
    | none => rfl
    | some r =>
      obtain ⟨A1, W1, b⟩ := r
      cases b with
      | true => rfl
      | false => exact ih A1 W1

theorem querySegments_noNul (q : List Nat) (hq : NoNul q) : ∀ s ∈ querySegments q, NoNul s := by
  unfold querySegments
  split
  · intro s hs; simp at hs
  · exact splitSep_noNul q hq

/-- `WS_ProcessGetVars` as a function of the value found for each declared Get name. -/
theorem processGetVars_eq (Web : WebServer) (head q post : List Nat) (hhead : NoNul head)
    (hq : NoNul q) (hL : Web.LineBuff = head ++ (0 :: (q ++ 0 :: post))) :
    WS_ProcessGetVars Web =
      (getVarsResult (fun g => findSeg g (querySegments q)) Web.PageProp Web.ArgsStorage
          Web.ReplyStatus).map
        (fun r => { Web with
                    LineBuff := head ++ (0 :: (q.map (fun c => if c = 38 then 0 else c) ++ 0 :: post))
                    ArgsStorage := r.1
                    ReplyStatus := r.2 }) := by
  have h1 : strlenAt Web.LineBuff 0 = some head.length := by
    rw [hL]; exact strlenAt_append [] head _ hhead
  have hL2 : Web.LineBuff = (head ++ [0]) ++ (q ++ 0 :: post) := by rw [hL]; simp
  have h2 : breakUpArgs 38 (Web.LineBuff.length + 1) Web.LineBuff (head.length + 1) 0 =
      some ((head ++ [0]) ++ (q.map (fun c => if c = 38 then 0 else c) ++ 0 :: post),
        (head ++ [0]).length + q.length, 0 + q.count 38) := by
    have := breakUpArgs_spec (head ++ [0]) q post hq 0 (Web.LineBuff.length + 1)
      (by rw [hL]; simp; omega)
    rw [← hL2] at this
    simpa using this
  have hseg : ∃ post', (head ++ [0]) ++ (q.map (fun c => if c = 38 then 0 else c) ++ 0 :: post)
        = (head ++ [0]) ++ (((querySegments q).map (fun t => t ++ [0])).flatten ++ post') ∧
      (if (head ++ [0]).length + q.length ≠ head.length + 1 then 0 + q.count 38 + 1
        else 0 + q.count 38) = (querySegments q).length := by
    by_cases hqe : q = []
    · subst hqe
      exact ⟨0 :: post, by simp [querySegments], by simp [querySegments]⟩
    · refine ⟨post, ?_, ?_⟩
      · have := zeroed_eq_segments q
        simp only [querySegments, hqe, ↓reduceIte]
        rw [← this]; simp
      · have hpos : 0 < q.length := List.length_pos.2 hqe
        simp only [querySegments, hqe, ↓reduceIte, splitSep_length]
        have : (head ++ [0]).length + q.length ≠ head.length + 1 := by simp [hqe]
        simp [this, hqe]
  obtain ⟨post', hp1, hp2⟩ := hseg
  have hlen : (head ++ [0]).length = head.length + 1 := by simp
  unfold WS_ProcessGetVars getVarsResult
  rw [h1]
  simp only
  rw [h2]
  simp only
  rw [hp2, hp1, ← hlen,
    getStoreAll_eq (head ++ [0]) post' (querySegments q) (querySegments_noNul q hq)]
  rw [← hp1]
  have e : head ++ [0] ++ (q.map (fun c => if c = 38 then 0 else c) ++ 0 :: post)
      = head ++ 0 :: (q.map (fun c => if c = 38 then 0 else c) ++ 0 :: post) := by simp
  rw [e]
  cases storeAll (fun g => findSeg g (querySegments q)) (Web.PageProp.Gets.getD [])
      Web.ArgsStorage 0 with
  | none => rfl
  | some r =>
    obtain ⟨A1, W1, b⟩ := r
    cases b with
    | true => rfl
    | false =>
      simp only
      cases fillN (nameCount Web.PageProp.Cookies) A1 W1 with
      | none => rfl
      | some r2 =>
        obtain ⟨A2, W2, b2⟩ := r2
        cases b2 with
        | true => rfl
        | false =>
          simp only
          cases fillN (nameCount Web.PageProp.Posts) A2 W2 with
          | none => rfl
          | some r3 =>
            obtain ⟨A3, W3, b3⟩ := r3
            cases b3 <;> rfl


theorem segKey_of_prefix (g t : List Nat) : segKey (g ++ 61 :: t) = segKey (g ++ [61]) := by
  induction g with
  | nil => simp [segKey, List.takeWhile]
  | cons c g' ih =>
    unfold segKey at ih ⊢
    simp only [List.cons_append, List.takeWhile_cons]
    split
    · rw [ih]
    · rfl

/-- Reordering segments with pairwise distinct keys does not change the value found
for a name. -/
theorem findSeg_perm (g : List Nat) {l1 l2 : List (List Nat)} (hp : l1.Perm l2)
    (hk : (l1.map segKey).Nodup) : findSeg g l1 = findSeg g l2 := by
  induction hp with
  | nil => rfl
  | cons x _ ih =>
    simp only [List.map_cons, List.nodup_cons] at hk
    simp only [findSeg]
    rw [ih hk.2]
  | swap x y l =>
    simp only [List.map_cons, List.nodup_cons, List.mem_cons, not_or] at hk
    simp only [findSeg]
    by_cases hx : (g ++ [61]).isPrefixOf x = true
    · by_cases hy : (g ++ [61]).isPrefixOf y = true
      · exfalso
        obtain ⟨t1, h1⟩ := (keyPrefix_iff _ _).1 hx
        obtain ⟨t2, h2⟩ := (keyPrefix_iff _ _).1 hy
        apply hk.1.1
        rw [h1, h2, segKey_of_prefix g t1, segKey_of_prefix g t2]
      · simp [hx, hy]
    · by_cases hy : (g ++ [61]).isPrefixOf y = true
      · simp [hx, hy]
      · simp [hx, hy]
  | trans h1 _ ih1 ih2 =>
    rw [ih1 hk, ih2 ((h1.map segKey).nodup_iff.1 hk)]

theorem joinAmp_cons_cons (s t : List Nat) (rest : List (List Nat)) :
    joinAmp (s :: t :: rest) = s ++ 38 :: joinAmp (t :: rest) := rfl

theorem splitSep_append_sep (s : List Nat) (hs : 38 ∉ s) (q : List Nat) :
    splitSep 38 (s ++ 38 :: q) = s :: splitSep 38 q := by
  induction s with
  | nil => simp [splitSep]
  | cons c cs ih =>
    have hc : c ≠ 38 := fun h => hs (by simp [h])
    have := ih (fun h => hs (by simp [h]))
    rw [List.cons_append, splitSep]
    simp only [hc, ↓reduceIte, this]

theorem splitSep_single (s : List Nat) (hs : 38 ∉ s) : splitSep 38 s = [s] := by
  induction s with
  | nil => simp [splitSep]
  | cons c cs ih =>
    have hc : c ≠ 38 := fun h => hs (by simp [h])
    have := ih (fun h => hs (by simp [h]))
    rw [splitSep]
    simp only [hc, ↓reduceIte, this]

theorem splitSep_joinAmp (segs : List (List Nat)) (hne : segs ≠ [])
    (hs : ∀ s ∈ segs, 38 ∉ s) : splitSep 38 (joinAmp segs) = segs := by
  induction segs with
  | nil => exact absurd rfl hne
  | cons s rest ih =>
    cases rest with
    | nil => simpa [joinAmp] using splitSep_single s (hs s (by simp))
    | cons t rest' =>
      rw [joinAmp_cons_cons, splitSep_append_sep s (hs s (by simp)),
        ih (by simp) (fun x hx => hs x (by simp [hx]))]

/-- The segments the code sees in a query joined from segments give the same value
for every name. -/
theorem findSeg_querySegments_joinAmp (g : List Nat) (segs : List (List Nat))
    (hs : ∀ s ∈ segs, 38 ∉ s) :
    findSeg g (querySegments (joinAmp segs)) = findSeg g segs := by
  by_cases hne : segs = []
  · subst hne; simp [joinAmp, querySegments]
  · have hsp := splitSep_joinAmp segs hne hs
    unfold querySegments
    by_cases hq : joinAmp segs = []
    · rw [hq] at hsp
      simp only [hq, ↓reduceIte]
      rw [← hsp]
      simp [splitSep, findSeg]
    · simp only [hq, ↓reduceIte, hsp]

theorem noNul_joinAmp (segs : List (List Nat)) (hs : ∀ s ∈ segs, NoNul s) :
    NoNul (joinAmp segs) := by
  induction segs with
  | nil => intro c hc; simp [joinAmp] at hc
  | cons s rest ih =>
    cases rest with
    | nil => simpa [joinAmp] using hs s (by simp)
    | cons t rest' =>
      rw [joinAmp_cons_cons]
      intro c hc
      simp only [List.mem_append, List.mem_cons] at hc
      rcases hc with h | h | h
      · exact hs s (by simp) c h
      · omega
      · exact ih (fun x hx => hs x (by simp [hx])) c h

/-- C8: for every route and every query whose `'&'`-separated segments have pairwise
distinct keys, putting the segments in another order leaves the storage that
`WS_ProcessGetVars` writes, the reply status and every `WS_GET` result unchanged. -/
theorem C8_get_storage_independent_of_argument_order (Web : WebServer)
    (head post1 post2 : List Nat) (segs1 segs2 : List (List Nat))
    (hhead : NoNul head) (hsegs : ∀ s ∈ segs1, NoNul s ∧ 38 ∉ s)
    (hperm : segs1.Perm segs2) (hkeys : (segs1.map segKey).Nodup) :
    (WS_ProcessGetVars
        { Web with LineBuff := head ++ (0 :: (joinAmp segs1 ++ 0 :: post1)) }).map
      (fun w => (w.ArgsStorage, w.ReplyStatus, fun Arg => getValue w Arg)) =
    (WS_ProcessGetVars
        { Web with LineBuff := head ++ (0 :: (joinAmp segs2 ++ 0 :: post2)) }).map
      (fun w => (w.ArgsStorage, w.ReplyStatus, fun Arg => getValue w Arg)) := by
  have hsegs2 : ∀ s ∈ segs2, NoNul s ∧ 38 ∉ s := fun s hs => hsegs s (hperm.mem_iff.2 hs)
  have hlook : (fun g => findSeg g (querySegments (joinAmp segs1)))
      = (fun g => findSeg g (querySegments (joinAmp segs2))) := by
    funext g
    rw [findSeg_querySegments_joinAmp g segs1 (fun s hs => (hsegs s hs).2),
      findSeg_querySegments_joinAmp g segs2 (fun s hs => (hsegs2 s hs).2),
      findSeg_perm g hperm hkeys]
  rw [processGetVars_eq _ head (joinAmp segs1) post1 hhead
      (noNul_joinAmp segs1 (fun s hs => (hsegs s hs).1)) rfl,
    processGetVars_eq _ head (joinAmp segs2) post2 hhead
      (noNul_joinAmp segs2 (fun s hs => (hsegs2 s hs).1)) rfl]
  simp only [hlook, Option.map_map]
  rfl


set_option maxRecDepth 100000 in
/-- C8 at the queries `a=1&b=2` and `b=2&a=1` for a route declaring Gets `[a, b]`. -/
theorem C8_get_storage_witness :
    NoNul (B "GET /") ∧ (∀ s ∈ [B "a=1", B "b=2"], NoNul s ∧ 38 ∉ s) ∧
    ([B "a=1", B "b=2"].map segKey).Nodup ∧
    (WS_ProcessGetVars
        { ({ freshWeb with PageProp := { freshWeb.PageProp with Gets := some [B "a", B "b"] } }
            : WebServer) with
          LineBuff := B "GET /" ++ (0 :: (joinAmp [B "a=1", B "b=2"] ++ 0 :: [])) }).map
      (fun w => (w.ArgsStorage, w.ReplyStatus, fun Arg => getValue w Arg)) =
    (WS_ProcessGetVars
        { ({ freshWeb with PageProp := { freshWeb.PageProp with Gets := some [B "a", B "b"] } }
            : WebServer) with
          LineBuff := B "GET /" ++ (0 :: (joinAmp [B "b=2", B "a=1"] ++ 0 :: [])) }).map
      (fun w => (w.ArgsStorage, w.ReplyStatus, fun Arg => getValue w Arg)) :=
  ⟨by unfold NoNul; decide, by unfold NoNul; decide, by decide,
    C8_get_storage_independent_of_argument_order _ (B "GET /") [] [] [B "a=1", B "b=2"]
      [B "b=2", B "a=1"] (by unfold NoNul; decide) (by unfold NoNul; decide)
      (List.Perm.swap _ _ _) (by decide)⟩

theorem drop_of_take_eq (X P M : List Nat) (n W : Nat) (h : X.take n = P ++ M)
    (hP : P.length = W) : X.drop W = M ++ X.drop n := by
  have hX : X = (P ++ M) ++ X.drop n := by rw [← h, List.take_append_drop]
  conv_lhs => rw [hX]
  rw [List.append_assoc, ← hP, List.drop_left]

theorem copyList_take (v : List Nat) :
    ∀ (A : List Nat) (W : Nat), W + v.length ≤ WS_OPT_ARG_MEMORY_SIZE → W + v.length ≤ A.length →
      ∃ A', copyList v A W = some (A', W + v.length, false) ∧ A'.length = A.length ∧
        A'.take (W + v.length) = A.take W ++ v := by
  induction v with
  | nil => intro A W _ _; exact ⟨A, by simp [copyList], rfl, by simp⟩
  | cons c cs ih =>
    intro A W h1 h2
    simp only [List.length_cons] at h1 h2
    have hw := wr_some A W c (by omega)
    obtain ⟨A', e1, e2, e3⟩ := ih (A.set W c) (W + 1) (by omega) (by simp; omega)
    refine ⟨A', ?_, by simpa using e2, ?_⟩
    · rw [copyList]
      simp only [show ¬ (W ≥ WS_OPT_ARG_MEMORY_SIZE) by omega, ↓reduceIte, hw, e1,
        List.length_cons]
      rw [show W + (cs.length + 1) = W + 1 + cs.length by omega]
    · have e : W + (c :: cs).length = W + 1 + cs.length := by simp; omega
      rw [e, e3, take_set_succ A W c (by omega)]
      simp

theorem fillN_take (k : Nat) :
    ∀ (A : List Nat) (W : Nat), W + k ≤ WS_OPT_ARG_MEMORY_SIZE → W + k ≤ A.length →
      ∃ A', fillN k A W = some (A', W + k, false) ∧ A'.length = A.length ∧
        A'.take (W + k) = A.take W ++ List.replicate k 78 := by
  induction k with
  | zero => intro A W _ _; exact ⟨A, by simp [fillN], rfl, by simp⟩
  | succ k ih =>
    intro A W h1 h2
    have hw := wr_some A W 78 (by omega)
    obtain ⟨A', e1, e2, e3⟩ := ih (A.set W 78) (W + 1) (by omega) (by simp; omega)
    refine ⟨A', ?_, by simpa using e2, ?_⟩
    · rw [fillN]
      simp only [show ¬ (W ≥ WS_OPT_ARG_MEMORY_SIZE) by omega, ↓reduceIte, hw, e1]
      rw [show W + (k + 1) = W + 1 + k by omega]
    · have e : W + (k + 1) = W + 1 + k := by omega
      rw [e, e3, take_set_succ A W 78 (by omega), List.replicate_succ]
      simp

/-- Storing an absent entry. -/
theorem storeEntry_none (A : List Nat) (W : Nat) (h1 : W + 1 ≤ WS_OPT_ARG_MEMORY_SIZE)
    (h2 : W + 1 ≤ A.length) :
    ∃ A', storeEntry none A W = some (A', W + 1, false) ∧ A'.length = A.length ∧
      A'.take (W + 1) = A.take W ++ [78] := by
  refine ⟨A.set W 78, ?_, by simp, take_set_succ A W 78 (by omega)⟩
  unfold storeEntry
  simp [show ¬ (W ≥ WS_OPT_ARG_MEMORY_SIZE) by omega, wr_some A W 78 (by omega)]

/-- Storing a present entry whose raw value fits: the marker, the decoded value and
its terminator are stored. -/
theorem storeEntry_some (v : List Nat) (A : List Nat) (W : Nat)
    (h1 : W + 1 + v.length + 1 ≤ WS_OPT_ARG_MEMORY_SIZE) (h2 : WS_OPT_ARG_MEMORY_SIZE ≤ A.length)
    (hv : NoNul v) (hwf : wellFormedPct v = true) :
    ∃ A', storeEntry (some v) A W = some (A', W + 1 + (pctDecode v).length + 1, false) ∧
      A'.length = A.length ∧
      A'.take (W + 1 + (pctDecode v).length + 1) = A.take W ++ (89 :: (pctDecode v ++ [0])) := by
  have hw := wr_some A W 89 (by omega)
  obtain ⟨A2, c1, c2, c3⟩ := copyList_take v (A.set W 89) (W + 1) (by omega) (by simp; omega)
  have hA2 : A2.length = A.length := by simpa using c2
  have hw2 := wr_some A2 (W + 1 + v.length) 0 (by omega)
  have t3 : (A2.set (W + 1 + v.length) 0).take (W + 1 + v.length + 1)
      = A.take W ++ (89 :: v ++ [0]) := by
    rw [take_set_succ A2 _ 0 (by omega), c3, take_set_succ A W 89 (by omega)]
    simp
  have hPl : (A.take W).length = W := List.length_take_of_le (by omega)
  have hdrop := drop_of_take_eq _ _ _ _ W t3 hPl
  have h89 : (89 : Nat) ≠ 37 := by decide
  have hwf' : wellFormedPct (89 :: v) = true := by rw [wellFormedPct_cons_ne 89 v h89]; exact hwf
  have hnn : NoNul (89 :: v) := by
    intro c hc
    simp only [List.mem_cons] at hc
    rcases hc with h | h
    · omega
    · exact hv c h
  obtain ⟨A4, d1, d2, d3⟩ := urlDecodeInPlaceLoop_spec ((A2.set (W + 1 + v.length) 0).length + 1)
    (A2.set (W + 1 + v.length) 0) W W (89 :: v) _ (by simpa using hdrop) (le_refl _) hnn hwf'
    (by simp; omega)
  rw [pctDecode_cons_ne 89 v h89] at d1 d3
  have tW : (A2.set (W + 1 + v.length) 0).take W = A.take W := by
    have := congrArg (List.take W) t3
    rw [List.take_take, List.take_append_eq_append_take, hPl] at this
    simpa [show min W (W + 1 + v.length + 1) = W by omega, List.take_take] using this
  refine ⟨A4, ?_, by rw [d2]; simpa using hA2, ?_⟩
  · unfold storeEntry
    simp only [show ¬ (W ≥ WS_OPT_ARG_MEMORY_SIZE) by omega, ↓reduceIte, Option.isSome_some, hw,
      c1, show ¬ (W + 1 + v.length ≥ WS_OPT_ARG_MEMORY_SIZE) by omega, hw2, WS_URLDecodeInPlace,
      d1, List.length_cons]
    rw [show W + ((pctDecode v).length + 1) + 1 = W + 1 + (pctDecode v).length + 1 by omega]
  · have e : W + 1 + (pctDecode v).length + 1 = W + (89 :: pctDecode v).length + 1 := by
      simp; omega
    rw [e, d3, tW]
    simp

/-- When the raw data fits, the Get section is stored as the layout describes. -/
theorem storeAll_layout (look : List Nat → Option (List Nat)) (names : List (List Nat)) :
    ∀ (A : List Nat) (W : Nat), WS_OPT_ARG_MEMORY_SIZE ≤ A.length → rawFits look names W = true →
      (∀ nm ∈ names, ∀ v, look (cstr nm) = some v → NoNul v ∧ wellFormedPct v = true) →
      ∃ A', storeAll look names A W = some (A', W + (getsLayout look names).length, false) ∧
        A'.length = A.length ∧
        A'.take (W + (getsLayout look names).length) = A.take W ++ getsLayout look names := by
  induction names with
  | nil => intro A W _ _ _; exact ⟨A, by simp [storeAll, getsLayout], rfl, by simp [getsLayout]⟩
  | cons nm rest ih =>
    intro A W hA hfit hv
    rw [rawFits] at hfit
    cases hl : look (cstr nm) with
    | none =>
      simp only [hl, Bool.and_eq_true, decide_eq_true_eq] at hfit
      obtain ⟨A1, s1, s2, s3⟩ := storeEntry_none A W hfit.1 (by omega)
      obtain ⟨A', r1, r2, r3⟩ := ih A1 (W + 1) (by omega) hfit.2
        (fun n hn => hv n (by simp [hn]))
      refine ⟨A', ?_, by omega, ?_⟩
      · rw [storeAll, hl, s1]
        simp only [r1, getsLayout, hl, entryBytes, List.length_append, List.length_singleton]
        rw [show W + (1 + (getsLayout look rest).length) = W + 1 + (getsLayout look rest).length
          by omega]
      · have e : W + (getsLayout look (nm :: rest)).length
            = W + 1 + (getsLayout look rest).length := by
          simp [getsLayout, hl, entryBytes]; omega
        rw [e, r3, s3]
        simp [getsLayout, hl, entryBytes]
    | some v =>
      simp only [hl, Bool.and_eq_true, decide_eq_true_eq] at hfit
      obtain ⟨hvn, hvw⟩ := hv nm (by simp) v hl
      obtain ⟨A1, s1, s2, s3⟩ := storeEntry_some v A W hfit.1 hA hvn hvw
      obtain ⟨A', r1, r2, r3⟩ := ih A1 (W + 1 + (pctDecode v).length + 1) (by omega) hfit.2
        (fun n hn => hv n (by simp [hn]))
      refine ⟨A', ?_, by omega, ?_⟩
      · rw [storeAll, hl, s1]
        simp only [r1, getsLayout, hl, entryBytes, List.length_append, List.length_cons,
          List.length_singleton, List.length_nil]
        rw [show W + ((pctDecode v).length + (0 + 1) + 1 + (getsLayout look rest).length)
          = W + 1 + (pctDecode v).length + 1 + (getsLayout look rest).length by omega]
      · have e : W + (getsLayout look (nm :: rest)).length
            = W + 1 + (pctDecode v).length + 1 + (getsLayout look rest).length := by
          simp [getsLayout, hl, entryBytes]; omega
        rw [e, r3, s3]
        simp [getsLayout, hl, entryBytes]


/-- `WS_ProcessGetVars` when the raw data fits: the reply status is left alone and the
storage starts with the Get section followed by an `'N'` for every Cookie and Post
name. -/
theorem processGetVars_layout (Web : WebServer) (head q post : List Nat) (hhead : NoNul head)
    (hq : NoNul q) (hL : Web.LineBuff = head ++ (0 :: (q ++ 0 :: post)))
    (hA : Web.ArgsStorage.length = WS_OPT_ARG_MEMORY_SIZE)
    (hwf : ∀ g ∈ Web.PageProp.Gets.getD [], ∀ v,
      findSeg (cstr g) (querySegments q) = some v → wellFormedPct v = true)
    (hfit : rawFits (fun g => findSeg g (querySegments q)) (Web.PageProp.Gets.getD []) 0 = true)
    (hfit2 : (getsLayout (fun g => findSeg g (querySegments q)) (Web.PageProp.Gets.getD [])).length
      + nameCount Web.PageProp.Cookies + nameCount Web.PageProp.Posts ≤ WS_OPT_ARG_MEMORY_SIZE) :
    ∃ Web2, WS_ProcessGetVars Web = some Web2 ∧ Web2.ReplyStatus = Web.ReplyStatus ∧
      Web2.PageProp = Web.PageProp ∧ Web2.ArgsStorage.length = WS_OPT_ARG_MEMORY_SIZE ∧
      Web2.ArgsStorage.take
          ((getsLayout (fun g => findSeg g (querySegments q)) (Web.PageProp.Gets.getD [])).length
            + nameCount Web.PageProp.Cookies + nameCount Web.PageProp.Posts) =
        getsLayout (fun g => findSeg g (querySegments q)) (Web.PageProp.Gets.getD [])
          ++ List.replicate (nameCount Web.PageProp.Cookies) 78
          ++ List.replicate (nameCount Web.PageProp.Posts) 78 := by
  have hsegs := querySegments_noNul q hq
  obtain ⟨A1, s1, s2, s3⟩ := storeAll_layout (fun g => findSeg g (querySegments q))
    (Web.PageProp.Gets.getD []) Web.ArgsStorage 0 (by omega) hfit
    (fun nm hnm v hv => ⟨findSeg_noNul _ _ hsegs v hv, hwf nm hnm v hv⟩)
  simp only [Nat.zero_add, List.take_zero, List.nil_append] at s1 s3
  generalize hlay : getsLayout (fun g => findSeg g (querySegments q))
    (Web.PageProp.Gets.getD []) = lay at *
  obtain ⟨A2, f1, f2, f3⟩ := fillN_take (nameCount Web.PageProp.Cookies) A1 lay.length
    (by omega) (by omega)
  obtain ⟨A3, k1, k2, k3⟩ := fillN_take (nameCount Web.PageProp.Posts) A2
    (lay.length + nameCount Web.PageProp.Cookies) (by omega) (by omega)
  rw [processGetVars_eq Web head q post hhead hq hL]
  unfold getVarsResult
  rw [s1]
  simp only
  rw [f1]
  simp only
  rw [k1]
  simp only [Option.map_some']
  refine ⟨_, rfl, rfl, rfl, by simp only; omega, ?_⟩
  simp only
  rw [k3, f3, s3]


/-- C1 (amended): for every route and every request line `GET <path>?<query> HTTP/1.1`
(path without `'?'`, no NUL), when the values found for the declared Get names have
well-formed escapes and every entry fits before it is decoded (`rawFits`) and the
decoded Get section with one byte per Cookie and Post name fits in the 100 bytes,
then after `WS_ProcessURI` and `WS_ProcessGetVars` the reply status is unchanged and
`ArgsStorage` starts with, for each declared Get name in order, `'N'` when no segment
begins with the name and `'='` and otherwise `'Y'`, the decoded value of the first
such segment and a NUL, followed by one `'N'` for each Cookie and Post name. -/
theorem C1_get_section_in_declared_order (Web : WebServer) (p q rest : List Nat)
    (hp : ∀ c ∈ p, c ≠ 63 ∧ c ≠ 0) (hq : NoNul q)
    (hL : Web.LineBuff = B "GET " ++ p ++ [63] ++ q ++ B " HTTP/1.1" ++ [0] ++ rest)
    (hA : Web.ArgsStorage.length = WS_OPT_ARG_MEMORY_SIZE)
    (hwf : ∀ g ∈ Web.PageProp.Gets.getD [], ∀ v,
      findSeg (cstr g) (querySegments q) = some v → wellFormedPct v = true)
    (hfit : rawFits (fun g => findSeg g (querySegments q)) (Web.PageProp.Gets.getD []) 0 = true)
    (hfit2 : (getsLayout (fun g => findSeg g (querySegments q)) (Web.PageProp.Gets.getD [])).length
      + nameCount Web.PageProp.Cookies + nameCount Web.PageProp.Posts ≤ WS_OPT_ARG_MEMORY_SIZE) :
    ∃ Web1 Web2, WS_ProcessURI Web = some (Web1, true) ∧ WS_ProcessGetVars Web1 = some Web2 ∧
      Web2.ReplyStatus = Web.ReplyStatus ∧
      Web2.ArgsStorage.take
          ((getsLayout (fun g => findSeg g (querySegments q)) (Web.PageProp.Gets.getD [])).length
            + nameCount Web.PageProp.Cookies + nameCount Web.PageProp.Posts) =
        getsLayout (fun g => findSeg g (querySegments q)) (Web.PageProp.Gets.getD [])
          ++ List.replicate (nameCount Web.PageProp.Cookies) 78
          ++ List.replicate (nameCount Web.PageProp.Posts) 78 := by
  have hhead := method_no_question (B "GET ") (Or.inl rfl) p hp
  have hURI := processURI_with_query Web (B "GET " ++ p) q rest hhead hq hL
  obtain ⟨Web2, g1, g2, _, _, g5⟩ := processGetVars_layout
    { Web with LineBuff := B "GET " ++ p ++ (0 :: (q ++ 0 :: (B "HTTP/1.1" ++ [0] ++ rest))) }
    (B "GET " ++ p) q (B "HTTP/1.1" ++ [0] ++ rest) (fun c hc => (hhead c hc).2) hq rfl hA hwf
    hfit hfit2
  exact ⟨_, Web2, hURI, g1, g2, g5⟩

theorem pctDecode_length_le (n : Nat) : ∀ v : List Nat, v.length = n →
    (pctDecode v).length ≤ v.length := by
  induction n using Nat.strong_induction_on with
  | _ n ih =>
    intro v hn
    cases v with
    | nil => simp [pctDecode]
    | cons c v' =>
      by_cases hc : c = 37
      · subst hc
        cases v' with
        | nil => simp [pctDecode]
        | cons x v2 =>
          cases v2 with
          | nil => simp [pctDecode]
          | cons y v3 =>
            have := ih v3.length (by simp at hn; omega) v3 rfl
            unfold pctDecode
            simp only [↓reduceIte]
            split <;> simp <;> omega
      · rw [pctDecode_cons_ne c v' hc]
        have := ih v'.length (by simp at hn; omega) v' rfl
        simp; omega

/-- C7 (amended): for a route declaring Get names `[a, b, c]` and a query in which no
segment begins with `a=` or `c=` and the first segment that begins with `b=` has the
value `v`, when `v` has well-formed escapes that do not decode to NUL and the data
fits (the raw `v` with the markers before it, and the decoded section with one byte
per Cookie and Post name), after `WS_ProcessGetVars` `WS_GET(a)` is NULL, `WS_GET(b)`
is the percent-decoded `v` and `WS_GET(c)` is NULL. -/
theorem C7_only_b_supplied (Web : WebServer) (head q post a b c v : List Nat)
    (hhead : NoNul head) (hq : NoNul q)
    (hL : Web.LineBuff = head ++ (0 :: (q ++ 0 :: post)))
    (hA : Web.ArgsStorage.length = WS_OPT_ARG_MEMORY_SIZE)
    (hG : Web.PageProp.Gets = some [a, b, c])
    (ha : findSeg (cstr a) (querySegments q) = none)
    (hb : findSeg (cstr b) (querySegments q) = some v)
    (hc : findSeg (cstr c) (querySegments q) = none)
    (hwf : wellFormedPct v = true) (hnn : NoNul (pctDecode v))
    (hraw : v.length + 3 ≤ WS_OPT_ARG_MEMORY_SIZE)
    (hfin : (pctDecode v).length + 4 + nameCount Web.PageProp.Cookies
      + nameCount Web.PageProp.Posts ≤ WS_OPT_ARG_MEMORY_SIZE) :
    ∃ Web2, WS_ProcessGetVars Web = some Web2 ∧ getValue Web2 a = some none ∧
      getValue Web2 b = some (some (pctDecode v)) ∧ getValue Web2 c = some none := by
  have hdl := pctDecode_length_le v.length v rfl
  have hlay : getsLayout (fun g => findSeg g (querySegments q)) [a, b, c]
      = 78 :: 89 :: (pctDecode v ++ [0, 78]) := by
    simp [getsLayout, ha, hb, hc, entryBytes]
  obtain ⟨Web2, g1, _, g3, g4, g5⟩ := processGetVars_layout Web head q post hhead hq hL hA
    (by
      intro g hg w hw
      simp only [hG, Option.getD_some, List.mem_cons, List.mem_singleton, List.not_mem_nil,
        or_false] at hg
      rcases hg with h | h | h
      · rw [h, ha] at hw; cases hw
      · rw [h, hb] at hw; cases hw; exact hwf
      · rw [h, hc] at hw; cases hw)
    (by
      simp only [hG, Option.getD_some, rawFits, ha, hb, hc, Bool.and_eq_true, decide_eq_true_eq,
        and_true]
      omega)
    (by rw [hG, Option.getD_some, hlay]; simp; omega)
  rw [hG, Option.getD_some, hlay] at g5
  refine ⟨Web2, g1, ?_⟩
  -- the storage as a list that starts with the three entries
  obtain ⟨tail, hS⟩ : ∃ tail, Web2.ArgsStorage = 78 :: 89 :: (pctDecode v ++ 0 :: 78 :: tail) := by
    refine ⟨List.replicate (nameCount Web.PageProp.Cookies) 78
      ++ List.replicate (nameCount Web.PageProp.Posts) 78 ++ Web2.ArgsStorage.drop
        ((78 :: 89 :: (pctDecode v ++ [0, 78])).length + nameCount Web.PageProp.Cookies
          + nameCount Web.PageProp.Posts), ?_⟩
    conv_lhs => rw [← List.take_append_drop ((78 :: 89 :: (pctDecode v ++ [0, 78])).length
      + nameCount Web.PageProp.Cookies + nameCount Web.PageProp.Posts) Web2.ArgsStorage, g5]
    simp
  have hab : cstr a ≠ cstr b := by
    intro h; rw [h, hb] at ha; cases ha
  have hcb : cstr b ≠ cstr c := by
    intro h; rw [← h, hb] at hc; cases hc
  have r0 : rd Web2.ArgsStorage 0 = some 78 := by rw [hS]; simp [rd]
  have r1 : rd Web2.ArgsStorage 1 = some 89 := by rw [hS]; simp [rd]
  have sl : strlenAt Web2.ArgsStorage 1 = some (1 + (pctDecode v).length) := by
    rw [hS]
    have := strlenAt_append [78] (89 :: pctDecode v) (78 :: tail) (by
      intro x hx
      simp only [List.mem_cons] at hx
      rcases hx with h | h
      · omega
      · exact hnn x h)
    simpa [Nat.add_comm] using this
  have r3 : rd Web2.ArgsStorage (1 + (1 + (pctDecode v).length) + 1) = some 78 := by
    rw [hS]
    have := rd_at (78 :: 89 :: (pctDecode v ++ [0])) 78 tail
    simp only [List.cons_append, List.append_assoc, List.singleton_append,
      List.length_cons, List.length_append, List.length_singleton, List.length_nil] at this
    rw [show 1 + (1 + (pctDecode v).length) + 1 = (pctDecode v).length + (0 + 1) + 1 + 1 by omega]
    exact this
  have cv : cstrAt Web2.ArgsStorage 2 = some (pctDecode v) := by
    rw [hS]
    exact cstrAt_append [78, 89] (pctDecode v) (78 :: tail) hnn
  refine ⟨?_, ?_, ?_⟩
  · simp [getValue, WS_GET, WS_FindArgInStorage, g3, hG, findArgLoop, r0, argValue]
  · simp [getValue, WS_GET, WS_FindArgInStorage, g3, hG, findArgLoop, hab, skipEntry, r0, r1,
      argValue, cv]
  · by_cases hac : cstr a = cstr c
    · simp [getValue, WS_GET, WS_FindArgInStorage, g3, hG, findArgLoop, hac, r0, argValue]
    · simp [getValue, WS_GET, WS_FindArgInStorage, g3, hG, findArgLoop, hac, hcb, skipEntry, r0,
        r1, sl, r3, argValue]



set_option maxRecDepth 1000000 in
/-- C1 (amended) at the request line `GET /?one=value1 HTTP/1.1` for a route declaring
Get names `[one, two]`: the storage holds `'Y'`, `value1`, NUL, `'N'`, `WS_GET("one")`
is `value1` and `WS_GET("two")` is NULL. -/
theorem C1_get_section_witness :
    (∃ Web1 Web2,
      WS_ProcessURI (sessionWith (some [B "one", B "two"]) none none
        (B "GET /?one=value1 HTTP/1.1")) = some (Web1, true) ∧
      WS_ProcessGetVars Web1 = some Web2 ∧
      Web2.ReplyStatus = (sessionWith (some [B "one", B "two"]) none none
        (B "GET /?one=value1 HTTP/1.1")).ReplyStatus ∧
      Web2.ArgsStorage.take
          ((getsLayout (fun g => findSeg g (querySegments (B "one=value1")))
              ((sessionWith (some [B "one", B "two"]) none none
                (B "GET /?one=value1 HTTP/1.1")).PageProp.Gets.getD [])).length
            + nameCount (sessionWith (some [B "one", B "two"]) none none
                (B "GET /?one=value1 HTTP/1.1")).PageProp.Cookies
            + nameCount (sessionWith (some [B "one", B "two"]) none none
                (B "GET /?one=value1 HTTP/1.1")).PageProp.Posts) =
        getsLayout (fun g => findSeg g (querySegments (B "one=value1")))
            ((sessionWith (some [B "one", B "two"]) none none
              (B "GET /?one=value1 HTTP/1.1")).PageProp.Gets.getD [])
          ++ List.replicate (nameCount (sessionWith (some [B "one", B "two"]) none none
                (B "GET /?one=value1 HTTP/1.1")).PageProp.Cookies) 78
          ++ List.replicate (nameCount (sessionWith (some [B "one", B "two"]) none none
                (B "GET /?one=value1 HTTP/1.1")).PageProp.Posts) 78) ∧
    getsLayout (fun g => findSeg g (querySegments (B "one=value1"))) [B "one", B "two"]
      = [89] ++ B "value1" ++ [0, 78] ∧
    (uriThenGetVars (sessionWith (some [B "one", B "two"]) none none
        (B "GET /?one=value1 HTTP/1.1"))).map
      (fun w => (getValue w (B "one"), getValue w (B "two")))
      = some (some (some (B "value1")), some none) :=
  ⟨C1_get_section_in_declared_order
      (sessionWith (some [B "one", B "two"]) none none (B "GET /?one=value1 HTTP/1.1"))
      (B "/") (B "one=value1") (List.replicate 230 0)
      (by decide) (by unfold NoNul; decide) (by decide) (by decide)
      (by
        intro g hg v hv
        have h1 : findSeg (cstr (B "one")) (querySegments (B "one=value1")) = some (B "value1") := by
          decide
        have h2 : findSeg (cstr (B "two")) (querySegments (B "one=value1")) = none := by decide
        have hg' : g = B "one" ∨ g = B "two" := by simpa [sessionWith] using hg
        rcases hg' with h | h
        · rw [h, h1] at hv; cases hv; decide
        · rw [h, h2] at hv; cases hv)
      (by decide) (by decide),
    by decide, by decide!⟩



set_option maxRecDepth 1000000 in
/-- C7 (amended) at the query `x=1&b=v%21&y=2` for a route declaring Get names
`[a, b, c]`. -/
theorem C7_only_b_witness :
    ∃ Web2, WS_ProcessGetVars (sessionWith (some [B "a", B "b", B "c"]) none none
        (B "GET /" ++ [0] ++ B "x=1&b=v%21&y=2")) = some Web2 ∧
      getValue Web2 (B "a") = some none ∧
      getValue Web2 (B "b") = some (some (pctDecode (B "v%21"))) ∧
      getValue Web2 (B "c") = some none :=
  C7_only_b_supplied
    (sessionWith (some [B "a", B "b", B "c"]) none none (B "GET /" ++ [0] ++ B "x=1&b=v%21&y=2"))
    (B "GET /") (B "x=1&b=v%21&y=2") (List.replicate 235 0) (B "a") (B "b") (B "c") (B "v%21")
    (by unfold NoNul; decide) (by unfold NoNul; decide) (by decide) (by decide) (by decide)
    (by decide) (by decide) (by decide) (by decide) (by unfold NoNul; decide) (by decide)
    (by decide)


set_option maxRecDepth 1000000 in
/-- C10, what the code does: `WS_ProcessURI` sets 505 for `GET / HTTP/1.0` and 400 for
`GET /x`, but `WS_RunServer` ignores its result and looks the unsplit rest of the line
up as a file name, so both requests are answered with 404 on the table of
`FileServer.c`. -/
theorem C10_version_errors_overwritten_by_404 :
    (WS_ProcessURI (sessionWith none none none (B "GET / HTTP/1.0"))).map
        (fun r => (r.1.ReplyStatus, r.2)) = some (ReplyStatus.HTTPVersionNotSupported, false) ∧
    sentBytes (WS_RunServer (fileServerTable (B "hello")) 0 freshWeb (B "GET / HTTP/1.0\r\n\r\n"))
      = some (autoReply ReplyStatus.NotFound) ∧
    (WS_ProcessURI (sessionWith none none none (B "GET /x"))).map
        (fun r => (r.1.ReplyStatus, r.2)) = some (ReplyStatus.BadRequest, false) ∧
    sentBytes (WS_RunServer (fileServerTable (B "hello")) 0 freshWeb (B "GET /x\r\n\r\n"))
      = some (autoReply ReplyStatus.NotFound) := by
  decide!

set_option maxRecDepth 1000000 in
/-- C5, what the code does: two complete requests in one chunk get one reply (the
bytes after the first request are dropped), while the same requests in two chunks get
two replies. -/
theorem C5_second_request_in_chunk_dropped :
    sentBytes (WS_RunServer (oneFileTable none none none (fun _ => [Action.WriteWhole (B "hi") 2]))
        0 freshWeb (B "GET / HTTP/1.1\r\n\r\n" ++ B "GET / HTTP/1.1\r\n\r\n"))
      = some (wholeReply (B "hi")) ∧
    sentBytes (feedChunks (oneFileTable none none none (fun _ => [Action.WriteWhole (B "hi") 2]))
        0 freshWeb [B "GET / HTTP/1.1\r\n\r\n", B "GET / HTTP/1.1\r\n\r\n"])
      = some (wholeReply (B "hi") ++ wholeReply (B "hi")) := by
  decide!



/-! ## A request in chunks -/

theorem samePhase_refl (W : WebServer) : SamePhase W W := ⟨rfl, rfl, rfl⟩

theorem samePhase_trans {A C D : WebServer} (h1 : SamePhase A C) (h2 : SamePhase C D) :
    SamePhase A D :=
  ⟨h2.1.trans h1.1, h2.2.1.trans h1.2.1, h2.2.2.trans h1.2.2⟩

theorem processURI_frame {Web W : WebServer} {b : Bool}
    (h : WS_ProcessURI Web = some (W, b)) : SamePhase Web W := by
  unfold WS_ProcessURI at h
  repeat' split at h
  all_goals first
    | contradiction
    | (simp only [Option.some.injEq, Prod.mk.injEq] at h; obtain ⟨rfl, _⟩ := h
       exact ⟨rfl, rfl, rfl⟩)
    | (simp only [Option.map_eq_some', Prod.mk.injEq] at h
       obtain ⟨_, _, rfl, _⟩ := h
       exact ⟨rfl, rfl, rfl⟩)

theorem processGetVars_frame {Web W : WebServer}
    (h : WS_ProcessGetVars Web = some W) : SamePhase Web W := by
  unfold WS_ProcessGetVars at h
  dsimp only at h
  repeat' split at h
  all_goals first
    | contradiction
    | (simp only [Option.some.injEq] at h; subst h; exact ⟨rfl, rfl, rfl⟩)

theorem requestLine_frame {m_Files : List FileInfo} {Web W : WebServer} {req : ReqType}
    {skip : Nat} (h : requestLine m_Files Web req skip = some W) :
    W.State = Web.State ∧ W.Req = req ∧ W.BodySize = Web.BodySize := by
  unfold requestLine at h
  split at h
  · contradiction
  · rename_i Web1 b hu
    have f1 := processURI_frame hu
    split at h
    · contradiction
    · split at h
      · have f2 := processGetVars_frame h
        exact ⟨f2.1.trans f1.1, f2.2.1.trans f1.2.1, f2.2.2.trans f1.2.2⟩
      · simp only [Option.some.injEq] at h; subst h
        exact ⟨f1.1, f1.2.1, f1.2.2⟩

theorem skipUntil_ge (c : Nat) : ∀ (f : Nat) (L : List Nat) (p q : Nat),
    skipUntil c f L p = some q → p ≤ q := by
  intro f
  induction f with
  | zero => intro L p q h; simp [skipUntil] at h
  | succ f ih =>
    intro L p q h
    unfold skipUntil at h
    split at h
    · contradiction
    · split at h
      · have := ih _ _ _ h; omega
      · simp only [Option.some.injEq] at h; omega

theorem skipWhileEq_ge (c : Nat) : ∀ (f : Nat) (L : List Nat) (p q : Nat),
    skipWhileEq c f L p = some q → p ≤ q := by
  intro f
  induction f with
  | zero => intro L p q h; simp [skipWhileEq] at h
  | succ f ih =>
    intro L p q h
    unfold skipWhileEq at h
    split at h
    · contradiction
    · split at h
      · have := ih _ _ _ h; omega
      · simp only [Option.some.injEq] at h; omega

theorem rd_wr_ne {L L1 : List Nat} {i j v : Nat} (h : wr L i v = some L1) (hij : j ≠ i) :
    rd L1 j = rd L j := by
  unfold wr at h
  split at h
  · simp only [Option.some.injEq] at h; subst h
    unfold rd
    rw [List.getElem?_set_ne (Ne.symm hij)]
  · contradiction

theorem breakUpArgs_frame (sep : Nat) : ∀ (f : Nat) (L : List Nat) (p n : Nat)
    (L1 : List Nat) (p1 n1 : Nat), breakUpArgs sep f L p n = some (L1, p1, n1) →
    ∀ i, i < p → rd L1 i = rd L i := by
  intro f
  induction f with
  | zero => intro L p n L1 p1 n1 h; simp [breakUpArgs] at h
  | succ f ih =>
    intro L p n L1 p1 n1 h i hi
    unfold breakUpArgs at h
    split at h
    · contradiction
    · split at h
      · simp only [Option.some.injEq, Prod.mk.injEq] at h; rw [h.1]
      · split at h
        · split at h
          · contradiction
          · rename_i L2 hw
            rw [ih _ _ _ _ _ _ h i (by omega)]
            exact rd_wr_ne hw (by omega)
        · exact ih _ _ _ _ _ _ h i (by omega)

theorem processETag_frame (Web : WebServer) (w : Bool) (e : List Nat) :
    SamePhase Web (WS_ProcessETag Web w e) ∧ (WS_ProcessETag Web w e).LineBuff = Web.LineBuff := by
  unfold WS_ProcessETag
  split
  · exact ⟨⟨rfl, rfl, rfl⟩, rfl⟩
  · exact ⟨⟨rfl, rfl, rfl⟩, rfl⟩

theorem etagLoop_frame : ∀ (f : Nat) (Web : WebServer) (p : Nat) (W : WebServer) (b : Bool),
    etagLoop f Web p = some (W, b) →
    SamePhase Web W ∧ rd W.LineBuff 0 = rd Web.LineBuff 0 := by
  intro f
  induction f with
  | zero => intro Web p W b h; simp [etagLoop] at h
  | succ f ih =>
    intro Web p W b h
    unfold etagLoop at h
    dsimp only at h
    split at h
    · contradiction
    · split at h
      · simp only [Option.some.injEq, Prod.mk.injEq] at h; obtain ⟨rfl, _⟩ := h
        exact ⟨samePhase_refl _, rfl⟩
      · split at h
        · simp only [Option.some.injEq, Prod.mk.injEq] at h; obtain ⟨rfl, _⟩ := h
          exact ⟨samePhase_refl _, rfl⟩
        · split at h
          · contradiction
          · rename_i q1 hq1
            split at h
            · contradiction
            · split at h
              · simp only [Option.some.injEq, Prod.mk.injEq] at h; obtain ⟨rfl, _⟩ := h
                exact ⟨⟨rfl, rfl, rfl⟩, rfl⟩
              · split at h
                · contradiction
                · rename_i End hEnd
                  split at h
                  · contradiction
                  · split at h
                    · simp only [Option.some.injEq, Prod.mk.injEq] at h; obtain ⟨rfl, _⟩ := h
                      exact ⟨⟨rfl, rfl, rfl⟩, rfl⟩
                    · split at h
                      · contradiction
                      · rename_i L1 hw
                        split at h
                        · contradiction
                        · have hge := skipUntil_ge _ _ _ _ _ hEnd
                          have h0 : rd L1 0 = rd Web.LineBuff 0 := rd_wr_ne hw (by omega)
                          obtain ⟨f1, f2⟩ := ih _ _ _ _ h
                          obtain ⟨g1, g2⟩ := processETag_frame
                            { Web with LineBuff := L1 } (startsWith Web.LineBuff p (B "W/"))
                            ((L1.drop (q1 + 1)).take (End - (q1 + 1)))
                          refine ⟨samePhase_trans (samePhase_trans ⟨rfl, rfl, rfl⟩ g1) f1, ?_⟩
                          rw [f2, g2]; exact h0

theorem startsWith_rd {L lit : List Nat} (h : startsWith L 0 lit = true) (i : Nat)
    (hi : i < lit.length) : rd L i = lit[i]? := by
  unfold startsWith at h
  simp only [List.drop_zero, beq_iff_eq] at h
  unfold rd
  rw [← h, List.getElem?_take_of_lt hi]

theorem skipUntil_colon_ge3 (L : List Nat) (h0 : rd L 0 = some 67) (h1 : rd L 1 = some 111)
    (h2 : rd L 2 = some 111) : ∀ (f p : Nat), skipUntil 58 f L 0 = some p → 3 ≤ p := by
  intro f p h
  match f with
  | 0 => simp [skipUntil] at h
  | 1 => simp [skipUntil, h0] at h
  | 2 => simp [skipUntil, h0, h1] at h
  | f + 3 =>
    simp [skipUntil, h0, h1, h2] at h
    cases f with
    | zero => simp [skipUntil] at h
    | succ f =>
      have := skipUntil_ge _ _ _ _ _ h
      omega

theorem processCookieVars_frame {Web W : WebServer} (h : WS_ProcessCookieVars Web = some W) :
    SamePhase Web W ∧
    (rd Web.LineBuff 0 = some 67 → rd Web.LineBuff 1 = some 111 →
      rd Web.LineBuff 2 = some 111 → rd W.LineBuff 2 = some 111) := by
  unfold WS_ProcessCookieVars at h
  dsimp only at h
  split at h
  · contradiction
  · rename_i p0 hp0
    split at h
    · contradiction
    · split at h
      · contradiction
      · split at h
        · contradiction
        · split at h
          · simp only [Option.some.injEq] at h; subst h
            exact ⟨samePhase_refl _, fun _ _ h2 => h2⟩
          · split at h
            · contradiction
            · rename_i L Pos cnt hb
              have hL : rd Web.LineBuff 0 = some 67 → rd Web.LineBuff 1 = some 111 →
                  rd Web.LineBuff 2 = some 111 → rd L 2 = some 111 := by
                intro h0 h1 h2
                have h3 := skipUntil_colon_ge3 _ h0 h1 h2 _ _ hp0
                rw [breakUpArgs_frame _ _ _ _ _ _ _ _ hb 2 (by split <;> split <;> omega)]
                exact h2
              repeat' split at h
              all_goals first
                | contradiction
                | (simp only [Option.some.injEq] at h; subst h; exact ⟨⟨rfl, rfl, rfl⟩, hL⟩)

theorem contentLength_rd {L : List Nat} (h : startsWith L 0 (B "Content-Length:") = true) :
    rd L 0 = some 67 ∧ rd L 2 = some 110 :=
  ⟨startsWith_rd h 0 (by decide), startsWith_rd h 2 (by decide)⟩

theorem processHeaderRest_plain {Web W : WebServer}
    (hc : startsWith Web.LineBuff 0 (B "Cookie:") = false)
    (h : processHeaderRest Web = some W) :
    W.State = Web.State ∧ W.Req = Web.Req ∧
      W.BodySize = (contentLengthOf Web.LineBuff).getD Web.BodySize := by
  unfold processHeaderRest at h
  simp only [hc, Bool.false_eq_true, ↓reduceIte] at h
  unfold contentLengthOf
  split at h
  · rename_i hs
    simp only [hs, ↓reduceIte]
    split at h
    · contradiction
    · rename_i c hc15
      simp only [Option.map_eq_some'] at h
      obtain ⟨s, hs1, rfl⟩ := h
      have : (if rd Web.LineBuff 15 = some 32 then 16 else 15) = (if c = 32 then 16 else 15) := by
        rw [hc15]; simp
      rw [this, hs1]
      exact ⟨rfl, rfl, rfl⟩
  · rename_i hs
    simp only [Option.some.injEq] at h; subst h
    simp [hs]

theorem processHeaderRest_frame {Web W : WebServer} (h : processHeaderRest Web = some W) :
    W.State = Web.State ∧ W.Req = Web.Req ∧
      W.BodySize = (contentLengthOf Web.LineBuff).getD Web.BodySize := by
  by_cases hc : startsWith Web.LineBuff 0 (B "Cookie:") = true
  · have h0 : rd Web.LineBuff 0 = some 67 := startsWith_rd hc 0 (by decide)
    have h1 : rd Web.LineBuff 1 = some 111 := startsWith_rd hc 1 (by decide)
    have h2 : rd Web.LineBuff 2 = some 111 := startsWith_rd hc 2 (by decide)
    have hno : contentLengthOf Web.LineBuff = none := by
      unfold contentLengthOf
      split
      · rename_i hs
        have := (contentLength_rd hs).2
        rw [h2] at this; simp at this
      · rfl
    unfold processHeaderRest at h
    simp only [hc, ↓reduceIte] at h
    split at h
    · contradiction
    · rename_i Web2 hck
      obtain ⟨f1, f2⟩ := processCookieVars_frame hck
      have h2' := f2 h0 h1 h2
      have hs : startsWith Web2.LineBuff 0 (B "Content-Length:") = false := by
        by_contra hs
        simp only [Bool.not_eq_false] at hs
        have := (contentLength_rd hs).2
        rw [h2'] at this; simp at this
      simp only [hs, Bool.false_eq_true, ↓reduceIte, Option.some.injEq] at h
      subst h
      rw [hno]
      exact ⟨f1.1, f1.2.1, f1.2.2⟩
  · simp only [Bool.not_eq_true] at hc
    exact processHeaderRest_plain hc h

theorem processHeader_frame {Web W : WebServer} (h : WS_ProcessHeader Web = some W) :
    W.State = Web.State ∧ W.Req = Web.Req ∧
      W.BodySize = (contentLengthOf Web.LineBuff).getD Web.BodySize := by
  unfold WS_ProcessHeader at h
  split at h
  · rename_i hi
    have h0 : rd Web.LineBuff 0 = some 73 := startsWith_rd hi 0 (by decide)
    have hno : contentLengthOf Web.LineBuff = none := by
      unfold contentLengthOf
      split
      · rename_i hs
        have := (contentLength_rd hs).1
        rw [h0] at this; simp at this
      · rfl
    split at h
    · contradiction
    · split at h
      · contradiction
      · rename_i Web1 he
        obtain ⟨f1, _⟩ := etagLoop_frame _ _ _ _ _ he
        simp only [Option.some.injEq] at h; subst h
        rw [hno]
        exact ⟨f1.1, f1.2.1, f1.2.2⟩
      · rename_i Web1 he
        obtain ⟨f1, f2⟩ := etagLoop_frame _ _ _ _ _ he
        have h0' : rd Web1.LineBuff 0 = some 73 := f2.trans h0
        have hc : startsWith Web1.LineBuff 0 (B "Cookie:") = false := by
          by_contra hs
          simp only [Bool.not_eq_false] at hs
          have := startsWith_rd hs 0 (by decide)
          rw [h0'] at this; revert this; decide
        have hno1 : contentLengthOf Web1.LineBuff = none := by
          unfold contentLengthOf
          split
          · rename_i hs
            have := (contentLength_rd hs).1
            rw [h0'] at this; simp at this
          · rfl
        obtain ⟨g1, g2, g3⟩ := processHeaderRest_plain hc h
        rw [hno1] at g3
        rw [hno]
        exact ⟨g1.trans f1.1, g2.trans f1.2.1, g3.trans f1.2.2⟩
  · exact processHeaderRest_frame h

theorem startProcessingPOSTVar_frame {Web W : WebServer}
    (h : WS_StartProcessingPOSTVar Web = some W) : SamePhase Web W := by
  unfold WS_StartProcessingPOSTVar at h
  dsimp only at h
  repeat' split at h
  all_goals first
    | contradiction
    | (simp only [Option.some.injEq] at h; subst h; exact ⟨rfl, rfl, rfl⟩)

theorem copyLineBuffer2POSTVar_frame {Web W : WebServer} {b : Bool}
    (h : WS_CopyLineBuffer2POSTVar Web = some (W, b)) : SamePhase Web W := by
  unfold WS_CopyLineBuffer2POSTVar at h
  dsimp only at h
  repeat' split at h
  all_goals first
    | contradiction
    | (simp only [Option.some.injEq, Prod.mk.injEq] at h; obtain ⟨rfl, _⟩ := h
       exact ⟨rfl, rfl, rfl⟩)

theorem getNextLineLoop_frame : ∀ (bs : List Nat) (r : Nat) (Web W : WebServer) (n : Int),
    getNextLineLoop bs r Web = some (W, n) → SamePhase Web W := by
  intro bs
  induction bs with
  | nil =>
    intro r Web W n h
    simp only [getNextLineLoop, Option.some.injEq, Prod.mk.injEq] at h
    obtain ⟨rfl, _⟩ := h
    exact samePhase_refl _
  | cons c rest ih =>
    intro r Web W n h
    unfold getNextLineLoop at h
    split at h
    · exact ih _ _ _ _ h
    · split at h
      · simp only [Option.map_eq_some', Prod.mk.injEq] at h
        obtain ⟨_, _, rfl, _⟩ := h
        exact ⟨rfl, rfl, rfl⟩
      · split at h
        · contradiction
        · split at h
          · simp only [Option.some.injEq, Prod.mk.injEq] at h
            obtain ⟨rfl, _⟩ := h
            exact ⟨rfl, rfl, rfl⟩
          · have := ih _ _ _ _ h
            exact ⟨this.1, this.2.1, this.2.2⟩

theorem postByte_frame {Web W : WebServer} {c : Nat} {b : Bool}
    (h : postByte Web c = some (W, b)) :
    W.State = Web.State ∧ W.Req = Web.Req ∧
      W.BodySize = (Web.BodySize + 4294967295) % 4294967296 ∧ (b = true → W.BodySize = 0) := by
  unfold postByte at h
  dsimp only at h
  split at h
  · contradiction
  · rename_i Web1 hr
    have f1 : SamePhase Web Web1 := by
      clear h
      cases hps : Web.PostState <;> rw [hps] at hr <;> simp only [] at hr
      · split at hr
        · split at hr
          · contradiction
          · split at hr
            · contradiction
            · split at hr
              · contradiction
              · rename_i Web0 hsp
                simp only [Option.some.injEq] at hr; subst hr
                have := startProcessingPOSTVar_frame hsp
                exact ⟨this.1, this.2.1, this.2.2⟩
        · split at hr
          · contradiction
          · split at hr
            · simp only [Option.some.injEq] at hr; subst hr; exact ⟨rfl, rfl, rfl⟩
            · simp only [Option.some.injEq] at hr; subst hr; exact ⟨rfl, rfl, rfl⟩
      · split at hr
        · split at hr
          · contradiction
          · rename_i Web0 hcp
            simp only [Option.some.injEq] at hr; subst hr
            have := copyLineBuffer2POSTVar_frame hcp
            exact ⟨this.1, this.2.1, this.2.2⟩
          · rename_i Web0 hcp
            simp only [Option.some.injEq] at hr; subst hr
            have := copyLineBuffer2POSTVar_frame hcp
            exact ⟨this.1, this.2.1, this.2.2⟩
        · split at hr
          · contradiction
          · split at hr
            · split at hr
              · contradiction
              · rename_i Web0 hcp
                simp only [Option.some.injEq] at hr; subst hr
                have := copyLineBuffer2POSTVar_frame hcp
                exact ⟨this.1, this.2.1, this.2.2⟩
              · rename_i Web0 hcp
                simp only [Option.some.injEq] at hr; subst hr
                have := copyLineBuffer2POSTVar_frame hcp
                exact ⟨this.1, this.2.1, this.2.2⟩
            · simp only [Option.some.injEq] at hr; subst hr; exact ⟨rfl, rfl, rfl⟩
      · split at hr
        · simp only [Option.some.injEq] at hr; subst hr; exact ⟨rfl, rfl, rfl⟩
        · simp only [Option.some.injEq] at hr; subst hr; exact ⟨rfl, rfl, rfl⟩
      · simp only [Option.some.injEq] at hr; subst hr; exact ⟨rfl, rfl, rfl⟩
    split at h
    · rename_i hz
      split at h
      · exact absurd h (by simp)
      · rename_i Web3 hcp
        have f3 := copyLineBuffer2POSTVar_frame hcp
        simp only [Option.some.injEq, Prod.mk.injEq] at h
        obtain ⟨rfl, rfl⟩ := h
        refine ⟨f3.1.trans f1.1, f3.2.1.trans f1.2.1, ?_, fun _ => ?_⟩
        · show Web3.BodySize = _
          rw [f3.2.2]; show (Web1.BodySize + 4294967295) % 4294967296 = _
          rw [f1.2.2]
        · show Web3.BodySize = 0
          rw [f3.2.2]; exact hz.1
      · rename_i Web3 hcp
        have f3 := copyLineBuffer2POSTVar_frame hcp
        simp only [Option.some.injEq, Prod.mk.injEq] at h
        obtain ⟨rfl, rfl⟩ := h
        refine ⟨f3.1.trans f1.1, f3.2.1.trans f1.2.1, ?_, fun hb => ?_⟩
        · show Web3.BodySize = _
          rw [f3.2.2]; show (Web1.BodySize + 4294967295) % 4294967296 = _
          rw [f1.2.2]
        · simp at hb
    · simp only [Option.some.injEq, Prod.mk.injEq] at h
      obtain ⟨rfl, rfl⟩ := h
      refine ⟨f1.1, f1.2.1, ?_, fun hb => ?_⟩
      · show (Web1.BodySize + 4294967295) % 4294967296 = _
        rw [f1.2.2]
      · simp at hb

theorem runServerLoop_succ (m_Files : List FileInfo) (now fuel : Nat) (Web : WebServer)
    (bs : List Nat) :
    runServerLoop m_Files now (fuel + 1) Web bs =
      match serverTurn m_Files now Web bs with
      | none => none
      | some (.done r) => some r
      | some (.again W rest) => runServerLoop m_Files now fuel W rest := by
  rw [runServerLoop]
  unfold serverTurn methodLine headerLine bodyBytes
  cases hs : Web.State <;> simp only []
  · cases WS_GetNextLine Web bs with
    | none => rfl
    | some p =>
      obtain ⟨Web1, n⟩ := p
      simp only []
      split_ifs
      all_goals first
        | rfl
        | (cases requestLine m_Files Web1 ReqType.Get 4 <;> rfl)
        | (cases requestLine m_Files Web1 ReqType.Post 5 <;> rfl)
  · cases WS_GetNextLine Web bs with
    | none => rfl
    | some p =>
      obtain ⟨Web1, n⟩ := p
      simp only []
      split_ifs
      · rfl
      · rfl
      · cases rd Web1.LineBuff 0 with
        | none => rfl
        | some c =>
          simp only []
          split_ifs
          · rfl
          · cases WS_ProcessHeader Web1 <;> rfl
  · split_ifs
    · cases postBodyLoop Web bs with
      | none => rfl
      | some p =>
        obtain ⟨Web1, rest⟩ := p
        simp only []
        split_ifs <;> rfl
    · simp only []
      split_ifs <;> rfl
    · simp only []
      split_ifs <;> rfl
  · cases WS_SendResponse m_Files Web <;> rfl

theorem getNextLineLoop_bounds : ∀ (bs : List Nat) (r : Nat) (Web W : WebServer) (n : Int),
    getNextLineLoop bs r Web = some (W, n) →
    n = 0 ∨ n = -1 ∨ ((r : Int) + 1 ≤ n ∧ n ≤ (r : Int) + bs.length) := by
  intro bs
  induction bs with
  | nil =>
    intro r Web W n h
    simp only [getNextLineLoop, Option.some.injEq, Prod.mk.injEq] at h
    exact Or.inl h.2.symm
  | cons c rest ih =>
    intro r Web W n h
    unfold getNextLineLoop at h
    simp only [List.length_cons, Nat.cast_add, Nat.cast_one]
    split at h
    · rcases ih _ _ _ _ h with h1 | h1 | h1
      · exact Or.inl h1
      · exact Or.inr (Or.inl h1)
      · refine Or.inr (Or.inr ?_)
        push_cast at h1
        omega
    · split at h
      · simp only [Option.map_eq_some', Prod.mk.injEq] at h
        obtain ⟨_, _, _, rfl⟩ := h
        refine Or.inr (Or.inr ?_)
        omega
      · split at h
        · contradiction
        · split at h
          · simp only [Option.some.injEq, Prod.mk.injEq] at h
            exact Or.inr (Or.inl h.2.symm)
          · rcases ih _ _ _ _ h with h1 | h1 | h1
            · exact Or.inl h1
            · exact Or.inr (Or.inl h1)
            · refine Or.inr (Or.inr ?_)
              push_cast at h1
              omega

theorem getNextLine_rest {bs : List Nat} {Web W : WebServer} {n : Int}
    (h : WS_GetNextLine Web bs = some (W, n)) (h0 : ¬ n = 0) (h1 : ¬ n < 0) :
    (bs.drop n.toNat).length < bs.length := by
  rcases getNextLineLoop_bounds _ _ _ _ _ h with h2 | h2 | h2
  · exact absurd h2 h0
  · omega
  · simp only [List.length_drop]
    push_cast at h2
    omega

theorem postBodyLoop_frame : ∀ (bs : List Nat) (Web W : WebServer) (rest : List Nat),
    postBodyLoop Web bs = some (W, rest) →
    W.State = Web.State ∧ W.Req = Web.Req ∧ rest.length ≤ bs.length := by
  intro bs
  induction bs with
  | nil =>
    intro Web W rest h
    simp only [postBodyLoop, Option.some.injEq, Prod.mk.injEq] at h
    obtain ⟨rfl, rfl⟩ := h
    exact ⟨rfl, rfl, le_refl _⟩
  | cons c bs ih =>
    intro Web W rest h
    unfold postBodyLoop at h
    split at h
    · exact absurd h (by simp)
    · rename_i Web1 hp
      have f := postByte_frame hp
      simp only [Option.some.injEq, Prod.mk.injEq] at h
      obtain ⟨rfl, rfl⟩ := h
      exact ⟨f.1, f.2.1, by simp⟩
    · rename_i Web1 hp
      have f := postByte_frame hp
      obtain ⟨g1, g2, g3⟩ := ih _ _ _ h
      exact ⟨g1.trans f.1, g2.trans f.2.1, by simp only [List.length_cons]; omega⟩

theorem tooLongReply_state (Web : WebServer) (st : ReplyStatus) :
    (tooLongReply Web st).State = WebServerState.Closed := rfl

theorem methodLine_frame {m_Files : List FileInfo} {Web1 Web2 : WebServer}
    (h : methodLine m_Files Web1 = some Web2) :
    Web2.State = Web1.State ∧ Web2.BodySize = Web1.BodySize := by
  unfold methodLine at h
  split at h
  · have := requestLine_frame h; exact ⟨this.1, this.2.2⟩
  · split at h
    · have := requestLine_frame h; exact ⟨this.1, this.2.2⟩
    · simp only [Option.some.injEq] at h; subst h; exact ⟨rfl, rfl⟩

theorem headerLine_cases {Web1 Web2 : WebServer} (h : headerLine Web1 = some Web2) :
    (rd Web1.LineBuff 0 = some 0 ∧ Web2 = { Web1 with State := nextState Web1.State }) ∨
    (∃ c, rd Web1.LineBuff 0 = some c ∧ c ≠ 0 ∧ WS_ProcessHeader Web1 = some Web2) := by
  unfold headerLine at h
  split at h
  · exact absurd h (by simp)
  · rename_i c hc
    split at h
    · rename_i h0
      simp only [Option.some.injEq] at h
      exact Or.inl ⟨by rw [hc, h0], h.symm⟩
    · rename_i h0
      exact Or.inr ⟨c, hc, h0, h⟩

theorem bodyBytes_frame {Web W1 : WebServer} {bs rest : List Nat}
    (h : bodyBytes Web bs = some (W1, rest)) :
    W1.State = Web.State ∧ W1.Req = Web.Req ∧ rest.length ≤ bs.length := by
  unfold bodyBytes at h
  split at h
  · exact postBodyLoop_frame _ _ _ _ h
  · split at h
    · simp only [Option.some.injEq, Prod.mk.injEq] at h
      obtain ⟨rfl, rfl⟩ := h
      exact ⟨rfl, rfl, by simp⟩
    · simp only [Option.some.injEq, Prod.mk.injEq] at h
      obtain ⟨rfl, rfl⟩ := h
      exact ⟨rfl, rfl, by simp⟩

/-- What a turn that is followed by another one has done. -/
theorem serverTurn_again {m_Files : List FileInfo} {now : Nat} {Web W : WebServer}
    {bs rest : List Nat} (h : serverTurn m_Files now Web bs = some (.again W rest)) :
    (Web.State = WebServerState.Request ∧ W.State = WebServerState.Headers ∧
        W.BodySize = Web.BodySize ∧ rest.length < bs.length) ∨
    (Web.State = WebServerState.Headers ∧ W.State = WebServerState.Closed ∧ rest = bs) ∨
    (Web.State = WebServerState.Headers ∧ W.State = WebServerState.Body ∧
        W.BodySize = Web.BodySize ∧ W.Req = Web.Req ∧ rest.length < bs.length) ∨
    (Web.State = WebServerState.Headers ∧ W.State = WebServerState.Headers ∧
        W.Req = Web.Req ∧ rest.length < bs.length) ∨
    (Web.State = WebServerState.Body ∧ W.State = WebServerState.Response ∧
        rest.length ≤ bs.length) ∨
    (Web.State = WebServerState.MAX ∧ W = Web ∧ rest = bs) := by
  unfold serverTurn at h
  cases hs : Web.State <;> rw [hs] at h <;> simp only [] at h
  · exact absurd h (by simp)
  · -- Request
    refine Or.inl ?_
    split at h
    · exact absurd h (by simp)
    · rename_i Web1 n hg
      have f1 := getNextLineLoop_frame _ _ _ _ _ hg
      split at h
      · exact absurd h (by simp)
      · split at h
        · exact absurd h (by simp)
        · rename_i h0 h1
          have hlen := getNextLine_rest hg h0 h1
          simp only [Option.map_eq_some', Turn.again.injEq] at h
          obtain ⟨Web2, hr, rfl, rfl⟩ := h
          have f2 := methodLine_frame hr
          refine ⟨rfl, ?_, ?_, hlen⟩
          · show nextState Web2.State = _
            rw [f2.1, f1.1, hs]; rfl
          · show Web2.BodySize = _
            rw [f2.2, f1.2.2]
  · -- Headers
    refine Or.inr ?_
    split at h
    · exact absurd h (by simp)
    · rename_i Web1 n hg
      have f1 := getNextLineLoop_frame _ _ _ _ _ hg
      split at h
      · exact absurd h (by simp)
      · split at h
        · simp only [Option.some.injEq, Turn.again.injEq] at h
          obtain ⟨rfl, rfl⟩ := h
          exact Or.inl ⟨rfl, rfl, rfl⟩
        · rename_i h0 h1
          have hlen := getNextLine_rest hg h0 h1
          simp only [Option.map_eq_some', Turn.again.injEq] at h
          obtain ⟨Web2, hr, rfl, rfl⟩ := h
          rcases headerLine_cases hr with ⟨_, rfl⟩ | ⟨c, _, _, hp⟩
          · refine Or.inr (Or.inl ⟨rfl, ?_, f1.2.2, f1.2.1, hlen⟩)
            show nextState Web1.State = _
            rw [f1.1, hs]; rfl
          · have f2 := processHeader_frame hp
            exact Or.inr (Or.inr (Or.inl
              ⟨rfl, by rw [f2.1, f1.1, hs], by rw [f2.2.1, f1.2.1], hlen⟩))
  · -- Body
    refine Or.inr (Or.inr (Or.inr (Or.inr (Or.inl ?_))))
    split at h
    · exact absurd h (by simp)
    · rename_i Web1 rest1 hr
      have f := bodyBytes_frame hr
      split at h
      · simp only [Option.some.injEq, Turn.again.injEq] at h
        obtain ⟨rfl, rfl⟩ := h
        refine ⟨rfl, ?_, f.2.2⟩
        show nextState Web1.State = _
        rw [f.1, hs]; rfl
      · exact absurd h (by simp)
  · -- Response
    simp only [Option.map_eq_some'] at h
    obtain ⟨_, _, h⟩ := h
    exact absurd h (by simp)
  · -- MAX
    simp only [Option.some.injEq, Turn.again.injEq] at h
    obtain ⟨rfl, rfl⟩ := h
    exact Or.inr (Or.inr (Or.inr (Or.inr (Or.inr ⟨rfl, rfl, rfl⟩))))

theorem serverTurn_rank {m_Files : List FileInfo} {now : Nat} {Web W : WebServer}
    {bs rest : List Nat} (h : serverTurn m_Files now Web bs = some (.again W rest))
    (hm : Web.State ≠ WebServerState.MAX) :
    rest.length + phaseRank W.State + 1 ≤ bs.length + phaseRank Web.State := by
  rcases serverTurn_again h with h1 | h1 | h1 | h1 | h1 | h1
  · obtain ⟨a, b, _, d⟩ := h1; rw [a, b]; simp only [phaseRank]; omega
  · obtain ⟨a, b, d⟩ := h1; rw [a, b, d]; simp only [phaseRank]; omega
  · obtain ⟨a, b, _, _, d⟩ := h1; rw [a, b]; simp only [phaseRank]; omega
  · obtain ⟨a, b, _, d⟩ := h1; rw [a, b]; simp only [phaseRank]; omega
  · obtain ⟨a, b, d⟩ := h1; rw [a, b]; simp only [phaseRank]; omega
  · exact absurd h1.1 hm

theorem serverTurn_max {m_Files : List FileInfo} {now : Nat} {Web : WebServer}
    (bs : List Nat) (h : Web.State = WebServerState.MAX) :
    serverTurn m_Files now Web bs = some (.again Web bs) := by
  unfold serverTurn; rw [h]

theorem runServerLoop_max (m_Files : List FileInfo) (now : Nat) :
    ∀ (f : Nat) (Web : WebServer) (bs : List Nat), Web.State = WebServerState.MAX →
      runServerLoop m_Files now f Web bs = none := by
  intro f
  induction f with
  | zero => intro Web bs _; rfl
  | succ f ih =>
    intro Web bs h
    rw [runServerLoop_succ, serverTurn_max bs h]
    exact ih _ _ h

theorem reachesResponse_max (m_Files : List FileInfo) (now : Nat) :
    ∀ (f : Nat) (Web : WebServer) (bs : List Nat), Web.State = WebServerState.MAX →
      reachesResponse m_Files now f Web bs = false := by
  intro f
  induction f with
  | zero => intro Web bs _; rfl
  | succ f ih =>
    intro Web bs h
    rw [reachesResponse, serverTurn_max bs h]
    simp only [h, reduceCtorEq, ↓reduceIte]
    exact ih _ _ h

theorem phaseRank_pos {s : WebServerState} (h : s ≠ WebServerState.MAX) : 1 ≤ phaseRank s := by
  cases s <;> simp [phaseRank] at *

/-- With fuel for every byte and the turns that use none, the result does not
depend on the fuel. -/
theorem runServerLoop_fuel (m_Files : List FileInfo) (now : Nat) :
    ∀ (f1 f2 : Nat) (Web : WebServer) (bs : List Nat),
      bs.length + phaseRank Web.State ≤ f1 → bs.length + phaseRank Web.State ≤ f2 →
      runServerLoop m_Files now f1 Web bs = runServerLoop m_Files now f2 Web bs := by
  intro f1
  induction f1 with
  | zero =>
    intro f2 Web bs h1 _
    have hm : Web.State = WebServerState.MAX := by
      by_contra hm
      have := phaseRank_pos hm
      omega
    rw [runServerLoop_max _ _ _ _ _ hm, runServerLoop_max _ _ _ _ _ hm]
  | succ f1 ih =>
    intro f2 Web bs h1 h2
    by_cases hm : Web.State = WebServerState.MAX
    · rw [runServerLoop_max _ _ _ _ _ hm, runServerLoop_max _ _ _ _ _ hm]
    · have hp := phaseRank_pos hm
      obtain ⟨f2, rfl⟩ : ∃ g, f2 = g + 1 := ⟨f2 - 1, by omega⟩
      rw [runServerLoop_succ, runServerLoop_succ]
      cases ht : serverTurn m_Files now Web bs with
      | none => rfl
      | some t =>
        cases t with
        | done r => rfl
        | again W rest =>
          have := serverTurn_rank ht hm
          exact ih _ _ _ (by omega) (by omega)

theorem reachesResponse_fuel (m_Files : List FileInfo) (now : Nat) :
    ∀ (f1 f2 : Nat) (Web : WebServer) (bs : List Nat),
      bs.length + phaseRank Web.State ≤ f1 → bs.length + phaseRank Web.State ≤ f2 →
      reachesResponse m_Files now f1 Web bs = reachesResponse m_Files now f2 Web bs := by
  intro f1
  induction f1 with
  | zero =>
    intro f2 Web bs h1 _
    have hm : Web.State = WebServerState.MAX := by
      by_contra hm
      have := phaseRank_pos hm
      omega
    rw [reachesResponse_max _ _ _ _ _ hm, reachesResponse_max _ _ _ _ _ hm]
  | succ f1 ih =>
    intro f2 Web bs h1 h2
    by_cases hm : Web.State = WebServerState.MAX
    · rw [reachesResponse_max _ _ _ _ _ hm, reachesResponse_max _ _ _ _ _ hm]
    · have hp := phaseRank_pos hm
      obtain ⟨f2, rfl⟩ : ∃ g, f2 = g + 1 := ⟨f2 - 1, by omega⟩
      rw [reachesResponse, reachesResponse]
      split
      · rfl
      · cases ht : serverTurn m_Files now Web bs with
        | none => rfl
        | some t =>
          cases t with
          | done r => rfl
          | again W rest =>
            have := serverTurn_rank ht hm
            exact ih _ _ _ (by omega) (by omega)

theorem phaseRank_le (s : WebServerState) : phaseRank s ≤ 3 := by
  cases s <;> simp [phaseRank]

/-- Any fuel that covers the bytes and the turns without a byte gives the result of
`runServer`. -/
theorem runServerLoop_eq_runServer (m_Files : List FileInfo) (now f : Nat) (Web : WebServer)
    (bs : List Nat) (h : bs.length + phaseRank Web.State ≤ f) :
    runServerLoop m_Files now f Web bs = runServer m_Files now Web bs := by
  unfold runServer
  exact runServerLoop_fuel _ _ _ _ _ _ h (by have := phaseRank_le Web.State; omega)

theorem getNextLineLoop_append_none : ∀ (a b : List Nat) (r : Nat) (Web : WebServer),
    getNextLineLoop a r Web = none → getNextLineLoop (a ++ b) r Web = none := by
  intro a
  induction a with
  | nil => intro b r Web h; simp [getNextLineLoop] at h
  | cons c a ih =>
    intro b r Web h
    rw [List.cons_append]
    unfold getNextLineLoop at h ⊢
    split_ifs at h ⊢ with h1 h2 h3
    · exact ih _ _ _ h
    · exact h
    · cases hw : wr Web.LineBuff Web.LineBuffPos c with
      | none => rfl
      | some L => rw [hw] at h; exact absurd h (by simp)
    · cases hw : wr Web.LineBuff Web.LineBuffPos c with
      | none => rfl
      | some L => rw [hw] at h; exact ih _ _ _ h

theorem getNextLineLoop_append_found : ∀ (a b : List Nat) (r : Nat) (Web W1 : WebServer)
    (n : Int), getNextLineLoop a r Web = some (W1, n) → n ≠ 0 →
    getNextLineLoop (a ++ b) r Web = some (W1, n) := by
  intro a
  induction a with
  | nil =>
    intro b r Web W1 n h hn
    simp only [getNextLineLoop, Option.some.injEq, Prod.mk.injEq] at h
    exact absurd h.2.symm hn
  | cons c a ih =>
    intro b r Web W1 n h hn
    rw [List.cons_append]
    unfold getNextLineLoop at h ⊢
    split_ifs at h ⊢ with h1 h2 h3
    · exact ih _ _ _ _ _ h hn
    · exact h
    · exact h
    · cases hw : wr Web.LineBuff Web.LineBuffPos c with
      | none => rw [hw] at h; exact absurd h (by simp)
      | some L => rw [hw] at h; exact ih _ _ _ _ _ h hn

theorem getNextLineLoop_append_more : ∀ (a b : List Nat) (r : Nat) (Web W1 : WebServer),
    getNextLineLoop a r Web = some (W1, 0) →
    getNextLineLoop (a ++ b) r Web = getNextLineLoop b (r + a.length) W1 := by
  intro a
  induction a with
  | nil =>
    intro b r Web W1 h
    simp only [getNextLineLoop, Option.some.injEq, Prod.mk.injEq] at h
    rw [h.1]; rfl
  | cons c a ih =>
    intro b r Web W1 h
    rw [List.cons_append]
    have hlen : r + (c :: a).length = r + 1 + a.length := by simp only [List.length_cons]; omega
    rw [hlen]
    unfold getNextLineLoop at h
    rw [getNextLineLoop]
    split_ifs at h ⊢ with h1 h2 h3
    · exact ih _ _ _ _ h
    · simp only [Option.map_eq_some', Prod.mk.injEq] at h
      obtain ⟨_, _, _, h3⟩ := h
      omega
    · cases hw : wr Web.LineBuff Web.LineBuffPos c with
      | none => rw [hw] at h; exact absurd h (by simp)
      | some L =>
        rw [hw] at h
        simp only [Option.some.injEq, Prod.mk.injEq] at h
        omega
    · cases hw : wr Web.LineBuff Web.LineBuffPos c with
      | none => rw [hw] at h; exact absurd h (by simp)
      | some L => rw [hw] at h; exact ih _ _ _ _ h

/-- The return value of `WS_GetNextLine` when the bytes start `k` bytes further on in
the read buffer. -/
theorem getNextLineLoop_offset (k : Nat) : ∀ (b : List Nat) (r : Nat) (Web : WebServer),
    getNextLineLoop b (r + k) Web =
      (getNextLineLoop b r Web).map (fun p => (p.1, if 0 < p.2 then p.2 + (k : Int) else p.2)) := by
  intro b
  induction b with
  | nil => intro r Web; simp [getNextLineLoop]
  | cons c b ih =>
    intro r Web
    rw [getNextLineLoop, getNextLineLoop]
    have hr : r + k + 1 = r + 1 + k := by omega
    split_ifs with h1 h2 h3
    · rw [hr]; exact ih _ _
    · cases wr Web.LineBuff Web.LineBuffPos 0 with
      | none => rfl
      | some L =>
        simp only [Option.map_some', Option.some.injEq, Prod.mk.injEq, true_and]
        have : (0 : Int) < (r : Int) + 1 := by omega
        simp only [this, ↓reduceIte]
        push_cast
        omega
    · cases wr Web.LineBuff Web.LineBuffPos c with
      | none => rfl
      | some L => simp
    · cases wr Web.LineBuff Web.LineBuffPos c with
      | none => rfl
      | some L => simp only []; rw [hr]; exact ih _ _

theorem postBodyLoop_append_none : ∀ (a b : List Nat) (Web : WebServer),
    postBodyLoop Web a = none → postBodyLoop Web (a ++ b) = none := by
  intro a
  induction a with
  | nil => intro b Web h; simp [postBodyLoop] at h
  | cons c a ih =>
    intro b Web h
    rw [List.cons_append]
    unfold postBodyLoop at h ⊢
    cases hp : postByte Web c with
    | none => rfl
    | some p =>
      obtain ⟨Web1, fl⟩ := p
      rw [hp] at h
      cases fl with
      | true => exact absurd h (by simp)
      | false => exact ih _ _ h

theorem postBodyLoop_append_more : ∀ (a b : List Nat) (Web W1 : WebServer) (rest : List Nat),
    postBodyLoop Web a = some (W1, rest) → W1.BodySize ≠ 0 →
    rest = [] ∧ postBodyLoop Web (a ++ b) = postBodyLoop W1 b := by
  intro a
  induction a with
  | nil =>
    intro b Web W1 rest h _
    simp only [postBodyLoop, Option.some.injEq, Prod.mk.injEq] at h
    obtain ⟨rfl, rfl⟩ := h
    exact ⟨rfl, rfl⟩
  | cons c a ih =>
    intro b Web W1 rest h hn
    rw [List.cons_append]
    unfold postBodyLoop at h
    rw [postBodyLoop]
    cases hp : postByte Web c with
    | none => rw [hp] at h; exact absurd h (by simp)
    | some p =>
      obtain ⟨Web1, fl⟩ := p
      rw [hp] at h
      cases fl with
      | true =>
        simp only [Option.some.injEq, Prod.mk.injEq] at h
        obtain ⟨rfl, _⟩ := h
        exact absurd ((postByte_frame hp).2.2.2 rfl) hn
      | false => exact ih _ _ _ _ h hn

theorem getNextLine_append_none {a : List Nat} (b : List Nat) {Web : WebServer}
    (h : WS_GetNextLine Web a = none) : WS_GetNextLine Web (a ++ b) = none :=
  getNextLineLoop_append_none _ _ _ _ h

theorem getNextLine_append_found {a : List Nat} (b : List Nat) {Web W1 : WebServer} {n : Int}
    (h : WS_GetNextLine Web a = some (W1, n)) (hn : n ≠ 0) :
    WS_GetNextLine Web (a ++ b) = some (W1, n) :=
  getNextLineLoop_append_found _ _ _ _ _ _ h hn

theorem getNextLine_append_more {a : List Nat} (b : List Nat) {Web W1 : WebServer}
    (h : WS_GetNextLine Web a = some (W1, 0)) :
    WS_GetNextLine Web (a ++ b) =
      (WS_GetNextLine W1 b).map
        (fun p => (p.1, if 0 < p.2 then p.2 + (a.length : Int) else p.2)) := by
  unfold WS_GetNextLine at h ⊢
  rw [getNextLineLoop_append_more _ _ _ _ _ h, ← getNextLineLoop_offset]

theorem getNextLine_used_le {a : List Nat} {Web W1 : WebServer} {n : Int}
    (h : WS_GetNextLine Web a = some (W1, n)) : n.toNat ≤ a.length := by
  rcases getNextLineLoop_bounds _ _ _ _ _ h with h2 | h2 | h2
  · rw [h2]; simp
  · rw [h2]; simp
  · push_cast at h2; omega

theorem serverTurn_request {m_Files : List FileInfo} {now : Nat} {Web : WebServer}
    (bs : List Nat) (hs : Web.State = WebServerState.Request) :
    serverTurn m_Files now Web bs =
      match WS_GetNextLine Web bs with
      | none => none
      | some (Web1, BytesUsed) =>
        if BytesUsed = 0 then some (.done (Web1, RunExit.needMore))
        else if BytesUsed < 0 then
          some (.done (tooLongReply Web1 ReplyStatus.URITooLong, RunExit.closed))
        else
          (methodLine m_Files Web1).map
            (fun Web2 => .again { Web2 with State := nextState Web2.State }
              (bs.drop BytesUsed.toNat)) := by
  unfold serverTurn; rw [hs]; try rfl

theorem serverTurn_headers {m_Files : List FileInfo} {now : Nat} {Web : WebServer}
    (bs : List Nat) (hs : Web.State = WebServerState.Headers) :
    serverTurn m_Files now Web bs =
      match WS_GetNextLine Web bs with
      | none => none
      | some (Web1, BytesUsed) =>
        if BytesUsed = 0 then some (.done (Web1, RunExit.needMore))
        else if BytesUsed < 0 then
          some (.again (tooLongReply Web1 ReplyStatus.RequestHeaderFieldsTooLarge) bs)
        else (headerLine Web1).map (fun Web2 => .again Web2 (bs.drop BytesUsed.toNat)) := by
  unfold serverTurn; rw [hs]; try rfl

theorem serverTurn_body {m_Files : List FileInfo} {now : Nat} {Web : WebServer}
    (bs : List Nat) (hs : Web.State = WebServerState.Body) :
    serverTurn m_Files now Web bs =
      match bodyBytes Web bs with
      | none => none
      | some (Web1, rest) =>
        if Web1.BodySize = 0 then some (.again { Web1 with State := nextState Web1.State } rest)
        else some (.done (Web1, RunExit.needMore)) := by
  unfold serverTurn; rw [hs]; try rfl

theorem serverTurn_closed {m_Files : List FileInfo} {now : Nat} {Web : WebServer}
    (bs : List Nat) (hs : Web.State = WebServerState.Closed) :
    serverTurn m_Files now Web bs =
      some (.done ({ Web with Con := SocketsCon_Close Web.Con }, RunExit.closed)) := by
  unfold serverTurn; rw [hs]; try rfl

theorem serverTurn_response {m_Files : List FileInfo} {now : Nat} {Web : WebServer}
    (bs : List Nat) (hs : Web.State = WebServerState.Response) :
    serverTurn m_Files now Web bs =
      (WS_SendResponse m_Files Web).map
        (fun w => .done (WS_ResetWebServer now w, RunExit.responded)) := by
  unfold serverTurn; rw [hs]; try rfl

/-- A turn that ends in undefined behaviour does so whatever bytes follow. -/
theorem serverTurn_append_none {m_Files : List FileInfo} {now : Nat} {Web : WebServer}
    {a : List Nat} (b : List Nat) (h : serverTurn m_Files now Web a = none)
    (hr : Web.State ≠ WebServerState.Response) :
    serverTurn m_Files now Web (a ++ b) = none := by
  cases hs : Web.State
  · rw [serverTurn_closed _ hs] at h; exact absurd h (by simp)
  · rw [serverTurn_request _ hs] at h ⊢
    cases hg : WS_GetNextLine Web a with
    | none => rw [getNextLine_append_none b hg]
    | some p =>
      obtain ⟨Web1, n⟩ := p
      rw [hg] at h
      simp only [] at h
      by_cases h0 : n = 0
      · simp [h0] at h
      · rw [getNextLine_append_found b hg h0]
        simp only [h0, ↓reduceIte] at h ⊢
        by_cases h1 : n < 0
        · simp [h1] at h
        · simp only [h1, ↓reduceIte, Option.map_eq_none'] at h ⊢
          exact h
  · rw [serverTurn_headers _ hs] at h ⊢
    cases hg : WS_GetNextLine Web a with
    | none => rw [getNextLine_append_none b hg]
    | some p =>
      obtain ⟨Web1, n⟩ := p
      rw [hg] at h
      simp only [] at h
      by_cases h0 : n = 0
      · simp [h0] at h
      · rw [getNextLine_append_found b hg h0]
        simp only [h0, ↓reduceIte] at h ⊢
        by_cases h1 : n < 0
        · simp [h1] at h
        · simp only [h1, ↓reduceIte, Option.map_eq_none'] at h ⊢
          exact h
  · rw [serverTurn_body _ hs] at h ⊢
    cases hb : bodyBytes Web a with
    | none =>
      have : bodyBytes Web (a ++ b) = none := by
        unfold bodyBytes at hb ⊢
        split_ifs at hb ⊢
        exact postBodyLoop_append_none _ _ _ hb
      rw [this]
    | some p =>
      obtain ⟨Web1, rest⟩ := p
      rw [hb] at h
      simp only [] at h
      split_ifs at h
  · exact absurd hs hr
  · rw [serverTurn_max _ hs] at h; exact absurd h (by simp)

/-- A turn that closes the connection does so whatever bytes follow. -/
theorem serverTurn_append_closed {m_Files : List FileInfo} {now : Nat} {Web W1 : WebServer}
    {a : List Nat} (b : List Nat)
    (h : serverTurn m_Files now Web a = some (.done (W1, RunExit.closed))) :
    serverTurn m_Files now Web (a ++ b) = some (.done (W1, RunExit.closed)) := by
  cases hs : Web.State
  · rw [serverTurn_closed _ hs] at h ⊢; exact h
  · rw [serverTurn_request _ hs] at h ⊢
    cases hg : WS_GetNextLine Web a with
    | none => rw [hg] at h; exact absurd h (by simp)
    | some p =>
      obtain ⟨Web1, n⟩ := p
      rw [hg] at h
      simp only [] at h
      by_cases h0 : n = 0
      · simp [h0] at h
      · rw [getNextLine_append_found b hg h0]
        simp only [h0, ↓reduceIte] at h ⊢
        by_cases h1 : n < 0
        · simp only [h1, ↓reduceIte] at h ⊢; exact h
        · simp [h1] at h
  · rw [serverTurn_headers _ hs] at h
    cases hg : WS_GetNextLine Web a with
    | none => rw [hg] at h; exact absurd h (by simp)
    | some p =>
      obtain ⟨Web1, n⟩ := p
      rw [hg] at h
      simp only [] at h
      split_ifs at h <;> simp at h
  · rw [serverTurn_body _ hs] at h
    cases hb : bodyBytes Web a with
    | none => rw [hb] at h; exact absurd h (by simp)
    | some p =>
      obtain ⟨Web1, rest⟩ := p
      rw [hb] at h
      simp only [] at h
      split_ifs at h <;> simp at h
  · rw [serverTurn_response _ hs] at h
    simp at h
  · rw [serverTurn_max _ hs] at h; exact absurd h (by simp)

/-- A turn that is followed by another one leaves the bytes that follow for it. -/
theorem serverTurn_append_again {m_Files : List FileInfo} {now : Nat} {Web W : WebServer}
    {a rest : List Nat} (b : List Nat)
    (h : serverTurn m_Files now Web a = some (.again W rest))
    (hW : W.State ≠ WebServerState.Response) :
    serverTurn m_Files now Web (a ++ b) = some (.again W (rest ++ b)) := by
  cases hs : Web.State
  · rw [serverTurn_closed _ hs] at h; exact absurd h (by simp)
  · rw [serverTurn_request _ hs] at h ⊢
    cases hg : WS_GetNextLine Web a with
    | none => rw [hg] at h; exact absurd h (by simp)
    | some p =>
      obtain ⟨Web1, n⟩ := p
      rw [hg] at h
      simp only [] at h
      by_cases h0 : n = 0
      · simp [h0] at h
      · rw [getNextLine_append_found b hg h0]
        simp only [h0, ↓reduceIte] at h ⊢
        by_cases h1 : n < 0
        · simp [h1] at h
        · simp only [h1, ↓reduceIte, Option.map_eq_some', Turn.again.injEq] at h ⊢
          obtain ⟨Web2, hm, rfl, rfl⟩ := h
          exact ⟨Web2, hm, rfl, List.drop_append_of_le_length (getNextLine_used_le hg)⟩
  · rw [serverTurn_headers _ hs] at h ⊢
    cases hg : WS_GetNextLine Web a with
    | none => rw [hg] at h; exact absurd h (by simp)
    | some p =>
      obtain ⟨Web1, n⟩ := p
      rw [hg] at h
      simp only [] at h
      by_cases h0 : n = 0
      · simp [h0] at h
      · rw [getNextLine_append_found b hg h0]
        simp only [h0, ↓reduceIte] at h ⊢
        by_cases h1 : n < 0
        · simp only [h1, ↓reduceIte, Option.some.injEq, Turn.again.injEq] at h ⊢
          obtain ⟨rfl, rfl⟩ := h
          exact ⟨rfl, rfl⟩
        · simp only [h1, ↓reduceIte, Option.map_eq_some', Turn.again.injEq] at h ⊢
          obtain ⟨Web2, hm, rfl, rfl⟩ := h
          exact ⟨Web2, hm, rfl, List.drop_append_of_le_length (getNextLine_used_le hg)⟩
  · rcases serverTurn_again h with h1 | h1 | h1 | h1 | h1 | h1
    · rw [hs] at h1; exact absurd h1.1 (by simp)
    · rw [hs] at h1; exact absurd h1.1 (by simp)
    · rw [hs] at h1; exact absurd h1.1 (by simp)
    · rw [hs] at h1; exact absurd h1.1 (by simp)
    · exact absurd h1.2.1 hW
    · rw [hs] at h1; exact absurd h1.1 (by simp)
  · rw [serverTurn_response _ hs] at h
    simp at h
  · rw [serverTurn_max _ hs] at h ⊢
    simp only [Option.some.injEq, Turn.again.injEq] at h ⊢
    obtain ⟨rfl, rfl⟩ := h
    exact ⟨rfl, rfl⟩

theorem runServerLoop_response (m_Files : List FileInfo) (now k : Nat) {W : WebServer}
    (bs : List Nat) (hs : W.State = WebServerState.Response) :
    runServerLoop m_Files now (k + 1) W bs =
      (WS_SendResponse m_Files W).map (fun w => (WS_ResetWebServer now w, RunExit.responded)) := by
  rw [runServerLoop_succ, serverTurn_response _ hs]
  cases WS_SendResponse m_Files W <;> rfl

theorem runServerLoop_closed (m_Files : List FileInfo) (now k : Nat) {W : WebServer}
    (bs : List Nat) (hs : W.State = WebServerState.Closed) :
    runServerLoop m_Files now (k + 1) W bs =
      some ({ W with Con := SocketsCon_Close W.Con }, RunExit.closed) := by
  rw [runServerLoop_succ, serverTurn_closed _ hs]

/-- A turn that asks for more bytes: the bytes that follow are handled as by the next
call, or both go on to a phase that reads no byte. -/
theorem serverTurn_append_more {m_Files : List FileInfo} {now : Nat} {Web W1 : WebServer}
    {a : List Nat} (b : List Nat)
    (h : serverTurn m_Files now Web a = some (.done (W1, RunExit.needMore))) :
    serverTurn m_Files now Web (a ++ b) = serverTurn m_Files now W1 b ∨
    ∃ (W2 : WebServer) (r1 r2 : List Nat),
      (W2.State = WebServerState.Closed ∨ W2.State = WebServerState.Response) ∧
      serverTurn m_Files now Web (a ++ b) = some (.again W2 r1) ∧
      serverTurn m_Files now W1 b = some (.again W2 r2) := by
  cases hs : Web.State
  · rw [serverTurn_closed _ hs] at h; simp at h
  · left
    rw [serverTurn_request _ hs] at h
    cases hg : WS_GetNextLine Web a with
    | none => rw [hg] at h; exact absurd h (by simp)
    | some p =>
      obtain ⟨Web1, n⟩ := p
      rw [hg] at h
      simp only [] at h
      by_cases h0 : n = 0
      · subst h0
        simp only [↓reduceIte, Option.some.injEq, Turn.done.injEq, Prod.mk.injEq, and_true] at h
        subst h
        have hs1 : Web1.State = WebServerState.Request :=
          (getNextLineLoop_frame _ _ _ _ _ hg).1.trans hs
        rw [serverTurn_request _ hs, serverTurn_request _ hs1, getNextLine_append_more b hg]
        cases hg2 : WS_GetNextLine Web1 b with
        | none => rfl
        | some q =>
          obtain ⟨W2, m⟩ := q
          simp only [Option.map_some']
          rcases getNextLineLoop_bounds _ _ _ _ _ hg2 with h2 | h2 | h2
          · subst h2; simp
          · subst h2; simp
          · have hm0 : (0 : Int) < m := by omega
            have hm1 : ¬ m = 0 := by omega
            have hm2 : ¬ m < 0 := by omega
            have hm3 : ¬ m + (a.length : Int) = 0 := by omega
            have hm4 : ¬ m + (a.length : Int) < 0 := by omega
            simp only [hm0, hm1, hm2, hm3, hm4, ↓reduceIte]
            have : (m + (a.length : Int)).toNat = a.length + m.toNat := by omega
            rw [this, List.drop_append]
      · simp only [h0, ↓reduceIte] at h
        split_ifs at h
        · simp at h
        · simp at h
  · rw [serverTurn_headers _ hs] at h
    cases hg : WS_GetNextLine Web a with
    | none => rw [hg] at h; exact absurd h (by simp)
    | some p =>
      obtain ⟨Web1, n⟩ := p
      rw [hg] at h
      simp only [] at h
      by_cases h0 : n = 0
      · subst h0
        simp only [↓reduceIte, Option.some.injEq, Turn.done.injEq, Prod.mk.injEq, and_true] at h
        subst h
        have hs1 : Web1.State = WebServerState.Headers :=
          (getNextLineLoop_frame _ _ _ _ _ hg).1.trans hs
        rw [serverTurn_headers _ hs, serverTurn_headers _ hs1, getNextLine_append_more b hg]
        cases hg2 : WS_GetNextLine Web1 b with
        | none => left; rfl
        | some q =>
          obtain ⟨W2, m⟩ := q
          simp only [Option.map_some']
          rcases getNextLineLoop_bounds _ _ _ _ _ hg2 with h2 | h2 | h2
          · subst h2; left; simp
          · subst h2
            right
            refine ⟨tooLongReply W2 ReplyStatus.RequestHeaderFieldsTooLarge, a ++ b, b,
              Or.inl rfl, ?_, ?_⟩
            · simp
            · simp
          · left
            have hm0 : (0 : Int) < m := by omega
            have hm1 : ¬ m = 0 := by omega
            have hm2 : ¬ m < 0 := by omega
            have hm3 : ¬ m + (a.length : Int) = 0 := by omega
            have hm4 : ¬ m + (a.length : Int) < 0 := by omega
            simp only [hm0, hm1, hm2, hm3, hm4, ↓reduceIte]
            have : (m + (a.length : Int)).toNat = a.length + m.toNat := by omega
            rw [this, List.drop_append]
      · simp only [h0, ↓reduceIte] at h
        split_ifs at h
        · simp at h
        · simp at h
  · rw [serverTurn_body _ hs] at h
    cases hbb : bodyBytes Web a with
    | none => rw [hbb] at h; exact absurd h (by simp)
    | some p =>
      obtain ⟨Web1, rest⟩ := p
      rw [hbb] at h
      simp only [] at h
      split_ifs at h with hz
      · simp at h
      simp only [Option.some.injEq, Turn.done.injEq, Prod.mk.injEq, and_true] at h
      subst h
      have f := bodyBytes_frame hbb
      have hs1 : Web1.State = WebServerState.Body := f.1.trans hs
      rw [serverTurn_body _ hs, serverTurn_body _ hs1]
      by_cases hp : Web.Req = ReqType.Post
      · left
        have hp1 : Web1.Req = ReqType.Post := f.2.1.trans hp
        have : bodyBytes Web (a ++ b) = bodyBytes Web1 b := by
          unfold bodyBytes at hbb ⊢
          simp only [hp, hp1, ↓reduceIte] at hbb ⊢
          exact (postBodyLoop_append_more _ _ _ _ _ hbb hz).2
        rw [this]
      · unfold bodyBytes at hbb
        simp only [hp, ↓reduceIte] at hbb
        split_ifs at hbb with hlt
        · simp only [Option.some.injEq, Prod.mk.injEq] at hbb
          obtain ⟨rfl, _⟩ := hbb
          exact absurd rfl hz
        · simp only [Option.some.injEq, Prod.mk.injEq] at hbb
          obtain ⟨rfl, rfl⟩ := hbb
          have hz1 : Web.BodySize - a.length ≠ 0 := hz
          unfold bodyBytes
          simp only [hp, ↓reduceIte, List.length_append]
          by_cases hlt2 : Web.BodySize < a.length + b.length
          · right
            have hlt3 : Web.BodySize - a.length < b.length := by omega
            simp only [hlt2, hlt3, ↓reduceIte]
            exact ⟨_, _, _, Or.inr (by show nextState Web.State = _; rw [hs]; rfl), rfl, rfl⟩
          · left
            have hlt3 : ¬ Web.BodySize - a.length < b.length := by omega
            simp only [hlt2, hlt3, ↓reduceIte]
            have : Web.BodySize - (a.length + b.length) = Web.BodySize - a.length - b.length := by
              omega
            rw [this]
  · rw [serverTurn_response _ hs] at h
    simp at h
  · rw [serverTurn_max _ hs] at h; simp at h

theorem reachesResponse_succ (m_Files : List FileInfo) (now f : Nat) (Web : WebServer)
    (bs : List Nat) (hs : Web.State ≠ WebServerState.Response) :
    reachesResponse m_Files now (f + 1) Web bs =
      match serverTurn m_Files now Web bs with
      | some (.again Web1 rest) => reachesResponse m_Files now f Web1 rest
      | _ => false := by
  rw [reachesResponse]
  simp only [hs, ↓reduceIte]

theorem reachesResponse_response (m_Files : List FileInfo) (now f : Nat) (Web : WebServer)
    (bs : List Nat) (hs : Web.State = WebServerState.Response) :
    reachesResponse m_Files now (f + 1) Web bs = true := by
  rw [reachesResponse]
  simp only [hs, ↓reduceIte]

theorem reachesResponse_closed (m_Files : List FileInfo) (now f : Nat) (Web : WebServer)
    (bs : List Nat) (hs : Web.State = WebServerState.Closed) :
    reachesResponse m_Files now f Web bs = false := by
  cases f with
  | zero => rfl
  | succ f =>
    rw [reachesResponse_succ _ _ _ _ _ (by rw [hs]; simp), serverTurn_closed _ hs]

/-- The phase in which a turn asks for more bytes is the phase before the turn. -/
theorem serverTurn_more_state {m_Files : List FileInfo} {now : Nat} {Web W1 : WebServer}
    {a : List Nat} (h : serverTurn m_Files now Web a = some (.done (W1, RunExit.needMore))) :
    W1.State = Web.State := by
  cases hs : Web.State
  · rw [serverTurn_closed _ hs] at h; simp at h
  · rw [serverTurn_request _ hs] at h
    cases hg : WS_GetNextLine Web a with
    | none => rw [hg] at h; exact absurd h (by simp)
    | some p =>
      obtain ⟨Web1, n⟩ := p
      rw [hg] at h
      simp only [] at h
      have f1 := getNextLineLoop_frame _ _ _ _ _ hg
      split_ifs at h
      · simp only [Option.some.injEq, Turn.done.injEq, Prod.mk.injEq, and_true] at h
        subst h; exact f1.1.trans hs
      · simp at h
      · simp at h
  · rw [serverTurn_headers _ hs] at h
    cases hg : WS_GetNextLine Web a with
    | none => rw [hg] at h; exact absurd h (by simp)
    | some p =>
      obtain ⟨Web1, n⟩ := p
      rw [hg] at h
      simp only [] at h
      have f1 := getNextLineLoop_frame _ _ _ _ _ hg
      split_ifs at h
      · simp only [Option.some.injEq, Turn.done.injEq, Prod.mk.injEq, and_true] at h
        subst h; exact f1.1.trans hs
      · simp at h
      · simp at h
  · rw [serverTurn_body _ hs] at h
    cases hbb : bodyBytes Web a with
    | none => rw [hbb] at h; exact absurd h (by simp)
    | some p =>
      obtain ⟨Web1, rest⟩ := p
      rw [hbb] at h
      simp only [] at h
      split_ifs at h
      · simp at h
      · simp only [Option.some.injEq, Turn.done.injEq, Prod.mk.injEq, and_true] at h
        subst h; exact (bodyBytes_frame hbb).1.trans hs
  · rw [serverTurn_response _ hs] at h
    simp at h
  · rw [serverTurn_max _ hs] at h; simp at h

/-- After a turn that asked for more bytes, a call with these bytes and the bytes
that follow does what the next call does with the bytes that follow. -/
theorem runServerLoop_more {m_Files : List FileInfo} {now : Nat} {Web W1 : WebServer}
    {a : List Nat} (b : List Nat) (k g : Nat)
    (h : serverTurn m_Files now Web a = some (.done (W1, RunExit.needMore)))
    (hk : b.length + 3 ≤ k) (hg : b.length + 3 ≤ g) :
    runServerLoop m_Files now (k + 1) Web (a ++ b) = runServerLoop m_Files now g W1 b ∧
    reachesResponse m_Files now (k + 1) Web (a ++ b) = reachesResponse m_Files now g W1 b := by
  have hst := serverTurn_more_state h
  have hnr : Web.State ≠ WebServerState.Response := by
    intro hs
    rw [serverTurn_response _ hs] at h
    simp at h
  have hnr1 : W1.State ≠ WebServerState.Response := by rw [hst]; exact hnr
  have hr1 := phaseRank_le W1.State
  rcases serverTurn_append_more b h with heq | ⟨W2, r1, r2, hW2, h1, h2⟩
  · constructor
    · rw [runServerLoop_succ, heq, ← runServerLoop_succ]
      exact runServerLoop_fuel _ _ _ _ _ _ (by omega) (by omega)
    · rw [reachesResponse_succ _ _ _ _ _ hnr, heq, ← reachesResponse_succ _ _ _ _ _ hnr1]
      exact reachesResponse_fuel _ _ _ _ _ _ (by omega) (by omega)
  · obtain ⟨g, rfl⟩ : ∃ g1, g = g1 + 1 := ⟨g - 1, by omega⟩
    obtain ⟨k, rfl⟩ : ∃ k1, k = k1 + 1 := ⟨k - 1, by omega⟩
    obtain ⟨g, rfl⟩ : ∃ g1, g = g1 + 1 := ⟨g - 1, by omega⟩
    constructor
    · rw [runServerLoop_succ, h1, runServerLoop_succ _ _ (g + 1), h2]
      simp only []
      rcases hW2 with hc | hc
      · rw [runServerLoop_closed _ _ _ _ hc, runServerLoop_closed _ _ _ _ hc]
      · rw [runServerLoop_response _ _ _ _ hc, runServerLoop_response _ _ _ _ hc]
    · rw [reachesResponse_succ _ _ _ _ _ hnr, h1, reachesResponse_succ _ _ (g + 1) _ _ hnr1, h2]
      simp only []
      rcases hW2 with hc | hc
      · rw [reachesResponse_closed _ _ _ _ _ hc, reachesResponse_closed _ _ _ _ _ hc]
      · rw [reachesResponse_response _ _ _ _ _ hc, reachesResponse_response _ _ _ _ _ hc]

/-- A call that does not come to the Response phase, followed by more bytes in the
same read buffer: undefined behaviour and the close of the connection stay, and
after the wait for more bytes the call goes on as the next call would. -/
theorem runServerLoop_append (m_Files : List FileInfo) (now : Nat) :
    ∀ (f : Nat) (Web : WebServer) (a b : List Nat) (g : Nat),
      a.length + phaseRank Web.State ≤ f → b.length + 3 ≤ g →
      reachesResponse m_Files now f Web a = false →
      (runServerLoop m_Files now f Web a = none →
        runServerLoop m_Files now (f + g) Web (a ++ b) = none) ∧
      (∀ W1, runServerLoop m_Files now f Web a = some (W1, RunExit.closed) →
        runServerLoop m_Files now (f + g) Web (a ++ b) = some (W1, RunExit.closed)) ∧
      (∀ W1, runServerLoop m_Files now f Web a = some (W1, RunExit.needMore) →
        runServerLoop m_Files now (f + g) Web (a ++ b) = runServerLoop m_Files now g W1 b ∧
        reachesResponse m_Files now (f + g) Web (a ++ b) =
          reachesResponse m_Files now g W1 b) := by
  intro f
  induction f with
  | zero =>
    intro Web a b g hf _ _
    have hm : Web.State = WebServerState.MAX := by
      by_contra hm
      have := phaseRank_pos hm
      omega
    refine ⟨fun _ => runServerLoop_max _ _ _ _ _ hm, fun W1 h => ?_, fun W1 h => ?_⟩
    · simp [runServerLoop] at h
    · simp [runServerLoop] at h
  | succ f ih =>
    intro Web a b g hf hg hq
    by_cases hm : Web.State = WebServerState.MAX
    · refine ⟨fun _ => runServerLoop_max _ _ _ _ _ hm, fun W1 h => ?_, fun W1 h => ?_⟩
      · rw [runServerLoop_max _ _ _ _ _ hm] at h; exact absurd h (by simp)
      · rw [runServerLoop_max _ _ _ _ _ hm] at h; exact absurd h (by simp)
    · have hnr : Web.State ≠ WebServerState.Response := by
        intro hs
        rw [reachesResponse_response _ _ _ _ _ hs] at hq
        exact absurd hq (by simp)
      rw [reachesResponse_succ _ _ _ _ _ hnr] at hq
      have hfg : f + 1 + g = (f + g) + 1 := by omega
      rw [hfg, runServerLoop_succ _ _ f]
      cases ht : serverTurn m_Files now Web a with
      | none =>
        refine ⟨fun _ => ?_, fun W1 h => absurd h (by simp), fun W1 h => absurd h (by simp)⟩
        rw [runServerLoop_succ, serverTurn_append_none b ht hnr]
      | some t =>
        cases t with
        | done r =>
          obtain ⟨W0, e⟩ := r
          refine ⟨fun h => absurd h (by simp), fun W1 h => ?_, fun W1 h => ?_⟩
          · simp only [Option.some.injEq, Prod.mk.injEq] at h
            obtain ⟨rfl, rfl⟩ := h
            rw [runServerLoop_succ, serverTurn_append_closed b ht]
          · simp only [Option.some.injEq, Prod.mk.injEq] at h
            obtain ⟨rfl, rfl⟩ := h
            have := runServerLoop_more b (f + g) g ht (by omega) hg
            rw [reachesResponse_succ _ _ _ _ _ hnr] at this
            rw [reachesResponse_succ _ _ _ _ _ hnr]
            exact this
        | again W rest =>
          rw [ht] at hq
          simp only [] at hq ⊢
          have hrk := serverTurn_rank ht hm
          have hWr : W.State ≠ WebServerState.Response := by
            intro hs
            obtain ⟨f, rfl⟩ : ∃ f1, f = f1 + 1 := ⟨f - 1, by
              have : phaseRank W.State = 1 := by rw [hs]; rfl
              omega⟩
            rw [reachesResponse_response _ _ _ _ _ hs] at hq
            exact absurd hq (by simp)
          have hta := serverTurn_append_again b ht hWr
          rw [runServerLoop_succ, hta, reachesResponse_succ _ _ _ _ _ hnr, hta]
          exact ih W rest b g (by omega) hg hq

theorem serverTurn_closed_result {m_Files : List FileInfo} {now : Nat} {Web W1 : WebServer}
    {a : List Nat} (h : serverTurn m_Files now Web a = some (.done (W1, RunExit.closed))) :
    W1.State = WebServerState.Closed ∧ SocketsCon_Close W1.Con = W1.Con := by
  cases hs : Web.State
  · rw [serverTurn_closed _ hs] at h
    simp only [Option.some.injEq, Turn.done.injEq, Prod.mk.injEq, and_true] at h
    subst h
    exact ⟨hs, rfl⟩
  · rw [serverTurn_request _ hs] at h
    cases hg : WS_GetNextLine Web a with
    | none => rw [hg] at h; exact absurd h (by simp)
    | some p =>
      obtain ⟨Web1, n⟩ := p
      rw [hg] at h
      simp only [] at h
      split_ifs at h
      · simp at h
      · simp only [Option.some.injEq, Turn.done.injEq, Prod.mk.injEq, and_true] at h
        subst h
        exact ⟨rfl, rfl⟩
      · simp at h
  · rw [serverTurn_headers _ hs] at h
    cases hg : WS_GetNextLine Web a with
    | none => rw [hg] at h; exact absurd h (by simp)
    | some p =>
      obtain ⟨Web1, n⟩ := p
      rw [hg] at h
      simp only [] at h
      split_ifs at h <;> simp at h
  · rw [serverTurn_body _ hs] at h
    cases hbb : bodyBytes Web a with
    | none => rw [hbb] at h; exact absurd h (by simp)
    | some p =>
      obtain ⟨Web1, rest⟩ := p
      rw [hbb] at h
      simp only [] at h
      split_ifs at h <;> simp at h
  · rw [serverTurn_response _ hs] at h
    simp at h
  · rw [serverTurn_max _ hs] at h; simp at h

theorem runServerLoop_closed_result (m_Files : List FileInfo) (now : Nat) :
    ∀ (f : Nat) (Web : WebServer) (a : List Nat) (W1 : WebServer),
      runServerLoop m_Files now f Web a = some (W1, RunExit.closed) →
      W1.State = WebServerState.Closed ∧ SocketsCon_Close W1.Con = W1.Con := by
  intro f
  induction f with
  | zero => intro Web a W1 h; simp [runServerLoop] at h
  | succ f ih =>
    intro Web a W1 h
    rw [runServerLoop_succ] at h
    cases ht : serverTurn m_Files now Web a with
    | none => rw [ht] at h; exact absurd h (by simp)
    | some t =>
      rw [ht] at h
      cases t with
      | done r =>
        simp only [Option.some.injEq] at h
        subst h
        exact serverTurn_closed_result ht
      | again W rest => exact ih _ _ _ h

theorem runServerLoop_responded (m_Files : List FileInfo) (now : Nat) :
    ∀ (f : Nat) (Web : WebServer) (a : List Nat) (W1 : WebServer),
      runServerLoop m_Files now f Web a = some (W1, RunExit.responded) →
      reachesResponse m_Files now f Web a = true := by
  intro f
  induction f with
  | zero => intro Web a W1 h; simp [runServerLoop] at h
  | succ f ih =>
    intro Web a W1 h
    by_cases hs : Web.State = WebServerState.Response
    · exact reachesResponse_response _ _ _ _ _ hs
    · rw [reachesResponse_succ _ _ _ _ _ hs]
      rw [runServerLoop_succ] at h
      cases ht : serverTurn m_Files now Web a with
      | none => rw [ht] at h; exact absurd h (by simp)
      | some t =>
        rw [ht] at h
        cases t with
        | done r =>
          simp only [Option.some.injEq] at h
          subst h
          exfalso
          cases hst : Web.State
          · rw [serverTurn_closed _ hst] at ht; simp at ht
          · rw [serverTurn_request _ hst] at ht
            cases hg : WS_GetNextLine Web a with
            | none => rw [hg] at ht; exact absurd ht (by simp)
            | some p =>
              obtain ⟨Web1, n⟩ := p
              rw [hg] at ht
              simp only [] at ht
              split_ifs at ht <;> simp at ht
          · rw [serverTurn_headers _ hst] at ht
            cases hg : WS_GetNextLine Web a with
            | none => rw [hg] at ht; exact absurd ht (by simp)
            | some p =>
              obtain ⟨Web1, n⟩ := p
              rw [hg] at ht
              simp only [] at ht
              split_ifs at ht <;> simp at ht
          · rw [serverTurn_body _ hst] at ht
            cases hbb : bodyBytes Web a with
            | none => rw [hbb] at ht; exact absurd ht (by simp)
            | some p =>
              obtain ⟨Web1, rest⟩ := p
              rw [hbb] at ht
              simp only [] at ht
              split_ifs at ht <;> simp at ht
          · exact hs hst
          · rw [serverTurn_max _ hst] at ht; simp at ht
        | again W rest => exact ih _ _ _ h

theorem feedChunks_closed (m_Files : List FileInfo) (now : Nat) (W : WebServer)
    (hs : W.State = WebServerState.Closed) (hc : SocketsCon_Close W.Con = W.Con) :
    ∀ cs : List (List Nat), feedChunks m_Files now W cs = some W := by
  intro cs
  induction cs with
  | nil => rfl
  | cons c cs ih =>
    have : WS_RunServer m_Files now W c = some W := by
      unfold WS_RunServer runServer
      rw [runServerLoop_closed _ _ _ _ hs, hc]
      rfl
    rw [feedChunks, this]
    exact ih

/-- Cutting the bytes of a read buffer into chunks: when no proper part of the bytes
brings the session to the Response phase, the calls of `WS_RunServer` with the
chunks one after another leave the session that one call with all the bytes leaves. -/
theorem feedChunks_eq_whole (m_Files : List FileInfo) (now : Nat) :
    ∀ (chunks : List (List Nat)) (Web : WebServer), chunks ≠ [] → (∀ c ∈ chunks, c ≠ []) →
      (∀ a b, a ++ b = chunks.flatten → b ≠ [] →
        reachesResponse m_Files now (a.length + 3) Web a = false) →
      feedChunks m_Files now Web chunks = WS_RunServer m_Files now Web chunks.flatten := by
  intro chunks
  induction chunks with
  | nil => intro Web h; exact absurd rfl h
  | cons c cs ih =>
    intro Web _ hne hq
    by_cases hcs : cs = []
    · subst hcs
      simp only [feedChunks, List.flatten_cons, List.flatten_nil, List.append_nil]
      cases WS_RunServer m_Files now Web c <;> rfl
    · have hne2 : ∀ x ∈ cs, x ≠ [] := fun x hx => hne x (List.mem_cons_of_mem _ hx)
      have hfl : cs.flatten ≠ [] := by
        cases cs with
        | nil => exact absurd rfl hcs
        | cons d ds =>
          have := hne2 d (List.mem_cons_self _ _)
          simp only [List.flatten_cons, ne_eq, List.append_eq_nil, not_and]
          intro h; exact absurd h this
      have hqc := hq c cs.flatten (by simp) hfl
      have hr3 := phaseRank_le Web.State
      have happ := runServerLoop_append m_Files now (c.length + 3) Web c cs.flatten
        (cs.flatten.length + 3) (by omega) (le_refl _) hqc
      have hwhole : runServer m_Files now Web (c ++ cs.flatten) =
          runServerLoop m_Files now (c.length + 3 + (cs.flatten.length + 3)) Web
            (c ++ cs.flatten) := by
        unfold runServer
        exact runServerLoop_fuel _ _ _ _ _ _ (by simp only [List.length_append]; omega)
          (by simp only [List.length_append]; omega)
      rw [List.flatten_cons, feedChunks]
      unfold WS_RunServer
      rw [hwhole]
      cases hrun : runServer m_Files now Web c with
      | none =>
        unfold runServer at hrun
        rw [happ.1 hrun]
        rfl
      | some r =>
        obtain ⟨W1, e⟩ := r
        cases e with
        | closed =>
          unfold runServer at hrun
          rw [happ.2.1 W1 hrun]
          obtain ⟨h1, h2⟩ := runServerLoop_closed_result _ _ _ _ _ _ hrun
          simp only [Option.map_some']
          exact feedChunks_closed _ _ _ h1 h2 cs
        | needMore =>
          unfold runServer at hrun
          obtain ⟨h1, _⟩ := happ.2.2 W1 hrun
          rw [h1]
          simp only [Option.map_some']
          have := ih W1 hcs hne2 (by
            intro a b hab hb
            have hq2 := hq (c ++ a) b (by rw [List.append_assoc, hab]; simp) hb
            have happ2 := runServerLoop_append m_Files now (c.length + 3) Web c a
              (a.length + 3) (by omega) (le_refl _) hqc
            obtain ⟨_, h3⟩ := happ2.2.2 W1 hrun
            rw [← h3]
            rw [← hq2]
            exact reachesResponse_fuel _ _ _ _ _ _ (by simp only [List.length_append]; omega)
              (by simp only [List.length_append]; omega))
          rw [this]
          rfl
        | responded =>
          unfold runServer at hrun
          have := runServerLoop_responded _ _ _ _ _ _ hrun
          rw [hqc] at this
          exact absurd this (by simp)

/-! ### The line buffer cursor is left alone by the work on a line -/

theorem processURI_pos {Web W : WebServer} {b : Bool}
    (h : WS_ProcessURI Web = some (W, b)) : W.LineBuffPos = Web.LineBuffPos := by
  unfold WS_ProcessURI at h
  repeat' split at h
  all_goals first
    | contradiction
    | (simp only [Option.some.injEq, Prod.mk.injEq] at h; obtain ⟨rfl, _⟩ := h; rfl)
    | (simp only [Option.map_eq_some', Prod.mk.injEq] at h
       obtain ⟨_, _, rfl, _⟩ := h
       rfl)

theorem processGetVars_pos {Web W : WebServer}
    (h : WS_ProcessGetVars Web = some W) : W.LineBuffPos = Web.LineBuffPos := by
  unfold WS_ProcessGetVars at h
  dsimp only at h
  repeat' split at h
  all_goals first
    | contradiction
    | (simp only [Option.some.injEq] at h; subst h; rfl)

theorem requestLine_pos {m_Files : List FileInfo} {Web W : WebServer} {req : ReqType}
    {skip : Nat} (h : requestLine m_Files Web req skip = some W) :
    W.LineBuffPos = Web.LineBuffPos := by
  unfold requestLine at h
  split at h
  · contradiction
  · rename_i Web1 b hu
    have f1 := processURI_pos hu
    split at h
    · contradiction
    · split at h
      · exact (processGetVars_pos h).trans f1
      · simp only [Option.some.injEq] at h; subst h
        exact f1

theorem methodLine_pos {m_Files : List FileInfo} {Web1 Web2 : WebServer}
    (h : methodLine m_Files Web1 = some Web2) : Web2.LineBuffPos = Web1.LineBuffPos := by
  unfold methodLine at h
  split at h
  · exact requestLine_pos h
  · split at h
    · exact requestLine_pos h
    · simp only [Option.some.injEq] at h; subst h; rfl

theorem etagLoop_pos : ∀ (f : Nat) (Web : WebServer) (p : Nat) (W : WebServer) (b : Bool),
    etagLoop f Web p = some (W, b) → W.LineBuffPos = Web.LineBuffPos := by
  intro f
  induction f with
  | zero => intro Web p W b h; simp [etagLoop] at h
  | succ f ih =>
    intro Web p W b h
    unfold etagLoop at h
    dsimp only at h
    repeat' split at h
    all_goals first
      | contradiction
      | (simp only [Option.some.injEq, Prod.mk.injEq] at h; obtain ⟨rfl, _⟩ := h; rfl)
      | (rw [ih _ _ _ _ h]
         unfold WS_ProcessETag
         split <;> rfl)

theorem processCookieVars_pos {Web W : WebServer} (h : WS_ProcessCookieVars Web = some W) :
    W.LineBuffPos = Web.LineBuffPos := by
  unfold WS_ProcessCookieVars at h
  dsimp only at h
  repeat' split at h
  all_goals first
    | contradiction
    | (simp only [Option.some.injEq] at h; subst h; rfl)

theorem processHeader_pos {Web W : WebServer} (h : WS_ProcessHeader Web = some W) :
    W.LineBuffPos = Web.LineBuffPos := by
  have rest : ∀ {A C : WebServer}, processHeaderRest A = some C →
      C.LineBuffPos = A.LineBuffPos := by
    intro A C hr
    unfold processHeaderRest at hr
    dsimp only at hr
    split at hr
    · contradiction
    · rename_i Web2 h2
      have f2 : Web2.LineBuffPos = A.LineBuffPos := by
        split at h2
        · exact processCookieVars_pos h2
        · simp only [Option.some.injEq] at h2; subst h2; rfl
      split at hr
      · split at hr
        · contradiction
        · simp only [Option.map_eq_some'] at hr
          obtain ⟨_, _, rfl⟩ := hr
          exact f2
      · simp only [Option.some.injEq] at hr; subst hr; exact f2
  unfold WS_ProcessHeader at h
  split at h
  · split at h
    · contradiction
    · split at h
      · contradiction
      · rename_i Web1 he
        simp only [Option.some.injEq] at h; subst h
        exact etagLoop_pos _ _ _ _ _ he
      · rename_i Web1 he
        exact (rest h).trans (etagLoop_pos _ _ _ _ _ he)
  · exact rest h

theorem headerLine_pos {Web1 Web2 : WebServer} (h : headerLine Web1 = some Web2) :
    Web2.LineBuffPos = Web1.LineBuffPos := by
  rcases headerLine_cases h with ⟨_, rfl⟩ | ⟨c, _, _, hp⟩
  · rfl
  · exact processHeader_pos hp

theorem stripCR_cons_cr (l : List Nat) : stripCR (13 :: l) = stripCR l := by
  simp [stripCR]

theorem stripCR_cons_ne {c : Nat} (l : List Nat) (h : c ≠ 13) :
    stripCR (c :: l) = c :: stripCR l := by
  simp [stripCR, h]

/-- Bytes without a line feed do not end a line. -/
theorem getNextLineLoop_noLF : ∀ (a : List Nat), 10 ∉ a → ∀ (r : Nat) (Web W : WebServer)
    (n : Int), getNextLineLoop a r Web = some (W, n) → n = 0 ∨ n = -1 := by
  intro a
  induction a with
  | nil =>
    intro _ r Web W n h
    simp only [getNextLineLoop, Option.some.injEq, Prod.mk.injEq] at h
    exact Or.inl h.2.symm
  | cons c a ih =>
    intro hc r Web W n h
    have hc10 : c ≠ 10 := fun e => hc (by simp [e])
    have ha : 10 ∉ a := fun e => hc (List.mem_cons_of_mem _ e)
    unfold getNextLineLoop at h
    split_ifs at h with h1 h3
    · exact ih ha _ _ _ _ h
    · cases hw : wr Web.LineBuff Web.LineBuffPos c with
      | none => rw [hw] at h; exact absurd h (by simp)
      | some L =>
        rw [hw] at h
        simp only [Option.some.injEq, Prod.mk.injEq] at h
        exact Or.inr h.2.symm
    · cases hw : wr Web.LineBuff Web.LineBuffPos c with
      | none => rw [hw] at h; exact absurd h (by simp)
      | some L =>
        rw [hw] at h
        exact ih ha _ _ _ _ h

/-- A line with its line feed: it does not fit, or it is stored without its carriage
returns from the cursor on, with a NUL after it, and the cursor is back at 0. -/
theorem getNextLineLoop_line : ∀ (l : List Nat), 10 ∉ l → ∀ (rest : List Nat) (r : Nat)
    (Web : WebServer),
    getNextLineLoop (l ++ 10 :: rest) r Web = none ∨
    (∃ W, getNextLineLoop (l ++ 10 :: rest) r Web = some (W, -1)) ∨
    (∃ W, getNextLineLoop (l ++ 10 :: rest) r Web = some (W, (r : Int) + l.length + 1) ∧
      W.LineBuffPos = 0 ∧
      W.LineBuff.take (Web.LineBuffPos + (stripCR l).length + 1) =
        Web.LineBuff.take Web.LineBuffPos ++ (stripCR l ++ [0])) := by
  intro l
  induction l with
  | nil =>
    intro _ rest r Web
    rw [List.nil_append, getNextLineLoop]
    simp only [show ¬ (10 : Nat) = 13 by decide, ↓reduceIte]
    cases hw : wr Web.LineBuff Web.LineBuffPos 0 with
    | none => left; rfl
    | some L =>
      right; right
      refine ⟨{ Web with LineBuff := L, LineBuffPos := 0 }, ?_, rfl, ?_⟩
      · simp
      · simp only [stripCR, List.filter_nil, List.length_nil, Nat.add_zero, List.nil_append]
        exact wr_take_succ hw
  | cons c l ih =>
    intro hc rest r Web
    have hc10 : c ≠ 10 := fun e => hc (by simp [e])
    have ha : 10 ∉ l := fun e => hc (List.mem_cons_of_mem _ e)
    rw [List.cons_append, getNextLineLoop]
    by_cases h13 : c = 13
    · subst h13
      simp only [↓reduceIte, stripCR_cons_cr]
      rcases ih ha rest (r + 1) Web with h | ⟨W, h⟩ | ⟨W, h, hp, ht⟩
      · left; exact h
      · right; left; exact ⟨W, h⟩
      · right; right
        refine ⟨W, ?_, hp, ht⟩
        rw [h]
        simp only [List.length_cons]
        push_cast
        congr 2
        omega
    · simp only [h13, hc10, ↓reduceIte, stripCR_cons_ne l h13]
      cases hw : wr Web.LineBuff Web.LineBuffPos c with
      | none => left; rfl
      | some L =>
        simp only []
        split_ifs with hov
        · right; left; exact ⟨_, rfl⟩
        · rcases ih ha rest (r + 1)
            { Web with LineBuff := L, LineBuffPos := Web.LineBuffPos + 1 } with h | ⟨W, h⟩ | ⟨W, h, hp, ht⟩
          · left; exact h
          · right; left; exact ⟨W, h⟩
          · right; right
            refine ⟨W, ?_, hp, ?_⟩
            · rw [h]
              simp only [List.length_cons]
              push_cast
              congr 2
              omega
            · simp only [List.length_cons] at ht ⊢
              rw [show Web.LineBuffPos + ((stripCR l).length + 1) + 1 =
                Web.LineBuffPos + 1 + (stripCR l).length + 1 by omega, ht, wr_take_succ hw]
              simp

theorem cstrlen_locality : ∀ (x tail : List Nat),
    cstrlen (x ++ 0 :: tail) = cstrlen (x ++ [0]) ∧
    ∃ n, cstrlen (x ++ [0]) = some n ∧ n ≤ x.length := by
  intro x
  induction x with
  | nil => intro tail; simp [cstrlen]
  | cons c x ih =>
    intro tail
    obtain ⟨h1, n, h2, h3⟩ := ih tail
    rw [List.cons_append, List.cons_append, cstrlen, cstrlen]
    split_ifs
    · exact ⟨rfl, 0, rfl, by simp⟩
    · rw [h1, h2]
      exact ⟨rfl, n + 1, rfl, by simp [h3]⟩

theorem cstrAt_locality (s tail : List Nat) (p : Nat) (hp : p ≤ s.length) :
    cstrAt (s ++ 0 :: tail) p = cstrAt (s ++ [0]) p := by
  unfold cstrAt strlenAt
  rw [List.drop_append_of_le_length hp, List.drop_append_of_le_length hp]
  obtain ⟨h1, n, h2, h3⟩ := cstrlen_locality (s.drop p) tail
  rw [h1, h2]
  simp only [Option.map_some', Option.some.injEq]
  rw [List.take_append_of_le_length h3, List.take_append_of_le_length h3]

theorem rd_locality (s tail : List Nat) (p : Nat) (hp : p ≤ s.length) :
    rd (s ++ 0 :: tail) p = rd (s ++ [0]) p := by
  by_cases h : p < s.length
  · unfold rd
    rw [List.getElem?_append_left h, List.getElem?_append_left h]
  · have : p = s.length := by omega
    subst this
    rw [rd_at, rd_at]

theorem lit_no_nul : ∀ i, i < 15 → (B "Content-Length:")[i]? ≠ some 0 := by
  decide

/-- The body size that a stored line gives depends on the line only, not on the
bytes that are after its NUL in the buffer. -/
theorem contentLengthOf_locality (s tail : List Nat) :
    contentLengthOf (s ++ 0 :: tail) = contentLengthOf (s ++ [0]) := by
  have key : ∀ t : List Nat, startsWith (s ++ 0 :: t) 0 (B "Content-Length:") = true →
      15 ≤ s.length := by
    intro t h
    by_contra hlt
    have hlt : s.length < 15 := by omega
    have h1 := startsWith_rd h s.length (by simpa using hlt)
    rw [rd_at] at h1
    exact lit_no_nul _ hlt h1.symm
  unfold contentLengthOf
  have hsw : startsWith (s ++ 0 :: tail) 0 (B "Content-Length:") =
      startsWith (s ++ [0]) 0 (B "Content-Length:") := by
    by_cases h15 : 15 ≤ s.length
    · unfold startsWith
      have : (B "Content-Length:").length ≤ s.length := by simpa using h15
      simp only [List.drop_zero]
      rw [List.take_append_of_le_length this, List.take_append_of_le_length this]
    · have h1 : startsWith (s ++ 0 :: tail) 0 (B "Content-Length:") = false := by
        by_contra h
        simp only [Bool.not_eq_false] at h
        exact h15 (key _ h)
      have h2 : startsWith (s ++ [0]) 0 (B "Content-Length:") = false := by
        by_contra h
        simp only [Bool.not_eq_false] at h
        exact h15 (key _ h)
      rw [h1, h2]
  rw [hsw]
  split
  · rename_i h
    have h15 := key _ h
    have hrd := rd_locality s tail 15 h15
    rw [hrd]
    have hpos : (if rd (s ++ [0]) 15 = some 32 then 16 else 15) ≤ s.length := by
      split
      · rename_i h32
        by_contra hlt
        have : s.length = 15 := by omega
        rw [← this, rd_at] at h32
        simp at h32
      · exact h15
    rw [cstrAt_locality s tail _ hpos]
  · rfl

/-- In the Request and the Headers phase, bytes without a line feed do not bring
the session to the Response phase. -/
theorem reachesResponse_noLF (m_Files : List FileInfo) (now : Nat) {Web : WebServer}
    {a : List Nat} (hs : Web.State = WebServerState.Request ∨ Web.State = WebServerState.Headers)
    (ha : 10 ∉ a) : ∀ f, reachesResponse m_Files now f Web a = false := by
  intro f
  cases f with
  | zero => rfl
  | succ f =>
    rcases hs with hs | hs
    · rw [reachesResponse_succ _ _ _ _ _ (by rw [hs]; simp), serverTurn_request _ hs]
      cases hg : WS_GetNextLine Web a with
      | none => rfl
      | some p =>
        obtain ⟨W, n⟩ := p
        rcases getNextLineLoop_noLF a ha _ _ _ _ hg with h | h <;> subst h <;> simp
    · rw [reachesResponse_succ _ _ _ _ _ (by rw [hs]; simp), serverTurn_headers _ hs]
      cases hg : WS_GetNextLine Web a with
      | none => rfl
      | some p =>
        obtain ⟨W, n⟩ := p
        rcases getNextLineLoop_noLF a ha _ _ _ _ hg with h | h <;> subst h
        · simp
        · simp only [Int.reduceNeg, Int.neg_eq_zero, one_ne_zero, ↓reduceIte, Int.neg_neg_iff_pos,
            zero_lt_one, Left.neg_neg_iff]
          exact reachesResponse_closed _ _ _ _ _ rfl

theorem drop_line (l rest : List Nat) :
    (l ++ 10 :: rest).drop (((0 : Nat) : Int) + (l.length : Int) + 1).toNat = rest := by
  have : (((0 : Nat) : Int) + (l.length : Int) + 1).toNat = l.length + 1 := by omega
  rw [this, List.drop_append]
  rfl

/-- The request line with its line feed: the call ends, or goes on in the Headers
phase with the cursor at 0 and the body size as it was. -/
theorem reachesResponse_requestLine (m_Files : List FileInfo) (now : Nat) {Web : WebServer}
    {l : List Nat} (hs : Web.State = WebServerState.Request) (hl : 10 ∉ l)
    (rest : List Nat) (f : Nat) :
    reachesResponse m_Files now (f + 1) Web (l ++ 10 :: rest) = false ∨
    ∃ W2 : WebServer, W2.State = WebServerState.Headers ∧ W2.LineBuffPos = 0 ∧
      W2.BodySize = Web.BodySize ∧
      reachesResponse m_Files now (f + 1) Web (l ++ 10 :: rest) =
        reachesResponse m_Files now f W2 rest := by
  rw [reachesResponse_succ _ _ _ _ _ (by rw [hs]; simp), serverTurn_request _ hs]
  unfold WS_GetNextLine
  rcases getNextLineLoop_line l hl rest 0 Web with h | ⟨W, h⟩ | ⟨W, h, hp, _⟩
  · left; rw [h]
  · left; rw [h]; simp
  · have f1 := getNextLineLoop_frame _ _ _ _ _ h
    rw [h]
    have h0 : ¬ (((0 : Nat) : Int) + (l.length : Int) + 1 = 0) := by omega
    have h1 : ¬ (((0 : Nat) : Int) + (l.length : Int) + 1 < 0) := by omega
    simp only [h0, h1, ↓reduceIte, drop_line]
    cases hm : methodLine m_Files W with
    | none => left; rfl
    | some W2 =>
      right
      have f2 := methodLine_frame hm
      have f3 := methodLine_pos hm
      refine ⟨{ W2 with State := nextState W2.State }, ?_, ?_, ?_, rfl⟩
      · show nextState W2.State = _
        rw [f2.1, f1.1, hs]; rfl
      · show W2.LineBuffPos = 0
        rw [f3, hp]
      · show W2.BodySize = _
        rw [f2.2, f1.2.2]

theorem lineBuff_of_take {L s : List Nat} (h : L.take (0 + s.length + 1) = [] ++ (s ++ [0])) :
    L = s ++ 0 :: L.drop (s.length + 1) := by
  have := List.take_append_drop (s.length + 1) L
  rw [show 0 + s.length + 1 = s.length + 1 by omega] at h
  rw [h] at this
  simp only [List.nil_append, List.append_assoc, List.singleton_append] at this
  exact this.symm

/-- A header line with its line feed: the call ends, or goes on in the Headers phase
with the cursor at 0 and the body size that the line gives. -/
theorem reachesResponse_headerLine (m_Files : List FileInfo) (now : Nat) {Web : WebServer}
    {h : List Nat} (hs : Web.State = WebServerState.Headers) (hp0 : Web.LineBuffPos = 0)
    (hh : isHeaderLine h = true) (rest : List Nat) (f : Nat) :
    reachesResponse m_Files now (f + 1) Web (h ++ 10 :: rest) = false ∨
    ∃ W2 : WebServer, W2.State = WebServerState.Headers ∧ W2.LineBuffPos = 0 ∧
      W2.Req = Web.Req ∧
      W2.BodySize = (contentLengthOf (stripCR h ++ [0])).getD Web.BodySize ∧
      reachesResponse m_Files now (f + 1) Web (h ++ 10 :: rest) =
        reachesResponse m_Files now f W2 rest := by
  unfold isHeaderLine at hh
  simp only [Bool.and_eq_true, Bool.not_eq_eq_eq_not, Bool.not_true] at hh
  obtain ⟨hl, hc⟩ := hh
  have hl : 10 ∉ h := by simpa using hl
  rw [reachesResponse_succ _ _ _ _ _ (by rw [hs]; simp), serverTurn_headers _ hs]
  unfold WS_GetNextLine
  rcases getNextLineLoop_line h hl rest 0 Web with hg | ⟨W, hg⟩ | ⟨W, hg, hp, ht⟩
  · left; rw [hg]
  · left; rw [hg]
    simp only [Int.reduceNeg, Int.neg_eq_zero, one_ne_zero, ↓reduceIte, Int.neg_neg_iff_pos,
      zero_lt_one, Left.neg_neg_iff]
    exact reachesResponse_closed _ _ _ _ _ rfl
  · have f1 := getNextLineLoop_frame _ _ _ _ _ hg
    rw [hg]
    have h0 : ¬ (((0 : Nat) : Int) + (h.length : Int) + 1 = 0) := by omega
    have h1 : ¬ (((0 : Nat) : Int) + (h.length : Int) + 1 < 0) := by omega
    simp only [h0, h1, ↓reduceIte, drop_line]
    rw [hp0, List.take_zero] at ht
    have hL := lineBuff_of_take ht
    cases hsc : stripCR h with
    | nil => rw [hsc] at hc; simp at hc
    | cons c t =>
      rw [hsc] at hc hL
      simp only [bne_iff_ne, ne_eq] at hc
      have hrd : rd W.LineBuff 0 = some c := by rw [hL]; simp [rd]
      have hhl : headerLine W = WS_ProcessHeader W := by
        unfold headerLine
        rw [hrd]
        simp only [hc, ↓reduceIte]
      rw [hhl]
      cases hph : WS_ProcessHeader W with
      | none => left; rfl
      | some W2 =>
        right
        have f2 := processHeader_frame hph
        have f3 := processHeader_pos hph
        refine ⟨W2, by rw [f2.1, f1.1, hs], by rw [f3, hp], by rw [f2.2.1, f1.2.1], ?_, rfl⟩
        rw [f2.2.2, f1.2.2, hL, contentLengthOf_locality]

/-- The empty line with its line feed: the call ends, or goes on in the Body
phase. -/
theorem reachesResponse_emptyLine (m_Files : List FileInfo) (now : Nat) {Web : WebServer}
    (cr : Nat) (hs : Web.State = WebServerState.Headers) (hp0 : Web.LineBuffPos = 0)
    (rest : List Nat) (f : Nat) :
    reachesResponse m_Files now (f + 1) Web (List.replicate cr 13 ++ 10 :: rest) = false ∨
    ∃ W2 : WebServer, W2.State = WebServerState.Body ∧ W2.Req = Web.Req ∧
      W2.BodySize = Web.BodySize ∧
      reachesResponse m_Files now (f + 1) Web (List.replicate cr 13 ++ 10 :: rest) =
        reachesResponse m_Files now f W2 rest := by
  have hl : 10 ∉ List.replicate cr 13 := by
    intro h
    have := List.eq_of_mem_replicate h
    omega
  have hsc : stripCR (List.replicate cr 13) = [] := by
    unfold stripCR
    rw [List.filter_eq_nil_iff]
    intro x hx
    have := List.eq_of_mem_replicate hx
    simp [this]
  rw [reachesResponse_succ _ _ _ _ _ (by rw [hs]; simp), serverTurn_headers _ hs]
  unfold WS_GetNextLine
  rcases getNextLineLoop_line _ hl rest 0 Web with hg | ⟨W, hg⟩ | ⟨W, hg, hp, ht⟩
  · left; rw [hg]
  · left; rw [hg]
    simp only [Int.reduceNeg, Int.neg_eq_zero, one_ne_zero, ↓reduceIte, Int.neg_neg_iff_pos,
      zero_lt_one, Left.neg_neg_iff]
    exact reachesResponse_closed _ _ _ _ _ rfl
  · have f1 := getNextLineLoop_frame _ _ _ _ _ hg
    rw [hg]
    have h0 : ¬ (((0 : Nat) : Int) + ((List.replicate cr 13).length : Int) + 1 = 0) := by omega
    have h1 : ¬ (((0 : Nat) : Int) + ((List.replicate cr 13).length : Int) + 1 < 0) := by omega
    simp only [h0, h1, ↓reduceIte, drop_line]
    rw [hp0, List.take_zero, hsc] at ht
    have hL := lineBuff_of_take ht
    have hrd : rd W.LineBuff 0 = some 0 := by rw [hL]; simp [rd]
    have hhl : headerLine W = some { W with State := nextState W.State } := by
      unfold headerLine
      rw [hrd]
      simp only [↓reduceIte]
    rw [hhl]
    right
    refine ⟨{ W with State := nextState W.State }, ?_, f1.2.1, f1.2.2, rfl⟩
    show nextState W.State = _
    rw [f1.1, hs]; rfl

/-- Fewer bytes of a POST body than the body size: the loop is not left early and
the body size does not come to 0. -/
theorem postBodyLoop_size : ∀ (a : List Nat) (Web : WebServer),
    a.length < Web.BodySize → Web.BodySize < 4294967296 →
    postBodyLoop Web a = none ∨
    ∃ W1 rest, postBodyLoop Web a = some (W1, rest) ∧ W1.BodySize ≠ 0 := by
  intro a
  induction a with
  | nil =>
    intro Web h _
    right
    exact ⟨Web, [], rfl, by simp only [List.length_nil] at h; omega⟩
  | cons c a ih =>
    intro Web h hlt
    simp only [List.length_cons] at h
    rw [postBodyLoop]
    cases hp : postByte Web c with
    | none => left; rfl
    | some p =>
      obtain ⟨Web1, fl⟩ := p
      obtain ⟨_, _, hsz, hfl⟩ := postByte_frame hp
      have hsz1 : Web1.BodySize = Web.BodySize - 1 := by rw [hsz]; omega
      cases fl with
      | true =>
        have := hfl rfl
        omega
      | false =>
        exact ih Web1 (by omega) (by omega)

/-- In the Body phase, fewer bytes than the body size do not bring the session to
the Response phase. -/
theorem reachesResponse_body (m_Files : List FileInfo) (now : Nat) {Web : WebServer}
    {a : List Nat} (hs : Web.State = WebServerState.Body) (ha : a.length < Web.BodySize)
    (hlt : Web.BodySize < 4294967296) : ∀ f, reachesResponse m_Files now f Web a = false := by
  intro f
  cases f with
  | zero => rfl
  | succ f =>
    rw [reachesResponse_succ _ _ _ _ _ (by rw [hs]; simp), serverTurn_body _ hs]
    unfold bodyBytes
    split_ifs with hp h1
    · rcases postBodyLoop_size a Web ha hlt with h | ⟨W1, rest, h, hz⟩
      · rw [h]
      · rw [h]; simp only [hz, ↓reduceIte]
    · omega
    · have : Web.BodySize - a.length ≠ 0 := by omega
      simp only [this, ↓reduceIte]

theorem contentLengthOf_lt {L : List Nat} {n : Nat} (h : contentLengthOf L = some n) :
    n < 4294967296 := by
  unfold contentLengthOf at h
  split at h
  · simp only [Option.map_eq_some'] at h
    obtain ⟨s, _, rfl⟩ := h
    unfold toU32
    omega
  · exact absurd h (by simp)

/-- Where a cut of the bytes falls with respect to the first line. -/
theorem cut_line {a b l rest : List Nat} (h : a ++ b = l ++ 10 :: rest) (hl : 10 ∉ l) :
    10 ∉ a ∨ ∃ a2, a = l ++ 10 :: a2 ∧ a2 ++ b = rest := by
  rcases List.append_eq_append_iff.mp h with ⟨a2, h1, _⟩ | ⟨c2, h1, h2⟩
  · left
    intro hm
    exact hl (by rw [h1]; exact List.mem_append_left _ hm)
  · cases c2 with
    | nil =>
      left
      rw [h1, List.append_nil]
      exact hl
    | cons x c3 =>
      right
      simp only [List.cons_append, List.cons.injEq] at h2
      obtain ⟨rfl, h3⟩ := h2
      exact ⟨c3, h1, h3.symm⟩

/-- From the Headers phase on, no proper part of the bytes of a request brings the
session to the Response phase. -/
theorem reachesResponse_headerBytes (m_Files : List FileInfo) (now cr : Nat) (body : List Nat) :
    ∀ (hdrs : List (List Nat)) (Web : WebServer), Web.State = WebServerState.Headers →
      Web.LineBuffPos = 0 → Web.BodySize < 4294967296 →
      (∀ h ∈ hdrs, isHeaderLine h = true) → body.length = declaredLength hdrs Web.BodySize →
      ∀ a b, a ++ b = headerBytes hdrs cr body → b ≠ [] →
      ∀ f, reachesResponse m_Files now f Web a = false := by
  intro hdrs
  induction hdrs with
  | nil =>
    intro Web hs hp hlt _ hbody a b hab hb f
    simp only [headerBytes, List.map_nil, List.flatten_nil, List.nil_append] at hab
    simp only [declaredLength] at hbody
    have hl : 10 ∉ List.replicate cr 13 := by
      intro h
      have := List.eq_of_mem_replicate h
      omega
    rcases cut_line hab hl with h1 | ⟨a2, rfl, h2⟩
    · exact reachesResponse_noLF _ _ (Or.inr hs) h1 f
    · cases f with
      | zero => rfl
      | succ f =>
        rcases reachesResponse_emptyLine m_Files now cr hs hp a2 f with h3 | ⟨W2, g1, _, g3, g4⟩
        · exact h3
        · rw [g4]
          have hlen : a2.length < W2.BodySize := by
            rw [g3, ← hbody, ← h2, List.length_append]
            have : 0 < b.length := List.length_pos.mpr hb
            omega
          exact reachesResponse_body _ _ g1 hlen (by rw [g3]; exact hlt) f
  | cons h hs ih =>
    intro Web hst hp hlt hh hbody a b hab hb f
    have hh1 := hh h (List.mem_cons_self _ _)
    have hl : 10 ∉ h := by
      unfold isHeaderLine at hh1
      simp only [Bool.and_eq_true, Bool.not_eq_eq_eq_not, Bool.not_true] at hh1
      simpa using hh1.1
    have hab2 : a ++ b = h ++ 10 :: headerBytes hs cr body := by
      rw [hab]
      simp [headerBytes]
    rcases cut_line hab2 hl with h1 | ⟨a2, rfl, h2⟩
    · exact reachesResponse_noLF _ _ (Or.inr hst) h1 f
    · cases f with
      | zero => rfl
      | succ f =>
        rcases reachesResponse_headerLine m_Files now hst hp hh1 a2 f with
          h3 | ⟨W2, g1, g2, _, g4, g5⟩
        · exact h3
        · rw [g5]
          have hlt2 : W2.BodySize < 4294967296 := by
            rw [g4]
            cases hcl : contentLengthOf (stripCR h ++ [0]) with
            | none => exact hlt
            | some n => exact contentLengthOf_lt hcl
          refine ih W2 g1 g2 hlt2 (fun x hx => hh x (List.mem_cons_of_mem _ hx)) ?_ a2 b h2 hb f
          rw [g4]
          exact hbody

/-- No proper part of the bytes of a request brings a session that starts in the
Request phase, with no body size, to the Response phase. -/
theorem reachesResponse_requestBytes (m_Files : List FileInfo) (now cr : Nat)
    (line : List Nat) (hdrs : List (List Nat)) (body : List Nat) (Web : WebServer)
    (hs : Web.State = WebServerState.Request) (hz : Web.BodySize = 0) (hline : 10 ∉ line)
    (hh : ∀ h ∈ hdrs, isHeaderLine h = true) (hbody : body.length = declaredLength hdrs 0)
    (a b : List Nat) (hab : a ++ b = requestBytes line hdrs cr body) (hb : b ≠ []) (f : Nat) :
    reachesResponse m_Files now f Web a = false := by
  unfold requestBytes at hab
  rcases cut_line hab hline with h1 | ⟨a2, rfl, h2⟩
  · exact reachesResponse_noLF _ _ (Or.inl hs) h1 f
  · cases f with
    | zero => rfl
    | succ f =>
      rcases reachesResponse_requestLine m_Files now hs hline a2 f with h3 | ⟨W2, g1, g2, g3, g4⟩
      · exact h3
      · rw [g4]
        exact reachesResponse_headerBytes m_Files now cr body hdrs W2 g1 g2
          (by rw [g3, hz]; decide) hh (by rw [g3, hz]; exact hbody) a2 b h2 hb f

/-- C4: for every request made of a request line (any bytes without a line feed),
header lines (without a line feed, the first byte that is stored of each not NUL),
the empty line (carriage returns and a line feed) and a body of exactly the length
that the header lines give (the value of the last `Content-Length:` line as
`WS_ProcessHeader` reads it, no body without such a line), every line ended by a
line feed, fed to a session that `WS_ResetWebServer` has just reset: every way of
cutting the bytes into non-empty chunks that are passed to `WS_RunServer` one after
another leaves the session that one call with all the bytes leaves. So the bytes
sent on the connection, the argument storage that `WS_GET`, `WS_COOKIE` and
`WS_POST` read, the phase and every other field are equal, for every table of
files and so for every function that writes a file with the values it reads. -/
theorem C4_chunking_of_a_request_does_not_matter (m_Files : List FileInfo) (now t0 : Nat)
    (Web0 : WebServer) (line : List Nat) (hdrs : List (List Nat)) (cr : Nat) (body : List Nat)
    (chunks : List (List Nat)) (hline : 10 ∉ line) (hh : ∀ h ∈ hdrs, isHeaderLine h = true)
    (hbody : body.length = declaredLength hdrs 0) (hne : ∀ c ∈ chunks, c ≠ [])
    (hcut : chunks.flatten = requestBytes line hdrs cr body) :
    feedChunks m_Files now (WS_ResetWebServer t0 Web0) chunks =
      WS_RunServer m_Files now (WS_ResetWebServer t0 Web0) (requestBytes line hdrs cr body) := by
  have hnil : chunks ≠ [] := by
    intro h
    rw [h] at hcut
    simp [requestBytes] at hcut
  rw [← hcut]
  refine feedChunks_eq_whole m_Files now chunks _ hnil hne ?_
  intro a b hab hb
  exact reachesResponse_requestBytes m_Files now cr line hdrs body _ rfl rfl hline hh hbody
    a b (hab.trans hcut) hb _

set_option maxRecDepth 1000000 in
theorem C4_chunking_witness :
    (10 ∉ B "POST / HTTP/1.1\r") ∧
    (∀ h ∈ [B "Host: milkv\r", B "Content-Length: 7\r"], isHeaderLine h = true) ∧
    (B "a=1&b=2").length = declaredLength [B "Host: milkv\r", B "Content-Length: 7\r"] 0 ∧
    (∀ c ∈ [B "POST / HT", B "TP/1.1\r\nHost: milkv\r\nContent-Le", B "ngth: 7\r\n\r", B "\na=1&",
        B "b=2"], c ≠ []) ∧
    feedChunks (oneFileTable none none (some [B "a", B "b"]) (echoArg ArgView.post (B "b"))) 0
        (WS_ResetWebServer 0 acceptedWeb)
        [B "POST / HT", B "TP/1.1\r\nHost: milkv\r\nContent-Le", B "ngth: 7\r\n\r", B "\na=1&",
          B "b=2"] =
      WS_RunServer (oneFileTable none none (some [B "a", B "b"]) (echoArg ArgView.post (B "b"))) 0
        (WS_ResetWebServer 0 acceptedWeb)
        (requestBytes (B "POST / HTTP/1.1\r") [B "Host: milkv\r", B "Content-Length: 7\r"] 1
          (B "a=1&b=2")) ∧
    sentBytes (WS_RunServer
        (oneFileTable none none (some [B "a", B "b"]) (echoArg ArgView.post (B "b"))) 0
        (WS_ResetWebServer 0 acceptedWeb)
        (requestBytes (B "POST / HTTP/1.1\r") [B "Host: milkv\r", B "Content-Length: 7\r"] 1
          (B "a=1&b=2"))) = some (wholeReply (B "b=2")) :=
  ⟨by decide, by decide, by decide, by decide,
    C4_chunking_of_a_request_does_not_matter _ 0 0 acceptedWeb (B "POST / HTTP/1.1\r")
      [B "Host: milkv\r", B "Content-Length: 7\r"] 1 (B "a=1&b=2") _
      (by decide) (by decide) (by decide) (by decide) (by decide),
    by decide!⟩

/-- A line that fits with its line feed: it is stored without its carriage returns
from the cursor on, with a NUL after it, and the cursor is back at 0. -/
theorem getNextLineLoop_fits : ∀ (l : List Nat), 10 ∉ l → ∀ (rest : List Nat) (r : Nat)
    (Web : WebServer), Web.LineBuff.length = WS_LINE_BUFFER_SIZE →
    Web.LineBuffPos + (stripCR l).length + 1 ≤ WS_LINE_BUFFER_SIZE →
    getNextLineLoop (l ++ 10 :: rest) r Web =
      some ({ Web with
              LineBuff := Web.LineBuff.take Web.LineBuffPos ++
                (stripCR l ++ 0 :: Web.LineBuff.drop (Web.LineBuffPos + (stripCR l).length + 1))
              LineBuffPos := 0 }, (r : Int) + l.length + 1) := by
  intro l
  induction l with
  | nil =>
    intro _ rest r Web hL hp
    simp only [stripCR, List.filter_nil, List.length_nil, Nat.add_zero, WS_LINE_BUFFER_SIZE]
      at hp hL ⊢
    rw [List.nil_append, getNextLineLoop]
    simp only [show ¬ (10 : Nat) = 13 by decide, ↓reduceIte]
    rw [wr_some _ _ _ (by omega)]
    simp only [Option.map_some', List.nil_append, Nat.cast_zero, Int.add_zero]
    rw [List.set_eq_take_append_cons_drop, if_pos (by omega)]
  | cons c l ih =>
    intro hc rest r Web hL hp
    have hc10 : c ≠ 10 := fun e => hc (by simp [e])
    have ha : 10 ∉ l := fun e => hc (List.mem_cons_of_mem _ e)
    rw [List.cons_append, getNextLineLoop]
    by_cases h13 : c = 13
    · subst h13
      rw [stripCR_cons_cr] at hp ⊢
      simp only [↓reduceIte]
      rw [ih ha rest (r + 1) Web hL hp]
      simp only [List.length_cons]
      push_cast
      rw [show (r : Int) + 1 + (l.length : Int) + 1 = (r : Int) + ((l.length : Int) + 1) + 1 by
        omega]
    · rw [stripCR_cons_ne l h13] at hp ⊢
      simp only [List.length_cons, WS_LINE_BUFFER_SIZE] at hp hL
      simp only [h13, hc10, ↓reduceIte]
      rw [wr_some _ _ _ (by omega)]
      simp only [show ¬ (Web.LineBuffPos + 1 ≥ WS_LINE_BUFFER_SIZE) by
        simp only [WS_LINE_BUFFER_SIZE]; omega, ↓reduceIte]
      have key := ih ha rest (r + 1)
        { Web with LineBuff := Web.LineBuff.set Web.LineBuffPos c,
                   LineBuffPos := Web.LineBuffPos + 1 }
        (by simp [hL, WS_LINE_BUFFER_SIZE]) (by simp only [WS_LINE_BUFFER_SIZE]; omega)
      dsimp only at key
      rw [key]
      simp only [List.length_cons]
      have e1 : (Web.LineBuff.set Web.LineBuffPos c).take (Web.LineBuffPos + 1) =
          Web.LineBuff.take Web.LineBuffPos ++ [c] := take_set_succ _ _ _ (by omega)
      have e2 : (Web.LineBuff.set Web.LineBuffPos c).drop
          (Web.LineBuffPos + 1 + (stripCR l).length + 1) =
          Web.LineBuff.drop (Web.LineBuffPos + ((stripCR l).length + 1) + 1) := by
        rw [List.drop_set_of_lt _ _ (by omega)]
        congr 1
        omega
      rw [e1, e2]
      simp only [List.append_assoc, List.singleton_append, List.cons_append, List.nil_append]
      push_cast
      rw [show (r : Int) + 1 + (l.length : Int) + 1 = (r : Int) + ((l.length : Int) + 1) + 1 by
        omega]

/-- Bytes without a line feed that do not fit with what the line buffer holds:
`WS_GetNextLine` returns -1 with the line buffer full and the cursor back at 0,
whatever follows. -/
theorem getNextLineLoop_overflow : ∀ (a : List Nat), 10 ∉ a → ∀ (rest : List Nat) (r : Nat)
    (Web : WebServer), Web.LineBuff.length = WS_LINE_BUFFER_SIZE →
    Web.LineBuffPos < WS_LINE_BUFFER_SIZE →
    WS_LINE_BUFFER_SIZE ≤ Web.LineBuffPos + (stripCR a).length →
    getNextLineLoop (a ++ rest) r Web =
      some ({ Web with
              LineBuff := Web.LineBuff.take Web.LineBuffPos ++
                (stripCR a).take (WS_LINE_BUFFER_SIZE - Web.LineBuffPos)
              LineBuffPos := 0 }, -1) := by
  intro a
  induction a with
  | nil =>
    intro _ rest r Web _ hp hov
    simp only [stripCR, List.filter_nil, List.length_nil, Nat.add_zero] at hov
    omega
  | cons c a ih =>
    intro hc rest r Web hL hp hov
    have hc10 : c ≠ 10 := fun e => hc (by simp [e])
    have ha : 10 ∉ a := fun e => hc (List.mem_cons_of_mem _ e)
    rw [List.cons_append, getNextLineLoop]
    by_cases h13 : c = 13
    · subst h13
      rw [stripCR_cons_cr] at hov ⊢
      simp only [↓reduceIte]
      exact ih ha rest (r + 1) Web hL hp hov
    · rw [stripCR_cons_ne a h13] at hov ⊢
      simp only [List.length_cons, WS_LINE_BUFFER_SIZE] at hov hL hp
      simp only [h13, hc10, ↓reduceIte]
      rw [wr_some _ _ _ (by omega)]
      simp only [WS_LINE_BUFFER_SIZE]
      split_ifs with h1
      · have hp255 : Web.LineBuffPos = 255 := by omega
        have e : Web.LineBuff.set Web.LineBuffPos c =
            Web.LineBuff.take Web.LineBuffPos ++ (c :: stripCR a).take (256 - Web.LineBuffPos) := by
          rw [List.set_eq_take_append_cons_drop, if_pos (by omega), hp255,
            List.drop_of_length_le (by omega)]
          rfl
        rw [e]
      · have key := ih ha rest (r + 1)
          { Web with LineBuff := Web.LineBuff.set Web.LineBuffPos c,
                     LineBuffPos := Web.LineBuffPos + 1 }
          (by simp [hL, WS_LINE_BUFFER_SIZE]) (by simp only [WS_LINE_BUFFER_SIZE]; omega)
          (by simp only [WS_LINE_BUFFER_SIZE]; omega)
        dsimp only at key
        rw [key, take_set_succ _ _ _ (by omega)]
        simp only [WS_LINE_BUFFER_SIZE]
        rw [show 256 - Web.LineBuffPos = (256 - (Web.LineBuffPos + 1)) + 1 by omega,
          List.take_succ_cons]
        simp only [List.append_assoc, List.singleton_append]

/-- The automatic reply that `WS_StartReply` writes for a status other than 200 that
the file's function has not set. -/
theorem startReply_auto (Web : WebServer) (hst : Web.ReplyStatus ≠ ReplyStatus.Ok)
    (hu : Web.UserSetReplyStatus = false) (hc : Web.Con.State = ConnectState.Connected) :
    WS_StartReply Web =
      { Web with Con := { Web.Con with Sent := Web.Con.Sent ++ autoReply Web.ReplyStatus }
                 ReplyStarted := true } := by
  have e1 : B "\r\nServer: BittyHTTP\r\nContent-Length: " =
      B "\r\n" ++ (B "Server: BittyHTTP\r\n" ++ B "Content-Length: ") := by decide
  have e2 : B "\r\n\r\n" = B "\r\n" ++ B "\r\n" := by decide
  unfold WS_StartReply autoReply
  simp only [conWrite, hc, hst, hu, ne_eq, not_true_eq_false, not_false_eq_true, and_self,
    ↓reduceIte, e1, e2, List.append_assoc]

/-- The reply to a line that does not fit, on a connected session in which no
write has started. -/
theorem tooLongReply_auto (Web : WebServer) (st : ReplyStatus) (hst : st ≠ ReplyStatus.Ok)
    (hu : Web.UserSetReplyStatus = false) (hw : Web.WriteChunked = false)
    (hc : Web.Con.State = ConnectState.Connected) :
    tooLongReply Web st =
      { Web with ReplyStatus := st
                 ReplyStarted := true
                 State := WebServerState.Closed
                 Con := { Web.Con with State := ConnectState.Idle, SocketFD := -1,
                                       Sent := Web.Con.Sent ++ autoReply st } } := by
  unfold tooLongReply
  rw [startReply_auto { Web with ReplyStatus := st } hst hu hc]
  simp only [WS_EndReply, hw, Bool.false_eq_true, ↓reduceIte, SocketsCon_Close]

/-- `strncmp` of a stored line with a literal without NUL: the line begins with the
literal. -/
theorem startsWith_stored (s tail lit : List Nat) (hlit : NoNul lit) :
    startsWith (s ++ 0 :: tail) 0 lit = true ↔ lit <+: s := by
  unfold startsWith
  simp only [List.drop_zero, beq_iff_eq]
  constructor
  · intro h
    by_cases hn : lit.length ≤ s.length
    · rw [List.take_append_of_le_length hn] at h
      rw [← h]
      exact List.take_prefix _ _
    · exfalso
      have hlt : s.length < lit.length := by omega
      have h1 : (List.take lit.length (s ++ 0 :: tail))[s.length]? = some 0 := by
        rw [List.getElem?_take_of_lt hlt, List.getElem?_append_right (le_refl _)]
        simp
      rw [h] at h1
      exact hlit 0 (List.mem_iff_getElem?.2 ⟨_, h1⟩) rfl
  · rintro ⟨t, rfl⟩
    simp

theorem noNul_GET : NoNul (B "GET ") := by unfold NoNul; decide

theorem noNul_POST : NoNul (B "POST ") := by unfold NoNul; decide

/-- C12: for every request line that is read to its line feed and fits in the line
buffer, and that, as stored (without carriage returns), does not begin with the
bytes `GET ` or `POST `, the turn of the Request phase sets the reply status to
501 and advances to the Headers phase with the line feed used up; the page
properties and the argument storage are as before, for every table of files (the
table is not consulted). -/
theorem C12_other_methods_get_501 (m_Files : List FileInfo) (now : Nat) (Web : WebServer)
    (l rest : List Nat) (hl : 10 ∉ l) (hL : Web.LineBuff.length = WS_LINE_BUFFER_SIZE)
    (hp : Web.LineBuffPos = 0) (hfit : (stripCR l).length < WS_LINE_BUFFER_SIZE)
    (hs : Web.State = WebServerState.Request)
    (hg : ¬ B "GET " <+: stripCR l) (hpo : ¬ B "POST " <+: stripCR l) :
    serverTurn m_Files now Web (l ++ 10 :: rest) =
      some (.again
        { Web with
          LineBuff := stripCR l ++ 0 :: Web.LineBuff.drop ((stripCR l).length + 1)
          LineBuffPos := 0
          ReplyStatus := ReplyStatus.NotImplemented
          State := WebServerState.Headers } rest) := by
  have hline := getNextLineLoop_fits l hl rest 0 Web hL (by rw [hp]; omega)
  rw [hp, List.take_zero, List.nil_append, Nat.zero_add] at hline
  rw [serverTurn_request _ hs]
  unfold WS_GetNextLine
  rw [hline]
  have h0 : ¬ (((0 : Nat) : Int) + (l.length : Int) + 1 = 0) := by omega
  have h1 : ¬ (((0 : Nat) : Int) + (l.length : Int) + 1 < 0) := by omega
  simp only [h0, h1, ↓reduceIte, drop_line]
  have hg' : startsWith (stripCR l ++ 0 :: Web.LineBuff.drop ((stripCR l).length + 1)) 0
      (B "GET ") = false := by
    rw [Bool.eq_false_iff]
    intro h
    exact hg ((startsWith_stored _ _ _ noNul_GET).1 h)
  have hpo' : startsWith (stripCR l ++ 0 :: Web.LineBuff.drop ((stripCR l).length + 1)) 0
      (B "POST ") = false := by
    rw [Bool.eq_false_iff]
    intro h
    exact hpo ((startsWith_stored _ _ _ noNul_POST).1 h)
  unfold methodLine
  simp only [hg', hpo', Bool.false_eq_true, ↓reduceIte, Option.map_some', hs, nextState]

set_option maxRecDepth 1000000 in
theorem C12_other_methods_witness :
    (10 ∉ B "get / HTTP/1.1\r") ∧ freshWeb.LineBuff.length = WS_LINE_BUFFER_SIZE ∧
    freshWeb.LineBuffPos = 0 ∧
    (stripCR (B "get / HTTP/1.1\r")).length < WS_LINE_BUFFER_SIZE ∧
    freshWeb.State = WebServerState.Request ∧
    (¬ B "GET " <+: stripCR (B "get / HTTP/1.1\r")) ∧
    (¬ B "POST " <+: stripCR (B "get / HTTP/1.1\r")) ∧
    serverTurn (fileServerTable (B "hello")) 0 freshWeb (B "get / HTTP/1.1\r" ++ 10 :: B "\r\n") =
      some (.again
        { freshWeb with
          LineBuff := stripCR (B "get / HTTP/1.1\r") ++
            0 :: freshWeb.LineBuff.drop ((stripCR (B "get / HTTP/1.1\r")).length + 1)
          LineBuffPos := 0
          ReplyStatus := ReplyStatus.NotImplemented
          State := WebServerState.Headers } (B "\r\n")) :=
  ⟨by decide, by decide, by decide, by decide, by decide, by decide, by decide,
    C12_other_methods_get_501 (fileServerTable (B "hello")) 0 freshWeb (B "get / HTTP/1.1\r")
      (B "\r\n") (by decide) (by decide) (by decide) (by decide) (by decide) (by decide)
      (by decide)⟩

theorem runServer_succ (m_Files : List FileInfo) (now : Nat) (Web : WebServer) (bs : List Nat) :
    runServer m_Files now Web bs =
      match serverTurn m_Files now Web bs with
      | none => none
      | some (.done r) => some r
      | some (.again W rest) => runServerLoop m_Files now (bs.length + 2) W rest := by
  unfold runServer
  exact (runServerLoop_succ m_Files now (bs.length + 2) Web bs).trans (by
    cases serverTurn m_Files now Web bs with
    | none => rfl
    | some t => cases t <;> rfl)


/-- C13 (amended): a line of up to 255 bytes (one less than `WS_LINE_BUFFER_SIZE`), not
counting carriage returns and the line feed, is accepted by `WS_GetNextLine` at the
start of the line buffer: it is stored with a NUL after it and the number of bytes
used is returned. A line of 256 or more bytes makes it return -1 (out of space),
and in the Request phase `WS_RunServer` then writes the automatic 414 reply, closes
the connection and leaves the session in the Closed phase. -/
theorem C13_line_of_255_bytes_is_the_longest (m_Files : List FileInfo) (now : Nat)
    (Web : WebServer) (l rest : List Nat) (hl : 10 ∉ l)
    (hL : Web.LineBuff.length = WS_LINE_BUFFER_SIZE) (hp : Web.LineBuffPos = 0)
    (hs : Web.State = WebServerState.Request) (hu : Web.UserSetReplyStatus = false)
    (hw : Web.WriteChunked = false) (hc : Web.Con.State = ConnectState.Connected) :
    ((stripCR l).length < WS_LINE_BUFFER_SIZE →
      WS_GetNextLine Web (l ++ 10 :: rest) =
        some ({ Web with
                LineBuff := stripCR l ++ 0 :: Web.LineBuff.drop ((stripCR l).length + 1)
                LineBuffPos := 0 }, (l.length : Int) + 1)) ∧
    (WS_LINE_BUFFER_SIZE ≤ (stripCR l).length →
      WS_GetNextLine Web (l ++ 10 :: rest) =
        some ({ Web with LineBuff := (stripCR l).take WS_LINE_BUFFER_SIZE
                         LineBuffPos := 0 }, -1) ∧
      WS_RunServer m_Files now Web (l ++ 10 :: rest) =
        some { Web with
               LineBuff := (stripCR l).take WS_LINE_BUFFER_SIZE
               LineBuffPos := 0
               ReplyStatus := ReplyStatus.URITooLong
               ReplyStarted := true
               State := WebServerState.Closed
               Con := { Web.Con with State := ConnectState.Idle, SocketFD := -1,
                                     Sent := Web.Con.Sent ++ autoReply ReplyStatus.URITooLong } }) := by
  constructor
  · intro hfit
    have hline := getNextLineLoop_fits l hl rest 0 Web hL (by rw [hp]; omega)
    rw [hp, List.take_zero, List.nil_append, Nat.zero_add] at hline
    unfold WS_GetNextLine
    rw [hline]
    simp
  · intro hov
    have hline := getNextLineLoop_overflow l hl (10 :: rest) 0 Web hL
      (by rw [hp]; decide) (by rw [hp]; omega)
    rw [hp, List.take_zero, List.nil_append, Nat.sub_zero] at hline
    have hg : WS_GetNextLine Web (l ++ 10 :: rest) =
        some ({ Web with LineBuff := (stripCR l).take WS_LINE_BUFFER_SIZE
                         LineBuffPos := 0 }, -1) := hline
    refine ⟨hg, ?_⟩
    unfold WS_RunServer
    rw [runServer_succ, serverTurn_request _ hs, hg]
    simp only [Int.reduceNeg, Int.neg_eq_zero, one_ne_zero, ↓reduceIte, Int.neg_neg_iff_pos,
      zero_lt_one, Left.neg_neg_iff, Option.map_some']
    rw [tooLongReply_auto
      { Web with LineBuff := (stripCR l).take WS_LINE_BUFFER_SIZE, LineBuffPos := 0 }
      ReplyStatus.URITooLong (by decide) hu hw hc]

/-- C14: in the Headers phase, bytes of a header line without a line feed that do not
fit in the line buffer with what it holds of the line (so every header line of
more than `WS_LINE_BUFFER_SIZE` bytes, carriage returns not counted) make
`WS_RunServer` write the automatic reply `431 Request Header Fields Too Large`
whatever the reply status was, for every table of files (no function of a file is
called), close the connection and leave the session in the Closed phase, whatever
bytes follow. -/
theorem C14_header_line_too_long_gets_431 (m_Files : List FileInfo) (now : Nat)
    (Web : WebServer) (a rest : List Nat) (ha : 10 ∉ a)
    (hL : Web.LineBuff.length = WS_LINE_BUFFER_SIZE)
    (hp : Web.LineBuffPos < WS_LINE_BUFFER_SIZE)
    (hov : WS_LINE_BUFFER_SIZE ≤ Web.LineBuffPos + (stripCR a).length)
    (hs : Web.State = WebServerState.Headers) (hu : Web.UserSetReplyStatus = false)
    (hw : Web.WriteChunked = false) (hc : Web.Con.State = ConnectState.Connected) :
    WS_RunServer m_Files now Web (a ++ rest) =
      some { Web with
             LineBuff := Web.LineBuff.take Web.LineBuffPos ++
               (stripCR a).take (WS_LINE_BUFFER_SIZE - Web.LineBuffPos)
             LineBuffPos := 0
             ReplyStatus := ReplyStatus.RequestHeaderFieldsTooLarge
             ReplyStarted := true
             State := WebServerState.Closed
             Con := { Web.Con with
                      State := ConnectState.Idle, SocketFD := -1,
                      Sent := Web.Con.Sent ++
                        autoReply ReplyStatus.RequestHeaderFieldsTooLarge } } := by
  have hg : WS_GetNextLine Web (a ++ rest) = _ := getNextLineLoop_overflow a ha rest 0 Web hL hp hov
  unfold WS_RunServer
  rw [runServer_succ, serverTurn_headers _ hs, hg]
  simp only [Int.reduceNeg, Int.neg_eq_zero, one_ne_zero, ↓reduceIte, Int.neg_neg_iff_pos,
    zero_lt_one, Left.neg_neg_iff]
  rw [show (a ++ rest).length + 2 = ((a ++ rest).length + 1) + 1 by omega,
    runServerLoop_closed _ _ _ _ (tooLongReply_state _ _),
    tooLongReply_auto
      { Web with
        LineBuff := Web.LineBuff.take Web.LineBuffPos ++
          (stripCR a).take (WS_LINE_BUFFER_SIZE - Web.LineBuffPos)
        LineBuffPos := 0 }
      ReplyStatus.RequestHeaderFieldsTooLarge (by decide) hu hw hc]
  rfl

set_option maxRecDepth 1000000 in
theorem C13_line_witness :
    (10 ∉ B "GET / HTTP/1.1\r") ∧ freshWeb.LineBuff.length = WS_LINE_BUFFER_SIZE ∧
    freshWeb.LineBuffPos = 0 ∧ freshWeb.State = WebServerState.Request ∧
    (stripCR (B "GET / HTTP/1.1\r")).length < WS_LINE_BUFFER_SIZE ∧
    WS_GetNextLine freshWeb (B "GET / HTTP/1.1\r" ++ 10 :: B "\r\n") =
      some ({ freshWeb with
              LineBuff := stripCR (B "GET / HTTP/1.1\r") ++
                0 :: freshWeb.LineBuff.drop ((stripCR (B "GET / HTTP/1.1\r")).length + 1)
              LineBuffPos := 0 }, ((B "GET / HTTP/1.1\r").length : Int) + 1) :=
  ⟨by decide, by decide, by decide, by decide, by decide,
    (C13_line_of_255_bytes_is_the_longest (fileServerTable (B "hello")) 0 freshWeb
      (B "GET / HTTP/1.1\r") (B "\r\n") (by decide) (by decide) (by decide) (by decide)
      (by decide) (by decide) (by decide)).1 (by decide)⟩

set_option maxRecDepth 1000000 in
theorem C14_header_line_witness :
    (10 ∉ List.replicate 257 97) ∧
    ({ freshWeb with State := WebServerState.Headers,
                     ReplyStatus := ReplyStatus.NotFound } : WebServer).LineBuff.length
      = WS_LINE_BUFFER_SIZE ∧
    WS_LINE_BUFFER_SIZE ≤ 0 + (stripCR (List.replicate 257 97)).length ∧
    sentBytes (WS_RunServer (fileServerTable (B "hello")) 0
        { freshWeb with State := WebServerState.Headers, ReplyStatus := ReplyStatus.NotFound }
        (List.replicate 257 97 ++ B "\r\n\r\n"))
      = some (autoReply ReplyStatus.RequestHeaderFieldsTooLarge) :=
  ⟨by decide, by decide, by decide, by
    rw [C14_header_line_too_long_gets_431 (fileServerTable (B "hello")) 0
      { freshWeb with State := WebServerState.Headers, ReplyStatus := ReplyStatus.NotFound }
      (List.replicate 257 97) (B "\r\n\r\n") (by decide) (by decide) (by decide) (by decide)
      (by decide) (by decide) (by decide) (by decide)]
    rfl⟩

set_option maxRecDepth 1000000 in
/-- C15, what the code does: the request `GET /` with the header
`If-None-Match: "1.0.0.0"` for the file `/` of `FileServer.c` (not dynamic) is answered
with the status line `304 Not Modified` and the function of the file is not called,
but the reply is the automatic one: it has the header `Content-Length: 16` and, after
the empty line, the 16 bytes `304 Not Modified` as body. -/
theorem C15_not_modified_reply_has_a_body :
    sentBytes (WS_RunServer (fileServerTable (B "hello")) 0 freshWeb
        (B "GET / HTTP/1.1\r\nIf-None-Match: \"1.0.0.0\"\r\n\r\n"))
      = some (B "HTTP/1.1 304 Not Modified\r\nServer: BittyHTTP\r\nContent-Length: 16\r\n\r\n"
          ++ B "304 Not Modified") := by
  decide!

set_option maxRecDepth 1000000 in
/-- C17 fails as stated: the body `name=A%20B&age=30` has 17 bytes, so after the bytes
of the scenario with `Content-Length: 19` the session is in the Body phase and waits
for 2 more bytes; nothing has been sent and no function of a file has been called. -/
theorem C17_counterexample :
    (B "name=A%20B&age=30").length = 17 ∧
    (WS_RunServer (namedFileTable (B "/form") none none (some [B "name", B "age"])
          (echoArg ArgView.post (B "name"))) 0 freshWeb
        (B "POST /form HTTP/1.1\r\nContent-Length: 19\r\n\r\nname=A%20B&age=30")).map
      (fun w => (w.State, w.BodySize, w.Con.Sent)) = some (WebServerState.Body, 2, []) := by
  decide!

set_option maxRecDepth 1000000 in
/-- C17 (amended): when the bytes `POST /form HTTP/1.1` CRLF `Content-Length: 17` CRLF
CRLF `name=A%20B&age=30` are fed to a new session and `/form` declares the Post names
`[name, age]`, the request is completed by those bytes: the function of the file is
called, and in it `WS_POST("name")` is `A B` and `WS_POST("age")` is `30`. -/
theorem C17_post_form_scenario :
    sentBytes (WS_RunServer (namedFileTable (B "/form") none none (some [B "name", B "age"])
          (echoArg ArgView.post (B "name"))) 0 freshWeb
        (B "POST /form HTTP/1.1\r\nContent-Length: 17\r\n\r\nname=A%20B&age=30"))
      = some (wholeReply (B "name=A B")) ∧
    sentBytes (WS_RunServer (namedFileTable (B "/form") none none (some [B "name", B "age"])
          (echoArg ArgView.post (B "age"))) 0 freshWeb
        (B "POST /form HTTP/1.1\r\nContent-Length: 17\r\n\r\nname=A%20B&age=30"))
      = some (wholeReply (B "age=30")) ∧
    (WS_RunServer (namedFileTable (B "/form") none none (some [B "name", B "age"])
          (echoArg ArgView.post (B "age"))) 0 freshWeb
        (B "POST /form HTTP/1.1\r\nContent-Length: 17\r\n\r\nname=A%20B&age=30")).map
      (fun w => w.State) = some WebServerState.Request := by
  decide!

set_option maxRecDepth 1000000 in
/-- C18 fails as stated: (1) for Cookie names `[c]` and the header `Cookie: c=a%20b` the
function of the file gets `a%20b` from `WS_COOKIE("c")`, not the decoded `a b`: the
value is copied as it is. (2) For Cookie names `[a, b]` and the headers
`Cookie: a=1` and `Cookie: b=2`, the second header is stored over the value of `a`,
and `WS_COOKIE("a")` gives `Y2`. -/
theorem C18_counterexample :
    sentBytes (WS_RunServer (oneFileTable none (some [B "c"]) none
          (echoArg ArgView.cookie (B "c"))) 0 freshWeb
        (B "GET / HTTP/1.1\r\nCookie: c=a%20b\r\n\r\n"))
      = some (wholeReply (B "c=a%20b")) ∧
    sentBytes (WS_RunServer (oneFileTable none (some [B "a", B "b"]) none
          (echoArg ArgView.cookie (B "a"))) 0 freshWeb
        (B "GET / HTTP/1.1\r\nCookie: a=1\r\nCookie: b=2\r\n\r\n"))
      = some (wholeReply (B "a=Y2")) := by
  decide!


/-- Skipping the bytes equal to `c`: a run of `n` such bytes followed by another byte. -/
theorem skipWhileEq_append (c : Nat) (y : Nat) (post : List Nat) (hy : y ≠ c) :
    ∀ (n : Nat) (pre : List Nat) (fuel : Nat), n < fuel →
      skipWhileEq c fuel (pre ++ (List.replicate n c ++ y :: post)) pre.length =
        some (pre.length + n) := by
  intro n
  induction n with
  | zero =>
    intro pre fuel hf
    obtain ⟨f, rfl⟩ : ∃ f, fuel = f + 1 := ⟨fuel - 1, by omega⟩
    unfold skipWhileEq
    simp only [List.replicate_zero, List.nil_append, rd_at, hy, ↓reduceIte, Nat.add_zero]
  | succ n ih =>
    intro pre fuel hf
    obtain ⟨f, rfl⟩ : ∃ f, fuel = f + 1 := ⟨fuel - 1, by omega⟩
    unfold skipWhileEq
    simp only [List.replicate_succ, List.cons_append, rd_at, ↓reduceIte]
    have h := ih (pre ++ [c]) f (by omega)
    simp only [List.append_assoc, List.singleton_append, List.length_append,
      List.length_singleton] at h
    rw [h]
    congr 1
    omega

/-- One turn of the loop over the tags of `If-None-Match`: at bytes `j` without quote,
then a tag between quotes, then a comma or the end. -/
theorem etagLoop_step (Web : WebServer) (pre j tag : List Nat) (y : Nat) (post : List Nat)
    (fuel : Nat) (hj : ∀ x ∈ j, x ≠ 34 ∧ x ≠ 0)
    (hj0 : ∀ x, (j ++ [34]).head? = some x → x ≠ 42)
    (ht : ∀ x ∈ tag, x ≠ 34 ∧ x ≠ 0) (hy : y = 44 ∨ y = 0)
    (hL : Web.LineBuff = pre ++ (j ++ 34 :: (tag ++ 34 :: y :: post))) :
    etagLoop (fuel + 1) Web pre.length =
      etagLoop fuel
        (WS_ProcessETag { Web with LineBuff := pre ++ (j ++ 34 :: (tag ++ 0 :: y :: post)) }
          (startsWith Web.LineBuff pre.length (B "W/")) tag)
        (pre.length + j.length + 1 + tag.length + 1) := by
  have hrd : ∃ c, rd Web.LineBuff pre.length = some c ∧ c ≠ 0 ∧ c ≠ 42 := by
    rw [hL]
    cases j with
    | nil => exact ⟨34, by rw [List.nil_append, rd_at], by decide, by decide⟩
    | cons x j' =>
      refine ⟨x, by rw [List.cons_append, rd_at], (hj x (List.mem_cons_self _ _)).2, ?_⟩
      exact hj0 x (by simp)
  obtain ⟨c, hc, hc0, hc42⟩ := hrd
  have hlen : Web.LineBuff.length =
      pre.length + j.length + 1 + tag.length + 1 + 1 + post.length := by
    rw [hL]
    simp only [List.length_append, List.length_cons]
    omega
  have hq1 : skipUntil 34 (Web.LineBuff.length + 1) Web.LineBuff pre.length =
      some (pre.length + j.length) := by
    rw [hL]
    exact skipUntil_append 34 pre j 34 _ hj (Or.inl rfl) _ (by rw [← hL]; omega)
  have hL2 : Web.LineBuff = (pre ++ j) ++ 34 :: (tag ++ 34 :: y :: post) := by
    rw [hL, List.append_assoc]
  have hc1 : rd Web.LineBuff (pre.length + j.length) = some 34 := by
    rw [hL2]
    exact rd_at_eq _ _ _ _ (by simp)
  have hL3 : Web.LineBuff = (pre ++ j ++ [34]) ++ (tag ++ 34 :: y :: post) := by
    rw [hL]
    simp only [List.append_assoc, List.singleton_append]
  have hEnd : skipUntil 34 (Web.LineBuff.length + 1) Web.LineBuff (pre.length + j.length + 1) =
      some (pre.length + j.length + 1 + tag.length) := by
    have h := skipUntil_append 34 (pre ++ j ++ [34]) tag 34 (y :: post) ht (Or.inl rfl)
      (Web.LineBuff.length + 1) (by omega)
    rw [← hL3] at h
    simpa only [List.length_append, List.length_singleton] using h
  have hL4 : Web.LineBuff = (pre ++ j ++ [34] ++ tag) ++ 34 :: y :: post := by
    rw [hL]
    simp only [List.append_assoc, List.singleton_append, List.cons_append, List.nil_append]
  have hc2 : rd Web.LineBuff (pre.length + j.length + 1 + tag.length) = some 34 := by
    rw [hL4]
    exact rd_at_eq _ _ _ _ (by simp only [List.length_append, List.length_singleton])
  have hwr : wr Web.LineBuff (pre.length + j.length + 1 + tag.length) 0 =
      some (pre ++ (j ++ 34 :: (tag ++ 0 :: y :: post))) := by
    rw [hL4, wr_at_eq _ _ _ _ _ (by simp only [List.length_append, List.length_singleton])]
    simp only [List.append_assoc, List.singleton_append, List.cons_append, List.nil_append]
  have htag : ((pre ++ (j ++ 34 :: (tag ++ 0 :: y :: post))).drop
      (pre.length + j.length + 1)).take
        (pre.length + j.length + 1 + tag.length - (pre.length + j.length + 1)) = tag := by
    have h1 : pre ++ (j ++ 34 :: (tag ++ 0 :: y :: post)) =
        (pre ++ j ++ [34]) ++ (tag ++ 0 :: y :: post) := by
      simp only [List.append_assoc, List.singleton_append]
    rw [h1, List.drop_left' (by simp only [List.length_append, List.length_singleton]),
      Nat.add_sub_cancel_left, List.take_left' rfl]
  have hnxt : skipUntil 44 ((pre ++ (j ++ 34 :: (tag ++ 0 :: y :: post))).length + 1)
      (pre ++ (j ++ 34 :: (tag ++ 0 :: y :: post)))
      (pre.length + j.length + 1 + tag.length + 1) =
      some (pre.length + j.length + 1 + tag.length + 1) := by
    have h := skipUntil_append 44 (pre ++ j ++ [34] ++ tag ++ [0]) [] y post
      (by simp) hy ((pre ++ (j ++ 34 :: (tag ++ 0 :: y :: post))).length + 1) (by simp)
    have h1 : pre ++ j ++ [34] ++ tag ++ [0] ++ ([] ++ y :: post) =
        pre ++ (j ++ 34 :: (tag ++ 0 :: y :: post)) := by
      simp only [List.append_assoc, List.singleton_append, List.cons_append, List.nil_append]
    rw [h1] at h
    simpa only [List.length_append, List.length_singleton, List.length_nil, Nat.add_zero]
      using h
  rw [etagLoop]
  simp only [hc, hc0, hc42, ↓reduceIte, hq1, hc1, hEnd, hc2, hwr]
  simp only [show ((34 : Nat) = 0) = False from by simp, ↓reduceIte, htag, hnxt]

theorem B_weak : B "W/" = [87, 47] := by decide

theorem B_ifNoneMatch :
    B "If-None-Match:" = [73, 102, 45, 78, 111, 110, 101, 45, 77, 97, 116, 99, 104, 58] := by
  decide

/-- The bytes before the opening quote of an item hold neither a quote nor a NUL. -/
theorem etagItem_front (sp : Nat) (weak : Bool) :
    ∀ x ∈ List.replicate sp 32 ++ (if weak then B "W/" else []), x ≠ 34 ∧ x ≠ 0 := by
  intro x hx
  rw [List.mem_append] at hx
  rcases hx with hx | hx
  · rw [List.eq_of_mem_replicate hx]
    decide
  · cases weak with
    | false => simp at hx
    | true =>
      rw [if_pos rfl, B_weak] at hx
      simp only [List.mem_cons, List.mem_singleton, List.not_mem_nil, or_false] at hx
      rcases hx with rfl | rfl <;> decide

/-- What follows an item is a comma or the NUL that ends the line. -/
theorem etagTail_head (items : List (Nat × Bool × List Nat)) (rest : List Nat) :
    ∃ y post, (y = 44 ∨ y = 0) ∧ etagTail items ++ 0 :: rest = y :: post := by
  cases items with
  | nil => exact ⟨0, rest, Or.inr rfl, rfl⟩
  | cons i items => exact ⟨44, _, Or.inl rfl, rfl⟩

/-- The comparison of one tag changes the reply status only. -/
theorem processETag_eq (W : WebServer) (wk : Bool) (t : List Nat) :
    WS_ProcessETag W wk t =
      { W with ReplyStatus :=
          if W.PageProp.DynamicFile = false ∧ t = DOCVER then ReplyStatus.NotModified
          else W.ReplyStatus } := by
  unfold WS_ProcessETag
  split <;> rfl

/-- The loop over the tags, started at a comma or at the end of the line: every tag is
compared with `DOCVER`. -/
theorem etagLoop_tail : ∀ (items : List (Nat × Bool × List Nat)) (Web : WebServer)
    (pre rest : List Nat) (fuel : Nat),
    (∀ i ∈ items, ∀ c ∈ i.2.2, c ≠ 34 ∧ c ≠ 0) →
    Web.LineBuff = pre ++ (etagTail items ++ 0 :: rest) → items.length < fuel →
    etagLoop fuel Web pre.length =
      some ({ Web with
              LineBuff := pre ++ (etagTailDone items ++ 0 :: rest)
              ReplyStatus :=
                if Web.PageProp.DynamicFile = false ∧ (∃ i ∈ items, i.2.2 = DOCVER) then
                  ReplyStatus.NotModified
                else Web.ReplyStatus }, false) := by
  intro items
  induction items with
  | nil =>
    intro Web pre rest fuel _ hL hf
    obtain ⟨f, rfl⟩ : ∃ f, fuel = f + 1 := ⟨fuel - 1, by omega⟩
    have hrd : rd Web.LineBuff pre.length = some 0 := by
      rw [hL]
      exact rd_at _ _ _
    rw [etagLoop]
    simp only [hrd, ↓reduceIte, List.not_mem_nil, false_and, exists_false, and_false]
    have hL0 : pre ++ (etagTailDone [] ++ 0 :: rest) = Web.LineBuff := hL.symm
    rw [hL0]
  | cons i items ih =>
    intro Web pre rest fuel htags hL hf
    obtain ⟨f, rfl⟩ : ∃ f, fuel = f + 1 := ⟨fuel - 1, by omega⟩
    obtain ⟨sp, weak, tag⟩ := i
    obtain ⟨y, post, hy, hpost⟩ := etagTail_head items rest
    have ht : ∀ c ∈ tag, c ≠ 34 ∧ c ≠ 0 := htags (sp, weak, tag) (List.mem_cons_self _ _)
    have hL1 : Web.LineBuff =
        pre ++ ((44 :: (List.replicate sp 32 ++ (if weak then B "W/" else []))) ++
          34 :: (tag ++ 34 :: y :: post)) := by
      rw [hL, ← hpost]
      simp only [etagTail, etagItem, List.append_assoc, List.cons_append, List.singleton_append,
        List.nil_append]
    have hj : ∀ x ∈ 44 :: (List.replicate sp 32 ++ (if weak then B "W/" else [])),
        x ≠ 34 ∧ x ≠ 0 := by
      intro x hx
      rcases List.mem_cons.1 hx with rfl | hx
      · decide
      · exact etagItem_front sp weak x hx
    rw [etagLoop_step Web pre _ tag y post f hj (by intro x hx; simp at hx; omega) ht hy hL1]
    have hpre : pre.length +
        (44 :: (List.replicate sp 32 ++ (if weak then B "W/" else []))).length + 1 +
          tag.length + 1 =
        (pre ++ ((44 :: (List.replicate sp 32 ++ (if weak then B "W/" else []))) ++
          34 :: (tag ++ [0]))).length := by
      simp only [List.length_append, List.length_cons, List.length_nil]
      omega
    rw [hpre]
    rw [ih _ _ rest f (fun i hi => htags i (List.mem_cons_of_mem _ hi))
      (by
        rw [processETag_eq]
        dsimp only
        rw [← hpost]
        simp only [List.append_assoc, List.cons_append, List.singleton_append,
          List.nil_append])
      (by simp only [List.length_cons] at hf; omega)]
    congr 1
    rw [processETag_eq]
    dsimp only
    by_cases hd : Web.PageProp.DynamicFile = false
    · by_cases htg : tag = DOCVER
      · simp only [hd, htg, and_self, ↓reduceIte, true_and, List.mem_cons, exists_eq_or_imp,
          true_or, etagTailDone, etagItemDone, List.append_assoc, List.cons_append,
          List.singleton_append, List.nil_append, ite_self]
      · simp only [hd, htg, and_false, ↓reduceIte, true_and, List.mem_cons, exists_eq_or_imp,
          false_or, etagTailDone, etagItemDone, List.append_assoc, List.cons_append,
          List.singleton_append, List.nil_append]
    · simp only [hd, Bool.true_eq_false, false_and, ↓reduceIte, etagTailDone, etagItemDone,
        List.append_assoc, List.cons_append, List.singleton_append, List.nil_append]

theorem etagTail_length (items : List (Nat × Bool × List Nat)) :
    items.length ≤ (etagTail items).length := by
  induction items with
  | nil => exact Nat.le_refl _
  | cons i items ih =>
    simp only [etagTail, List.length_cons, List.length_append]
    omega

/-- A buffer begins with the literal it was built from. -/
theorem startsWith_self (lit x : List Nat) : startsWith (lit ++ x) 0 lit = true := by
  unfold startsWith
  simp

/-- A line that begins with `If-None-Match:` is neither a `Cookie:` line nor a
`Content-Length:` line: the rest of `WS_ProcessHeader` leaves the session as it is. -/
theorem processHeaderRest_ifNoneMatch (W : WebServer) (x : List Nat)
    (h : W.LineBuff = B "If-None-Match:" ++ x) : processHeaderRest W = some W := by
  have h0 : rd W.LineBuff 0 = some 73 := by
    rw [h, B_ifNoneMatch]
    rfl
  have hck : startsWith W.LineBuff 0 (B "Cookie:") = false := by
    rw [Bool.eq_false_iff]
    intro hs
    have := startsWith_rd hs 0 (by decide)
    rw [h0] at this
    exact absurd this (by decide)
  have hcl : startsWith W.LineBuff 0 (B "Content-Length:") = false := by
    rw [Bool.eq_false_iff]
    intro hs
    have := startsWith_rd hs 0 (by decide)
    rw [h0] at this
    exact absurd this (by decide)
  unfold processHeaderRest
  simp only [hck, hcl, Bool.false_eq_true, ↓reduceIte]

theorem length_ifNoneMatch : (B "If-None-Match:").length = 14 := by decide

/-- C16: for a line `If-None-Match:` followed by a well-formed list of tags (each item:
spaces, an optional `W/`, the tag between double quotes; items separated by commas;
a tag holds neither a double quote nor a NUL), `WS_ProcessHeader` returns, and the
reply status is 304 when the file is not dynamic and one of the tags is `DOCVER`,
and is as before otherwise; of the session only the line buffer (closing quotes
replaced by NUL) and the reply status change. For a value that begins with `*`
(after spaces) the session is not changed at all. -/
theorem C16_if_none_match_list (Web : WebServer) (items : List (Nat × Bool × List Nat))
    (rest : List Nat) (sp : Nat) (more : List Nat) :
    ((∀ i ∈ items, ∀ c ∈ i.2.2, c ≠ 34 ∧ c ≠ 0) →
      Web.LineBuff = B "If-None-Match:" ++ (etagList items ++ 0 :: rest) →
      WS_ProcessHeader Web =
        some { Web with
               LineBuff := B "If-None-Match:" ++ (etagListDone items ++ 0 :: rest)
               ReplyStatus :=
                 if Web.PageProp.DynamicFile = false ∧ (∃ i ∈ items, i.2.2 = DOCVER) then
                   ReplyStatus.NotModified
                 else Web.ReplyStatus }) ∧
    (Web.LineBuff = B "If-None-Match:" ++ (List.replicate sp 32 ++ 42 :: more) →
      WS_ProcessHeader Web = some Web) := by
  constructor
  · intro htags hL
    have hsw : startsWith Web.LineBuff 0 (B "If-None-Match:") = true := by
      rw [hL]
      exact startsWith_self _ _
    cases items with
    | nil =>
      have hskip : skipWhileEq 32 (Web.LineBuff.length + 1) Web.LineBuff 14 = some 14 := by
        have h := skipWhileEq_append 32 0 rest (by decide) 0 (B "If-None-Match:")
          (Web.LineBuff.length + 1) (by omega)
        have hL0 : B "If-None-Match:" ++ (List.replicate 0 32 ++ 0 :: rest) = Web.LineBuff :=
          hL.symm
        rw [length_ifNoneMatch, hL0] at h
        exact h
      have hloop := etagLoop_tail [] Web (B "If-None-Match:") rest (Web.LineBuff.length + 1)
        (by intro i hi; cases hi) hL (by simp)
      rw [length_ifNoneMatch] at hloop
      unfold WS_ProcessHeader
      simp only [hsw, ↓reduceIte, hskip, hloop]
      exact processHeaderRest_ifNoneMatch _ _ rfl
    | cons i items =>
      obtain ⟨sp0, weak, tag⟩ := i
      obtain ⟨y, post, hy, hpost⟩ := etagTail_head items rest
      have ht : ∀ c ∈ tag, c ≠ 34 ∧ c ≠ 0 := htags (sp0, weak, tag) (List.mem_cons_self _ _)
      have hfront : ∃ z zs, z ≠ 32 ∧ z ≠ 42 ∧
          (if weak then B "W/" else []) ++ 34 :: (tag ++ 34 :: y :: post) = z :: zs := by
        cases weak with
        | false => exact ⟨34, _, by decide, by decide, rfl⟩
        | true => exact ⟨87, _, by decide, by decide, rfl⟩
      obtain ⟨z, zs, hz32, hz42, hzs⟩ := hfront
      have hL1 : Web.LineBuff = (B "If-None-Match:" ++ List.replicate sp0 32) ++
          ((if weak then B "W/" else []) ++ 34 :: (tag ++ 34 :: y :: post)) := by
        rw [hL, ← hpost]
        simp only [etagList, etagItem, List.append_assoc, List.cons_append,
          List.singleton_append, List.nil_append]
      have hskip : skipWhileEq 32 (Web.LineBuff.length + 1) Web.LineBuff 14 =
          some (14 + sp0) := by
        have h := skipWhileEq_append 32 z zs hz32 sp0 (B "If-None-Match:")
          (Web.LineBuff.length + 1) (by
            rw [hL1]
            simp only [List.length_append, List.length_replicate]
            omega)
        rw [length_ifNoneMatch, ← hzs, ← List.append_assoc, ← hL1] at h
        exact h
      have hj : ∀ x ∈ (if weak then B "W/" else []), x ≠ 34 ∧ x ≠ 0 := by
        intro x hx
        exact etagItem_front 0 weak x (by simpa using hx)
      have hj0 : ∀ x, ((if weak then B "W/" else []) ++ [34]).head? = some x → x ≠ 42 := by
        intro x hx
        cases weak with
        | false =>
          simp only [Bool.false_eq_true, ↓reduceIte, List.nil_append, List.head?_cons,
            Option.some.injEq] at hx
          omega
        | true =>
          rw [if_pos rfl, B_weak] at hx
          simp only [List.cons_append, List.head?_cons, Option.some.injEq] at hx
          omega
      have hstep := etagLoop_step Web (B "If-None-Match:" ++ List.replicate sp0 32)
        (if weak then B "W/" else []) tag y post Web.LineBuff.length hj hj0 ht hy hL1
      have hpre : (B "If-None-Match:" ++ List.replicate sp0 32).length = 14 + sp0 := by
        rw [List.length_append, length_ifNoneMatch, List.length_replicate]
      have hpre2 : (B "If-None-Match:" ++ List.replicate sp0 32).length +
          (if weak then B "W/" else []).length + 1 + tag.length + 1 =
          (B "If-None-Match:" ++ List.replicate sp0 32 ++
            ((if weak then B "W/" else []) ++ 34 :: (tag ++ [0]))).length := by
        simp only [List.length_append, List.length_cons, List.length_nil]
        omega
      rw [hpre2, processETag_eq] at hstep
      have htail := etagLoop_tail items
        { Web with
          LineBuff := (B "If-None-Match:" ++ List.replicate sp0 32) ++
            ((if weak then B "W/" else []) ++ 34 :: (tag ++ 0 :: y :: post))
          ReplyStatus :=
            if Web.PageProp.DynamicFile = false ∧ tag = DOCVER then ReplyStatus.NotModified
            else Web.ReplyStatus }
        (B "If-None-Match:" ++ List.replicate sp0 32 ++
            ((if weak then B "W/" else []) ++ 34 :: (tag ++ [0]))) rest Web.LineBuff.length
        (fun i hi => htags i (List.mem_cons_of_mem _ hi))
        (by
          dsimp only
          rw [← hpost]
          simp only [List.append_assoc, List.cons_append, List.singleton_append,
            List.nil_append])
        (by
          have h1 := etagTail_length items
          have h2 : (etagTail items).length < Web.LineBuff.length := by
            rw [hL]
            simp only [etagList, List.length_append, List.length_cons]
            omega
          omega)
      rw [hpre] at hstep
      dsimp only at hstep htail
      rw [htail] at hstep
      unfold WS_ProcessHeader
      simp only [hsw, ↓reduceIte, hskip, hstep]
      rw [processHeaderRest_ifNoneMatch _
        (List.replicate sp0 32 ++ ((if weak then B "W/" else []) ++
          34 :: (tag ++ 0 :: (etagTailDone items ++ 0 :: rest))))
        (by simp only [List.append_assoc, List.cons_append, List.singleton_append,
              List.nil_append])]
      congr 1
      by_cases hd : Web.PageProp.DynamicFile = false
      · by_cases htg : tag = DOCVER
        · simp only [hd, htg, and_self, ↓reduceIte, true_and, List.mem_cons, exists_eq_or_imp,
            true_or, etagListDone, etagItemDone, List.append_assoc, List.cons_append,
            List.singleton_append, List.nil_append, ite_self]
        · simp only [hd, htg, and_false, ↓reduceIte, true_and, List.mem_cons,
            exists_eq_or_imp, false_or, etagListDone, etagItemDone, List.append_assoc,
            List.cons_append, List.singleton_append, List.nil_append]
      · simp only [hd, Bool.true_eq_false, false_and, ↓reduceIte, etagListDone, etagItemDone,
          List.append_assoc, List.cons_append, List.singleton_append, List.nil_append]
  · intro hL
    have hsw : startsWith Web.LineBuff 0 (B "If-None-Match:") = true := by
      rw [hL]
      exact startsWith_self _ _
    have hskip : skipWhileEq 32 (Web.LineBuff.length + 1) Web.LineBuff 14 =
        some (14 + sp) := by
      have h := skipWhileEq_append 32 42 more (by decide) sp (B "If-None-Match:")
        (Web.LineBuff.length + 1) (by
          rw [hL]
          simp only [List.length_append, List.length_replicate]
          omega)
      rw [length_ifNoneMatch, ← hL] at h
      exact h
    have hrd : rd Web.LineBuff (14 + sp) = some 42 := by
      rw [hL, ← List.append_assoc]
      exact rd_at_eq _ _ _ _ (by
        rw [List.length_append, length_ifNoneMatch, List.length_replicate])
    unfold WS_ProcessHeader
    simp only [hsw, ↓reduceIte, hskip]
    rw [etagLoop]
    simp only [hrd, show ((42 : Nat) = 0) = False from by simp, ↓reduceIte]

set_option maxRecDepth 1000000 in
theorem C16_if_none_match_witness :
    (∀ i ∈ [(1, true, B "abc"), (1, false, DOCVER)], ∀ c ∈ i.2.2, c ≠ 34 ∧ c ≠ 0) ∧
    B "If-None-Match:" ++ (etagList [(1, true, B "abc"), (1, false, DOCVER)] ++
        0 :: List.replicate 222 0)
      = B "If-None-Match: W/\"abc\", \"1.0.0.0\"" ++ List.replicate 223 0 ∧
    (WS_ProcessHeader
        { freshWeb with
          LineBuff := B "If-None-Match:" ++
            (etagList [(1, true, B "abc"), (1, false, DOCVER)] ++
              0 :: List.replicate 222 0) }).map (fun w => w.ReplyStatus)
      = some ReplyStatus.NotModified ∧
    WS_ProcessHeader
        { freshWeb with
          LineBuff := B "If-None-Match:" ++ (List.replicate 1 32 ++ 42 :: List.replicate 240 0) }
      = some { freshWeb with
          LineBuff := B "If-None-Match:" ++
            (List.replicate 1 32 ++ 42 :: List.replicate 240 0) } :=
  ⟨by decide, by decide, by
    rw [(C16_if_none_match_list
      { freshWeb with
        LineBuff := B "If-None-Match:" ++
          (etagList [(1, true, B "abc"), (1, false, DOCVER)] ++ 0 :: List.replicate 222 0) }
      [(1, true, B "abc"), (1, false, DOCVER)] (List.replicate 222 0) 0 []).1
      (by decide) rfl]
    decide,
   (C16_if_none_match_list
      { freshWeb with
        LineBuff := B "If-None-Match:" ++ (List.replicate 1 32 ++ 42 :: List.replicate 240 0) }
      [] [] 1 (List.replicate 240 0)).2 rfl⟩

/-- A string with a terminator splits into its bytes, the NUL and the rest. -/
theorem cstrlen_split : ∀ (l : List Nat) (n : Nat), cstrlen l = some n →
    ∃ v r, l = v ++ 0 :: r ∧ v.length = n ∧ NoNul v := by
  intro l
  induction l with
  | nil => intro n h; simp [cstrlen] at h
  | cons c cs ih =>
    intro n h
    unfold cstrlen at h
    by_cases hc : c = 0
    · subst hc
      simp only [↓reduceIte, Option.some.injEq] at h
      subst h
      exact ⟨[], cs, rfl, rfl, by intro x hx; cases hx⟩
    · simp only [hc, ↓reduceIte, Option.map_eq_some'] at h
      obtain ⟨m, hm, rfl⟩ := h
      obtain ⟨v, r, rfl, hv, hn⟩ := ih m hm
      refine ⟨c :: v, r, rfl, by simp [hv], ?_⟩
      intro x hx
      rcases List.mem_cons.1 hx with rfl | hx
      · exact hc
      · exact hn x hx

theorem storedEntry_length_pos (o : Option (List Nat)) : 0 < (storedEntry o).length := by
  cases o <;> simp [storedEntry]

/-- `WS_SkipStorageArgs` steps over one stored entry. -/
theorem skipEntry_stored (pre : List Nat) (o : Option (List Nat)) (post : List Nat)
    (ho : ∀ v, o = some v → NoNul v) :
    skipEntry (pre ++ (storedEntry o ++ post)) pre.length =
      some (pre.length + (storedEntry o).length) := by
  cases o with
  | none =>
    unfold skipEntry
    simp only [storedEntry, List.singleton_append, rd_at, List.length_singleton]
    rfl
  | some v =>
    have hs : NoNul (89 :: v) := by
      intro x hx
      rcases List.mem_cons.1 hx with rfl | hx
      · decide
      · exact ho v rfl x hx
    have hA : pre ++ (storedEntry (some v) ++ post) = pre ++ ((89 :: v) ++ 0 :: post) := by
      simp [storedEntry]
    have hl := strlenAt_append pre (89 :: v) post hs
    have hr : rd (pre ++ ((89 :: v) ++ 0 :: post)) pre.length = some 89 := by
      rw [List.cons_append]
      exact rd_at _ _ _
    unfold skipEntry
    rw [hA, hr]
    simp only [↓reduceIte, hl, Option.map_some', storedEntry, List.length_cons,
      List.length_append, List.length_singleton, List.length_nil, Nat.zero_add]
    rfl

/-- `WS_SkipStorageArgs` steps over a section, one entry for each name. -/
theorem skipArgsLoop_section : ∀ (vals : List (Option (List Nat))) (names : List (List Nat))
    (pre post : List Nat), names.length = vals.length → (∀ v, some v ∈ vals → NoNul v) →
    skipArgsLoop (pre ++ (sectionBytes vals ++ post)) names pre.length =
      some (pre.length + (sectionBytes vals).length) := by
  intro vals
  induction vals with
  | nil =>
    intro names pre post hlen _
    cases names with
    | nil => rfl
    | cons _ _ => simp at hlen
  | cons o vals ih =>
    intro names pre post hlen hn
    cases names with
    | nil => simp at hlen
    | cons nm names =>
      have h1 := skipEntry_stored pre o (sectionBytes vals ++ post)
        (fun v hv => hn v (by rw [hv]; exact List.mem_cons_self _ _))
      have h2 := ih names (pre ++ storedEntry o) post (by simpa using hlen)
        (fun v hv => hn v (List.mem_cons_of_mem _ hv))
      unfold skipArgsLoop
      simp only [sectionBytes, List.append_assoc] at h1 h2 ⊢
      rw [h1]
      simp only [List.length_append] at h2 ⊢
      rw [h2]
      congr 1
      omega

/-- `WS_SkipStorageArgs` over a section for an optional list of names. -/
theorem skipStorage_section (names : Option (List (List Nat)))
    (vals : List (Option (List Nat))) (pre post : List Nat)
    (hlen : (names.getD []).length = vals.length) (hn : ∀ v, some v ∈ vals → NoNul v) :
    WS_SkipStorageArgs (pre ++ (sectionBytes vals ++ post)) pre.length names =
      some (pre.length + (sectionBytes vals).length) := by
  cases names with
  | none =>
    cases vals with
    | nil => rfl
    | cons _ _ => simp at hlen
  | some l => exact skipArgsLoop_section vals l pre post hlen hn

/-- The search of a name in a section gives the value of the first equal name, whatever
follows the section. -/
theorem findArgLoop_section : ∀ (vals : List (Option (List Nat))) (names : List (List Nat))
    (pre post Arg : List Nat), names.length = vals.length → (∀ v, some v ∈ vals → NoNul v) →
    argValue (pre ++ (sectionBytes vals ++ post))
        (findArgLoop (pre ++ (sectionBytes vals ++ post)) Arg names pre.length) =
      some (sectionLookup Arg names vals) := by
  intro vals
  induction vals with
  | nil =>
    intro names pre post Arg hlen _
    cases names with
    | nil => rfl
    | cons _ _ => simp at hlen
  | cons o vals ih =>
    intro names pre post Arg hlen hn
    cases names with
    | nil => simp at hlen
    | cons nm names =>
      unfold findArgLoop sectionLookup
      by_cases heq : cstr nm = cstr Arg
      · simp only [heq, ↓reduceIte]
        cases o with
        | none =>
          simp only [sectionBytes, storedEntry, List.singleton_append, List.cons_append,
            List.nil_append, rd_at, ↓reduceIte]
          rfl
        | some v =>
          have hv : NoNul v := hn v (List.mem_cons_self _ _)
          have hA : pre ++ (sectionBytes (some v :: vals) ++ post) =
              (pre ++ [89]) ++ (v ++ 0 :: (sectionBytes vals ++ post)) := by
            simp [sectionBytes, storedEntry]
          have hr : rd (pre ++ (sectionBytes (some v :: vals) ++ post)) pre.length = some 89 := by
            simp only [sectionBytes, storedEntry, List.cons_append]
            exact rd_at _ _ _
          have hc := cstrAt_append (pre ++ [89]) v (sectionBytes vals ++ post) hv
          rw [← hA, List.length_append, List.length_singleton] at hc
          rw [hr]
          simp only [show ((89 : Nat) = 78) = False from by simp, ↓reduceIte, argValue, hc,
            Option.map_some']
      · have h1 := skipEntry_stored pre o (sectionBytes vals ++ post)
          (fun v hv => hn v (by rw [hv]; exact List.mem_cons_self _ _))
        have h2 := ih names (pre ++ storedEntry o) post Arg (by simpa using hlen)
          (fun v hv => hn v (List.mem_cons_of_mem _ hv))
        simp only [sectionBytes, List.append_assoc] at h1 h2 ⊢
        simp only [heq, ↓reduceIte, h1]
        simp only [List.length_append] at h2
        exact h2

theorem rd_append_right (P X : List Nat) (k : Nat) : rd (P ++ X) (P.length + k) = X[k]? := by
  unfold rd
  rw [List.getElem?_append_right (Nat.le_add_right _ _), Nat.add_sub_cancel_left]

theorem wr_append_right (P X : List Nat) (k v : Nat) (h : k < X.length) :
    wr (P ++ X) (P.length + k) v = some (P ++ X.set k v) := by
  unfold wr
  rw [if_pos (by rw [List.length_append]; omega)]
  congr 1
  rw [List.set_append_right _ _ (Nat.le_add_right _ _), Nat.add_sub_cancel_left]

theorem set_eq_take_cons_drop_nat (X : List Nat) (n v : Nat) (h : n < X.length) :
    X.set n v = X.take n ++ v :: X.drop (n + 1) := by
  induction X generalizing n with
  | nil => simp at h
  | cons x X ih =>
    cases n with
    | zero => rfl
    | succ n =>
      simp only [List.set_cons_succ, List.take_succ_cons, List.drop_succ_cons, List.cons_append]
      rw [ih n (by simpa using h)]

/-- The loop of `WS_InsertCopy` that moves `k` bytes up by `c` bytes, from the last one to
the first one. -/
theorem insertShift_spec (P : List Nat) (c : Nat) : ∀ (k : Nat) (X : List Nat),
    c + k ≤ X.length →
    insertShift P.length c k (P ++ X) =
      some (P ++ (X.take c ++ (X.take k ++ X.drop (c + k)))) := by
  intro k
  induction k with
  | zero =>
    intro X _
    unfold insertShift
    simp only [List.take_zero, List.nil_append, Nat.add_zero, List.take_append_drop]
  | succ k ih =>
    intro X h
    have hk : k < X.length := by omega
    have hv : X[k]? = some X[k] := List.getElem?_eq_getElem hk
    have hset := set_eq_take_cons_drop_nat X (k + c) X[k] (by omega)
    unfold insertShift
    rw [rd_append_right, hv]
    dsimp only
    rw [Nat.add_assoc, wr_append_right P X (k + c) _ (by omega)]
    dsimp only
    rw [ih (X.set (k + c) X[k]) (by rw [List.length_set]; omega)]
    congr 2
    have ht1 : (X.set (k + c) X[k]).take c = X.take c := by
      rw [hset, List.take_append_of_le_length (by rw [List.length_take]; omega),
        List.take_take, Nat.min_eq_left (by omega)]
    have ht2 : (X.set (k + c) X[k]).take k = X.take k := by
      rw [hset, List.take_append_of_le_length (by rw [List.length_take]; omega),
        List.take_take, Nat.min_eq_left (by omega)]
    have ht3 : (X.set (k + c) X[k]).drop (c + k) = X[k] :: X.drop (c + (k + 1)) := by
      rw [hset, List.drop_left' (by rw [List.length_take]; omega)]
      congr 2
      omega
    rw [ht1, ht2, ht3, List.take_succ, hv]
    simp only [Option.toList_some, List.append_assoc, List.singleton_append]

/-- `WS_InsertCopy`: the bytes of `src` are inserted at the end of `P`, the `k` bytes that
were there move up, and what they run over is lost. -/
theorem insertCopy_spec (P X src : List Nat) (k : Nat) (h : src.length + k ≤ X.length) :
    WS_InsertCopy (P ++ X) P.length (P.length + k) src =
      some (P ++ (src ++ (X.take k ++ X.drop (src.length + k)))) := by
  unfold WS_InsertCopy
  rw [Nat.add_sub_cancel_left, insertShift_spec P src.length k X h]
  dsimp only
  have hb : P.length + src.length ≤
      (P ++ (X.take src.length ++ (X.take k ++ X.drop (src.length + k)))).length := by
    simp only [List.length_append, List.length_take, List.length_drop]
    omega
  rw [memcpyAt_spec _ _ _ hb, List.take_left' rfl, List.drop_append,
    List.drop_left' (by rw [List.length_take]; omega), List.append_assoc]

/-- `WS_InsertCopy` returns only when the moved bytes stay inside the buffer. -/
theorem insertCopy_bound (P X src A1 : List Nat) (k : Nat) (hs : src ≠ [])
    (h : WS_InsertCopy (P ++ X) P.length (P.length + k) src = some A1) :
    src.length + k ≤ X.length := by
  unfold WS_InsertCopy at h
  rw [Nat.add_sub_cancel_left] at h
  cases k with
  | zero =>
    unfold insertShift at h
    dsimp only at h
    have := memcpyAt_some hs h
    rw [List.length_append] at this
    omega
  | succ k =>
    unfold insertShift at h
    rw [rd_append_right] at h
    cases hv : X[k]? with
    | none => rw [hv] at h; simp at h
    | some v =>
      rw [hv] at h
      dsimp only at h
      cases hw : wr (P ++ X) (P.length + k + src.length) v with
      | none => rw [hw] at h; simp at h
      | some A2 =>
        have := (wr_eq hw).1
        rw [List.length_append] at this
        omega

theorem sectionBytes_none (n : Nat) :
    sectionBytes (List.replicate n none) = List.replicate n 78 := by
  induction n with
  | zero => rfl
  | succ n ih => simp only [List.replicate_succ, sectionBytes, storedEntry, ih,
      List.singleton_append]

/-- One declared cookie name: the marker at `Write` stays `N`, or becomes `Y` with the
value from the header inserted after it, the `t` bytes after the marker moving up. -/
theorem cookieStoreOne_spec (L : List Nat) (ArgsStart ArgCount : Nat) (nm : List Nat)
    (pre X : List Nat) (t : Nat) (A1 : List Nat) (W1 E1 : Nat) (flag : Bool) (ht : t ≤ X.length)
    (h : cookieStoreOne L ArgsStart ArgCount nm (pre ++ 78 :: X) pre.length
      (pre.length + 1 + t) = some (A1, W1, E1, flag)) :
    ∃ o X1, (∀ v, o = some v → NoNul v) ∧
      A1 = pre ++ (storedEntry o ++ (X.take t ++ X1)) ∧
      A1.length = (pre ++ 78 :: X).length ∧
      (flag = false → W1 = pre.length + (storedEntry o).length ∧ E1 = W1 + t) ∧
      (flag = true → o = none) := by
  have hkeep : pre ++ 78 :: X = pre ++ (storedEntry none ++ (X.take t ++ X.drop t)) := by
    simp [storedEntry]
  unfold cookieStoreOne at h
  cases hsk : skipWhileEq 32 (L.length + 1) L ArgsStart with
  | none => rw [hsk] at h; simp at h
  | some Start =>
    rw [hsk] at h
    dsimp only at h
    cases hscan : cookieScan nm ArgCount (L.length + 1) L 0 ArgsStart Start with
    | none => rw [hscan] at h; simp at h
    | some r =>
      obtain ⟨arg, Pos⟩ := r
      rw [hscan] at h
      dsimp only at h
      by_cases harg : arg < ArgCount
      · rw [if_pos harg] at h
        cases hlen : strlenAt L Pos with
        | none => rw [hlen] at h; simp at h
        | some Len =>
          rw [hlen, rd_at] at h
          dsimp only at h
          rw [if_neg (by decide)] at h
          by_cases hfull : pre.length + Len ≥ WS_OPT_ARG_MEMORY_SIZE
          · rw [if_pos hfull] at h
            simp only [Option.some.injEq, Prod.mk.injEq] at h
            obtain ⟨rfl, rfl, rfl, rfl⟩ := h
            exact ⟨none, X.drop t, fun v hv => Option.noConfusion hv, hkeep, rfl,
              fun hf => Bool.noConfusion hf, fun _ => rfl⟩
          · rw [if_neg hfull] at h
            obtain ⟨v, r, hvr, hvl, hvn⟩ := cstrlen_split _ _ hlen
            have hsrc : (L.drop Pos).take (Len + 1) = v ++ [0] := by
              rw [hvr, ← hvl]
              have : v ++ 0 :: r = (v ++ [0]) ++ r := by simp
              rw [this, List.take_left' (by simp)]
            rw [hsrc] at h
            have hA : pre ++ 78 :: X = (pre ++ [78]) ++ X := by simp
            have hd : pre.length + 1 = (pre ++ [78]).length := by simp
            rw [hA, hd] at h
            have hsome : ∃ A2, WS_InsertCopy ((pre ++ [78]) ++ X) (pre ++ [78]).length
                ((pre ++ [78]).length + t) (v ++ [0]) = some A2 := by
              cases hic : WS_InsertCopy ((pre ++ [78]) ++ X) (pre ++ [78]).length
                  ((pre ++ [78]).length + t) (v ++ [0]) with
              | none => rw [hic] at h; simp at h
              | some A2 => exact ⟨A2, rfl⟩
            obtain ⟨A2, hic⟩ := hsome
            have hbound := insertCopy_bound _ _ _ _ _ (by simp) hic
            rw [insertCopy_spec _ _ _ _ hbound] at h
            · dsimp only at h
              have hw : wr (pre ++ [78] ++ (v ++ [0] ++ (X.take t ++ X.drop ((v ++ [0]).length + t))))
                  pre.length 89 =
                  some (pre ++ 89 :: (v ++ [0] ++ (X.take t ++ X.drop ((v ++ [0]).length + t)))) := by
                rw [List.append_assoc, List.singleton_append]
                exact wr_at _ _ _ _
              rw [hw] at h
              simp only [Option.some.injEq, Prod.mk.injEq] at h
              obtain ⟨rfl, rfl, rfl, rfl⟩ := h
              refine ⟨some v, X.drop ((v ++ [0]).length + t), ?_, ?_, ?_, ?_, ?_⟩
              · intro v1 hv1
                injection hv1 with hv1
                subst hv1
                exact hvn
              · simp [storedEntry]
              · simp only [List.length_append, List.length_cons, List.length_take,
                  List.length_drop, List.length_nil] at hbound ⊢
                omega
              · intro _
                simp only [storedEntry, List.length_append, List.length_cons,
                  List.length_nil] at hd ⊢
                omega
              · intro hf; cases hf
      · rw [if_neg harg] at h
        simp only [Option.some.injEq, Prod.mk.injEq] at h
        obtain ⟨rfl, rfl, rfl, rfl⟩ := h
        exact ⟨none, X.drop t, fun v hv => Option.noConfusion hv, hkeep, rfl,
          fun _ => ⟨rfl, by omega⟩, fun _ => rfl⟩

/-- All declared cookie names: the markers `N` of the cookie section become the entries
of the section, the bytes `Y` that follow the section move up and follow it again. -/
theorem cookieStoreAll_spec (L : List Nat) (ArgsStart ArgCount : Nat) :
    ∀ (names : List (List Nat)) (pre Y Z A1 : List Nat) (flag : Bool),
    cookieStoreAll L ArgsStart ArgCount names
        (pre ++ (List.replicate names.length 78 ++ (Y ++ Z))) pre.length
        (pre.length + names.length + Y.length) = some (A1, flag) →
    ∃ cvals Z1, cvals.length = names.length ∧ (∀ v, some v ∈ cvals → NoNul v) ∧
      A1 = pre ++ (sectionBytes cvals ++ (Y ++ Z1)) ∧
      A1.length = (pre ++ (List.replicate names.length 78 ++ (Y ++ Z))).length := by
  intro names
  induction names with
  | nil =>
    intro pre Y Z A1 flag h
    unfold cookieStoreAll at h
    simp only [Option.some.injEq, Prod.mk.injEq] at h
    obtain ⟨rfl, _⟩ := h
    exact ⟨[], Z, rfl, fun v hv => absurd hv (List.not_mem_nil _), rfl, rfl⟩
  | cons nm names ih =>
    intro pre Y Z A1 flag h
    have hA : pre ++ (List.replicate (nm :: names).length 78 ++ (Y ++ Z)) =
        pre ++ 78 :: (List.replicate names.length 78 ++ (Y ++ Z)) := by
      simp [List.replicate_succ]
    have hE : pre.length + (nm :: names).length + Y.length =
        pre.length + 1 + (names.length + Y.length) := by
      simp only [List.length_cons]
      omega
    have htake : (List.replicate names.length 78 ++ (Y ++ Z)).take (names.length + Y.length) =
        List.replicate names.length 78 ++ Y := by
      rw [← List.append_assoc, List.take_left' (by simp)]
    rw [hA, hE] at h
    rw [hA]
    unfold cookieStoreAll at h
    cases hone : cookieStoreOne L ArgsStart ArgCount nm
        (pre ++ 78 :: (List.replicate names.length 78 ++ (Y ++ Z))) pre.length
        (pre.length + 1 + (names.length + Y.length)) with
    | none => rw [hone] at h; simp at h
    | some r =>
      obtain ⟨A2, W2, E2, fl⟩ := r
      rw [hone] at h
      obtain ⟨o, X1, hon, hA2, hlen2, hf, ht⟩ := cookieStoreOne_spec L ArgsStart ArgCount nm pre
        (List.replicate names.length 78 ++ (Y ++ Z)) (names.length + Y.length) A2 W2 E2 fl
        (by simp) hone
      rw [htake] at hA2
      cases fl with
      | true =>
        dsimp only at h
        simp only [Option.some.injEq, Prod.mk.injEq] at h
        obtain ⟨rfl, _⟩ := h
        have ho := ht rfl
        subst ho
        refine ⟨none :: List.replicate names.length none, X1, by simp, ?_, ?_, hlen2⟩
        · intro v hv
          rcases List.mem_cons.1 hv with hv | hv
          · cases hv
          · exact absurd (List.eq_of_mem_replicate hv) (by simp)
        · rw [hA2]
          simp only [sectionBytes, sectionBytes_none, List.append_assoc]
      | false =>
        dsimp only at h
        obtain ⟨hW, hE2⟩ := hf rfl
        have hA3 : A2 = (pre ++ storedEntry o) ++
            (List.replicate names.length 78 ++ (Y ++ X1)) := by
          rw [hA2]
          simp only [List.append_assoc]
        have hW3 : W2 = (pre ++ storedEntry o).length := by
          rw [hW, List.length_append]
        have hE3 : E2 = (pre ++ storedEntry o).length + names.length + Y.length := by
          rw [hE2, hW3]
          omega
        rw [hA3, hE3, hW3] at h
        obtain ⟨cvals, Z1, hcl, hcn, hA1, hlen1⟩ := ih (pre ++ storedEntry o) Y X1 A1 flag h
        refine ⟨o :: cvals, Z1, by simp [hcl], ?_, ?_, ?_⟩
        · intro v hv
          rcases List.mem_cons.1 hv with hv | hv
          · exact hon v hv.symm
          · exact hcn v hv
        · rw [hA1]
          simp only [sectionBytes, List.append_assoc]
        · rw [hlen1, ← hA3, hlen2]

/-- What a storage that is laid out in sections gives: `WS_GET` finds the value of the
Get section, and `WS_SkipStorageArgs` over the three lists ends after the Post
markers. -/
theorem layout_facts (Web : WebServer) (gvals cvals : List (Option (List Nat)))
    (rest : List Nat)
    (hg : gvals.length = (Web.PageProp.Gets.getD []).length)
    (hgn : ∀ v, some v ∈ gvals → NoNul v)
    (hc : cvals.length = (Web.PageProp.Cookies.getD []).length)
    (hcn : ∀ v, some v ∈ cvals → NoNul v)
    (hA : Web.ArgsStorage = sectionBytes gvals ++ (sectionBytes cvals ++
      (List.replicate (Web.PageProp.Posts.getD []).length 78 ++ rest))) :
    (∀ Arg, getValue Web Arg = some (sectionLookup Arg (Web.PageProp.Gets.getD []) gvals)) ∧
    endOfStorage Web = some ((sectionBytes gvals).length + (sectionBytes cvals).length +
      (Web.PageProp.Posts.getD []).length) := by
  have h1 := skipStorage_section Web.PageProp.Gets gvals []
    (sectionBytes cvals ++ (List.replicate (Web.PageProp.Posts.getD []).length 78 ++ rest))
    hg.symm hgn
  have h2 := skipStorage_section Web.PageProp.Cookies cvals (sectionBytes gvals)
    (List.replicate (Web.PageProp.Posts.getD []).length 78 ++ rest) hc.symm hcn
  have h3 := skipStorage_section Web.PageProp.Posts
    (List.replicate (Web.PageProp.Posts.getD []).length none)
    (sectionBytes gvals ++ sectionBytes cvals) rest (by simp)
    (fun v hv => absurd (List.eq_of_mem_replicate hv) (by simp))
  simp only [List.nil_append, List.length_nil, Nat.zero_add, sectionBytes_none,
    List.append_assoc, List.length_append, List.length_replicate, ← hA] at h1 h2 h3
  constructor
  · intro Arg
    unfold getValue WS_GET WS_FindArgInStorage
    cases hG : Web.PageProp.Gets with
    | none =>
      rw [hG] at hg
      cases gvals with
      | nil => rfl
      | cons _ _ => simp at hg
    | some l =>
      rw [hG] at hg
      have h4 := findArgLoop_section gvals l []
        (sectionBytes cvals ++ (List.replicate (Web.PageProp.Posts.getD []).length 78 ++ rest))
        Arg hg.symm hgn
      simp only [List.nil_append, List.length_nil, ← hA] at h4
      exact h4
  · unfold endOfStorage
    rw [h1]
    simp only [Option.some_bind, h2, h3]

/-- C19 (amended): a storage as `WS_ProcessGetVars` leaves it, the Get section (no stored
value holding a NUL) followed by one `N` for each Cookie name and each Post name.
When `WS_ProcessCookieVars` stays inside its buffers (it returns a session), the new
storage is the same Get section, a cookie section with one entry for each Cookie
name, and the Post markers after it; its length and the page properties are as
before, every `WS_GET` result is as before, and `WS_SkipStorageArgs` over the three
lists ends at the end of the stored data, before and after. -/
theorem C19_cookie_values_leave_get_section (Web W : WebServer)
    (gvals : List (Option (List Nat))) (rest : List Nat)
    (hg : gvals.length = (Web.PageProp.Gets.getD []).length)
    (hgn : ∀ v, some v ∈ gvals → NoNul v)
    (hA : Web.ArgsStorage = sectionBytes gvals ++
      (List.replicate (Web.PageProp.Cookies.getD []).length 78 ++
        (List.replicate (Web.PageProp.Posts.getD []).length 78 ++ rest)))
    (hrun : WS_ProcessCookieVars Web = some W) :
    ∃ cvals rest1, cvals.length = (Web.PageProp.Cookies.getD []).length ∧
      (∀ v, some v ∈ cvals → NoNul v) ∧
      W.ArgsStorage = sectionBytes gvals ++ (sectionBytes cvals ++
        (List.replicate (Web.PageProp.Posts.getD []).length 78 ++ rest1)) ∧
      W.ArgsStorage.length = Web.ArgsStorage.length ∧
      W.PageProp = Web.PageProp ∧
      (∀ Arg, getValue W Arg = getValue Web Arg) ∧
      endOfStorage Web = some ((sectionBytes gvals).length +
        (Web.PageProp.Cookies.getD []).length + (Web.PageProp.Posts.getD []).length) ∧
      endOfStorage W = some ((sectionBytes gvals).length + (sectionBytes cvals).length +
        (Web.PageProp.Posts.getD []).length) := by
  have hA0 : Web.ArgsStorage = sectionBytes gvals ++
      (sectionBytes (List.replicate (Web.PageProp.Cookies.getD []).length none) ++
        (List.replicate (Web.PageProp.Posts.getD []).length 78 ++ rest)) := by
    rw [sectionBytes_none]
    exact hA
  have hnone : ∀ v, some v ∈ List.replicate (Web.PageProp.Cookies.getD []).length
      (none : Option (List Nat)) → NoNul v :=
    fun v hv => absurd (List.eq_of_mem_replicate hv) (by simp)
  obtain ⟨hget0, hend0⟩ := layout_facts Web gvals _ rest hg hgn (by simp) hnone hA0
  rw [sectionBytes_none, List.length_replicate] at hend0
  -- the three calls of WS_SkipStorageArgs at the start of WS_ProcessCookieVars
  have h1 := skipStorage_section Web.PageProp.Gets gvals []
    (sectionBytes (List.replicate (Web.PageProp.Cookies.getD []).length none) ++
      (List.replicate (Web.PageProp.Posts.getD []).length 78 ++ rest)) hg.symm hgn
  have h2 := skipStorage_section Web.PageProp.Cookies
    (List.replicate (Web.PageProp.Cookies.getD []).length none) (sectionBytes gvals)
    (List.replicate (Web.PageProp.Posts.getD []).length 78 ++ rest) (by simp) hnone
  have h3 := skipStorage_section Web.PageProp.Posts
    (List.replicate (Web.PageProp.Posts.getD []).length none)
    (sectionBytes gvals ++ List.replicate (Web.PageProp.Cookies.getD []).length 78) rest
    (by simp) (fun v hv => absurd (List.eq_of_mem_replicate hv) (by simp))
  simp only [List.nil_append, List.length_nil, Nat.zero_add, sectionBytes_none,
    List.append_assoc, List.length_append, List.length_replicate, ← hA] at h1 h2 h3
  have hsame : ∃ cvals rest1, cvals.length = (Web.PageProp.Cookies.getD []).length ∧
      (∀ v, some v ∈ cvals → NoNul v) ∧
      W.ArgsStorage = sectionBytes gvals ++ (sectionBytes cvals ++
        (List.replicate (Web.PageProp.Posts.getD []).length 78 ++ rest1)) ∧
      W.ArgsStorage.length = Web.ArgsStorage.length ∧ W.PageProp = Web.PageProp := by
    have hstore : ∀ (L : List Nat) (as ac : Nat) (A1 : List Nat) (flag : Bool),
        cookieStoreAll L as ac (Web.PageProp.Cookies.getD []) Web.ArgsStorage
          (sectionBytes gvals).length
          ((sectionBytes gvals).length + (Web.PageProp.Cookies.getD []).length +
            (Web.PageProp.Posts.getD []).length) = some (A1, flag) →
        ∃ cvals rest1, cvals.length = (Web.PageProp.Cookies.getD []).length ∧
          (∀ v, some v ∈ cvals → NoNul v) ∧
          A1 = sectionBytes gvals ++ (sectionBytes cvals ++
            (List.replicate (Web.PageProp.Posts.getD []).length 78 ++ rest1)) ∧
          A1.length = Web.ArgsStorage.length := by
      intro L as ac A1 flag hs
      have hs2 : cookieStoreAll L as ac (Web.PageProp.Cookies.getD [])
          (sectionBytes gvals ++ (List.replicate (Web.PageProp.Cookies.getD []).length 78 ++
            (List.replicate (Web.PageProp.Posts.getD []).length 78 ++ rest)))
          (sectionBytes gvals).length
          ((sectionBytes gvals).length + (Web.PageProp.Cookies.getD []).length +
            (List.replicate (Web.PageProp.Posts.getD []).length 78).length) = some (A1, flag) := by
        rw [List.length_replicate, ← hA]
        exact hs
      obtain ⟨cvals, Z1, hcl, hcn, hA1, hl1⟩ := cookieStoreAll_spec L as ac _ _ _ _ _ _ hs2
      exact ⟨cvals, Z1, hcl, hcn, hA1, by rw [hl1, ← hA]⟩
    unfold WS_ProcessCookieVars at hrun
    dsimp only at hrun
    split at hrun
    · exact absurd hrun (by simp)
    · split at hrun
      · exact absurd hrun (by simp)
      · split at hrun
        · exact absurd hrun (by simp)
        · split at hrun
          · exact absurd hrun (by simp)
          · split at hrun
            · injection hrun with hrun
              subst hrun
              exact ⟨_, rest, by simp, hnone, hA0, rfl, rfl⟩
            · split at hrun
              · exact absurd hrun (by simp)
              · rw [h1] at hrun
                dsimp only at hrun
                rw [h2] at hrun
                dsimp only at hrun
                rw [h3] at hrun
                dsimp only at hrun
                split at hrun
                · exact absurd hrun (by simp)
                · rename_i A1 hst
                  injection hrun with hrun
                  subst hrun
                  obtain ⟨cvals, Z1, hcl, hcn, hA1, hl1⟩ := hstore _ _ _ _ _ hst
                  exact ⟨cvals, Z1, hcl, hcn, hA1, hl1, rfl⟩
                · rename_i A1 hst
                  injection hrun with hrun
                  subst hrun
                  obtain ⟨cvals, Z1, hcl, hcn, hA1, hl1⟩ := hstore _ _ _ _ _ hst
                  exact ⟨cvals, Z1, hcl, hcn, hA1, hl1, rfl⟩
  obtain ⟨cvals, rest1, hcl, hcn, hA1, hl1, hpp⟩ := hsame
  have hA1' : W.ArgsStorage = sectionBytes gvals ++ (sectionBytes cvals ++
      (List.replicate (W.PageProp.Posts.getD []).length 78 ++ rest1)) := by
    rw [hpp]
    exact hA1
  obtain ⟨hget1, hend1⟩ := layout_facts W gvals cvals rest1 (by rw [hpp]; exact hg) hgn
    (by rw [hpp]; exact hcl) hcn hA1'
  rw [hpp] at hget1 hend1
  exact ⟨cvals, rest1, hcl, hcn, hA1, hl1, hpp, fun Arg => by rw [hget1, hget0], hend0, hend1⟩

set_option maxRecDepth 1000000 in
/-- C19 fails as stated: for a file that declares the Get name `a`, the Cookie name `c`
and the Post name `p`, the request line `GET /?a=x%00zz HTTP/1.1` makes
`WS_ProcessGetVars` store the 8 bytes `Y x NUL z z NUL N N` without overflow (the
value of `a` is decoded in place and holds a NUL). The header `Cookie: c=v` then
gives `Y x NUL Y v NUL z N`: the bytes at the offsets 3 and 4, written for the Get
name, are overwritten, the markers `N N` of the offsets 6 and 7 are not moved up by
the 2 inserted bytes (the offsets 8 and 9 hold NUL), and `WS_SkipStorageArgs` over
the three lists ends at offset 7, not at the end of the 8 bytes in use. -/
theorem C19_counterexample :
    ((uriThenGetVars (sessionWith (some [B "a"]) (some [B "c"]) (some [B "p"])
        (B "GET /?a=x%00zz HTTP/1.1"))).map
      (fun w => (w.ArgsStorage.take 10, w.ReplyStatus))
      = some ([89, 120, 0, 122, 122, 0, 78, 78, 0, 0], ReplyStatus.MAX)) ∧
    (((uriThenGetVars (sessionWith (some [B "a"]) (some [B "c"]) (some [B "p"])
        (B "GET /?a=x%00zz HTTP/1.1"))).bind
      (fun w => WS_ProcessCookieVars
        { w with LineBuff := B "Cookie: c=v" ++ List.replicate 245 0 })).map
      (fun w => (w.ArgsStorage.take 10, w.ReplyStatus, endOfStorage w))
      = some ([89, 120, 0, 89, 118, 0, 122, 78, 0, 0], ReplyStatus.MAX, some 7)) := by
  decide!

set_option maxRecDepth 1000000 in
theorem C19_cookie_values_witness :
    ([some [49]] : List (Option (List Nat))).length =
      (cookieFrameExample.PageProp.Gets.getD []).length ∧
    cookieFrameExample.ArgsStorage = sectionBytes [some [49]] ++
      (List.replicate (cookieFrameExample.PageProp.Cookies.getD []).length 78 ++
        (List.replicate (cookieFrameExample.PageProp.Posts.getD []).length 78 ++
          List.replicate 95 0)) ∧
    WS_ProcessCookieVars cookieFrameExample =
      some { cookieFrameExample with
             ArgsStorage := 89 :: 49 :: 0 :: 89 :: 118 :: 0 :: 78 :: List.replicate 93 0 } ∧
    ∃ cvals rest1, cvals.length = (cookieFrameExample.PageProp.Cookies.getD []).length ∧
      (∀ v, some v ∈ cvals → NoNul v) ∧
      ({ cookieFrameExample with
         ArgsStorage := 89 :: 49 :: 0 :: 89 :: 118 :: 0 :: 78 :: List.replicate 93 0 }
        : WebServer).ArgsStorage = sectionBytes [some [49]] ++ (sectionBytes cvals ++
        (List.replicate (cookieFrameExample.PageProp.Posts.getD []).length 78 ++ rest1)) ∧
      ({ cookieFrameExample with
         ArgsStorage := 89 :: 49 :: 0 :: 89 :: 118 :: 0 :: 78 :: List.replicate 93 0 }
        : WebServer).ArgsStorage.length = cookieFrameExample.ArgsStorage.length ∧
      ({ cookieFrameExample with
         ArgsStorage := 89 :: 49 :: 0 :: 89 :: 118 :: 0 :: 78 :: List.replicate 93 0 }
        : WebServer).PageProp = cookieFrameExample.PageProp ∧
      (∀ Arg, getValue { cookieFrameExample with
          ArgsStorage := 89 :: 49 :: 0 :: 89 :: 118 :: 0 :: 78 :: List.replicate 93 0 } Arg
        = getValue cookieFrameExample Arg) ∧
      endOfStorage cookieFrameExample = some ((sectionBytes [some [49]]).length +
        (cookieFrameExample.PageProp.Cookies.getD []).length +
        (cookieFrameExample.PageProp.Posts.getD []).length) ∧
      endOfStorage { cookieFrameExample with
          ArgsStorage := 89 :: 49 :: 0 :: 89 :: 118 :: 0 :: 78 :: List.replicate 93 0 }
        = some ((sectionBytes [some [49]]).length + (sectionBytes cvals).length +
          (cookieFrameExample.PageProp.Posts.getD []).length) :=
  ⟨by decide, by decide, by decide!,
    C19_cookie_values_leave_get_section cookieFrameExample
      { cookieFrameExample with
        ArgsStorage := 89 :: 49 :: 0 :: 89 :: 118 :: 0 :: 78 :: List.replicate 93 0 }
      [some [49]] (List.replicate 95 0) (by decide)
      (by
        intro v hv
        simp only [List.mem_singleton, Option.some.injEq] at hv
        subst hv
        intro c hc
        simp only [List.mem_singleton] at hc
        omega)
      (by decide) (by decide!)⟩

/-- A buffer with a NUL holds a string. -/
theorem cstrlen_total : ∀ (L : List Nat) (n : Nat), rd L n = some 0 →
    ∃ m, cstrlen L = some m ∧ m ≤ n := by
  intro L
  induction L with
  | nil => intro n h; simp [rd] at h
  | cons c cs ih =>
    intro n h
    unfold cstrlen
    by_cases hc : c = 0
    · exact ⟨0, by simp [hc], Nat.zero_le _⟩
    · cases n with
      | zero => simp [rd] at h; exact absurd h hc
      | succ n =>
        have h1 : rd cs n = some 0 := by simpa [rd] using h
        obtain ⟨m, hm, hle⟩ := ih n h1
        exact ⟨m + 1, by simp [hc, hm], by omega⟩

/-- A string starts at every offset up to a NUL of the buffer. -/
theorem cstrAt_total (L : List Nat) (n p : Nat) (h : rd L n = some 0) (hp : p ≤ n) :
    ∃ s, cstrAt L p = some s := by
  have h1 : rd (L.drop p) (n - p) = some 0 := by
    unfold rd at h ⊢
    rw [List.getElem?_drop]
    rw [← h]
    congr 1
    omega
  obtain ⟨m, hm, _⟩ := cstrlen_total _ _ h1
  exact ⟨_, by unfold cstrAt strlenAt; rw [hm]; rfl⟩

/-- The scan for a byte stops at the latest at a NUL of the buffer. -/
theorem skipUntil_total (c : Nat) : ∀ (d fuel : Nat) (L : List Nat) (p n : Nat),
    rd L n = some 0 → p ≤ n → n - p = d → d < fuel →
    ∃ q, skipUntil c fuel L p = some q ∧ q ≤ n := by
  intro d
  induction d with
  | zero =>
    intro fuel L p n h hp hd hf
    obtain ⟨f, rfl⟩ : ∃ f, fuel = f + 1 := ⟨fuel - 1, by omega⟩
    have hpn : p = n := by omega
    subst hpn
    unfold skipUntil
    rw [h]
    exact ⟨p, by simp, Nat.le_refl _⟩
  | succ d ih =>
    intro fuel L p n h hp hd hf
    obtain ⟨f, rfl⟩ : ∃ f, fuel = f + 1 := ⟨fuel - 1, by omega⟩
    have hlt : p < L.length := by
      unfold rd at h
      have := (List.getElem?_eq_some_iff.1 h).1
      omega
    have hx : rd L p = some L[p] := by
      unfold rd
      exact List.getElem?_eq_getElem hlt
    unfold skipUntil
    rw [hx]
    dsimp only
    by_cases hcond : L[p] ≠ c ∧ L[p] ≠ 0
    · rw [if_pos hcond]
      exact ih f L (p + 1) n h (by omega) (by omega) (by omega)
    · rw [if_neg hcond]
      exact ⟨p, rfl, hp⟩

/-- The cut of a line into arguments stops at the latest at a NUL of the buffer, which
it leaves in place. -/
theorem breakUpArgs_total (sep : Nat) : ∀ (d fuel : Nat) (L : List Nat) (p n cnt : Nat),
    rd L n = some 0 → p ≤ n → n - p = d → d < fuel →
    ∃ L1 p1 c1, breakUpArgs sep fuel L p cnt = some (L1, p1, c1) ∧ L1.length = L.length ∧
      rd L1 n = some 0 := by
  intro d
  induction d with
  | zero =>
    intro fuel L p n cnt h hp hd hf
    obtain ⟨f, rfl⟩ : ∃ f, fuel = f + 1 := ⟨fuel - 1, by omega⟩
    have hpn : p = n := by omega
    subst hpn
    unfold breakUpArgs
    rw [h]
    exact ⟨L, p, cnt, by simp, rfl, h⟩
  | succ d ih =>
    intro fuel L p n cnt h hp hd hf
    obtain ⟨f, rfl⟩ : ∃ f, fuel = f + 1 := ⟨fuel - 1, by omega⟩
    have hlt : p < L.length := by
      unfold rd at h
      have := (List.getElem?_eq_some_iff.1 h).1
      omega
    have hx : rd L p = some L[p] := by
      unfold rd
      exact List.getElem?_eq_getElem hlt
    unfold breakUpArgs
    rw [hx]
    dsimp only
    by_cases h0 : L[p] = 0
    · rw [if_pos h0]
      exact ⟨L, p, cnt, rfl, rfl, h⟩
    · rw [if_neg h0]
      by_cases hs : L[p] = sep
      · rw [if_pos hs, wr_some _ _ _ hlt]
        dsimp only
        have hw : wr L p 0 = some (L.set p 0) := wr_some _ _ _ hlt
        have hn : rd (L.set p 0) n = some 0 := by
          rw [rd_wr_ne hw (by omega)]
          exact h
        obtain ⟨L1, p1, c1, h1, h2, h3⟩ := ih f (L.set p 0) (p + 1) n (cnt + 1) hn (by omega)
          (by omega) (by omega)
        exact ⟨L1, p1, c1, h1, by rw [h2, List.length_set], h3⟩
      · rw [if_neg hs]
        exact ih f L (p + 1) n cnt h (by omega) (by omega) (by omega)

theorem rd_lt {L : List Nat} {n v : Nat} (h : rd L n = some v) : n < L.length := by
  unfold rd at h
  exact (List.getElem?_eq_some_iff.1 h).1

theorem rd_some_of_lt {L : List Nat} {n : Nat} (h : n < L.length) : ∃ v, rd L n = some v :=
  ⟨L[n], by unfold rd; exact List.getElem?_eq_getElem h⟩

/-- `WS_ProcessCookieVars` for a file without declared names: it returns, and only the
line buffer can change (separators replaced by NUL). -/
theorem processCookieVars_quiet (W : WebServer) (n : Nat) (hg : W.PageProp.Gets = none)
    (hc : W.PageProp.Cookies = none) (hp : W.PageProp.Posts = none)
    (hn : rd W.LineBuff n = some 0) :
    ∃ L1, WS_ProcessCookieVars W = some { W with LineBuff := L1 } ∧
      L1.length = W.LineBuff.length ∧ rd L1 n = some 0 := by
  have hlen := rd_lt hn
  obtain ⟨p0, hp0, hp0n⟩ := skipUntil_total 58 n (W.LineBuff.length + 1) W.LineBuff 0 n hn
    (Nat.zero_le _) rfl (by omega)
  obtain ⟨c0, hc0⟩ := rd_some_of_lt (show p0 < W.LineBuff.length by omega)
  have hp1 : (if c0 = 58 then p0 + 1 else p0) ≤ n := by
    by_cases h : c0 = 58
    · rw [if_pos h]
      have : p0 ≠ n := by
        intro he
        rw [he, hn] at hc0
        injection hc0 with hc0
        omega
      omega
    · rw [if_neg h]; exact hp0n
  obtain ⟨c1, hc1⟩ := rd_some_of_lt
    (show (if c0 = 58 then p0 + 1 else p0) < W.LineBuff.length by omega)
  have hp2 : (if c1 = 32 then (if c0 = 58 then p0 + 1 else p0) + 1
      else (if c0 = 58 then p0 + 1 else p0)) ≤ n := by
    by_cases h : c1 = 32
    · rw [if_pos h]
      have : (if c0 = 58 then p0 + 1 else p0) ≠ n := by
        intro he
        rw [he, hn] at hc1
        injection hc1 with hc1
        omega
      omega
    · rw [if_neg h]; exact hp1
  obtain ⟨c2, hc2⟩ := rd_some_of_lt
    (show (if c1 = 32 then (if c0 = 58 then p0 + 1 else p0) + 1
      else (if c0 = 58 then p0 + 1 else p0)) < W.LineBuff.length by omega)
  unfold WS_ProcessCookieVars
  simp only [hp0, hc0, hc1, hc2]
  by_cases hz : c2 = 0
  · rw [if_pos hz]
    exact ⟨W.LineBuff, rfl, rfl, hn⟩
  · rw [if_neg hz]
    obtain ⟨L1, p1, k1, hb, hbl, hbn⟩ := breakUpArgs_total 59
      (n - (if c1 = 32 then (if c0 = 58 then p0 + 1 else p0) + 1
        else (if c0 = 58 then p0 + 1 else p0)))
      (W.LineBuff.length + 1) W.LineBuff
      (if c1 = 32 then (if c0 = 58 then p0 + 1 else p0) + 1
        else (if c0 = 58 then p0 + 1 else p0)) n 0 hn hp2 rfl (by omega)
    rw [hb]
    simp only [hg, hc, hp, WS_SkipStorageArgs, Option.getD_none, cookieStoreAll]
    exact ⟨L1, rfl, hbl, hbn⟩

/-- A line that begins with `Content-Length:` has its first NUL after these 15 bytes. -/
theorem contentLength_nul {L : List Nat} {n : Nat}
    (hs : startsWith L 0 (B "Content-Length:") = true) (hn : rd L n = some 0) : 15 ≤ n := by
  by_contra hlt
  have h := startsWith_rd hs n (by
    have : (B "Content-Length:").length = 15 := by decide
    omega)
  rw [hn] at h
  have hall : ∀ i, i < 15 → (B "Content-Length:")[i]? ≠ some 0 := by decide
  exact hall n (by omega) h.symm

/-- The rest of `WS_ProcessHeader` for a file without declared names: it returns, and
only the line buffer and the body size can change. -/
theorem processHeaderRest_quiet (W : WebServer) (n : Nat) (hg : W.PageProp.Gets = none)
    (hc : W.PageProp.Cookies = none) (hp : W.PageProp.Posts = none)
    (hn : rd W.LineBuff n = some 0) :
    ∃ L1 b, processHeaderRest W = some { W with LineBuff := L1, BodySize := b } ∧
      L1.length = W.LineBuff.length ∧ (b < 4294967296 ∨ b = W.BodySize) := by
  have hstep : ∃ L1, (if startsWith W.LineBuff 0 (B "Cookie:") then WS_ProcessCookieVars W
      else some W) = some { W with LineBuff := L1 } ∧ L1.length = W.LineBuff.length ∧
      rd L1 n = some 0 := by
    by_cases hck : startsWith W.LineBuff 0 (B "Cookie:") = true
    · rw [if_pos hck]
      exact processCookieVars_quiet W n hg hc hp hn
    · rw [if_neg hck]
      exact ⟨W.LineBuff, rfl, rfl, hn⟩
  obtain ⟨L1, h1, hl1, hn1⟩ := hstep
  unfold processHeaderRest
  simp only [h1]
  by_cases hcl : startsWith L1 0 (B "Content-Length:") = true
  · rw [if_pos hcl]
    have h15 := contentLength_nul hcl hn1
    obtain ⟨c, hc15⟩ := rd_some_of_lt (show 15 < L1.length by have := rd_lt hn1; omega)
    have hpos : (if c = 32 then 16 else 15) ≤ n := by
      by_cases h : c = 32
      · rw [if_pos h]
        have : n ≠ 15 := by
          intro he
          rw [he, hc15] at hn1
          injection hn1 with hn1
          omega
        omega
      · rw [if_neg h]; exact h15
    obtain ⟨s, hs⟩ := cstrAt_total L1 n _ hn1 hpos
    rw [hc15]
    dsimp only
    rw [hs]
    exact ⟨L1, toU32 (strtol 10 s), rfl, hl1, Or.inl (by unfold toU32; omega)⟩
  · rw [if_neg hcl]
    exact ⟨L1, W.BodySize, rfl, hl1, Or.inr rfl⟩

theorem stripCR_replicate_cr (cr : Nat) : stripCR (List.replicate cr 13) = [] := by
  unfold stripCR
  rw [List.filter_eq_nil_iff]
  intro a ha
  rw [List.eq_of_mem_replicate ha]
  decide

theorem not_mem_replicate_cr (cr : Nat) : 10 ∉ List.replicate cr 13 := by
  intro h
  have := List.eq_of_mem_replicate h
  omega

/-- One turn of the Headers phase reads a line that fits in the line buffer. -/
theorem serverTurn_headerLine (m_Files : List FileInfo) (now : Nat) (W : WebServer)
    (l rest : List Nat) (hl : 10 ∉ l) (hL : W.LineBuff.length = WS_LINE_BUFFER_SIZE)
    (hp : W.LineBuffPos = 0) (hfit : (stripCR l).length < WS_LINE_BUFFER_SIZE)
    (hs : W.State = WebServerState.Headers) :
    serverTurn m_Files now W (l ++ 10 :: rest) =
      (headerLine { W with
          LineBuff := stripCR l ++ 0 :: W.LineBuff.drop ((stripCR l).length + 1)
          LineBuffPos := 0 }).map (fun Web2 => .again Web2 rest) := by
  have hline := getNextLineLoop_fits l hl rest 0 W hL (by rw [hp]; omega)
  rw [hp, List.take_zero, List.nil_append, Nat.zero_add] at hline
  rw [serverTurn_headers _ hs]
  unfold WS_GetNextLine
  rw [hline]
  have h0 : ¬ (((0 : Nat) : Int) + (l.length : Int) + 1 = 0) := by omega
  have h1 : ¬ (((0 : Nat) : Int) + (l.length : Int) + 1 < 0) := by omega
  simp only [h0, h1, ↓reduceIte, drop_line]

theorem stored_length (W : WebServer) (s : List Nat)
    (hL : W.LineBuff.length = WS_LINE_BUFFER_SIZE) (hfit : s.length < WS_LINE_BUFFER_SIZE) :
    (s ++ 0 :: W.LineBuff.drop (s.length + 1)).length = WS_LINE_BUFFER_SIZE := by
  simp only [List.length_append, List.length_cons, List.length_drop, hL]
  omega

/-- A header line other than `If-None-Match:` that fits in the line buffer, for a request
on the way to the 404 reply: the turn returns and changes only the line buffer and
the body size. -/
theorem headerTurn_quiet (C : SocketCon) (m_Files : List FileInfo) (now : Nat) (W : WebServer)
    (h rest : List Nat) (hq : Quiet C W) (hs : W.State = WebServerState.Headers)
    (hp0 : W.LineBuffPos = 0) (hh : isHeaderLine h = true)
    (hfit : (stripCR h).length < WS_LINE_BUFFER_SIZE)
    (hinm : ¬ B "If-None-Match:" <+: stripCR h) :
    ∃ W2, serverTurn m_Files now W (h ++ 10 :: rest) = some (.again W2 rest) ∧ Quiet C W2 ∧
      W2.State = WebServerState.Headers ∧ W2.LineBuffPos = 0 ∧ W2.Req = W.Req ∧
      W2.PostState = W.PostState ∧
      W2.BodySize = (contentLengthOf (stripCR h ++ [0])).getD W.BodySize := by
  obtain ⟨q1, q2, q3, q4, q5, q6, q7, q8, q9, q10⟩ := hq
  unfold isHeaderLine at hh
  simp only [Bool.and_eq_true, Bool.not_eq_eq_eq_not, Bool.not_true] at hh
  obtain ⟨hl, hc⟩ := hh
  have hl : 10 ∉ h := by simpa using hl
  rw [serverTurn_headerLine m_Files now W h rest hl q8 hp0 hfit hs]
  cases hsc : stripCR h with
  | nil => rw [hsc] at hc; simp at hc
  | cons c t =>
    rw [hsc] at hc
    simp only [bne_iff_ne, ne_eq] at hc
    rw [← hsc]
    have hrd : rd (stripCR h ++ 0 :: W.LineBuff.drop ((stripCR h).length + 1)) 0 = some c := by
      rw [hsc]; simp [rd]
    have hnotinm : startsWith (stripCR h ++ 0 :: W.LineBuff.drop ((stripCR h).length + 1)) 0
        (B "If-None-Match:") = false := by
      rw [Bool.eq_false_iff]
      intro hsw
      exact hinm ((startsWith_stored _ _ _ (by unfold NoNul; decide)).1 hsw)
    obtain ⟨L1, b, hrest, hl1, hb⟩ := processHeaderRest_quiet
      { W with LineBuff := stripCR h ++ 0 :: W.LineBuff.drop ((stripCR h).length + 1)
               LineBuffPos := 0 } (stripCR h).length q5 q6 q7 (rd_at _ _ _)
    have hph : WS_ProcessHeader
        { W with LineBuff := stripCR h ++ 0 :: W.LineBuff.drop ((stripCR h).length + 1)
                 LineBuffPos := 0 } =
        some { W with LineBuff := L1, LineBuffPos := 0, BodySize := b } := by
      unfold WS_ProcessHeader
      dsimp only
      rw [hnotinm]
      simp only [Bool.false_eq_true, ↓reduceIte]
      exact hrest
    have hfr := (processHeader_frame hph).2.2
    dsimp only at hfr
    rw [contentLengthOf_locality] at hfr
    unfold headerLine
    dsimp only
    rw [hrd]
    simp only [hc, ↓reduceIte, hph, Option.map_some']
    refine ⟨_, rfl, ⟨q1, q2, q3, q4, q5, q6, q7, ?_, q9, ?_⟩, hs, rfl, rfl, rfl, hfr⟩
    · dsimp only
      rw [hl1]
      exact stored_length W _ q8 hfit
    · dsimp only
      rcases hb with hb | hb
      · exact hb
      · rw [hb]; exact q10

/-- The empty line that ends the headers: the turn moves to the Body phase. -/
theorem blankTurn_quiet (C : SocketCon) (m_Files : List FileInfo) (now : Nat) (W : WebServer)
    (cr : Nat) (rest : List Nat) (hq : Quiet C W) (hs : W.State = WebServerState.Headers)
    (hp0 : W.LineBuffPos = 0) :
    ∃ W2, serverTurn m_Files now W (List.replicate cr 13 ++ 10 :: rest) =
        some (.again W2 rest) ∧ Quiet C W2 ∧
      W2.State = WebServerState.Body ∧ W2.LineBuffPos = 0 ∧ W2.Req = W.Req ∧
      W2.PostState = W.PostState ∧ W2.BodySize = W.BodySize := by
  obtain ⟨q1, q2, q3, q4, q5, q6, q7, q8, q9, q10⟩ := hq
  rw [serverTurn_headerLine m_Files now W _ rest (not_mem_replicate_cr cr) q8 hp0
    (by rw [stripCR_replicate_cr]; decide) hs]
  rw [stripCR_replicate_cr]
  unfold headerLine
  simp only [List.nil_append, rd, List.getElem?_cons_zero, ↓reduceIte, Option.map_some', hs,
    nextState]
  refine ⟨_, rfl, ⟨q1, q2, q3, q4, q5, q6, q7, ?_, q9, q10⟩, rfl, rfl, rfl, rfl, rfl⟩
  have := stored_length W [] q8 (by decide)
  simpa using this

/-- A name that no file of the table has is not found, and the page properties stay. -/
theorem getFilePropertiesLoop_unknown (p : List Nat) (pp : WSPageProp) :
    ∀ (files : List FileInfo) (r : Nat), (∀ f ∈ files, cstr f.Filename ≠ p) →
      getFilePropertiesLoop p pp files r = (pp, false) := by
  intro files
  induction files with
  | nil => intro r _; rfl
  | cons f files ih =>
    intro r h
    unfold getFilePropertiesLoop
    rw [if_neg (fun he => h f (List.mem_cons_self _ _) he.symm)]
    exact ih (r + 1) (fun g hg => h g (List.mem_cons_of_mem _ hg))

/-- The request line of a file that is not known: the status becomes 404. -/
theorem requestLine_unknown (m_Files : List FileInfo) (W : WebServer) (req : ReqType)
    (M p qs tail : List Nat) (hMn : ∀ x ∈ M, x ≠ 63 ∧ x ≠ 0) (hp : ∀ x ∈ p, x ≠ 63 ∧ x ≠ 0)
    (hqs : qs = [] ∨ ∃ q, NoNul q ∧ qs = 63 :: q)
    (hL : W.LineBuff = M ++ p ++ qs ++ B " HTTP/1.1" ++ 0 :: tail)
    (hunk : ∀ f ∈ m_Files, cstr f.Filename ≠ p) :
    ∃ L2, requestLine m_Files W req M.length =
        some { W with Req := req, LineBuff := L2, ReplyStatus := ReplyStatus.NotFound } ∧
      L2.length = W.LineBuff.length := by
  have hhead : ∀ x ∈ M ++ p, x ≠ 63 ∧ x ≠ 0 := by
    intro x hx
    rcases List.mem_append.1 hx with hx | hx
    · exact hMn x hx
    · exact hp x hx
  have hpn : NoNul p := fun x hx => (hp x hx).2
  have hfs : ∀ pp, FS_GetFileProperties m_Files p pp = (pp, false) := fun pp =>
    getFilePropertiesLoop_unknown p pp m_Files 0 hunk
  rcases hqs with rfl | ⟨q, hq, rfl⟩
  · have huri := processURI_without_query { W with Req := req } (M ++ p) tail hhead (by
      dsimp only
      rw [hL]
      simp only [List.append_nil, List.append_assoc, List.singleton_append])
    have hc := cstrAt_append M p (0 :: (B "TTP/1.1" ++ [0] ++ tail)) hpn
    unfold requestLine
    rw [huri]
    dsimp only
    rw [List.append_assoc, hc]
    dsimp only
    rw [hfs]
    refine ⟨_, rfl, ?_⟩
    rw [hL]
    simp only [List.length_append, List.length_cons, List.length_nil]
    have h1 : (B " HTTP/1.1").length = 9 := by decide
    have h2 : (B "TTP/1.1").length = 7 := by decide
    omega
  · have huri := processURI_with_query { W with Req := req } (M ++ p) q tail hhead hq (by
      dsimp only
      rw [hL]
      simp only [List.append_assoc, List.singleton_append, List.cons_append, List.nil_append])
    have hc := cstrAt_append M p (q ++ 0 :: (B "HTTP/1.1" ++ [0] ++ tail)) hpn
    unfold requestLine
    rw [huri]
    dsimp only
    rw [List.append_assoc, hc]
    dsimp only
    rw [hfs]
    refine ⟨_, rfl, ?_⟩
    rw [hL]
    simp only [List.length_append, List.length_cons, List.length_nil]
    have h1 : (B " HTTP/1.1").length = 9 := by decide
    have h2 : (B "HTTP/1.1").length = 8 := by decide
    omega

/-- The turn of the Request phase for `GET` or `POST` of a file that is not known. -/
theorem requestTurn_unknown (C : SocketCon) (m_Files : List FileInfo) (now : Nat)
    (W : WebServer) (l rest M p qs : List Nat) (hl : 10 ∉ l)
    (hM : M = B "GET " ∨ M = B "POST ") (hp : ∀ x ∈ p, x ≠ 63 ∧ x ≠ 0)
    (hqs : qs = [] ∨ ∃ q, NoNul q ∧ qs = 63 :: q)
    (hstored : stripCR l = M ++ p ++ qs ++ B " HTTP/1.1")
    (hfit : (stripCR l).length < WS_LINE_BUFFER_SIZE)
    (hunk : ∀ f ∈ m_Files, cstr f.Filename ≠ p)
    (hq : Quiet C { W with ReplyStatus := ReplyStatus.NotFound })
    (hs : W.State = WebServerState.Request) (hp0 : W.LineBuffPos = 0) :
    ∃ W2, serverTurn m_Files now W (l ++ 10 :: rest) = some (.again W2 rest) ∧ Quiet C W2 ∧
      W2.State = WebServerState.Headers ∧ W2.LineBuffPos = 0 ∧ W2.BodySize = W.BodySize ∧
      W2.PostState = W.PostState ∧
      W2.Req = (if M = B "GET " then ReqType.Get else ReqType.Post) := by
  obtain ⟨q1, q2, q3, q4, q5, q6, q7, q8, q9, q10⟩ := hq
  dsimp only at q1 q2 q3 q4 q5 q6 q7 q8 q9 q10
  have hline := getNextLineLoop_fits l hl rest 0 W q8 (by rw [hp0]; omega)
  rw [hp0, List.take_zero, List.nil_append, Nat.zero_add] at hline
  rw [serverTurn_request _ hs]
  unfold WS_GetNextLine
  rw [hline]
  have h0 : ¬ (((0 : Nat) : Int) + (l.length : Int) + 1 = 0) := by omega
  have h1 : ¬ (((0 : Nat) : Int) + (l.length : Int) + 1 < 0) := by omega
  simp only [h0, h1, ↓reduceIte, drop_line]
  have hlen := stored_length W (stripCR l) q8 hfit
  have hL1 : stripCR l ++ 0 :: W.LineBuff.drop ((stripCR l).length + 1) =
      M ++ p ++ qs ++ B " HTTP/1.1" ++ 0 :: W.LineBuff.drop ((stripCR l).length + 1) := by
    rw [hstored]
  have hMn : ∀ x ∈ M, x ≠ 63 ∧ x ≠ 0 := by
    rcases hM with rfl | rfl <;> decide
  obtain ⟨L2, hreq, hl2⟩ := requestLine_unknown m_Files
    { W with LineBuff := stripCR l ++ 0 :: W.LineBuff.drop ((stripCR l).length + 1)
             LineBuffPos := 0 }
    (if M = B "GET " then ReqType.Get else ReqType.Post) M p qs
    (W.LineBuff.drop ((stripCR l).length + 1)) hMn hp hqs hL1 hunk
  have hsw : startsWith (stripCR l ++ 0 :: W.LineBuff.drop ((stripCR l).length + 1)) 0 M
      = true := by
    rw [hL1]
    simp only [List.append_assoc]
    exact startsWith_self _ _
  have hml : methodLine m_Files
      { W with LineBuff := stripCR l ++ 0 :: W.LineBuff.drop ((stripCR l).length + 1)
               LineBuffPos := 0 } =
      requestLine m_Files
        { W with LineBuff := stripCR l ++ 0 :: W.LineBuff.drop ((stripCR l).length + 1)
                 LineBuffPos := 0 }
        (if M = B "GET " then ReqType.Get else ReqType.Post) M.length := by
    unfold methodLine
    dsimp only
    rcases hM with rfl | rfl
    · rw [hsw]
      rfl
    · have hg : startsWith (stripCR l ++ 0 :: W.LineBuff.drop ((stripCR l).length + 1)) 0
          (B "GET ") = false := by
        rw [Bool.eq_false_iff]
        intro hg
        have h80 := startsWith_rd hsw 0 (by decide)
        have h71 := startsWith_rd hg 0 (by decide)
        rw [h80] at h71
        exact absurd h71 (by decide)
      rw [hg, hsw]
      rfl
  rw [hml, hreq]
  simp only [Option.map_some', hs, nextState]
  refine ⟨_, rfl, ⟨rfl, q2, q3, q4, q5, q6, q7, ?_, q9, q10⟩, rfl, rfl, rfl, rfl, rfl⟩
  dsimp only
  rw [hl2]
  exact hlen

/-- The two halves of `postByte`. -/
theorem postByte_halves (Web : WebServer) (c : Nat) :
    postByte Web c =
      match postByteFirst Web c with
      | none => none
      | some Web1 => postByteEnd Web1 := rfl

/-- The decoding in place returns on every buffer that holds a NUL, and keeps the length of
the buffer. -/
theorem urlDecodeInPlaceLoop_total : ∀ (d fuel : Nat) (b : List Nat) (r w n : Nat),
    rd b n = some 0 → w ≤ r → r ≤ n → n - r = d → d < fuel →
    ∃ b1 e, urlDecodeInPlaceLoop fuel b r w = some (b1, e) ∧ b1.length = b.length := by
  intro d
  induction d using Nat.strong_induction_on with
  | _ d ih =>
    intro fuel b r w n hn hw hr hd hf
    obtain ⟨f, rfl⟩ : ∃ f, fuel = f + 1 := ⟨fuel - 1, by omega⟩
    have hnl := rd_lt hn
    obtain ⟨c, hc⟩ := rd_some_of_lt (show r < b.length by omega)
    have hww : wr b w = fun v => some (b.set w v) := by
      funext v
      exact wr_some _ _ _ (by omega)
    unfold urlDecodeInPlaceLoop
    rw [hc]
    dsimp only
    by_cases h0 : c = 0
    · rw [if_pos h0, hww]
      exact ⟨_, _, rfl, List.length_set _ _ _⟩
    · rw [if_neg h0]
      have hrn : r < n := by
        rcases Nat.lt_or_ge r n with h | h
        · exact h
        · have : r = n := by omega
          rw [this, hn] at hc
          injection hc with hc
          exact absurd hc.symm h0
      have hkeep : ∀ v, rd (b.set w v) n = some 0 := by
        intro v
        rw [rd_wr_ne (wr_some b w v (by omega)) (by omega)]
        exact hn
      by_cases h37 : c = 37
      · rw [if_pos h37]
        obtain ⟨c0, hc0⟩ := rd_some_of_lt (show r + 1 < b.length by omega)
        rw [hc0]
        dsimp only
        have hr1 : (if c0 ≠ 0 then r + 2 else r + 1) ≤ n := by
          by_cases h : c0 ≠ 0
          · rw [if_pos h]
            have : r + 1 ≠ n := by
              intro he
              rw [he, hn] at hc0
              injection hc0 with hc0
              exact h hc0.symm
            omega
          · rw [if_neg h]; omega
        have hr1' : r < (if c0 ≠ 0 then r + 2 else r + 1) := by
          by_cases h : c0 ≠ 0
          · rw [if_pos h]; omega
          · rw [if_neg h]; omega
        obtain ⟨c1, hc1⟩ := rd_some_of_lt
          (show (if c0 ≠ 0 then r + 2 else r + 1) < b.length by omega)
        rw [hc1]
        dsimp only
        have hr2 : (if c1 ≠ 0 then (if c0 ≠ 0 then r + 2 else r + 1) + 1
            else (if c0 ≠ 0 then r + 2 else r + 1)) ≤ n := by
          by_cases h : c1 ≠ 0
          · rw [if_pos h]
            have : (if c0 ≠ 0 then r + 2 else r + 1) ≠ n := by
              intro he
              rw [he, hn] at hc1
              injection hc1 with hc1
              exact h hc1.symm
            omega
          · rw [if_neg h]; exact hr1
        have hr2' : r < (if c1 ≠ 0 then (if c0 ≠ 0 then r + 2 else r + 1) + 1
            else (if c0 ≠ 0 then r + 2 else r + 1)) := by
          by_cases h : c1 ≠ 0
          · rw [if_pos h]; omega
          · rw [if_neg h]; exact hr1'
        rw [hww]
        dsimp only
        obtain ⟨b1, e, h1, h2⟩ := ih _ (by omega) f (b.set w (toChar (strtol 16 (cstr [c0, c1, 0]))))
          _ (w + 1) n (hkeep _) (by omega) hr2 rfl (by omega)
        exact ⟨b1, e, h1, by rw [h2, List.length_set]⟩
      · rw [if_neg h37, hww]
        dsimp only
        obtain ⟨b1, e, h1, h2⟩ := ih (n - (r + 1)) (by omega) f (b.set w c) (r + 1) (w + 1) n
          (hkeep _) (by omega) (by omega) rfl (by omega)
        exact ⟨b1, e, h1, by rw [h2, List.length_set]⟩

theorem urlDecodeInPlace_total (b : List Nat) (n : Nat) (hn : rd b n = some 0) :
    ∃ b1 e, WS_URLDecodeInPlace b 0 = some (b1, e) ∧ b1.length = b.length := by
  have := rd_lt hn
  exact urlDecodeInPlaceLoop_total n (b.length + 1) b 0 0 n hn (Nat.le_refl _) (Nat.zero_le _)
    rfl (by omega)

/-- The copy of a value for a name that is not declared only empties the line buffer. -/
theorem copyLineBuffer_undeclared (W : WebServer) (hw : W.PostWritePos = none)
    (hlt : W.LineBuffPos < W.LineBuff.length) :
    WS_CopyLineBuffer2POSTVar W =
      some ({ W with LineBuff := W.LineBuff.set W.LineBuffPos 0, LineBuffPos := 0 }, true) := by
  unfold WS_CopyLineBuffer2POSTVar
  rw [wr_some _ _ _ hlt]
  dsimp only
  rw [hw]

/-- The second half of `postByte` when the name of the value is not declared. -/
theorem postByteEnd_undeclared (X : WebServer) (k : Nat) (hw : X.PostWritePos = none)
    (hlt : X.LineBuffPos < X.LineBuff.length) (hb : X.BodySize = k + 1)
    (hk : k + 1 < 4294967296) :
    postByteEnd X =
      some (if k = 0 ∧ X.PostState = WSPostState.GettingValue then
              { X with BodySize := k, LineBuff := X.LineBuff.set X.LineBuffPos 0,
                       PostState := WSPostState.GettingKey, LineBuffPos := 0 }
            else { X with BodySize := k }, false) := by
  have hdec : (X.BodySize + 4294967295) % 4294967296 = k := by omega
  have hcopy := copyLineBuffer_undeclared { X with BodySize := k } hw hlt
  simp only [postByteEnd, hdec]
  by_cases hcond : k = 0 ∧ X.PostState = WSPostState.GettingValue
  · rw [if_pos hcond, if_pos hcond, hcopy]
  · rw [if_neg hcond, if_neg hcond]

/-- The state of a POST body whose keys fit: a key of `n` bytes so far, or a value. -/
theorem postByte_finish (C : SocketCon) (W X : WebServer) (c : Nat) (cs : List Nat) (n1 : Nat)
    (hfirst : postByteFirst W c = some X) (hq : Quiet C { X with BodySize := cs.length })
    (hst : X.State = W.State) (hrq : X.Req = W.Req) (hb : X.BodySize = cs.length + 1)
    (hk : cs.length + 1 < 4294967296)
    (hinv : (X.PostState = WSPostState.GettingKey ∧ X.LineBuffPos = n1 ∧
        n1 + 1 < WS_LINE_BUFFER_SIZE ∧ postKeysFit true n1 cs = true) ∨
      (X.PostState = WSPostState.GettingValue ∧ X.LineBuffPos + 1 < WS_LINE_BUFFER_SIZE ∧
        postKeysFit false n1 cs = true)) :
    ∃ W1 n2, postByte W c = some (W1, false) ∧ Quiet C W1 ∧ W1.State = W.State ∧
      W1.Req = W.Req ∧ W1.BodySize = cs.length ∧
      ((W1.PostState = WSPostState.GettingKey ∧ W1.LineBuffPos = n2 ∧
          n2 + 1 < WS_LINE_BUFFER_SIZE ∧ postKeysFit true n2 cs = true) ∨
        (W1.PostState = WSPostState.GettingValue ∧ W1.LineBuffPos + 1 < WS_LINE_BUFFER_SIZE ∧
          postKeysFit false n2 cs = true)) := by
  obtain ⟨q1, q2, q3, q4, q5, q6, q7, q8, q9, q10⟩ := hq
  dsimp only at q1 q2 q3 q4 q5 q6 q7 q8 q9 q10
  have h256 : WS_LINE_BUFFER_SIZE = 256 := rfl
  have hlt : X.LineBuffPos < X.LineBuff.length := by
    rw [q8]
    rcases hinv with ⟨_, h2, h3, _⟩ | ⟨_, h2, _⟩ <;> omega
  have hend := postByteEnd_undeclared X cs.length q9 hlt hb hk
  rw [postByte_halves, hfirst]
  dsimp only
  rw [hend]
  by_cases hcond : cs.length = 0 ∧ X.PostState = WSPostState.GettingValue
  · rw [if_pos hcond]
    have hnil : cs = [] := List.length_eq_zero.1 hcond.1
    refine ⟨_, 0, rfl, ⟨q1, q2, q3, q4, q5, q6, q7, ?_, q9, q10⟩, hst, hrq, rfl, Or.inl
      ⟨rfl, rfl, by rw [h256]; omega, by rw [hnil]; rfl⟩⟩
    dsimp only
    rw [List.length_set]
    exact q8
  · rw [if_neg hcond]
    exact ⟨_, n1, rfl, ⟨q1, q2, q3, q4, q5, q6, q7, q8, q9, q10⟩, hst, hrq, rfl, hinv⟩

/-- One byte of a POST body whose keys fit, for a file without declared names: the byte
is used up, and nothing but the line buffer, its position, the state of the body
and the body size changes. -/
theorem postByte_quiet (C : SocketCon) (W : WebServer) (c : Nat) (cs : List Nat) (n : Nat)
    (hq : Quiet C W) (hb : W.BodySize = (c :: cs).length)
    (hinv : (W.PostState = WSPostState.GettingKey ∧ W.LineBuffPos = n ∧
        n + 1 < WS_LINE_BUFFER_SIZE ∧ postKeysFit true n (c :: cs) = true) ∨
      (W.PostState = WSPostState.GettingValue ∧ W.LineBuffPos + 1 < WS_LINE_BUFFER_SIZE ∧
        postKeysFit false n (c :: cs) = true)) :
    ∃ W1 n2, postByte W c = some (W1, false) ∧ Quiet C W1 ∧ W1.State = W.State ∧
      W1.Req = W.Req ∧ W1.BodySize = cs.length ∧
      ((W1.PostState = WSPostState.GettingKey ∧ W1.LineBuffPos = n2 ∧
          n2 + 1 < WS_LINE_BUFFER_SIZE ∧ postKeysFit true n2 cs = true) ∨
        (W1.PostState = WSPostState.GettingValue ∧ W1.LineBuffPos + 1 < WS_LINE_BUFFER_SIZE ∧
          postKeysFit false n2 cs = true)) := by
  obtain ⟨q1, q2, q3, q4, q5, q6, q7, q8, q9, q10⟩ := hq
  have h256 : WS_LINE_BUFFER_SIZE = 256 := rfl
  have hbs : W.BodySize = cs.length + 1 := by rw [hb, List.length_cons]
  have hk : cs.length + 1 < 4294967296 := by omega
  rcases hinv with ⟨hps, hpos, hn, hfit⟩ | ⟨hps, hpos, hfit⟩
  · -- a key is being read
    have hwr : ∀ v, wr W.LineBuff W.LineBuffPos v = some (W.LineBuff.set W.LineBuffPos v) :=
      fun v => wr_some _ _ _ (by rw [q8, hpos]; omega)
    by_cases heq : c = 61
    · subst heq
      have hfit2 : postKeysFit false 0 cs = true := by
        unfold postKeysFit at hfit
        simpa using hfit
      obtain ⟨L1, e, hdec, hl1⟩ := urlDecodeInPlace_total (W.LineBuff.set W.LineBuffPos 0)
        W.LineBuffPos (by
          unfold rd
          rw [List.getElem?_set_self (by rw [q8, hpos]; omega)])
      have hfirst : postByteFirst W 61 =
          some { W with LineBuff := L1, LineBuffPos := 0, PostWritePos := none,
                        PostState := WSPostState.GettingValue } := by
        unfold postByteFirst
        rw [hps]
        simp only [↓reduceIte, hwr, hdec, WS_StartProcessingPOSTVar, q5, q6, q7,
          WS_SkipStorageArgs]
      exact postByte_finish C W _ 61 cs 0 hfirst
        ⟨q1, q2, q3, q4, q5, q6, q7, by dsimp only; rw [hl1, List.length_set]; exact q8, rfl,
          by dsimp only; omega⟩
        rfl rfl hbs hk (Or.inr ⟨rfl, by dsimp only; rw [h256]; omega, hfit2⟩)
    · have hfit2 : n + 2 < WS_LINE_BUFFER_SIZE ∧ postKeysFit true (n + 1) cs = true := by
        unfold postKeysFit at hfit
        simpa [heq] using hfit
      have hfirst : postByteFirst W c =
          some { W with LineBuff := W.LineBuff.set W.LineBuffPos c,
                        LineBuffPos := W.LineBuffPos + 1 } := by
        unfold postByteFirst
        rw [hps]
        simp only [heq, ↓reduceIte, hwr]
        rw [if_neg (by rw [hpos, h256]; rw [h256] at hfit2; omega)]
      exact postByte_finish C W _ c cs (n + 1) hfirst
        ⟨q1, q2, q3, q4, q5, q6, q7, by dsimp only; rw [List.length_set]; exact q8, q9,
          by dsimp only; omega⟩
        rfl rfl hbs hk (Or.inl ⟨hps, by dsimp only; rw [hpos], by omega, hfit2.2⟩)
  · -- a value is being read
    have hwr : ∀ v, wr W.LineBuff W.LineBuffPos v = some (W.LineBuff.set W.LineBuffPos v) :=
      fun v => wr_some _ _ _ (by rw [q8]; omega)
    by_cases heq : c = 38
    · subst heq
      have hfit2 : postKeysFit true 0 cs = true := by
        unfold postKeysFit at hfit
        simpa using hfit
      have hfirst : postByteFirst W 38 =
          some { W with LineBuff := W.LineBuff.set W.LineBuffPos 0, LineBuffPos := 0,
                        PostState := WSPostState.GettingKey } := by
        unfold postByteFirst
        rw [hps]
        simp only [↓reduceIte, copyLineBuffer_undeclared W q9 (by rw [q8]; omega)]
      exact postByte_finish C W _ 38 cs 0 hfirst
        ⟨q1, q2, q3, q4, q5, q6, q7, by dsimp only; rw [List.length_set]; exact q8, q9,
          by dsimp only; omega⟩
        rfl rfl hbs hk (Or.inl ⟨rfl, rfl, by rw [h256]; omega, hfit2⟩)
    · have hfit2 : postKeysFit false n cs = true := by
        unfold postKeysFit at hfit
        simpa [heq] using hfit
      by_cases hfull : W.LineBuffPos + 1 ≥ WS_LINE_BUFFER_SIZE - 1
      · have hcopy := copyLineBuffer_undeclared
          { W with LineBuff := W.LineBuff.set W.LineBuffPos c,
                   LineBuffPos := W.LineBuffPos + 1 } q9
          (by dsimp only; rw [List.length_set, q8]; omega)
        have hfirst : postByteFirst W c =
            some { W with
                   LineBuff := (W.LineBuff.set W.LineBuffPos c).set (W.LineBuffPos + 1) 0,
                   LineBuffPos := 0 } := by
          unfold postByteFirst
          rw [hps]
          simp only [heq, ↓reduceIte, hwr]
          rw [hps] at hcopy
          rw [if_pos hfull, hcopy]
        exact postByte_finish C W _ c cs n hfirst
          ⟨q1, q2, q3, q4, q5, q6, q7,
            by dsimp only; rw [List.length_set, List.length_set]; exact q8, q9,
            by dsimp only; omega⟩
          rfl rfl hbs hk (Or.inr ⟨hps, by dsimp only; rw [h256]; omega, hfit2⟩)
      · have hfirst : postByteFirst W c =
            some { W with LineBuff := W.LineBuff.set W.LineBuffPos c,
                          LineBuffPos := W.LineBuffPos + 1 } := by
          unfold postByteFirst
          rw [hps]
          simp only [heq, ↓reduceIte, hwr]
          rw [if_neg hfull]
        exact postByte_finish C W _ c cs n hfirst
          ⟨q1, q2, q3, q4, q5, q6, q7, by dsimp only; rw [List.length_set]; exact q8, q9,
            by dsimp only; omega⟩
          rfl rfl hbs hk
          (Or.inr ⟨hps, by dsimp only; rw [h256] at hfull ⊢; omega, hfit2⟩)

/-- A POST body whose keys fit, for a file without declared names: the loop over the
body uses all its bytes. -/
theorem postBody_quiet (C : SocketCon) : ∀ (body : List Nat) (W : WebServer) (n : Nat),
    Quiet C W → W.BodySize = body.length →
    ((W.PostState = WSPostState.GettingKey ∧ W.LineBuffPos = n ∧
        n + 1 < WS_LINE_BUFFER_SIZE ∧ postKeysFit true n body = true) ∨
      (W.PostState = WSPostState.GettingValue ∧ W.LineBuffPos + 1 < WS_LINE_BUFFER_SIZE ∧
        postKeysFit false n body = true)) →
    ∃ W2, postBodyLoop W body = some (W2, []) ∧ Quiet C W2 ∧ W2.State = W.State ∧
      W2.Req = W.Req ∧ W2.BodySize = 0 := by
  intro body
  induction body with
  | nil =>
    intro W n hq hb _
    exact ⟨W, rfl, hq, rfl, rfl, hb⟩
  | cons c cs ih =>
    intro W n hq hb hinv
    obtain ⟨W1, n2, h1, hq1, hs1, hr1, hb1, hinv1⟩ := postByte_quiet C W c cs n hq hb hinv
    obtain ⟨W2, h2, hq2, hs2, hr2, hb2⟩ := ih W1 n2 hq1 hb1 hinv1
    refine ⟨W2, ?_, hq2, by rw [hs2, hs1], by rw [hr2, hr1], hb2⟩
    unfold postBodyLoop
    rw [h1]
    exact h2

/-- A turn that goes on is one step of the run. -/
theorem runServer_again {m_Files : List FileInfo} {now : Nat} {Web W : WebServer}
    {bs rest : List Nat} (h : serverTurn m_Files now Web bs = some (.again W rest))
    (hm : Web.State ≠ WebServerState.MAX) :
    runServer m_Files now Web bs = runServer m_Files now W rest := by
  rw [runServer_succ, h]
  dsimp only
  have h1 := serverTurn_rank h hm
  have h2 : phaseRank Web.State ≤ 3 := by cases Web.State <;> decide
  exact runServerLoop_eq_runServer _ _ _ _ _ (by omega)

/-- The header lines of a request for a file that is not known, none of them too long or
an `If-None-Match:` line: the run reads them all and stays on the way to 404. -/
theorem headers_quiet (C : SocketCon) (m_Files : List FileInfo) (now : Nat) :
    ∀ (hdrs : List (List Nat)) (W : WebServer) (rest : List Nat), Quiet C W →
    W.State = WebServerState.Headers → W.LineBuffPos = 0 →
    (∀ h ∈ hdrs, isHeaderLine h = true ∧ (stripCR h).length < WS_LINE_BUFFER_SIZE ∧
      ¬ B "If-None-Match:" <+: stripCR h) →
    ∃ W2, runServer m_Files now W ((hdrs.map (fun h => h ++ [10])).flatten ++ rest) =
        runServer m_Files now W2 rest ∧ Quiet C W2 ∧
      W2.State = WebServerState.Headers ∧ W2.LineBuffPos = 0 ∧ W2.Req = W.Req ∧
      W2.PostState = W.PostState ∧ W2.BodySize = declaredLength hdrs W.BodySize := by
  intro hdrs
  induction hdrs with
  | nil =>
    intro W rest hq hs hp _
    exact ⟨W, rfl, hq, hs, hp, rfl, rfl, rfl⟩
  | cons h hdrs ih =>
    intro W rest hq hs hp hh
    obtain ⟨h1, h2, h3⟩ := hh h (List.mem_cons_self _ _)
    obtain ⟨W1, ht, hq1, hs1, hp1, hr1, hps1, hb1⟩ := headerTurn_quiet C m_Files now W h
      ((hdrs.map (fun h => h ++ [10])).flatten ++ rest) hq hs hp h1 h2 h3
    obtain ⟨W2, hrun, hq2, hs2, hp2, hr2, hps2, hb2⟩ := ih W1 rest hq1 hs1 hp1
      (fun g hg => hh g (List.mem_cons_of_mem _ hg))
    refine ⟨W2, ?_, hq2, hs2, hp2, by rw [hr2, hr1], by rw [hps2, hps1], ?_⟩
    · have hbytes : ((h :: hdrs).map (fun h => h ++ [10])).flatten ++ rest =
          h ++ 10 :: ((hdrs.map (fun h => h ++ [10])).flatten ++ rest) := by
        simp only [List.map_cons, List.flatten_cons, List.append_assoc, List.singleton_append,
          List.cons_append, List.nil_append]
      rw [hbytes, runServer_again ht (by rw [hs]; decide)]
      exact hrun
    · rw [hb2, hb1]
      rfl

/-- The Response phase of a request on the way to 404: the automatic 404 reply is
written and the session is reset. -/
theorem response_quiet (C : SocketCon) (m_Files : List FileInfo) (now : Nat) (W : WebServer)
    (bs : List Nat) (hq : Quiet C W) (hs : W.State = WebServerState.Response)
    (hc : C.State = ConnectState.Connected) :
    ∃ W2, runServer m_Files now W bs = some (W2, RunExit.responded) ∧
      W2.Con = { C with Sent := C.Sent ++ autoReply ReplyStatus.NotFound } ∧
      W2.State = WebServerState.Request := by
  obtain ⟨q1, q2, q3, q4, q5, q6, q7, q8, q9, q10⟩ := hq
  have hstart := startReply_auto W (by rw [q1]; decide) q3 (by rw [q2]; exact hc)
  unfold runServer
  rw [runServerLoop_response m_Files now (bs.length + 2) bs hs]
  unfold WS_SendResponse
  rw [if_neg (by rw [q1]; decide), hstart]
  unfold WS_EndReply
  dsimp only
  rw [q4]
  simp only [Bool.false_eq_true, ↓reduceIte, Option.map_some']
  refine ⟨_, rfl, ?_, rfl⟩
  unfold WS_ResetWebServer
  dsimp only
  rw [q2, q1]

/-- The body of a request on the way to 404, of the length that the headers gave: the
run uses it up and reaches the Response phase. -/
theorem body_quiet (C : SocketCon) (m_Files : List FileInfo) (now : Nat) (W : WebServer)
    (body : List Nat) (hq : Quiet C W) (hs : W.State = WebServerState.Body)
    (hb : W.BodySize = body.length) (hp : W.LineBuffPos = 0)
    (hps : W.PostState = WSPostState.GettingKey)
    (hfit : W.Req = ReqType.Post → postKeysFit true 0 body = true) :
    ∃ W2, serverTurn m_Files now W body = some (.again W2 []) ∧ Quiet C W2 ∧
      W2.State = WebServerState.Response := by
  rw [serverTurn_body _ hs]
  by_cases hreq : W.Req = ReqType.Post
  · obtain ⟨W2, h2, hq2, hs2, _, hb2⟩ := postBody_quiet C body W 0 hq hb
      (Or.inl ⟨hps, hp, by decide, hfit hreq⟩)
    unfold bodyBytes
    rw [if_pos hreq, h2]
    dsimp only
    rw [if_pos hb2]
    obtain ⟨q1, q2, q3, q4, q5, q6, q7, q8, q9, q10⟩ := hq2
    exact ⟨_, rfl, ⟨q1, q2, q3, q4, q5, q6, q7, q8, q9, q10⟩, by dsimp only; rw [hs2, hs]; rfl⟩
  · obtain ⟨q1, q2, q3, q4, q5, q6, q7, q8, q9, q10⟩ := hq
    unfold bodyBytes
    rw [if_neg hreq, if_neg (by omega)]
    dsimp only
    rw [if_pos (by omega)]
    exact ⟨_, rfl, ⟨q1, q2, q3, q4, q5, q6, q7, q8, q9, by dsimp only; omega⟩,
      by dsimp only; rw [hs]; rfl⟩

/-- C11 (amended): a request `GET` or `POST` with version `HTTP/1.1` for a path that no
file of the table has, fed whole to a session that `WS_ResetWebServer` has just
reset (line buffer of 256 bytes, connection open). When the request line and every
header line fit in the line buffer, no header line begins with `If-None-Match:`,
the body has the length that the header lines give and, for `POST`, no key of the
body has more than 254 bytes, `WS_RunServer` returns, what it has sent is the automatic
404 reply and nothing else (no function of a file has written anything), the
connection is as before (open) and the session is back in the Request phase. -/
theorem C11_unknown_path_gets_404 (m_Files : List FileInfo) (now t0 : Nat) (Web0 : WebServer)
    (l M p qs : List Nat) (hdrs : List (List Nat)) (cr : Nat) (body : List Nat)
    (hL0 : Web0.LineBuff.length = WS_LINE_BUFFER_SIZE)
    (hcon : Web0.Con.State = ConnectState.Connected)
    (hl : 10 ∉ l) (hM : M = B "GET " ∨ M = B "POST ") (hp : ∀ x ∈ p, x ≠ 63 ∧ x ≠ 0)
    (hqs : qs = [] ∨ ∃ q, NoNul q ∧ qs = 63 :: q)
    (hstored : stripCR l = M ++ p ++ qs ++ B " HTTP/1.1")
    (hfit : (stripCR l).length < WS_LINE_BUFFER_SIZE)
    (hunk : ∀ f ∈ m_Files, cstr f.Filename ≠ p)
    (hh : ∀ h ∈ hdrs, isHeaderLine h = true ∧ (stripCR h).length < WS_LINE_BUFFER_SIZE ∧
      ¬ B "If-None-Match:" <+: stripCR h)
    (hbody : body.length = declaredLength hdrs 0)
    (hpost : M = B "POST " → postKeysFit true 0 body = true) :
    ∃ W, WS_RunServer m_Files now (WS_ResetWebServer t0 Web0) (requestBytes l hdrs cr body)
        = some W ∧
      W.Con = { Web0.Con with Sent := Web0.Con.Sent ++ autoReply ReplyStatus.NotFound } ∧
      W.State = WebServerState.Request := by
  have hq0 : Quiet Web0.Con
      { WS_ResetWebServer t0 Web0 with ReplyStatus := ReplyStatus.NotFound } :=
    ⟨rfl, rfl, rfl, rfl, rfl, rfl, rfl, hL0, rfl, show (0 : Nat) < 4294967296 by norm_num⟩
  obtain ⟨W1, ht1, hq1, hs1, hp1, hb1, hps1, hr1⟩ := requestTurn_unknown Web0.Con m_Files now
    (WS_ResetWebServer t0 Web0) l (headerBytes hdrs cr body) M p qs hl hM hp hqs hstored hfit
    hunk hq0 rfl rfl
  obtain ⟨W2, hrun2, hq2, hs2, hp2, hr2, hps2, hb2⟩ := headers_quiet Web0.Con m_Files now hdrs
    W1 (List.replicate cr 13 ++ 10 :: body) hq1 hs1 hp1 hh
  obtain ⟨W3, ht3, hq3, hs3, hp3, hr3, hps3, hb3⟩ := blankTurn_quiet Web0.Con m_Files now W2 cr
    body hq2 hs2 hp2
  have hsize : W3.BodySize = body.length := by
    rw [hb3, hb2, hb1, hbody]
    rfl
  have hkey : W3.PostState = WSPostState.GettingKey := by
    rw [hps3, hps2, hps1]
    rfl
  have hreq : W3.Req = ReqType.Post → postKeysFit true 0 body = true := by
    intro h3
    rw [hr3, hr2, hr1] at h3
    rcases hM with hM | hM
    · rw [if_pos hM] at h3
      cases h3
    · exact hpost hM
  obtain ⟨W4, ht4, hq4, hs4⟩ := body_quiet Web0.Con m_Files now W3 body hq3 hs3 hsize hp3 hkey
    hreq
  obtain ⟨W5, hrun5, hc5, hs5⟩ := response_quiet Web0.Con m_Files now W4 [] hq4 hs4 hcon
  refine ⟨W5, ?_, hc5, hs5⟩
  unfold WS_RunServer requestBytes
  rw [runServer_again ht1 (fun h => WebServerState.noConfusion h)]
  unfold headerBytes
  rw [hrun2, runServer_again ht3 (by rw [hs2]; decide),
    runServer_again ht4 (by rw [hs3]; decide), hrun5]
  rfl


set_option maxRecDepth 1000000 in
theorem C11_unknown_path_witness :
    acceptedWeb.LineBuff.length = WS_LINE_BUFFER_SIZE ∧
    acceptedWeb.Con.State = ConnectState.Connected ∧
    (10 ∉ B "POST /nope?x=1 HTTP/1.1\r") ∧
    stripCR (B "POST /nope?x=1 HTTP/1.1\r") = B "POST " ++ B "/nope" ++ 63 :: B "x=1" ++
      B " HTTP/1.1" ∧
    (∀ f ∈ fileServerTable (B "hello"), cstr f.Filename ≠ B "/nope") ∧
    (∀ h ∈ [B "Host: x\r", B "Content-Length: 7\r"],
      isHeaderLine h = true ∧ (stripCR h).length < WS_LINE_BUFFER_SIZE ∧
        ¬ B "If-None-Match:" <+: stripCR h) ∧
    (B "a=1&b=2").length = declaredLength [B "Host: x\r", B "Content-Length: 7\r"] 0 ∧
    postKeysFit true 0 (B "a=1&b=2") = true ∧
    requestBytes (B "POST /nope?x=1 HTTP/1.1\r") [B "Host: x\r", B "Content-Length: 7\r"] 1
        (B "a=1&b=2")
      = B "POST /nope?x=1 HTTP/1.1\r\nHost: x\r\nContent-Length: 7\r\n\r\na=1&b=2" ∧
    ∃ W, WS_RunServer (fileServerTable (B "hello")) 0 (WS_ResetWebServer 0 acceptedWeb)
        (requestBytes (B "POST /nope?x=1 HTTP/1.1\r")
          [B "Host: x\r", B "Content-Length: 7\r"] 1 (B "a=1&b=2")) = some W ∧
      W.Con = { acceptedWeb.Con with
                Sent := acceptedWeb.Con.Sent ++ autoReply ReplyStatus.NotFound } ∧
      W.State = WebServerState.Request :=
  ⟨by decide, by decide, by decide, by decide, by decide, by decide, by decide, by decide,
    by decide,
    C11_unknown_path_gets_404 (fileServerTable (B "hello")) 0 0 acceptedWeb
      (B "POST /nope?x=1 HTTP/1.1\r") (B "POST ") (B "/nope") (63 :: B "x=1")
      [B "Host: x\r", B "Content-Length: 7\r"] 1 (B "a=1&b=2")
      (by decide) (by decide) (by decide) (Or.inr rfl) (by decide)
      (Or.inr ⟨B "x=1", by unfold NoNul; decide, rfl⟩) (by decide) (by decide) (by decide)
      (by decide) (by decide) (fun _ => by decide)⟩

/-- The bytes with their separators replaced by NUL, followed by a NUL, are the
terminated parts. -/
theorem zeroed_eq_parts (sep : Nat) (q : List Nat) :
    q.map (fun c => if c = sep then 0 else c) ++ [0] =
      ((splitSep sep q).map (fun s => s ++ [0])).flatten := by
  induction q with
  | nil => simp [splitSep]
  | cons c cs ih =>
    rw [splitSep]
    by_cases hc : c = sep
    · simp only [hc, ↓reduceIte, List.map_cons, List.cons_append, List.flatten_cons,
        List.nil_append]
      rw [← ih]
    · simp only [hc, ↓reduceIte, List.map_cons, List.cons_append]
      cases hsp : splitSep sep cs with
      | nil => exact absurd hsp (splitSep_ne_nil sep cs)
      | cons s ss =>
        rw [hsp] at ih
        simp only [List.map_cons, List.flatten_cons, List.cons_append] at ih ⊢
        rw [ih]

theorem splitSep_count (sep : Nat) (q : List Nat) :
    (splitSep sep q).length = q.count sep + 1 := by
  induction q with
  | nil => simp [splitSep]
  | cons c cs ih =>
    rw [splitSep]
    by_cases hc : c = sep
    · subst hc; simp [ih]
    · simp only [hc, ↓reduceIte]
      cases hsp : splitSep sep cs with
      | nil => exact absurd hsp (splitSep_ne_nil sep cs)
      | cons s ss =>
        rw [hsp] at ih
        have : List.count sep (c :: cs) = List.count sep cs := by
          rw [List.count_cons]
          have : (c == sep) = false := by simpa using hc
          simp [this]
        simp only [List.length_cons, this] at ih ⊢
        exact ih

theorem splitSep_parts_noNul (sep : Nat) (q : List Nat) (hq : NoNul q) :
    ∀ s ∈ splitSep sep q, NoNul s := by
  induction q with
  | nil => intro s hs; simp [splitSep] at hs; subst hs; intro c hc; simp at hc
  | cons c cs ih =>
    have hc0 : c ≠ 0 := hq c (by simp)
    have ih' := ih (fun x hx => hq x (by simp [hx]))
    rw [splitSep]
    by_cases hc : c = sep
    · simp only [hc, ↓reduceIte, List.mem_cons]
      intro s hs
      rcases hs with h | h
      · subst h; intro x hx; simp at hx
      · exact ih' s h
    · simp only [hc, ↓reduceIte]
      cases hsp : splitSep sep cs with
      | nil => exact absurd hsp (splitSep_ne_nil sep cs)
      | cons s ss =>
        rw [hsp] at ih'
        intro t ht
        simp only [List.mem_cons] at ht
        rcases ht with h | h
        · subst h
          intro x hx
          simp only [List.mem_cons] at hx
          rcases hx with h2 | h2
          · rw [h2]; exact hc0
          · exact ih' s (by simp) x h2
        · exact ih' t (by simp [h])

/-- The loop that breaks a line up at a separator, on bytes without NUL. -/
theorem breakUpArgs_parts (sep : Nat) (hsep : sep ≠ 0) (q : List Nat) :
    ∀ (pre post : List Nat) (n fuel : Nat), NoNul q → q.length < fuel →
    breakUpArgs sep fuel (pre ++ (q ++ 0 :: post)) pre.length n =
      some (pre ++ (q.map (fun c => if c = sep then 0 else c) ++ 0 :: post),
        pre.length + q.length, n + q.count sep) := by
  induction q with
  | nil =>
    intro pre post n fuel _ hf
    obtain ⟨f, rfl⟩ : ∃ f, fuel = f + 1 := ⟨fuel - 1, by simp at hf; omega⟩
    simp [breakUpArgs, rd_at]
  | cons c cs ih =>
    intro pre post n fuel hq hf
    obtain ⟨f, rfl⟩ : ∃ f, fuel = f + 1 := ⟨fuel - 1, by omega⟩
    have hc0 : c ≠ 0 := hq c (by simp)
    have hr : rd (pre ++ (c :: cs ++ 0 :: post)) pre.length = some c := rd_at pre c _
    have ih' := fun x => ih (pre ++ [x]) post
    rw [breakUpArgs, hr]
    simp only [hc0, ↓reduceIte]
    by_cases hc : c = sep
    · have hw : wr (pre ++ (c :: cs ++ 0 :: post)) pre.length 0
          = some (pre ++ (0 :: cs ++ 0 :: post)) := wr_at pre c _ 0
      rw [if_pos hc, hw]
      have := ih' 0 (n + 1) f (fun y hy => hq y (by simp [hy])) (by simpa using hf)
      simp only [List.append_assoc, List.singleton_append, List.length_append,
        List.length_singleton] at this
      simp only [List.cons_append]
      rw [this]
      subst hc
      simp [Nat.add_assoc, Nat.add_comm 1]
    · rw [if_neg hc]
      have := ih' c n f (fun y hy => hq y (by simp [hy])) (by simpa using hf)
      simp only [List.append_assoc, List.singleton_append, List.length_append,
        List.length_singleton] at this
      simp only [List.cons_append]
      rw [this]
      have hcount : List.count sep (c :: cs) = List.count sep cs := by
        rw [List.count_cons]
        have : (c == sep) = false := by simpa using hc
        simp [this]
      simp [Nat.add_assoc, Nat.add_comm 1, hcount, hc]

/-- A part of the header is its leading spaces and the rest. -/
theorem dropSpaces_spec (s : List Nat) :
    ∃ sp, s = List.replicate sp 32 ++ dropSpaces s ∧ (dropSpaces s).head? ≠ some 32 := by
  induction s with
  | nil => exact ⟨0, rfl, by simp [dropSpaces]⟩
  | cons c cs ih =>
    by_cases hc : c = 32
    · obtain ⟨sp, h1, h2⟩ := ih
      refine ⟨sp + 1, ?_, ?_⟩
      · have : dropSpaces (c :: cs) = dropSpaces cs := by
          simp [dropSpaces, List.dropWhile, hc]
        rw [this, List.replicate_succ, List.cons_append, ← h1, hc]
      · have : dropSpaces (c :: cs) = dropSpaces cs := by
          simp [dropSpaces, List.dropWhile, hc]
        rw [this]
        exact h2
    · have : dropSpaces (c :: cs) = c :: cs := by
        simp [dropSpaces, List.dropWhile, hc]
      exact ⟨0, by rw [this]; rfl, by rw [this]; simpa using hc⟩

theorem dropSpaces_noNul (s : List Nat) (hs : NoNul s) : NoNul (dropSpaces s) := by
  intro c hc
  exact hs c ((List.dropWhile_sublist _).subset hc)

/-- The search loop of `WS_ProcessCookieVars` passes the spaces in front of a pair. -/
theorem cookieScan_spaces (nm : List Nat) (ArgCount arg : Nat) (harg : arg < ArgCount)
    (pre X : List Nat) (sp St fuel : Nat) :
    ∀ (d j : Nat), sp - j = d → j ≤ sp →
      cookieScan nm ArgCount (fuel + d) (pre ++ (List.replicate sp 32 ++ X)) arg
          (pre.length + j) St =
        cookieScan nm ArgCount fuel (pre ++ (List.replicate sp 32 ++ X)) arg
          (pre.length + sp) St := by
  intro d
  induction d with
  | zero =>
    intro j hd hj
    have : j = sp := by omega
    subst this
    rfl
  | succ d ih =>
    intro j hd hj
    have hr : rd (pre ++ (List.replicate sp 32 ++ X)) (pre.length + j) = some 32 := by
      rw [rd_append_right, List.getElem?_append_left (by simp; omega),
        List.getElem?_replicate]
      simp only [ite_eq_left_iff, not_lt, reduceCtorEq, imp_false, not_le]
      omega
    have hf : fuel + (d + 1) = (fuel + d) + 1 := by omega
    rw [hf, cookieScan]
    simp only [harg, ↓reduceIte, hr, show ((32 : Nat) = 61) = False from by simp,
      show ((32 : Nat) = 0) = False from by simp]
    exact ih (j + 1) (by omega) (by omega)

/-- The search loop inside one pair, after its spaces: `a` has been passed, `b` is left. -/
theorem cookieScan_part (nm : List Nat) (ArgCount arg : Nat) (harg : arg < ArgCount)
    (pre2 post t : List Nat) (ht : NoNul t) (fuel : Nat)
    (hskip0 : skipWhileEq 32 ((pre2 ++ (t ++ 0 :: post)).length + 1)
      (pre2 ++ (t ++ 0 :: post)) pre2.length = some pre2.length) :
    ∀ (b a : List Nat) (St : Nat), a ++ b = t →
      skipWhileEq 32 ((pre2 ++ (t ++ 0 :: post)).length + 1) (pre2 ++ (t ++ 0 :: post)) St
        = some pre2.length →
      cookieScan nm ArgCount (fuel + (b.length + 1)) (pre2 ++ (t ++ 0 :: post)) arg
          (pre2.length + a.length) St =
        if (cstr nm ++ [61]).isPrefixOf t = true ∧ a.length ≤ (cstr nm).length then
          some (arg, pre2.length + (cstr nm).length + 1)
        else
          cookieScan nm ArgCount fuel (pre2 ++ (t ++ 0 :: post)) (arg + 1)
            (pre2.length + t.length + 1) (pre2.length + t.length + 1) := by
  intro b
  induction b with
  | nil =>
    intro a St hab _
    rw [List.append_nil] at hab
    subst hab
    have hr : rd (pre2 ++ (a ++ 0 :: post)) (pre2.length + a.length) = some 0 := by
      have := rd_at (pre2 ++ a) 0 post
      simpa using this
    have hno : ¬ ((cstr nm ++ [61]).isPrefixOf a = true ∧ a.length ≤ (cstr nm).length) := by
      rintro ⟨h1, h2⟩
      obtain ⟨t, ht⟩ := (keyPrefix_iff _ _).1 h1
      have := congrArg List.length ht
      simp at this; omega
    rw [if_neg hno]
    simp only [List.length_nil, Nat.zero_add]
    rw [cookieScan]
    simp only [harg, ↓reduceIte, hr, show ((0 : Nat) = 61) = False from by simp]
  | cons c b' ih =>
    intro a St hab hSt
    have hc0 : c ≠ 0 := ht c (by rw [← hab]; simp)
    have hr : rd (pre2 ++ (t ++ 0 :: post)) (pre2.length + a.length) = some c := by
      have := rd_at (pre2 ++ a) c (b' ++ 0 :: post)
      rw [← hab]
      simpa using this
    have e1 : (a ++ [c]) ++ b' = t := by rw [← hab]; simp
    have hfuel : fuel + ((c :: b').length + 1) = (fuel + (b'.length + 1)) + 1 := by
      simp; omega
    have e3 : pre2.length + a.length + 1 = pre2.length + (a ++ [c]).length := by simp; omega
    have hsw : startsWith (pre2 ++ (t ++ 0 :: post)) pre2.length (cstr nm)
        = ((t ++ 0 :: post).take (cstr nm).length == cstr nm) :=
      startsWith_at pre2 _ _
    have hiff : ∀ (hno : ¬ (c = 61 ∧ (cstr nm).length = a.length ∧
          startsWith (pre2 ++ (t ++ 0 :: post)) pre2.length (cstr nm) = true)),
        (((cstr nm ++ [61]).isPrefixOf t = true ∧ (a ++ [c]).length ≤ (cstr nm).length) ↔
          ((cstr nm ++ [61]).isPrefixOf t = true ∧ a.length ≤ (cstr nm).length)) := by
      intro hno
      constructor
      · rintro ⟨h1, h2⟩; exact ⟨h1, by simp at h2; omega⟩
      · rintro ⟨h1, h2⟩
        refine ⟨h1, ?_⟩
        by_contra hlt
        simp only [List.length_append, List.length_singleton, not_le] at hlt
        have hlen' : a.length = (cstr nm).length := by omega
        obtain ⟨v, hv⟩ := (keyPrefix_iff _ _).1 h1
        rw [← hab] at hv
        have h3 := List.append_inj hv hlen'
        apply hno
        refine ⟨by have := h3.2; simp at this; exact this.1, hlen'.symm, ?_⟩
        rw [hsw, ← hab, h3.1]
        simp
    rw [hfuel, cookieScan]
    simp only [harg, ↓reduceIte, hr]
    by_cases h61 : c = 61
    · rw [if_pos h61, hSt]
      dsimp only
      by_cases hm : ((cstr nm).length : Int) = ((pre2.length + a.length : Nat) : Int)
          - (pre2.length : Int) ∧
          startsWith (pre2 ++ (t ++ 0 :: post)) pre2.length (cstr nm) = true
      · rw [if_pos hm]
        obtain ⟨hlen, hst⟩ := hm
        have hlen' : (cstr nm).length = a.length := by omega
        rw [hsw] at hst
        have hag : a = cstr nm := by
          have := eq_of_beq hst
          rw [hlen', ← hab] at this
          simpa using this
        have hyes : (cstr nm ++ [61]).isPrefixOf t = true ∧ a.length ≤ (cstr nm).length :=
          ⟨(keyPrefix_iff _ _).2 ⟨b', by rw [← hab, hag, h61]⟩, by omega⟩
        rw [if_pos hyes, hlen']
      · rw [if_neg hm, e3, ih (a ++ [c]) pre2.length e1 hskip0]
        have hno : ¬ (c = 61 ∧ (cstr nm).length = a.length ∧
            startsWith (pre2 ++ (t ++ 0 :: post)) pre2.length (cstr nm) = true) := by
          rintro ⟨_, h2, h3⟩
          exact hm ⟨by push_cast; omega, h3⟩
        simp only [hiff hno]
    · rw [if_neg h61, if_neg hc0, e3, ih (a ++ [c]) St e1 hSt]
      have hno : ¬ (c = 61 ∧ (cstr nm).length = a.length ∧
          startsWith (pre2 ++ (t ++ 0 :: post)) pre2.length (cstr nm) = true) :=
        fun h => h61 h.1
      simp only [hiff hno]

/-- The skip of spaces from inside the spaces of a pair ends at the pair. -/
theorem skip_to_part (pre t R : List Nat) (sp k fuel : Nat) (hk : k ≤ sp)
    (ht0 : t.head? ≠ some 32) (hf : sp - k < fuel) :
    skipWhileEq 32 fuel (pre ++ (List.replicate sp 32 ++ (t ++ 0 :: R))) (pre.length + k) =
      some (pre.length + sp) := by
  obtain ⟨y, post, hy, hyp⟩ : ∃ y post, y ≠ 32 ∧ t ++ 0 :: R = y :: post := by
    cases t with
    | nil => exact ⟨0, R, by decide, rfl⟩
    | cons c t' => exact ⟨c, t' ++ 0 :: R, by simpa using ht0, rfl⟩
  have h := skipWhileEq_append 32 y post hy (sp - k) (pre ++ List.replicate k 32) fuel hf
  have e1 : pre ++ List.replicate k 32 ++ (List.replicate (sp - k) 32 ++ y :: post) =
      pre ++ (List.replicate sp 32 ++ (t ++ 0 :: R)) := by
    rw [hyp, List.append_assoc, ← List.append_assoc (List.replicate k 32),
      List.append_replicate_replicate]
    congr 3
    omega
  rw [e1, List.length_append, List.length_replicate] at h
  rw [h]
  congr 1
  omega

/-- The bytes of a list of pairs, each with its spaces and its NUL. -/
theorem partBytes_cons (s : Nat × List Nat) (ss : List (Nat × List Nat)) (post : List Nat) :
    partBytes (s :: ss) ++ post =
      List.replicate s.1 32 ++ (s.2 ++ 0 ::
        (partBytes ss ++ post)) := by
  simp only [partBytes, List.map_cons, List.flatten_cons, List.append_assoc,
    List.singleton_append, List.cons_append, List.nil_append]

theorem partBytes_length_cons (sp : Nat) (t : List Nat) (ss : List (Nat × List Nat)) :
    (partBytes ((sp, t) :: ss)).length = sp + (t.length + 1) + (partBytes ss).length := by
  simp only [partBytes, List.map_cons, List.flatten_cons, List.length_append,
    List.length_replicate, List.length_cons, List.length_nil]

/-- The search loop over the pairs of the header: it stops after the `=` of the first
pair that, after its spaces, begins with the name and `=`, or passes them all. -/
theorem cookieScan_parts (nm : List Nat) (ArgCount : Nat) (post : List Nat) (fuel : Nat)
    (segs : List (Nat × List Nat)) :
    ∀ (pre : List Nat) (arg k : Nat), (∀ s ∈ segs, NoNul s.2 ∧ s.2.head? ≠ some 32) →
      arg + segs.length = ArgCount → (∀ s ss, segs = s :: ss → k ≤ s.1) →
      ∃ arg' Pos',
        cookieScan nm ArgCount
            (fuel + ((partBytes segs).length + 1))
            (pre ++ (partBytes segs ++ post))
            arg pre.length (pre.length + k)
          = some (arg', Pos') ∧
        (findSeg (cstr nm) (segs.map (fun s => s.2)) = none → arg' = ArgCount) ∧
        (∀ v, findSeg (cstr nm) (segs.map (fun s => s.2)) = some v → arg' < ArgCount ∧
          ∃ rest, (pre ++ (partBytes segs
            ++ post)).drop Pos' = v ++ 0 :: rest) := by
  induction segs with
  | nil =>
    intro pre arg k _ harg _
    refine ⟨arg, pre.length, ?_, ?_, ?_⟩
    · simp only [partBytes, List.map_nil, List.flatten_nil, List.length_nil, Nat.zero_add]
      rw [cookieScan]
      simp only [List.length_nil, Nat.add_zero] at harg
      simp [harg]
    · intro _; simpa using harg
    · intro v hv; simp [findSeg] at hv
  | cons s ss ih =>
    intro pre arg k hsegs harg hk
    obtain ⟨sp, t⟩ := s
    have ht : NoNul t := (hsegs (sp, t) (by simp)).1
    have ht0 : t.head? ≠ some 32 := (hsegs (sp, t) (by simp)).2
    have hk' : k ≤ sp := hk (sp, t) ss rfl
    have harg' : arg < ArgCount := by simp at harg; omega
    have eF : fuel + ((partBytes ((sp, t) :: ss)).length + 1)
        = (fuel + ((partBytes ss).length + 1)
            + (t.length + 1)) + sp := by
      rw [partBytes_length_cons]
      omega
    rw [partBytes_cons, eF]
    dsimp only
    have hsp := cookieScan_spaces nm ArgCount arg harg' pre
      (t ++ 0 :: (partBytes ss ++ post))
      sp (pre.length + k)
      (fuel + ((partBytes ss).length + 1)
        + (t.length + 1)) sp 0 rfl (Nat.zero_le _)
    simp only [Nat.add_zero] at hsp
    rw [hsp]
    have eL : pre ++ (List.replicate sp 32 ++ (t ++ 0 ::
          (partBytes ss ++ post))) =
        (pre ++ List.replicate sp 32) ++ (t ++ 0 ::
          (partBytes ss ++ post)) := by
      rw [List.append_assoc]
    have eP : pre.length + sp = (pre ++ List.replicate sp 32).length + ([] : List Nat).length := by
      simp
    have hskipk := skip_to_part pre t
      (partBytes ss ++ post) sp k
      ((pre ++ (List.replicate sp 32 ++ (t ++ 0 ::
          (partBytes ss ++ post)))).length
        + 1) hk' ht0 (by simp only [List.length_append, List.length_replicate]; omega)
    have hskip0 := skip_to_part pre t
      (partBytes ss ++ post) sp sp
      ((pre ++ (List.replicate sp 32 ++ (t ++ 0 ::
          (partBytes ss ++ post)))).length
        + 1) (Nat.le_refl _) ht0 (by omega)
    have ePl : pre.length + sp = (pre ++ List.replicate sp 32).length := by simp
    rw [eL, ePl] at hskipk hskip0
    have hpart := cookieScan_part nm ArgCount arg harg' (pre ++ List.replicate sp 32)
      (partBytes ss ++ post) t ht
      (fuel + ((partBytes ss).length + 1))
      hskip0 t [] (pre.length + k) (List.nil_append _) hskipk
    rw [eL, eP, hpart]
    simp only [List.length_nil, Nat.zero_le, and_true]
    by_cases hp : (cstr nm ++ [61]).isPrefixOf t = true
    · rw [if_pos hp]
      refine ⟨arg, (pre ++ List.replicate sp 32).length + (cstr nm).length + 1, rfl, ?_, ?_⟩
      · intro h; simp [findSeg, hp] at h
      · intro v hv
        simp only [List.map_cons, findSeg, hp, ↓reduceIte, Option.some.injEq] at hv
        refine ⟨harg', ?_⟩
        obtain ⟨u, hu⟩ := (keyPrefix_iff _ _).1 hp
        refine ⟨partBytes ss ++ post, ?_⟩
        rw [← hv, hu]
        have e4 : pre ++ List.replicate sp 32 ++ (cstr nm ++ 61 :: u ++ 0 ::
              (partBytes ss ++ post))
            = (pre ++ List.replicate sp 32 ++ cstr nm ++ [61]) ++ (u ++ 0 ::
              (partBytes ss ++ post)) := by
          simp
        rw [e4]
        have hl : (pre ++ List.replicate sp 32 ++ cstr nm ++ [61]).length =
            (pre ++ List.replicate sp 32).length + (cstr nm).length + 1 := by
          simp [Nat.add_assoc]
        rw [← hl, List.drop_left]
        have e5 : (cstr nm ++ 61 :: u).drop ((cstr nm).length + 1) = u := by
          have : cstr nm ++ 61 :: u = (cstr nm ++ [61]) ++ u := by simp
          rw [this]
          have hl2 : (cstr nm ++ [61]).length = (cstr nm).length + 1 := by simp
          rw [← hl2, List.drop_left]
        rw [e5]
    · rw [if_neg hp]
      have e2 : pre ++ List.replicate sp 32 ++ (t ++ 0 ::
            (partBytes ss ++ post))
          = (pre ++ List.replicate sp 32 ++ t ++ [0]) ++
            (partBytes ss ++ post) := by
        simp
      have e3 : (pre ++ List.replicate sp 32).length + t.length + 1 =
          (pre ++ List.replicate sp 32 ++ t ++ [0]).length := by simp [Nat.add_assoc]
      rw [e2, e3]
      obtain ⟨arg', Pos', h1, h2, h3⟩ := ih (pre ++ List.replicate sp 32 ++ t ++ [0]) (arg + 1) 0
        (fun u hu => hsegs u (by simp [hu])) (by simp at harg; omega)
        (fun _ _ _ => Nat.zero_le _)
      rw [Nat.add_zero] at h1
      refine ⟨arg', Pos', h1, ?_, ?_⟩
      · intro h; apply h2; simpa [findSeg, hp] using h
      · intro v hv; apply h3; simpa [findSeg, hp] using hv

theorem sectionBytes_length_ge (vals : List (Option (List Nat))) :
    vals.length ≤ (sectionBytes vals).length := by
  induction vals with
  | nil => exact Nat.le_refl _
  | cons o vals ih =>
    have := storedEntry_length_pos o
    simp only [sectionBytes, List.length_cons, List.length_append]
    omega

/-- One declared cookie name, when the value fits: the marker stays `N` when no pair of
the header has the name, and becomes `Y`, the value of the first such pair and a NUL
otherwise. -/
theorem cookieStoreOne_value (nm pre post : List Nat) (segs : List (Nat × List Nat))
    (hsegs : ∀ s ∈ segs, NoNul s.2 ∧ s.2.head? ≠ some 32) (hne : segs ≠ [])
    (preA X : List Nat) (tt : Nat)
    (hcap : (storedEntry (findSeg (cstr nm) (segs.map (fun s => s.2)))).length + tt
      ≤ 1 + X.length)
    (hlen : (preA ++ 78 :: X).length = WS_OPT_ARG_MEMORY_SIZE) :
    cookieStoreOne (pre ++ (partBytes segs ++ post)) pre.length segs.length nm
        (preA ++ 78 :: X) preA.length (preA.length + 1 + tt) =
      some (preA ++ (storedEntry (findSeg (cstr nm) (segs.map (fun s => s.2))) ++
          (X.take tt ++
            X.drop ((storedEntry (findSeg (cstr nm) (segs.map (fun s => s.2)))).length - 1 + tt))),
        preA.length + (storedEntry (findSeg (cstr nm) (segs.map (fun s => s.2)))).length,
        preA.length + (storedEntry (findSeg (cstr nm) (segs.map (fun s => s.2)))).length + tt,
        false) := by
  obtain ⟨s0, ss, rfl⟩ : ∃ s0 ss, segs = s0 :: ss := by
    cases segs with
    | nil => exact absurd rfl hne
    | cons s0 ss => exact ⟨s0, ss, rfl⟩
  obtain ⟨sp0, t0⟩ := s0
  have hskip := skip_to_part pre t0 (partBytes ss ++ post) sp0 0
    ((pre ++ (partBytes ((sp0, t0) :: ss) ++ post)).length + 1) (Nat.zero_le _)
    (hsegs (sp0, t0) (by simp)).2 (by
      rw [List.length_append, List.length_append, partBytes_length_cons]
      omega)
  have ebytes := partBytes_cons (sp0, t0) ss post
  dsimp only at ebytes
  rw [← ebytes] at hskip
  simp only [Nat.add_zero] at hskip
  obtain ⟨arg', Pos', hscan, hnone, hsome⟩ := cookieScan_parts nm ((sp0, t0) :: ss).length post
    (pre.length + post.length) ((sp0, t0) :: ss) pre 0 sp0 hsegs (Nat.zero_add _)
    (by
      intro s ss' h
      injection h with h1 h2
      rw [← h1])
  have hfuel : pre.length + post.length + ((partBytes ((sp0, t0) :: ss)).length + 1) =
      (pre ++ (partBytes ((sp0, t0) :: ss) ++ post)).length + 1 := by
    simp only [List.length_append]
    omega
  rw [hfuel] at hscan
  have hsegs2 : ∀ s ∈ ((sp0, t0) :: ss).map (fun s => s.2), NoNul s := by
    intro s hs
    obtain ⟨u, hu, rfl⟩ := List.mem_map.1 hs
    exact (hsegs u hu).1
  have htt : tt ≤ X.length := by
    have := storedEntry_length_pos (findSeg (cstr nm) (((sp0, t0) :: ss).map (fun s => s.2)))
    omega
  unfold cookieStoreOne
  rw [hskip]
  dsimp only
  rw [hscan]
  dsimp only
  cases hfind : findSeg (cstr nm) (((sp0, t0) :: ss).map (fun s => s.2)) with
  | none =>
    have harg := hnone hfind
    rw [if_neg (by omega)]
    simp only [storedEntry, List.length_singleton, Nat.sub_self, Nat.zero_add,
      List.take_append_drop, List.singleton_append]
  | some v =>
    obtain ⟨harg, rest, hdrop⟩ := hsome v hfind
    have hv : NoNul v := findSeg_noNul _ _ hsegs2 v hfind
    rw [hfind] at hcap
    simp only [storedEntry, List.length_cons, List.length_append, List.length_nil] at hcap
    have hA : (preA ++ 78 :: X).length = preA.length + 1 + X.length := by
      simp only [List.length_append, List.length_cons]
      omega
    have hstr : strlenAt (pre ++ (partBytes ((sp0, t0) :: ss) ++ post)) Pos' = some v.length := by
      unfold strlenAt
      rw [hdrop]
      exact cstrlen_append v rest hv
    have hsrc : ((pre ++ (partBytes ((sp0, t0) :: ss) ++ post)).drop Pos').take (v.length + 1)
        = v ++ [0] := by
      rw [hdrop]
      have : v ++ 0 :: rest = (v ++ [0]) ++ rest := by simp
      rw [this, List.take_left' (by simp)]
    have hA2 : preA ++ 78 :: X = (preA ++ [78]) ++ X := by simp
    have hd : preA.length + 1 = (preA ++ [78]).length := by simp
    have hic := insertCopy_spec (preA ++ [78]) X (v ++ [0]) tt (by
      simp only [List.length_append, List.length_cons, List.length_nil]
      omega)
    have hw : wr (preA ++ [78] ++ (v ++ [0] ++ (X.take tt ++ X.drop ((v ++ [0]).length + tt))))
        preA.length 89 =
        some (preA ++ 89 :: (v ++ [0] ++ (X.take tt ++ X.drop ((v ++ [0]).length + tt)))) := by
      rw [List.append_assoc, List.singleton_append]
      exact wr_at _ _ _ _
    rw [if_pos harg, hstr]
    dsimp only
    rw [rd_at]
    dsimp only
    rw [if_neg (by decide), if_neg (by rw [← hlen, hA]; omega), hsrc, hA2, hd, hic]
    dsimp only
    rw [hw]
    simp only [storedEntry, List.length_cons, List.length_append, List.length_nil,
      List.cons_append, List.append_assoc, List.singleton_append, List.nil_append,
      Nat.add_sub_cancel, Nat.zero_add, List.length_singleton]
    congr 2
    simp only [Prod.mk.injEq, and_true]
    omega

/-- All declared cookie names, when the values fit: the cookie section becomes the values
of the names in declared order; what follows it moves up. -/
theorem cookieStoreAll_values (pre post : List Nat) (segs : List (Nat × List Nat))
    (hsegs : ∀ s ∈ segs, NoNul s.2 ∧ s.2.head? ≠ some 32) (hne : segs ≠ []) :
    ∀ (names : List (List Nat)) (preA Y Z : List Nat),
    preA.length +
        (sectionBytes (names.map (fun nm => findSeg (cstr nm) (segs.map (fun s : Nat × List Nat => s.2))))).length
        + Y.length ≤ (preA ++ (List.replicate names.length 78 ++ (Y ++ Z))).length →
    (preA ++ (List.replicate names.length 78 ++ (Y ++ Z))).length = WS_OPT_ARG_MEMORY_SIZE →
    ∃ Z1, cookieStoreAll (pre ++ (partBytes segs ++ post)) pre.length segs.length names
        (preA ++ (List.replicate names.length 78 ++ (Y ++ Z))) preA.length
        (preA.length + names.length + Y.length) =
      some (preA ++ (sectionBytes
          (names.map (fun nm => findSeg (cstr nm) (segs.map (fun s : Nat × List Nat => s.2)))) ++ (Y ++ Z1)),
        false) := by
  intro names
  induction names with
  | nil =>
    intro preA Y Z _ _
    exact ⟨Z, rfl⟩
  | cons nm names ih =>
    intro preA Y Z hcap hlen
    have hA : preA ++ (List.replicate (nm :: names).length 78 ++ (Y ++ Z)) =
        preA ++ 78 :: (List.replicate names.length 78 ++ (Y ++ Z)) := by
      simp [List.replicate_succ]
    have hE : preA.length + (nm :: names).length + Y.length =
        preA.length + 1 + (names.length + Y.length) := by
      simp only [List.length_cons]
      omega
    have htake : (List.replicate names.length 78 ++ (Y ++ Z)).take (names.length + Y.length) =
        List.replicate names.length 78 ++ Y := by
      rw [← List.append_assoc, List.take_left' (by simp)]
    have hge := sectionBytes_length_ge
      (names.map (fun nm => findSeg (cstr nm) (segs.map (fun s : Nat × List Nat => s.2))))
    rw [List.length_map] at hge
    rw [hA] at hcap hlen ⊢
    rw [hE]
    simp only [List.map_cons, sectionBytes, List.length_append, List.length_cons,
      List.length_replicate] at hcap
    have hone := cookieStoreOne_value nm pre post segs hsegs hne preA
      (List.replicate names.length 78 ++ (Y ++ Z)) (names.length + Y.length)
      (by
        simp only [List.length_append, List.length_replicate]
        omega) hlen
    rw [htake] at hone
    have hA3 : preA ++ (storedEntry (findSeg (cstr nm) (segs.map (fun s : Nat × List Nat => s.2))) ++
          (List.replicate names.length 78 ++ Y ++
            (List.replicate names.length 78 ++ (Y ++ Z)).drop
              ((storedEntry (findSeg (cstr nm) (segs.map (fun s : Nat × List Nat => s.2)))).length - 1 +
                (names.length + Y.length)))) =
        (preA ++ storedEntry (findSeg (cstr nm) (segs.map (fun s : Nat × List Nat => s.2)))) ++
          (List.replicate names.length 78 ++ (Y ++
            (List.replicate names.length 78 ++ (Y ++ Z)).drop
              ((storedEntry (findSeg (cstr nm) (segs.map (fun s : Nat × List Nat => s.2)))).length - 1 +
                (names.length + Y.length)))) := by
      simp only [List.append_assoc]
    have hW3 : preA.length + (storedEntry (findSeg (cstr nm) (segs.map (fun s : Nat × List Nat => s.2)))).length =
        (preA ++ storedEntry (findSeg (cstr nm) (segs.map (fun s : Nat × List Nat => s.2)))).length := by
      rw [List.length_append]
    have hE3 : preA.length + (storedEntry (findSeg (cstr nm) (segs.map (fun s : Nat × List Nat => s.2)))).length
          + (names.length + Y.length) =
        (preA ++ storedEntry (findSeg (cstr nm) (segs.map (fun s : Nat × List Nat => s.2)))).length
          + names.length + Y.length := by
      rw [List.length_append]
      omega
    have hpos := storedEntry_length_pos (findSeg (cstr nm) (segs.map (fun s : Nat × List Nat => s.2)))
    have hlen3 : ((preA ++ storedEntry (findSeg (cstr nm) (segs.map (fun s : Nat × List Nat => s.2)))) ++
          (List.replicate names.length 78 ++ (Y ++
            (List.replicate names.length 78 ++ (Y ++ Z)).drop
              ((storedEntry (findSeg (cstr nm) (segs.map (fun s : Nat × List Nat => s.2)))).length - 1 +
                (names.length + Y.length))))).length =
        (preA ++ 78 :: (List.replicate names.length 78 ++ (Y ++ Z))).length := by
      simp only [List.length_append, List.length_cons, List.length_replicate,
        List.length_drop]
      omega
    obtain ⟨Z1, hrest⟩ := ih (preA ++ storedEntry (findSeg (cstr nm) (segs.map (fun s : Nat × List Nat => s.2)))) Y
      ((List.replicate names.length 78 ++ (Y ++ Z)).drop
        ((storedEntry (findSeg (cstr nm) (segs.map (fun s : Nat × List Nat => s.2)))).length - 1 +
          (names.length + Y.length)))
      (by
        rw [hlen3]
        simp only [List.length_append, List.length_cons, List.length_replicate]
        omega)
      (by rw [hlen3]; exact hlen)
    refine ⟨Z1, ?_⟩
    unfold cookieStoreAll
    rw [hone]
    dsimp only
    rw [hA3, hE3, hW3, hrest]
    simp only [List.map_cons, sectionBytes, List.append_assoc]

/-- The parts of the header, each as its spaces and the rest, are the bytes that
`breakUpArgs` leaves. -/
theorem partBytes_of_parts (raw : List (List Nat)) :
    partBytes (raw.map (fun s => (s.length - (dropSpaces s).length, dropSpaces s))) =
      (raw.map (fun s => s ++ [0])).flatten := by
  induction raw with
  | nil => rfl
  | cons s raw ih =>
    obtain ⟨sp, h1, _⟩ := dropSpaces_spec s
    have hsp : s.length - (dropSpaces s).length = sp := by
      have := congrArg List.length h1
      rw [List.length_append, List.length_replicate] at this
      omega
    simp only [partBytes, List.map_cons, List.flatten_cons] at ih ⊢
    rw [ih, hsp, ← List.append_assoc, ← h1]

theorem B_cookie : B "Cookie:" = 67 :: 111 :: 111 :: 107 :: 105 :: 101 :: [58] := by decide

/-- The start of `WS_ProcessCookieVars` on a line `Cookie:`, an optional space and the
pairs: the pairs are cut at `;` and the declared names are looked up in them. -/
theorem processCookieVars_line (Web : WebServer) (sp1 args tail : List Nat)
    (hL : Web.LineBuff = B "Cookie:" ++ (sp1 ++ (args ++ 0 :: tail)))
    (hsp1 : sp1 = [32] ∨ (sp1 = [] ∧ args.head? ≠ some 32))
    (hargs : NoNul args) (hne : args ≠ []) :
    WS_ProcessCookieVars Web =
      match WS_SkipStorageArgs Web.ArgsStorage 0 Web.PageProp.Gets with
      | none => none
      | some Write =>
        match WS_SkipStorageArgs Web.ArgsStorage Write Web.PageProp.Cookies with
        | none => none
        | some E0 =>
          match WS_SkipStorageArgs Web.ArgsStorage E0 Web.PageProp.Posts with
          | none => none
          | some EndOfStorage =>
            match cookieStoreAll
                ((B "Cookie:" ++ sp1) ++
                  (((splitSep 59 args).map (fun s => s ++ [0])).flatten ++ tail))
                (B "Cookie:" ++ sp1).length (splitSep 59 args).length
                (Web.PageProp.Cookies.getD []) Web.ArgsStorage Write EndOfStorage with
            | none => none
            | some (A1, true) =>
              some { Web with
                     LineBuff := (B "Cookie:" ++ sp1) ++
                       (((splitSep 59 args).map (fun s => s ++ [0])).flatten ++ tail)
                     ArgsStorage := A1
                     ReplyStatus := ReplyStatus.InsufficientStorage }
            | some (A1, false) =>
              some { Web with
                     LineBuff := (B "Cookie:" ++ sp1) ++
                       (((splitSep 59 args).map (fun s => s ++ [0])).flatten ++ tail)
                     ArgsStorage := A1 } := by
  obtain ⟨a0, args', rfl⟩ : ∃ a0 args', args = a0 :: args' := by
    cases args with
    | nil => exact absurd rfl hne
    | cons a0 args' => exact ⟨a0, args', rfl⟩
  have ha0 : a0 ≠ 0 := hargs a0 (List.mem_cons_self _ _)
  have h6 : skipUntil 58 (Web.LineBuff.length + 1) Web.LineBuff 0 = some 6 := by
    have h := skipUntil_append 58 [] [67, 111, 111, 107, 105, 101] 58
      (sp1 ++ (a0 :: args' ++ 0 :: tail)) (by decide) (Or.inl rfl) (Web.LineBuff.length + 1)
      (by rw [hL, B_cookie]; simp)
    have e : Web.LineBuff =
        [] ++ ([67, 111, 111, 107, 105, 101] ++ 58 :: (sp1 ++ (a0 :: args' ++ 0 :: tail))) := by
      rw [hL, B_cookie]
      rfl
    rw [← e] at h
    exact h
  have hrd6 : rd Web.LineBuff 6 = some 58 := by
    rw [hL, B_cookie]
    simp [rd]
  have hfront : ∃ c1, rd Web.LineBuff (6 + 1) = some c1 ∧
      (if c1 = 32 then 6 + 1 + 1 else 6 + 1) = (B "Cookie:" ++ sp1).length := by
    rcases hsp1 with rfl | ⟨rfl, h32⟩
    · exact ⟨32, by rw [hL, B_cookie]; simp [rd], by rw [B_cookie]; rfl⟩
    · refine ⟨a0, by rw [hL, B_cookie]; simp [rd], ?_⟩
      have : a0 ≠ 32 := by simpa using h32
      rw [if_neg this, B_cookie]
      rfl
  obtain ⟨c1, hrd7, hAS⟩ := hfront
  have hL2 : Web.LineBuff = (B "Cookie:" ++ sp1) ++ (a0 :: args' ++ 0 :: tail) := by
    rw [hL, List.append_assoc]
  have hrdA : rd Web.LineBuff (B "Cookie:" ++ sp1).length = some a0 := by
    rw [hL2]
    exact rd_at _ _ _
  have hbreak := breakUpArgs_parts 59 (by decide) (a0 :: args') (B "Cookie:" ++ sp1) tail 0
    (Web.LineBuff.length + 1) hargs (by rw [hL2]; simp only [List.length_append]; omega)
  rw [← hL2] at hbreak
  have hzero : (a0 :: args').map (fun c => if c = 59 then 0 else c) ++ 0 :: tail =
      ((splitSep 59 (a0 :: args')).map (fun s => s ++ [0])).flatten ++ tail := by
    rw [← zeroed_eq_parts, List.append_assoc, List.singleton_append]
  rw [hzero] at hbreak
  have hcount : (if (B "Cookie:" ++ sp1).length + (a0 :: args').length ≠
      (B "Cookie:" ++ sp1).length then 0 + List.count 59 (a0 :: args') + 1
      else 0 + List.count 59 (a0 :: args')) = (splitSep 59 (a0 :: args')).length := by
    rw [if_pos (by simp), splitSep_count, Nat.zero_add]
  unfold WS_ProcessCookieVars
  simp only [h6, hrd6, ↓reduceIte, hrd7, hAS, hrdA, ha0, hbreak, hcount]

theorem cookieValues_noNul (names : List (List Nat)) (args : List Nat) (hargs : NoNul args) :
    ∀ v, some v ∈ cookieValues names args → NoNul v := by
  intro v hv
  unfold cookieValues at hv
  obtain ⟨nm, _, hnm⟩ := List.mem_map.1 hv
  refine findSeg_noNul (cstr nm) (cookiePairs args) ?_ v hnm
  intro s hs
  unfold cookiePairs at hs
  obtain ⟨r, hr, rfl⟩ := List.mem_map.1 hs
  exact dropSpaces_noNul r (splitSep_parts_noNul 59 args hargs r hr)

/-- C18 (amended): a storage as `WS_ProcessGetVars` leaves it (Get section, then one `N`
for each Cookie name and each Post name), and in the line buffer one header
`Cookie:`, an optional space and the pairs separated by `;`. When the storage has
room for the values, `WS_ProcessCookieVars` returns without changing the reply
status, and then `WS_COOKIE(c)` gives, for the first declared name equal to `c`,
the rest (as it was sent, not decoded) of the first pair that, after its leading
spaces, begins with `c` and `=`; it gives NULL when no pair does or `c` is not
declared. -/
theorem C18_cookie_value_of_first_pair (Web : WebServer) (names : List (List Nat))
    (gvals : List (Option (List Nat))) (rest sp1 args tail : List Nat)
    (hnames : Web.PageProp.Cookies = some names)
    (hg : gvals.length = (Web.PageProp.Gets.getD []).length)
    (hgn : ∀ v, some v ∈ gvals → NoNul v)
    (hA : Web.ArgsStorage = sectionBytes gvals ++
      (List.replicate names.length 78 ++
        (List.replicate (Web.PageProp.Posts.getD []).length 78 ++ rest)))
    (hAl : Web.ArgsStorage.length = WS_OPT_ARG_MEMORY_SIZE)
    (hL : Web.LineBuff = B "Cookie:" ++ (sp1 ++ (args ++ 0 :: tail)))
    (hsp1 : sp1 = [32] ∨ (sp1 = [] ∧ args.head? ≠ some 32))
    (hargs : NoNul args) (hne : args ≠ [])
    (hfits : (sectionBytes gvals).length + (sectionBytes (cookieValues names args)).length +
      (Web.PageProp.Posts.getD []).length ≤ WS_OPT_ARG_MEMORY_SIZE) :
    ∃ W, WS_ProcessCookieVars Web = some W ∧ W.ReplyStatus = Web.ReplyStatus ∧
      W.PageProp = Web.PageProp ∧
      ∀ c, cookieValue W c = some (sectionLookup c names (cookieValues names args)) := by
  have hnone : ∀ (n : Nat) v, some v ∈ List.replicate n (none : Option (List Nat)) →
      NoNul v := fun n v hv => absurd (List.eq_of_mem_replicate hv) (by simp)
  have hcl : (Web.PageProp.Cookies.getD []).length = names.length := by rw [hnames]; rfl
  have h1 := skipStorage_section Web.PageProp.Gets gvals []
    (List.replicate names.length 78 ++
      (List.replicate (Web.PageProp.Posts.getD []).length 78 ++ rest)) hg.symm hgn
  have h2 := skipStorage_section Web.PageProp.Cookies (List.replicate names.length none)
    (sectionBytes gvals) (List.replicate (Web.PageProp.Posts.getD []).length 78 ++ rest)
    (by rw [hcl, List.length_replicate]) (hnone _)
  have h3 := skipStorage_section Web.PageProp.Posts
    (List.replicate (Web.PageProp.Posts.getD []).length none)
    (sectionBytes gvals ++ List.replicate names.length 78) rest
    (by simp) (hnone _)
  simp only [List.nil_append, List.length_nil, Nat.zero_add, sectionBytes_none,
    List.append_assoc, List.length_append, List.length_replicate, ← hA] at h1 h2 h3
  -- the pairs of the header
  have hsegs : ∀ s ∈ (splitSep 59 args).map
      (fun s => (s.length - (dropSpaces s).length, dropSpaces s)),
      NoNul s.2 ∧ s.2.head? ≠ some 32 := by
    intro s hs
    obtain ⟨r, hr, rfl⟩ := List.mem_map.1 hs
    obtain ⟨_, _, h32⟩ := dropSpaces_spec r
    exact ⟨dropSpaces_noNul r (splitSep_parts_noNul 59 args hargs r hr), h32⟩
  have hsne : (splitSep 59 args).map
      (fun s => (s.length - (dropSpaces s).length, dropSpaces s)) ≠ [] := by
    intro h
    exact splitSep_ne_nil 59 args (List.map_eq_nil_iff.1 h)
  have hrests : ((splitSep 59 args).map
      (fun s => (s.length - (dropSpaces s).length, dropSpaces s))).map
        (fun s : Nat × List Nat => s.2) = cookiePairs args := by
    unfold cookiePairs
    rw [List.map_map]
    rfl
  obtain ⟨Z1, hall⟩ := cookieStoreAll_values (B "Cookie:" ++ sp1) tail _ hsegs hsne names
    (sectionBytes gvals) (List.replicate (Web.PageProp.Posts.getD []).length 78) rest
    (by
      rw [hrests, ← hA, hAl, List.length_replicate]
      exact hfits)
    (by rw [← hA, hAl])
  rw [partBytes_of_parts, List.length_map, hrests, ← hA, List.length_replicate] at hall
  have hcv : List.map (fun nm => findSeg (cstr nm) (cookiePairs args)) names =
      cookieValues names args := rfl
  rw [hcv] at hall
  have hline := processCookieVars_line Web sp1 args tail hL hsp1 hargs hne
  rw [h1] at hline
  dsimp only at hline
  rw [h2] at hline
  dsimp only at hline
  rw [h3] at hline
  dsimp only at hline
  rw [hnames] at hline
  dsimp only [Option.getD_some] at hline
  rw [hall] at hline
  dsimp only at hline
  refine ⟨_, hline, rfl, rfl, ?_⟩
  intro c
  have hs1 := skipStorage_section Web.PageProp.Gets gvals []
    (sectionBytes (cookieValues names args) ++
      (List.replicate (Web.PageProp.Posts.getD []).length 78 ++ Z1)) hg.symm hgn
  have hf := findArgLoop_section (cookieValues names args) names (sectionBytes gvals)
    (List.replicate (Web.PageProp.Posts.getD []).length 78 ++ Z1) c
    (by unfold cookieValues; rw [List.length_map]) (cookieValues_noNul names args hargs)
  simp only [List.nil_append, List.length_nil, Nat.zero_add] at hs1
  unfold cookieValue WS_COOKIE WS_FindArgInStorage
  dsimp only
  rw [hs1, hnames]
  exact hf

set_option maxRecDepth 1000000 in
theorem C18_cookie_value_witness :
    cookiePairsExample.PageProp.Cookies = some [B "c"] ∧
    cookiePairsExample.ArgsStorage = sectionBytes [some [49]] ++
      (List.replicate [B "c"].length 78 ++
        (List.replicate (cookiePairsExample.PageProp.Posts.getD []).length 78 ++
          List.replicate 95 0)) ∧
    cookiePairsExample.LineBuff = B "Cookie:" ++ ([32] ++ (B "x=1; c=a%20b; c=w" ++
      0 :: List.replicate 230 0)) ∧
    cookieValues [B "c"] (B "x=1; c=a%20b; c=w") = [some (B "a%20b")] ∧
    sectionLookup (B "c") [B "c"] (cookieValues [B "c"] (B "x=1; c=a%20b; c=w"))
      = some (B "a%20b") ∧
    ∃ W, WS_ProcessCookieVars cookiePairsExample = some W ∧
      W.ReplyStatus = cookiePairsExample.ReplyStatus ∧
      W.PageProp = cookiePairsExample.PageProp ∧
      ∀ c, cookieValue W c =
        some (sectionLookup c [B "c"] (cookieValues [B "c"] (B "x=1; c=a%20b; c=w"))) :=
  ⟨by decide, by decide, by decide, by decide, by decide,
    C18_cookie_value_of_first_pair cookiePairsExample [B "c"] [some [49]] (List.replicate 95 0)
      [32] (B "x=1; c=a%20b; c=w") (List.replicate 230 0) (by decide) (by decide)
      (by
        intro v hv
        simp only [List.mem_singleton, Option.some.injEq] at hv
        subst hv
        intro c hc
        simp only [List.mem_singleton] at hc
        omega)
      (by decide) (by decide) (by decide) (Or.inl rfl) (by unfold NoNul; decide) (by decide)
      (by decide)⟩

/-! ## The response primitives -/

set_option maxRecDepth 1000000 in
/-- C22, what the code does: `WS_WriteChunk` starts the reply whenever no body byte has
been written yet, also when the status line is out already. For the file `/` whose
function calls `WS_Header("X-A: 1")` and then `WS_WriteChunk("hi",2)`, the status line,
the `Server` header and the `ETag` line are written twice, the second time after the
header `X-A: 1`. With `WS_WriteWhole("hi",2)` in place of the chunk they are written
once. -/
theorem C22_status_line_written_twice :
    sentBytes (WS_RunServer
        (callsTable false [Action.Header (B "X-A: 1"), Action.WriteChunk (B "hi") 2]) 0 freshWeb
        (B "GET / HTTP/1.1\r\n\r\n"))
      = some (B "HTTP/1.1 200 OK\r\nServer: BittyHTTP\r\nETag: \"1.0.0.0\"\r\nX-A: 1\r\n"
          ++ B "HTTP/1.1 200 OK\r\nServer: BittyHTTP\r\nETag: \"1.0.0.0\"\r\n"
          ++ B "Transfer-Encoding: chunked\r\n\r\n2\r\nhi\r\n0\r\n\r\n") ∧
    sentBytes (WS_RunServer
        (callsTable false [Action.Header (B "X-A: 1"), Action.WriteWhole (B "hi") 2]) 0 freshWeb
        (B "GET / HTTP/1.1\r\n\r\n"))
      = some (B "HTTP/1.1 200 OK\r\nServer: BittyHTTP\r\nETag: \"1.0.0.0\"\r\nX-A: 1\r\n"
          ++ B "Content-Length: 2\r\n\r\nhi") := by
  decide!

set_option maxRecDepth 1000000 in
/-- C23, what the code does: `WS_WriteChunk` does not look at whether `WS_WriteWhole` has
been called. For the file `/` whose function calls `WS_WriteWhole("hello",5)` and then
`WS_WriteChunk("x",1)`, the reply with `Content-Length: 5` and the body `hello` is
followed by the chunk `1` CRLF `x` CRLF, and `WS_EndReply` adds the final chunk `0` CRLF
CRLF. The other calls after `WS_WriteWhole` (a second `WS_WriteWhole`, `WS_Header`,
`WS_SetCookie`, `WS_Location`, `WS_SetHTTPStatusCode`, and `WS_WriteChunk` with
`Len = 0`) send nothing. -/
theorem C23_chunk_after_whole_is_sent :
    sentBytes (WS_RunServer
        (callsTable false [Action.WriteWhole (B "hello") 5, Action.WriteChunk (B "x") 1]) 0
        freshWeb (B "GET / HTTP/1.1\r\n\r\n"))
      = some (wholeReply (B "hello") ++ B "1\r\nx\r\n" ++ B "0\r\n\r\n") ∧
    sentBytes (WS_RunServer
        (callsTable false
          [Action.WriteWhole (B "hello") 5, Action.WriteWhole (B "again") 5,
           Action.Header (B "X-A: 1"),
           Action.SetCookie (B "n") (B "v") 0 none none false false,
           Action.Location (B "/x"), Action.SetHTTPStatusCode ReplyStatus.NotFound,
           Action.WriteChunk (B "x") 0]) 0
        freshWeb (B "GET / HTTP/1.1\r\n\r\n"))
      = some (wholeReply (B "hello")) := by
  decide!

set_option maxRecDepth 1000000 in
/-- C28, what the code does: the text `; Domain=` is written with the length 7, so only
`; Domai` is sent. For the file `/` whose function calls
`WS_SetCookie("id","7",0,"/","example.com",true,true)` and `WS_WriteWhole("ok",2)` the
header line is `Set-Cookie: id=7; Path=/; Domaiexample.com; Secure; HttpOnly`. Without
a domain the line is as the format says. -/
theorem C28_domain_attribute_is_cut :
    sentBytes (WS_RunServer
        (callsTable false
          [Action.SetCookie (B "id") (B "7") 0 (some (B "/")) (some (B "example.com")) true true,
           Action.WriteWhole (B "ok") 2]) 0
        freshWeb (B "GET / HTTP/1.1\r\n\r\n"))
      = some (B "HTTP/1.1 200 OK\r\nServer: BittyHTTP\r\nETag: \"1.0.0.0\"\r\n"
          ++ B "Set-Cookie: id=7; Path=/; Domaiexample.com; Secure; HttpOnly\r\n"
          ++ B "Content-Length: 2\r\n\r\nok") ∧
    sentBytes (WS_RunServer
        (callsTable false
          [Action.SetCookie (B "id") (B "7") 0 (some (B "/")) none true true,
           Action.WriteWhole (B "ok") 2]) 0
        freshWeb (B "GET / HTTP/1.1\r\n\r\n"))
      = some (B "HTTP/1.1 200 OK\r\nServer: BittyHTTP\r\nETag: \"1.0.0.0\"\r\n"
          ++ B "Set-Cookie: id=7; Path=/; Secure; HttpOnly\r\n"
          ++ B "Content-Length: 2\r\n\r\nok") := by
  decide!

set_option maxRecDepth 1000000 in
/-- C26 fails as stated: the file `/` of `FileServer.c` is not dynamic, but the reply to a
request for it with the malformed header `If-None-Match: x` is the automatic 400 reply,
written by `WS_StartReply` without an `ETag` line. -/
theorem C26_counterexample :
    sentBytes (WS_RunServer (fileServerTable (B "hello")) 0 freshWeb
        (B "GET / HTTP/1.1\r\nIf-None-Match: x\r\n\r\n"))
      = some (B "HTTP/1.1 400 Bad Request\r\nServer: BittyHTTP\r\nContent-Length: 15\r\n\r\n"
          ++ B "400 Bad Request") ∧
    (FS_GetFileProperties (fileServerTable (B "hello")) (B "/") freshWeb.PageProp).1.DynamicFile
      = false := by
  decide!

/-- What `WS_StartReply` writes for a reply with a body of its own (status 200, or a status
that the file's function has set), on a connected session. -/
theorem startReply_own (Web : WebServer)
    (hst : Web.ReplyStatus = ReplyStatus.Ok ∨ Web.UserSetReplyStatus = true)
    (hc : Web.Con.State = ConnectState.Connected) :
    WS_StartReply Web =
      { Web with Con := { Web.Con with Sent := Web.Con.Sent ++
                            (statusAndServer Web.ReplyStatus ++ etagLine Web.PageProp.DynamicFile) }
                 ReplyStarted := true } := by
  have hno : ¬ (Web.ReplyStatus ≠ ReplyStatus.Ok ∧ Web.UserSetReplyStatus = false) := by
    rintro ⟨h1, h2⟩
    rcases hst with h | h
    · exact h1 h
    · rw [h2] at h; exact Bool.noConfusion h
  have e1 : B "ETag: \"" ++ DOCVER ++ B "\"\r\n" = B "ETag: \"1.0.0.0\"\r\n" := by decide
  unfold WS_StartReply statusAndServer etagLine
  cases hd : Web.PageProp.DynamicFile <;>
    simp only [conWrite, hc, hno, hd, e1, ne_eq, not_true_eq_false, not_false_eq_true,
      ↓reduceIte, List.append_assoc, Bool.false_eq_true, Bool.true_eq_false, List.append_nil]

/-- `conWrite` changes the connection only. -/
theorem conWrite_eq (Web : WebServer) (s : List Nat) :
    conWrite Web s = { Web with Con := (conWrite Web s).Con } := by
  unfold conWrite
  split <;> rfl

/-- `WS_StartReply` changes the connection and the flag `ReplyStarted` only. -/
theorem startReply_eq (Web : WebServer) :
    WS_StartReply Web = { Web with Con := (WS_StartReply Web).Con, ReplyStarted := true } := by
  unfold WS_StartReply
  dsimp only
  rw [conWrite_eq Web, conWrite_eq _ (statusMsg _), conWrite_eq _ (B "\r\n"),
    conWrite_eq _ (B "Server: BittyHTTP\r\n")]
  dsimp only
  split
  · rw [conWrite_eq _ (_ ++ _), conWrite_eq _ (B "\r\n"), conWrite_eq _ (statusMsg _)]
  · split
    · rw [conWrite_eq _ (_ ++ _)]
    · rfl

/-- After `WS_WriteWhole` the flag `WriteStarted` is set. -/
theorem writeWhole_started {Web W : WebServer} {b : List Nat} {l : Int}
    (h : WS_WriteWhole Web b l = some W) : W.WriteStarted = true := by
  unfold WS_WriteWhole at h
  split at h
  · rename_i hw
    simp only [Option.some.injEq] at h; subst h; exact hw
  · dsimp only at h
    unfold conWriteN at h
    simp only [Option.map_eq_some'] at h
    obtain ⟨r, _, rfl⟩ := h
    dsimp only
    rw [conWrite_eq, conWrite_eq _ (_ ++ _)]
    dsimp only
    split
    · rw [startReply_eq]
    · rfl

/-- After `WS_WriteChunk` with a length other than 0 the flag `WriteStarted` is set. -/
theorem writeChunk_started {Web W : WebServer} {b : List Nat} {l : Int} (hl : l ≠ 0)
    (h : WS_WriteChunk Web b l = some W) : W.WriteStarted = true := by
  unfold WS_WriteChunk at h
  rw [if_neg hl] at h
  dsimp only at h
  split at h
  · contradiction
  · rename_i W1 hw
    simp only [Option.some.injEq] at h; subst h
    unfold conWriteN at hw
    simp only [Option.map_eq_some'] at hw
    obtain ⟨r, _, rfl⟩ := hw
    rw [conWrite_eq]
    dsimp only
    rw [conWrite_eq]

/-- `WS_SetHTTPStatusCode` refuses once the status line or a body byte is out. -/
theorem setStatus_refused (Web : WebServer) (c : ReplyStatus)
    (h : Web.WriteStarted = true ∨ Web.ReplyStarted = true) :
    WS_SetHTTPStatusCode Web c = (Web, false) := by
  unfold WS_SetHTTPStatusCode
  rcases h with h | h <;> simp only [h, ↓reduceIte, ite_self]

/-- `WS_Location` refuses once the status line or a body byte is out. -/
theorem location_refused (Web : WebServer) (u : List Nat)
    (h : Web.WriteStarted = true ∨ Web.ReplyStarted = true) :
    WS_Location Web u = (Web, false) := by
  unfold WS_Location
  split
  · rfl
  · rw [setStatus_refused Web _ h]

/-- `WS_SetCookie` refuses once a body byte is out. -/
theorem setCookie_refused (Web : WebServer) (n v : List Nat) (e : Int)
    (p d : Option (List Nat)) (s ho : Bool) (h : Web.WriteStarted = true) :
    WS_SetCookie Web n v e p d s ho = some (Web, false) := by
  unfold WS_SetCookie
  simp only [h, ↓reduceIte, ite_self]

/-- `WS_Header` refuses once a body byte is out. -/
theorem header_refused (Web : WebServer) (hd : List Nat) (h : Web.WriteStarted = true) :
    WS_Header Web hd = (Web, false) := by
  unfold WS_Header
  simp only [h, ↓reduceIte, ite_self]

/-- Once `WriteStarted` is set, no call of a response primitive clears it. -/
theorem runAction_started {Web W : WebServer} {a : Action} (hw : Web.WriteStarted = true)
    (h : runAction Web a = some W) : W.WriteStarted = true := by
  cases a with
  | SetHTTPStatusCode c =>
    simp only [runAction, setStatus_refused Web c (Or.inl hw), Option.some.injEq] at h
    subst h; exact hw
  | Header hd =>
    simp only [runAction, header_refused Web hd hw, Option.some.injEq] at h
    subst h; exact hw
  | Location u =>
    simp only [runAction, location_refused Web u (Or.inl hw), Option.some.injEq] at h
    subst h; exact hw
  | SetCookie n v e p d s ho =>
    simp only [runAction, setCookie_refused Web n v e p d s ho hw, Option.map_some',
      Option.some.injEq] at h
    subst h; exact hw
  | WriteWhole b l => exact writeWhole_started h
  | WriteChunk b l =>
    by_cases hl : l = 0
    · simp only [runAction, WS_WriteChunk, hl, ↓reduceIte, Option.some.injEq] at h
      subst h; exact hw
    · exact writeChunk_started hl h

/-- C24: body writing has started once `WS_WriteWhole` or `WS_WriteChunk` with a length
other than 0 has returned (`WriteStarted` is set, and no later call clears it). From
then on `WS_Header`, `WS_SetCookie`, `WS_Location` and `WS_SetHTTPStatusCode` return
false and the session is what it was, so nothing is written. `WS_SetHTTPStatusCode` and
`WS_Location` do the same when the status line is out already (`ReplyStarted`), and
`WS_SetHTTPStatusCode` for the code `e_ReplyStatusMAX`. In every other case
`WS_SetHTTPStatusCode` returns true, the code is stored, `UserSetReplyStatus` and
`ReplyStarted` are set, and on a connected session the status line of the code, the
`Server` header and, for a file that is not dynamic, the `ETag` line have been
written. -/
theorem C24_header_calls_fail_after_body_started (Web : WebServer) :
    (∀ b l W, WS_WriteWhole Web b l = some W → W.WriteStarted = true) ∧
    (∀ b l W, l ≠ 0 → WS_WriteChunk Web b l = some W → W.WriteStarted = true) ∧
    (∀ a W, Web.WriteStarted = true → runAction Web a = some W → W.WriteStarted = true) ∧
    (Web.WriteStarted = true →
      (∀ h, WS_Header Web h = (Web, false)) ∧
      (∀ n v e p d s ho, WS_SetCookie Web n v e p d s ho = some (Web, false)) ∧
      (∀ u, WS_Location Web u = (Web, false)) ∧
      (∀ c, WS_SetHTTPStatusCode Web c = (Web, false))) ∧
    (Web.ReplyStarted = true →
      (∀ u, WS_Location Web u = (Web, false)) ∧
      (∀ c, WS_SetHTTPStatusCode Web c = (Web, false))) ∧
    WS_SetHTTPStatusCode Web ReplyStatus.MAX = (Web, false) ∧
    (∀ Code, Code ≠ ReplyStatus.MAX → Web.WriteStarted = false → Web.ReplyStarted = false →
      ∃ W, WS_SetHTTPStatusCode Web Code = (W, true) ∧ W.ReplyStatus = Code ∧
        W.UserSetReplyStatus = true ∧ W.ReplyStarted = true ∧
        (Web.Con.State = ConnectState.Connected →
          W.Con.Sent = Web.Con.Sent ++
            (B "HTTP/1.1 " ++ statusMsg Code ++ B "\r\n" ++ B "Server: BittyHTTP\r\n" ++
              (if Web.PageProp.DynamicFile then [] else B "ETag: \"1.0.0.0\"\r\n")))) := by
  refine ⟨fun b l W h => writeWhole_started h, fun b l W hl h => writeChunk_started hl h,
    fun a W hw h => runAction_started hw h, ?_, ?_, ?_, ?_⟩
  · intro hw
    exact ⟨fun h => header_refused Web h hw, fun n v e p d s ho =>
      setCookie_refused Web n v e p d s ho hw, fun u => location_refused Web u (Or.inl hw),
      fun c => setStatus_refused Web c (Or.inl hw)⟩
  · intro hr
    exact ⟨fun u => location_refused Web u (Or.inr hr),
      fun c => setStatus_refused Web c (Or.inr hr)⟩
  · unfold WS_SetHTTPStatusCode
    simp only [↓reduceIte]
  · intro Code hC hw hr
    refine ⟨WS_StartReply { Web with UserSetReplyStatus := true, ReplyStatus := Code }, ?_, ?_,
      ?_, ?_, ?_⟩
    · unfold WS_SetHTTPStatusCode
      simp only [hC, hw, hr, ↓reduceIte, Bool.false_eq_true]
    · rw [startReply_eq]
    · rw [startReply_eq]
    · rw [startReply_eq]
    · intro hc
      rw [startReply_own { Web with UserSetReplyStatus := true, ReplyStatus := Code }
        (Or.inr rfl) hc]
      unfold statusAndServer etagLine
      rfl

/-- The loop of `FS_GetFileProperties`: a file that is found is the entry of the table at
the index stored in `FileID`, its name is the one asked for and its properties are the
ones stored. -/
theorem getFilePropertiesLoop_found (Filename : List Nat) (pp : WSPageProp) :
    ∀ (fs : List FileInfo) (r : Nat) (pp1 : WSPageProp),
      getFilePropertiesLoop Filename pp fs r = (pp1, true) →
      ∃ f, fs[pp1.FileID - r]? = some f ∧ r ≤ pp1.FileID ∧ cstr f.Filename = Filename ∧
        pp1 = { FileID := pp1.FileID, DynamicFile := f.Dynamic, Cookies := f.Cookies,
                Gets := f.Gets, Posts := f.Posts } := by
  intro fs
  induction fs with
  | nil => intro r pp1 h; simp [getFilePropertiesLoop] at h
  | cons f rest ih =>
    intro r pp1 h
    unfold getFilePropertiesLoop at h
    split at h
    · rename_i hf
      simp only [Prod.mk.injEq, and_true] at h
      subst h
      exact ⟨f, by simp, le_refl _, hf.symm, rfl⟩
    · obtain ⟨g, h1, h2, h3, h4⟩ := ih (r + 1) pp1 h
      refine ⟨g, ?_, by omega, h3, h4⟩
      have e : pp1.FileID - r = (pp1.FileID - (r + 1)) + 1 := by omega
      rw [e, List.getElem?_cons_succ]
      exact h1

/-- The loop of `FS_GetFileProperties`: when no file is found the properties are left as
they were. -/
theorem getFilePropertiesLoop_none (Filename : List Nat) (pp : WSPageProp) :
    ∀ (fs : List FileInfo) (r : Nat) (pp1 : WSPageProp),
      getFilePropertiesLoop Filename pp fs r = (pp1, false) → pp1 = pp := by
  intro fs
  induction fs with
  | nil => intro r pp1 h; simp only [getFilePropertiesLoop, Prod.mk.injEq, and_true] at h; exact h.symm
  | cons f rest ih =>
    intro r pp1 h
    unfold getFilePropertiesLoop at h
    split at h
    · simp at h
    · exact ih _ _ h

/-- `FS_GetFileProperties` for a file that is found. -/
theorem getFileProperties_found {m_Files : List FileInfo} {Filename : List Nat}
    {pp pp1 : WSPageProp} (h : FS_GetFileProperties m_Files Filename pp = (pp1, true)) :
    ∃ f, m_Files[pp1.FileID]? = some f ∧ cstr f.Filename = Filename ∧
      pp1 = { FileID := pp1.FileID, DynamicFile := f.Dynamic, Cookies := f.Cookies,
              Gets := f.Gets, Posts := f.Posts } := by
  obtain ⟨f, h1, _, h3, h4⟩ := getFilePropertiesLoop_found Filename pp m_Files 0 pp1 h
  exact ⟨f, h1, h3, h4⟩

set_option maxRecDepth 1000000 in
/-- No status line has the text `ETag` in it, nor has the `Server` header. -/
theorem statusAndServer_no_etag (st : ReplyStatus) :
    ¬ (B "ETag" <:+: (B "HTTP/1.1 " ++ statusMsg st ++ B "\r\n" ++ B "Server: BittyHTTP\r\n")) := by
  cases st <;> decide

/-- C26 (amended): for every reply with a body of its own, that is with the status 200 or
a status that the file's function has set, the bytes that `WS_StartReply` writes on a
connected session are the status line and the `Server` header, followed by the line
`ETag: "1.0.0.0"` when the file is not dynamic and by nothing when it is dynamic: then
the text `ETag` is not in what was written. The flag `DynamicFile` is the one of the file
that `FS_GetFileProperties` has found under the name of the request. -/
theorem C26_etag_line_of_own_reply (Web : WebServer)
    (hst : Web.ReplyStatus = ReplyStatus.Ok ∨ Web.UserSetReplyStatus = true)
    (hc : Web.Con.State = ConnectState.Connected) :
    (Web.PageProp.DynamicFile = false →
      (WS_StartReply Web).Con.Sent = Web.Con.Sent ++
        (B "HTTP/1.1 " ++ statusMsg Web.ReplyStatus ++ B "\r\n" ++ B "Server: BittyHTTP\r\n"
          ++ B "ETag: \"1.0.0.0\"\r\n")) ∧
    (Web.PageProp.DynamicFile = true →
      (WS_StartReply Web).Con.Sent = Web.Con.Sent ++
        (B "HTTP/1.1 " ++ statusMsg Web.ReplyStatus ++ B "\r\n" ++ B "Server: BittyHTTP\r\n") ∧
      ¬ (B "ETag" <:+:
        (B "HTTP/1.1 " ++ statusMsg Web.ReplyStatus ++ B "\r\n" ++ B "Server: BittyHTTP\r\n"))) ∧
    (∀ (m_Files : List FileInfo) (Filename : List Nat) (pp pp1 : WSPageProp),
      FS_GetFileProperties m_Files Filename pp = (pp1, true) →
      ∃ f, m_Files[pp1.FileID]? = some f ∧ cstr f.Filename = Filename ∧
        pp1.DynamicFile = f.Dynamic) := by
  refine ⟨fun hd => ?_, fun hd => ⟨?_, statusAndServer_no_etag _⟩, ?_⟩
  · rw [startReply_own Web hst hc, hd]
    rfl
  · rw [startReply_own Web hst hc, hd]
    show Web.Con.Sent ++ (statusAndServer Web.ReplyStatus ++ []) = _
    rw [List.append_nil]
    rfl
  · intro m_Files Filename pp pp1 h
    obtain ⟨f, h1, h2, h3⟩ := getFileProperties_found h
    exact ⟨f, h1, h2, by rw [h3]⟩

set_option maxRecDepth 1000000 in
theorem C26_etag_line_witness :
    ({ freshWeb with ReplyStatus := ReplyStatus.Ok }.ReplyStatus = ReplyStatus.Ok ∨
      { freshWeb with ReplyStatus := ReplyStatus.Ok }.UserSetReplyStatus = true) ∧
    { freshWeb with ReplyStatus := ReplyStatus.Ok }.Con.State = ConnectState.Connected ∧
    { freshWeb with ReplyStatus := ReplyStatus.Ok }.PageProp.DynamicFile = false ∧
    (WS_StartReply { freshWeb with ReplyStatus := ReplyStatus.Ok }).Con.Sent
        = B "HTTP/1.1 200 OK\r\nServer: BittyHTTP\r\nETag: \"1.0.0.0\"\r\n" :=
  ⟨Or.inl rfl, by decide, by decide,
    ((C26_etag_line_of_own_reply { freshWeb with ReplyStatus := ReplyStatus.Ok }
      (Or.inl rfl) (by decide)).1 (by decide)).trans (by decide)⟩

/-- The test of `WS_SetCookie` for a bad character, in the words of the specification. -/
theorem any_badCookieChar (s : List Nat) :
    s.any badCookieChar = true ↔ badCookieText s := by
  unfold badCookieText
  simp only [List.any_eq_true, badCookieChar, Bool.or_eq_true, decide_eq_true_eq]
  constructor
  · rintro ⟨c, hc, h⟩
    exact ⟨c, hc, by tauto⟩
  · rintro ⟨c, hc, h⟩
    exact ⟨c, hc, by tauto⟩

/-- Every write of a text adds bytes at the end of what was sent. -/
theorem conWrite_sent (Web : WebServer) (s : List Nat) :
    ∃ l, (conWrite Web s).Con.Sent = Web.Con.Sent ++ l := by
  unfold conWrite
  split
  · exact ⟨[], by simp⟩
  · exact ⟨s, rfl⟩

/-- Two writes of texts are one write of both. -/
theorem conWrite_conWrite (Web : WebServer) (a b : List Nat) :
    conWrite (conWrite Web a) b = conWrite Web (a ++ b) := by
  unfold conWrite
  by_cases hc : Web.Con.State = ConnectState.Connected
  · simp only [hc, ne_eq, not_true_eq_false, ↓reduceIte, List.append_assoc]
  · simp only [hc, ne_eq, not_false_eq_true, ↓reduceIte]

theorem conWrite_nil (Web : WebServer) : conWrite Web [] = Web := by
  unfold conWrite
  split
  · rfl
  · simp only [List.append_nil]

/-- An accepted `WS_SetCookie` call with `Expire = 0`: the reply is started when it was
not, and the bytes of the call are written. -/
theorem setCookie_accepted (Web : WebServer) (Name Value : List Nat)
    (Path Domain : Option (List Nat)) (Secure HttpOnly : Bool)
    (h1 : cstr Name ≠ []) (h2 : (cstr Name).any badCookieChar = false)
    (h3 : (cstr Value).any badCookieChar = false) (h4 : Web.WriteStarted = false) :
    WS_SetCookie Web Name Value 0 Path Domain Secure HttpOnly =
      some (conWrite (if Web.ReplyStarted = false then WS_StartReply Web else Web)
        (setCookieLine Name Value Path Domain Secure HttpOnly), true) := by
  unfold WS_SetCookie setCookieLine
  simp only [h1, h2, h3, h4, ↓reduceIte, ne_eq, not_true_eq_false, not_false_eq_true,
    Bool.false_eq_true]
  cases Path <;> cases Domain <;> cases Secure <;> cases HttpOnly <;>
    simp only [↓reduceIte, Bool.false_eq_true, conWrite_conWrite, List.append_assoc,
      List.append_nil, List.nil_append] <;>
    repeat' split
  all_goals simp only [conWrite_conWrite, List.append_assoc, List.append_nil, List.nil_append]

/-- C27, what the code does: `WS_SetCookie` returns false and leaves the session as it
was (nothing is written, the reply is not started) when the name is empty, the name or
the value has a space, a comma, a semicolon, a carriage return or a line feed in it, or
body writing has started. In every other case with `Expire = 0` it returns true, the
status line is out afterwards (`WS_StartReply` has been called first when it was not),
and the bytes of the call follow. In every other case with `Expire != 0` the code prints
`wday_name[..]` and `mon_name[..]`, arrays of three characters without terminator, with
`%s`, and reads past them: the call has no defined result. -/
theorem C27_set_cookie_refusal (Web : WebServer) (Name Value : List Nat) (Expire : Int)
    (Path Domain : Option (List Nat)) (Secure HttpOnly : Bool) :
    (cookieRefused Web Name Value →
      WS_SetCookie Web Name Value Expire Path Domain Secure HttpOnly = some (Web, false)) ∧
    (¬ cookieRefused Web Name Value → Expire = 0 →
      ∃ W line, WS_SetCookie Web Name Value Expire Path Domain Secure HttpOnly = some (W, true) ∧
        W.ReplyStarted = true ∧
        W.Con.Sent = (if Web.ReplyStarted = false then WS_StartReply Web else Web).Con.Sent
          ++ line) ∧
    (¬ cookieRefused Web Name Value → Expire ≠ 0 →
      WS_SetCookie Web Name Value Expire Path Domain Secure HttpOnly = none) := by
  unfold cookieRefused
  rw [← any_badCookieChar, ← any_badCookieChar]
  refine ⟨fun h => ?_, fun h he => ?_, fun h he => ?_⟩
  · unfold WS_SetCookie
    rcases h with h | h | h | h
    · simp only [h, ↓reduceIte]
    · simp only [h, ↓reduceIte, ite_self]
    · simp only [h, ↓reduceIte, ite_self]
    · simp only [h, ↓reduceIte, ite_self]
  · simp only [not_or, Bool.not_eq_true] at h
    obtain ⟨h1, h2, h3, h4⟩ := h
    subst he
    obtain ⟨l, hl⟩ := conWrite_sent (if Web.ReplyStarted = false then WS_StartReply Web else Web)
      (setCookieLine Name Value Path Domain Secure HttpOnly)
    refine ⟨_, l, setCookie_accepted Web Name Value Path Domain Secure HttpOnly h1 h2 h3 h4,
      ?_, hl⟩
    rw [conWrite_eq]
    dsimp only
    split
    · rw [startReply_eq]
    · rename_i hr
      simpa using hr
  · simp only [not_or, Bool.not_eq_true] at h
    obtain ⟨h1, h2, h3, h4⟩ := h
    unfold WS_SetCookie
    simp only [h1, h2, h3, h4, he, ↓reduceIte, ne_eq, not_true_eq_false, not_false_eq_true,
      Bool.false_eq_true]

/-! ## The output and the flag of `WS_URLEncode` -/

theorem pctEscape_length (c : Nat) : (pctEscape c).length = 3 := rfl

theorem pctEncode_cons (c : Nat) (rest : List Nat) :
    pctEncode (c :: rest) = (if isUnreserved c then [c] else pctEscape c) ++ pctEncode rest := rfl

/-- The encoding has at most three bytes for each byte. -/
theorem pctEncode_length_le (s : List Nat) : (pctEncode s).length ≤ 3 * s.length := by
  induction s with
  | nil => simp [pctEncode]
  | cons c rest ih =>
    rw [pctEncode_cons, List.length_append, List.length_cons]
    split
    · simp only [List.length_singleton]; omega
    · rw [pctEscape_length]; omega

/-- The encoding has no NUL in it. -/
theorem pctEncode_noNul (s : List Nat) (hs : NoNul s) : NoNul (pctEncode s) := by
  induction s with
  | nil => intro c hc; simp [pctEncode] at hc
  | cons c rest ih =>
    intro x hx
    rw [pctEncode_cons, List.mem_append] at hx
    rcases hx with hx | hx
    · split at hx
      · simp only [List.mem_singleton] at hx
        rw [hx]; exact hs c (by simp)
      · unfold pctEscape at hx
        simp only [List.mem_cons, List.mem_singleton, List.not_mem_nil, or_false] at hx
        rcases hx with hx | hx | hx
        · omega
        · rw [hx]; split <;> omega
        · rw [hx]; split <;> omega
    · exact ih (fun y hy => hs y (by simp [hy])) x hx

/-- `WS_URLEncode` reads its input up to the first NUL. -/
theorem urlEncodeLoop_cstr (End : Int) : ∀ (Value Out : List Nat) (w : Nat),
    urlEncodeLoop End Value Out w = urlEncodeLoop End (cstr Value) Out w := by
  intro Value
  induction Value with
  | nil => intro Out w; rfl
  | cons c rest ih =>
    intro Out w
    by_cases hc : c = 0
    · subst hc
      simp [cstr, urlEncodeLoop]
    · have e : cstr (c :: rest) = c :: cstr rest := by simp [cstr, hc]
      rw [e, urlEncodeLoop, urlEncodeLoop]
      simp only [hc, ↓reduceIte]
      split
      · split
        · rfl
        · split
          · rfl
          · exact ih _ _
      · split
        · rfl
        · split
          · rfl
          · exact ih _ _

/-- The encoding and its terminator fit before the last byte of the buffer: the loop of
`WS_URLEncode` writes them and returns true. -/
theorem urlEncodeLoop_fits (E : Nat) : ∀ (s Out : List Nat) (w : Nat), NoNul s →
    Out.length = E + 1 → w + (pctEncode s).length < E →
    urlEncodeLoop (E : Int) s Out w =
      some (Out.take w ++ (pctEncode s ++ 0 :: Out.drop (w + (pctEncode s).length + 1)), true) := by
  intro s
  induction s with
  | nil =>
    intro Out w _ hl hw
    simp only [pctEncode, List.length_nil, Nat.add_zero] at hw ⊢
    rw [urlEncodeLoop, wr_some Out w 0 (by omega), set_eq_take_cons_drop_nat Out w 0 (by omega)]
    rfl
  | cons c rest ih =>
    intro Out w hs hl hw
    have hc : c ≠ 0 := hs c (by simp)
    have hrest : NoNul rest := fun x hx => hs x (by simp [hx])
    rw [pctEncode_cons, List.length_append] at hw
    rw [urlEncodeLoop]
    simp only [hc, ↓reduceIte]
    by_cases hu : isUnreserved c = true
    · simp only [hu, ↓reduceIte, List.length_singleton] at hw ⊢
      rw [wr_some Out w c (by omega)]
      simp only []
      have hne : ¬ (((w + 1 : Nat) : Int) = (E : Int)) := by omega
      rw [if_neg hne, ih (Out.set w c) (w + 1) hrest (by simpa using hl) (by omega)]
      rw [take_set_succ Out w c (by omega), List.drop_set_of_lt _ _ (by omega), pctEncode_cons]
      simp only [hu, ↓reduceIte, List.append_assoc, List.singleton_append, List.length_cons]
      have e : w + 1 + (pctEncode rest).length + 1 = w + ((pctEncode rest).length + 1) + 1 := by
        omega
      rw [e]
      rfl
    · simp only [hu, Bool.false_eq_true, ↓reduceIte] at hw ⊢
      rw [pctEscape_length] at hw
      have hge : ¬ (((w + 3 : Nat) : Int) ≥ (E : Int)) := by omega
      rw [if_neg hge]
      rw [memcpyAt_spec Out w (pctEscape c ++ [0]) (by simp [pctEscape_length]; omega)]
      simp only []
      have hlen : (Out.take w ++ (pctEscape c ++ [0]) ++ Out.drop (w + (pctEscape c ++ [0]).length)).length
          = E + 1 := by
        simp only [List.length_append, List.length_take, List.length_drop, pctEscape_length,
          List.length_singleton]
        omega
      rw [ih _ (w + 3) hrest hlen (by omega)]
      have hl0 : (Out.take w).length = w := List.length_take_of_le (by omega)
      have ht : (Out.take w ++ (pctEscape c ++ [0]) ++ Out.drop (w + (pctEscape c ++ [0]).length)).take
          (w + 3) = Out.take w ++ pctEscape c := by
        rw [List.append_assoc, List.take_append_eq_append_take, List.take_of_length_le (by omega),
          hl0, List.take_append_eq_append_take, List.take_append_eq_append_take]
        simp [pctEscape_length]
      have hd : (Out.take w ++ (pctEscape c ++ [0]) ++ Out.drop (w + (pctEscape c ++ [0]).length)).drop
          (w + 3 + (pctEncode rest).length + 1) =
          Out.drop (w + (3 + (pctEncode rest).length) + 1) := by
        rw [List.drop_append_eq_append_drop, List.drop_of_length_le (by
          simp only [List.length_append, hl0, pctEscape_length, List.length_singleton]; omega)]
        simp only [List.length_append, hl0, pctEscape_length, List.length_singleton,
          List.nil_append, List.drop_drop]
        congr 1
        omega
      rw [ht, hd, pctEncode_cons]
      simp only [hu, Bool.false_eq_true, ↓reduceIte, List.append_assoc, List.length_append,
        pctEscape_length]

/-- The encoding does not fit before the last byte of the buffer: the loop of
`WS_URLEncode` returns false with a part of the encoding and a terminator written. -/
theorem urlEncodeLoop_clips (E : Nat) : ∀ (s Out : List Nat) (w : Nat), NoNul s →
    Out.length = E + 1 → w < E → E ≤ w + (pctEncode s).length →
    ∃ pre Out', urlEncodeLoop (E : Int) s Out w = some (Out', false) ∧
      Out'.take (w + pre.length + 1) = Out.take w ++ (pre ++ [0]) ∧ pre <+: pctEncode s := by
  intro s
  induction s with
  | nil =>
    intro Out w _ hl hw hE
    simp only [pctEncode, List.length_nil, Nat.add_zero] at hE
    omega
  | cons c rest ih =>
    intro Out w hs hl hw hE
    have hc : c ≠ 0 := hs c (by simp)
    have hrest : NoNul rest := fun x hx => hs x (by simp [hx])
    rw [pctEncode_cons, List.length_append] at hE
    rw [urlEncodeLoop]
    simp only [hc, ↓reduceIte]
    by_cases hu : isUnreserved c = true
    · simp only [hu, ↓reduceIte, List.length_singleton] at hE ⊢
      rw [wr_some Out w c (by omega)]
      simp only []
      by_cases he : w + 1 = E
      · have he' : ((w + 1 : Nat) : Int) = (E : Int) := by omega
        rw [if_pos he', wr_some _ (w + 1) 0 (by simp; omega)]
        refine ⟨[c], _, rfl, ?_, ?_⟩
        · simp only [List.length_singleton]
          rw [take_set_succ _ (w + 1) 0 (by simp; omega), take_set_succ Out w c (by omega)]
          simp
        · rw [pctEncode_cons]
          simp only [hu, ↓reduceIte, List.singleton_append]
          exact ⟨pctEncode rest, rfl⟩
      · have he' : ¬ (((w + 1 : Nat) : Int) = (E : Int)) := by omega
        rw [if_neg he']
        obtain ⟨pre, Out', h1, h2, h3⟩ := ih (Out.set w c) (w + 1) hrest (by simpa using hl)
          (by omega) (by omega)
        refine ⟨c :: pre, Out', h1, ?_, ?_⟩
        · rw [take_set_succ Out w c (by omega)] at h2
          simp only [List.length_cons]
          have e : w + (pre.length + 1) + 1 = w + 1 + pre.length + 1 := by omega
          rw [e, h2]
          simp
        · rw [pctEncode_cons]
          simp only [hu, ↓reduceIte, List.singleton_append]
          obtain ⟨t, ht⟩ := h3
          exact ⟨t, by rw [← ht]; rfl⟩
    · simp only [hu, Bool.false_eq_true, ↓reduceIte] at hE ⊢
      rw [pctEscape_length] at hE
      by_cases he : E ≤ w + 3
      · have he' : ((w + 3 : Nat) : Int) ≥ (E : Int) := by omega
        rw [if_pos he', wr_some Out w 0 (by omega)]
        refine ⟨[], _, rfl, ?_, List.nil_prefix⟩
        simp only [List.length_nil, Nat.add_zero, List.nil_append]
        exact take_set_succ Out w 0 (by omega)
      · have he' : ¬ (((w + 3 : Nat) : Int) ≥ (E : Int)) := by omega
        rw [if_neg he']
        rw [memcpyAt_spec Out w (pctEscape c ++ [0]) (by simp [pctEscape_length]; omega)]
        simp only []
        have hlen : (Out.take w ++ (pctEscape c ++ [0]) ++
            Out.drop (w + (pctEscape c ++ [0]).length)).length = E + 1 := by
          simp only [List.length_append, List.length_take, List.length_drop, pctEscape_length,
            List.length_singleton]
          omega
        obtain ⟨pre, Out', h1, h2, h3⟩ := ih _ (w + 3) hrest hlen (by omega) (by omega)
        have hl0 : (Out.take w).length = w := List.length_take_of_le (by omega)
        have ht : (Out.take w ++ (pctEscape c ++ [0]) ++
            Out.drop (w + (pctEscape c ++ [0]).length)).take (w + 3) = Out.take w ++ pctEscape c := by
          rw [List.append_assoc, List.take_append_eq_append_take,
            List.take_of_length_le (by omega), hl0, List.take_append_eq_append_take,
            List.take_append_eq_append_take]
          simp [pctEscape_length]
        refine ⟨pctEscape c ++ pre, Out', h1, ?_, ?_⟩
        · rw [ht] at h2
          simp only [List.length_append, pctEscape_length]
          have e : w + (3 + pre.length) + 1 = w + 3 + pre.length + 1 := by omega
          rw [e, h2]
          simp
        · rw [pctEncode_cons]
          simp only [hu, Bool.false_eq_true, ↓reduceIte]
          obtain ⟨t, ht'⟩ := h3
          exact ⟨t, by rw [← ht']; simp⟩

/-- A buffer that begins with a string without NUL and a NUL holds that string. -/
theorem cstr_of_take (X pre : List Nat) (hp : NoNul pre)
    (h : X.take (pre.length + 1) = pre ++ [0]) : cstr X = pre := by
  have e : X = pre ++ 0 :: X.drop (pre.length + 1) := by
    conv_lhs => rw [← List.take_append_drop (pre.length + 1) X, h]
    simp
  rw [e]
  exact cstr_append pre _ hp

theorem noNul_cstr (s : List Nat) : NoNul (cstr s) := by
  induction s with
  | nil => intro c hc; simp [cstr] at hc
  | cons c rest ih =>
    intro x hx
    by_cases hc : c = 0
    · simp [cstr, hc] at hx
    · simp only [cstr, hc, ↓reduceIte, List.mem_cons] at hx
      rcases hx with hx | hx
      · rw [hx]; exact hc
      · exact ih x hx

/-- What `WS_URLEncode` does with a buffer of at least two bytes: there is a result, the
flag is true exactly when the encoding and two more bytes fit in the buffer, and the
output is the encoding or, with the flag false, a first part of it. -/
theorem urlEncode_total (Value Out : List Nat) (hl : 2 ≤ Out.length) :
    ∃ Out' b, WS_URLEncode Value Out = some (Out', b) ∧
      (b = true ↔ (pctEncode (cstr Value)).length + 2 ≤ Out.length) ∧
      cstr Out' <+: pctEncode (cstr Value) ∧
      (b = true → ∃ post, Out' = pctEncode (cstr Value) ++ 0 :: post) := by
  obtain ⟨E, hE⟩ : ∃ E, Out.length = E + 1 := ⟨Out.length - 1, by omega⟩
  have hEnd : ((Out.length : Int) - 1) = (E : Int) := by omega
  unfold WS_URLEncode
  rw [hEnd, urlEncodeLoop_cstr]
  have hn := noNul_cstr Value
  have hnn := pctEncode_noNul _ hn
  by_cases hfit : (pctEncode (cstr Value)).length < E
  · rw [urlEncodeLoop_fits E _ Out 0 hn hE (by omega)]
    refine ⟨_, true, rfl, ?_, ?_, ?_⟩
    · simp only [true_iff]; omega
    · simp only [List.take_zero, List.nil_append]
      rw [cstr_append _ _ hnn]
    · intro _
      exact ⟨Out.drop (0 + (pctEncode (cstr Value)).length + 1), by simp⟩
  · obtain ⟨pre, Out', h1, h2, h3⟩ := urlEncodeLoop_clips E _ Out 0 hn hE (by omega) (by omega)
    refine ⟨Out', false, h1, ?_, ?_, ?_⟩
    · constructor
      · intro h; exact Bool.noConfusion h
      · intro h; omega
    · have hpre : NoNul pre := fun x hx => hnn x (h3.subset hx)
      rw [cstr_of_take Out' pre hpre (by simpa using h2)]
      exact h3
    · intro h; exact Bool.noConfusion h

set_option maxRecDepth 1000000 in
theorem isUnreserved_low : ∀ c < 64, (isUnreserved c = true ↔ c ∈ unreservedChars) := by
  decide!

set_option maxRecDepth 1000000 in
theorem isUnreserved_high : ∀ c < 63,
    (isUnreserved (c + 64) = true ↔ c + 64 ∈ unreservedChars) := by
  decide!

theorem isUnreserved_small : ∀ c < 127, (isUnreserved c = true ↔ c ∈ unreservedChars) := by
  intro c hc
  by_cases h : c < 64
  · exact isUnreserved_low c h
  · have := isUnreserved_high (c - 64) (by omega)
    rwa [show c - 64 + 64 = c by omega] at this

set_option maxRecDepth 1000000 in
theorem unreservedChars_lt : ∀ c ∈ unreservedChars, c < 127 := by
  decide!

/-- The test of `WS_URLEncode` for a character that is copied is the one of the
specification. -/
theorem isUnreserved_iff (c : Nat) : isUnreserved c = true ↔ c ∈ unreservedChars := by
  by_cases h : c < 127
  · exact isUnreserved_small c h
  · constructor
    · intro hu
      unfold isUnreserved at hu
      simp only [Bool.or_eq_true, Bool.and_eq_true, decide_eq_true_eq] at hu
      omega
    · intro hm
      exact absurd (unreservedChars_lt c hm) h

set_option maxRecDepth 1000000 in
/-- What `%%%02X` prints for a byte: `%` and its two upper-case hexadecimal digits. -/
theorem pctEscape_upperHex : ∀ c < 256, pctEscape c = [37, upperHex (c / 16), upperHex (c % 16)] := by
  decide!

/-- For bytes, the encoding that the code computes is the one of the specification. -/
theorem pctEncode_eq_encodeBytes (s : List Nat) (hs : ∀ c ∈ s, c < 256) :
    pctEncode s = encodeBytes s := by
  induction s with
  | nil => rfl
  | cons c rest ih =>
    have hr := ih (fun x hx => hs x (by simp [hx]))
    rw [pctEncode_cons, hr]
    unfold encodeBytes
    rw [List.map_cons, List.flatten_cons]
    congr 1
    unfold encodeByte
    by_cases hu : isUnreserved c = true
    · rw [if_pos hu, if_pos ((isUnreserved_iff c).mp hu)]
    · rw [if_neg hu, if_neg (fun hm => hu ((isUnreserved_iff c).mpr hm)),
        pctEscape_upperHex c (hs c (by simp))]

theorem cstr_subset (s : List Nat) : ∀ c ∈ cstr s, c ∈ s := by
  induction s with
  | nil => intro c hc; simp [cstr] at hc
  | cons x rest ih =>
    intro c hc
    by_cases hx : x = 0
    · simp [cstr, hx] at hc
    · simp only [cstr, hx, ↓reduceIte, List.mem_cons] at hc ⊢
      rcases hc with hc | hc
      · exact Or.inl hc
      · exact Or.inr (ih c hc)

/-- C29: when `WS_URLEncode` returns true for a string `s` of bytes (the buffer was
large enough), the output buffer begins with the encoding of `s` and a NUL, where the
encoding is, for each byte `c` of `s` in order, `c` itself when `c` is in `[A-Za-z0-9]`
or one of `-`, `_`, `.`, `~`, and otherwise `%` and the two upper-case hexadecimal digits
of `c`; the output string has at most `3*len(s)` bytes, `3*len(s)+1` with its NUL. -/
theorem C29_encode_output (Value Out Out' : List Nat) (hb : ∀ c ∈ Value, c < 256)
    (h : WS_URLEncode Value Out = some (Out', true)) :
    cstr Out' = encodeBytes (cstr Value) ∧
    (∃ post, Out' = encodeBytes (cstr Value) ++ 0 :: post) ∧
    (cstr Out').length ≤ 3 * (cstr Value).length ∧
    (cstr Out').length + 1 ≤ 3 * (cstr Value).length + 1 := by
  have hn := noNul_cstr Value
  have hb' : ∀ c ∈ cstr Value, c < 256 := fun c hc => hb c (cstr_subset Value c hc)
  unfold WS_URLEncode at h
  rw [urlEncodeLoop_cstr] at h
  obtain ⟨post, hp⟩ := urlEncodeLoop_true _ _ Out 0 Out' hn h
  simp only [List.take_zero, List.nil_append] at hp
  have hc : cstr Out' = pctEncode (cstr Value) := by
    rw [hp]; exact cstr_append _ _ (pctEncode_noNul _ hn)
  have hlen := pctEncode_length_le (cstr Value)
  rw [← pctEncode_eq_encodeBytes _ hb']
  refine ⟨hc, ⟨post, hp⟩, ?_, ?_⟩
  · rw [hc]; exact hlen
  · rw [hc]; omega

set_option maxRecDepth 1000000 in
theorem C29_encode_output_witness :
    (∀ c ∈ B "a b/~", c < 256) ∧
    WS_URLEncode (B "a b/~") (List.replicate 16 0)
      = some (B "a%20b%2F~" ++ List.replicate 7 0, true) ∧
    cstr (B "a%20b%2F~" ++ List.replicate 7 0) = encodeBytes (cstr (B "a b/~")) ∧
    encodeBytes (cstr (B "a b/~")) = B "a%20b%2F~" ∧
    (cstr (B "a%20b%2F~" ++ List.replicate 7 0)).length ≤ 3 * (cstr (B "a b/~")).length :=
  ⟨by decide, by decide,
    (C29_encode_output (B "a b/~") (List.replicate 16 0) (B "a%20b%2F~" ++ List.replicate 7 0)
      (by decide) (by decide)).1,
    by decide,
    (C29_encode_output (B "a b/~") (List.replicate 16 0) (B "a%20b%2F~" ++ List.replicate 7 0)
      (by decide) (by decide)).2.2.1⟩

set_option maxRecDepth 1000000 in
/-- C30, what the code does: `WS_URLEncode` returns false as soon as the position after a
copied byte is the last byte of the buffer, or an escape would end on it, also when
the input ends there. So for a buffer of at least two bytes it returns true exactly
when the encoding and TWO more bytes fit; with three bytes for a string it returns false
for the string `a` and a buffer of 2 bytes (the output is the complete `a`), and for
the string of one space and a buffer of `3*1+1 = 4` bytes (the output is empty). With
a buffer of one byte the test `Write==End` is never true after a copied byte: for the
string `a` the terminator is written at offset 1, past the end of the buffer (no
result in the model). -/
theorem C30_encode_flag_needs_a_spare_byte :
    (∀ Value Out : List Nat, 2 ≤ Out.length →
      ∃ Out' b, WS_URLEncode Value Out = some (Out', b) ∧
        (b = true ↔ (pctEncode (cstr Value)).length + 2 ≤ Out.length) ∧
        cstr Out' <+: pctEncode (cstr Value) ∧
        (b = true → ∃ post, Out' = pctEncode (cstr Value) ++ 0 :: post)) ∧
    WS_URLEncode (B "a") [0, 0] = some (B "a" ++ [0], false) ∧
    WS_URLEncode (B " ") [0, 0, 0, 0] = some ([0, 0, 0, 0], false) ∧
    WS_URLEncode (B "a") [0, 0, 0] = some (B "a" ++ [0, 0], true) ∧
    WS_URLEncode (B " ") [0, 0, 0, 0, 0] = some (B "%20" ++ [0, 0], true) ∧
    WS_URLEncode (B "a") [0] = none :=
  ⟨fun Value Out hl => urlEncode_total Value Out hl, by decide, by decide, by decide, by decide,
    by decide⟩

/-! ## The reply is left alone while a request is read -/

theorem replyKept_refl (W : WebServer) : ReplyKept W W :=
  ⟨rfl, rfl, rfl, rfl, rfl, rfl, Or.inl rfl⟩

theorem replyKept_trans {A C D : WebServer} (h1 : ReplyKept A C) (h2 : ReplyKept C D) :
    ReplyKept A D := by
  obtain ⟨a1, a2, a3, a4, a5, a6, a7⟩ := h1
  obtain ⟨b1, b2, b3, b4, b5, b6, b7⟩ := h2
  refine ⟨b1.trans a1, b2.trans a2, b3.trans a3, b4.trans a4, b5.trans a5, b6.trans a6, ?_⟩
  rcases b7 with b7 | b7
  · rw [b7]; exact a7
  · exact Or.inr b7

theorem processURI_kept {Web W : WebServer} {b : Bool}
    (h : WS_ProcessURI Web = some (W, b)) : ReplyKept Web W := by
  unfold WS_ProcessURI at h
  repeat' split at h
  all_goals first
    | contradiction
    | (simp only [Option.some.injEq, Prod.mk.injEq] at h; obtain ⟨rfl, _⟩ := h
       exact ⟨rfl, rfl, rfl, rfl, rfl, rfl, Or.inr ⟨fun e => ReplyStatus.noConfusion e, fun e => ReplyStatus.noConfusion e⟩⟩)
    | (simp only [Option.map_eq_some', Prod.mk.injEq] at h
       obtain ⟨_, _, rfl, _⟩ := h
       exact ⟨rfl, rfl, rfl, rfl, rfl, rfl, Or.inl rfl⟩)

theorem processGetVars_kept {Web W : WebServer}
    (h : WS_ProcessGetVars Web = some W) : ReplyKept Web W := by
  unfold WS_ProcessGetVars at h
  dsimp only at h
  repeat' split at h
  all_goals first
    | contradiction
    | (simp only [Option.some.injEq] at h; subst h
       exact ⟨rfl, rfl, rfl, rfl, rfl, rfl, Or.inl rfl⟩)
    | (simp only [Option.some.injEq] at h; subst h
       exact ⟨rfl, rfl, rfl, rfl, rfl, rfl, Or.inr ⟨fun e => ReplyStatus.noConfusion e, fun e => ReplyStatus.noConfusion e⟩⟩)

theorem processCookieVars_kept {Web W : WebServer}
    (h : WS_ProcessCookieVars Web = some W) : ReplyKept Web W := by
  unfold WS_ProcessCookieVars at h
  dsimp only at h
  repeat' split at h
  all_goals first
    | contradiction
    | (simp only [Option.some.injEq] at h; subst h
       exact ⟨rfl, rfl, rfl, rfl, rfl, rfl, Or.inl rfl⟩)
    | (simp only [Option.some.injEq] at h; subst h
       exact ⟨rfl, rfl, rfl, rfl, rfl, rfl, Or.inr ⟨fun e => ReplyStatus.noConfusion e, fun e => ReplyStatus.noConfusion e⟩⟩)

theorem processETag_kept (Web : WebServer) (w : Bool) (e : List Nat) :
    ReplyKept Web (WS_ProcessETag Web w e) := by
  unfold WS_ProcessETag
  split
  · exact ⟨rfl, rfl, rfl, rfl, rfl, rfl, Or.inr ⟨fun e => ReplyStatus.noConfusion e, fun e => ReplyStatus.noConfusion e⟩⟩
  · exact replyKept_refl _

theorem etagLoop_kept : ∀ (f : Nat) (Web : WebServer) (p : Nat) (W : WebServer) (b : Bool),
    etagLoop f Web p = some (W, b) → ReplyKept Web W := by
  intro f
  induction f with
  | zero => intro Web p W b h; simp [etagLoop] at h
  | succ f ih =>
    intro Web p W b h
    unfold etagLoop at h
    dsimp only at h
    split at h
    · contradiction
    · split at h
      · simp only [Option.some.injEq, Prod.mk.injEq] at h; obtain ⟨rfl, _⟩ := h
        exact replyKept_refl _
      · split at h
        · simp only [Option.some.injEq, Prod.mk.injEq] at h; obtain ⟨rfl, _⟩ := h
          exact replyKept_refl _
        · split at h
          · contradiction
          · split at h
            · contradiction
            · split at h
              · simp only [Option.some.injEq, Prod.mk.injEq] at h; obtain ⟨rfl, _⟩ := h
                exact ⟨rfl, rfl, rfl, rfl, rfl, rfl, Or.inr ⟨fun e => ReplyStatus.noConfusion e, fun e => ReplyStatus.noConfusion e⟩⟩
              · split at h
                · contradiction
                · split at h
                  · contradiction
                  · split at h
                    · simp only [Option.some.injEq, Prod.mk.injEq] at h; obtain ⟨rfl, _⟩ := h
                      exact ⟨rfl, rfl, rfl, rfl, rfl, rfl, Or.inr ⟨fun e => ReplyStatus.noConfusion e, fun e => ReplyStatus.noConfusion e⟩⟩
                    · split at h
                      · contradiction
                      · rename_i L1 hw
                        split at h
                        · contradiction
                        · have f1 := ih _ _ _ _ h
                          exact replyKept_trans
                            (replyKept_trans ⟨rfl, rfl, rfl, rfl, rfl, rfl, Or.inl rfl⟩
                              (processETag_kept { Web with LineBuff := L1 } _ _)) f1

theorem processHeaderRest_kept {Web W : WebServer} (h : processHeaderRest Web = some W) :
    ReplyKept Web W := by
  unfold processHeaderRest at h
  dsimp only at h
  split at h
  · contradiction
  · rename_i Web2 h2
    have k2 : ReplyKept Web Web2 := by
      split at h2
      · exact processCookieVars_kept h2
      · simp only [Option.some.injEq] at h2; subst h2; exact replyKept_refl _
    split at h
    · split at h
      · contradiction
      · simp only [Option.map_eq_some'] at h
        obtain ⟨s, _, rfl⟩ := h
        exact replyKept_trans k2 ⟨rfl, rfl, rfl, rfl, rfl, rfl, Or.inl rfl⟩
    · simp only [Option.some.injEq] at h; subst h; exact k2

theorem processHeader_kept {Web W : WebServer} (h : WS_ProcessHeader Web = some W) :
    ReplyKept Web W := by
  unfold WS_ProcessHeader at h
  split at h
  · split at h
    · contradiction
    · split at h
      · contradiction
      · rename_i Web1 he
        simp only [Option.some.injEq] at h; subst h
        exact etagLoop_kept _ _ _ _ _ he
      · rename_i Web1 he
        exact replyKept_trans (etagLoop_kept _ _ _ _ _ he) (processHeaderRest_kept h)
  · exact processHeaderRest_kept h

theorem startProcessingPOSTVar_kept {Web W : WebServer}
    (h : WS_StartProcessingPOSTVar Web = some W) : ReplyKept Web W := by
  unfold WS_StartProcessingPOSTVar at h
  dsimp only at h
  repeat' split at h
  all_goals first
    | contradiction
    | (simp only [Option.some.injEq] at h; subst h
       exact ⟨rfl, rfl, rfl, rfl, rfl, rfl, Or.inl rfl⟩)

theorem copyLineBuffer2POSTVar_kept {Web W : WebServer} {b : Bool}
    (h : WS_CopyLineBuffer2POSTVar Web = some (W, b)) : ReplyKept Web W := by
  unfold WS_CopyLineBuffer2POSTVar at h
  dsimp only at h
  repeat' split at h
  all_goals first
    | contradiction
    | (simp only [Option.some.injEq, Prod.mk.injEq] at h; obtain ⟨rfl, _⟩ := h
       exact ⟨rfl, rfl, rfl, rfl, rfl, rfl, Or.inl rfl⟩)
    | (simp only [Option.some.injEq, Prod.mk.injEq] at h; obtain ⟨rfl, _⟩ := h
       exact ⟨rfl, rfl, rfl, rfl, rfl, rfl, Or.inr ⟨fun e => ReplyStatus.noConfusion e, fun e => ReplyStatus.noConfusion e⟩⟩)

theorem getNextLineLoop_kept : ∀ (bs : List Nat) (r : Nat) (Web W : WebServer) (n : Int),
    getNextLineLoop bs r Web = some (W, n) → ReplyKept Web W := by
  intro bs
  induction bs with
  | nil =>
    intro r Web W n h
    simp only [getNextLineLoop, Option.some.injEq, Prod.mk.injEq] at h
    obtain ⟨rfl, _⟩ := h
    exact replyKept_refl _
  | cons c rest ih =>
    intro r Web W n h
    unfold getNextLineLoop at h
    split at h
    · exact ih _ _ _ _ h
    · split at h
      · simp only [Option.map_eq_some', Prod.mk.injEq] at h
        obtain ⟨_, _, rfl, _⟩ := h
        exact ⟨rfl, rfl, rfl, rfl, rfl, rfl, Or.inl rfl⟩
      · split at h
        · contradiction
        · split at h
          · simp only [Option.some.injEq, Prod.mk.injEq] at h
            obtain ⟨rfl, _⟩ := h
            exact ⟨rfl, rfl, rfl, rfl, rfl, rfl, Or.inl rfl⟩
          · have k := ih _ _ _ _ h
            exact replyKept_trans ⟨rfl, rfl, rfl, rfl, rfl, rfl, Or.inl rfl⟩ k

theorem bodySize_kept (W : WebServer) (n : Nat) : ReplyKept W { W with BodySize := n } :=
  ⟨rfl, rfl, rfl, rfl, rfl, rfl, Or.inl rfl⟩

theorem postByte_kept {Web W : WebServer} {c : Nat} {b : Bool}
    (h : postByte Web c = some (W, b)) : ReplyKept Web W := by
  unfold postByte at h
  dsimp only at h
  split at h
  · contradiction
  · rename_i Web1 hr
    have f1 : ReplyKept Web Web1 := by
      clear h
      cases hps : Web.PostState <;> rw [hps] at hr <;> simp only [] at hr
      · split at hr
        · split at hr
          · contradiction
          · split at hr
            · contradiction
            · split at hr
              · contradiction
              · rename_i Web0 hsp
                simp only [Option.some.injEq] at hr; subst hr
                have k := startProcessingPOSTVar_kept hsp
                exact replyKept_trans (replyKept_trans ⟨rfl, rfl, rfl, rfl, rfl, rfl, Or.inl rfl⟩ k)
                  ⟨rfl, rfl, rfl, rfl, rfl, rfl, Or.inl rfl⟩
        · split at hr
          · contradiction
          · split at hr
            · simp only [Option.some.injEq] at hr; subst hr
              exact ⟨rfl, rfl, rfl, rfl, rfl, rfl,
                Or.inr ⟨fun e => ReplyStatus.noConfusion e, fun e => ReplyStatus.noConfusion e⟩⟩
            · simp only [Option.some.injEq] at hr; subst hr
              exact ⟨rfl, rfl, rfl, rfl, rfl, rfl, Or.inl rfl⟩
      · split at hr
        · split at hr
          · contradiction
          · rename_i Web0 hcp
            simp only [Option.some.injEq] at hr; subst hr
            exact replyKept_trans (copyLineBuffer2POSTVar_kept hcp)
              ⟨rfl, rfl, rfl, rfl, rfl, rfl, Or.inl rfl⟩
          · rename_i Web0 hcp
            simp only [Option.some.injEq] at hr; subst hr
            exact replyKept_trans (copyLineBuffer2POSTVar_kept hcp)
              ⟨rfl, rfl, rfl, rfl, rfl, rfl, Or.inl rfl⟩
        · split at hr
          · contradiction
          · split at hr
            · split at hr
              · contradiction
              · rename_i Web0 hcp
                simp only [Option.some.injEq] at hr; subst hr
                have k := copyLineBuffer2POSTVar_kept hcp
                exact replyKept_trans (replyKept_trans ⟨rfl, rfl, rfl, rfl, rfl, rfl, Or.inl rfl⟩ k)
                  ⟨rfl, rfl, rfl, rfl, rfl, rfl, Or.inl rfl⟩
              · rename_i Web0 hcp
                simp only [Option.some.injEq] at hr; subst hr
                have k := copyLineBuffer2POSTVar_kept hcp
                exact replyKept_trans ⟨rfl, rfl, rfl, rfl, rfl, rfl, Or.inl rfl⟩ k
            · simp only [Option.some.injEq] at hr; subst hr
              exact ⟨rfl, rfl, rfl, rfl, rfl, rfl, Or.inl rfl⟩
      · split at hr
        · simp only [Option.some.injEq] at hr; subst hr
          exact ⟨rfl, rfl, rfl, rfl, rfl, rfl, Or.inl rfl⟩
        · simp only [Option.some.injEq] at hr; subst hr; exact replyKept_refl _
      · simp only [Option.some.injEq] at hr; subst hr; exact replyKept_refl _
    split at h
    · split at h
      · exact absurd h (by simp)
      · rename_i Web3 hcp
        have k := copyLineBuffer2POSTVar_kept hcp
        simp only [Option.some.injEq, Prod.mk.injEq] at h
        obtain ⟨rfl, rfl⟩ := h
        exact replyKept_trans f1 (replyKept_trans
          (replyKept_trans (bodySize_kept Web1 _) k)
          ⟨rfl, rfl, rfl, rfl, rfl, rfl, Or.inl rfl⟩)
      · rename_i Web3 hcp
        have k := copyLineBuffer2POSTVar_kept hcp
        simp only [Option.some.injEq, Prod.mk.injEq] at h
        obtain ⟨rfl, rfl⟩ := h
        exact replyKept_trans f1 (replyKept_trans
          (replyKept_trans (bodySize_kept Web1 _) k)
          ⟨rfl, rfl, rfl, rfl, rfl, rfl, Or.inl rfl⟩)
    · simp only [Option.some.injEq, Prod.mk.injEq] at h
      obtain ⟨rfl, rfl⟩ := h
      exact replyKept_trans f1 (bodySize_kept Web1 _)

theorem postBodyLoop_kept : ∀ (bs : List Nat) (Web W : WebServer) (rest : List Nat),
    postBodyLoop Web bs = some (W, rest) → ReplyKept Web W := by
  intro bs
  induction bs with
  | nil =>
    intro Web W rest h
    simp only [postBodyLoop, Option.some.injEq, Prod.mk.injEq] at h
    obtain ⟨rfl, rfl⟩ := h
    exact replyKept_refl _
  | cons c bs ih =>
    intro Web W rest h
    unfold postBodyLoop at h
    split at h
    · exact absurd h (by simp)
    · rename_i Web1 hp
      simp only [Option.some.injEq, Prod.mk.injEq] at h
      obtain ⟨rfl, rfl⟩ := h
      exact postByte_kept hp
    · rename_i Web1 hp
      exact replyKept_trans (postByte_kept hp) (ih _ _ _ h)

theorem bodyBytes_kept {Web W1 : WebServer} {bs rest : List Nat}
    (h : bodyBytes Web bs = some (W1, rest)) : ReplyKept Web W1 := by
  unfold bodyBytes at h
  split at h
  · exact postBodyLoop_kept _ _ _ _ h
  · split at h
    · simp only [Option.some.injEq, Prod.mk.injEq] at h
      obtain ⟨rfl, rfl⟩ := h
      exact ⟨rfl, rfl, rfl, rfl, rfl, rfl, Or.inl rfl⟩
    · simp only [Option.some.injEq, Prod.mk.injEq] at h
      obtain ⟨rfl, rfl⟩ := h
      exact ⟨rfl, rfl, rfl, rfl, rfl, rfl, Or.inl rfl⟩

theorem headerLine_kept {Web1 Web2 : WebServer} (h : headerLine Web1 = some Web2) :
    ReplyKept Web1 Web2 := by
  rcases headerLine_cases h with ⟨_, rfl⟩ | ⟨c, _, _, hp⟩
  · exact ⟨rfl, rfl, rfl, rfl, rfl, rfl, Or.inl rfl⟩
  · exact processHeader_kept hp

/-- The work on a request line: the flags of the reply and the connection are left
alone, a status that was not 200 is not 200 afterwards, and when the status is unset
afterwards the file has been found in the table. -/
theorem requestLine_kept {m_Files : List FileInfo} {Web W : WebServer} {req : ReqType}
    {skip : Nat} (h : requestLine m_Files Web req skip = some W) :
    W.UserSetReplyStatus = Web.UserSetReplyStatus ∧ W.WriteStarted = Web.WriteStarted ∧
    W.WriteChunked = Web.WriteChunked ∧ W.ReplyStarted = Web.ReplyStarted ∧ W.Con = Web.Con ∧
    (Web.ReplyStatus ≠ ReplyStatus.Ok → W.ReplyStatus ≠ ReplyStatus.Ok) ∧
    (W.ReplyStatus = ReplyStatus.MAX → IsRoute m_Files W.PageProp) := by
  unfold requestLine at h
  split at h
  · contradiction
  · rename_i Web1 b hu
    obtain ⟨a1, a2, a3, a4, a5, a6, a7⟩ := processURI_kept hu
    have hok : Web.ReplyStatus ≠ ReplyStatus.Ok → Web1.ReplyStatus ≠ ReplyStatus.Ok := by
      intro h0
      rcases a7 with a7 | a7
      · rw [a7]; exact h0
      · exact a7.1
    split at h
    · contradiction
    · split at h
      · rename_i pp hfp
        obtain ⟨b1, b2, b3, b4, b5, b6, b7⟩ := processGetVars_kept h
        refine ⟨b1.trans a1, b2.trans a2, b3.trans a3, b4.trans a4, b6.trans a6, ?_, ?_⟩
        · intro h0
          rcases b7 with b7 | b7
          · rw [b7]; exact hok h0
          · exact b7.1
        · intro _
          rw [b5]
          obtain ⟨f, h1, _, h3⟩ := getFileProperties_found hfp
          exact ⟨f, h1, h3⟩
      · simp only [Option.some.injEq] at h; subst h
        exact ⟨a1, a2, a3, a4, a6, fun _ e => ReplyStatus.noConfusion e,
          fun e => ReplyStatus.noConfusion e⟩

theorem methodLine_kept {m_Files : List FileInfo} {Web W : WebServer}
    (h : methodLine m_Files Web = some W) :
    W.UserSetReplyStatus = Web.UserSetReplyStatus ∧ W.WriteStarted = Web.WriteStarted ∧
    W.WriteChunked = Web.WriteChunked ∧ W.ReplyStarted = Web.ReplyStarted ∧ W.Con = Web.Con ∧
    (Web.ReplyStatus ≠ ReplyStatus.Ok → W.ReplyStatus ≠ ReplyStatus.Ok) ∧
    (W.ReplyStatus = ReplyStatus.MAX → IsRoute m_Files W.PageProp) := by
  unfold methodLine at h
  split at h
  · exact requestLine_kept h
  · split at h
    · exact requestLine_kept h
    · simp only [Option.some.injEq] at h; subst h
      exact ⟨rfl, rfl, rfl, rfl, rfl, fun _ e => ReplyStatus.noConfusion e,
        fun e => ReplyStatus.noConfusion e⟩

/-- A session that is read from stays one when the work leaves the reply alone and the
phase is not set back to Request. -/
theorem parsing_kept {m_Files : List FileInfo} {W W' : WebServer} (h : Parsing m_Files W)
    (hs : W.State ≠ WebServerState.Closed) (k : ReplyKept W W')
    (hr : W.State = WebServerState.Request → W'.State = WebServerState.Request) :
    Parsing m_Files W' := by
  rcases h with h | ⟨p1, p2, p3, p4, p5, p6⟩
  · exact absurd h hs
  · obtain ⟨k1, k2, k3, k4, k5, k6, k7⟩ := k
    refine Or.inr ⟨k1.trans p1, k2.trans p2, k3.trans p3, k4.trans p4, ?_, ?_⟩
    · rcases k7 with k7 | k7
      · rw [k7]; exact p5
      · exact k7.1
    · intro hs' hm
      rcases k7 with k7 | k7
      · rw [k5]
        exact p6 (fun e => hs' (hr e)) (k7 ▸ hm)
      · exact absurd hm k7.2

theorem parsing_reset (m_Files : List FileInfo) (now : Nat) (W : WebServer) :
    Parsing m_Files (WS_ResetWebServer now W) :=
  Or.inr ⟨rfl, rfl, rfl, rfl, fun e => ReplyStatus.noConfusion e, fun h => absurd rfl h⟩

/-- The flags of a session that is read from, when it is not closed. -/
theorem parsing_flags {m_Files : List FileInfo} {W : WebServer} (h : Parsing m_Files W)
    (hs : W.State ≠ WebServerState.Closed) :
    W.UserSetReplyStatus = false ∧ W.WriteStarted = false ∧ W.WriteChunked = false ∧
    W.ReplyStarted = false ∧ W.ReplyStatus ≠ ReplyStatus.Ok ∧
    (W.State ≠ WebServerState.Request → W.ReplyStatus = ReplyStatus.MAX →
      IsRoute m_Files W.PageProp) := by
  rcases h with h | h
  · exact absurd h hs
  · exact h

/-- One turn of the loop of `WS_RunServer` on a session that is read from gives such a
session, by a `return` or for the next turn. -/
theorem serverTurn_parsing {m_Files : List FileInfo} {now : Nat} {Web : WebServer}
    {bs : List Nat} (hp : Parsing m_Files Web) :
    ∀ t, serverTurn m_Files now Web bs = some t →
      match t with
      | .done r => Parsing m_Files r.1
      | .again W _ => Parsing m_Files W := by
  intro t h
  cases hs : Web.State with
  | Closed =>
    rw [serverTurn_closed bs hs] at h
    simp only [Option.some.injEq] at h; subst h
    exact Or.inl hs
  | Request =>
    have hnc : Web.State ≠ WebServerState.Closed := by rw [hs]; decide
    rw [serverTurn_request bs hs] at h
    split at h
    · contradiction
    · rename_i Web1 n hg
      have k1 := getNextLineLoop_kept _ _ _ _ _ hg
      have f1 := getNextLineLoop_frame _ _ _ _ _ hg
      have p1 : Parsing m_Files Web1 := parsing_kept hp hnc k1 (fun _ => f1.1.trans hs)
      split at h
      · simp only [Option.some.injEq] at h; subst h; exact p1
      · split at h
        · simp only [Option.some.injEq] at h; subst h
          exact Or.inl (tooLongReply_state _ _)
        · simp only [Option.map_eq_some'] at h
          obtain ⟨Web2, hm, rfl⟩ := h
          have hs1 : Web1.State = WebServerState.Request := f1.1.trans hs
          obtain ⟨q1, q2, q3, q4, q5, _⟩ := parsing_flags p1 (by rw [hs1]; decide)
          obtain ⟨m1, m2, m3, m4, _, m6, m7⟩ := methodLine_kept hm
          exact Or.inr ⟨m1.trans q1, m2.trans q2, m3.trans q3, m4.trans q4, m6 q5,
            fun _ hmax => m7 hmax⟩
  | Headers =>
    have hnc : Web.State ≠ WebServerState.Closed := by rw [hs]; decide
    have hnr : Web.State = WebServerState.Request → False := by rw [hs]; decide
    rw [serverTurn_headers bs hs] at h
    split at h
    · contradiction
    · rename_i Web1 n hg
      have k1 := getNextLineLoop_kept _ _ _ _ _ hg
      have f1 := getNextLineLoop_frame _ _ _ _ _ hg
      have p1 : Parsing m_Files Web1 := parsing_kept hp hnc k1 (fun e => (hnr e).elim)
      split at h
      · simp only [Option.some.injEq] at h; subst h; exact p1
      · split at h
        · simp only [Option.some.injEq] at h; subst h
          exact Or.inl (tooLongReply_state _ _)
        · simp only [Option.map_eq_some'] at h
          obtain ⟨Web2, hm, rfl⟩ := h
          have hs1 : Web1.State = WebServerState.Headers := f1.1.trans hs
          exact parsing_kept p1 (by rw [hs1]; decide) (headerLine_kept hm)
            (fun e => by rw [hs1] at e; exact WebServerState.noConfusion e)
  | Body =>
    have hnc : Web.State ≠ WebServerState.Closed := by rw [hs]; decide
    have hnr : Web.State = WebServerState.Request → False := by rw [hs]; decide
    rw [serverTurn_body bs hs] at h
    split at h
    · contradiction
    · rename_i Web1 rest hb
      have p1 : Parsing m_Files Web1 :=
        parsing_kept hp hnc (bodyBytes_kept hb) (fun e => (hnr e).elim)
      have hs1 : Web1.State = WebServerState.Body := (bodyBytes_frame hb).1.trans hs
      split at h
      · simp only [Option.some.injEq] at h; subst h
        exact parsing_kept p1 (by rw [hs1]; decide) ⟨rfl, rfl, rfl, rfl, rfl, rfl, Or.inl rfl⟩
          (fun e => by rw [hs1] at e; exact WebServerState.noConfusion e)
      · simp only [Option.some.injEq] at h; subst h; exact p1
  | Response =>
    rw [serverTurn_response bs hs] at h
    simp only [Option.map_eq_some'] at h
    obtain ⟨w, _, rfl⟩ := h
    exact parsing_reset _ _ _
  | MAX =>
    unfold serverTurn at h
    rw [hs] at h
    simp only [Option.some.injEq] at h; subst h
    exact hp

theorem runServerLoop_parsing (m_Files : List FileInfo) (now : Nat) :
    ∀ (fuel : Nat) (Web : WebServer) (bs : List Nat) (r : WebServer × RunExit),
      Parsing m_Files Web → runServerLoop m_Files now fuel Web bs = some r →
      Parsing m_Files r.1 := by
  intro fuel
  induction fuel with
  | zero => intro Web bs r _ h; simp [runServerLoop] at h
  | succ fuel ih =>
    intro Web bs r hp h
    rw [runServerLoop_succ] at h
    cases ht : serverTurn m_Files now Web bs with
    | none => rw [ht] at h; contradiction
    | some t =>
      have hq := serverTurn_parsing hp t ht
      rw [ht] at h
      cases t with
      | done r1 =>
        simp only [Option.some.injEq] at h; subst h; exact hq
      | again W rest => exact ih W rest r hq h

/-- `WS_RunServer` on a session that is read from gives such a session. -/
theorem runServer_parsing {m_Files : List FileInfo} {now : Nat} {Web W : WebServer}
    {bs : List Nat} (hp : Parsing m_Files Web) (h : WS_RunServer m_Files now Web bs = some W) :
    Parsing m_Files W := by
  unfold WS_RunServer runServer at h
  simp only [Option.map_eq_some'] at h
  obtain ⟨r, hr, rfl⟩ := h
  exact runServerLoop_parsing m_Files now _ Web bs r hp hr

theorem feedChunks_parsing (m_Files : List FileInfo) (now : Nat) :
    ∀ (cs : List (List Nat)) (Web W : WebServer), Parsing m_Files Web →
      feedChunks m_Files now Web cs = some W → Parsing m_Files W := by
  intro cs
  induction cs with
  | nil =>
    intro Web W hp h
    simp only [feedChunks, Option.some.injEq] at h; subst h; exact hp
  | cons c cs ih =>
    intro Web W hp h
    unfold feedChunks at h
    split at h
    · contradiction
    · rename_i Web1 h1
      exact ih Web1 W (runServer_parsing hp h1) h

theorem turnsFrom_parsing (m_Files : List FileInfo) (now : Nat) :
    ∀ (n : Nat) (Web : WebServer) (bs : List Nat) (W : WebServer) (rest : List Nat),
      Parsing m_Files Web → turnsFrom m_Files now n Web bs = some (W, rest) →
      Parsing m_Files W := by
  intro n
  induction n with
  | zero =>
    intro Web bs W rest hp h
    simp only [turnsFrom, Option.some.injEq, Prod.mk.injEq] at h
    obtain ⟨rfl, _⟩ := h; exact hp
  | succ n ih =>
    intro Web bs W rest hp h
    unfold turnsFrom at h
    split at h
    · rename_i Web1 rest1 ht
      exact ih Web1 rest1 W rest (serverTurn_parsing hp _ ht) h
    · contradiction

/-- Every session that the loop of `WS_RunServer` comes to, after any chunks have been
fed to a session that was reset, is a session that is read from. -/
theorem parsing_reached {m_Files : List FileInfo} {now t0 : Nat} {Web0 W1 W : WebServer}
    {cs : List (List Nat)} {n : Nat} {buf rest : List Nat}
    (h1 : feedChunks m_Files now (WS_ResetWebServer t0 Web0) cs = some W1)
    (h2 : turnsFrom m_Files now n W1 buf = some (W, rest)) : Parsing m_Files W :=
  turnsFrom_parsing m_Files now n W1 buf W rest
    (feedChunks_parsing m_Files now cs _ W1 (parsing_reset m_Files t0 Web0) h1) h2

/-! ## Numbers as `sprintf` prints them -/

theorem digitChar_dec : ∀ d < 10, (Nat.digitChar d).toNat = 48 + d := by decide

theorem digitChar_hex : ∀ d < 16,
    (Nat.digitChar d).toUpper.toNat = if d < 10 then 48 + d else 55 + d := by decide

theorem digitsAux_dec : ∀ (fuel n : Nat) (acc : List Char),
    digitsAux 10 fuel n (acc.map Char.toNat) = (Nat.toDigitsCore 10 fuel n acc).map Char.toNat := by
  intro fuel
  induction fuel with
  | zero => intro n acc; rfl
  | succ fuel ih =>
    intro n acc
    have hd : n % 10 < 10 := Nat.mod_lt _ (by decide)
    have e := digitChar_dec (n % 10) hd
    unfold digitsAux Nat.toDigitsCore
    simp only [hd, ↓reduceIte]
    split
    · simp only [List.map_cons, e]
    · rw [← ih]
      simp only [List.map_cons, e]

theorem digitsAux_hex : ∀ (fuel n : Nat) (acc : List Char),
    digitsAux 16 fuel n (acc.map (fun c => c.toUpper.toNat)) =
      (Nat.toDigitsCore 16 fuel n acc).map (fun c => c.toUpper.toNat) := by
  intro fuel
  induction fuel with
  | zero => intro n acc; rfl
  | succ fuel ih =>
    intro n acc
    have hd : n % 16 < 16 := Nat.mod_lt _ (by decide)
    have e := digitChar_hex (n % 16) hd
    unfold digitsAux Nat.toDigitsCore
    simp only []
    split
    · simp only [List.map_cons, e]
    · rw [← ih]
      simp only [List.map_cons, e]

/-- `%zd` and `%d` of a number that is not negative print its decimal digits. -/
theorem fmtDec_eq (n : Nat) : fmtDec n = decimalDigits n :=
  digitsAux_dec (n + 1) n []

/-- `%X` of a positive `int` prints its hexadecimal digits in upper case. -/
theorem fmtHex_eq (n : Nat) (h : n < 4294967296) : fmtHex (n : Int) = upperHexDigits n := by
  unfold fmtHex upperHexDigits
  have e : ((n : Int) % 4294967296).toNat = n := by omega
  simp only [e]
  exact digitsAux_hex (n + 1) n []

theorem endReply_unchunked (X : WebServer) (h : X.WriteChunked = false) : WS_EndReply X = X := by
  unfold WS_EndReply
  simp only [h, Bool.false_eq_true, ↓reduceIte]

/-- `WS_SendResponse` with a status that was set while the request was read, on a
session that no response primitive has touched: the automatic reply. -/
theorem sendResponse_auto (m_Files : List FileInfo) (W : WebServer)
    (hst : W.ReplyStatus ≠ ReplyStatus.MAX) (hok : W.ReplyStatus ≠ ReplyStatus.Ok)
    (hu : W.UserSetReplyStatus = false) (hw : W.WriteChunked = false) :
    WS_SendResponse m_Files W =
      some { conWrite W (autoReply W.ReplyStatus) with ReplyStarted := true } := by
  unfold WS_SendResponse
  rw [if_neg hst]
  have e : WS_StartReply W = { conWrite W (autoReply W.ReplyStatus) with ReplyStarted := true } := by
    by_cases hc : W.Con.State = ConnectState.Connected
    · rw [startReply_auto W hok hu hc]
      unfold conWrite
      simp only [hc, ne_eq, not_true_eq_false, ↓reduceIte]
    · have hn : ∀ (X : WebServer) (s : List Nat), X.Con.State = W.Con.State → conWrite X s = X := by
        intro X s hX
        unfold conWrite
        rw [if_pos (by rw [hX]; exact hc)]
      unfold WS_StartReply
      simp only [hn _ _ rfl, hok, hu, ne_eq, not_false_eq_true, and_self, ↓reduceIte]
  have hw' : ({ conWrite W (autoReply W.ReplyStatus) with ReplyStarted := true } :
      WebServer).WriteChunked = false := by
    rw [conWrite_eq]; exact hw
  rw [e, endReply_unchunked _ hw']

/-- C25: take any session that the loop of `WS_RunServer` comes to in the Response phase,
after any chunks have been fed to a session that was reset. If the status is still
`e_ReplyStatusMAX`, the file of the request is an entry of the table, and the turn is
the one call `FS_SendFile(Web,Web->PageProp.FileID)` on the session with the status 200,
followed by `WS_EndReply` and the reset. Otherwise the result does not depend on the table
(`FS_SendFile` is not called): the status `T` is an error status and the automatic reply
is written, which on a connected session is `HTTP/1.1 ` T CRLF `Server: BittyHTTP` CRLF
`Content-Length: ` n CRLF CRLF T with `n` the decimal length of T. In both cases the
turn ends with the session reset to the Request phase. -/
theorem C25_response_phase (m_Files : List FileInfo) (now t0 : Nat) (Web0 W1 W : WebServer)
    (cs : List (List Nat)) (n : Nat) (buf rest : List Nat)
    (h1 : feedChunks m_Files now (WS_ResetWebServer t0 Web0) cs = some W1)
    (h2 : turnsFrom m_Files now n W1 buf = some (W, rest))
    (hs : W.State = WebServerState.Response) :
    (W.ReplyStatus = ReplyStatus.MAX →
      IsRoute m_Files W.PageProp ∧
      serverTurn m_Files now W rest =
        (FS_SendFile m_Files { W with ReplyStatus := ReplyStatus.Ok } W.PageProp.FileID).map
          (fun w => Turn.done (WS_ResetWebServer now (WS_EndReply w), RunExit.responded))) ∧
    (W.ReplyStatus ≠ ReplyStatus.MAX →
      W.ReplyStatus ≠ ReplyStatus.Ok ∧
      serverTurn m_Files now W rest =
        some (Turn.done (WS_ResetWebServer now (conWrite W (autoReply W.ReplyStatus)),
          RunExit.responded)) ∧
      (W.Con.State = ConnectState.Connected →
        (conWrite W (autoReply W.ReplyStatus)).Con.Sent = W.Con.Sent ++
          (B "HTTP/1.1 " ++ statusMsg W.ReplyStatus ++ B "\r\n" ++ B "Server: BittyHTTP\r\n" ++
            B "Content-Length: " ++ decimalDigits (statusMsg W.ReplyStatus).length ++ B "\r\n" ++
            B "\r\n" ++ statusMsg W.ReplyStatus))) ∧
    (∀ r, serverTurn m_Files now W rest = some r →
      ∃ W', r = Turn.done (W', RunExit.responded) ∧ W'.State = WebServerState.Request ∧
        W'.ReplyStatus = ReplyStatus.MAX) := by
  have hp := parsing_reached h1 h2
  obtain ⟨p1, p2, p3, p4, p5, p6⟩ := parsing_flags hp (by rw [hs]; decide)
  rw [serverTurn_response rest hs]
  refine ⟨fun hm => ⟨p6 (by rw [hs]; decide) hm, ?_⟩, fun hm => ⟨p5, ?_, ?_⟩, ?_⟩
  · unfold WS_SendResponse
    rw [if_pos hm]
    cases FS_SendFile m_Files { W with ReplyStatus := ReplyStatus.Ok } W.PageProp.FileID <;> rfl
  · rw [sendResponse_auto m_Files W hm p5 p1 p3]
    rfl
  · intro hc
    unfold conWrite
    simp only [hc, ne_eq, not_true_eq_false, ↓reduceIte]
    unfold autoReply
    rw [fmtDec_eq]
    have e1 : B "\r\nServer: BittyHTTP\r\nContent-Length: " =
        B "\r\n" ++ (B "Server: BittyHTTP\r\n" ++ B "Content-Length: ") := by decide
    have e2 : B "\r\n\r\n" = B "\r\n" ++ B "\r\n" := by decide
    simp only [e1, e2, List.append_assoc]
  · intro r hr
    simp only [Option.map_eq_some'] at hr
    obtain ⟨w, _, rfl⟩ := hr
    exact ⟨_, rfl, rfl, rfl⟩

set_option maxRecDepth 1000000 in
theorem C25_response_phase_witness :
    feedChunks (fileServerTable (B "hello")) 0 (WS_ResetWebServer 0 acceptedWeb) []
      = some freshWeb ∧
    turnsFrom (fileServerTable (B "hello")) 0 3 freshWeb (B "GET /nope HTTP/1.1\r\n\r\n")
      = some (sessionAtResponse (fileServerTable (B "hello")) (B "GET /nope HTTP/1.1\r\n\r\n"), []) ∧
    (sessionAtResponse (fileServerTable (B "hello")) (B "GET /nope HTTP/1.1\r\n\r\n")).State
      = WebServerState.Response ∧
    (sessionAtResponse (fileServerTable (B "hello")) (B "GET /nope HTTP/1.1\r\n\r\n")).ReplyStatus
      = ReplyStatus.NotFound ∧
    serverTurn (fileServerTable (B "hello")) 0
        (sessionAtResponse (fileServerTable (B "hello")) (B "GET /nope HTTP/1.1\r\n\r\n")) []
      = some (Turn.done (WS_ResetWebServer 0
          (conWrite (sessionAtResponse (fileServerTable (B "hello")) (B "GET /nope HTTP/1.1\r\n\r\n"))
            (autoReply (sessionAtResponse (fileServerTable (B "hello"))
              (B "GET /nope HTTP/1.1\r\n\r\n")).ReplyStatus)),
          RunExit.responded)) ∧
    (conWrite (sessionAtResponse (fileServerTable (B "hello")) (B "GET /nope HTTP/1.1\r\n\r\n"))
        (autoReply ReplyStatus.NotFound)).Con.Sent
      = B "HTTP/1.1 404 Not Found\r\nServer: BittyHTTP\r\nContent-Length: 13\r\n\r\n404 Not Found" ∧
    turnsFrom (fileServerTable (B "hello")) 0 3 freshWeb (B "GET / HTTP/1.1\r\n\r\n")
      = some (sessionAtResponse (fileServerTable (B "hello")) (B "GET / HTTP/1.1\r\n\r\n"), []) ∧
    (sessionAtResponse (fileServerTable (B "hello")) (B "GET / HTTP/1.1\r\n\r\n")).State
      = WebServerState.Response ∧
    (sessionAtResponse (fileServerTable (B "hello")) (B "GET / HTTP/1.1\r\n\r\n")).ReplyStatus
      = ReplyStatus.MAX ∧
    IsRoute (fileServerTable (B "hello"))
      (sessionAtResponse (fileServerTable (B "hello")) (B "GET / HTTP/1.1\r\n\r\n")).PageProp ∧
    sentBytes ((serverTurn (fileServerTable (B "hello")) 0
        (sessionAtResponse (fileServerTable (B "hello")) (B "GET / HTTP/1.1\r\n\r\n")) []).bind
        (fun t => match t with
          | Turn.done r => some r.1
          | Turn.again _ _ => none))
      = some (wholeReply (B "hell")) :=
  ⟨rfl, by decide!, by decide!, by decide!,
    ((C25_response_phase (fileServerTable (B "hello")) 0 0 acceptedWeb freshWeb
      (sessionAtResponse (fileServerTable (B "hello")) (B "GET /nope HTTP/1.1\r\n\r\n")) [] 3
      (B "GET /nope HTTP/1.1\r\n\r\n") [] rfl (by decide!) (by decide!)).2.1 (by decide!)).2.1,
    by decide!, by decide!, by decide!, by decide!,
    ((C25_response_phase (fileServerTable (B "hello")) 0 0 acceptedWeb freshWeb
      (sessionAtResponse (fileServerTable (B "hello")) (B "GET / HTTP/1.1\r\n\r\n")) [] 3
      (B "GET / HTTP/1.1\r\n\r\n") [] rfl (by decide!) (by decide!)).1 (by decide!)).1,
    by
      rw [((C25_response_phase (fileServerTable (B "hello")) 0 0 acceptedWeb freshWeb
        (sessionAtResponse (fileServerTable (B "hello")) (B "GET / HTTP/1.1\r\n\r\n")) [] 3
        (B "GET / HTTP/1.1\r\n\r\n") [] rfl (by decide!) (by decide!)).1 (by decide!)).2]
      decide!⟩

/-! ## A chunked reply -/

theorem conWrite_state (Y : WebServer) (s : List Nat) :
    (conWrite Y s).Con.State = Y.Con.State := by
  unfold conWrite
  split <;> rfl

theorem conWrite_flags (Y : WebServer) (a b : Bool) (s : List Nat) :
    conWrite { Y with WriteChunked := a, WriteStarted := b } s =
      { conWrite Y s with WriteChunked := a, WriteStarted := b } := by
  unfold conWrite
  split <;> rfl

theorem conWrite_started (Y : WebServer) (a : Bool) (s : List Nat) :
    conWrite { Y with ReplyStarted := a } s = { conWrite Y s with ReplyStarted := a } := by
  unfold conWrite
  split <;> rfl

/-- `SocketsCon_Write` of a whole buffer that is not empty, on a connected session. -/
theorem conWriteN_all (X : WebServer) (b : List Nat) (hc : X.Con.State = ConnectState.Connected)
    (hb : 0 < b.length) :
    conWriteN X b (b.length : Int) = some (conWrite X b) := by
  unfold conWriteN SocketsCon_Write conWrite
  have h1 : ¬ ((b.length : Int) ≤ 0) := by omega
  simp only [hc, ne_eq, not_true_eq_false, ↓reduceIte, h1, Int.toNat_ofNat, List.take_length,
    Option.map_some', lt_self_iff_false]

/-- A record whose chunk flags are set is not changed by setting them. -/
theorem chunkFlags_set (X : WebServer) (h1 : X.WriteChunked = true) (h2 : X.WriteStarted = true) :
    { X with WriteChunked := true, WriteStarted := true } = X := by
  cases X
  simp only at h1 h2
  subst h1 h2
  rfl

/-- `WS_WriteChunk` of a whole buffer once the chunked body has been started: the chunk is
written. -/
theorem writeChunk_next (X : WebServer) (b : List Nat)
    (hc : X.Con.State = ConnectState.Connected) (h1 : X.WriteChunked = true)
    (h2 : X.WriteStarted = true) (hb : 0 < b.length) (hl : b.length < 2147483648) :
    WS_WriteChunk X b (b.length : Int) = some (conWrite X (chunkBytes b)) := by
  unfold WS_WriteChunk
  have h0 : ¬ ((b.length : Int) = 0) := by omega
  rw [if_neg h0]
  simp only [h2, Bool.true_eq_false, ↓reduceIte]
  rw [chunkFlags_set X h1 h2]
  have hc1 : (conWrite X (fmtHex (b.length : Int) ++ B "\r\n")).Con.State
      = ConnectState.Connected := by
    rw [conWrite_eq]; unfold conWrite; simp only [hc, ne_eq, not_true_eq_false, ↓reduceIte]
  rw [conWriteN_all _ b hc1 hb]
  simp only [conWrite_conWrite, fmtHex_eq b.length (by omega), chunkBytes, List.append_assoc]

/-- The calls of `WS_WriteChunk` for whole buffers, once the chunked body has been
started. -/
theorem runActions_chunks : ∀ (bs : List (List Nat)) (X : WebServer),
    X.Con.State = ConnectState.Connected → X.WriteChunked = true → X.WriteStarted = true →
    (∀ b ∈ bs, 0 < b.length ∧ b.length < 2147483648) →
    runActions X (bs.map (fun b => Action.WriteChunk b (b.length : Int))) =
      some (conWrite X (bs.map chunkBytes).flatten) := by
  intro bs
  induction bs with
  | nil =>
    intro X _ _ _ _
    simp only [List.map_nil, runActions, List.flatten_nil, conWrite_nil]
  | cons b rest ih =>
    intro X hc h1 h2 hb
    have hb0 := hb b (by simp)
    rw [List.map_cons, runActions]
    simp only [runAction]
    rw [writeChunk_next X b hc h1 h2 hb0.1 hb0.2]
    simp only []
    have hX : (conWrite X (chunkBytes b)) = { X with Con := (conWrite X (chunkBytes b)).Con } :=
      conWrite_eq _ _
    have hc' : (conWrite X (chunkBytes b)).Con.State = ConnectState.Connected := by
      unfold conWrite; simp only [hc, ne_eq, not_true_eq_false, ↓reduceIte]
    rw [ih _ hc' (by rw [hX]; exact h1) (by rw [hX]; exact h2)
      (fun x hx => hb x (by simp [hx]))]
    rw [conWrite_conWrite, List.map_cons, List.flatten_cons]

/-- The first call of `WS_WriteChunk` for a whole buffer in a reply with the status 200:
the reply is started, the chunked body is announced and the chunk is written. -/
theorem writeChunk_first (X : WebServer) (b : List Nat)
    (hc : X.Con.State = ConnectState.Connected) (hst : X.ReplyStatus = ReplyStatus.Ok)
    (h2 : X.WriteStarted = false) (hb : 0 < b.length) (hl : b.length < 2147483648) :
    WS_WriteChunk X b (b.length : Int) =
      some { conWrite X (statusAndServer ReplyStatus.Ok ++ etagLine X.PageProp.DynamicFile
                ++ B "Transfer-Encoding: chunked\r\n" ++ B "\r\n" ++ chunkBytes b) with
             ReplyStarted := true, WriteChunked := true, WriteStarted := true } := by
  rcases X with ⟨st, con, pos, lb, req, rs, us, ws, wc, rst, pp, lrt, bsz, ps, pwp, peos, as⟩
  rcases con with ⟨cst, fd, rip, le, ts, ec, sent⟩
  simp only at hc hst h2
  subst hc hst h2
  have h0 : ¬ ((b.length : Int) = 0) := by omega
  have h1 : ¬ ((b.length : Int) ≤ 0) := by omega
  have e1 : B "ETag: \"" ++ DOCVER ++ B "\"\r\n" = B "ETag: \"1.0.0.0\"\r\n" := by decide
  unfold WS_WriteChunk WS_StartReply conWriteN SocketsCon_Write statusAndServer etagLine chunkBytes
  rw [if_neg h0]
  cases hd : pp.DynamicFile <;>
    simp only [conWrite, hd, h1, e1, ne_eq, not_true_eq_false, not_false_eq_true, false_and,
      ↓reduceIte, Bool.false_eq_true, Bool.true_eq_false, Int.toNat_ofNat, List.take_length,
      lt_self_iff_false, Option.map_some', fmtHex_eq b.length (by omega), List.append_assoc,
      List.nil_append, List.append_nil]

theorem conWrite_sent_connected (Y : WebServer) (s : List Nat)
    (hc : Y.Con.State = ConnectState.Connected) :
    (conWrite Y s).Con.Sent = Y.Con.Sent ++ s := by
  unfold conWrite
  simp only [hc, ne_eq, not_true_eq_false, ↓reduceIte]

/-- The first chunk of a reply, by its effect. -/
theorem writeChunk_first_fields (X : WebServer) (b : List Nat)
    (hc : X.Con.State = ConnectState.Connected) (hst : X.ReplyStatus = ReplyStatus.Ok)
    (h2 : X.WriteStarted = false) (hb : 0 < b.length) (hl : b.length < 2147483648) :
    ∃ X1, WS_WriteChunk X b (b.length : Int) = some X1 ∧
      X1.Con.State = ConnectState.Connected ∧ X1.WriteChunked = true ∧ X1.WriteStarted = true ∧
      X1.Con.Sent = X.Con.Sent ++ (statusAndServer ReplyStatus.Ok ++
        etagLine X.PageProp.DynamicFile ++ B "Transfer-Encoding: chunked\r\n" ++ B "\r\n" ++
        chunkBytes b) := by
  refine ⟨_, writeChunk_first X b hc hst h2 hb hl, ?_, rfl, rfl, ?_⟩
  · show (conWrite _ _).Con.State = _
    rw [conWrite_state]; exact hc
  · show (conWrite _ _).Con.Sent = _
    rw [conWrite_sent_connected _ _ hc]

/-- The chunks after the first one, by their effect. -/
theorem runActions_chunks_fields (bs : List (List Nat)) (X : WebServer)
    (hc : X.Con.State = ConnectState.Connected) (h1 : X.WriteChunked = true)
    (h2 : X.WriteStarted = true) (hb : ∀ b ∈ bs, 0 < b.length ∧ b.length < 2147483648) :
    ∃ X2, runActions X (bs.map (fun b => Action.WriteChunk b (b.length : Int))) = some X2 ∧
      X2.Con.State = ConnectState.Connected ∧ X2.WriteChunked = true ∧
      X2.Con.Sent = X.Con.Sent ++ (bs.map chunkBytes).flatten := by
  refine ⟨_, runActions_chunks bs X hc h1 h2 hb, ?_, ?_, conWrite_sent_connected _ _ hc⟩
  · rw [conWrite_state]; exact hc
  · rw [conWrite_eq]; exact h1

/-- `WS_EndReply` after chunks. -/
theorem endReply_chunked (X : WebServer) (hc : X.Con.State = ConnectState.Connected)
    (h1 : X.WriteChunked = true) :
    (WS_EndReply X).Con.Sent = X.Con.Sent ++ (B "0\r\n" ++ B "\r\n") := by
  unfold WS_EndReply
  rw [if_pos h1, conWrite_conWrite, conWrite_sent_connected _ _ hc]

/-- `WS_SendResponse` for a file whose function writes buffers that are not empty with
`WS_WriteChunk`, on a connected session that no response primitive has touched. -/
theorem sendResponse_chunks (m_Files : List FileInfo) (W : WebServer) (f : FileInfo)
    (b : List Nat) (bs : List (List Nat))
    (hm : W.ReplyStatus = ReplyStatus.MAX) (hc : W.Con.State = ConnectState.Connected)
    (hw : W.WriteStarted = false)
    (hf : m_Files[W.PageProp.FileID]? = some f)
    (hlen : ∀ x ∈ b :: bs, 0 < x.length ∧ x.length < 2147483648)
    (hcalls : f.WriteFile (argView { W with ReplyStatus := ReplyStatus.Ok }) =
      (b :: bs).map (fun x => Action.WriteChunk x (x.length : Int))) :
    ∃ X, WS_SendResponse m_Files W = some X ∧
      X.Con.Sent = W.Con.Sent ++ chunkedReply W.PageProp.DynamicFile (b :: bs) := by
  have hb := hlen b (by simp)
  obtain ⟨X1, a1, a2, a3, a4, a5⟩ :=
    writeChunk_first_fields { W with ReplyStatus := ReplyStatus.Ok } b hc rfl hw hb.1 hb.2
  obtain ⟨X2, b1, b2, b3, b4⟩ :=
    runActions_chunks_fields bs X1 a2 a3 a4 (fun x hx => hlen x (by simp [hx]))
  have hrun : FS_SendFile m_Files { W with ReplyStatus := ReplyStatus.Ok } W.PageProp.FileID
      = some X2 := by
    unfold FS_SendFile
    rw [hf]
    simp only [hcalls, List.map_cons, runActions, runAction, a1]
    exact b1
  unfold WS_SendResponse
  rw [if_pos hm, hrun]
  refine ⟨_, rfl, ?_⟩
  rw [endReply_chunked X2 b2 b3, b4, a5]
  have e : B "HTTP/1.1 " ++ statusMsg ReplyStatus.Ok ++ B "\r\n" = B "HTTP/1.1 200 OK\r\n" := by
    decide
  show W.Con.Sent ++ _ ++ _ ++ _ = _
  unfold chunkedReply statusAndServer etagLine
  rw [e]
  simp only [List.map_cons, List.flatten_cons, List.append_assoc]

/-- C21: take any session that the loop of `WS_RunServer` comes to in the Response phase
with the status still unset (the file of the request is known), after any chunks have
been fed to a session that was reset, on a connection that is connected. When the
function of the file calls `WS_WriteChunk(Web,b,len(b))` for the buffers `b1..bn`
(`n >= 1`, none empty) and nothing else, the turn ends with the session reset and the
bytes written are `HTTP/1.1 200 OK` CRLF, `Server: BittyHTTP` CRLF, the `ETag` line when
the file is not dynamic, `Transfer-Encoding: chunked` CRLF, CRLF, for each buffer its
length in upper-case hexadecimal, CRLF, its bytes, CRLF, and then `0` CRLF CRLF. A call
of `WS_WriteChunk` with `Len = 0` returns the session as it was. -/
theorem C21_chunked_reply (m_Files : List FileInfo) (now t0 : Nat) (Web0 W1 W : WebServer)
    (cs : List (List Nat)) (n : Nat) (buf rest : List Nat) (f : FileInfo) (bs : List (List Nat))
    (h1 : feedChunks m_Files now (WS_ResetWebServer t0 Web0) cs = some W1)
    (h2 : turnsFrom m_Files now n W1 buf = some (W, rest))
    (hs : W.State = WebServerState.Response)
    (hm : W.ReplyStatus = ReplyStatus.MAX)
    (hc : W.Con.State = ConnectState.Connected)
    (hf : m_Files[W.PageProp.FileID]? = some f)
    (hne : bs ≠ [])
    (hlen : ∀ b ∈ bs, 0 < b.length ∧ b.length < 2147483648)
    (hcalls : f.WriteFile (argView { W with ReplyStatus := ReplyStatus.Ok }) =
      bs.map (fun b => Action.WriteChunk b (b.length : Int))) :
    (∃ W', serverTurn m_Files now W rest = some (Turn.done (W', RunExit.responded)) ∧
      W'.State = WebServerState.Request ∧
      W'.Con.Sent = W.Con.Sent ++ chunkedReply f.Dynamic bs) ∧
    (∀ (X : WebServer) (b : List Nat), WS_WriteChunk X b 0 = some X) := by
  have hp := parsing_reached h1 h2
  obtain ⟨p1, p2, p3, p4, p5, p6⟩ := parsing_flags hp (by rw [hs]; decide)
  obtain ⟨f', hf', hpp⟩ := p6 (by rw [hs]; decide) hm
  have hff : f' = f := by
    rw [hf] at hf'; exact (Option.some.inj hf').symm
  subst hff
  have hdyn : W.PageProp.DynamicFile = f'.Dynamic := by rw [hpp]
  refine ⟨?_, fun X b => by unfold WS_WriteChunk; rw [if_pos rfl]⟩
  cases bs with
  | nil => exact absurd rfl hne
  | cons b bs =>
    obtain ⟨X, hX, hsent⟩ := sendResponse_chunks m_Files W f' b bs hm hc p2 hf hlen hcalls
    rw [serverTurn_response rest hs, hX]
    refine ⟨_, rfl, rfl, ?_⟩
    rw [← hdyn, ← hsent]
    rfl

set_option maxRecDepth 1000000 in
theorem C21_chunked_reply_witness :
    feedChunks helloTable 0 (WS_ResetWebServer 0 acceptedWeb) [] = some freshWeb ∧
    turnsFrom helloTable 0 3 freshWeb (B "GET / HTTP/1.1\r\n\r\n")
      = some (sessionAtResponse helloTable (B "GET / HTTP/1.1\r\n\r\n"), []) ∧
    (sessionAtResponse helloTable (B "GET / HTTP/1.1\r\n\r\n")).State
      = WebServerState.Response ∧
    (sessionAtResponse helloTable (B "GET / HTTP/1.1\r\n\r\n")).ReplyStatus = ReplyStatus.MAX ∧
    (sessionAtResponse helloTable (B "GET / HTTP/1.1\r\n\r\n")).Con.State
      = ConnectState.Connected ∧
    (sessionAtResponse helloTable (B "GET / HTTP/1.1\r\n\r\n")).Con.Sent = [] ∧
    (∀ b ∈ [B "Hello", B ", ", B "world!"], 0 < b.length ∧ b.length < 2147483648) ∧
    (∃ W', serverTurn helloTable 0 (sessionAtResponse helloTable (B "GET / HTTP/1.1\r\n\r\n")) []
        = some (Turn.done (W', RunExit.responded)) ∧
      W'.State = WebServerState.Request ∧
      W'.Con.Sent = (sessionAtResponse helloTable (B "GET / HTTP/1.1\r\n\r\n")).Con.Sent
        ++ chunkedReply false [B "Hello", B ", ", B "world!"]) ∧
    chunkedReply false [B "Hello", B ", ", B "world!"]
      = B "HTTP/1.1 200 OK\r\nServer: BittyHTTP\r\nETag: \"1.0.0.0\"\r\n"
        ++ B "Transfer-Encoding: chunked\r\n\r\n"
        ++ B "5\r\nHello\r\n2\r\n, \r\n6\r\nworld!\r\n0\r\n\r\n" :=
  ⟨rfl, by decide!, by decide!, by decide!, by decide!, by decide!, by decide,
    (C21_chunked_reply helloTable 0 0 acceptedWeb freshWeb
      (sessionAtResponse helloTable (B "GET / HTTP/1.1\r\n\r\n"))
      [] 3 (B "GET / HTTP/1.1\r\n\r\n") []
      { Filename := B "/", Dynamic := false, Cookies := none, Gets := none, Posts := none,
        WriteFile := fun _ => [B "Hello", B ", ", B "world!"].map
          (fun b => Action.WriteChunk b (b.length : Int)) }
      [B "Hello", B ", ", B "world!"]
      rfl (by decide!) (by decide!) (by decide!) (by decide!)
      (by
        rw [show (sessionAtResponse helloTable (B "GET / HTTP/1.1\r\n\r\n")).PageProp.FileID = 0
          from by decide!]
        rfl)
      (by decide) (by decide) rfl).1,
    by decide!⟩

set_option maxRecDepth 1000000 in
theorem C24_header_calls_witness :
    ∃ W, WS_WriteWhole freshWeb (B "hi") 2 = some W ∧ W.WriteStarted = true ∧
      WS_Header W (B "X-A: 1") = (W, false) ∧
      WS_SetCookie W (B "id") (B "7") 0 none none false false = some (W, false) ∧
      WS_Location W (B "/x") = (W, false) ∧
      WS_SetHTTPStatusCode W ReplyStatus.NotFound = (W, false) ∧
      ∃ W2, WS_SetHTTPStatusCode freshWeb ReplyStatus.NotFound = (W2, true) ∧
        W2.ReplyStatus = ReplyStatus.NotFound ∧ W2.UserSetReplyStatus = true ∧
        W2.ReplyStarted = true ∧
        W2.Con.Sent = B "HTTP/1.1 404 Not Found\r\nServer: BittyHTTP\r\nETag: \"1.0.0.0\"\r\n" := by
  have hs : (WS_WriteWhole freshWeb (B "hi") 2).isSome = true := by decide!
  obtain ⟨W, hW⟩ := Option.isSome_iff_exists.mp hs
  have hw := (C24_header_calls_fail_after_body_started freshWeb).1 _ _ W hW
  obtain ⟨a1, a2, a3, a4⟩ := (C24_header_calls_fail_after_body_started W).2.2.2.1 hw
  obtain ⟨W2, b1, b2, b3, b4, b5⟩ :=
    (C24_header_calls_fail_after_body_started freshWeb).2.2.2.2.2.2 ReplyStatus.NotFound
      (by decide) (by decide) (by decide)
  exact ⟨W, hW, hw, a1 _, a2 _ _ _ _ _ _ _, a3 _, a4 _, W2, b1, b2, b3, b4,
    (b5 (by decide)).trans (by decide)⟩

set_option maxRecDepth 1000000 in
theorem C27_set_cookie_witness :
    cookieRefused freshWeb (B "id") (B "a b") ∧
    WS_SetCookie freshWeb (B "id") (B "a b") 0 none none false false = some (freshWeb, false) ∧
    ¬ cookieRefused freshWeb (B "id") (B "7") ∧
    (∃ W line, WS_SetCookie freshWeb (B "id") (B "7") 0 none none false false = some (W, true) ∧
      W.ReplyStarted = true ∧
      W.Con.Sent = (if freshWeb.ReplyStarted = false then WS_StartReply freshWeb
        else freshWeb).Con.Sent ++ line) ∧
    WS_SetCookie freshWeb (B "id") (B "7") 1 none none false false = none := by
  have hr : cookieRefused freshWeb (B "id") (B "a b") :=
    Or.inr (Or.inr (Or.inl ⟨32, by decide, Or.inl rfl⟩))
  have hn : ¬ cookieRefused freshWeb (B "id") (B "7") := by
    unfold cookieRefused badCookieText
    decide
  exact ⟨hr,
    (C27_set_cookie_refusal freshWeb (B "id") (B "a b") 0 none none false false).1 hr,
    hn,
    (C27_set_cookie_refusal freshWeb (B "id") (B "7") 0 none none false false).2.1 hn rfl,
    (C27_set_cookie_refusal freshWeb (B "id") (B "7") 1 none none false false).2.2 hn
      (by decide)⟩

set_option maxRecDepth 1000000 in
theorem C30_encode_flag_witness :
    2 ≤ (List.replicate 5 0).length ∧
    ∃ Out' b, WS_URLEncode (B "a b") (List.replicate 5 0) = some (Out', b) ∧
      (b = true ↔ (pctEncode (cstr (B "a b"))).length + 2 ≤ (List.replicate 5 0).length) ∧
      cstr Out' <+: pctEncode (cstr (B "a b")) ∧
      (b = true → ∃ post, Out' = pctEncode (cstr (B "a b")) ++ 0 :: post) :=
  ⟨by decide, C30_encode_flag_needs_a_spare_byte.1 (B "a b") (List.replicate 5 0) (by decide)⟩

/-! ## The in-place decoder on any string -/

theorem decodedBytes_cons_ne (c : Nat) (s : List Nat) (h : c ≠ 37) :
    decodedBytes (c :: s) = c :: decodedBytes s := by
  conv_lhs => unfold decodedBytes
  simp [h]

theorem decodedBytes_length_le (n : Nat) : ∀ v : List Nat, v.length = n →
    (decodedBytes v).length ≤ v.length := by
  induction n using Nat.strong_induction_on with
  | _ n ih =>
    intro v hn
    cases v with
    | nil => simp [decodedBytes]
    | cons c v' =>
      by_cases hc : c = 37
      · subst hc
        cases v' with
        | nil => simp [decodedBytes]
        | cons x v2 =>
          cases v2 with
          | nil => simp [decodedBytes]
          | cons y v3 =>
            have := ih v3.length (by simp at hn; omega) v3 rfl
            unfold decodedBytes
            simp only [↓reduceIte, List.length_cons]
            omega
      · rw [decodedBytes_cons_ne c v' hc]
        have := ih v'.length (by simp at hn; omega) v' rfl
        simp; omega

/-- On a string with well-formed escapes the decoder gives what the specification
describes. -/
theorem decodedBytes_wellFormed (n : Nat) : ∀ v : List Nat, v.length = n →
    wellFormedPct v = true → decodedBytes v = pctDecode v := by
  induction n using Nat.strong_induction_on with
  | _ n ih =>
    intro v hn hwf
    cases v with
    | nil => simp [decodedBytes, pctDecode]
    | cons c v' =>
      by_cases hc : c = 37
      · subst hc
        cases v' with
        | nil => simp [wellFormedPct] at hwf
        | cons x v2 =>
          cases v2 with
          | nil => simp [wellFormedPct] at hwf
          | cons y v3 =>
            rw [wellFormedPct_hex] at hwf
            simp only [Bool.and_eq_true] at hwf
            obtain ⟨⟨hx, hy⟩, hwf3⟩ := hwf
            rw [pctDecode_hex x y v3 hx hy]
            conv_lhs => unfold decodedBytes
            simp only [↓reduceIte]
            rw [hexPair x y hx hy, ih v3.length (by simp at hn; omega) v3 rfl hwf3]
      · rw [decodedBytes_cons_ne c v' hc, pctDecode_cons_ne c v' hc,
          ih v'.length (by simp at hn; omega) v' rfl
            (by rwa [wellFormedPct_cons_ne c v' hc] at hwf)]

/-- The in-place decoder on any string without NUL: the bytes `decodedBytes` and a
terminator are written from `w` on, nothing before `w` and nothing after the terminator
of the input changes, and the offset after the new terminator is returned. -/
theorem urlDecodeInPlaceLoop_any (fuel : Nat) (b : List Nat) (r w : Nat) (s post : List Nat)
    (hb : b.drop r = s ++ 0 :: post) (hw : w ≤ r) (hs : NoNul s) (hf : s.length < fuel) :
    ∃ b', urlDecodeInPlaceLoop fuel b r w = some (b', w + (decodedBytes s).length + 1) ∧
      b'.length = b.length ∧
      b'.take (w + (decodedBytes s).length + 1) = b.take w ++ decodedBytes s ++ [0] ∧
      b'.drop (r + s.length + 1) = post := by
  induction fuel generalizing b r w s with
  | zero => omega
  | succ f ih =>
    cases s with
    | nil =>
      have h0 : rd b r = some 0 := rd_of_drop hb
      have hl : r < b.length := lt_length_of_drop hb
      refine ⟨b.set w 0, ?_, by simp, ?_, ?_⟩
      · simp [urlDecodeInPlaceLoop, h0, wr_some b w 0 (by omega), decodedBytes]
      · simpa [decodedBytes] using take_set_succ b w 0 (by omega)
      · rw [List.drop_set_of_lt _ _ (by simp; omega)]
        simpa using drop_succ_of_drop hb
    | cons c s' =>
      have hc0 : c ≠ 0 := hs c (by simp)
      have hrd : rd b r = some c := rd_of_drop hb
      have hl : r < b.length := lt_length_of_drop hb
      have hb1 : b.drop (r + 1) = s' ++ 0 :: post := drop_succ_of_drop hb
      by_cases hc : c = 37
      · subst hc
        cases s' with
        | nil =>
          -- the string ends after the '%'
          have hr1 : rd b (r + 1) = some 0 := rd_of_drop hb1
          have hwr := wr_some b w (toChar (strtol 16 (cstr [0, 0, 0]))) (by omega)
          have hdrop : (b.set w (toChar (strtol 16 (cstr [0, 0, 0])))).drop (r + 1)
              = [] ++ 0 :: post := by
            rw [List.drop_set_of_lt _ _ (by omega)]; exact hb1
          obtain ⟨b', h1, h2, h3, h4⟩ := ih (b.set w (toChar (strtol 16 (cstr [0, 0, 0]))))
            (r + 1) (w + 1) [] hdrop (by omega) (fun z hz => by simp at hz)
            (by simp at hf ⊢; omega)
          refine ⟨b', ?_, by simpa using h2, ?_, ?_⟩
          · simp only [urlDecodeInPlaceLoop, hrd, hr1, ne_eq, not_true_eq_false,
              ↓reduceIte, hwr, (by decide : ¬ (37 : Nat) = 0)]
            rw [h1]
            simp [decodedBytes]
          · have e : w + (decodedBytes [37]).length + 1 = w + 1 + (decodedBytes []).length + 1 := by
              simp [decodedBytes]
            rw [e, h3, take_set_succ b w _ (by omega)]
            simp [decodedBytes]
          · simpa using h4
        | cons x s2 =>
          have hx0 : x ≠ 0 := hs x (by simp)
          have hrx : rd b (r + 1) = some x := rd_of_drop hb1
          have hb2 : b.drop (r + 2) = s2 ++ 0 :: post := drop_succ_of_drop hb1
          cases s2 with
          | nil =>
            have hr2 : rd b (r + 2) = some 0 := rd_of_drop hb2
            have hwr := wr_some b w (toChar (strtol 16 (cstr [x, 0, 0]))) (by omega)
            have hdrop : (b.set w (toChar (strtol 16 (cstr [x, 0, 0])))).drop (r + 2)
                = [] ++ 0 :: post := by
              rw [List.drop_set_of_lt _ _ (by omega)]; exact hb2
            obtain ⟨b', h1, h2, h3, h4⟩ := ih (b.set w (toChar (strtol 16 (cstr [x, 0, 0]))))
              (r + 2) (w + 1) [] hdrop (by omega) (fun z hz => by simp at hz)
              (by simp at hf ⊢; omega)
            refine ⟨b', ?_, by simpa using h2, ?_, ?_⟩
            · simp only [urlDecodeInPlaceLoop, hrd, hrx, hr2, hx0, ne_eq, not_true_eq_false,
                not_false_eq_true, ↓reduceIte, hwr, (by decide : ¬ (37 : Nat) = 0)]
              rw [h1]
              simp [decodedBytes]
            · have e : w + (decodedBytes [37, x]).length + 1
                  = w + 1 + (decodedBytes []).length + 1 := by
                simp [decodedBytes]
              rw [e, h3, take_set_succ b w _ (by omega)]
              simp [decodedBytes]
            · simpa using h4
          | cons y s3 =>
            have hy0 : y ≠ 0 := hs y (by simp)
            have hry : rd b (r + 2) = some y := rd_of_drop hb2
            have hb3 : b.drop (r + 3) = s3 ++ 0 :: post := drop_succ_of_drop hb2
            have hwr := wr_some b w (toChar (strtol 16 (cstr [x, y, 0]))) (by omega)
            have hdrop : (b.set w (toChar (strtol 16 (cstr [x, y, 0])))).drop (r + 3)
                = s3 ++ 0 :: post := by
              rw [List.drop_set_of_lt _ _ (by omega)]; exact hb3
            obtain ⟨b', h1, h2, h3, h4⟩ := ih (b.set w (toChar (strtol 16 (cstr [x, y, 0]))))
              (r + 3) (w + 1) s3 hdrop (by omega) (fun z hz => hs z (by simp [hz]))
              (by simp at hf ⊢; omega)
            have hd : decodedBytes (37 :: x :: y :: s3)
                = toChar (strtol 16 (cstr [x, y, 0])) :: decodedBytes s3 := by
              conv_lhs => unfold decodedBytes
              simp
            refine ⟨b', ?_, by simpa using h2, ?_, ?_⟩
            · simp only [urlDecodeInPlaceLoop, hrd, hrx, hry, hx0, hy0, ne_eq,
                not_false_eq_true, ↓reduceIte, hwr, (by decide : ¬ (37 : Nat) = 0)]
              rw [h1, hd]
              simp only [List.length_cons]
              congr 2; omega
            · have e : w + (decodedBytes (37 :: x :: y :: s3)).length + 1
                  = w + 1 + (decodedBytes s3).length + 1 := by
                rw [hd]; simp; omega
              rw [e, h3, take_set_succ b w _ (by omega), hd]
              simp
            · rw [← h4]; congr 1; simp; omega
      · have hwr := wr_some b w c (by omega)
        have hdrop : (b.set w c).drop (r + 1) = s' ++ 0 :: post := by
          rw [List.drop_set_of_lt _ _ (by omega)]; exact hb1
        obtain ⟨b', h1, h2, h3, h4⟩ := ih (b.set w c) (r + 1) (w + 1) s' hdrop (by omega)
          (fun x hx => hs x (by simp [hx])) (by simpa using hf)
        refine ⟨b', ?_, by simpa using h2, ?_, ?_⟩
        · simp only [urlDecodeInPlaceLoop, hrd, hc0, ↓reduceIte, hc, hwr, h1,
            decodedBytes_cons_ne c s' hc, List.length_cons]
          congr 2; omega
        · have e : w + (decodedBytes (c :: s')).length + 1
              = w + 1 + (decodedBytes s').length + 1 := by
            rw [decodedBytes_cons_ne c s' hc]; simp; omega
          rw [e, h3, take_set_succ b w c (by omega), decodedBytes_cons_ne c s' hc]
          simp
        · rw [← h4]; congr 1; simp; omega

/-- `WS_URLDecodeInPlace` on a terminated string inside a buffer. -/
theorem urlDecodeInPlace_any (b : List Nat) (v : Nat) (s post : List Nat)
    (hb : b.drop v = s ++ 0 :: post) (hs : NoNul s) :
    ∃ b', WS_URLDecodeInPlace b v = some (b', v + (decodedBytes s).length + 1) ∧
      b'.length = b.length ∧
      b'.take (v + (decodedBytes s).length + 1) = b.take v ++ decodedBytes s ++ [0] ∧
      b'.drop (v + s.length + 1) = post := by
  have hl : v + s.length < b.length := by
    have := congrArg List.length hb
    simp at this
    omega
  exact urlDecodeInPlaceLoop_any (b.length + 1) b v v s post hb (le_refl _) hs (by omega)

/-! ## `WS_URLDecodeInPlace` -/

/-- C31: for every buffer that holds at the offset `v` a string `s` (bytes without NUL)
and its terminator, `WS_URLDecodeInPlace` returns. The buffer keeps its size; from `v`
on it holds the decoded bytes and a NUL, and the returned offset `e` is the one just
after that NUL. The decoded bytes are not more than the bytes of the input
(`e ≤ v + len(s) + 1`), the bytes before `v` and the bytes after the terminator of the
input are what they were, so nothing is written past the terminator of the input. When
every `'%'` of `s` is followed by two hexadecimal digits, the decoded bytes are `s`
with each `%XY` replaced by the byte `16*X+Y` and every other byte copied
(`pctDecode`). -/
theorem C31_decode_in_place (b : List Nat) (v : Nat) (s post : List Nat)
    (hb : b.drop v = s ++ 0 :: post) (hs : NoNul s) :
    ∃ b' e, WS_URLDecodeInPlace b v = some (b', e) ∧ b'.length = b.length ∧
      e = v + (decodedBytes s).length + 1 ∧ e ≤ v + s.length + 1 ∧
      b'.take e = b.take v ++ decodedBytes s ++ [0] ∧
      rd b' (e - 1) = some 0 ∧
      b'.take v = b.take v ∧
      b'.drop (v + s.length + 1) = b.drop (v + s.length + 1) ∧
      (wellFormedPct s = true → decodedBytes s = pctDecode s) := by
  obtain ⟨b', h1, h2, h3, h4⟩ := urlDecodeInPlace_any b v s post hb hs
  have hle := decodedBytes_length_le s.length s rfl
  have hvl : v + s.length < b.length := by
    have := congrArg List.length hb
    simp at this
    omega
  have hpl : (b.take v).length = v := List.length_take_of_le (by omega)
  refine ⟨b', _, h1, h2, rfl, by omega, h3, ?_, ?_, ?_,
    fun hwf => decodedBytes_wellFormed s.length s rfl hwf⟩
  · have h5 := congrArg (fun l => l[v + (decodedBytes s).length]?) h3
    simp only [List.getElem?_take] at h5
    rw [if_pos (by omega)] at h5
    rw [show v + (decodedBytes s).length + 1 - 1 = v + (decodedBytes s).length by omega]
    unfold rd
    rw [h5, List.append_assoc, List.getElem?_append_right (by omega), hpl,
      List.getElem?_append_right (by omega)]
    simp
  · have h5 := congrArg (List.take v) h3
    rw [List.take_take, List.append_assoc, List.take_append_eq_append_take, hpl] at h5
    simpa [show min v (v + (decodedBytes s).length + 1) = v by omega, List.take_take] using h5
  · rw [h4]
    have : b.drop (v + s.length + 1) = (b.drop v).drop (s.length + 1) := by
      rw [List.drop_drop]; congr 1
    rw [this, hb]
    simp

theorem C31_decode_in_place_witness :
    ∃ b' e, WS_URLDecodeInPlace (B "a%41b" ++ [0, 7, 7]) 0 = some (b', e) ∧
      b'.length = (B "a%41b" ++ [0, 7, 7]).length ∧
      e = 0 + (decodedBytes (B "a%41b")).length + 1 ∧ e ≤ 0 + (B "a%41b").length + 1 ∧
      b'.take e = (B "a%41b" ++ [0, 7, 7]).take 0 ++ decodedBytes (B "a%41b") ++ [0] ∧
      rd b' (e - 1) = some 0 ∧
      b'.take 0 = (B "a%41b" ++ [0, 7, 7]).take 0 ∧
      b'.drop (0 + (B "a%41b").length + 1)
        = (B "a%41b" ++ [0, 7, 7]).drop (0 + (B "a%41b").length + 1) ∧
      (wellFormedPct (B "a%41b") = true → decodedBytes (B "a%41b") = pctDecode (B "a%41b")) :=
  C31_decode_in_place (B "a%41b" ++ [0, 7, 7]) 0 (B "a%41b") [7, 7] (by decide)
    (by unfold NoNul; decide)

/-! ## `WS_ProcessGetVars` stays inside Argument Storage -/

/-- The copy of a value never leaves the storage: it stops with the overflow flag, or
the whole value is in place. -/
theorem copyList_any (v : List Nat) :
    ∀ (A : List Nat) (W : Nat), A.length = WS_OPT_ARG_MEMORY_SIZE → W ≤ WS_OPT_ARG_MEMORY_SIZE →
      ∃ A' W' f, copyList v A W = some (A', W', f) ∧ A'.length = WS_OPT_ARG_MEMORY_SIZE ∧
        (f = false → W' = W + v.length ∧ W' ≤ WS_OPT_ARG_MEMORY_SIZE ∧
          A'.take W' = A.take W ++ v) := by
  induction v with
  | nil => intro A W hA hW; exact ⟨A, W, false, by simp [copyList], hA, fun _ => by simp [hW]⟩
  | cons c cs ih =>
    intro A W hA hW
    by_cases hg : W ≥ WS_OPT_ARG_MEMORY_SIZE
    · exact ⟨A, W, true, by simp [copyList, hg], hA, fun h => by simp at h⟩
    · have hw := wr_some A W c (by omega)
      obtain ⟨A', W', f, e1, e2, e3⟩ := ih (A.set W c) (W + 1) (by simpa using hA) (by omega)
      refine ⟨A', W', f, ?_, e2, fun hf => ?_⟩
      · rw [copyList]
        simp only [hg, ↓reduceIte, hw, e1]
      · obtain ⟨a1, a2, a3⟩ := e3 hf
        refine ⟨by simp only [List.length_cons]; omega, a2, ?_⟩
        rw [a3, take_set_succ A W c (by omega)]
        simp

theorem fillN_any (k : Nat) :
    ∀ (A : List Nat) (W : Nat), A.length = WS_OPT_ARG_MEMORY_SIZE → W ≤ WS_OPT_ARG_MEMORY_SIZE →
      ∃ A' W' f, fillN k A W = some (A', W', f) ∧ A'.length = WS_OPT_ARG_MEMORY_SIZE ∧
        (f = false → W' = W + k ∧ W' ≤ WS_OPT_ARG_MEMORY_SIZE ∧
          A'.take W' = A.take W ++ List.replicate k 78) := by
  induction k with
  | zero => intro A W hA hW; exact ⟨A, W, false, by simp [fillN], hA, fun _ => by simp [hW]⟩
  | succ k ih =>
    intro A W hA hW
    by_cases hg : W ≥ WS_OPT_ARG_MEMORY_SIZE
    · exact ⟨A, W, true, by simp [fillN, hg], hA, fun h => by simp at h⟩
    · have hw := wr_some A W 78 (by omega)
      obtain ⟨A', W', f, e1, e2, e3⟩ := ih (A.set W 78) (W + 1) (by simpa using hA) (by omega)
      refine ⟨A', W', f, ?_, e2, fun hf => ?_⟩
      · rw [fillN]
        simp only [hg, ↓reduceIte, hw, e1]
      · obtain ⟨a1, a2, a3⟩ := e3 hf
        refine ⟨by omega, a2, ?_⟩
        rw [a3, take_set_succ A W 78 (by omega), List.replicate_succ]
        simp

/-- One entry never leaves the storage: the function stops with the overflow flag, or
the entry is in place as `writtenEntry` describes. -/
theorem storeEntry_any (v : Option (List Nat)) (A : List Nat) (W : Nat)
    (hA : A.length = WS_OPT_ARG_MEMORY_SIZE) (hv : ∀ x, v = some x → NoNul x) :
    ∃ A' W' f, storeEntry v A W = some (A', W', f) ∧ A'.length = WS_OPT_ARG_MEMORY_SIZE ∧
      (f = false → W' = W + (writtenEntry v).length ∧ W' ≤ WS_OPT_ARG_MEMORY_SIZE ∧
        A'.take W' = A.take W ++ writtenEntry v) := by
  by_cases hg : W ≥ WS_OPT_ARG_MEMORY_SIZE
  · exact ⟨A, W, true, by simp [storeEntry, hg], hA, fun h => by simp at h⟩
  · cases v with
    | none =>
      refine ⟨A.set W 78, W + 1, false, ?_, by simpa using hA, fun _ => ⟨by simp [writtenEntry],
        by omega, by rw [take_set_succ A W 78 (by omega)]; rfl⟩⟩
      unfold storeEntry
      simp [hg, wr_some A W 78 (by omega)]
    | some x =>
      have hx : NoNul x := hv x rfl
      have hw := wr_some A W 89 (by omega)
      obtain ⟨A2, W2, f2, c1, c2, c3⟩ := copyList_any x (A.set W 89) (W + 1) (by simpa using hA)
        (by omega)
      cases f2 with
      | true =>
        refine ⟨A2, W2, true, ?_, c2, fun h => by simp at h⟩
        unfold storeEntry
        simp only [hg, ↓reduceIte, Option.isSome_some, hw, c1]
      | false =>
        obtain ⟨a1, a2, a3⟩ := c3 rfl
        subst a1
        by_cases hg2 : W + 1 + x.length ≥ WS_OPT_ARG_MEMORY_SIZE
        · refine ⟨A2, W + 1 + x.length, true, ?_, c2, fun h => by simp at h⟩
          unfold storeEntry
          simp only [hg, ↓reduceIte, Option.isSome_some, hw, c1, hg2]
        · have hw2 := wr_some A2 (W + 1 + x.length) 0 (by omega)
          have t3 : (A2.set (W + 1 + x.length) 0).take (W + 1 + x.length + 1)
              = A.take W ++ (89 :: x ++ [0]) := by
            rw [take_set_succ A2 _ 0 (by omega), a3, take_set_succ A W 89 (by omega)]
            simp
          have hPl : (A.take W).length = W := List.length_take_of_le (by omega)
          have hdrop := drop_of_take_eq _ _ _ _ W t3 hPl
          have hnn : NoNul (89 :: x) := by
            intro c hc
            simp only [List.mem_cons] at hc
            rcases hc with h | h
            · omega
            · exact hx c h
          obtain ⟨A4, d1, d2, d3, _⟩ := urlDecodeInPlace_any (A2.set (W + 1 + x.length) 0) W
            (89 :: x) _ (by simpa using hdrop) hnn
          rw [decodedBytes_cons_ne 89 x (by decide)] at d1 d3
          have tW : (A2.set (W + 1 + x.length) 0).take W = A.take W := by
            have := congrArg (List.take W) t3
            rw [List.take_take, List.take_append_eq_append_take, hPl] at this
            simpa [show min W (W + 1 + x.length + 1) = W by omega, List.take_take] using this
          have hle := decodedBytes_length_le x.length x rfl
          refine ⟨A4, W + (89 :: decodedBytes x).length + 1, false, ?_,
            by rw [d2]; simpa using c2, fun _ => ⟨?_, ?_, ?_⟩⟩
          · unfold storeEntry
            simp only [hg, ↓reduceIte, Option.isSome_some, hw, c1, hg2, hw2, d1]
          · simp [writtenEntry]; omega
          · simp only [List.length_cons]; omega
          · rw [d3, tW]
            simp [writtenEntry]

/-- The Get section never leaves the storage. -/
theorem storeAll_any (look : List Nat → Option (List Nat)) (names : List (List Nat)) :
    ∀ (A : List Nat) (W : Nat), A.length = WS_OPT_ARG_MEMORY_SIZE → W ≤ WS_OPT_ARG_MEMORY_SIZE →
      (∀ nm ∈ names, ∀ v, look (cstr nm) = some v → NoNul v) →
      ∃ A' W' f, storeAll look names A W = some (A', W', f) ∧
        A'.length = WS_OPT_ARG_MEMORY_SIZE ∧
        (f = false → W' = W + (writtenGets look names).length ∧ W' ≤ WS_OPT_ARG_MEMORY_SIZE ∧
          A'.take W' = A.take W ++ writtenGets look names) := by
  induction names with
  | nil =>
    intro A W hA hW _
    exact ⟨A, W, false, by simp [storeAll], hA, fun _ => by simp [writtenGets, hW]⟩
  | cons nm rest ih =>
    intro A W hA hW hv
    obtain ⟨A1, W1, f1, s1, s2, s3⟩ := storeEntry_any (look (cstr nm)) A W hA
      (fun x hx => hv nm (by simp) x hx)
    cases f1 with
    | true =>
      refine ⟨A1, W1, true, ?_, s2, fun h => by simp at h⟩
      rw [storeAll, s1]
    | false =>
      obtain ⟨a1, a2, a3⟩ := s3 rfl
      obtain ⟨A', W', f, r1, r2, r3⟩ := ih A1 W1 s2 a2 (fun n hn => hv n (by simp [hn]))
      refine ⟨A', W', f, ?_, r2, fun hf => ?_⟩
      · rw [storeAll, s1]
        exact r1
      · obtain ⟨b1, b2, b3⟩ := r3 hf
        refine ⟨?_, b2, ?_⟩
        · rw [b1, a1]; simp [writtenGets]; omega
        · rw [b3, a3]; simp [writtenGets]


/-- C36: for every route and every query (the line buffer as `WS_ProcessURI` leaves it:
the request line up to the path, a NUL, the query, a NUL) and an `ArgsStorage` of
`WS_OPT_ARG_MEMORY_SIZE` bytes, `WS_ProcessGetVars` returns and the storage still has
that size: no byte is written at or after offset 100, also while a value is decoded in
place. Either the reply status is what it was and the storage starts with the complete
data, which fits: for every Get name its entry as it is written (`'N'`, or `'Y'`, the
decoded value and a NUL), then one `'N'` for every Cookie and every Post name; or the
reply status is `e_ReplyStatus_InsufficientStorage`. -/
theorem C36_get_vars_stay_inside (Web : WebServer) (head q post : List Nat)
    (hhead : NoNul head) (hq : NoNul q) (hL : Web.LineBuff = head ++ (0 :: (q ++ 0 :: post)))
    (hA : Web.ArgsStorage.length = WS_OPT_ARG_MEMORY_SIZE) :
    ∃ W, WS_ProcessGetVars Web = some W ∧ W.ArgsStorage.length = WS_OPT_ARG_MEMORY_SIZE ∧
      ((W.ReplyStatus = Web.ReplyStatus ∧
          (writtenGets (fun g => findSeg g (querySegments q)) (Web.PageProp.Gets.getD [])).length
            + nameCount Web.PageProp.Cookies + nameCount Web.PageProp.Posts
            ≤ WS_OPT_ARG_MEMORY_SIZE ∧
          W.ArgsStorage.take
            ((writtenGets (fun g => findSeg g (querySegments q))
                (Web.PageProp.Gets.getD [])).length
              + nameCount Web.PageProp.Cookies + nameCount Web.PageProp.Posts) =
            writtenGets (fun g => findSeg g (querySegments q)) (Web.PageProp.Gets.getD [])
              ++ List.replicate (nameCount Web.PageProp.Cookies) 78
              ++ List.replicate (nameCount Web.PageProp.Posts) 78) ∨
        W.ReplyStatus = ReplyStatus.InsufficientStorage) := by
  have hsegs := querySegments_noNul q hq
  obtain ⟨A1, W1, f1, s1, s2, s3⟩ := storeAll_any (fun g => findSeg g (querySegments q))
    (Web.PageProp.Gets.getD []) Web.ArgsStorage 0 hA (by omega)
    (fun nm _ v hv => findSeg_noNul _ _ hsegs v hv)
  rw [processGetVars_eq Web head q post hhead hq hL]
  unfold getVarsResult
  rw [s1]
  cases f1 with
  | true => exact ⟨_, rfl, s2, Or.inr rfl⟩
  | false =>
    obtain ⟨a1, a2, a3⟩ := s3 rfl
    simp only [Nat.zero_add, List.take_zero, List.nil_append] at a1 a3
    generalize hlay : writtenGets (fun g => findSeg g (querySegments q))
      (Web.PageProp.Gets.getD []) = lay at *
    subst a1
    obtain ⟨A2, W2, f2, k1, k2, k3⟩ := fillN_any (nameCount Web.PageProp.Cookies) A1 lay.length
      s2 a2
    simp only
    rw [k1]
    cases f2 with
    | true => exact ⟨_, rfl, k2, Or.inr rfl⟩
    | false =>
      obtain ⟨b1, b2, b3⟩ := k3 rfl
      subst b1
      obtain ⟨A3, W3, f3, m1, m2, m3⟩ := fillN_any (nameCount Web.PageProp.Posts) A2
        (lay.length + nameCount Web.PageProp.Cookies) k2 b2
      simp only
      rw [m1]
      cases f3 with
      | true => exact ⟨_, rfl, m2, Or.inr rfl⟩
      | false =>
        obtain ⟨c1, c2, c3⟩ := m3 rfl
        subst c1
        refine ⟨_, rfl, m2, Or.inl ⟨rfl, c2, ?_⟩⟩
        simp only
        rw [c3, b3, a3]

set_option maxRecDepth 1000000 in
theorem C36_get_vars_witness :
    ∃ W, WS_ProcessGetVars
          { sessionWith (some [B "a", B "b"]) (some [B "c"]) (some [B "p"]) [] with
            LineBuff := B "GET /" ++ (0 :: (B "b=%4" ++ 0 :: [])) } = some W ∧
      W.ArgsStorage.length = WS_OPT_ARG_MEMORY_SIZE ∧
      ((W.ReplyStatus = ReplyStatus.MAX ∧
          (writtenGets (fun g => findSeg g (querySegments (B "b=%4"))) [B "a", B "b"]).length
            + 1 + 1 ≤ WS_OPT_ARG_MEMORY_SIZE ∧
          W.ArgsStorage.take
            ((writtenGets (fun g => findSeg g (querySegments (B "b=%4"))) [B "a", B "b"]).length
              + 1 + 1) =
            writtenGets (fun g => findSeg g (querySegments (B "b=%4"))) [B "a", B "b"]
              ++ List.replicate 1 78 ++ List.replicate 1 78) ∨
        W.ReplyStatus = ReplyStatus.InsufficientStorage) :=
  C36_get_vars_stay_inside
    { sessionWith (some [B "a", B "b"]) (some [B "c"]) (some [B "p"]) [] with
      LineBuff := B "GET /" ++ (0 :: (B "b=%4" ++ 0 :: [])) }
    (B "GET /") (B "b=%4") [] (by unfold NoNul; decide) (by unfold NoNul; decide) rfl
    (by decide)

/-! ## The loop of `WS_RunServer` comes to an end -/

theorem serverTurn_again_state {m_Files : List FileInfo} {now : Nat} {Web W : WebServer}
    {bs rest : List Nat} (h : serverTurn m_Files now Web bs = some (.again W rest))
    (hm : Web.State ≠ WebServerState.MAX) : W.State ≠ WebServerState.MAX := by
  rcases serverTurn_again h with h1 | h1 | h1 | h1 | h1 | h1
  · rw [h1.2.1]; decide
  · rw [h1.2.1]; decide
  · rw [h1.2.1]; decide
  · rw [h1.2.1]; decide
  · rw [h1.2.1]; decide
  · exact absurd h1.1 hm

/-- The session a `return` of the loop leaves: in the phase it was in when more bytes
are needed, closed, or back in the Request phase after the reply. -/
theorem serverTurn_responded {m_Files : List FileInfo} {now : Nat} {Web W1 : WebServer}
    {a : List Nat} (h : serverTurn m_Files now Web a = some (.done (W1, RunExit.responded))) :
    Web.State = WebServerState.Response ∧ W1.State = WebServerState.Request := by
  unfold serverTurn at h
  cases hs : Web.State <;> rw [hs] at h <;> simp only [] at h
  · simp at h
  · split at h
    · exact absurd h (by simp)
    · split at h
      · simp at h
      · split at h
        · simp at h
        · simp only [Option.map_eq_some'] at h
          obtain ⟨_, _, h⟩ := h
          exact absurd h (by simp)
  · split at h
    · exact absurd h (by simp)
    · split at h
      · simp at h
      · split at h
        · simp at h
        · simp only [Option.map_eq_some'] at h
          obtain ⟨_, _, h⟩ := h
          exact absurd h (by simp)
  · split at h
    · exact absurd h (by simp)
    · split at h
      · simp at h
      · simp at h
  · simp only [Option.map_eq_some', Option.some.injEq, Turn.done.injEq, Prod.mk.injEq,
      and_true] at h
    obtain ⟨w, _, rfl⟩ := h
    exact ⟨rfl, rfl⟩
  · simp at h

/-- With a turn of fuel for every byte and for every phase that can follow without a
byte, the loop is not running any more. -/
theorem loopAfter_ends (m_Files : List FileInfo) (now : Nat) :
    ∀ (n : Nat) (Web : WebServer) (bs : List Nat), Web.State ≠ WebServerState.MAX →
      bs.length + phaseRank Web.State ≤ n →
      ∀ W rest, loopAfter m_Files now n Web bs ≠ LoopState.running W rest := by
  intro n
  induction n with
  | zero =>
    intro Web bs hm h
    have := phaseRank_pos hm
    omega
  | succ n ih =>
    intro Web bs hm h W rest
    rw [loopAfter]
    cases ht : serverTurn m_Files now Web bs with
    | none => simp
    | some t =>
      cases t with
      | done r => simp
      | again W1 rest1 =>
        have hr := serverTurn_rank ht hm
        exact ih W1 rest1 (serverTurn_again_state ht hm) (by omega) W rest

/-- The result of `runServerLoop` is what the turns give. -/
theorem runServerLoop_loopAfter (m_Files : List FileInfo) (now : Nat) :
    ∀ (n : Nat) (Web : WebServer) (bs : List Nat),
      runServerLoop m_Files now n Web bs =
        match loopAfter m_Files now n Web bs with
        | LoopState.returned r => some r
        | _ => none := by
  intro n
  induction n with
  | zero => intro Web bs; rfl
  | succ n ih =>
    intro Web bs
    rw [runServerLoop_succ, loopAfter]
    cases ht : serverTurn m_Files now Web bs with
    | none => rfl
    | some t =>
      cases t with
      | done r => rfl
      | again W1 rest1 => exact ih W1 rest1

/-- C37: `WS_RunServer` on a session in one of the phases Closed, Request, Headers, Body
or Response and a chunk of `n` bytes comes to an end within `n + 3` turns of its loop:
after that many turns the loop is not running, it was left by a `return` (which is then
the result of `WS_RunServer`) or a turn made an access outside a buffer. A turn that is
followed by another one has used at least one byte of the chunk or has moved the
session to the next phase or to Closed; it never gives bytes back, the phase after it
is the same phase, the next one or Closed, and never the value `e_WebServerStateMAX`.
A `return` leaves the session in the phase it was in (more bytes are needed), in
Closed, or, from the Response phase, back in Request by the reset. -/
theorem C37_run_server_terminates (m_Files : List FileInfo) (now : Nat) (Web : WebServer)
    (bs : List Nat) (hm : Web.State ≠ WebServerState.MAX) :
    (∀ W rest, loopAfter m_Files now (bs.length + 3) Web bs ≠ LoopState.running W rest) ∧
    (runServer m_Files now Web bs =
      match loopAfter m_Files now (bs.length + 3) Web bs with
      | LoopState.returned r => some r
      | _ => none) ∧
    (∀ W rest, serverTurn m_Files now Web bs = some (.again W rest) →
      (rest.length < bs.length ∨
        (W.State ≠ Web.State ∧
          (W.State = nextState Web.State ∨ W.State = WebServerState.Closed))) ∧
      rest.length ≤ bs.length ∧
      (W.State = Web.State ∨ W.State = nextState Web.State ∨
        W.State = WebServerState.Closed) ∧
      W.State ≠ WebServerState.MAX) ∧
    (∀ W e, serverTurn m_Files now Web bs = some (.done (W, e)) →
      (e = RunExit.needMore ∧ W.State = Web.State) ∨
      (e = RunExit.closed ∧ W.State = WebServerState.Closed) ∨
      (e = RunExit.responded ∧ Web.State = WebServerState.Response ∧
        W.State = WebServerState.Request)) := by
  refine ⟨loopAfter_ends m_Files now _ Web bs hm (by have := phaseRank_le Web.State; omega),
    runServerLoop_loopAfter m_Files now _ Web bs, ?_, ?_⟩
  · intro W rest h
    refine ⟨?_, ?_, ?_, serverTurn_again_state h hm⟩
    · rcases serverTurn_again h with h1 | h1 | h1 | h1 | h1 | h1
      · exact Or.inl h1.2.2.2
      · exact Or.inr ⟨by rw [h1.1, h1.2.1]; decide, Or.inr h1.2.1⟩
      · exact Or.inl h1.2.2.2.2
      · exact Or.inl h1.2.2.2
      · exact Or.inr ⟨by rw [h1.1, h1.2.1]; decide, Or.inl (by rw [h1.1, h1.2.1]; rfl)⟩
      · exact absurd h1.1 hm
    · rcases serverTurn_again h with h1 | h1 | h1 | h1 | h1 | h1
      · exact le_of_lt h1.2.2.2
      · rw [h1.2.2]
      · exact le_of_lt h1.2.2.2.2
      · exact le_of_lt h1.2.2.2
      · exact h1.2.2
      · exact absurd h1.1 hm
    · rcases serverTurn_again h with h1 | h1 | h1 | h1 | h1 | h1
      · exact Or.inr (Or.inl (by rw [h1.1, h1.2.1]; rfl))
      · exact Or.inr (Or.inr h1.2.1)
      · exact Or.inr (Or.inl (by rw [h1.1, h1.2.1]; rfl))
      · exact Or.inl (by rw [h1.1, h1.2.1])
      · exact Or.inr (Or.inl (by rw [h1.1, h1.2.1]; rfl))
      · exact absurd h1.1 hm
  · intro W e h
    cases e with
    | closed => exact Or.inr (Or.inl ⟨rfl, (serverTurn_closed_result h).1⟩)
    | needMore => exact Or.inl ⟨rfl, serverTurn_more_state h⟩
    | responded => exact Or.inr (Or.inr ⟨rfl, serverTurn_responded h⟩)

/-! ## Carriage returns in the request line and the header lines -/

/-- A line with its line feed and the same line without its carriage returns: both do
not fit, or both are stored, with the same session after them. -/
theorem getNextLineLoop_cr : ∀ (l : List Nat), 10 ∉ l → ∀ (rest rest' : List Nat) (r r' : Nat)
    (Web : WebServer),
    (getNextLineLoop (l ++ 10 :: rest) r Web = none ∧
      getNextLineLoop (stripCR l ++ 10 :: rest') r' Web = none) ∨
    (∃ W, getNextLineLoop (l ++ 10 :: rest) r Web = some (W, -1) ∧
      getNextLineLoop (stripCR l ++ 10 :: rest') r' Web = some (W, -1)) ∨
    (∃ W, getNextLineLoop (l ++ 10 :: rest) r Web = some (W, (r : Int) + l.length + 1) ∧
      getNextLineLoop (stripCR l ++ 10 :: rest') r' Web
        = some (W, (r' : Int) + (stripCR l).length + 1) ∧
      W.LineBuffPos = 0 ∧
      W.LineBuff.take (Web.LineBuffPos + (stripCR l).length + 1) =
        Web.LineBuff.take Web.LineBuffPos ++ (stripCR l ++ [0])) := by
  intro l
  induction l with
  | nil =>
    intro _ rest rest' r r' Web
    simp only [stripCR, List.filter_nil, List.nil_append]
    rw [getNextLineLoop, getNextLineLoop]
    simp only [show ¬ (10 : Nat) = 13 by decide, ↓reduceIte]
    cases hw : wr Web.LineBuff Web.LineBuffPos 0 with
    | none => left; exact ⟨rfl, rfl⟩
    | some L =>
      right; right
      refine ⟨{ Web with LineBuff := L, LineBuffPos := 0 }, by simp, by simp, rfl, ?_⟩
      simp only [List.length_nil, Nat.add_zero, List.nil_append]
      exact wr_take_succ hw
  | cons c l ih =>
    intro hc rest rest' r r' Web
    have hc10 : c ≠ 10 := fun e => hc (by simp [e])
    have ha : 10 ∉ l := fun e => hc (List.mem_cons_of_mem _ e)
    by_cases h13 : c = 13
    · subst h13
      rw [stripCR_cons_cr, List.cons_append, getNextLineLoop]
      simp only [↓reduceIte]
      rcases ih ha rest rest' (r + 1) r' Web with h | ⟨W, h1, h2⟩ | ⟨W, h1, h2, h3, h4⟩
      · left; exact h
      · right; left; exact ⟨W, h1, h2⟩
      · right; right
        refine ⟨W, ?_, h2, h3, h4⟩
        rw [h1]
        simp only [List.length_cons]
        push_cast
        congr 2
        omega
    · rw [stripCR_cons_ne l h13, List.cons_append, List.cons_append, getNextLineLoop,
        getNextLineLoop]
      simp only [h13, hc10, ↓reduceIte]
      cases hw : wr Web.LineBuff Web.LineBuffPos c with
      | none => left; exact ⟨rfl, rfl⟩
      | some L =>
        simp only []
        by_cases hfull : Web.LineBuffPos + 1 ≥ WS_LINE_BUFFER_SIZE
        · right; left
          simp only [hfull, ↓reduceIte]
          exact ⟨_, rfl, rfl⟩
        · simp only [hfull, ↓reduceIte]
          rcases ih ha rest rest' (r + 1) (r' + 1)
              { Web with LineBuff := L, LineBuffPos := Web.LineBuffPos + 1 }
            with h | ⟨W, h1, h2⟩ | ⟨W, h1, h2, h3, h4⟩
          · left; exact h
          · right; left; exact ⟨W, h1, h2⟩
          · right; right
            refine ⟨W, ?_, ?_, h3, ?_⟩
            · rw [h1]
              simp only [List.length_cons]
              push_cast
              congr 2
              omega
            · rw [h2]
              simp only [List.length_cons]
              push_cast
              congr 2
              omega
            · simp only at h4
              rw [show Web.LineBuffPos + (c :: stripCR l).length + 1
                = Web.LineBuffPos + 1 + (stripCR l).length + 1 by simp; omega, h4,
                wr_take_succ hw]
              simp

/-- The turn of the Request phase on a request line and on the same line without its
carriage returns. -/
theorem requestTurn_cr (m_Files : List FileInfo) (now : Nat) (Web : WebServer)
    (hs : Web.State = WebServerState.Request) (l : List Nat) (hl : 10 ∉ l)
    (rest rest' : List Nat) :
    (serverTurn m_Files now Web (l ++ 10 :: rest) = none ∧
      serverTurn m_Files now Web (stripCR l ++ 10 :: rest') = none) ∨
    (∃ r, serverTurn m_Files now Web (l ++ 10 :: rest) = some (.done r) ∧
      serverTurn m_Files now Web (stripCR l ++ 10 :: rest') = some (.done r)) ∨
    (∃ W, W.State = WebServerState.Headers ∧ W.LineBuffPos = 0 ∧
      serverTurn m_Files now Web (l ++ 10 :: rest) = some (.again W rest) ∧
      serverTurn m_Files now Web (stripCR l ++ 10 :: rest') = some (.again W rest')) := by
  rw [serverTurn_request _ hs, serverTurn_request _ hs]
  unfold WS_GetNextLine
  rcases getNextLineLoop_cr l hl rest rest' 0 0 Web with ⟨h1, h2⟩ | ⟨W, h1, h2⟩ |
    ⟨W, h1, h2, h3, _⟩
  · left; rw [h1, h2]; exact ⟨rfl, rfl⟩
  · right; left; rw [h1, h2]; exact ⟨_, rfl, rfl⟩
  · have f1 := getNextLineLoop_frame _ _ _ _ _ h1
    rw [h1, h2]
    have h0 : ¬ (((0 : Nat) : Int) + (l.length : Int) + 1 = 0) := by omega
    have h1a : ¬ (((0 : Nat) : Int) + (l.length : Int) + 1 < 0) := by omega
    have h0a : ¬ (((0 : Nat) : Int) + ((stripCR l).length : Int) + 1 = 0) := by omega
    have h1b : ¬ (((0 : Nat) : Int) + ((stripCR l).length : Int) + 1 < 0) := by omega
    simp only [h0, h1a, h0a, h1b, ↓reduceIte, drop_line]
    cases hm : methodLine m_Files W with
    | none => left; exact ⟨rfl, rfl⟩
    | some W2 =>
      right; right
      have f2 := methodLine_frame hm
      have f3 := methodLine_pos hm
      refine ⟨{ W2 with State := nextState W2.State }, ?_, ?_, rfl, rfl⟩
      · show nextState W2.State = _
        rw [f2.1, f1.1, hs]; rfl
      · show W2.LineBuffPos = 0
        rw [f3, h3]

/-- The turn of the Headers phase on a line and on the same line without its carriage
returns. -/
theorem headersTurn_cr (m_Files : List FileInfo) (now : Nat) (Web : WebServer)
    (hs : Web.State = WebServerState.Headers) (hp0 : Web.LineBuffPos = 0) (l : List Nat)
    (hl : 10 ∉ l) (rest rest' : List Nat) :
    (serverTurn m_Files now Web (l ++ 10 :: rest) = none ∧
      serverTurn m_Files now Web (stripCR l ++ 10 :: rest') = none) ∨
    (∃ W, W.State = WebServerState.Closed ∧
      serverTurn m_Files now Web (l ++ 10 :: rest) = some (.again W (l ++ 10 :: rest)) ∧
      serverTurn m_Files now Web (stripCR l ++ 10 :: rest')
        = some (.again W (stripCR l ++ 10 :: rest'))) ∨
    (∃ W, W.LineBuffPos = 0 ∧ (isHeaderLine l = true → W.State = WebServerState.Headers) ∧
      serverTurn m_Files now Web (l ++ 10 :: rest) = some (.again W rest) ∧
      serverTurn m_Files now Web (stripCR l ++ 10 :: rest') = some (.again W rest')) := by
  rw [serverTurn_headers _ hs, serverTurn_headers _ hs]
  unfold WS_GetNextLine
  rcases getNextLineLoop_cr l hl rest rest' 0 0 Web with ⟨h1, h2⟩ | ⟨W, h1, h2⟩ |
    ⟨W, h1, h2, h3, h4⟩
  · left; rw [h1, h2]; exact ⟨rfl, rfl⟩
  · right; left; rw [h1, h2]
    exact ⟨tooLongReply W ReplyStatus.RequestHeaderFieldsTooLarge, tooLongReply_state _ _,
      by simp, by simp⟩
  · have f1 := getNextLineLoop_frame _ _ _ _ _ h1
    rw [h1, h2]
    have h0 : ¬ (((0 : Nat) : Int) + (l.length : Int) + 1 = 0) := by omega
    have h1a : ¬ (((0 : Nat) : Int) + (l.length : Int) + 1 < 0) := by omega
    have h0a : ¬ (((0 : Nat) : Int) + ((stripCR l).length : Int) + 1 = 0) := by omega
    have h1b : ¬ (((0 : Nat) : Int) + ((stripCR l).length : Int) + 1 < 0) := by omega
    simp only [h0, h1a, h0a, h1b, ↓reduceIte, drop_line]
    cases hm : headerLine W with
    | none => left; exact ⟨rfl, rfl⟩
    | some W2 =>
      right; right
      refine ⟨W2, by rw [headerLine_pos hm, h3], ?_, rfl, rfl⟩
      intro hh
      unfold isHeaderLine at hh
      simp only [Bool.and_eq_true, Bool.not_eq_eq_eq_not, Bool.not_true] at hh
      obtain ⟨_, hc⟩ := hh
      rw [hp0, List.take_zero] at h4
      have hL := lineBuff_of_take h4
      cases hsc : stripCR l with
      | nil => rw [hsc] at hc; simp at hc
      | cons c t =>
        rw [hsc] at hc hL
        simp only [bne_iff_ne, ne_eq] at hc
        have hrd : rd W.LineBuff 0 = some c := by rw [hL]; simp [rd]
        rcases headerLine_cases hm with ⟨e, _⟩ | ⟨_, _, _, hph⟩
        · rw [hrd] at e
          simp only [Option.some.injEq] at e
          exact absurd e hc
        · rw [(processHeader_frame hph).1, f1.1, hs]

theorem stripCR_append (a b : List Nat) : stripCR (a ++ b) = stripCR a ++ stripCR b := by
  simp [stripCR]

theorem stripCR_line (l rest : List Nat) :
    stripCR (l ++ 10 :: rest) = stripCR l ++ 10 :: stripCR rest := by
  rw [stripCR_append, stripCR_cons_ne rest (by decide)]

/-- The header section without its carriage returns. -/
theorem stripCR_headerBytes (cr : Nat) : ∀ hdrs : List (List Nat),
    stripCR (headerBytes hdrs cr []) = headerBytes (hdrs.map stripCR) 0 [] := by
  intro hdrs
  induction hdrs with
  | nil =>
    simp only [headerBytes, List.map_nil, List.flatten_nil, List.nil_append,
      List.replicate_zero]
    rw [stripCR_line, stripCR_replicate_cr]
    rfl
  | cons h hdrs ih =>
    have e1 : headerBytes (h :: hdrs) cr [] = h ++ 10 :: headerBytes hdrs cr [] := by
      simp [headerBytes]
    have e2 : headerBytes ((h :: hdrs).map stripCR) 0 []
        = stripCR h ++ 10 :: headerBytes (hdrs.map stripCR) 0 [] := by
      simp [headerBytes]
    rw [e1, e2, stripCR_line, ih]

theorem runServerLoop_closed_any (m_Files : List FileInfo) (now f : Nat) {W : WebServer}
    (a b : List Nat) (hs : W.State = WebServerState.Closed) :
    runServerLoop m_Files now f W a = runServerLoop m_Files now f W b := by
  cases f with
  | zero => rfl
  | succ f => rw [runServerLoop_closed _ _ _ _ hs, runServerLoop_closed _ _ _ _ hs]

/-- The header section and the empty line, with and without carriage returns, give the
same result in the Headers phase. -/
theorem headerBytes_cr (m_Files : List FileInfo) (now cr : Nat) :
    ∀ (hdrs : List (List Nat)), (∀ h ∈ hdrs, isHeaderLine h = true) →
      ∀ (f : Nat) (Web : WebServer), Web.State = WebServerState.Headers → Web.LineBuffPos = 0 →
      runServerLoop m_Files now f Web (headerBytes (hdrs.map stripCR) 0 [])
        = runServerLoop m_Files now f Web (headerBytes hdrs cr []) := by
  intro hdrs
  induction hdrs with
  | nil =>
    intro _ f Web hs hp0
    cases f with
    | zero => rfl
    | succ f =>
      have e1 : headerBytes [] cr [] = List.replicate cr 13 ++ 10 :: [] := by
        simp [headerBytes]
      have e2 : headerBytes ([].map stripCR) 0 []
          = stripCR (List.replicate cr 13) ++ 10 :: [] := by
        rw [stripCR_replicate_cr]; simp [headerBytes]
      rw [e1, e2, runServerLoop_succ, runServerLoop_succ]
      rcases headersTurn_cr m_Files now Web hs hp0 (List.replicate cr 13)
          (not_mem_replicate_cr cr) [] [] with ⟨h1, h2⟩ | ⟨W, hc, h1, h2⟩ | ⟨W, _, _, h1, h2⟩
      · rw [h1, h2]
      · rw [h1, h2]
        exact runServerLoop_closed_any _ _ _ _ _ hc
      · rw [h1, h2]
  | cons h hdrs ih =>
    intro hh f Web hs hp0
    cases f with
    | zero => rfl
    | succ f =>
      have e1 : headerBytes (h :: hdrs) cr [] = h ++ 10 :: headerBytes hdrs cr [] := by
        simp [headerBytes]
      have e2 : headerBytes ((h :: hdrs).map stripCR) 0 []
          = stripCR h ++ 10 :: headerBytes (hdrs.map stripCR) 0 [] := by
        simp [headerBytes]
      have hh1 : isHeaderLine h = true := hh h (by simp)
      have hl : 10 ∉ h := by
        unfold isHeaderLine at hh1
        simp only [Bool.and_eq_true, Bool.not_eq_eq_eq_not, Bool.not_true] at hh1
        simpa using hh1.1
      rw [e1, e2, runServerLoop_succ, runServerLoop_succ]
      rcases headersTurn_cr m_Files now Web hs hp0 h hl (headerBytes hdrs cr [])
          (headerBytes (hdrs.map stripCR) 0 []) with
        ⟨h1, h2⟩ | ⟨W, hc, h1, h2⟩ | ⟨W, hp, hst, h1, h2⟩
      · rw [h1, h2]
      · rw [h1, h2]
        exact runServerLoop_closed_any _ _ _ _ _ hc
      · rw [h1, h2]
        exact ih (fun x hx => hh x (by simp [hx])) f W (hst hh1) hp

/-- A request without a body, with and without carriage returns, gives the same result
of `WS_RunServer`. -/
theorem runServer_cr (m_Files : List FileInfo) (now cr : Nat) (Web : WebServer)
    (line : List Nat) (hdrs : List (List Nat)) (hs : Web.State = WebServerState.Request)
    (hline : 10 ∉ line) (hh : ∀ h ∈ hdrs, isHeaderLine h = true) :
    runServer m_Files now Web (stripCR (requestBytes line hdrs cr []))
      = runServer m_Files now Web (requestBytes line hdrs cr []) := by
  have hlen : (stripCR (requestBytes line hdrs cr [])).length
      ≤ (requestBytes line hdrs cr []).length := by
    unfold stripCR
    exact List.length_filter_le _ _
  rw [← runServerLoop_eq_runServer m_Files now ((requestBytes line hdrs cr []).length + 3) Web
      (stripCR (requestBytes line hdrs cr []))
      (by have := phaseRank_le Web.State; omega)]
  unfold runServer
  generalize (requestBytes line hdrs cr []).length + 3 = f
  unfold requestBytes
  rw [stripCR_line, stripCR_headerBytes]
  cases f with
  | zero => rfl
  | succ f =>
    rw [runServerLoop_succ, runServerLoop_succ]
    rcases requestTurn_cr m_Files now Web hs line hline (headerBytes hdrs cr [])
        (headerBytes (hdrs.map stripCR) 0 []) with ⟨h1, h2⟩ | ⟨r, h1, h2⟩ | ⟨W, hst, hp, h1, h2⟩
    · rw [h1, h2]
    · rw [h1, h2]
    · rw [h1, h2]
      exact headerBytes_cr m_Files now cr hdrs hh f W hst hp

/-! ## Line ends of what the server writes -/

theorem crlfFrom_mono (p : Nat) (b : List Nat) (h : crlfFrom 0 b = true) :
    crlfFrom p b = true := by
  cases b with
  | nil => rfl
  | cons c r =>
    simp only [crlfFrom, Bool.and_eq_true, Bool.or_eq_true, bne_iff_ne, ne_eq, beq_iff_eq] at h ⊢
    refine ⟨Or.inl ?_, h.2⟩
    rcases h.1 with h1 | h1
    · exact h1
    · omega

theorem crlfFrom_append (a b : List Nat) (hb : crlfFrom 0 b = true) :
    ∀ p, crlfFrom p a = true → crlfFrom p (a ++ b) = true := by
  induction a with
  | nil => intro p _; exact crlfFrom_mono p b hb
  | cons c r ih =>
    intro p h
    simp only [List.cons_append, crlfFrom, Bool.and_eq_true] at h ⊢
    exact ⟨h.1, ih c h.2⟩

theorem crlfLines_append {a b : List Nat} (ha : crlfLines a = true) (hb : crlfLines b = true) :
    crlfLines (a ++ b) = true :=
  crlfFrom_append a b hb 0 ha

theorem crlfFrom_noLF (s : List Nat) (h : 10 ∉ s) : ∀ p, crlfFrom p s = true := by
  induction s with
  | nil => intro p; rfl
  | cons c r ih =>
    intro p
    simp only [crlfFrom, Bool.and_eq_true, Bool.or_eq_true, bne_iff_ne, ne_eq, beq_iff_eq]
    exact ⟨Or.inl (fun e => h (by simp [e])), ih (fun e => h (List.mem_cons_of_mem _ e)) c⟩

theorem crlfLines_noLF {s : List Nat} (h : 10 ∉ s) : crlfLines s = true :=
  crlfFrom_noLF s h 0

theorem digitsAux_noLF (base : Nat) : ∀ (fuel n : Nat) (acc : List Nat), 10 ∉ acc →
    10 ∉ digitsAux base fuel n acc := by
  intro fuel
  induction fuel with
  | zero => intro n acc h; exact h
  | succ fuel ih =>
    intro n acc h
    unfold digitsAux
    have hc : (10 : Nat) ≠ (if n % base < 10 then 48 + n % base else 55 + n % base) := by
      split <;> omega
    have hacc : 10 ∉ (if n % base < 10 then 48 + n % base else 55 + n % base) :: acc := by
      intro e
      simp only [List.mem_cons] at e
      rcases e with e | e
      · exact hc e
      · exact h e
    simp only []
    split
    · exact hacc
    · exact ih _ _ hacc

theorem fmtDec_noLF (n : Nat) : 10 ∉ fmtDec n := digitsAux_noLF 10 _ _ [] (by simp)

theorem fmtInt_noLF (v : Int) : 10 ∉ fmtInt v := by
  unfold fmtInt
  split
  · intro e
    simp only [List.mem_cons] at e
    rcases e with e | e
    · omega
    · exact fmtDec_noLF _ e
  · exact fmtDec_noLF _

theorem fmtHex_noLF (v : Int) : 10 ∉ fmtHex v := digitsAux_noLF 16 _ _ [] (by simp)

theorem statusMsg_noLF (st : ReplyStatus) : 10 ∉ statusMsg st := by
  cases st <;> decide

theorem sendsLines_refl (W : WebServer) : SendsLines W W := ⟨[], by simp, rfl⟩

theorem sendsLines_trans {A C D : WebServer} (h1 : SendsLines A C) (h2 : SendsLines C D) :
    SendsLines A D := by
  obtain ⟨t1, e1, c1⟩ := h1
  obtain ⟨t2, e2, c2⟩ := h2
  exact ⟨t1 ++ t2, by rw [e2, e1, List.append_assoc], crlfLines_append c1 c2⟩

theorem sendsLines_con {A C D : WebServer} (h : SendsLines A C) (hc : D.Con = C.Con) :
    SendsLines A D := by
  obtain ⟨t, e, c⟩ := h
  exact ⟨t, by rw [hc, e], c⟩

theorem sendsLines_of_con {A D : WebServer} (hc : D.Con = A.Con) : SendsLines A D :=
  sendsLines_con (sendsLines_refl A) hc

theorem sendsLines_from {A A' D : WebServer} (h : SendsLines A' D) (hc : A'.Con = A.Con) :
    SendsLines A D := by
  obtain ⟨t, e, c⟩ := h
  exact ⟨t, by rw [e, hc], c⟩

theorem conWrite_lines (W : WebServer) (s : List Nat) (hs : crlfLines s = true) :
    SendsLines W (conWrite W s) := by
  unfold conWrite
  split
  · exact sendsLines_refl W
  · exact ⟨s, rfl, hs⟩

theorem sendsLines_write {A W : WebServer} (h : SendsLines A W) (s : List Nat)
    (hs : crlfLines s = true) : SendsLines A (conWrite W s) :=
  sendsLines_trans h (conWrite_lines W s hs)

theorem crlf_lineEnd : crlfLines (B "\r\n") = true := by decide

theorem crlfLines_line {s : List Nat} (h : 10 ∉ s) : crlfLines (s ++ B "\r\n") = true :=
  crlfLines_append (crlfLines_noLF h) crlf_lineEnd

/-- What `WS_StartReply` writes. -/
theorem startReply_lines (Web : WebServer) : SendsLines Web (WS_StartReply Web) := by
  have h1 : SendsLines Web
      (conWrite (conWrite (conWrite (conWrite Web (B "HTTP/1.1 ")) (statusMsg Web.ReplyStatus))
        (B "\r\n")) (B "Server: BittyHTTP\r\n")) :=
    sendsLines_write (sendsLines_write (sendsLines_write (conWrite_lines _ _ (by decide)) _
      (crlfLines_noLF (statusMsg_noLF _))) _ (by decide)) _ (by decide)
  unfold WS_StartReply
  dsimp only
  refine sendsLines_con (C := if _ then _ else _) ?_ rfl
  split
  · refine sendsLines_write (sendsLines_write (sendsLines_write h1 _ ?_) _ (by decide)) _
      (crlfLines_noLF (statusMsg_noLF _))
    rw [List.append_assoc]
    exact crlfLines_append (by decide) (crlfLines_line (fmtDec_noLF _))
  · split
    · exact sendsLines_write h1 _ (by decide)
    · exact h1

/-- What `WS_EndReply` writes. -/
theorem endReply_lines (Web : WebServer) : SendsLines Web (WS_EndReply Web) := by
  unfold WS_EndReply
  split
  · exact sendsLines_write (conWrite_lines _ _ (by decide)) _ (by decide)
  · exact sendsLines_refl Web

theorem conWriteN_lines {Web W : WebServer} {buf : List Nat} {num : Int}
    (h : conWriteN Web buf num = some W) (hb : 10 ∉ buf.take num.toNat) : SendsLines Web W := by
  unfold conWriteN SocketsCon_Write at h
  simp only [Option.map_eq_some'] at h
  obtain ⟨r, hr, rfl⟩ := h
  split at hr
  · simp only [Option.some.injEq] at hr; subst hr; exact sendsLines_refl Web
  · split at hr
    · simp only [Option.some.injEq] at hr; subst hr; exact sendsLines_refl Web
    · split at hr
      · exact absurd hr (by simp)
      · simp only [Option.some.injEq] at hr; subst hr
        exact ⟨_, rfl, crlfLines_noLF hb⟩

theorem startIfNot_lines (Web : WebServer) :
    SendsLines Web (if Web.ReplyStarted = false then WS_StartReply Web else Web) := by
  split
  · exact startReply_lines Web
  · exact sendsLines_refl Web

theorem setStatus_lines (Web : WebServer) (c : ReplyStatus) :
    SendsLines Web (WS_SetHTTPStatusCode Web c).1 := by
  unfold WS_SetHTTPStatusCode
  split
  · exact sendsLines_refl Web
  · split
    · exact sendsLines_refl Web
    · split
      · exact sendsLines_refl Web
      · exact sendsLines_from (startReply_lines _) rfl

theorem header_lines (Web : WebServer) (h : List Nat) (hh : 10 ∉ cstr h) :
    SendsLines Web (WS_Header Web h).1 := by
  unfold WS_Header
  split
  · exact sendsLines_refl Web
  · split
    · exact sendsLines_refl Web
    · exact sendsLines_write (sendsLines_write (startIfNot_lines Web) _ (crlfLines_noLF hh)) _
        (by decide)

theorem location_lines (Web : WebServer) (u : List Nat) (hu : 10 ∉ cstr u) :
    SendsLines Web (WS_Location Web u).1 := by
  unfold WS_Location
  split
  · exact sendsLines_refl Web
  · have hs := setStatus_lines Web ReplyStatus.MovedPerm
    split
    · rename_i W hW
      rw [hW] at hs
      exact hs
    · rename_i W hW
      rw [hW] at hs
      exact sendsLines_write (sendsLines_write (sendsLines_write hs _ (by decide)) _
        (crlfLines_noLF hu)) _ (by decide)

theorem not_mem_append {a b : List Nat} (ha : 10 ∉ a) (hb : 10 ∉ b) : 10 ∉ a ++ b := by
  intro e
  rcases List.mem_append.mp e with e | e
  · exact ha e
  · exact hb e

theorem setCookieLine_lines (n v : List Nat) (p d : Option (List Nat)) (s ho : Bool)
    (h : 10 ∉ cstr n ++ cstr v ++ ((p.map cstr).getD [] ++ (d.map cstr).getD [])) :
    crlfLines (setCookieLine n v p d s ho) = true := by
  have hn : 10 ∉ cstr n := fun e => h (by simp [e])
  have hv : 10 ∉ cstr v := fun e => h (by simp [e])
  have hp : 10 ∉ (match p with
      | some P => if cstr P ≠ [] then B "; Path=" ++ cstr P else []
      | none => []) := by
    cases p with
    | none => simp
    | some P =>
      have hP : 10 ∉ cstr P := fun e => h (by simp [e])
      simp only []
      split
      · exact not_mem_append (by decide) hP
      · simp
  have hd : 10 ∉ (match d with
      | some D => if cstr D ≠ [] then (B "; Domain=").take 7 ++ cstr D else []
      | none => []) := by
    cases d with
    | none => simp
    | some D =>
      have hD : 10 ∉ cstr D := fun e => h (by simp [e])
      simp only []
      split
      · exact not_mem_append (by decide) hD
      · simp
  have hs : 10 ∉ (if s then B "; Secure" else []) := by cases s <;> decide
  have hh : 10 ∉ (if ho then B "; HttpOnly" else []) := by cases ho <;> decide
  unfold setCookieLine
  exact crlfLines_line (not_mem_append (not_mem_append (not_mem_append (not_mem_append
    (not_mem_append (not_mem_append (not_mem_append (show 10 ∉ B "Set-Cookie: " by decide) hn)
      (show 10 ∉ B "=" by decide)) hv) hp) hd) hs) hh)

theorem setCookie_lines {Web W : WebServer} {n v : List Nat} {e : Int}
    {p d : Option (List Nat)} {s ho : Bool} {b : Bool}
    (h : WS_SetCookie Web n v e p d s ho = some (W, b))
    (hb : 10 ∉ cstr n ++ cstr v ++ ((p.map cstr).getD [] ++ (d.map cstr).getD [])) :
    SendsLines Web W := by
  by_cases h1 : cstr n = []
  · simp only [WS_SetCookie, h1, ↓reduceIte, Option.some.injEq, Prod.mk.injEq] at h
    rw [← h.1]; exact sendsLines_refl Web
  by_cases h2 : (cstr n).any badCookieChar = true
  · simp only [WS_SetCookie, h1, h2, ↓reduceIte, Option.some.injEq, Prod.mk.injEq] at h
    rw [← h.1]; exact sendsLines_refl Web
  by_cases h3 : (cstr v).any badCookieChar = true
  · rw [Bool.not_eq_true] at h2
    simp only [WS_SetCookie, h1, h2, h3, ↓reduceIte, Option.some.injEq, Prod.mk.injEq,
      Bool.false_eq_true] at h
    rw [← h.1]; exact sendsLines_refl Web
  by_cases h4 : Web.WriteStarted = true
  · rw [Bool.not_eq_true] at h2 h3
    simp only [WS_SetCookie, h1, h2, h3, h4, ↓reduceIte, Option.some.injEq, Prod.mk.injEq,
      Bool.false_eq_true] at h
    rw [← h.1]; exact sendsLines_refl Web
  rw [Bool.not_eq_true] at h2 h3 h4
  by_cases he : e = 0
  · subst he
    rw [setCookie_accepted Web n v p d s ho h1 h2 h3 h4] at h
    simp only [Option.some.injEq, Prod.mk.injEq] at h
    rw [← h.1]
    exact sendsLines_write (startIfNot_lines Web) _ (setCookieLine_lines n v p d s ho hb)
  · simp only [WS_SetCookie, h1, h2, h3, h4, he, ↓reduceIte, ne_eq, not_false_eq_true,
      Bool.false_eq_true] at h
    exact absurd h (by simp)

theorem writeWhole_lines {Web W : WebServer} {b : List Nat} {l : Int}
    (h : WS_WriteWhole Web b l = some W) (hb : 10 ∉ b.take l.toNat) : SendsLines Web W := by
  unfold WS_WriteWhole at h
  split at h
  · simp only [Option.some.injEq] at h; subst h; exact sendsLines_of_con rfl
  · dsimp only at h
    refine sendsLines_trans ?_ (conWriteN_lines h hb)
    refine sendsLines_write (sendsLines_write ?_ _ ?_) _ (by decide)
    · split
      · exact sendsLines_from (startReply_lines _) rfl
      · exact sendsLines_of_con rfl
    · rw [List.append_assoc]
      exact crlfLines_append (by decide) (crlfLines_line (fmtInt_noLF _))

theorem writeChunk_lines {Web W : WebServer} {b : List Nat} {l : Int}
    (h : WS_WriteChunk Web b l = some W) (hb : 10 ∉ b.take l.toNat) : SendsLines Web W := by
  unfold WS_WriteChunk at h
  split at h
  · simp only [Option.some.injEq] at h; subst h; exact sendsLines_refl Web
  · dsimp only at h
    have hX0 : SendsLines Web (if Web.WriteStarted = false then
        conWrite (conWrite (WS_StartReply Web) (B "Transfer-Encoding: chunked\r\n")) (B "\r\n")
        else Web) := by
      split
      · exact sendsLines_write (sendsLines_write (startReply_lines Web) _ (by decide)) _
          (by decide)
      · exact sendsLines_refl Web
    generalize (if Web.WriteStarted = false then
        conWrite (conWrite (WS_StartReply Web) (B "Transfer-Encoding: chunked\r\n")) (B "\r\n")
        else Web) = X0 at h hX0
    have hX1 : SendsLines Web { X0 with WriteChunked := true, WriteStarted := true } :=
      sendsLines_con hX0 rfl
    split at h
    · exact absurd h (by simp)
    · rename_i X hX
      simp only [Option.some.injEq] at h
      subst h
      exact sendsLines_write (sendsLines_trans
        (sendsLines_write hX1 _ (crlfLines_line (fmtHex_noLF _)))
        (conWriteN_lines hX hb)) _ (by decide)

/-- Every call of a response primitive adds bytes in which every line feed follows a
carriage return, when the caller's own bytes have no line feed. -/
theorem runAction_lines {Web W : WebServer} {a : Action} (h : runAction Web a = some W)
    (hb : 10 ∉ callerBytes a) : SendsLines Web W := by
  cases a with
  | SetHTTPStatusCode c =>
    simp only [runAction, Option.some.injEq] at h; subst h; exact setStatus_lines Web c
  | Header hd =>
    simp only [runAction, Option.some.injEq] at h; subst h; exact header_lines Web hd hb
  | Location u =>
    simp only [runAction, Option.some.injEq] at h; subst h; exact location_lines Web u hb
  | SetCookie n v e p d s ho =>
    simp only [runAction, Option.map_eq_some'] at h
    obtain ⟨r, hr, rfl⟩ := h
    exact setCookie_lines (b := r.2) hr hb
  | WriteWhole b l => exact writeWhole_lines h hb
  | WriteChunk b l => exact writeChunk_lines h hb

theorem runActions_lines : ∀ (as : List Action) (Web W : WebServer),
    runActions Web as = some W → (∀ a ∈ as, 10 ∉ callerBytes a) → SendsLines Web W := by
  intro as
  induction as with
  | nil =>
    intro Web W h _
    simp only [runActions, Option.some.injEq] at h; subst h; exact sendsLines_refl Web
  | cons a rest ih =>
    intro Web W h hb
    rw [runActions] at h
    cases ha : runAction Web a with
    | none => rw [ha] at h; exact absurd h (by simp)
    | some W1 =>
      rw [ha] at h
      exact sendsLines_trans (runAction_lines ha (hb a (by simp)))
        (ih W1 W h (fun x hx => hb x (by simp [hx])))

/-! ## Line ends of a whole run -/

theorem sendsLines_sent {A C D : WebServer} (h : SendsLines A C)
    (hc : D.Con.Sent = C.Con.Sent) : SendsLines A D := by
  obtain ⟨t, e, c⟩ := h
  exact ⟨t, by rw [hc, e], c⟩

theorem tooLongReply_lines (Web : WebServer) (st : ReplyStatus) :
    SendsLines Web (tooLongReply Web st) := by
  unfold tooLongReply
  dsimp only
  exact sendsLines_sent
    (sendsLines_trans (sendsLines_from (startReply_lines { Web with ReplyStatus := st }) rfl)
      (endReply_lines _)) rfl

theorem sendResponse_lines {m_Files : List FileInfo} {Web W : WebServer}
    (h : WS_SendResponse m_Files Web = some W)
    (hb : ∀ f ∈ m_Files, ∀ v, ∀ a ∈ f.WriteFile v, 10 ∉ callerBytes a) : SendsLines Web W := by
  unfold WS_SendResponse at h
  split at h
  · simp only [Option.map_eq_some'] at h
    obtain ⟨X, hX, rfl⟩ := h
    unfold FS_SendFile at hX
    split at hX
    · exact absurd hX (by simp)
    · rename_i File hF
      have hm : File ∈ m_Files := List.getElem?_mem hF
      exact sendsLines_trans
        (sendsLines_from (runActions_lines _ _ _ hX (hb File hm _)) rfl) (endReply_lines _)
  · simp only [Option.some.injEq] at h
    subst h
    exact sendsLines_trans (startReply_lines Web) (endReply_lines _)

/-- One turn of the loop of `WS_RunServer` adds bytes in which every line feed follows
a carriage return. -/
theorem serverTurn_lines {m_Files : List FileInfo} {now : Nat} {Web : WebServer}
    {bs : List Nat} (hb : ∀ f ∈ m_Files, ∀ v, ∀ a ∈ f.WriteFile v, 10 ∉ callerBytes a) :
    ∀ t, serverTurn m_Files now Web bs = some t →
      match t with
      | .done r => SendsLines Web r.1
      | .again W _ => SendsLines Web W := by
  intro t h
  cases hs : Web.State with
  | Closed =>
    rw [serverTurn_closed _ hs] at h
    simp only [Option.some.injEq] at h
    subst h
    exact sendsLines_sent (sendsLines_refl Web) rfl
  | Request =>
    rw [serverTurn_request _ hs] at h
    cases hg : WS_GetNextLine Web bs with
    | none => rw [hg] at h; exact absurd h (by simp)
    | some p =>
      obtain ⟨W1, n⟩ := p
      rw [hg] at h
      simp only [] at h
      have k1 := (getNextLineLoop_kept _ _ _ _ _ hg).2.2.2.2.2.1
      split at h
      · simp only [Option.some.injEq] at h; subst h
        exact sendsLines_of_con k1
      · split at h
        · simp only [Option.some.injEq] at h; subst h
          exact sendsLines_from (tooLongReply_lines W1 _) k1
        · simp only [Option.map_eq_some'] at h
          obtain ⟨W2, hm, rfl⟩ := h
          have k2 := (methodLine_kept hm).2.2.2.2.1
          exact sendsLines_of_con (D := { W2 with State := nextState W2.State }) (k2.trans k1)
  | Headers =>
    rw [serverTurn_headers _ hs] at h
    cases hg : WS_GetNextLine Web bs with
    | none => rw [hg] at h; exact absurd h (by simp)
    | some p =>
      obtain ⟨W1, n⟩ := p
      rw [hg] at h
      simp only [] at h
      have k1 := (getNextLineLoop_kept _ _ _ _ _ hg).2.2.2.2.2.1
      split at h
      · simp only [Option.some.injEq] at h; subst h
        exact sendsLines_of_con k1
      · split at h
        · simp only [Option.some.injEq] at h; subst h
          exact sendsLines_from (tooLongReply_lines W1 _) k1
        · simp only [Option.map_eq_some'] at h
          obtain ⟨W2, hm, rfl⟩ := h
          have k2 := (headerLine_kept hm).2.2.2.2.2.1
          exact sendsLines_of_con (k2.trans k1)
  | Body =>
    rw [serverTurn_body _ hs] at h
    cases hg : bodyBytes Web bs with
    | none => rw [hg] at h; exact absurd h (by simp)
    | some p =>
      obtain ⟨W1, rest⟩ := p
      rw [hg] at h
      simp only [] at h
      have k1 := (bodyBytes_kept hg).2.2.2.2.2.1
      split at h
      · simp only [Option.some.injEq] at h; subst h
        exact sendsLines_of_con (D := { W1 with State := nextState W1.State }) k1
      · simp only [Option.some.injEq] at h; subst h
        exact sendsLines_of_con k1
  | Response =>
    rw [serverTurn_response _ hs] at h
    simp only [Option.map_eq_some'] at h
    obtain ⟨w, hw, rfl⟩ := h
    exact sendsLines_con (sendResponse_lines hw hb) rfl
  | MAX =>
    rw [serverTurn_max _ hs] at h
    simp only [Option.some.injEq] at h
    subst h
    exact sendsLines_refl Web

/-- A call of `WS_RunServer` adds bytes in which every line feed follows a carriage
return, when the bytes that the functions of the files pass to the response primitives
have no line feed. -/
theorem runServerLoop_lines (m_Files : List FileInfo) (now : Nat)
    (hb : ∀ f ∈ m_Files, ∀ v, ∀ a ∈ f.WriteFile v, 10 ∉ callerBytes a) :
    ∀ (f : Nat) (Web : WebServer) (bs : List Nat) (r : WebServer × RunExit),
      runServerLoop m_Files now f Web bs = some r → SendsLines Web r.1 := by
  intro f
  induction f with
  | zero => intro Web bs r h; exact absurd h (by simp [runServerLoop])
  | succ f ih =>
    intro Web bs r h
    rw [runServerLoop_succ] at h
    cases ht : serverTurn m_Files now Web bs with
    | none => rw [ht] at h; exact absurd h (by simp)
    | some t =>
      rw [ht] at h
      have hl := serverTurn_lines hb t ht
      cases t with
      | done r1 =>
        simp only [Option.some.injEq] at h
        subst h
        exact hl
      | again W rest =>
        simp only [] at h hl
        exact sendsLines_trans hl (ih W rest r h)

/-! ## Carriage returns are ignored -/

/-- C38: `WS_GetNextLine` ignores every carriage return. A line with its line feed and
the same line without its carriage returns leave the same session (the same assembled
line). For every request without a body (a request line and header lines without a line
feed, each header line with a first stored byte that is not NUL, the empty line of any
number of carriage returns and a line feed) and every session in the Request phase,
every table of files and so every function of a file: deleting all carriage returns
from the bytes gives the bytes of the request whose lines end in a bare line feed, and
`WS_RunServer` on them gives the same result, that is the same final session with the
same bytes sent and the same `return`. And in what a call of `WS_RunServer` sends,
every line feed follows a carriage return, for every session and all bytes, when the
bytes that the functions of the files pass to the response primitives have no line
feed of their own. -/
theorem C38_cr_bytes_are_ignored (m_Files : List FileInfo) (now cr : Nat) (Web : WebServer)
    (line : List Nat) (hdrs : List (List Nat)) (hs : Web.State = WebServerState.Request)
    (hline : 10 ∉ line) (hh : ∀ h ∈ hdrs, isHeaderLine h = true) :
    (∀ (W : WebServer) (l rest rest' : List Nat), 10 ∉ l →
      (WS_GetNextLine W (stripCR l ++ 10 :: rest')).map (fun p => p.1)
        = (WS_GetNextLine W (l ++ 10 :: rest)).map (fun p => p.1)) ∧
    stripCR (requestBytes line hdrs cr [])
      = requestBytes (stripCR line) (hdrs.map stripCR) 0 [] ∧
    runServer m_Files now Web (stripCR (requestBytes line hdrs cr []))
      = runServer m_Files now Web (requestBytes line hdrs cr []) ∧
    ((∀ f ∈ m_Files, ∀ v, ∀ a ∈ f.WriteFile v, 10 ∉ callerBytes a) →
      ∀ (X : WebServer) (bs : List Nat) (W : WebServer) (e : RunExit),
        runServer m_Files now X bs = some (W, e) →
        ∃ t, W.Con.Sent = X.Con.Sent ++ t ∧ crlfLines t = true) := by
  refine ⟨?_, ?_, runServer_cr m_Files now cr Web line hdrs hs hline hh, ?_⟩
  · intro W l rest rest' hl
    unfold WS_GetNextLine
    rcases getNextLineLoop_cr l hl rest rest' 0 0 W with ⟨h1, h2⟩ | ⟨X, h1, h2⟩ |
      ⟨X, h1, h2, _, _⟩
    · rw [h1, h2]
    · rw [h1, h2]
    · rw [h1, h2]; rfl
  · unfold requestBytes
    rw [stripCR_line, stripCR_headerBytes]
  · intro hb X bs W e h
    exact runServerLoop_lines m_Files now hb _ X bs (W, e) h

set_option maxRecDepth 1000000 in
theorem C38_cr_bytes_witness :
    requestBytes (B "GET / HTTP/1.1\r") [B "Host: milkv\r"] 1 []
      = B "GET / HTTP/1.1\r\nHost: milkv\r\n\r\n" ∧
    stripCR (requestBytes (B "GET / HTTP/1.1\r") [B "Host: milkv\r"] 1 [])
      = B "GET / HTTP/1.1\nHost: milkv\n\n" ∧
    sentBytes (WS_RunServer (fileServerTable (B "hello\n")) 0 freshWeb
        (B "GET / HTTP/1.1\nHost: milkv\n\n")) = some (wholeReply (B "hello")) ∧
    runServer (fileServerTable (B "hello\n")) 0 freshWeb
        (stripCR (requestBytes (B "GET / HTTP/1.1\r") [B "Host: milkv\r"] 1 []))
      = runServer (fileServerTable (B "hello\n")) 0 freshWeb
        (requestBytes (B "GET / HTTP/1.1\r") [B "Host: milkv\r"] 1 []) ∧
    ∃ t, wholeReply (B "hello") = [] ++ t ∧ crlfLines t = true := by
  have h := C38_cr_bytes_are_ignored (fileServerTable (B "hello\n")) 0 1 freshWeb
    (B "GET / HTTP/1.1\r") [B "Host: milkv\r"] rfl (by decide) (by decide)
  have hrun : runServer (fileServerTable (B "hello\n")) 0 freshWeb
      (B "GET / HTTP/1.1\nHost: milkv\n\n") =
      some (((runServer (fileServerTable (B "hello\n")) 0 freshWeb
        (B "GET / HTTP/1.1\nHost: milkv\n\n")).getD (freshWeb, RunExit.closed)).1,
        RunExit.responded) := by decide!
  have hsent : sentBytes (WS_RunServer (fileServerTable (B "hello\n")) 0 freshWeb
        (B "GET / HTTP/1.1\nHost: milkv\n\n")) = some (wholeReply (B "hello")) := by decide!
  have htab : ∀ f ∈ fileServerTable (B "hello\n"), ∀ v, ∀ a ∈ f.WriteFile v,
      10 ∉ callerBytes a := by
    intro f hf v a ha
    simp only [fileServerTable, List.mem_singleton] at hf
    subst hf
    simp only [List.mem_singleton] at ha
    subst ha
    decide
  obtain ⟨t, e, c⟩ := h.2.2.2 htab freshWeb _ _ _ hrun
  have hw : ((runServer (fileServerTable (B "hello\n")) 0 freshWeb
        (B "GET / HTTP/1.1\nHost: milkv\n\n")).getD (freshWeb, RunExit.closed)).1.Con.Sent
      = wholeReply (B "hello") := by decide!
  exact ⟨by decide, by decide, hsent, h.2.2.1, t, hw.symm.trans e, c⟩

/-! ## `SocketsCon_Read` -/

/-- C32: `SocketsCon_Read` on a connected connection whose flag `ReadInProgress` is not
set (the flag is cleared when a connection is set up and nothing sets it) asks the
operating system: when `select` reports nothing ready (it returns 0, or the descriptor
is not in the set) the function returns 0 without reading and the connection is what it
was. When the descriptor is reported ready, or `ReadInProgress` is set, `read` is
called: a positive value of `read` is returned as it is and the connection stays
connected; the value 0 (the peer has closed) gives the negative value -55 and the
state Idle. In the state Error the function returns the negative value -100 without
reading, and in every other state that is not Connected it returns 0 without reading;
in both cases the connection is what it was. -/
theorem C32_read_results (Con : SocketCon) (os : ReadAnswers) (buf : List Nat) :
    (Con.State = ConnectState.Connected → Con.ReadInProgress = false →
      (os.selectRet = 0 ∨ os.fdIsSet = false) →
      (SocketsCon_Read Con os buf).retVal = 0 ∧ (SocketsCon_Read Con os buf).Con = Con ∧
      (SocketsCon_Read Con os buf).buf = buf ∧
      (SocketsCon_Read Con os buf).readCalled = false) ∧
    (Con.State = ConnectState.Connected →
      (Con.ReadInProgress = true ∨ (os.selectRet ≠ 0 ∧ os.fdIsSet = true)) →
      (SocketsCon_Read Con os buf).readCalled = true ∧
      (0 < os.readRet → (SocketsCon_Read Con os buf).retVal = os.readRet ∧
        (SocketsCon_Read Con os buf).Con.State = ConnectState.Connected) ∧
      (os.readRet = 0 → (SocketsCon_Read Con os buf).retVal = -55 ∧
        (SocketsCon_Read Con os buf).retVal < 0 ∧
        (SocketsCon_Read Con os buf).Con.State = ConnectState.Idle)) ∧
    (Con.State = ConnectState.Error →
      (SocketsCon_Read Con os buf).retVal = -100 ∧ (SocketsCon_Read Con os buf).retVal < 0 ∧
      (SocketsCon_Read Con os buf).readCalled = false ∧
      (SocketsCon_Read Con os buf).Con = Con) ∧
    (Con.State ≠ ConnectState.Connected → Con.State ≠ ConnectState.Error →
      (SocketsCon_Read Con os buf).retVal = 0 ∧
      (SocketsCon_Read Con os buf).readCalled = false ∧
      (SocketsCon_Read Con os buf).Con = Con) := by
  refine ⟨?_, ?_, ?_, ?_⟩
  · intro hc hr hos
    unfold SocketsCon_Read
    simp only [hc, hr, reduceCtorEq, ↓reduceIte, ne_eq, not_true_eq_false, Bool.false_eq_true,
      false_or]
    rcases hos with h | h
    · simp only [h, not_true_eq_false, ↓reduceIte, and_self]
    · simp only [h, Bool.false_eq_true, ↓reduceIte]
      split <;> exact ⟨rfl, rfl, rfl, rfl⟩
  · intro hc hos
    have h1 : Con.ReadInProgress = true ∨ os.selectRet ≠ 0 := by
      rcases hos with h | h
      · exact Or.inl h
      · exact Or.inr h.1
    have h2 : Con.ReadInProgress = true ∨ os.fdIsSet = true := by
      rcases hos with h | h
      · exact Or.inl h
      · exact Or.inr h.2
    unfold SocketsCon_Read
    simp only [hc, reduceCtorEq, h1, h2, ↓reduceIte, ne_eq, not_true_eq_false]
    refine ⟨?_, ?_, ?_⟩
    · split <;> rfl
    · intro hp
      have : ¬ os.readRet = 0 := by omega
      simp [this, hc]
    · intro hz
      simp [hz]
  · intro he
    unfold SocketsCon_Read
    simp [he]
  · intro hc he
    unfold SocketsCon_Read
    simp [he, hc]

theorem C32_read_witness :
    acceptedWeb.Con.State = ConnectState.Connected ∧
    acceptedWeb.Con.ReadInProgress = false ∧
    (SocketsCon_Read acceptedWeb.Con
      { selectRet := 0, fdIsSet := false, readRet := 0, readErrno := 0, readBytes := [] }
      (List.replicate 100 0)).retVal = 0 ∧
    (SocketsCon_Read acceptedWeb.Con
      { selectRet := 1, fdIsSet := true, readRet := 3, readErrno := 0, readBytes := B "GET" }
      (List.replicate 100 0)).retVal = 3 ∧
    (SocketsCon_Read acceptedWeb.Con
      { selectRet := 1, fdIsSet := true, readRet := 0, readErrno := 0, readBytes := [] }
      (List.replicate 100 0)).Con.State = ConnectState.Idle ∧
    (SocketsCon_Read { acceptedWeb.Con with State := ConnectState.Error }
      { selectRet := 1, fdIsSet := true, readRet := 3, readErrno := 0, readBytes := B "GET" }
      (List.replicate 100 0)).retVal = -100 ∧
    (SocketsCon_Read { acceptedWeb.Con with State := ConnectState.Idle }
      { selectRet := 1, fdIsSet := true, readRet := 3, readErrno := 0, readBytes := B "GET" }
      (List.replicate 100 0)).retVal = 0 :=
  ⟨by decide, by decide,
    ((C32_read_results acceptedWeb.Con _ _).1 (by decide) (by decide) (Or.inl rfl)).1,
    (((C32_read_results acceptedWeb.Con _ _).2.1 (by decide)
      (Or.inr ⟨by decide, rfl⟩)).2.1 (by decide)).1,
    (((C32_read_results acceptedWeb.Con _ _).2.1 (by decide)
      (Or.inr ⟨by decide, rfl⟩)).2.2 rfl).2.2,
    ((C32_read_results { acceptedWeb.Con with State := ConnectState.Error } _ _).2.2.1 rfl).1,
    ((C32_read_results { acceptedWeb.Con with State := ConnectState.Idle } _ _).2.2.2
      (by decide) (by decide)).1⟩

/-! ## The loop of `WS_RunServer`: an example -/

set_option maxRecDepth 1000000 in
theorem C37_run_server_witness :
    freshWeb.State ≠ WebServerState.MAX ∧
    (runServer (fileServerTable (B "hello\n")) 0 freshWeb (B "GET / HTTP/1.1\r\n\r\n")).map
      (fun r => (r.1.State, r.2)) = some (WebServerState.Request, RunExit.responded) ∧
    (∀ W rest, loopAfter (fileServerTable (B "hello\n")) 0
      ((B "GET / HTTP/1.1\r\n\r\n").length + 3) freshWeb (B "GET / HTTP/1.1\r\n\r\n")
        ≠ LoopState.running W rest) ∧
    (runServer (fileServerTable (B "hello\n")) 0 freshWeb (B "GET / HTTP/1.1\r\n\r\n") =
      match loopAfter (fileServerTable (B "hello\n")) 0
        ((B "GET / HTTP/1.1\r\n\r\n").length + 3) freshWeb (B "GET / HTTP/1.1\r\n\r\n") with
      | LoopState.returned r => some r
      | _ => none) :=
  ⟨by decide, by decide!,
    (C37_run_server_terminates (fileServerTable (B "hello\n")) 0 freshWeb
      (B "GET / HTTP/1.1\r\n\r\n") (by decide)).1,
    (C37_run_server_terminates (fileServerTable (B "hello\n")) 0 freshWeb
      (B "GET / HTTP/1.1\r\n\r\n") (by decide)).2.1⟩

/-! ## POST values: what the code does -/




set_option maxRecDepth 1000000 in
/-- C39, what the code does: for Post names `[a, b]` and the body `a=1&a=2` the second
`a` is stored in front of the first value: the storage holds `'Y'`, `2`, NUL, `1`, NUL,
`'N'` and the stored data ends at offset 6. Walking the Post list ends at offset 4, and
`WS_POST("b")` is the empty string, while for the body `a=1` it is NULL and the walk
ends at the end of the data. -/
theorem C39_repeated_key_spoils_the_storage :
    (turnsFrom (oneFileTable none none (some [B "a", B "b"]) (fun _ => [])) 0 4 freshWeb
        (B "POST / HTTP/1.1\r\nContent-Length: 7\r\n\r\na=1&a=2")).map
      (fun r => (r.1.State, r.1.ReplyStatus, r.1.ArgsStorage.take 6))
      = some (WebServerState.Response, ReplyStatus.MAX, [89, 50, 0, 49, 0, 78]) ∧
    (turnsFrom (oneFileTable none none (some [B "a", B "b"]) (fun _ => [])) 0 4 freshWeb
        (B "POST / HTTP/1.1\r\nContent-Length: 7\r\n\r\na=1&a=2")).map
      (fun r => r.1.PostEndOfStorage) = some (some 6) ∧
    (turnsFrom (oneFileTable none none (some [B "a", B "b"]) (fun _ => [])) 0 4 freshWeb
        (B "POST / HTTP/1.1\r\nContent-Length: 7\r\n\r\na=1&a=2")).map
      (fun r => (WS_SkipStorageArgs r.1.ArgsStorage 0 r.1.PageProp.Posts,
        postValue r.1 (B "a"), postValue r.1 (B "b")))
      = some (some 4, some (some (B "2")), some (some [])) ∧
    (turnsFrom (oneFileTable none none (some [B "a", B "b"]) (fun _ => [])) 0 4 freshWeb
        (B "POST / HTTP/1.1\r\nContent-Length: 3\r\n\r\na=1")).map
      (fun r => (r.1.State, r.1.ReplyStatus, r.1.ArgsStorage.take 4))
      = some (WebServerState.Response, ReplyStatus.MAX, [89, 49, 0, 78]) ∧
    (turnsFrom (oneFileTable none none (some [B "a", B "b"]) (fun _ => [])) 0 4 freshWeb
        (B "POST / HTTP/1.1\r\nContent-Length: 3\r\n\r\na=1")).map
      (fun r => r.1.PostEndOfStorage) = some (some 4) ∧
    (turnsFrom (oneFileTable none none (some [B "a", B "b"]) (fun _ => [])) 0 4 freshWeb
        (B "POST / HTTP/1.1\r\nContent-Length: 3\r\n\r\na=1")).map
      (fun r => (WS_SkipStorageArgs r.1.ArgsStorage 0 r.1.PageProp.Posts,
        postValue r.1 (B "a"), postValue r.1 (B "b")))
      = some (some 4, some (some (B "1")), some none) ∧
    sentBytes (WS_RunServer (oneFileTable none none (some [B "a", B "b"])
          (echoArg ArgView.post (B "b"))) 0 freshWeb
        (B "POST / HTTP/1.1\r\nContent-Length: 7\r\n\r\na=1&a=2"))
      = some (wholeReply (B "b=")) ∧
    sentBytes (WS_RunServer (oneFileTable none none (some [B "a", B "b"])
          (echoArg ArgView.post (B "b"))) 0 freshWeb
        (B "POST / HTTP/1.1\r\nContent-Length: 3\r\n\r\na=1"))
      = some (wholeReply (B "b is NULL")) := by
  refine ⟨?_, ?_, ?_, ?_, ?_, ?_, ?_, ?_⟩ <;> decide!

/-! ## Lookups in a storage that starts with absent entries -/

theorem rd_replicate (m c : Nat) (tail : List Nat) (i : Nat) (h : i < m) :
    rd (List.replicate m c ++ tail) i = some c := by
  unfold rd
  rw [List.getElem?_append_left (by simpa using h)]
  simp [h]

theorem skipEntry_N {A : List Nat} {p : Nat} (h : rd A p = some 78) :
    skipEntry A p = some (p + 1) := by
  unfold skipEntry
  rw [h]
  simp

/-- Walking over names whose entries are all `'N'`. -/
theorem skipArgsLoop_Ns (A : List Nat) : ∀ (names : List (List Nat)) (off : Nat),
    (∀ i, i < names.length → rd A (off + i) = some 78) →
    skipArgsLoop A names off = some (off + names.length) := by
  intro names
  induction names with
  | nil => intro off _; simp [skipArgsLoop]
  | cons nm rest ih =>
    intro off h
    have h0 := h 0 (by simp)
    rw [Nat.add_zero] at h0
    rw [skipArgsLoop, skipEntry_N h0]
    simp only
    rw [ih (off + 1) (fun i hi => by
      have := h (i + 1) (by simp; omega)
      rwa [show off + (i + 1) = off + 1 + i by omega] at this)]
    simp only [List.length_cons]
    congr 1
    omega

theorem skipStorage_Ns (A : List Nat) (l : Option (List (List Nat))) (off : Nat)
    (h : ∀ i, i < nameCount l → rd A (off + i) = some 78) :
    WS_SkipStorageArgs A off l = some (off + nameCount l) := by
  cases l with
  | none => simp [WS_SkipStorageArgs, nameCount]
  | some names => exact skipArgsLoop_Ns A names off h

/-- `WS_FindArgInStorage` for a name whose first entry in the list follows entries that are
all `'N'`. -/
theorem findArgLoop_first (A Arg : List Nat) (nm : List Nat) (suf : List (List Nat)) (c : Nat) :
    ∀ (pre : List (List Nat)) (off : Nat), (∀ x ∈ pre, cstr x ≠ cstr Arg) →
      cstr nm = cstr Arg → (∀ i, i < pre.length → rd A (off + i) = some 78) →
      rd A (off + pre.length) = some c → c ≠ 78 →
      findArgLoop A Arg (pre ++ nm :: suf) off = some (some (off + pre.length + 1)) := by
  intro pre
  induction pre with
  | nil =>
    intro off _ hnm _ hc hne
    simp only [List.nil_append, List.length_nil, Nat.add_zero] at hc ⊢
    rw [findArgLoop]
    simp only [hnm, ↓reduceIte, hc, hne]
  | cons x rest ih =>
    intro off hpre hnm hN hc hne
    have hx : cstr x ≠ cstr Arg := hpre x (by simp)
    have h0 := hN 0 (by simp)
    rw [Nat.add_zero] at h0
    rw [List.cons_append, findArgLoop]
    simp only [hx, ↓reduceIte, skipEntry_N h0]
    rw [ih (off + 1) (fun y hy => hpre y (by simp [hy])) hnm
      (fun i hi => by
        have := hN (i + 1) (by simp; omega)
        rwa [show off + (i + 1) = off + 1 + i by omega] at this)
      (by rwa [show off + 1 + rest.length = off + (x :: rest).length by simp; omega]) hne]
    simp only [List.length_cons]
    congr 2
    omega

/-- The loop of `WS_StartProcessingPOSTVar` for a key whose first name in the list
follows entries that are all `'N'`. -/
theorem postFindLoop_first (A K : List Nat) (nm : List Nat) (suf : List (List Nat)) :
    ∀ (pre : List (List Nat)) (off : Nat), (∀ x ∈ pre, cstr x ≠ K) → cstr nm = K →
      (∀ i, i < pre.length → rd A (off + i) = some 78) → off + pre.length < A.length →
      postFindLoop K (pre ++ nm :: suf) A off
        = some (A.set (off + pre.length) 89, some (off + pre.length + 1)) := by
  intro pre
  induction pre with
  | nil =>
    intro off _ hnm _ hlt
    simp only [List.nil_append, List.length_nil, Nat.add_zero] at hlt ⊢
    rw [postFindLoop]
    simp only [hnm, ↓reduceIte, wr_some A off 89 hlt, Option.map_some']
  | cons x rest ih =>
    intro off hpre hnm hN hlt
    have hx : cstr x ≠ K := hpre x (by simp)
    have h0 := hN 0 (by simp)
    rw [Nat.add_zero] at h0
    rw [List.cons_append, postFindLoop]
    simp only [hx, ↓reduceIte, skipEntry_N h0]
    rw [ih (off + 1) (fun y hy => hpre y (by simp [hy])) hnm
      (fun i hi => by
        have := hN (i + 1) (by simp; omega)
        rwa [show off + (i + 1) = off + 1 + i by omega] at this)
      (by simp only [List.length_cons] at hlt; omega)]
    simp only [List.length_cons]
    rw [show off + 1 + rest.length = off + (rest.length + 1) by omega]

/-- The first name of a list with a given content. -/
theorem first_match (K : List Nat) : ∀ (l : List (List Nat)), (∃ g ∈ l, cstr g = K) →
    ∃ pre nm suf, l = pre ++ nm :: suf ∧ cstr nm = K ∧ ∀ x ∈ pre, cstr x ≠ K := by
  intro l
  induction l with
  | nil => rintro ⟨g, hg, _⟩; cases hg
  | cons a rest ih =>
    rintro ⟨g, hg, hk⟩
    by_cases ha : cstr a = K
    · exact ⟨[], a, rest, rfl, ha, fun x hx => by cases hx⟩
    · have hg' : g ∈ rest := by
        rcases List.mem_cons.1 hg with h | h
        · subst h; exact absurd hk ha
        · exact h
      obtain ⟨pre, nm, suf, e, h1, h2⟩ := ih ⟨g, hg', hk⟩
      refine ⟨a :: pre, nm, suf, by rw [e]; rfl, h1, ?_⟩
      intro x hx
      rcases List.mem_cons.1 hx with h | h
      · subst h; exact ha
      · exact h2 x h

/-- The string that starts a list which has a NUL in it. -/
theorem cstrlen_cstr : ∀ (d tail : List Nat),
    cstrlen (d ++ 0 :: tail) = some (cstr (d ++ [0])).length ∧
    (d ++ 0 :: tail).take (cstr (d ++ [0])).length = cstr (d ++ [0]) := by
  intro d
  induction d with
  | nil => intro tail; simp [cstrlen, cstr]
  | cons c cs ih =>
    intro tail
    by_cases hc : c = 0
    · subst hc
      simp [cstrlen, cstr]
    · obtain ⟨h1, h2⟩ := ih tail
      have e1 : cstr (c :: cs ++ [0]) = c :: cstr (cs ++ [0]) := by
        rw [List.cons_append, cstr]; simp only [hc, ↓reduceIte]
      have e2 : cstrlen (c :: cs ++ 0 :: tail) = (cstrlen (cs ++ 0 :: tail)).map (· + 1) := by
        rw [List.cons_append, cstrlen]; simp only [hc, ↓reduceIte]
      rw [e1, e2, h1]
      simp only [Option.map_some', List.length_cons, List.cons_append, List.take_succ_cons, h2,
        and_self]

/-- The C string at an offset from which the buffer holds bytes and a NUL: the bytes up
to the first NUL. -/
theorem cstrAt_value (b : List Nat) (i : Nat) (d tail : List Nat)
    (h : b.drop i = d ++ 0 :: tail) : cstrAt b i = some (cstr (d ++ [0])) := by
  obtain ⟨h1, h2⟩ := cstrlen_cstr d tail
  unfold cstrAt strlenAt
  rw [h, h1]
  simp only [Option.map_some', h2]

theorem cstr_noNul (s : List Nat) (h : NoNul s) : cstr s = s := by
  induction s with
  | nil => rfl
  | cons c cs ih =>
    have hc : c ≠ 0 := h c (by simp)
    rw [cstr]
    simp only [hc, ↓reduceIte, ih (fun x hx => h x (by simp [hx]))]

theorem decodedBytes_plain : ∀ (s : List Nat), 37 ∉ s → decodedBytes s = s := by
  intro s
  induction s with
  | nil => intro _; rfl
  | cons c cs ih =>
    intro h
    have hc : c ≠ 37 := fun e => h (by simp [e])
    rw [decodedBytes_cons_ne c cs hc, ih (fun e => h (by simp [e]))]

theorem plusToSpace_plain : ∀ (s tail : List Nat), 43 ∉ s → NoNul s →
    plusToSpace (s ++ 0 :: tail) = s ++ 0 :: tail := by
  intro s
  induction s with
  | nil => intro tail _ _; simp [plusToSpace]
  | cons c cs ih =>
    intro tail h hn
    have hc : c ≠ 43 := fun e => h (by simp [e])
    have hc0 : c ≠ 0 := hn c (by simp)
    rw [List.cons_append, plusToSpace]
    simp only [hc0, hc, ↓reduceIte]
    rw [ih tail (fun e => h (by simp [e])) (fun x hx => hn x (by simp [hx]))]

/-- A string with well-formed escapes has no `'%'` in its last two bytes. -/
theorem wellFormed_tail (n : Nat) : ∀ (v : List Nat), v.length = n → wellFormedPct v = true →
    ∀ i, i + 2 ≥ v.length → v[i]? ≠ some 37 := by
  induction n using Nat.strong_induction_on with
  | _ n ih =>
    intro v hn hwf i hi
    cases v with
    | nil => simp
    | cons c v' =>
      by_cases hc : c = 37
      · subst hc
        cases v' with
        | nil => simp [wellFormedPct] at hwf
        | cons x v2 =>
          cases v2 with
          | nil => simp [wellFormedPct] at hwf
          | cons y v3 =>
            rw [wellFormedPct_hex] at hwf
            simp only [Bool.and_eq_true] at hwf
            simp only [List.length_cons] at hi hn
            have hx : x ≠ 37 := by
              intro e; rw [e] at hwf; exact absurd hwf.1.1 (by decide)
            have hy : y ≠ 37 := by
              intro e; rw [e] at hwf; exact absurd hwf.1.2 (by decide)
            rcases (show i = 1 ∨ i = 2 ∨ ∃ j, i = j + 3 by
              rcases Nat.lt_or_ge i 3 with h | h
              · omega
              · exact Or.inr (Or.inr ⟨i - 3, by omega⟩)) with h | h | ⟨j, h⟩
            · subst h; simp [hx]
            · subst h; simp [hy]
            · subst h
              simp only [List.getElem?_cons_succ]
              exact ih v3.length (by omega) v3 rfl hwf.2 j (by omega)
      · rw [wellFormedPct_cons_ne c v' hc] at hwf
        cases i with
        | zero => simp [hc]
        | succ j =>
          simp only [List.getElem?_cons_succ]
          simp only [List.length_cons] at hi hn
          exact ih v'.length (by omega) v' rfl hwf j (by omega)

/-! ## The value of a pair of the query -/

theorem isPrefixOf_key (v : List Nat) : ∀ (g K : List Nat), 61 ∉ g → 61 ∉ K →
    ((g ++ [61]).isPrefixOf (K ++ 61 :: v) = true ↔ g = K) := by
  intro g
  induction g with
  | nil =>
    intro K _ hK
    cases K with
    | nil => simp
    | cons c K' =>
      have hc : c ≠ 61 := fun e => hK (by simp [e])
      simp [List.isPrefixOf, hc, Ne.symm hc]
  | cons a g' ih =>
    intro K hg hK
    have ha : a ≠ 61 := fun e => hg (by simp [e])
    cases K with
    | nil => simp [List.isPrefixOf, ha]
    | cons c K' =>
      have := ih K' (fun e => hg (by simp [e])) (fun e => hK (by simp [e]))
      rw [List.cons_append, List.cons_append, List.isPrefixOf]
      simp only [Bool.and_eq_true, beq_iff_eq, this, List.cons.injEq]

/-- The value found for a name without `'='` in a query that is the one pair `K=v`. -/
theorem findSeg_pair (g K v : List Nat) (hg : 61 ∉ g) (hK : 61 ∉ K) :
    findSeg g [K ++ 61 :: v] = if g = K then some v else none := by
  rw [findSeg]
  by_cases h : g = K
  · subst h
    rw [if_pos ((isPrefixOf_key v g g hg hg).2 rfl), if_pos rfl]
    simp
  · have : ¬ ((g ++ [61]).isPrefixOf (K ++ 61 :: v) = true) :=
      fun e => h ((isPrefixOf_key v g K hg hK).1 e)
    rw [if_neg this, if_neg h]
    rfl

theorem getsLayout_first (look : List Nat → Option (List Nat)) (nm : List Nat)
    (suf : List (List Nat)) (v : List Nat) (hnm : look (cstr nm) = some v) :
    ∀ (pre : List (List Nat)), (∀ x ∈ pre, look (cstr x) = none) →
      getsLayout look (pre ++ nm :: suf) =
        List.replicate pre.length 78 ++ (89 :: (pctDecode v ++ 0 :: getsLayout look suf)) := by
  intro pre
  induction pre with
  | nil => intro _; simp [getsLayout, hnm, entryBytes]
  | cons x rest ih =>
    intro h
    rw [List.cons_append, getsLayout, h x (by simp), ih (fun y hy => h y (by simp [hy]))]
    simp [entryBytes, List.replicate_succ]

theorem querySegments_pair (K v : List Nat) (hK : 38 ∉ K) (hv : 38 ∉ v) :
    querySegments (K ++ 61 :: v) = [K ++ 61 :: v] := by
  unfold querySegments
  rw [if_neg (by simp)]
  apply splitSep_single
  intro e
  rcases List.mem_append.1 e with h | h
  · exact hK h
  · rcases List.mem_cons.1 h with h | h
    · omega
    · exact hv h

/-- `WS_GET` for a declared name `K` after `WS_ProcessGetVars` on the query `K=v`: the
decoded value, up to its first NUL. -/
theorem get_value_of_pair (Web : WebServer) (head post K v : List Nat) (gl : List (List Nat))
    (hhead : NoNul head) (hK : NoNul K) (hK61 : 61 ∉ K) (hK38 : 38 ∉ K) (hv : NoNul v)
    (hv38 : 38 ∉ v) (hwf : wellFormedPct v = true)
    (hL : Web.LineBuff = head ++ (0 :: ((K ++ 61 :: v) ++ 0 :: post)))
    (hA : Web.ArgsStorage.length = WS_OPT_ARG_MEMORY_SIZE)
    (hG : Web.PageProp.Gets = some gl) (hgl : ∀ g ∈ gl, 61 ∉ cstr g)
    (hkg : ∃ g ∈ gl, cstr g = K)
    (hfit : rawFits (fun g => findSeg g (querySegments (K ++ 61 :: v))) gl 0 = true)
    (hfit2 : (getsLayout (fun g => findSeg g (querySegments (K ++ 61 :: v))) gl).length
      + nameCount Web.PageProp.Cookies + nameCount Web.PageProp.Posts
      ≤ WS_OPT_ARG_MEMORY_SIZE) :
    ∃ W, WS_ProcessGetVars Web = some W ∧
      getValue W K = some (some (cstr (pctDecode v ++ [0]))) := by
  have hq : NoNul (K ++ 61 :: v) := by
    intro c hc
    rcases List.mem_append.1 hc with h | h
    · exact hK c h
    · rcases List.mem_cons.1 h with h | h
      · omega
      · exact hv c h
  have hseg := querySegments_pair K v hK38 hv38
  rw [hseg] at hfit hfit2
  have hlook : ∀ g ∈ gl, findSeg (cstr g) [K ++ 61 :: v] = if cstr g = K then some v else none :=
    fun g hg => findSeg_pair (cstr g) K v (hgl g hg) hK61
  obtain ⟨W, g1, _, g3, g4, g5⟩ := processGetVars_layout Web head (K ++ 61 :: v) post hhead hq
    hL hA
    (by
      intro g hg w hw
      rw [hG, Option.getD_some] at hg
      rw [hseg, hlook g hg] at hw
      split at hw
      · simp only [Option.some.injEq] at hw; rw [← hw]; exact hwf
      · cases hw)
    (by rw [hG, Option.getD_some, hseg]; exact hfit)
    (by rw [hG, Option.getD_some, hseg]; exact hfit2)
  rw [hG, Option.getD_some, hseg] at g5
  obtain ⟨pre, nm, suf, hsplit, hnm, hpre⟩ := first_match K gl hkg
  have hlay := getsLayout_first (fun g => findSeg g [K ++ 61 :: v]) nm suf v
    (by
      have := hlook nm (by rw [hsplit]; simp)
      rw [if_pos hnm] at this
      exact this)
    pre
    (fun x hx => by
      have := hlook x (by rw [hsplit]; simp [hx])
      rw [if_neg (hpre x hx)] at this
      exact this)
  rw [hsplit] at g5
  rw [hlay] at g5
  -- the storage as a list
  obtain ⟨tail, hS⟩ : ∃ tail, W.ArgsStorage
      = List.replicate pre.length 78 ++ (89 :: (pctDecode v ++ 0 :: tail)) := by
    refine ⟨getsLayout (fun g => findSeg g [K ++ 61 :: v]) suf
      ++ List.replicate (nameCount Web.PageProp.Cookies) 78
      ++ List.replicate (nameCount Web.PageProp.Posts) 78 ++ W.ArgsStorage.drop
        ((List.replicate pre.length 78 ++ (89 :: (pctDecode v ++ 0 ::
          getsLayout (fun g => findSeg g [K ++ 61 :: v]) suf))).length
          + nameCount Web.PageProp.Cookies + nameCount Web.PageProp.Posts), ?_⟩
    conv_lhs => rw [← List.take_append_drop
      ((List.replicate pre.length 78 ++ (89 :: (pctDecode v ++ 0 ::
          getsLayout (fun g => findSeg g [K ++ 61 :: v]) suf))).length
          + nameCount Web.PageProp.Cookies + nameCount Web.PageProp.Posts) W.ArgsStorage, g5]
    simp
  refine ⟨W, g1, ?_⟩
  have hfind : findArgLoop W.ArgsStorage K (pre ++ nm :: suf) 0
      = some (some (0 + pre.length + 1)) := by
    refine findArgLoop_first W.ArgsStorage K nm suf 89 pre 0
      (fun x hx => by rw [cstr_noNul K hK]; exact hpre x hx)
      (by rw [cstr_noNul K hK]; exact hnm) ?_ ?_ (by decide)
    · intro i hi
      rw [hS, Nat.zero_add]
      exact rd_replicate _ _ _ _ hi
    · rw [hS, Nat.zero_add]
      exact rd_at_eq _ _ _ _ (by simp)
  have hval : cstrAt W.ArgsStorage (0 + pre.length + 1) = some (cstr (pctDecode v ++ [0])) := by
    refine cstrAt_value _ _ (pctDecode v) tail ?_
    rw [hS, Nat.zero_add]
    have : (List.replicate pre.length 78 ++ 89 :: (pctDecode v ++ 0 :: tail))
        = (List.replicate pre.length 78 ++ [89]) ++ (pctDecode v ++ 0 :: tail) := by simp
    rw [this, List.drop_left' (by simp)]
  unfold getValue WS_GET WS_FindArgInStorage
  rw [g3, hG]
  simp only
  rw [hsplit, hfind]
  simp only [argValue, hval, Option.map_some']

/-! ## The bytes of a key and of a value in a POST body -/

/-- One byte of a POST body after which the loop goes on. -/
theorem postBodyLoop_step {W Y W1 : WebServer} {c : Nat} (rest : List Nat)
    (h1 : postByteFirst W c = some Y) (h2 : postByteEnd Y = some (W1, false)) :
    postBodyLoop W (c :: rest) = postBodyLoop W1 rest := by
  have hb : postByte W c = some (W1, false) := by
    rw [postByte_halves, h1]
    exact h2
  rw [postBodyLoop, hb]

/-- The second half of `postByte` when the body does not end in a value here. -/
theorem postByteEnd_count (Y : WebServer) (n : Nat) (hb : Y.BodySize = n + 1)
    (hn : n + 1 < 4294967296) (hc : ¬ (n = 0 ∧ Y.PostState = WSPostState.GettingValue)) :
    postByteEnd Y = some ({ Y with BodySize := n }, false) := by
  have hdec : (Y.BodySize + 4294967295) % 4294967296 = n := by omega
  simp only [postByteEnd, hdec]
  rw [if_neg hc]

/-- The second half of `postByte` for the last byte of a body that ends in a value. -/
theorem postByteEnd_last (Y W3 : WebServer) (hb : Y.BodySize = 1)
    (hps : Y.PostState = WSPostState.GettingValue)
    (hcopy : WS_CopyLineBuffer2POSTVar { Y with BodySize := 0 } = some (W3, true)) :
    postByteEnd Y =
      some ({ W3 with PostState := WSPostState.GettingKey, LineBuffPos := 0 }, false) := by
  have hdec : (Y.BodySize + 4294967295) % 4294967296 = 0 := by omega
  simp only [postByteEnd, hdec]
  rw [if_pos ⟨trivial, hps⟩, hcopy]

theorem postByteFirst_keyByte (W : WebServer) (c : Nat)
    (hps : W.PostState = WSPostState.GettingKey) (hc : c ≠ 61)
    (hp : W.LineBuffPos + 2 < WS_LINE_BUFFER_SIZE)
    (hl : W.LineBuff.length = WS_LINE_BUFFER_SIZE) :
    postByteFirst W c = some { W with LineBuff := W.LineBuff.set W.LineBuffPos c,
                                      LineBuffPos := W.LineBuffPos + 1 } := by
  have h256 : WS_LINE_BUFFER_SIZE = 256 := rfl
  unfold postByteFirst
  rw [hps]
  simp only [hc, ↓reduceIte]
  rw [wr_some _ _ _ (by omega)]
  simp only [ge_iff_le]
  rw [if_neg (by rw [h256]; omega)]

theorem postByteFirst_valueByte (W : WebServer) (c : Nat)
    (hps : W.PostState = WSPostState.GettingValue) (hc : c ≠ 38)
    (hp : W.LineBuffPos + 2 < WS_LINE_BUFFER_SIZE)
    (hl : W.LineBuff.length = WS_LINE_BUFFER_SIZE) :
    postByteFirst W c = some { W with LineBuff := W.LineBuff.set W.LineBuffPos c,
                                      LineBuffPos := W.LineBuffPos + 1 } := by
  have h256 : WS_LINE_BUFFER_SIZE = 256 := rfl
  unfold postByteFirst
  rw [hps]
  simp only [hc, ↓reduceIte]
  rw [wr_some _ _ _ (by omega)]
  simp only [ge_iff_le]
  rw [if_neg (by rw [h256]; omega)]

theorem set_eq_parts : ∀ (L : List Nat) (p c : Nat), p < L.length →
    L.set p c = L.take p ++ c :: L.drop (p + 1) := by
  intro L
  induction L with
  | nil => intro p c h; simp at h
  | cons a L ih =>
    intro p c h
    cases p with
    | zero => simp
    | succ p =>
      simp only [List.length_cons, Nat.add_lt_add_iff_right] at h
      simp [ih p c h]

/-- The bytes of a key or of a value that are only stored in the line buffer: the
session after them. -/
theorem postBodyLoop_plain : ∀ (s : List Nat) (W : WebServer) (m : Nat) (rest : List Nat),
    (W.PostState = WSPostState.GettingKey ∧ 61 ∉ s ∨
      W.PostState = WSPostState.GettingValue ∧ 38 ∉ s) →
    W.LineBuffPos + s.length + 1 < WS_LINE_BUFFER_SIZE →
    W.LineBuff.length = WS_LINE_BUFFER_SIZE →
    W.BodySize = s.length + (m + 1) → W.BodySize < 4294967296 →
    ∃ W1, postBodyLoop W (s ++ rest) = postBodyLoop W1 rest ∧
      W1.LineBuff.length = WS_LINE_BUFFER_SIZE ∧
      W1.LineBuff.take (W.LineBuffPos + s.length) = W.LineBuff.take W.LineBuffPos ++ s ∧
      W1.LineBuffPos = W.LineBuffPos + s.length ∧ W1.BodySize = m + 1 ∧
      W1.PostState = W.PostState ∧ W1.ArgsStorage = W.ArgsStorage ∧
      W1.PageProp = W.PageProp ∧ W1.PostWritePos = W.PostWritePos ∧
      W1.PostEndOfStorage = W.PostEndOfStorage := by
  intro s
  induction s with
  | nil =>
    intro W m rest _ _ hl hb _
    exact ⟨W, rfl, hl, by simp, rfl, by simpa using hb, rfl, rfl, rfl, rfl, rfl⟩
  | cons c s ih =>
    intro W m rest hst hp hl hb hlt
    have h256 : WS_LINE_BUFFER_SIZE = 256 := rfl
    simp only [List.length_cons] at hp hb
    have hfirst : postByteFirst W c = some { W with LineBuff := W.LineBuff.set W.LineBuffPos c,
                                                    LineBuffPos := W.LineBuffPos + 1 } := by
      rcases hst with ⟨h1, h2⟩ | ⟨h1, h2⟩
      · exact postByteFirst_keyByte W c h1 (fun e => h2 (by simp [e])) (by omega) hl
      · exact postByteFirst_valueByte W c h1 (fun e => h2 (by simp [e])) (by omega) hl
    have hend := postByteEnd_count { W with LineBuff := W.LineBuff.set W.LineBuffPos c,
                                            LineBuffPos := W.LineBuffPos + 1 }
      (s.length + (m + 1)) (by show W.BodySize = _; omega) (by omega) (by omega)
    have hstep := postBodyLoop_step (s ++ rest) hfirst hend
    obtain ⟨W1, e1, e2, e3, e4, e5, e6, e7, e8, e9, e10⟩ :=
      ih { W with LineBuff := W.LineBuff.set W.LineBuffPos c,
                  LineBuffPos := W.LineBuffPos + 1,
                  BodySize := s.length + (m + 1) } m rest
        (by
          rcases hst with ⟨h1, h2⟩ | ⟨h1, h2⟩
          · exact Or.inl ⟨h1, fun e => h2 (by simp [e])⟩
          · exact Or.inr ⟨h1, fun e => h2 (by simp [e])⟩)
        (by show W.LineBuffPos + 1 + s.length + 1 < _; omega)
        (by show (W.LineBuff.set W.LineBuffPos c).length = _; simpa using hl)
        rfl (by show s.length + (m + 1) < _; omega)
    refine ⟨W1, ?_, e2, ?_, ?_, e5, e6, e7, e8, e9, e10⟩
    · rw [List.cons_append, hstep]
      exact e1
    · have : W.LineBuffPos + (c :: s).length = W.LineBuffPos + 1 + s.length := by
        simp only [List.length_cons]; omega
      rw [this]
      refine e3.trans ?_
      show (W.LineBuff.set W.LineBuffPos c).take (W.LineBuffPos + 1) ++ s = _
      rw [take_set_succ _ _ _ (by omega)]
      simp
    · rw [e4]
      show W.LineBuffPos + 1 + s.length = _
      simp only [List.length_cons]
      omega

/-! ## The `'='` of a POST field and the copy of its value -/

theorem buffer_of_take (b s : List Nat) (n : Nat) (h : b.take n = s) :
    b = s ++ b.drop n := by
  rw [← h, List.take_append_drop]

/-- The first half of `postByte` at the `'='` after a declared key without `'%'`, in a
storage where no name has a value yet. -/
theorem postByteFirst_assign (W : WebServer) (K nm : List Nat) (pre suf : List (List Nat))
    (hps : W.PostState = WSPostState.GettingKey)
    (hl : W.LineBuff.length = WS_LINE_BUFFER_SIZE) (hpos : W.LineBuffPos = K.length)
    (hK : W.LineBuff.take K.length = K) (hKn : NoNul K) (hK37 : 37 ∉ K)
    (hKlen : K.length < WS_LINE_BUFFER_SIZE)
    (hN : ∀ i, i < nameCount W.PageProp.Gets + nameCount W.PageProp.Cookies
      + nameCount W.PageProp.Posts → rd W.ArgsStorage i = some 78)
    (hP : W.PageProp.Posts = some (pre ++ nm :: suf)) (hnm : cstr nm = K)
    (hpre : ∀ x ∈ pre, cstr x ≠ K)
    (hcap : nameCount W.PageProp.Gets + nameCount W.PageProp.Cookies
      + nameCount W.PageProp.Posts ≤ W.ArgsStorage.length) :
    ∃ Y, postByteFirst W 61 = some Y ∧ Y.PostState = WSPostState.GettingValue ∧
      Y.LineBuffPos = 0 ∧ Y.LineBuff.length = WS_LINE_BUFFER_SIZE ∧ Y.BodySize = W.BodySize ∧
      Y.PageProp = W.PageProp ∧
      Y.ArgsStorage = W.ArgsStorage.set
        (nameCount W.PageProp.Gets + nameCount W.PageProp.Cookies + pre.length) 89 ∧
      Y.PostWritePos =
        some (nameCount W.PageProp.Gets + nameCount W.PageProp.Cookies + pre.length + 1) ∧
      Y.PostEndOfStorage = some (nameCount W.PageProp.Gets + nameCount W.PageProp.Cookies
        + nameCount W.PageProp.Posts) := by
  have hnP : nameCount W.PageProp.Posts = pre.length + suf.length + 1 := by
    rw [hP]; simp [nameCount]; omega
  have hset : (W.LineBuff.set K.length 0).drop 0 = K ++ 0 :: W.LineBuff.drop (K.length + 1) := by
    rw [List.drop_zero, set_eq_parts _ _ _ (by omega), hK]
  obtain ⟨b1, d1, d2, d3, _⟩ := urlDecodeInPlace_any _ 0 K _ hset hKn
  rw [decodedBytes_plain K hK37] at d1 d3
  have hb1 : b1.drop 0 = K ++ 0 :: b1.drop (0 + K.length + 1) := by
    rw [List.drop_zero]
    have := buffer_of_take b1 _ _ d3
    simpa using this
  have hkey : cstrAt b1 0 = some K := by
    rw [cstrAt_value b1 0 K _ hb1, cstr_append K [] hKn]
  have hG := skipStorage_Ns W.ArgsStorage W.PageProp.Gets 0
    (fun i hi => by rw [Nat.zero_add]; exact hN i (by omega))
  have hC := skipStorage_Ns W.ArgsStorage W.PageProp.Cookies (0 + nameCount W.PageProp.Gets)
    (fun i hi => by rw [Nat.zero_add]; exact hN _ (by omega))
  have hPs := skipArgsLoop_Ns W.ArgsStorage (pre ++ nm :: suf)
    (0 + nameCount W.PageProp.Gets + nameCount W.PageProp.Cookies)
    (fun i hi => by
      rw [Nat.zero_add]
      refine hN _ ?_
      have : (pre ++ nm :: suf).length = pre.length + suf.length + 1 := by simp; omega
      omega)
  have hfind := postFindLoop_first W.ArgsStorage K nm suf pre
    (0 + nameCount W.PageProp.Gets + nameCount W.PageProp.Cookies) hpre hnm
    (fun i hi => by rw [Nat.zero_add]; exact hN _ (by omega)) (by omega)
  unfold postByteFirst
  rw [hps]
  simp only [↓reduceIte]
  rw [hpos, wr_some _ _ _ (by omega)]
  simp only [d1]
  unfold WS_StartProcessingPOSTVar
  simp only [hG, hC, hP, hPs, hkey, hfind]
  refine ⟨_, rfl, rfl, rfl, ?_, rfl, rfl, ?_, ?_, ?_⟩
  · show b1.length = _
    rw [d2]; simpa using hl
  · show W.ArgsStorage.set _ 89 = _
    rw [Nat.zero_add]
  · show some _ = some _
    rw [Nat.zero_add]
  · show some _ = some _
    rw [Nat.zero_add]
    rfl

/-- The copy of a value that lies whole in the line buffer: a value without `'+'` whose
escapes are well formed is stored decoded at `PostWritePos`. -/
theorem copyLineBuffer_value (X : WebServer) (v : List Nat) (wp E : Nat)
    (hl : X.LineBuff.length = WS_LINE_BUFFER_SIZE) (hpos : X.LineBuffPos = v.length)
    (hv : X.LineBuff.take v.length = v) (hvlen : v.length < WS_LINE_BUFFER_SIZE)
    (hvn : NoNul v) (hv43 : 43 ∉ v) (hwf : wellFormedPct v = true)
    (hwp : X.PostWritePos = some wp) (hE : X.PostEndOfStorage = some E) (hle : wp ≤ E)
    (hfit : E + (pctDecode v).length + 1 ≤ WS_OPT_ARG_MEMORY_SIZE)
    (hA : X.ArgsStorage.length = WS_OPT_ARG_MEMORY_SIZE) :
    ∃ W3, WS_CopyLineBuffer2POSTVar X = some (W3, true) ∧ W3.PageProp = X.PageProp ∧
      W3.ArgsStorage = X.ArgsStorage.take wp ++ ((pctDecode v ++ [0]) ++
        ((X.ArgsStorage.drop wp).take (E - wp) ++
          (X.ArgsStorage.drop wp).drop ((pctDecode v ++ [0]).length + (E - wp)))) := by
  have h256 : WS_LINE_BUFFER_SIZE = 256 := rfl
  have h100 : WS_OPT_ARG_MEMORY_SIZE = 100 := rfl
  have hL0 : X.LineBuff.set v.length 0 = v ++ 0 :: X.LineBuff.drop (v.length + 1) := by
    rw [set_eq_parts _ _ _ (by omega), hv]
  have hplus : plusToSpace (X.LineBuff.set v.length 0) = X.LineBuff.set v.length 0 := by
    rw [hL0]; exact plusToSpace_plain v _ hv43 hvn
  obtain ⟨L3, d1, d2, d3, _⟩ := urlDecodeInPlace_any (X.LineBuff.set v.length 0) 0 v _
    (by rw [List.drop_zero]; exact hL0) hvn
  rw [decodedBytes_wellFormed v.length v rfl hwf] at d1 d3
  have hL3len : L3.length = 256 := by rw [d2]; simpa using hl
  have htake : L3.take (0 + (pctDecode v).length + 1) = pctDecode v ++ [0] := by
    rw [d3]; simp
  have hins := insertCopy_spec (X.ArgsStorage.take wp) (X.ArgsStorage.drop wp)
    (pctDecode v ++ [0]) (E - wp)
    (by simp only [List.length_append, List.length_singleton, List.length_drop]; omega)
  rw [List.take_append_drop] at hins
  have hlen : (X.ArgsStorage.take wp).length = wp := by simp; omega
  rw [hlen, show wp + (E - wp) = E by omega] at hins
  have hmem := memcpyAt_spec L3 0 (cstr [0, 0, 0] ++ [0]) (by rw [hL3len]; decide)
  have hno : ¬ (E + (0 + (pctDecode v).length + 1) > WS_OPT_ARG_MEMORY_SIZE) := by omega
  unfold WS_CopyLineBuffer2POSTVar
  rw [hpos, wr_some _ _ _ (by omega)]
  simp only [hwp]
  -- nothing is held back
  by_cases h2 : v.length ≥ 2
  · have r1 : rd (X.LineBuff.set v.length 0) (v.length - 1) = v[v.length - 1]? := by
      rw [hL0, rd, List.getElem?_append_left (by omega)]
    have r2 : rd (X.LineBuff.set v.length 0) (v.length - 2) = v[v.length - 2]? := by
      rw [hL0, rd, List.getElem?_append_left (by omega)]
    have t1 := wellFormed_tail v.length v rfl hwf (v.length - 1) (by omega)
    have t2 := wellFormed_tail v.length v rfl hwf (v.length - 2) (by omega)
    obtain ⟨last, hlast⟩ : ∃ c, v[v.length - 1]? = some c :=
      ⟨_, List.getElem?_eq_getElem (by omega)⟩
    obtain ⟨prev, hprev⟩ : ∃ c, v[v.length - 2]? = some c :=
      ⟨_, List.getElem?_eq_getElem (by omega)⟩
    rw [hlast] at t1
    rw [hprev] at t2
    have n1 : last ≠ 37 := fun e => t1 (by rw [e])
    have n2 : prev ≠ 37 := fun e => t2 (by rw [e])
    rw [if_pos h2, r1, r2, hlast, hprev]
    simp only [n1, n2, ↓reduceIte, hplus, d1, hE, htake]
    rw [if_neg hno]
    simp only [hins, hmem]
    exact ⟨_, rfl, rfl, rfl⟩
  · rw [if_neg h2]
    simp only [hplus, d1, hE, htake]
    rw [if_neg hno]
    simp only [hins, hmem]
    exact ⟨_, rfl, rfl, rfl⟩

/-! ## The value `WS_POST` gives for a pair of the body -/

theorem take_of_Ns : ∀ (p : Nat) (A : List Nat), (∀ i, i < p → rd A i = some 78) →
    A.take p = List.replicate p 78 := by
  intro p
  induction p with
  | zero => intro A _; simp
  | succ p ih =>
    intro A h
    cases A with
    | nil =>
      have := h 0 (by omega)
      simp [rd] at this
    | cons a A =>
      have h0 := h 0 (by omega)
      simp only [rd, List.getElem?_cons_zero, Option.some.injEq] at h0
      rw [List.take_succ_cons, List.replicate_succ, h0,
        ih A (fun i hi => by
          have := h (i + 1) (by omega)
          simpa [rd] using this)]

/-- `WS_POST` for a declared name whose entry is the first one with a value. -/
theorem postValue_first (W : WebServer) (K nm d tail : List Nat) (pre suf : List (List Nat))
    (hK : NoNul K) (hP : W.PageProp.Posts = some (pre ++ nm :: suf)) (hnm : cstr nm = K)
    (hpre : ∀ x ∈ pre, cstr x ≠ K)
    (hS : W.ArgsStorage = List.replicate (nameCount W.PageProp.Gets
      + nameCount W.PageProp.Cookies + pre.length) 78 ++ 89 :: (d ++ 0 :: tail)) :
    postValue W K = some (some (cstr (d ++ [0]))) := by
  have hN : ∀ i, i < nameCount W.PageProp.Gets + nameCount W.PageProp.Cookies + pre.length →
      rd W.ArgsStorage i = some 78 := by
    intro i hi
    rw [hS]
    exact rd_replicate _ _ _ _ hi
  have hG := skipStorage_Ns W.ArgsStorage W.PageProp.Gets 0
    (fun i hi => by rw [Nat.zero_add]; exact hN i (by omega))
  have hC := skipStorage_Ns W.ArgsStorage W.PageProp.Cookies (0 + nameCount W.PageProp.Gets)
    (fun i hi => by rw [Nat.zero_add]; exact hN _ (by omega))
  have hfind : findArgLoop W.ArgsStorage K (pre ++ nm :: suf)
      (0 + nameCount W.PageProp.Gets + nameCount W.PageProp.Cookies)
      = some (some (0 + nameCount W.PageProp.Gets + nameCount W.PageProp.Cookies
          + pre.length + 1)) := by
    refine findArgLoop_first W.ArgsStorage K nm suf 89 pre _
      (fun x hx => by rw [cstr_noNul K hK]; exact hpre x hx)
      (by rw [cstr_noNul K hK]; exact hnm) ?_ ?_ (by decide)
    · intro i hi
      rw [Nat.zero_add]
      exact hN _ (by omega)
    · rw [Nat.zero_add]
      conv_lhs => rw [hS]
      exact rd_at_eq _ _ _ _ (by simp)
  have hval : cstrAt W.ArgsStorage (0 + nameCount W.PageProp.Gets + nameCount W.PageProp.Cookies
      + pre.length + 1) = some (cstr (d ++ [0])) := by
    refine cstrAt_value _ _ d tail ?_
    rw [Nat.zero_add]
    conv_lhs => rw [hS]
    have : (List.replicate (nameCount W.PageProp.Gets + nameCount W.PageProp.Cookies
          + pre.length) 78 ++ 89 :: (d ++ 0 :: tail))
        = (List.replicate (nameCount W.PageProp.Gets + nameCount W.PageProp.Cookies
          + pre.length) 78 ++ [89]) ++ (d ++ 0 :: tail) := by simp
    rw [this, List.drop_left' (by simp)]
  unfold postValue WS_POST WS_FindArgInStorage
  simp only [hG, hC, hP, hfind, argValue, hval, Option.map_some']

/-- `WS_POST` for a declared name `K` after the body `K=v` was read into a storage where no
name had a value: the decoded value, up to its first NUL. -/
theorem post_value_of_pair (W : WebServer) (K v : List Nat) (pl : List (List Nat))
    (hps : W.PostState = WSPostState.GettingKey) (hpos : W.LineBuffPos = 0)
    (hl : W.LineBuff.length = WS_LINE_BUFFER_SIZE)
    (hA : W.ArgsStorage.length = WS_OPT_ARG_MEMORY_SIZE)
    (hb : W.BodySize = (K ++ 61 :: v).length)
    (hN : ∀ i, i < nameCount W.PageProp.Gets + nameCount W.PageProp.Cookies
      + nameCount W.PageProp.Posts → rd W.ArgsStorage i = some 78)
    (hP : W.PageProp.Posts = some pl) (hkp : ∃ p ∈ pl, cstr p = K)
    (hK : NoNul K) (hK61 : 61 ∉ K) (hK37 : 37 ∉ K) (hKlen : K.length + 1 < WS_LINE_BUFFER_SIZE)
    (hv : NoNul v) (hv38 : 38 ∉ v) (hv43 : 43 ∉ v) (hwf : wellFormedPct v = true)
    (hvlen : v.length + 1 < WS_LINE_BUFFER_SIZE)
    (hfit : nameCount W.PageProp.Gets + nameCount W.PageProp.Cookies
      + nameCount W.PageProp.Posts + (pctDecode v).length + 1 ≤ WS_OPT_ARG_MEMORY_SIZE) :
    ∃ W2, postBodyLoop W (K ++ 61 :: v) = some (W2, []) ∧
      postValue W2 K = some (some (cstr (pctDecode v ++ [0]))) := by
  have h256 : WS_LINE_BUFFER_SIZE = 256 := rfl
  have h100 : WS_OPT_ARG_MEMORY_SIZE = 100 := rfl
  obtain ⟨pre, nm, suf, hsplit, hnm, hpre⟩ := first_match K pl hkp
  rw [hsplit] at hP
  have hnP : nameCount W.PageProp.Posts = pre.length + suf.length + 1 := by
    rw [hP]; simp [nameCount]; omega
  have hbs : W.BodySize = K.length + (v.length + 1) := by
    rw [hb]; simp
  -- the key
  obtain ⟨W1, k1, k2, k3, k4, k5, k6, k7, k8, _, _⟩ :=
    postBodyLoop_plain K W v.length (61 :: v) (Or.inl ⟨hps, hK61⟩) (by rw [hpos]; omega) hl
      hbs (by rw [hbs]; omega)
  rw [hpos, Nat.zero_add] at k3 k4
  rw [List.take_zero, List.nil_append] at k3
  -- the `=`
  obtain ⟨Y, y1, y2, y3, y4, y5, y6, y7, y8, y9⟩ :=
    postByteFirst_assign W1 K nm pre suf (k6.trans hps) k2 k4 k3 hK hK37 (by omega)
      (by rw [k7, k8]; exact hN) (by rw [k8]; exact hP) hnm hpre (by rw [k7, k8, hA]; omega)
  rw [k7, k8] at y7
  rw [k8] at y8 y9
  rw [k5] at y5
  -- the copy of the value and the lookup
  have hfinal : ∀ X : WebServer, X.LineBuff.length = WS_LINE_BUFFER_SIZE →
      X.LineBuffPos = v.length → X.LineBuff.take v.length = v →
      X.PostWritePos = Y.PostWritePos → X.PostEndOfStorage = Y.PostEndOfStorage →
      X.ArgsStorage = Y.ArgsStorage → X.PageProp = Y.PageProp →
      ∃ W3, WS_CopyLineBuffer2POSTVar X = some (W3, true) ∧
        postValue { W3 with PostState := WSPostState.GettingKey, LineBuffPos := 0 } K
          = some (some (cstr (pctDecode v ++ [0]))) := by
    intro X x1 x2 x3 x4 x5 x6 x7
    obtain ⟨W3, c1, c2, c3⟩ := copyLineBuffer_value X v _ _ x1 x2 x3 (by omega) hv hv43 hwf
      (x4.trans y8) (x5.trans y9) (by omega) (by omega)
      (by rw [x6, y7, List.length_set]; exact hA)
    refine ⟨W3, c1, ?_⟩
    obtain ⟨tail, c4⟩ : ∃ tail, W3.ArgsStorage = List.take (nameCount W.PageProp.Gets
        + nameCount W.PageProp.Cookies + pre.length + 1) X.ArgsStorage
          ++ (pctDecode v ++ [0] ++ tail) := ⟨_, c3⟩
    have hS : W3.ArgsStorage = List.replicate (nameCount W3.PageProp.Gets
        + nameCount W3.PageProp.Cookies + pre.length) 78 ++ 89 :: (pctDecode v ++ 0 :: tail) := by
      rw [c4, c2, x7, y6, k8, x6, y7, take_set_succ _ _ _ (by omega),
        take_of_Ns _ _ (fun i hi => hN i (by omega))]
      simp only [List.append_assoc, List.singleton_append, List.cons_append, List.nil_append]
    exact postValue_first _ K nm (pctDecode v) tail pre suf hK
      (by show W3.PageProp.Posts = _; rw [c2, x7, y6, k8]; exact hP) hnm hpre hS
  rcases List.eq_nil_or_concat v with hv0 | ⟨v1, c, hvc0⟩
  · -- an empty value: the body ends with the `=`
    subst hv0
    obtain ⟨W3, c1, c2⟩ := hfinal { Y with BodySize := 0 } y4 y3 (by simp) rfl rfl rfl rfl
    have hend := postByteEnd_last Y W3 (by rw [y5]; rfl) y2 c1
    refine ⟨_, ?_, c2⟩
    rw [k1, postBodyLoop_step [] y1 hend]
    rfl
  · -- a value: its bytes are stored, the last one ends the body
    have hvc : v = v1 ++ [c] := by rw [hvc0, List.concat_eq_append]
    have hvl : v.length = v1.length + 1 := by rw [hvc]; simp
    have hend := postByteEnd_count Y v.length (by rw [y5]) (by omega)
      (by rw [hvl]; omega)
    obtain ⟨W5, w1, w2, w3, w4, w5, w6, w7, w8, w9, w10⟩ :=
      postBodyLoop_plain v1 { Y with BodySize := v.length } 0 [c]
        (Or.inr ⟨y2, fun e => hv38 (by rw [hvc]; simp [e])⟩)
        (by show Y.LineBuffPos + v1.length + 1 < _; rw [y3]; omega) y4
        (by show v.length = _; omega) (by show v.length < _; omega)
    have w3a : W5.LineBuff.take v1.length = v1 := by
      have : (Y.LineBuffPos + v1.length) = v1.length := by rw [y3]; omega
      have e := w3
      simp only [] at e
      rw [this, y3, List.take_zero, List.nil_append] at e
      exact e
    have w4a : W5.LineBuffPos = v1.length := by
      rw [w4]; show Y.LineBuffPos + _ = _; rw [y3]; omega
    have hc38 : c ≠ 38 := fun e => hv38 (by rw [hvc]; simp [e])
    have hfirst := postByteFirst_valueByte W5 c (w6.trans y2) hc38 (by omega) w2
    obtain ⟨W3, c1, c2⟩ := hfinal
      { W5 with LineBuff := W5.LineBuff.set W5.LineBuffPos c,
                LineBuffPos := W5.LineBuffPos + 1, BodySize := 0 }
      (by show (W5.LineBuff.set _ c).length = _; simpa using w2)
      (by show W5.LineBuffPos + 1 = _; omega)
      (by
        show (W5.LineBuff.set W5.LineBuffPos c).take v.length = v
        rw [hvl, w4a, take_set_succ _ _ _ (by omega), w3a, hvc])
      w9 w10 w7 w8
    have hlast := postByteEnd_last
      { W5 with LineBuff := W5.LineBuff.set W5.LineBuffPos c,
                LineBuffPos := W5.LineBuffPos + 1 } W3 w5 (w6.trans y2) c1
    refine ⟨_, ?_, c2⟩
    rw [k1, postBodyLoop_step v y1 hend]
    rw [show postBodyLoop { Y with BodySize := v.length } v
        = postBodyLoop { Y with BodySize := v.length } (v1 ++ [c]) from congrArg _ hvc,
      w1, postBodyLoop_step [] hfirst hlast]
    rfl

/-! ## C40: the same pair in the query and in a POST body -/

theorem getsLayout_length_ge (look : List Nat → Option (List Nat)) :
    ∀ l : List (List Nat), l.length ≤ (getsLayout look l).length := by
  intro l
  induction l with
  | nil => simp [getsLayout]
  | cons nm rest ih =>
    rw [getsLayout, List.length_append, List.length_cons]
    have : 1 ≤ (entryBytes (look (cstr nm))).length := by
      cases look (cstr nm) <;> simp [entryBytes]
    omega

/-- The Get section for the query `K=v` has room for every Get name and for the decoded
value and its NUL. -/
theorem getsLayout_pair_length (K v : List Nat) (gl : List (List Nat))
    (hK61 : 61 ∉ K) (hgl : ∀ g ∈ gl, 61 ∉ cstr g) (hkg : ∃ g ∈ gl, cstr g = K) :
    gl.length + (pctDecode v).length + 1
      ≤ (getsLayout (fun g => findSeg g [K ++ 61 :: v]) gl).length := by
  have hlook : ∀ g ∈ gl, findSeg (cstr g) [K ++ 61 :: v] = if cstr g = K then some v else none :=
    fun g hg => findSeg_pair (cstr g) K v (hgl g hg) hK61
  obtain ⟨pre, nm, suf, hsplit, hnm, hpre⟩ := first_match K gl hkg
  have hlay := getsLayout_first (fun g => findSeg g [K ++ 61 :: v]) nm suf v
    (by
      have := hlook nm (by rw [hsplit]; simp)
      rw [if_pos hnm] at this
      exact this)
    pre
    (fun x hx => by
      have := hlook x (by rw [hsplit]; simp [hx])
      rw [if_neg (hpre x hx)] at this
      exact this)
  have hsuf := getsLayout_length_ge (fun g => findSeg g [K ++ 61 :: v]) suf
  rw [hsplit, hlay]
  simp only [List.length_append, List.length_cons, List.length_replicate]
  omega

/-- C40 (amended): a name `K` that a route declares as a Get name and as a Post name, with
no `'%'` and no `'&'` in it, on a route whose Get names hold no `'='`; a raw value `v` of
bytes other than NUL, `'&'` and `'+'` whose escapes are well formed and which fits as
`WS_ProcessGetVars` measures it (every entry with its raw value, and the decoded Get
section with one byte per Cookie and Post name, within the 100 bytes). `WG` is a session
with the query `K=v` in the line buffer; `WP` is a session of the same route at the start
of a POST body of the bytes `K=v`, in whose storage no name has a value. Then
`WS_ProcessGetVars` and the loop of the body both return, and `WS_POST` gives for `K` what
`WS_GET` gives: the decoded value. -/
theorem C40_same_value_without_plus (WG WP : WebServer) (head post K v : List Nat)
    (gl pl : List (List Nat))
    (hG : WG.PageProp.Gets = some gl) (hPo : WG.PageProp.Posts = some pl)
    (hkg : ∃ g ∈ gl, cstr g = K) (hkp : ∃ p ∈ pl, cstr p = K)
    (hgl : ∀ g ∈ gl, 61 ∉ cstr g) (hK38 : 38 ∉ K) (hK37 : 37 ∉ K)
    (hv : NoNul v) (hv38 : 38 ∉ v) (hv43 : 43 ∉ v) (hwf : wellFormedPct v = true)
    (hhead : NoNul head) (hL : WG.LineBuff = head ++ (0 :: ((K ++ 61 :: v) ++ 0 :: post)))
    (hLl : WG.LineBuff.length = WS_LINE_BUFFER_SIZE)
    (hA : WG.ArgsStorage.length = WS_OPT_ARG_MEMORY_SIZE)
    (hfit : rawFits (fun g => findSeg g (querySegments (K ++ 61 :: v))) gl 0 = true)
    (hfit2 : (getsLayout (fun g => findSeg g (querySegments (K ++ 61 :: v))) gl).length
      + nameCount WG.PageProp.Cookies + nameCount WG.PageProp.Posts
      ≤ WS_OPT_ARG_MEMORY_SIZE)
    (hpg : WP.PageProp.Gets = WG.PageProp.Gets)
    (hpc : WP.PageProp.Cookies = WG.PageProp.Cookies)
    (hpp : WP.PageProp.Posts = WG.PageProp.Posts)
    (hps : WP.PostState = WSPostState.GettingKey) (hpos : WP.LineBuffPos = 0)
    (hl : WP.LineBuff.length = WS_LINE_BUFFER_SIZE)
    (hAp : WP.ArgsStorage.length = WS_OPT_ARG_MEMORY_SIZE)
    (hb : WP.BodySize = (K ++ 61 :: v).length)
    (hN : ∀ i, i < nameCount WP.PageProp.Gets + nameCount WP.PageProp.Cookies
      + nameCount WP.PageProp.Posts → rd WP.ArgsStorage i = some 78) :
    ∃ W1 W2, WS_ProcessGetVars WG = some W1 ∧
      postBodyLoop WP (K ++ 61 :: v) = some (W2, []) ∧
      getValue W1 K = some (some (cstr (pctDecode v ++ [0]))) ∧
      postValue W2 K = getValue W1 K := by
  have h256 : WS_LINE_BUFFER_SIZE = 256 := rfl
  obtain ⟨g, hg, hgK⟩ := hkg
  have hKn : NoNul K := hgK ▸ noNul_cstr g
  have hK61 : 61 ∉ K := hgK ▸ hgl g hg
  have hlen := congrArg List.length hL
  rw [hLl] at hlen
  simp only [List.length_append, List.length_cons] at hlen
  obtain ⟨W1, g1, g2⟩ := get_value_of_pair WG head post K v gl hhead hKn hK61 hK38 hv hv38 hwf
    hL hA hG hgl ⟨g, hg, hgK⟩ hfit hfit2
  have hroom := getsLayout_pair_length K v gl hK61 hgl ⟨g, hg, hgK⟩
  rw [querySegments_pair K v hK38 hv38] at hfit2
  have hnG : nameCount WG.PageProp.Gets = gl.length := by rw [hG]; rfl
  obtain ⟨W2, p1, p2⟩ := post_value_of_pair WP K v pl hps hpos hl hAp hb hN (hpp.trans hPo) hkp
    hKn hK61 hK37 (by omega) hv hv38 hv43 hwf (by omega)
    (by rw [hpg, hpc, hpp, hnG]; omega)
  exact ⟨W1, W2, g1, p1, g2, p2.trans g2.symm⟩

set_option maxRecDepth 1000000 in
/-- C40 (amended) for a route with the Get names `j`, `k`, the Cookie name `c` and the Post
name `k`, and the pair `k=a%41b`: `WS_GET` after the query and `WS_POST` after the body
both give `aAb`. -/
theorem C40_same_value_witness :
    ∃ W1 W2,
      WS_ProcessGetVars (querySession (some [B "j", B "k"]) (some [B "c"]) (some [B "k"])
        (B "k=a%41b")) = some W1 ∧
      postBodyLoop (bodySession (some [B "j", B "k"]) (some [B "c"]) (some [B "k"])
        (B "k=a%41b")) (B "k" ++ 61 :: B "a%41b") = some (W2, []) ∧
      getValue W1 (B "k") = some (some (cstr (pctDecode (B "a%41b") ++ [0]))) ∧
      postValue W2 (B "k") = getValue W1 (B "k") :=
  C40_same_value_without_plus
    (querySession (some [B "j", B "k"]) (some [B "c"]) (some [B "k"]) (B "k=a%41b"))
    (bodySession (some [B "j", B "k"]) (some [B "c"]) (some [B "k"]) (B "k=a%41b"))
    (B "GET /") (List.replicate 242 0) (B "k") (B "a%41b") [B "j", B "k"] [B "k"]
    rfl rfl (by decide) (by decide) (by decide) (by decide) (by decide)
    (by unfold NoNul; decide) (by decide) (by decide) (by decide)
    (by unfold NoNul; decide) (by decide!) (by decide!) (by decide!) (by decide!) (by decide!)
    (by decide!) (by decide!) (by decide!) (by decide!) (by decide!) (by decide!) (by decide!)
    (by decide!) (by decide!)

set_option maxRecDepth 1000000 in
/-- C40 fails as stated. For a route with the Get name `k` and the Post name `k` and the
value `a+b` (no escapes, five bytes with the name): `WS_GET` gives `a+b`, `WS_POST` gives
`a b`, in the sessions and in the replies of whole requests. The other inputs show what
else the two paths treat differently: a name with `'%'` (the key of a body is decoded, the
key of a query is not), a name with `'='` (a query matches the name at a later `'='`), a
name with `'&'` (a query is split there first), a value with `'&'` that repeats the key
(the body stores the later value), a Get name with `'='` that takes a part of the value
(`%00` in it then hides the entry of `k`), and a NUL in the value (the request line of the
query ends there and the file is not found). -/
theorem C40_counterexample :
    (wellFormedPct (B "a+b") = true ∧
      queryValue (some [B "k"]) none (some [B "k"]) (B "k") (B "k=a+b")
        = some (some (B "a+b")) ∧
      bodyValue (some [B "k"]) none (some [B "k"]) (B "k") (B "k=a+b")
        = some (some (B "a b"))) ∧
    (sentBytes (WS_RunServer
        (oneFileTable (some [B "k"]) none (some [B "k"]) (echoArg ArgView.get (B "k"))) 0
        freshWeb (B "GET /?k=a+b HTTP/1.1\r\n\r\n")) = some (wholeReply (B "k=a+b")) ∧
      sentBytes (WS_RunServer
        (oneFileTable (some [B "k"]) none (some [B "k"]) (echoArg ArgView.post (B "k"))) 0
        freshWeb (postRequest (B "k=a+b"))) = some (wholeReply (B "k=a b"))) ∧
    (queryValue (some [B "a%41"]) none (some [B "a%41"]) (B "a%41") (B "a%41=x")
        = some (some (B "x")) ∧
      bodyValue (some [B "a%41"]) none (some [B "a%41"]) (B "a%41") (B "a%41=x")
        = some none) ∧
    (queryValue (some [B "a=b"]) none (some [B "a=b"]) (B "a=b") (B "a=b=x")
        = some (some (B "x")) ∧
      bodyValue (some [B "a=b"]) none (some [B "a=b"]) (B "a=b") (B "a=b=x")
        = some none) ∧
    (queryValue (some [B "a&b"]) none (some [B "a&b"]) (B "a&b") (B "a&b=x")
        = some none ∧
      bodyValue (some [B "a&b"]) none (some [B "a&b"]) (B "a&b") (B "a&b=x")
        = some (some (B "x"))) ∧
    (queryValue (some [B "k"]) none (some [B "k"]) (B "k") (B "k=1&k=2")
        = some (some (B "1")) ∧
      bodyValue (some [B "k"]) none (some [B "k"]) (B "k") (B "k=1&k=2")
        = some (some (B "2"))) ∧
    (wellFormedPct (B "a=%00x") = true ∧
      queryValue (some [B "k=a", B "k"]) none (some [B "k"]) (B "k") (B "k=a=%00x")
        = some (some []) ∧
      bodyValue (some [B "k=a", B "k"]) none (some [B "k"]) (B "k") (B "k=a=%00x")
        = some (some (B "a="))) ∧
    (sentBytes (WS_RunServer
        (oneFileTable (some [B "k"]) none (some [B "k"]) (echoArg ArgView.get (B "k"))) 0
        freshWeb (B "GET /?k=a" ++ 0 :: B "b HTTP/1.1\r\n\r\n"))
        = some (autoReply ReplyStatus.NotFound) ∧
      sentBytes (WS_RunServer
        (oneFileTable (some [B "k"]) none (some [B "k"]) (echoArg ArgView.post (B "k"))) 0
        freshWeb (postRequest (B "k=a" ++ 0 :: B "b"))) = some (wholeReply (B "k=a"))) := by
  refine ⟨?_, ?_, ?_, ?_, ?_, ?_, ?_, ?_⟩ <;> decide!

/-! ## Exact results of the decoder and of the copy of a POST value -/

/-- The decoder writes only below the offset it returns. -/
theorem urlDecodeInPlaceLoop_tail : ∀ (fuel : Nat) (b : List Nat) (r w : Nat) (b1 : List Nat)
    (e : Nat), urlDecodeInPlaceLoop fuel b r w = some (b1, e) →
    w < e ∧ b1.drop e = b.drop e := by
  intro fuel
  induction fuel with
  | zero => intro b r w b1 e h; simp [urlDecodeInPlaceLoop] at h
  | succ f ih =>
    intro b r w b1 e h
    have hset : ∀ (x : Nat) (b2 : List Nat), wr b w x = some b2 → ∀ (r2 : Nat),
        urlDecodeInPlaceLoop f b2 r2 (w + 1) = some (b1, e) →
        w < e ∧ b1.drop e = b.drop e := by
      intro x b2 hw r2 hrec
      obtain ⟨h1, h2⟩ := ih b2 r2 (w + 1) b1 e hrec
      have hb2 : b2 = b.set w x := by
        unfold wr at hw
        split at hw
        · exact (Option.some.inj hw).symm
        · cases hw
      refine ⟨by omega, ?_⟩
      rw [h2, hb2, List.drop_set_of_lt _ _ (by omega)]
    unfold urlDecodeInPlaceLoop at h
    cases hr : rd b r with
    | none => rw [hr] at h; cases h
    | some c =>
      rw [hr] at h
      simp only at h
      by_cases hc0 : c = 0
      · rw [if_pos hc0] at h
        cases hw : wr b w 0 with
        | none => rw [hw] at h; cases h
        | some b2 =>
          rw [hw] at h
          simp only [Option.map_some', Option.some.injEq, Prod.mk.injEq] at h
          obtain ⟨e1, e2⟩ := h
          have hb2 : b2 = b.set w 0 := by
            unfold wr at hw
            split at hw
            · exact (Option.some.inj hw).symm
            · cases hw
          subst e2
          refine ⟨by omega, ?_⟩
          rw [← e1, hb2, List.drop_set_of_lt _ _ (by omega)]
      · rw [if_neg hc0] at h
        by_cases hc : c = 37
        · rw [if_pos hc] at h
          cases hr1 : rd b (r + 1) with
          | none => rw [hr1] at h; cases h
          | some c0 =>
            rw [hr1] at h
            simp only at h
            cases hr2 : rd b (if c0 ≠ 0 then r + 2 else r + 1) with
            | none => rw [hr2] at h; cases h
            | some c1 =>
              rw [hr2] at h
              simp only at h
              cases hw : wr b w (toChar (strtol 16 (cstr [c0, c1, 0]))) with
              | none => rw [hw] at h; cases h
              | some b2 =>
                rw [hw] at h
                exact hset _ b2 hw _ h
        · rw [if_neg hc] at h
          cases hw : wr b w c with
          | none => rw [hw] at h; cases h
          | some b2 =>
            rw [hw] at h
            exact hset _ b2 hw _ h

/-- `WS_URLDecodeInPlace` on a terminated string inside a buffer: the whole buffer
afterwards. -/
theorem urlDecodeInPlace_exact (b : List Nat) (v : Nat) (s post : List Nat)
    (hb : b.drop v = s ++ 0 :: post) (hs : NoNul s) :
    WS_URLDecodeInPlace b v =
      some (b.take v ++ (decodedBytes s ++ 0 :: b.drop (v + (decodedBytes s).length + 1)),
        v + (decodedBytes s).length + 1) := by
  obtain ⟨b1, h1, _, h3, _⟩ := urlDecodeInPlace_any b v s post hb hs
  have ht := (urlDecodeInPlaceLoop_tail _ b v v b1 _ h1).2
  rw [h1]
  have hb1 : b1 = b1.take (v + (decodedBytes s).length + 1)
      ++ b1.drop (v + (decodedBytes s).length + 1) := (List.take_append_drop _ _).symm
  rw [h3, ht] at hb1
  rw [hb1]
  simp

/-! ## The bytes of a POST body that are only stored: the session after them -/

/-- The bytes of a key or of a value that are only stored in the line buffer: the session
after them. -/
theorem postBodyLoop_plain_eq : ∀ (s : List Nat) (W : WebServer) (m : Nat) (rest : List Nat),
    (W.PostState = WSPostState.GettingKey ∧ 61 ∉ s ∨
      W.PostState = WSPostState.GettingValue ∧ 38 ∉ s) →
    W.LineBuffPos + s.length + 1 < WS_LINE_BUFFER_SIZE →
    W.LineBuff.length = WS_LINE_BUFFER_SIZE →
    W.BodySize = s.length + (m + 1) → W.BodySize < 4294967296 →
    postBodyLoop W (s ++ rest) =
      postBodyLoop { W with
        LineBuff := W.LineBuff.take W.LineBuffPos ++ (s ++ W.LineBuff.drop (W.LineBuffPos + s.length))
        LineBuffPos := W.LineBuffPos + s.length
        BodySize := m + 1 } rest := by
  intro s
  induction s with
  | nil =>
    intro W m rest _ _ hl hb _
    have e1 : W.LineBuff.take W.LineBuffPos ++ ([] ++ W.LineBuff.drop (W.LineBuffPos + 0))
        = W.LineBuff := by simp
    have e2 : m + 1 = W.BodySize := by simpa using hb.symm
    simp only [List.nil_append, List.length_nil, Nat.add_zero] at e1 ⊢
    rw [e1, e2]
  | cons c s ih =>
    intro W m rest hst hp hl hb hlt
    have h256 : WS_LINE_BUFFER_SIZE = 256 := rfl
    simp only [List.length_cons] at hp hb
    have hfirst : postByteFirst W c = some { W with LineBuff := W.LineBuff.set W.LineBuffPos c,
                                                    LineBuffPos := W.LineBuffPos + 1 } := by
      rcases hst with ⟨h1, h2⟩ | ⟨h1, h2⟩
      · exact postByteFirst_keyByte W c h1 (fun e => h2 (by simp [e])) (by omega) hl
      · exact postByteFirst_valueByte W c h1 (fun e => h2 (by simp [e])) (by omega) hl
    have hend := postByteEnd_count { W with LineBuff := W.LineBuff.set W.LineBuffPos c,
                                            LineBuffPos := W.LineBuffPos + 1 }
      (s.length + (m + 1)) (by show W.BodySize = _; omega) (by omega) (by omega)
    have hstep := postBodyLoop_step (s ++ rest) hfirst hend
    have hrec := ih
        { W with
          LineBuff := W.LineBuff.set W.LineBuffPos c
          LineBuffPos := W.LineBuffPos + 1
          BodySize := s.length + (m + 1) } m rest
        (by
          rcases hst with ⟨h1, h2⟩ | ⟨h1, h2⟩
          · exact Or.inl ⟨h1, fun e => h2 (by simp [e])⟩
          · exact Or.inr ⟨h1, fun e => h2 (by simp [e])⟩)
        (by show W.LineBuffPos + 1 + s.length + 1 < _; omega)
        (by show (W.LineBuff.set W.LineBuffPos c).length = _; simpa using hl)
        rfl (by show s.length + (m + 1) < _; omega)
    rw [List.cons_append, hstep, hrec]
    have eL : (W.LineBuff.set W.LineBuffPos c).take (W.LineBuffPos + 1) ++
        (s ++ (W.LineBuff.set W.LineBuffPos c).drop (W.LineBuffPos + 1 + s.length))
        = W.LineBuff.take W.LineBuffPos ++
          (c :: s ++ W.LineBuff.drop (W.LineBuffPos + (c :: s).length)) := by
      rw [take_set_succ _ _ _ (by omega), List.drop_set_of_lt _ _ (by omega)]
      simp only [List.length_cons, List.append_assoc, List.singleton_append, List.cons_append,
        List.nil_append]
      rw [show W.LineBuffPos + 1 + s.length = W.LineBuffPos + (s.length + 1) by omega]
    have eP : W.LineBuffPos + 1 + s.length = W.LineBuffPos + (c :: s).length := by
      simp only [List.length_cons]; omega
    show postBodyLoop { W with
        LineBuff := (W.LineBuff.set W.LineBuffPos c).take (W.LineBuffPos + 1) ++
          (s ++ (W.LineBuff.set W.LineBuffPos c).drop (W.LineBuffPos + 1 + s.length))
        LineBuffPos := W.LineBuffPos + 1 + s.length
        BodySize := m + 1 } rest = _
    rw [eL, eP]

/-! ## The copy of a POST value: the session after it -/

/-- The copy of a value that lies in the line buffer, has no `'+'` and does not end in the
start of an escape, when the decoded bytes fit: the session after it. -/
theorem copyLineBuffer_fits_eq (X : WebServer) (v : List Nat) (b : Nat) (tail : List Nat)
    (wp E : Nat)
    (hL : X.LineBuff = v ++ b :: tail) (hlen : v.length + 1 + tail.length = WS_LINE_BUFFER_SIZE)
    (hpos : X.LineBuffPos = v.length)
    (hvn : NoNul v) (hv43 : 43 ∉ v)
    (hlast : v[v.length - 1]? ≠ some 37) (hprev : v[v.length - 2]? ≠ some 37)
    (hwp : X.PostWritePos = some wp) (hE : X.PostEndOfStorage = some E) (hle : wp ≤ E)
    (hfit : E + (decodedBytes v).length + 1 ≤ WS_OPT_ARG_MEMORY_SIZE)
    (hA : X.ArgsStorage.length = WS_OPT_ARG_MEMORY_SIZE) :
    WS_CopyLineBuffer2POSTVar X = some ({ X with
      LineBuff := 0 :: (decodedBytes v ++ 0 ::
        (v ++ 0 :: tail).drop ((decodedBytes v).length + 1)).drop 1
      LineBuffPos := 0
      ArgsStorage := X.ArgsStorage.take wp ++ ((decodedBytes v ++ [0]) ++
        ((X.ArgsStorage.drop wp).take (E - wp) ++
          (X.ArgsStorage.drop wp).drop ((decodedBytes v).length + 1 + (E - wp))))
      PostEndOfStorage := some (E + ((decodedBytes v).length + 1))
      PostWritePos := some (wp + ((decodedBytes v).length + 1) - 1) }, true) := by
  have h256 : WS_LINE_BUFFER_SIZE = 256 := rfl
  have h100 : WS_OPT_ARG_MEMORY_SIZE = 100 := rfl
  have hw0 : wr X.LineBuff X.LineBuffPos 0 = some (v ++ 0 :: tail) := by
    rw [hL, hpos]; exact wr_at v b tail 0
  have hplus : plusToSpace (v ++ 0 :: tail) = v ++ 0 :: tail :=
    plusToSpace_plain v _ hv43 hvn
  have d1 := urlDecodeInPlace_exact (v ++ 0 :: tail) 0 v tail (by rw [List.drop_zero]) hvn
  simp only [List.take_zero, List.nil_append, Nat.zero_add] at d1
  have hdl := decodedBytes_length_le v.length v rfl
  have hL3len : (decodedBytes v ++ 0 ::
      (v ++ 0 :: tail).drop ((decodedBytes v).length + 1)).length = 256 := by
    simp only [List.length_append, List.length_cons, List.length_drop]
    omega
  have htake : (decodedBytes v ++ 0 ::
      (v ++ 0 :: tail).drop ((decodedBytes v).length + 1)).take
        ((decodedBytes v).length + 1) = decodedBytes v ++ [0] := by
    rw [List.take_append_eq_append_take, List.take_of_length_le (by omega)]
    simp
  have hins := insertCopy_spec (X.ArgsStorage.take wp) (X.ArgsStorage.drop wp)
    (decodedBytes v ++ [0]) (E - wp)
    (by simp only [List.length_append, List.length_singleton, List.length_drop]; omega)
  rw [List.take_append_drop] at hins
  have hlenA : (X.ArgsStorage.take wp).length = wp := by simp; omega
  rw [hlenA, show wp + (E - wp) = E by omega] at hins
  have hmem := memcpyAt_spec (decodedBytes v ++ 0 ::
      (v ++ 0 :: tail).drop ((decodedBytes v).length + 1)) 0 [0]
    (by rw [hL3len]; decide)
  simp only [List.take_zero, List.nil_append, List.length_singleton, Nat.zero_add,
    List.singleton_append] at hmem
  have hno : ¬ (E + ((decodedBytes v).length + 1) > WS_OPT_ARG_MEMORY_SIZE) := by omega
  have hc0 : cstr [0, 0, 0] = [] := by decide
  unfold WS_CopyLineBuffer2POSTVar
  rw [hw0]
  simp only [hwp]
  rw [hpos]
  by_cases h2 : v.length ≥ 2
  · have r1 : rd (v ++ 0 :: tail) (v.length - 1) = v[v.length - 1]? := by
      rw [rd, List.getElem?_append_left (by omega)]
    have r2 : rd (v ++ 0 :: tail) (v.length - 2) = v[v.length - 2]? := by
      rw [rd, List.getElem?_append_left (by omega)]
    obtain ⟨last, hlast1⟩ : ∃ c, v[v.length - 1]? = some c :=
      ⟨_, List.getElem?_eq_getElem (by omega)⟩
    obtain ⟨prev, hprev1⟩ : ∃ c, v[v.length - 2]? = some c :=
      ⟨_, List.getElem?_eq_getElem (by omega)⟩
    have n1 : last ≠ 37 := fun e => hlast (by rw [hlast1, e])
    have n2 : prev ≠ 37 := fun e => hprev (by rw [hprev1, e])
    rw [if_pos h2, r1, r2, hlast1, hprev1]
    simp only [n1, n2, ↓reduceIte, hplus, d1, hE, htake]
    rw [if_neg hno]
    simp only [hins, hmem, hc0, List.length_append, List.length_singleton,
      List.take_zero, List.nil_append, List.length_nil, Nat.zero_add, List.singleton_append]
  · rw [if_neg h2]
    simp only [hplus, d1, hE, htake]
    rw [if_neg hno]
    simp only [hins, hmem, hc0, List.length_append, List.length_singleton,
      List.take_zero, List.nil_append, List.length_nil, Nat.zero_add, List.singleton_append]

/-! ## A value that fills the line buffer -/

/-- One byte of a body after the first half of `postByte`. -/
theorem postBodyLoop_cons_first {W Y : WebServer} {c : Nat} (rest : List Nat)
    (h : postByteFirst W c = some Y) :
    postBodyLoop W (c :: rest) =
      (postByteEnd Y).bind
        (fun p => if p.2 = true then some (p.1, rest) else postBodyLoop p.1 rest) := by
  have hb : postByte W c = postByteEnd Y := by
    rw [postByte_halves, h]
  rw [postBodyLoop, hb]
  cases postByteEnd Y with
  | none => rfl
  | some p =>
    obtain ⟨W1, b⟩ := p
    cases b <;> rfl

/-- The first half of `postByte` for the byte of a value that fills the line buffer, when
the copy of the value succeeds. -/
theorem postByteFirst_valueFull (W Y : WebServer) (c : Nat)
    (hps : W.PostState = WSPostState.GettingValue) (hc : c ≠ 38)
    (hp : W.LineBuffPos + 2 = WS_LINE_BUFFER_SIZE)
    (hl : W.LineBuff.length = WS_LINE_BUFFER_SIZE)
    (hcopy : WS_CopyLineBuffer2POSTVar
      { W with LineBuff := W.LineBuff.set W.LineBuffPos c,
               LineBuffPos := W.LineBuffPos + 1 } = some (Y, true)) :
    postByteFirst W c = some Y := by
  have h256 : WS_LINE_BUFFER_SIZE = 256 := rfl
  unfold postByteFirst
  rw [hps] at hcopy ⊢
  simp only [hc, ↓reduceIte]
  rw [wr_some _ _ _ (by omega)]
  simp only [ge_iff_le]
  rw [if_pos (by rw [h256]; omega), hcopy]

/-- A value of 255 bytes, one less than the line buffer has, without `'&'`, `'+'` or NUL
whose last two bytes are not `'%'`, at the start of the value of a declared name whose
decoded bytes fit: the bytes are stored, the last of them fills the line buffer and the
value is copied. What is left of the byte is the second half of `postByte`. -/
theorem postBodyLoop_fill (W : WebServer) (v rest : List Nat) (wp E m : Nat)
    (hps : W.PostState = WSPostState.GettingValue) (hpos : W.LineBuffPos = 0)
    (hl : W.LineBuff.length = WS_LINE_BUFFER_SIZE) (hv : v.length = 255)
    (h38 : 38 ∉ v) (hvn : NoNul v) (h43 : 43 ∉ v)
    (hlast : v[254]? ≠ some 37) (hprev : v[253]? ≠ some 37)
    (hwp : W.PostWritePos = some wp) (hE : W.PostEndOfStorage = some E) (hle : wp ≤ E)
    (hfit : E + (decodedBytes v).length + 1 ≤ WS_OPT_ARG_MEMORY_SIZE)
    (hA : W.ArgsStorage.length = WS_OPT_ARG_MEMORY_SIZE)
    (hb : W.BodySize = 255 + m) (hlt : W.BodySize < 4294967296) :
    postBodyLoop W (v ++ rest) =
      (postByteEnd { W with
          LineBuff := 0 :: (decodedBytes v ++ 0 ::
            (v ++ [0]).drop ((decodedBytes v).length + 1)).drop 1
          LineBuffPos := 0
          ArgsStorage := W.ArgsStorage.take wp ++ ((decodedBytes v ++ [0]) ++
            ((W.ArgsStorage.drop wp).take (E - wp) ++
              (W.ArgsStorage.drop wp).drop ((decodedBytes v).length + 1 + (E - wp))))
          PostEndOfStorage := some (E + ((decodedBytes v).length + 1))
          PostWritePos := some (wp + ((decodedBytes v).length + 1) - 1)
          BodySize := m + 1 }).bind
        (fun p => if p.2 = true then some (p.1, rest) else postBodyLoop p.1 rest) := by
  have h256 : WS_LINE_BUFFER_SIZE = 256 := rfl
  obtain ⟨v0, c, hvc⟩ : ∃ v0 c, v = v0 ++ [c] := by
    rcases List.eq_nil_or_concat v with h | ⟨v0, c, h⟩
    · rw [h] at hv; simp at hv
    · exact ⟨v0, c, by rw [h, List.concat_eq_append]⟩
  have hv0 : v0.length = 254 := by
    rw [hvc] at hv; simpa using hv
  have hc38 : c ≠ 38 := fun e => h38 (by rw [hvc, e]; simp)
  have h38' : 38 ∉ v0 := fun e => h38 (by rw [hvc]; simp [e])
  -- the first 254 bytes
  have hplain := postBodyLoop_plain_eq v0 W m (c :: rest) (Or.inr ⟨hps, h38'⟩)
    (by rw [hpos, hv0, h256]; decide) hl (by rw [hb, hv0]; omega) hlt
  rw [hpos, hv0] at hplain
  simp only [List.take_zero, List.nil_append, Nat.zero_add] at hplain
  have hsplit : v ++ rest = v0 ++ c :: rest := by rw [hvc]; simp
  rw [hsplit, hplain]
  -- the byte that fills the buffer
  have hLlen : (v0 ++ W.LineBuff.drop 254).length = 256 := by
    simp only [List.length_append, List.length_drop]; omega
  obtain ⟨x, y, hxy⟩ : ∃ x y, W.LineBuff.drop 254 = [x, y] := by
    have h2 : (W.LineBuff.drop 254).length = 2 := by simp only [List.length_drop]; omega
    match hd : W.LineBuff.drop 254, h2 with
    | [x, y], _ => exact ⟨x, y, rfl⟩
  have hset : (v0 ++ W.LineBuff.drop 254).set 254 c = v ++ y :: [] := by
    rw [hxy, set_eq_parts _ _ _ (by simp; omega), List.take_left' hv0, hvc]
    rw [List.drop_append_eq_append_drop, List.drop_of_length_le (by omega), hv0]
    simp
  have hcopy := copyLineBuffer_fits_eq
    { W with LineBuff := (v0 ++ W.LineBuff.drop 254).set 254 c, LineBuffPos := 254 + 1,
             BodySize := m + 1 } v y [] wp E hset
    (by rw [hv]; rfl) (by show 254 + 1 = _; omega) hvn h43
    (by rw [hv]; exact hlast) (by rw [hv]; exact hprev) hwp hE hle hfit hA
  have hfull := postByteFirst_valueFull
    { W with LineBuff := v0 ++ W.LineBuff.drop 254, LineBuffPos := 254, BodySize := m + 1 }
    _ c hps hc38 rfl hLlen hcopy
  have hfull2 : postByteFirst
      { W with LineBuff := v0 ++ W.LineBuff.drop 254, LineBuffPos := 254, BodySize := m + 1 } c
      = some { W with
          LineBuff := 0 :: (decodedBytes v ++ 0 ::
            (v ++ [0]).drop ((decodedBytes v).length + 1)).drop 1
          LineBuffPos := 0
          ArgsStorage := W.ArgsStorage.take wp ++ ((decodedBytes v ++ [0]) ++
            ((W.ArgsStorage.drop wp).take (E - wp) ++
              (W.ArgsStorage.drop wp).drop ((decodedBytes v).length + 1 + (E - wp))))
          PostEndOfStorage := some (E + ((decodedBytes v).length + 1))
          PostWritePos := some (wp + ((decodedBytes v).length + 1) - 1)
          BodySize := m + 1 } := hfull
  exact postBodyLoop_cons_first rest hfull2

/-! ## Turns of the loop, one after another -/

theorem turnsFrom_add (m_Files : List FileInfo) (now : Nat) :
    ∀ (n k : Nat) (Web : WebServer) (bs : List Nat),
      turnsFrom m_Files now (n + k) Web bs =
        (turnsFrom m_Files now n Web bs).bind (fun r => turnsFrom m_Files now k r.1 r.2) := by
  intro n
  induction n with
  | zero => intro k Web bs; rw [Nat.zero_add]; rfl
  | succ n ih =>
    intro k Web bs
    rw [show n + 1 + k = (n + k) + 1 by omega, turnsFrom, turnsFrom]
    cases serverTurn m_Files now Web bs with
    | none => rfl
    | some t =>
      cases t with
      | done r => rfl
      | again W rest => exact ih k W rest

/-- The run after turns of the loop that were not left by a `return`. -/
theorem runServer_turns (m_Files : List FileInfo) (now : Nat) :
    ∀ (n : Nat) (Web W : WebServer) (bs rest : List Nat),
      turnsFrom m_Files now n Web bs = some (W, rest) → Web.State ≠ WebServerState.MAX →
      runServer m_Files now Web bs = runServer m_Files now W rest := by
  intro n
  induction n with
  | zero =>
    intro Web W bs rest h _
    simp only [turnsFrom, Option.some.injEq, Prod.mk.injEq] at h
    rw [h.1, h.2]
  | succ n ih =>
    intro Web W bs rest h hm
    rw [turnsFrom] at h
    cases ht : serverTurn m_Files now Web bs with
    | none => rw [ht] at h; cases h
    | some t =>
      cases t with
      | done r => rw [ht] at h; cases h
      | again W1 rest1 =>
        rw [ht] at h
        rw [runServer_again ht hm]
        exact ih W1 W rest1 rest h (serverTurn_again_state ht hm)

/-- The run from the Body phase of a `POST` request. -/
theorem runServer_postBody (m_Files : List FileInfo) (now : Nat) (S : WebServer)
    (body : List Nat) (hs : S.State = WebServerState.Body) (hr : S.Req = ReqType.Post) :
    runServer m_Files now S body =
      (postBodyLoop S body).bind (fun p =>
        if p.1.BodySize = 0 then
          runServerLoop m_Files now (body.length + 2)
            { p.1 with State := nextState p.1.State } p.2
        else some (p.1, RunExit.needMore)) := by
  rw [runServer_succ, serverTurn_body _ hs]
  unfold bodyBytes
  rw [if_pos hr]
  cases postBodyLoop S body with
  | none => rfl
  | some p =>
    obtain ⟨W1, rest⟩ := p
    by_cases hb : W1.BodySize = 0
    · simp only [hb, ↓reduceIte, Option.some_bind]
    · simp only [hb, ↓reduceIte, Option.some_bind]

/-- One turn of the loop from the Body phase of a `POST` request. -/
theorem turnsFrom_postBody (m_Files : List FileInfo) (now : Nat) (S : WebServer)
    (body : List Nat) (hs : S.State = WebServerState.Body) (hr : S.Req = ReqType.Post) :
    turnsFrom m_Files now 1 S body =
      (postBodyLoop S body).bind (fun p =>
        if p.1.BodySize = 0 then some ({ p.1 with State := nextState p.1.State }, p.2)
        else none) := by
  rw [turnsFrom, serverTurn_body _ hs]
  unfold bodyBytes
  rw [if_pos hr]
  cases postBodyLoop S body with
  | none => rfl
  | some p =>
    obtain ⟨W1, rest⟩ := p
    by_cases hb : W1.BodySize = 0
    · simp only [hb, ↓reduceIte, Option.some_bind, turnsFrom]
    · simp only [hb, ↓reduceIte, Option.some_bind]

/-- The bytes of a body after a part of it that the loop has read. -/
theorem postBodyLoop_after (a b : List Nat) (W : WebServer)
    (h1 : (postBodyLoop W a).isSome = true) (h2 : (afterBody W a).BodySize ≠ 0) :
    postBodyLoop W (a ++ b) = postBodyLoop (afterBody W a) b := by
  cases h : postBodyLoop W a with
  | none => rw [h] at h1; cases h1
  | some p =>
    obtain ⟨W1, rest⟩ := p
    have e : afterBody W a = W1 := by
      unfold afterBody; rw [h]; rfl
    rw [e] at h2 ⊢
    exact (postBodyLoop_append_more a b W W1 rest h h2).2

set_option maxRecDepth 1000000 in
/-- C2, what the code does: for Post names `[a, b]` and the body `a=` followed by 85
times `%41` (a raw value of 255 bytes, one less than the line buffer, that decodes to
85 bytes), the value is copied in two pieces and gets two terminators, and `WS_POST`
for the name `b`, which was not supplied, is not NULL. -/
theorem C2_post_value_of_255_bytes :
    (B "a=" ++ repeatBytes 85 (B "%41")).length = 257 ∧
    sentBytes (WS_RunServer (oneFileTable none none (some [B "a", B "b"]) (echoArg ArgView.post (B "b")))
        0 freshWeb
        (B "POST / HTTP/1.1\r\nContent-Length: 257\r\n\r\n" ++ B "a=" ++ repeatBytes 85 (B "%41")))
      = some (wholeReply (B "b=N")) := by
  refine ⟨by decide!, ?_⟩
  have t1 : turnsFrom (oneFileTable none none (some [B "a", B "b"]) (echoArg ArgView.post (B "b")))
      0 3 freshWeb
      (B "POST / HTTP/1.1\r\nContent-Length: 257\r\n\r\n" ++ B "a=" ++ repeatBytes 85 (B "%41"))
      = some (bodySession none none (some [B "a", B "b"]) (B "a=" ++ repeatBytes 85 (B "%41")),
          B "a=" ++ repeatBytes 85 (B "%41")) := by
    decide!
  have hS1 : (bodySession none none (some [B "a", B "b"])
        (B "a=" ++ repeatBytes 85 (B "%41"))).State = WebServerState.Body ∧
      (bodySession none none (some [B "a", B "b"])
        (B "a=" ++ repeatBytes 85 (B "%41"))).Req = ReqType.Post ∧
      (postBodyLoop (bodySession none none (some [B "a", B "b"])
        (B "a=" ++ repeatBytes 85 (B "%41"))) (B "a=")).isSome = true := by
    decide!
  have hS2 : (afterBody (bodySession none none (some [B "a", B "b"])
        (B "a=" ++ repeatBytes 85 (B "%41"))) (B "a=")).BodySize ≠ 0 := by
    decide!
  have hW : (afterBody (bodySession none none (some [B "a", B "b"])
        (B "a=" ++ repeatBytes 85 (B "%41"))) (B "a=")).PostState = WSPostState.GettingValue ∧
      (afterBody (bodySession none none (some [B "a", B "b"])
        (B "a=" ++ repeatBytes 85 (B "%41"))) (B "a=")).LineBuffPos = 0 ∧
      (afterBody (bodySession none none (some [B "a", B "b"])
        (B "a=" ++ repeatBytes 85 (B "%41"))) (B "a=")).LineBuff.length = WS_LINE_BUFFER_SIZE ∧
      (afterBody (bodySession none none (some [B "a", B "b"])
        (B "a=" ++ repeatBytes 85 (B "%41"))) (B "a=")).PostWritePos = some 1 ∧
      (afterBody (bodySession none none (some [B "a", B "b"])
        (B "a=" ++ repeatBytes 85 (B "%41"))) (B "a=")).PostEndOfStorage = some 2 ∧
      (afterBody (bodySession none none (some [B "a", B "b"])
        (B "a=" ++ repeatBytes 85 (B "%41"))) (B "a=")).ArgsStorage.length
          = WS_OPT_ARG_MEMORY_SIZE ∧
      (afterBody (bodySession none none (some [B "a", B "b"])
        (B "a=" ++ repeatBytes 85 (B "%41"))) (B "a=")).BodySize = 255 + 0 := by
    decide!
  have hv : (repeatBytes 85 (B "%41")).length = 255 ∧ 38 ∉ repeatBytes 85 (B "%41") ∧
      (∀ c ∈ repeatBytes 85 (B "%41"), c ≠ 0) ∧ 43 ∉ repeatBytes 85 (B "%41") ∧
      (repeatBytes 85 (B "%41"))[254]? ≠ some 37 ∧ (repeatBytes 85 (B "%41"))[253]? ≠ some 37 ∧
      2 + (decodedBytes (repeatBytes 85 (B "%41"))).length + 1 ≤ WS_OPT_ARG_MEMORY_SIZE := by
    decide!
  have hfill := postBodyLoop_fill _ (repeatBytes 85 (B "%41")) [] 1 2 0 hW.1 hW.2.1 hW.2.2.1
    hv.1 hv.2.1 hv.2.2.1 hv.2.2.2.1 hv.2.2.2.2.1 hv.2.2.2.2.2.1 hW.2.2.2.1 hW.2.2.2.2.1
    (by decide) hv.2.2.2.2.2.2 hW.2.2.2.2.2.1 hW.2.2.2.2.2.2 (by rw [hW.2.2.2.2.2.2]; decide)
  rw [List.append_nil] at hfill
  unfold sentBytes WS_RunServer
  rw [runServer_turns _ _ 3 _ _ _ _ t1 (by decide),
    runServer_postBody _ _ _ _ hS1.1 hS1.2.1,
    postBodyLoop_after _ _ _ hS1.2.2 hS2, hfill]
  decide!

/-- The copy of a value that lies in the line buffer, has no `'+'` and does not end in the
start of an escape, when the decoded bytes do not fit and one byte is free: the value is
clipped, the session after it. -/
theorem copyLineBuffer_clips_eq (X : WebServer) (v : List Nat) (b : Nat) (tail : List Nat)
    (wp E : Nat)
    (hL : X.LineBuff = v ++ b :: tail) (hlen : v.length + 1 + tail.length = WS_LINE_BUFFER_SIZE)
    (hpos : X.LineBuffPos = v.length)
    (hvn : NoNul v) (hv43 : 43 ∉ v)
    (hlast : v[v.length - 1]? ≠ some 37) (hprev : v[v.length - 2]? ≠ some 37)
    (hwp : X.PostWritePos = some wp) (hE : X.PostEndOfStorage = some E) (hle : wp ≤ E)
    (hover : E + (decodedBytes v).length + 1 > WS_OPT_ARG_MEMORY_SIZE)
    (hfree : E + 1 ≤ WS_OPT_ARG_MEMORY_SIZE)
    (hA : X.ArgsStorage.length = WS_OPT_ARG_MEMORY_SIZE) :
    WS_CopyLineBuffer2POSTVar X = some ({ X with
      LineBuff := decodedBytes v ++ 0 :: (v ++ 0 :: tail).drop ((decodedBytes v).length + 1)
      LineBuffPos := v.length
      ArgsStorage := X.ArgsStorage.take wp ++ ([0] ++
        ((X.ArgsStorage.drop wp).take (E - wp) ++ (X.ArgsStorage.drop wp).drop (1 + (E - wp))))
      ReplyStatus := ReplyStatus.InsufficientStorage }, false) := by
  have h256 : WS_LINE_BUFFER_SIZE = 256 := rfl
  have h100 : WS_OPT_ARG_MEMORY_SIZE = 100 := rfl
  have hw0 : wr X.LineBuff X.LineBuffPos 0 = some (v ++ 0 :: tail) := by
    rw [hL, hpos]; exact wr_at v b tail 0
  have hplus : plusToSpace (v ++ 0 :: tail) = v ++ 0 :: tail :=
    plusToSpace_plain v _ hv43 hvn
  have d1 := urlDecodeInPlace_exact (v ++ 0 :: tail) 0 v tail (by rw [List.drop_zero]) hvn
  simp only [List.take_zero, List.nil_append, Nat.zero_add] at d1
  have hins := insertCopy_spec (X.ArgsStorage.take wp) (X.ArgsStorage.drop wp) [0] (E - wp)
    (by simp only [List.length_singleton, List.length_drop]; omega)
  rw [List.take_append_drop] at hins
  have hlenA : (X.ArgsStorage.take wp).length = wp := by simp; omega
  rw [hlenA, show wp + (E - wp) = E by omega] at hins
  simp only [List.length_singleton] at hins
  have hyes : E + ((decodedBytes v).length + 1) > WS_OPT_ARG_MEMORY_SIZE := by omega
  unfold WS_CopyLineBuffer2POSTVar
  rw [hw0]
  simp only [hwp]
  rw [hpos]
  by_cases h2 : v.length ≥ 2
  · have r1 : rd (v ++ 0 :: tail) (v.length - 1) = v[v.length - 1]? := by
      rw [rd, List.getElem?_append_left (by omega)]
    have r2 : rd (v ++ 0 :: tail) (v.length - 2) = v[v.length - 2]? := by
      rw [rd, List.getElem?_append_left (by omega)]
    obtain ⟨last, hlast1⟩ : ∃ c, v[v.length - 1]? = some c :=
      ⟨_, List.getElem?_eq_getElem (by omega)⟩
    obtain ⟨prev, hprev1⟩ : ∃ c, v[v.length - 2]? = some c :=
      ⟨_, List.getElem?_eq_getElem (by omega)⟩
    have n1 : last ≠ 37 := fun e => hlast (by rw [hlast1, e])
    have n2 : prev ≠ 37 := fun e => hprev (by rw [hprev1, e])
    rw [if_pos h2, r1, r2, hlast1, hprev1]
    simp only [n1, n2, ↓reduceIte, hplus, d1, hE]
    rw [if_pos hyes]
    simp only [hins]
  · rw [if_neg h2]
    simp only [hplus, d1, hE]
    rw [if_pos hyes]
    simp only [hins]

/-- The first half of `postByte` for the `'&'` that ends a value. -/
theorem postByteFirst_amp (W Y : WebServer) (b : Bool)
    (hps : W.PostState = WSPostState.GettingValue)
    (hcopy : WS_CopyLineBuffer2POSTVar W = some (Y, b)) :
    postByteFirst W 38 =
      some { Y with PostState := if b = true then WSPostState.GettingKey
                                 else WSPostState.Error } := by
  unfold postByteFirst
  rw [hps]
  simp only [↓reduceIte, hcopy]
  cases b <;> rfl

theorem drop_cons_of_lt (L : List Nat) (n : Nat) (h : n < L.length) :
    ∃ b, L.drop n = b :: L.drop (n + 1) := by
  refine ⟨L[n], ?_⟩
  rw [List.drop_eq_getElem_cons h]

/-- A value without `'&'`, `'+'` or NUL whose last two bytes are not `'%'`, at the start
of the value of a declared name, followed by `'&'`, when the decoded bytes do not fit and
one byte of the storage is free: the bytes are stored, at the `'&'` the value is clipped,
the status becomes 507 and the state Error. What is left of the `'&'` is the second half
of `postByte`. -/
theorem postBodyLoop_clip (W : WebServer) (v rest : List Nat) (wp E m : Nat)
    (hps : W.PostState = WSPostState.GettingValue) (hpos : W.LineBuffPos = 0)
    (hl : W.LineBuff.length = WS_LINE_BUFFER_SIZE) (hv : v.length + 1 < WS_LINE_BUFFER_SIZE)
    (h38 : 38 ∉ v) (hvn : NoNul v) (h43 : 43 ∉ v)
    (hlast : v[v.length - 1]? ≠ some 37) (hprev : v[v.length - 2]? ≠ some 37)
    (hwp : W.PostWritePos = some wp) (hE : W.PostEndOfStorage = some E) (hle : wp ≤ E)
    (hover : E + (decodedBytes v).length + 1 > WS_OPT_ARG_MEMORY_SIZE)
    (hfree : E + 1 ≤ WS_OPT_ARG_MEMORY_SIZE)
    (hA : W.ArgsStorage.length = WS_OPT_ARG_MEMORY_SIZE)
    (hb : W.BodySize = v.length + (m + 1)) (hlt : W.BodySize < 4294967296) :
    postBodyLoop W (v ++ 38 :: rest) =
      (postByteEnd { W with
          LineBuff := decodedBytes v ++ 0 ::
            (v ++ 0 :: W.LineBuff.drop (v.length + 1)).drop ((decodedBytes v).length + 1)
          LineBuffPos := v.length
          ArgsStorage := W.ArgsStorage.take wp ++ ([0] ++
            ((W.ArgsStorage.drop wp).take (E - wp) ++
              (W.ArgsStorage.drop wp).drop (1 + (E - wp))))
          ReplyStatus := ReplyStatus.InsufficientStorage
          PostState := WSPostState.Error
          BodySize := m + 1 }).bind
        (fun p => if p.2 = true then some (p.1, rest) else postBodyLoop p.1 rest) := by
  have h256 : WS_LINE_BUFFER_SIZE = 256 := rfl
  have hplain := postBodyLoop_plain_eq v W m (38 :: rest) (Or.inr ⟨hps, h38⟩)
    (by rw [hpos]; omega) hl hb hlt
  rw [hpos] at hplain
  simp only [List.take_zero, List.nil_append, Nat.zero_add] at hplain
  rw [hplain]
  obtain ⟨b, hdrop⟩ := drop_cons_of_lt W.LineBuff v.length (by omega)
  have hcopy := copyLineBuffer_clips_eq
    { W with LineBuff := v ++ W.LineBuff.drop v.length, LineBuffPos := v.length,
             BodySize := m + 1 } v b (W.LineBuff.drop (v.length + 1)) wp E
    (by show v ++ W.LineBuff.drop v.length = _; rw [hdrop])
    (by simp only [List.length_drop]; omega) rfl hvn h43 hlast hprev hwp hE hle hover hfree hA
  have hfirst := postByteFirst_amp
    { W with LineBuff := v ++ W.LineBuff.drop v.length, LineBuffPos := v.length,
             BodySize := m + 1 } _ false hps hcopy
  exact postBodyLoop_cons_first rest hfirst

set_option maxRecDepth 1000000 in
/-- The body `a=`, 120 times `x`, `&b=1` for Post names `[a, b]`, from the start of the
Body phase: the bytes up to the `'&'` are stored and the value is clipped; what is left of
the `'&'` is the second half of `postByte`. -/
theorem clippedBody_eq :
    postBodyLoop (bodySession none none (some [B "a", B "b"])
        (B "a=" ++ List.replicate 120 120 ++ B "&b=1"))
      (B "a=" ++ (List.replicate 120 120 ++ 38 :: B "b=1")) =
    (postByteEnd { afterBody (bodySession none none (some [B "a", B "b"])
          (B "a=" ++ List.replicate 120 120 ++ B "&b=1")) (B "a=") with
        LineBuff := decodedBytes (List.replicate 120 120) ++ 0 ::
          (List.replicate 120 120 ++ 0 :: (afterBody (bodySession none none (some [B "a", B "b"])
            (B "a=" ++ List.replicate 120 120 ++ B "&b=1")) (B "a=")).LineBuff.drop
              ((List.replicate 120 120).length + 1)).drop
            ((decodedBytes (List.replicate 120 120)).length + 1)
        LineBuffPos := (List.replicate 120 120).length
        ArgsStorage := (afterBody (bodySession none none (some [B "a", B "b"])
            (B "a=" ++ List.replicate 120 120 ++ B "&b=1")) (B "a=")).ArgsStorage.take 1 ++ ([0] ++
          (((afterBody (bodySession none none (some [B "a", B "b"])
            (B "a=" ++ List.replicate 120 120 ++ B "&b=1")) (B "a=")).ArgsStorage.drop 1).take (2 - 1)
            ++ ((afterBody (bodySession none none (some [B "a", B "b"])
            (B "a=" ++ List.replicate 120 120 ++ B "&b=1")) (B "a=")).ArgsStorage.drop 1).drop
              (1 + (2 - 1))))
        ReplyStatus := ReplyStatus.InsufficientStorage
        PostState := WSPostState.Error
        BodySize := 3 + 1 }).bind
      (fun p => if p.2 = true then some (p.1, B "b=1") else postBodyLoop p.1 (B "b=1")) := by
  have hS1 : (postBodyLoop (bodySession none none (some [B "a", B "b"])
        (B "a=" ++ List.replicate 120 120 ++ B "&b=1")) (B "a=")).isSome = true := by
    decide!
  have hS2 : (afterBody (bodySession none none (some [B "a", B "b"])
        (B "a=" ++ List.replicate 120 120 ++ B "&b=1")) (B "a=")).BodySize ≠ 0 := by
    decide!
  rw [postBodyLoop_after _ _ _ hS1 hS2]
  exact postBodyLoop_clip _ (List.replicate 120 120) (B "b=1") 1 2 3
    (by decide!) (by decide!) (by decide!) (by decide!) (by decide!) (by unfold NoNul; decide!)
    (by decide!) (by decide!) (by decide!) (by decide!) (by decide!) (by decide)
    (by decide!) (by decide!) (by decide!) (by decide!) (by decide!)

set_option maxRecDepth 1000000 in
/-- C34, what the code does: for Post names `[a, b]` and the body `a=`, 120 times `x`,
`&b=1` the value of `a` does not fit; this is found at the `'&'` that ends the value,
the status becomes 507 and the Error state is entered with that `'&'` used up, so the
bytes that are discarded up to the next `'&'` are those of the following field: `b=1`
is not stored, the entry of `b` stays `'N'` and `WS_POST("b")` is NULL. The automatic
507 reply is what is sent, the connection stays connected and the session is back in
the Request phase. -/
theorem C34_field_after_overflow_is_discarded :
    (B "a=" ++ List.replicate 120 120 ++ B "&b=1").length = 126 ∧
    (turnsFrom (oneFileTable none none (some [B "a", B "b"]) (echoArg ArgView.post (B "b"))) 0 4
        freshWeb (B "POST / HTTP/1.1\r\nContent-Length: 126\r\n\r\n" ++ B "a="
          ++ List.replicate 120 120 ++ B "&b=1")).map
      (fun r => decide (r.1.State = WebServerState.Response ∧
        r.1.ReplyStatus = ReplyStatus.InsufficientStorage ∧
        r.1.ArgsStorage.take 5 = [89, 0, 78, 0, 0] ∧
        postValue r.1 (B "b") = some none)) = some true ∧
    (WS_RunServer (oneFileTable none none (some [B "a", B "b"]) (echoArg ArgView.post (B "b"))) 0
        freshWeb (B "POST / HTTP/1.1\r\nContent-Length: 126\r\n\r\n" ++ B "a="
          ++ List.replicate 120 120 ++ B "&b=1")).map
      (fun w => (w.Con.Sent, w.Con.State, w.State))
      = some (autoReply ReplyStatus.InsufficientStorage, ConnectState.Connected,
          WebServerState.Request) := by
  have t1 : turnsFrom (oneFileTable none none (some [B "a", B "b"]) (echoArg ArgView.post (B "b")))
      0 3 freshWeb
      (B "POST / HTTP/1.1\r\nContent-Length: 126\r\n\r\n" ++ B "a="
          ++ List.replicate 120 120 ++ B "&b=1")
      = some (bodySession none none (some [B "a", B "b"])
            (B "a=" ++ List.replicate 120 120 ++ B "&b=1"),
          B "a=" ++ (List.replicate 120 120 ++ 38 :: B "b=1")) := by
    decide!
  have hS1 : (bodySession none none (some [B "a", B "b"])
        (B "a=" ++ List.replicate 120 120 ++ B "&b=1")).State = WebServerState.Body ∧
      (bodySession none none (some [B "a", B "b"])
        (B "a=" ++ List.replicate 120 120 ++ B "&b=1")).Req = ReqType.Post := by
    decide!
  refine ⟨by decide!, ?_, ?_⟩
  · rw [turnsFrom_add _ _ 3 1, t1, Option.some_bind, turnsFrom_postBody _ _ _ _ hS1.1 hS1.2,
      clippedBody_eq]
    decide!
  · unfold WS_RunServer
    rw [runServer_turns _ _ 3 _ _ _ _ t1 (by decide), runServer_postBody _ _ _ _ hS1.1 hS1.2,
      clippedBody_eq]
    decide!

/-! ## Lines that do not fit, and a key that does not fit -/

/-- In the Headers phase, bytes of a line without a line feed that do not fit in the line
buffer: the run writes the automatic 431 reply and closes the connection. -/
theorem runServer_headerTooLong (m_Files : List FileInfo) (now : Nat)
    (Web : WebServer) (a rest : List Nat) (ha : 10 ∉ a)
    (hL : Web.LineBuff.length = WS_LINE_BUFFER_SIZE)
    (hp : Web.LineBuffPos < WS_LINE_BUFFER_SIZE)
    (hov : WS_LINE_BUFFER_SIZE ≤ Web.LineBuffPos + (stripCR a).length)
    (hs : Web.State = WebServerState.Headers) (hu : Web.UserSetReplyStatus = false)
    (hw : Web.WriteChunked = false) (hc : Web.Con.State = ConnectState.Connected) :
    runServer m_Files now Web (a ++ rest) =
      some ({ Web with
             LineBuff := Web.LineBuff.take Web.LineBuffPos ++
               (stripCR a).take (WS_LINE_BUFFER_SIZE - Web.LineBuffPos)
             LineBuffPos := 0
             ReplyStatus := ReplyStatus.RequestHeaderFieldsTooLarge
             ReplyStarted := true
             State := WebServerState.Closed
             Con := { Web.Con with
                      State := ConnectState.Idle, SocketFD := -1,
                      Sent := Web.Con.Sent ++
                        autoReply ReplyStatus.RequestHeaderFieldsTooLarge } },
        RunExit.closed) := by
  have hg : WS_GetNextLine Web (a ++ rest) = _ := getNextLineLoop_overflow a ha rest 0 Web hL hp hov
  rw [runServer_succ, serverTurn_headers _ hs, hg]
  simp only [Int.reduceNeg, Int.neg_eq_zero, one_ne_zero, ↓reduceIte, Int.neg_neg_iff_pos,
    zero_lt_one, Left.neg_neg_iff]
  rw [show (a ++ rest).length + 2 = ((a ++ rest).length + 1) + 1 by omega,
    runServerLoop_closed _ _ _ _ (tooLongReply_state _ _),
    tooLongReply_auto
      { Web with
        LineBuff := Web.LineBuff.take Web.LineBuffPos ++
          (stripCR a).take (WS_LINE_BUFFER_SIZE - Web.LineBuffPos)
        LineBuffPos := 0 }
      ReplyStatus.RequestHeaderFieldsTooLarge (by decide) hu hw hc]
  rfl

set_option maxRecDepth 1000000 in
/-- C13 fails as stated: a line of 256 bytes (`WS_LINE_BUFFER_SIZE`) before its line
feed is not accepted, `WS_GetNextLine` returns -1 for it. -/
theorem C13_counterexample :
    (List.replicate 256 97).length = WS_LINE_BUFFER_SIZE ∧
    (WS_GetNextLine freshWeb (List.replicate 256 97 ++ [10])).map (fun r => r.2) = some (-1) := by
  refine ⟨by decide, ?_⟩
  unfold WS_GetNextLine
  rw [getNextLineLoop_overflow (List.replicate 256 97) (by decide!) [10] 0 freshWeb (by decide)
    (by decide) (by decide!)]
  rfl

set_option maxRecDepth 1000000 in
/-- C11 fails as stated: for the table of `FileServer.c` (one file, `/`) and the path
`/nope`, (1) the header `If-None-Match: "1.0.0.0"` makes the reply the automatic
304 reply, not 404; (2) the header `If-None-Match: x` makes it the 400 reply; (3) a
header line of 256 bytes makes it the 431 reply and the connection is closed;
(4) a `POST` body with a key of 255 bytes makes it the 507 reply. -/
theorem C11_counterexample :
    ((WS_RunServer (fileServerTable (B "hello")) 0 freshWeb
        (B "GET /nope HTTP/1.1\r\nIf-None-Match: \"1.0.0.0\"\r\n\r\n")).map
      (fun w => (w.Con.Sent, w.State, w.Con.State))
      = some (autoReply ReplyStatus.NotModified, WebServerState.Request,
          ConnectState.Connected)) ∧
    ((WS_RunServer (fileServerTable (B "hello")) 0 freshWeb
        (B "GET /nope HTTP/1.1\r\nIf-None-Match: x\r\n\r\n")).map
      (fun w => (w.Con.Sent, w.State, w.Con.State))
      = some (autoReply ReplyStatus.BadRequest, WebServerState.Request,
          ConnectState.Connected)) ∧
    ((WS_RunServer (fileServerTable (B "hello")) 0 freshWeb
        (B "GET /nope HTTP/1.1\r\n" ++ List.replicate 256 97 ++ B "\r\n\r\n")).map
      (fun w => (w.Con.Sent, w.State, w.Con.State))
      = some (autoReply ReplyStatus.RequestHeaderFieldsTooLarge, WebServerState.Closed,
          ConnectState.Idle)) ∧
    ((WS_RunServer (fileServerTable (B "hello")) 0 freshWeb
        (B "POST /nope HTTP/1.1\r\nContent-Length: 255\r\n\r\n" ++ List.replicate 255 97)).map
      (fun w => (w.Con.Sent, w.State, w.Con.State))
      = some (autoReply ReplyStatus.InsufficientStorage, WebServerState.Request,
          ConnectState.Connected)) := by
  refine ⟨by decide!, by decide!, ?_, ?_⟩
  · -- the request line, then the line that does not fit
    have t1 : turnsFrom (fileServerTable (B "hello")) 0 1 freshWeb
        (B "GET /nope HTTP/1.1\r\n" ++ List.replicate 256 97 ++ B "\r\n\r\n")
        = some (sessionAfter (fileServerTable (B "hello")) 1 (B "GET /nope HTTP/1.1\r\n"),
            List.replicate 256 97 ++ B "\r\n\r\n") := by
      decide!
    unfold WS_RunServer
    rw [runServer_turns _ _ 1 _ _ _ _ t1 (by decide),
      runServer_headerTooLong _ _ _ (List.replicate 256 97) (B "\r\n\r\n") (by decide!)
        (by decide!) (by decide!) (by decide!) (by decide!) (by decide!) (by decide!)
        (by decide!)]
    decide!
  · -- the header lines, then the key
    have t1 : turnsFrom (fileServerTable (B "hello")) 0 3 freshWeb
        (B "POST /nope HTTP/1.1\r\nContent-Length: 255\r\n\r\n" ++ List.replicate 255 97)
        = some (sessionAfter (fileServerTable (B "hello")) 3
              (B "POST /nope HTTP/1.1\r\nContent-Length: 255\r\n\r\n"),
            List.replicate 254 97 ++ [97]) := by
      decide!
    unfold WS_RunServer
    rw [runServer_turns _ _ 3 _ _ _ _ t1 (by decide),
      runServer_postBody _ _ _ _ (by decide!) (by decide!),
      postBodyLoop_plain_eq (List.replicate 254 97) _ 0 [97] (Or.inl ⟨by decide!, by decide!⟩)
        (by decide!) (by decide!) (by decide!) (by decide!)]
    decide!

/-! ## `storeEntry` and `storeAll` with the parts of the storage -/

theorem copyList_fits_eq (v : List Nat) :
    ∀ (A : List Nat) (W : Nat), W + v.length ≤ WS_OPT_ARG_MEMORY_SIZE → W + v.length ≤ A.length →
      copyList v A W = some (A.take W ++ (v ++ A.drop (W + v.length)), W + v.length, false) := by
  induction v with
  | nil => intro A W _ _; simp [copyList]
  | cons c cs ih =>
    intro A W h1 h2
    simp only [List.length_cons] at h1 h2
    have hw := wr_some A W c (by omega)
    have e := ih (A.set W c) (W + 1) (by omega) (by simp; omega)
    rw [copyList]
    simp only [show ¬ (W ≥ WS_OPT_ARG_MEMORY_SIZE) by omega, ↓reduceIte, hw, e]
    rw [take_set_succ A W c (by omega), List.drop_set_of_lt _ _ (by omega)]
    simp only [List.length_cons, List.append_assoc, List.singleton_append, List.cons_append,
      List.nil_append]
    rw [show W + 1 + cs.length = W + (cs.length + 1) by omega]

theorem copyList_over_eq (v : List Nat) :
    ∀ (A : List Nat) (W : Nat), W ≤ WS_OPT_ARG_MEMORY_SIZE →
      W + v.length > WS_OPT_ARG_MEMORY_SIZE → A.length = WS_OPT_ARG_MEMORY_SIZE →
      copyList v A W =
        some (A.take W ++ v.take (WS_OPT_ARG_MEMORY_SIZE - W), WS_OPT_ARG_MEMORY_SIZE, true) := by
  induction v with
  | nil => intro A W h1 h2 _; simp at h2; omega
  | cons c cs ih =>
    intro A W h1 h2 hA
    simp only [List.length_cons] at h2
    rw [copyList]
    by_cases hW : W ≥ WS_OPT_ARG_MEMORY_SIZE
    · have e : W = WS_OPT_ARG_MEMORY_SIZE := by omega
      rw [if_pos hW, e, Nat.sub_self, List.take_zero, List.append_nil,
        List.take_of_length_le (by omega)]
    · have hw := wr_some A W c (by omega)
      have e := ih (A.set W c) (W + 1) (by omega) (by omega) (by simpa using hA)
      rw [if_neg hW]
      simp only [hw, e]
      rw [take_set_succ A W c (by omega),
        show WS_OPT_ARG_MEMORY_SIZE - W = (WS_OPT_ARG_MEMORY_SIZE - (W + 1)) + 1 by omega,
        List.take_succ_cons]
      simp only [List.append_assoc, List.singleton_append]

/-- `storeEntry` in a storage of `WS_OPT_ARG_MEMORY_SIZE` bytes, for a value without
NUL. -/
theorem storeEntry_eq_parts (v : Option (List Nat)) (A : List Nat) (W : Nat)
    (hA : A.length = WS_OPT_ARG_MEMORY_SIZE) (hv : ∀ val, v = some val → NoNul val) :
    storeEntry v A W = some (storeEntryParts v A W) := by
  have h100 : WS_OPT_ARG_MEMORY_SIZE = 100 := rfl
  unfold storeEntry storeEntryParts
  by_cases hW : W ≥ WS_OPT_ARG_MEMORY_SIZE
  · rw [if_pos hW, if_pos hW]
  · rw [if_neg hW, if_neg hW]
    cases v with
    | none =>
      simp only [Option.isSome_none, Bool.false_eq_true, ↓reduceIte]
      rw [wr_some _ _ _ (by omega), set_eq_parts _ _ _ (by omega)]
    | some val =>
      have hvn : NoNul val := hv val rfl
      simp only [Option.isSome_some, ↓reduceIte]
      rw [wr_some _ _ _ (by omega)]
      simp only []
      have hlen1 : (A.set W 89).length = WS_OPT_ARG_MEMORY_SIZE := by simpa using hA
      have htk : (A.set W 89).take (W + 1) = A.take W ++ [89] := take_set_succ A W 89 (by omega)
      by_cases hov : W + 1 + val.length > WS_OPT_ARG_MEMORY_SIZE
      · rw [copyList_over_eq val (A.set W 89) (W + 1) (by omega) hov hlen1]
        simp only []
        rw [if_pos (by omega), htk]
        simp only [List.append_assoc, List.singleton_append]
        rw [show WS_OPT_ARG_MEMORY_SIZE - (W + 1) = WS_OPT_ARG_MEMORY_SIZE - 1 - W by omega]
      · rw [copyList_fits_eq val (A.set W 89) (W + 1) (by omega) (by omega)]
        simp only []
        by_cases hfull : W + 1 + val.length ≥ WS_OPT_ARG_MEMORY_SIZE
        · have e1 : val.take (WS_OPT_ARG_MEMORY_SIZE - 1 - W) = val :=
            List.take_of_length_le (by omega)
          rw [if_pos hfull, if_pos hfull, htk,
            List.drop_of_length_le (by rw [hlen1]; omega), e1]
          simp only [List.append_assoc, List.singleton_append, List.append_nil]
          rw [show W + 1 + val.length = WS_OPT_ARG_MEMORY_SIZE by omega]
        · rw [if_neg hfull, if_neg hfull, htk, List.drop_set_of_lt _ _ (by omega)]
          have hLl : (A.take W ++ [89] ++ (val ++ A.drop (W + 1 + val.length))).length
              = WS_OPT_ARG_MEMORY_SIZE := by
            simp only [List.length_append, List.length_take, List.length_singleton,
              List.length_drop]
            omega
          rw [wr_some _ _ _ (by rw [hLl]; omega)]
          simp only []
          have hA3 : (A.take W ++ [89] ++ (val ++ A.drop (W + 1 + val.length))).set
              (W + 1 + val.length) 0
              = A.take W ++ ((89 :: val) ++ 0 :: A.drop (W + val.length + 2)) := by
            have hp : (A.take W ++ [89] ++ val).length = W + 1 + val.length := by
              simp only [List.length_append, List.length_take, List.length_singleton]
              omega
            obtain ⟨b, hb⟩ := drop_cons_of_lt A (W + 1 + val.length) (by omega)
            rw [hb, ← List.append_assoc, ← hp, List.set_append_right _ _ (le_refl _),
              Nat.sub_self, List.set_cons_zero, hp]
            simp only [List.append_assoc, List.singleton_append, List.cons_append,
              List.nil_append]
            rw [show W + 1 + val.length + 1 = W + val.length + 2 by omega]
          rw [hA3]
          have hs : NoNul (89 :: val) := by
            intro c hc
            simp only [List.mem_cons] at hc
            rcases hc with h | h
            · omega
            · exact hvn c h
          have hWl : (A.take W).length = W := List.length_take_of_le (by omega)
          have hd := urlDecodeInPlace_exact
            (A.take W ++ ((89 :: val) ++ 0 :: A.drop (W + val.length + 2))) W (89 :: val)
            (A.drop (W + val.length + 2)) (by rw [List.drop_left' hWl]) hs
          rw [hd, decodedBytes_cons_ne 89 val (by decide), List.take_left' hWl]
          simp only [List.length_cons, Option.some.injEq, Prod.mk.injEq]
          refine ⟨?_, by omega, trivial⟩
          have e2 : W + ((decodedBytes val).length + 1) + 1
              = (A.take W).length + ((decodedBytes val).length + 2) := by omega
          rw [e2, List.drop_append]

theorem storeEntryParts_length (v : Option (List Nat)) (A : List Nat) (W : Nat)
    (hA : A.length = WS_OPT_ARG_MEMORY_SIZE) :
    (storeEntryParts v A W).1.length = WS_OPT_ARG_MEMORY_SIZE := by
  have h100 : WS_OPT_ARG_MEMORY_SIZE = 100 := rfl
  unfold storeEntryParts
  by_cases hW : W ≥ WS_OPT_ARG_MEMORY_SIZE
  · rw [if_pos hW]; exact hA
  · rw [if_neg hW]
    cases v with
    | none =>
      simp only [List.length_append, List.length_take, List.length_cons, List.length_drop]
      omega
    | some val =>
      simp only []
      by_cases hfull : W + 1 + val.length ≥ WS_OPT_ARG_MEMORY_SIZE
      · rw [if_pos hfull]
        simp only [List.length_append, List.length_take, List.length_cons]
        omega
      · rw [if_neg hfull]
        have hd := decodedBytes_length_le val.length val rfl
        simp only [List.length_append, List.length_take, List.length_cons, List.length_drop]
        omega

/-- `storeAll` in a storage of `WS_OPT_ARG_MEMORY_SIZE` bytes, for values without NUL. -/
theorem storeAll_eq_parts (look : List Nat → Option (List Nat)) (names : List (List Nat)) :
    ∀ (A : List Nat) (W : Nat), A.length = WS_OPT_ARG_MEMORY_SIZE →
      (∀ nm ∈ names, ∀ val, look (cstr nm) = some val → NoNul val) →
      storeAll look names A W = some (storeAllParts look names A W) := by
  induction names with
  | nil => intro A W _ _; rfl
  | cons nm rest ih =>
    intro A W hA hv
    have h1 := storeEntry_eq_parts (look (cstr nm)) A W hA
      (fun val h => hv nm (List.mem_cons_self _ _) val h)
    have h2 := storeEntryParts_length (look (cstr nm)) A W hA
    have h3 := ih (storeEntryParts (look (cstr nm)) A W).1
      (storeEntryParts (look (cstr nm)) A W).2.1 h2
      (fun n hn => hv n (List.mem_cons_of_mem _ hn))
    rw [storeAll, storeAllParts, h1]
    generalize storeEntryParts (look (cstr nm)) A W = r at h3 ⊢
    obtain ⟨A1, W1, b⟩ := r
    cases b
    · simpa using h3
    · simp

/-- `storeAll` for the values that a query without NUL gives. -/
theorem storeAll_query (q : List Nat) (names : List (List Nat)) (A : List Nat) (W : Nat)
    (hq : NoNul q) (hA : A.length = WS_OPT_ARG_MEMORY_SIZE) :
    storeAll (fun g => findSeg g (querySegments q)) names A W =
      some (storeAllParts (fun g => findSeg g (querySegments q)) names A W) :=
  storeAll_eq_parts _ names A W hA
    (fun _ _ val h => findSeg_noNul _ _ (querySegments_noNul q hq) val h)

/-- `WS_ProcessURI` followed by `WS_ProcessGetVars`, after `WS_ProcessURI`. -/
theorem uriThenGetVars_of {Web W1 : WebServer} {b : Bool}
    (h : WS_ProcessURI Web = some (W1, b)) : uriThenGetVars Web = WS_ProcessGetVars W1 := by
  unfold uriThenGetVars
  rw [h]

set_option maxRecDepth 1000000 in
/-- C7 fails as stated, for Get names `[a, b, c]`. (1) Query `b=%00x`: `b` is the only
declared name that occurs, and `WS_GET(c)` is not NULL. (2) Query `b=` followed by 98
times `x`: the value does not fit, the status becomes 507 and `WS_GET(b)` does not
give the value (the stored bytes are not terminated inside the storage). -/
theorem C7_counterexample :
    ((WS_ProcessGetVars (sessionWith (some [B "a", B "b", B "c"]) none none
        (B "GET /" ++ [0] ++ B "b=%00x"))).map
      (fun w => (getValue w (B "a"), getValue w (B "c")))
      = some (some none, some (some []))) ∧
    ((WS_ProcessGetVars (sessionWith (some [B "a", B "b", B "c"]) none none
        (B "GET /" ++ [0] ++ B "b=" ++ List.replicate 98 120))).map
      (fun w => (w.ReplyStatus, getValue w (B "b")))
      = some (ReplyStatus.InsufficientStorage, none)) := by
  refine ⟨by decide!, ?_⟩
  rw [processGetVars_eq _ (B "GET /") (B "b=" ++ List.replicate 98 120) (List.replicate 149 0)
    (by unfold NoNul; decide!) (by unfold NoNul; decide!) (by decide!)]
  rw [getVarsResult, storeAll_query _ _ _ _ (by unfold NoNul; decide!) (by decide!)]
  decide!

set_option maxRecDepth 1000000 in
/-- C1 fails as stated. (1) Get names `[a]`, query `a=` followed by 34 times `%41`: the
escapes are well formed, the decoded entry (`'Y'`, 34 bytes, NUL) takes 36 of the 100
bytes, but the raw value does not fit, the status becomes 507 and the storage does not
hold the entry. (2) Get names `[a=b]`, query `a=b=c`: the key of the only segment is
`a`, which is not the declared name, yet the entry is stored as present. -/
theorem C1_counterexample :
    (wellFormedPct (repeatBytes 34 (B "%41")) = true ∧
      NoNul (pctDecode (repeatBytes 34 (B "%41"))) ∧
      (entryBytes (some (repeatBytes 34 (B "%41")))).length = 36 ∧
      (uriThenGetVars (sessionWith (some [B "a"]) none none
          (B "GET /?a=" ++ repeatBytes 34 (B "%41") ++ B " HTTP/1.1"))).map
        (fun w => (w.ReplyStatus, decide (w.ArgsStorage.take 36
          = entryBytes (some (repeatBytes 34 (B "%41"))))))
        = some (ReplyStatus.InsufficientStorage, false)) ∧
    (segKey (B "a=b=c") = B "a" ∧
      (uriThenGetVars (sessionWith (some [B "a=b"]) none none (B "GET /?a=b=c HTTP/1.1"))).map
        (fun w => (w.ReplyStatus, w.ArgsStorage.take 3))
        = some (ReplyStatus.MAX, [89, 99, 0])) := by
  refine ⟨⟨by decide!, by unfold NoNul; decide!, by decide!, ?_⟩, by decide!⟩
  rw [uriThenGetVars_of (processURI_with_query _ (B "GET /")
      (B "a=" ++ repeatBytes 34 (B "%41")) (List.replicate 136 0) (by decide!)
      (by unfold NoNul; decide!) (by decide!)),
    processGetVars_eq _ (B "GET /") (B "a=" ++ repeatBytes 34 (B "%41"))
    (B "HTTP/1.1" ++ [0] ++ List.replicate 136 0)
    (by unfold NoNul; decide!) (by unfold NoNul; decide!) rfl]
  rw [getVarsResult, storeAll_query _ _ _ _ (by unfold NoNul; decide!) (by decide!)]
  decide!

/-! ## The turn of the Request phase for a file of the table -/

/-- The turn of the Request phase for `GET` or `POST` of a file of the table, for a
request line with a query that fits in the line buffer. -/
theorem requestTurn_query (m_Files : List FileInfo) (now : Nat) (W : WebServer)
    (l rest M p q : List Nat) (req : ReqType) (pp : WSPageProp) (hl : 10 ∉ l)
    (hM : (M = B "GET " ∧ req = ReqType.Get) ∨ (M = B "POST " ∧ req = ReqType.Post))
    (hp : ∀ x ∈ p, x ≠ 63 ∧ x ≠ 0) (hq : NoNul q)
    (hstored : stripCR l = M ++ p ++ 63 :: q ++ B " HTTP/1.1")
    (hfit : (stripCR l).length < WS_LINE_BUFFER_SIZE)
    (hf : FS_GetFileProperties m_Files p W.PageProp = (pp, true))
    (hs : W.State = WebServerState.Request) (hp0 : W.LineBuffPos = 0)
    (hL : W.LineBuff.length = WS_LINE_BUFFER_SIZE) :
    serverTurn m_Files now W (l ++ 10 :: rest) =
      (getVarsResult (fun g => findSeg g (querySegments q)) pp W.ArgsStorage W.ReplyStatus).map
        (fun r => Turn.again
          { W with
            State := WebServerState.Headers
            Req := req
            PageProp := pp
            LineBuffPos := 0
            LineBuff := (M ++ p) ++ (0 :: (q.map (fun c => if c = 38 then 0 else c) ++
              0 :: (B "HTTP/1.1" ++ [0] ++ W.LineBuff.drop ((stripCR l).length + 1))))
            ArgsStorage := r.1
            ReplyStatus := r.2 } rest) := by
  have hline := getNextLineLoop_fits l hl rest 0 W hL (by rw [hp0]; omega)
  rw [hp0, List.take_zero, List.nil_append, Nat.zero_add] at hline
  rw [serverTurn_request _ hs]
  unfold WS_GetNextLine
  rw [hline]
  have h0 : ¬ (((0 : Nat) : Int) + (l.length : Int) + 1 = 0) := by omega
  have h1 : ¬ (((0 : Nat) : Int) + (l.length : Int) + 1 < 0) := by omega
  simp only [h0, h1, ↓reduceIte, drop_line]
  have hL1 : stripCR l ++ 0 :: W.LineBuff.drop ((stripCR l).length + 1) =
      (M ++ p) ++ [63] ++ q ++ B " HTTP/1.1" ++ [0] ++ W.LineBuff.drop ((stripCR l).length + 1) := by
    rw [hstored]
    simp only [List.append_assoc, List.singleton_append, List.cons_append, List.nil_append]
  have hMn : ∀ x ∈ M, x ≠ 63 ∧ x ≠ 0 := by
    rcases hM with ⟨rfl, _⟩ | ⟨rfl, _⟩ <;> decide
  have hMnn : NoNul M := fun x hx => (hMn x hx).2
  have hhead : ∀ x ∈ M ++ p, x ≠ 63 ∧ x ≠ 0 := by
    intro x hx
    rcases List.mem_append.1 hx with hx | hx
    · exact hMn x hx
    · exact hp x hx
  have hpn : NoNul p := fun x hx => (hp x hx).2
  have hsw : startsWith (stripCR l ++ 0 :: W.LineBuff.drop ((stripCR l).length + 1)) 0 M
      = true := by
    rw [hL1]
    simp only [List.append_assoc]
    exact startsWith_self _ _
  have huri := processURI_with_query
    { W with LineBuff := stripCR l ++ 0 :: W.LineBuff.drop ((stripCR l).length + 1)
             LineBuffPos := 0, Req := req } (M ++ p) q
    (W.LineBuff.drop ((stripCR l).length + 1)) hhead hq hL1
  have hc := cstrAt_append M p (q ++ 0 :: (B "HTTP/1.1" ++ [0] ++
    W.LineBuff.drop ((stripCR l).length + 1))) hpn
  have hgv := processGetVars_eq
    { W with LineBuff := (M ++ p) ++ (0 :: (q ++ 0 :: (B "HTTP/1.1" ++ [0] ++
               W.LineBuff.drop ((stripCR l).length + 1))))
             LineBuffPos := 0, Req := req, PageProp := pp } (M ++ p) q
    (B "HTTP/1.1" ++ [0] ++ W.LineBuff.drop ((stripCR l).length + 1))
    (fun x hx => (hhead x hx).2) hq rfl
  have hreq : requestLine m_Files
      { W with LineBuff := stripCR l ++ 0 :: W.LineBuff.drop ((stripCR l).length + 1)
               LineBuffPos := 0 } req M.length =
      WS_ProcessGetVars
        { W with LineBuff := (M ++ p) ++ (0 :: (q ++ 0 :: (B "HTTP/1.1" ++ [0] ++
                   W.LineBuff.drop ((stripCR l).length + 1))))
                 LineBuffPos := 0, Req := req, PageProp := pp } := by
    unfold requestLine
    rw [huri]
    dsimp only
    rw [List.append_assoc, hc]
    dsimp only
    rw [hf]
  have hml : methodLine m_Files
      { W with LineBuff := stripCR l ++ 0 :: W.LineBuff.drop ((stripCR l).length + 1)
               LineBuffPos := 0 } =
      requestLine m_Files
        { W with LineBuff := stripCR l ++ 0 :: W.LineBuff.drop ((stripCR l).length + 1)
                 LineBuffPos := 0 } req M.length := by
    unfold methodLine
    dsimp only
    rcases hM with ⟨rfl, rfl⟩ | ⟨rfl, rfl⟩
    · rw [hsw]
      rfl
    · have hg : startsWith (stripCR l ++ 0 :: W.LineBuff.drop ((stripCR l).length + 1)) 0
          (B "GET ") = false := by
        rw [Bool.eq_false_iff]
        intro hg
        have h80 := startsWith_rd hsw 0 (by decide)
        have h71 := startsWith_rd hg 0 (by decide)
        rw [h80] at h71
        exact absurd h71 (by decide)
      rw [hg, hsw]
      rfl
  rw [hml, hreq, hgv]
  cases getVarsResult (fun g => findSeg g (querySegments q)) pp W.ArgsStorage W.ReplyStatus with
  | none => rfl
  | some r =>
    simp only [Option.map_some', hs, nextState]

/-- One turn of the loop of `WS_RunServer` that is not left by a `return`. -/
theorem turnsFrom_one (m_Files : List FileInfo) (now : Nat) (W : WebServer) (bs : List Nat) :
    turnsFrom m_Files now 1 W bs =
      (serverTurn m_Files now W bs).bind
        (fun t => Turn.casesOn t (fun _ => none) (fun W1 rest => some (W1, rest))) := by
  rw [turnsFrom]
  cases serverTurn m_Files now W bs with
  | none => rfl
  | some t => cases t <;> rfl

/-- The run of `WS_RunServer` after its first turn. -/
theorem runServer_first (m_Files : List FileInfo) (now : Nat) (W : WebServer) (bs : List Nat) :
    runServer m_Files now W bs =
      (serverTurn m_Files now W bs).bind
        (fun t => Turn.casesOn t (fun r => some r)
          (fun W1 rest => runServerLoop m_Files now (bs.length + 2) W1 rest)) := by
  rw [runServer_succ]
  cases serverTurn m_Files now W bs with
  | none => rfl
  | some t => cases t <;> rfl

set_option maxRecDepth 1000000 in
/-- C35, what the code does: for Get names `[g]` and Post names `[a]` the request line
`POST /?g=` with 97 times `x` leaves `ArgsStorage` completely full, with the status
unset: `'Y'`, the 97 bytes, NUL and at offset 99 the `'N'` of `a`. For the body `a=1`
`WS_StartProcessingPOSTVar` puts `'Y'` at offset 99 and sets both `PostWritePos` and
`PostEndOfStorage` to offset 100. `WS_CopyLineBuffer2POSTVar` finds that the two bytes
do not fit and clips: `WS_InsertCopy(PostWritePos,PostEndOfStorage,&Zero,1)` writes the
NUL at offset 100, past the end of `ArgsStorage` (no result in the model). With 96
times `x` one byte is free and the 507 reply is sent. -/
theorem C35_clip_in_a_full_storage_writes_past_the_end :
    (turnsFrom (oneFileTable (some [B "g"]) none (some [B "a"]) (fun _ => [])) 0 3 freshWeb
        (B "POST /?g=" ++ List.replicate 97 120
          ++ B " HTTP/1.1\r\nContent-Length: 3\r\n\r\na=1")).map
      (fun r => decide (r.1.State = WebServerState.Body ∧ r.1.ReplyStatus = ReplyStatus.MAX ∧
        r.1.ArgsStorage = 89 :: (List.replicate 97 120 ++ [0, 78]) ∧ r.2 = B "a=1" ∧
        (postBodyLoop r.1 (B "a=")).map
          (fun p => (p.1.PostWritePos, p.1.PostEndOfStorage, p.1.ArgsStorage.drop 98))
          = some (some 100, some 100, [0, 89]) ∧
        postBodyLoop r.1 (B "a=1") = none)) = some true ∧
    WS_InsertCopy (89 :: (List.replicate 97 120 ++ [0, 89])) 100 100 [0] = none ∧
    WS_RunServer (oneFileTable (some [B "g"]) none (some [B "a"]) (fun _ => [])) 0 freshWeb
        (B "POST /?g=" ++ List.replicate 97 120
          ++ B " HTTP/1.1\r\nContent-Length: 3\r\n\r\na=1") = none ∧
    sentBytes (WS_RunServer (oneFileTable (some [B "g"]) none (some [B "a"]) (fun _ => [])) 0
        freshWeb (B "POST /?g=" ++ List.replicate 96 120
          ++ B " HTTP/1.1\r\nContent-Length: 3\r\n\r\na=1"))
      = some (autoReply ReplyStatus.InsufficientStorage) := by
  have e97 : B "POST /?g=" ++ List.replicate 97 120
        ++ B " HTTP/1.1\r\nContent-Length: 3\r\n\r\na=1"
      = (B "POST /?g=" ++ List.replicate 97 120 ++ B " HTTP/1.1\r")
        ++ 10 :: B "Content-Length: 3\r\n\r\na=1" := by decide!
  have e96 : B "POST /?g=" ++ List.replicate 96 120
        ++ B " HTTP/1.1\r\nContent-Length: 3\r\n\r\na=1"
      = (B "POST /?g=" ++ List.replicate 96 120 ++ B " HTTP/1.1\r")
        ++ 10 :: B "Content-Length: 3\r\n\r\na=1" := by decide!
  have t97 := requestTurn_query (oneFileTable (some [B "g"]) none (some [B "a"]) (fun _ => [])) 0
    freshWeb (B "POST /?g=" ++ List.replicate 97 120 ++ B " HTTP/1.1\r")
    (B "Content-Length: 3\r\n\r\na=1") (B "POST ") (B "/") (B "g=" ++ List.replicate 97 120)
    ReqType.Post
    { FileID := 0, DynamicFile := false, Cookies := none, Gets := some [B "g"],
      Posts := some [B "a"] }
    (by decide!) (Or.inr ⟨rfl, rfl⟩) (by decide!) (by unfold NoNul; decide!) (by decide!)
    (by decide!) (by decide!) (by decide!) (by decide!) (by decide!)
  have t96 := requestTurn_query (oneFileTable (some [B "g"]) none (some [B "a"]) (fun _ => [])) 0
    freshWeb (B "POST /?g=" ++ List.replicate 96 120 ++ B " HTTP/1.1\r")
    (B "Content-Length: 3\r\n\r\na=1") (B "POST ") (B "/") (B "g=" ++ List.replicate 96 120)
    ReqType.Post
    { FileID := 0, DynamicFile := false, Cookies := none, Gets := some [B "g"],
      Posts := some [B "a"] }
    (by decide!) (Or.inr ⟨rfl, rfl⟩) (by decide!) (by unfold NoNul; decide!) (by decide!)
    (by decide!) (by decide!) (by decide!) (by decide!) (by decide!)
  rw [getVarsResult, storeAll_query _ _ _ _ (by unfold NoNul; decide!) (by decide!)] at t97 t96
  refine ⟨?_, by decide!, ?_, ?_⟩
  · rw [e97, turnsFrom_add _ _ 1 2, turnsFrom_one, t97]
    decide!
  · rw [e97, WS_RunServer, runServer_first, t97]
    decide!
  · rw [e96, sentBytes, WS_RunServer, runServer_first, t96]
    decide!

theorem bind_getD {α β : Type} (o : Option α) (d : α) (f : α → Option β)
    (h : o.isSome = true) : o.bind f = f (o.getD d) := by
  cases o with
  | none => cases h
  | some a => rfl

theorem feedChunks_pair (m_Files : List FileInfo) (now : Nat) (W : WebServer)
    (c1 c2 : List Nat) :
    feedChunks m_Files now W [c1, c2] =
      (WS_RunServer m_Files now W c1).bind (fun W1 => WS_RunServer m_Files now W1 c2) := by
  rw [feedChunks]
  cases WS_RunServer m_Files now W c1 with
  | none => rfl
  | some W1 =>
    rw [Option.some_bind]
    show feedChunks m_Files now W1 [c2] = _
    rw [feedChunks]
    cases WS_RunServer m_Files now W1 c2 with
    | none => rfl
    | some W2 => rfl

/-- The turn of the Request phase for a `GET` line that has been read, for a file of the
table: `WS_ProcessGetVars` is called on the session that `WS_ProcessURI` leaves, whatever
`WS_ProcessURI` returns. -/
theorem requestTurn_get (m_Files : List FileInfo) (now : Nat) (W : WebServer)
    (bs fn : List Nat) (pp : WSPageProp)
    (hs : W.State = WebServerState.Request)
    (hline : (WS_GetNextLine W bs).isSome = true) (hn : 0 < lineUsed W bs)
    (hget : startsWith (afterLine W bs).LineBuff 0 (B "GET ") = true)
    (huri : (WS_ProcessURI { afterLine W bs with Req := ReqType.Get }).isSome = true)
    (hc : cstrAt (afterURI (afterLine W bs) ReqType.Get).LineBuff 4 = some fn)
    (hf : FS_GetFileProperties m_Files fn (afterURI (afterLine W bs) ReqType.Get).PageProp
      = (pp, true)) :
    serverTurn m_Files now W bs =
      (WS_ProcessGetVars { afterURI (afterLine W bs) ReqType.Get with PageProp := pp }).map
        (fun Web2 => Turn.again { Web2 with State := nextState Web2.State }
          (bs.drop (lineUsed W bs).toNat)) := by
  rw [serverTurn_request _ hs]
  cases hl : WS_GetNextLine W bs with
  | none => rw [hl] at hline; cases hline
  | some r =>
    obtain ⟨W1, n⟩ := r
    have e1 : afterLine W bs = W1 := by unfold afterLine; rw [hl]; rfl
    have e2 : lineUsed W bs = n := by unfold lineUsed; rw [hl]; rfl
    rw [e1] at hget huri hc hf ⊢
    rw [e2] at hn ⊢
    have h0 : ¬ (n = 0) := by omega
    have h1 : ¬ (n < 0) := by omega
    simp only [h0, h1, ↓reduceIte]
    cases hu : WS_ProcessURI { W1 with Req := ReqType.Get } with
    | none => rw [hu] at huri; cases huri
    | some r2 =>
      obtain ⟨W2, b⟩ := r2
      have e3 : afterURI W1 ReqType.Get = W2 := by unfold afterURI; rw [hu]; rfl
      rw [e3] at hc hf ⊢
      have hml : methodLine m_Files W1 = WS_ProcessGetVars { W2 with PageProp := pp } := by
        unfold methodLine
        rw [hget]
        simp only [↓reduceIte]
        unfold requestLine
        rw [hu]
        simp only [hc, hf]
      rw [hml]

set_option maxRecDepth 1000000 in
/-- C6, what the code does: the request `GET /` (no version) on a route declaring Get
name `one` is answered with 400 after an earlier request without query, and with 507
after an earlier request whose query value was 150 bytes long: the query of the
earlier request is still in the line buffer and is parsed again. -/
theorem C6_reply_depends_on_earlier_request :
    sentBytes (feedChunks (oneFileTable (some [B "one"]) none none
          (fun _ => [Action.WriteWhole (B "hi") 2])) 0 freshWeb
        [B "GET / HTTP/1.1\r\n\r\n", B "GET /\r\n\r\n"])
      = some (wholeReply (B "hi") ++ autoReply ReplyStatus.BadRequest) ∧
    sentBytes (feedChunks (oneFileTable (some [B "one"]) none none
          (fun _ => [Action.WriteWhole (B "hi") 2])) 0 freshWeb
        [B "GET /?one=" ++ List.replicate 150 120 ++ B " HTTP/1.1\r\n\r\n", B "GET /\r\n\r\n"])
      = some (autoReply ReplyStatus.InsufficientStorage
          ++ autoReply ReplyStatus.InsufficientStorage) := by
  refine ⟨by decide!, ?_⟩
  have e1 : B "GET /?one=" ++ List.replicate 150 120 ++ B " HTTP/1.1\r\n\r\n"
      = (B "GET /?one=" ++ List.replicate 150 120 ++ B " HTTP/1.1\r") ++ 10 :: B "\r\n" := by
    decide!
  have t1 := requestTurn_query (oneFileTable (some [B "one"]) none none
      (fun _ => [Action.WriteWhole (B "hi") 2])) 0
    freshWeb (B "GET /?one=" ++ List.replicate 150 120 ++ B " HTTP/1.1\r")
    (B "\r\n") (B "GET ") (B "/") (B "one=" ++ List.replicate 150 120)
    ReqType.Get
    { FileID := 0, DynamicFile := false, Cookies := none, Gets := some [B "one"],
      Posts := none }
    (by decide!) (Or.inl ⟨rfl, rfl⟩) (by decide!) (by unfold NoNul; decide!) (by decide!)
    (by decide!) (by decide!) (by decide!) (by decide!) (by decide!)
  rw [getVarsResult, storeAll_query _ _ _ _ (by unfold NoNul; decide!) (by decide!)] at t1
  rw [sentBytes, feedChunks_pair, e1, WS_RunServer, runServer_first, t1,
    bind_getD _ freshWeb _ (by decide!), WS_RunServer, runServer_first,
    requestTurn_get _ _ _ _ (B "/")
      { FileID := 0, DynamicFile := false, Cookies := none, Gets := some [B "one"],
        Posts := none }
      (by decide!) (by decide!) (by decide!) (by decide!) (by decide!) (by decide!) (by decide!),
    processGetVars_eq _ (B "GET /") (B "one=" ++ List.replicate 150 120)
      (B "HTTP/1.1" ++ [0] ++ List.replicate 86 0)
      (by unfold NoNul; decide!) (by unfold NoNul; decide!) (by decide!),
    getVarsResult, storeAll_query _ _ _ _ (by unfold NoNul; decide!) (by decide!)]
  decide!

/-! ## One declared cookie name whose value is in the header -/

/-- One declared cookie name that the header gives the value `v`: the value is refused
when `Write + Len` reaches the size of the storage; else it is inserted after the marker,
which has no result when the bytes that move up do not stay inside the storage. -/
theorem cookieStoreOne_found (nm pre post v : List Nat) (segs : List (Nat × List Nat))
    (hsegs : ∀ s ∈ segs, NoNul s.2 ∧ s.2.head? ≠ some 32) (hne : segs ≠ [])
    (preA X : List Nat) (tt : Nat)
    (hfind : findSeg (cstr nm) (segs.map (fun s => s.2)) = some v) :
    cookieStoreOne (pre ++ (partBytes segs ++ post)) pre.length segs.length nm
        (preA ++ 78 :: X) preA.length (preA.length + 1 + tt) =
      if preA.length + v.length ≥ WS_OPT_ARG_MEMORY_SIZE then
        some (preA ++ 78 :: X, preA.length, preA.length + 1 + tt, true)
      else if v.length + 1 + tt ≤ X.length then
        some (preA ++ 89 :: (v ++ [0] ++ (X.take tt ++ X.drop (v.length + 1 + tt))),
          preA.length + 1 + (v.length + 1), preA.length + 1 + tt + (v.length + 1), false)
      else none := by
  obtain ⟨s0, ss, rfl⟩ : ∃ s0 ss, segs = s0 :: ss := by
    cases segs with
    | nil => exact absurd rfl hne
    | cons s0 ss => exact ⟨s0, ss, rfl⟩
  obtain ⟨sp0, t0⟩ := s0
  have hskip := skip_to_part pre t0 (partBytes ss ++ post) sp0 0
    ((pre ++ (partBytes ((sp0, t0) :: ss) ++ post)).length + 1) (Nat.zero_le _)
    (hsegs (sp0, t0) (by simp)).2 (by
      rw [List.length_append, List.length_append, partBytes_length_cons]
      omega)
  have ebytes := partBytes_cons (sp0, t0) ss post
  dsimp only at ebytes
  rw [← ebytes] at hskip
  simp only [Nat.add_zero] at hskip
  obtain ⟨arg', Pos', hscan, hnone, hsome⟩ := cookieScan_parts nm ((sp0, t0) :: ss).length post
    (pre.length + post.length) ((sp0, t0) :: ss) pre 0 sp0 hsegs (Nat.zero_add _)
    (by
      intro s ss' h
      injection h with h1 h2
      rw [← h1])
  have hfuel : pre.length + post.length + ((partBytes ((sp0, t0) :: ss)).length + 1) =
      (pre ++ (partBytes ((sp0, t0) :: ss) ++ post)).length + 1 := by
    simp only [List.length_append]
    omega
  rw [hfuel] at hscan
  have hsegs2 : ∀ s ∈ ((sp0, t0) :: ss).map (fun s => s.2), NoNul s := by
    intro s hs
    obtain ⟨u, hu, rfl⟩ := List.mem_map.1 hs
    exact (hsegs u hu).1
  obtain ⟨harg, rest, hdrop⟩ := hsome v hfind
  have hv : NoNul v := findSeg_noNul _ _ hsegs2 v hfind
  have hA : (preA ++ 78 :: X).length = preA.length + 1 + X.length := by
    simp only [List.length_append, List.length_cons]
    omega
  have hstr : strlenAt (pre ++ (partBytes ((sp0, t0) :: ss) ++ post)) Pos' = some v.length := by
    unfold strlenAt
    rw [hdrop]
    exact cstrlen_append v rest hv
  have hsrc : ((pre ++ (partBytes ((sp0, t0) :: ss) ++ post)).drop Pos').take (v.length + 1)
      = v ++ [0] := by
    rw [hdrop]
    have : v ++ 0 :: rest = (v ++ [0]) ++ rest := by simp
    rw [this, List.take_left' (by simp)]
  have hA2 : preA ++ 78 :: X = (preA ++ [78]) ++ X := by simp
  have hd : preA.length + 1 = (preA ++ [78]).length := by simp
  unfold cookieStoreOne
  rw [hskip]
  dsimp only
  rw [hscan]
  dsimp only
  rw [if_pos harg, hstr]
  dsimp only
  rw [rd_at]
  dsimp only
  rw [if_neg (by decide)]
  by_cases hg : preA.length + v.length ≥ WS_OPT_ARG_MEMORY_SIZE
  · rw [if_pos hg, if_pos hg]
  · rw [if_neg hg, if_neg hg, hsrc, hA2, hd]
    by_cases hin : v.length + 1 + tt ≤ X.length
    · have hic := insertCopy_spec (preA ++ [78]) X (v ++ [0]) tt (by
        simp only [List.length_append, List.length_cons, List.length_nil]
        omega)
      have hw : wr (preA ++ [78] ++ (v ++ [0] ++ (X.take tt ++ X.drop ((v ++ [0]).length + tt))))
          preA.length 89 =
          some (preA ++ 89 :: (v ++ [0] ++ (X.take tt ++ X.drop ((v ++ [0]).length + tt)))) := by
        rw [List.append_assoc, List.singleton_append]
        exact wr_at _ _ _ _
      rw [if_pos hin, hic]
      dsimp only
      rw [hw]
      simp only [List.length_cons, List.length_append, List.length_nil,
        List.cons_append, List.append_assoc, List.singleton_append, List.nil_append,
        Nat.zero_add, List.length_singleton]
    · rw [if_neg hin]
      cases hic : WS_InsertCopy (preA ++ [78] ++ X) (preA ++ [78]).length
          ((preA ++ [78]).length + tt) (v ++ [0]) with
      | none => rfl
      | some A1 =>
        have := insertCopy_bound (preA ++ [78]) X (v ++ [0]) A1 tt (by simp) hic
        simp only [List.length_append, List.length_cons, List.length_nil] at this
        omega

/-- `WS_ProcessCookieVars` for a route with one declared cookie name that the header
gives the value `v`, in a storage where the marker of the name is `'N'`. -/
theorem processCookieVars_one (Web : WebServer) (nm v sp1 args tail preA X : List Nat)
    (tt E0 : Nat) (hnames : Web.PageProp.Cookies = some [nm])
    (h1 : WS_SkipStorageArgs Web.ArgsStorage 0 Web.PageProp.Gets = some preA.length)
    (h2 : WS_SkipStorageArgs Web.ArgsStorage preA.length Web.PageProp.Cookies = some E0)
    (h3 : WS_SkipStorageArgs Web.ArgsStorage E0 Web.PageProp.Posts
      = some (preA.length + 1 + tt))
    (hA : Web.ArgsStorage = preA ++ 78 :: X)
    (hL : Web.LineBuff = B "Cookie:" ++ (sp1 ++ (args ++ 0 :: tail)))
    (hsp1 : sp1 = [32] ∨ (sp1 = [] ∧ args.head? ≠ some 32))
    (hargs : NoNul args) (hne : args ≠ [])
    (hfind : findSeg (cstr nm) (cookiePairs args) = some v) :
    WS_ProcessCookieVars Web =
      if preA.length + v.length ≥ WS_OPT_ARG_MEMORY_SIZE then
        some { Web with
               LineBuff := (B "Cookie:" ++ sp1) ++
                 (((splitSep 59 args).map (fun s => s ++ [0])).flatten ++ tail)
               ArgsStorage := preA ++ 78 :: X
               ReplyStatus := ReplyStatus.InsufficientStorage }
      else if v.length + 1 + tt ≤ X.length then
        some { Web with
               LineBuff := (B "Cookie:" ++ sp1) ++
                 (((splitSep 59 args).map (fun s => s ++ [0])).flatten ++ tail)
               ArgsStorage := preA ++ 89 :: (v ++ [0] ++
                 (X.take tt ++ X.drop (v.length + 1 + tt))) }
      else none := by
  have hsegs : ∀ s ∈ (splitSep 59 args).map
      (fun s => (s.length - (dropSpaces s).length, dropSpaces s)),
      NoNul s.2 ∧ s.2.head? ≠ some 32 := by
    intro s hs
    obtain ⟨r, hr, rfl⟩ := List.mem_map.1 hs
    obtain ⟨_, _, h32⟩ := dropSpaces_spec r
    exact ⟨dropSpaces_noNul r (splitSep_parts_noNul 59 args hargs r hr), h32⟩
  have hsne : (splitSep 59 args).map
      (fun s => (s.length - (dropSpaces s).length, dropSpaces s)) ≠ [] := by
    intro h
    exact splitSep_ne_nil 59 args (List.map_eq_nil_iff.1 h)
  have hrests : ((splitSep 59 args).map
      (fun s => (s.length - (dropSpaces s).length, dropSpaces s))).map
        (fun s : Nat × List Nat => s.2) = cookiePairs args := by
    unfold cookiePairs
    rw [List.map_map]
    rfl
  have hone := cookieStoreOne_found nm (B "Cookie:" ++ sp1) tail v _ hsegs hsne preA X tt
    (by rw [hrests]; exact hfind)
  rw [partBytes_of_parts, List.length_map, ← hA] at hone
  have hline := processCookieVars_line Web sp1 args tail hL hsp1 hargs hne
  rw [h1] at hline
  dsimp only at hline
  rw [h2] at hline
  dsimp only at hline
  rw [h3] at hline
  dsimp only at hline
  rw [hnames] at hline
  dsimp only [Option.getD_some] at hline
  rw [cookieStoreAll, hone] at hline
  rw [hline]
  by_cases hg : preA.length + v.length ≥ WS_OPT_ARG_MEMORY_SIZE
  · rw [if_pos hg, if_pos hg]
    dsimp only
    rw [hA]
  · rw [if_neg hg, if_neg hg]
    by_cases hin : v.length + 1 + tt ≤ X.length
    · rw [if_pos hin, if_pos hin]
      rfl
    · rw [if_neg hin, if_neg hin]

/-- A line of the Headers phase that begins with `Cookie:` and for which
`WS_ProcessCookieVars` has no result. -/
theorem headerLine_cookie_none (X : WebServer) (c : Nat) (h0 : rd X.LineBuff 0 = some c)
    (hc : c ≠ 0) (hnot : startsWith X.LineBuff 0 (B "If-None-Match:") = false)
    (hck : startsWith X.LineBuff 0 (B "Cookie:") = true)
    (hnone : WS_ProcessCookieVars X = none) : headerLine X = none := by
  unfold headerLine
  rw [h0]
  simp only [hc, ↓reduceIte]
  unfold WS_ProcessHeader
  rw [hnot]
  simp only [Bool.false_eq_true, ↓reduceIte]
  unfold processHeaderRest
  rw [hck]
  simp only [↓reduceIte, hnone]

set_option maxRecDepth 1000000 in
/-- C20, what the code does: for Cookie names `[c]` the cookie marker is at offset 0
and the stored data ends at offset 1. A value of 98 bytes is stored (the data then
takes all 100 bytes), a value of 100 bytes is refused with 507, but a value of 99
bytes passes the test `(Write-StorageStart)+Len>=WS_OPT_ARG_MEMORY_SIZE` and
`WS_InsertCopy` writes its 100 bytes at the offsets 1 to 100: the terminator is
written past the end of `ArgsStorage` (no result in the model). -/
theorem C20_cookie_value_written_past_the_end :
    ((WS_ProcessCookieVars
        { sessionWith none (some [B "c"]) none (B "Cookie: c=" ++ List.replicate 98 120) with
          ArgsStorage := 78 :: List.replicate 99 0 }).map
      (fun w => (w.ReplyStatus, w.ArgsStorage))
      = some (ReplyStatus.MAX, 89 :: (List.replicate 98 120 ++ [0]))) ∧
    ((WS_ProcessCookieVars
        { sessionWith none (some [B "c"]) none (B "Cookie: c=" ++ List.replicate 100 120) with
          ArgsStorage := 78 :: List.replicate 99 0 }).map
      (fun w => (w.ReplyStatus, w.ArgsStorage))
      = some (ReplyStatus.InsufficientStorage, 78 :: List.replicate 99 0)) ∧
    WS_ProcessCookieVars
        { sessionWith none (some [B "c"]) none (B "Cookie: c=" ++ List.replicate 99 120) with
          ArgsStorage := 78 :: List.replicate 99 0 } = none ∧
    (memcpyAt (78 :: List.replicate 99 0) 1 (List.replicate 99 120)).map (fun A => rd A 100)
      = some none ∧
    WS_RunServer (oneFileTable none (some [B "c"]) none (echoArg ArgView.cookie (B "c"))) 0
        freshWeb (B "GET / HTTP/1.1\r\nCookie: c=" ++ List.replicate 99 120 ++ B "\r\n\r\n")
      = none := by
  refine ⟨?_, ?_, ?_, ?_, ?_⟩
  · rw [processCookieVars_one _ (B "c") (List.replicate 98 120) [32]
      (B "c=" ++ List.replicate 98 120) (List.replicate 147 0) [] (List.replicate 99 0) 0 1
      (by decide!) (by decide!) (by decide!) (by decide!) (by decide!) (by decide!)
      (Or.inl rfl) (by unfold NoNul; decide!) (by decide!) (by decide!)]
    decide!
  · rw [processCookieVars_one _ (B "c") (List.replicate 100 120) [32]
      (B "c=" ++ List.replicate 100 120) (List.replicate 145 0) [] (List.replicate 99 0) 0 1
      (by decide!) (by decide!) (by decide!) (by decide!) (by decide!) (by decide!)
      (Or.inl rfl) (by unfold NoNul; decide!) (by decide!) (by decide!)]
    decide!
  · rw [processCookieVars_one _ (B "c") (List.replicate 99 120) [32]
      (B "c=" ++ List.replicate 99 120) (List.replicate 146 0) [] (List.replicate 99 0) 0 1
      (by decide!) (by decide!) (by decide!) (by decide!) (by decide!) (by decide!)
      (Or.inl rfl) (by unfold NoNul; decide!) (by decide!) (by decide!)]
    decide!
  · rw [memcpyAt_spec _ _ _ (by decide!)]
    decide!
  · have t1 : turnsFrom (oneFileTable none (some [B "c"]) none (echoArg ArgView.cookie (B "c")))
        0 1 freshWeb (B "GET / HTTP/1.1\r\nCookie: c=" ++ List.replicate 99 120 ++ B "\r\n\r\n")
        = some (sessionAfter (oneFileTable none (some [B "c"]) none
              (echoArg ArgView.cookie (B "c"))) 1 (B "GET / HTTP/1.1\r\n"),
            (B "Cookie: c=" ++ List.replicate 99 120 ++ B "\r") ++ 10 :: B "\r\n") := by
      decide!
    have hck : WS_ProcessCookieVars
        { sessionAfter (oneFileTable none (some [B "c"]) none
            (echoArg ArgView.cookie (B "c"))) 1 (B "GET / HTTP/1.1\r\n") with
          LineBuff := stripCR (B "Cookie: c=" ++ List.replicate 99 120 ++ B "\r") ++
            0 :: (sessionAfter (oneFileTable none (some [B "c"]) none
              (echoArg ArgView.cookie (B "c"))) 1 (B "GET / HTTP/1.1\r\n")).LineBuff.drop
                ((stripCR (B "Cookie: c=" ++ List.replicate 99 120 ++ B "\r")).length + 1)
          LineBuffPos := 0 } = none := by
      rw [processCookieVars_one _ (B "c") (List.replicate 99 120) [32]
        (B "c=" ++ List.replicate 99 120) (List.replicate 146 0) [] (List.replicate 99 0) 0 1
        (by decide!) (by decide!) (by decide!) (by decide!) (by decide!) (by decide!)
        (Or.inl rfl) (by unfold NoNul; decide!) (by decide!) (by decide!)]
      decide!
    rw [WS_RunServer, runServer_turns _ _ 1 _ _ _ _ t1 (by decide), runServer_first,
      serverTurn_headerLine _ _ _ _ _ (by decide!) (by decide!) (by decide!) (by decide!)
        (by decide!),
      headerLine_cookie_none _ 67 (by decide!) (by decide) (by decide!) (by decide!) hck]
    rfl

end BittyHTTP
